import Mathlib

/-!
# The s390 macro-assembler: emitted code and its behaviour

A shallow embedding of `deps/v8z/src/s390/macro-assembler-s390.cc`.

* Every `MacroAssembler::F` is a function `F` in the emission monad `Emit`; it
  appends instructions to the instruction stream exactly as the C++ body does,
  and an `ASSERT` that fails aborts emission (`none`).
* The instruction encoder (`Assembler`), the register names and the heap /
  frame constants are not part of that file.  The instructions are given their
  z/Architecture meaning by `step`; the constants are listed once, below.
* `run` executes an emitted instruction list on a machine state: sixteen
  64-bit general registers, the condition code, and a byte-addressed
  big-endian memory.
-/

namespace S390

/-! ## Target configuration -/

/-- Compile-time switches consulted by the macro-assembler. -/
structure Config where
  /-- `V8_TARGET_ARCH_S390X`: the 64-bit target; otherwise the 31-bit one. -/
  is64 : Bool
  /-- `CpuFeatures::IsSupported(DISTINCT_OPS)`. -/
  distinct_ops : Bool
  /-- `CpuFeatures::IsSupported(GENERAL_INSTR_EXT)`. -/
  general_instr_ext : Bool
  /-- `emit_debug_code()`. -/
  emit_debug_code : Bool
  /-- `FLAG_inline_new`. -/
  FLAG_inline_new : Bool
  /-- `__BYTE_ORDER == __LITTLE_ENDIAN`: the code is generated for the
  simulator on a little-endian host. -/
  little_endian_host : Bool
  /-- The assembler flag `allow_stub_calls_`. -/
  allow_stub_calls : Bool
  deriving DecidableEq, Repr

def kPointerSize (cfg : Config) : Nat := if cfg.is64 then 8 else 4

def kPointerSizeLog2 (cfg : Config) : Nat := if cfg.is64 then 3 else 2

/-- Width in bits of a pointer-size register operand. -/
def kBitsPerPointer (cfg : Config) : Nat := if cfg.is64 then 64 else 32

/-- Width in bits of an effective address: 64-bit or 31-bit addressing mode. -/
def addrBits (cfg : Config) : Nat := if cfg.is64 then 64 else 31

def kHeapObjectTag : Int := 1

def kHeapObjectTagMask : Int := 3

def kSmiTag : Int := 0

def kSmiTagMask : Int := 1

/-- Shift that turns an integer into a tagged small integer: the payload lives
in the upper word on the 64-bit target and above the tag bit otherwise. -/
def kSmiShift (cfg : Config) : Nat := if cfg.is64 then 32 else 1

def kObjectAlignmentMask (cfg : Config) : Int := (kPointerSize cfg : Int) - 1

/-! ## Registers and operands -/

structure Register where
  code : Int
  deriving DecidableEq, Repr

def no_reg : Register := ⟨-1⟩
def r0 : Register := ⟨0⟩
def r1 : Register := ⟨1⟩
def r2 : Register := ⟨2⟩
def r3 : Register := ⟨3⟩
def r4 : Register := ⟨4⟩
def r5 : Register := ⟨5⟩
def r6 : Register := ⟨6⟩
def r7 : Register := ⟨7⟩
def r8 : Register := ⟨8⟩
def r9 : Register := ⟨9⟩
def r10 : Register := ⟨10⟩
def r11 : Register := ⟨11⟩
def r12 : Register := ⟨12⟩
def r13 : Register := ⟨13⟩
def r14 : Register := ⟨14⟩
def r15 : Register := ⟨15⟩

/-- Frame pointer. -/
def fp : Register := r11
/-- The caller-transient scratch register. -/
def ip : Register := r12
/-- Context pointer. -/
def cp : Register := r13
/-- Stack pointer. -/
def sp : Register := r15
/-- Root-table pointer. -/
def kRootRegister : Register := r10

/-- A floating-point register, by its number. -/
structure DoubleRegister where
  code : Int
  deriving DecidableEq, Repr

/-- The register `DoubleRegister::from_code(code)`. -/
def DoubleRegister.from_code (code : Int) : DoubleRegister := ⟨code⟩

def DoubleRegister.is_valid (r : DoubleRegister) : Bool := decide (0 ≤ r.code ∧ r.code < 16)

/-- The register number that follows `r` in a register range, wrapping from 15
to 0 as STM/LM do. -/
def Register.succ (r : Register) : Register := ⟨(r.code + 1) % 16⟩

/-- Relocation kinds of an immediate operand. -/
inductive RelocMode
  | NONE
  | CODE_TARGET
  | CODE_TARGET_WITH_ID
  | RUNTIME_ENTRY
  | EXTERNAL_REFERENCE
  | EMBEDDED_OBJECT
  deriving DecidableEq, Repr

/-- An immediate operand: value and relocation kind. -/
structure Operand where
  imm_ : Int
  rmode_ : RelocMode
  deriving DecidableEq, Repr

def Operand.immediate (o : Operand) : Int := o.imm_

/-- The operand `Operand(v)` for a plain integer. -/
def Operand.ofInt (v : Int) : Operand := ⟨v, RelocMode.NONE⟩

def Operand.Zero : Operand := ⟨0, RelocMode.NONE⟩

/-- A memory reference: base register, index register (`r0` when absent) and
displacement. -/
structure MemOperand where
  rb : Register
  rx : Register
  offset : Int
  deriving DecidableEq, Repr

/-- The operand `MemOperand(rn, offset)`. -/
def MemOperand.mk1 (rn : Register) (offset : Int) : MemOperand := ⟨rn, r0, offset⟩

/-- The operand `MemOperand(rx, rb)` with a zero displacement. -/
def MemOperand.mk2 (rx rb : Register) : MemOperand := ⟨rb, rx, 0⟩

/-- The operand `FieldMemOperand(object, offset)`: the field of a tagged heap
object. -/
def FieldMemOperand (object : Register) (offset : Int) : MemOperand :=
  MemOperand.mk1 object (offset - kHeapObjectTag)

abbrev Label := Nat

/-! ## Branch conditions (masks over the condition code) -/

abbrev Condition := Nat

def eq : Condition := 0x8
def ne : Condition := 0x7
def ge : Condition := 0xa
def lt : Condition := 0x4
def gt : Condition := 0x2
def le : Condition := 0xc
def al : Condition := 0xf
def CC_OF : Condition := 0x1

/-! ## Integer range predicates and C casts -/

def is_int16 (x : Int) : Bool := decide (-32768 ≤ x ∧ x ≤ 32767)

def is_uint16 (x : Int) : Bool := decide (0 ≤ x ∧ x ≤ 65535)

def is_uint8 (x : Int) : Bool := decide (0 ≤ x ∧ x ≤ 255)

def is_uint12 (x : Int) : Bool := decide (0 ≤ x ∧ x ≤ 4095)

def is_int20 (x : Int) : Bool := decide (-524288 ≤ x ∧ x ≤ 524287)

def is_int32 (x : Int) : Bool := decide (-2147483648 ≤ x ∧ x ≤ 2147483647)

def is_uint32 (x : Int) : Bool := decide (0 ≤ x ∧ x ≤ 4294967295)

/-- The cast `static_cast<int32_t>(x)`. -/
def toInt32 (x : Int) : Int := (x + 2147483648) % 4294967296 - 2147483648

/-- The cast `static_cast<int64_t>(x)` / `intptr_t` on the 64-bit target. -/
def toInt64 (x : Int) : Int :=
  (x + 9223372036854775808) % 18446744073709551616 - 9223372036854775808

/-- The cast to `intptr_t` of the target. -/
def toIntPtr (cfg : Config) (x : Int) : Int := if cfg.is64 then toInt64 x else toInt32 x

/-! ## Instructions -/

/-- The instructions the macro-assembler emits, named as the encoder names
them, together with two pseudo-instructions: `bind` marks the position a label
is bound to, `abort` stands for the non-returning call sequence of `Abort`. -/
inductive Instr
  | iihf (r : Register) (i : Int)
  | iilf (r : Register) (i : Int)
  | llihf (r : Register) (i : Int)
  | llilf (r : Register) (i : Int)
  | lghi (r : Register) (i : Int)
  | lhi (r : Register) (i : Int)
  | lgr (d s : Register)
  | lr (d s : Register)
  | lg (d : Register) (m : MemOperand)
  | l (d : Register) (m : MemOperand)
  | ly (d : Register) (m : MemOperand)
  | lgf (d : Register) (m : MemOperand)
  | llgf (d : Register) (m : MemOperand)
  | lgh (d : Register) (m : MemOperand)
  | lh (d : Register) (m : MemOperand)
  | lhy (d : Register) (m : MemOperand)
  | ld (d : DoubleRegister) (m : MemOperand)
  | ldy (d : DoubleRegister) (m : MemOperand)
  | stg (s : Register) (m : MemOperand)
  | st (s : Register) (m : MemOperand)
  | sty (s : Register) (m : MemOperand)
  | sth (s : Register) (m : MemOperand)
  | sthy (s : Register) (m : MemOperand)
  | stc (s : Register) (m : MemOperand)
  | stcy (s : Register) (m : MemOperand)
  | std (s : DoubleRegister) (m : MemOperand)
  | stdy (s : DoubleRegister) (m : MemOperand)
  | stmg (a b : Register) (m : MemOperand)
  | stm (a b : Register) (m : MemOperand)
  | stmy (a b : Register) (m : MemOperand)
  | agr (d s : Register)
  | ar (d s : Register)
  | agrk (d s1 s2 : Register)
  | ark (d s1 s2 : Register)
  | aghi (r : Register) (i : Int)
  | agfi (r : Register) (i : Int)
  | ahi (r : Register) (i : Int)
  | afi (r : Register) (i : Int)
  | aghik (d s : Register) (i : Int)
  | ahik (d s : Register) (i : Int)
  | cgr (a b : Register)
  | cr_z (a b : Register)
  | cghi (r : Register) (i : Int)
  | chi (r : Register) (i : Int)
  | cgfi (r : Register) (i : Int)
  | cfi (r : Register) (i : Int)
  | cg (r : Register) (m : MemOperand)
  | c (r : Register) (m : MemOperand)
  | cy (r : Register) (m : MemOperand)
  | clgr (a b : Register)
  | clr (a b : Register)
  | ngr (d s : Register)
  | nr (d s : Register)
  | ngrk (d s1 s2 : Register)
  | nrk (d s1 s2 : Register)
  | nill (r : Register) (i : Int)
  | nilf (r : Register) (i : Int)
  | nihf (r : Register) (i : Int)
  | nilh (r : Register) (i : Int)
  | sllg (d s : Register) (n : Int)
  | sll (d : Register) (n : Int)
  | sllk (d s : Register) (n : Int)
  | srl (d : Register) (n : Int)
  | sra (d : Register) (n : Int)
  | srak (d s : Register) (n : Int)
  | srag (d s : Register) (n : Int)
  | risbg (d s : Register) (i3 i4 i5 : Int) (zero_remaining : Bool)
  | tmll (r : Register) (i : Int)
  | tm (m : MemOperand) (i : Int)
  | la (r : Register) (m : MemOperand)
  | lay (r : Register) (m : MemOperand)
  | mvc (d s : MemOperand) (length : Nat)
  | sgr (d s : Register)
  | sr (d s : Register)
  | sgrk (d s1 s2 : Register)
  | srk (d s1 s2 : Register)
  | lcgr (d s : Register)
  | lcr (d s : Register)
  | ltgr (d s : Register)
  | ltr (d s : Register)
  | ogr (d s : Register)
  | or_z (d s : Register)
  | ogrk (d s1 s2 : Register)
  | ork (d s1 s2 : Register)
  | xgr (d s : Register)
  | xr (d s : Register)
  | xgrk (d s1 s2 : Register)
  | xrk (d s1 s2 : Register)
  | oihf (r : Register) (i : Int)
  | oilf (r : Register) (i : Int)
  | xihf (r : Register) (i : Int)
  | xilf (r : Register) (i : Int)
  | ag (d : Register) (m : MemOperand)
  | a (d : Register) (m : MemOperand)
  | ay (d : Register) (m : MemOperand)
  | agf (d : Register) (m : MemOperand)
  | sg (d : Register) (m : MemOperand)
  | s (d : Register) (m : MemOperand)
  | sy (d : Register) (m : MemOperand)
  | sgf (d : Register) (m : MemOperand)
  | alg (d : Register) (m : MemOperand)
  | al_z (d : Register) (m : MemOperand)
  | aly (d : Register) (m : MemOperand)
  | sl (d : Register) (m : MemOperand)
  | sly (d : Register) (m : MemOperand)
  | slgf (d : Register) (m : MemOperand)
  | msg (d : Register) (m : MemOperand)
  | ms (d : Register) (m : MemOperand)
  | msy (d : Register) (m : MemOperand)
  | ng (d : Register) (m : MemOperand)
  | n (d : Register) (m : MemOperand)
  | ny (d : Register) (m : MemOperand)
  | og (d : Register) (m : MemOperand)
  | o (d : Register) (m : MemOperand)
  | oy (d : Register) (m : MemOperand)
  | xg (d : Register) (m : MemOperand)
  | x (d : Register) (m : MemOperand)
  | xy (d : Register) (m : MemOperand)
  | clg (r : Register) (m : MemOperand)
  | cl (r : Register) (m : MemOperand)
  | cly (r : Register) (m : MemOperand)
  | brc (mask : Condition) (target : Label)
  | clgfi (r : Register) (i : Int)
  | clfi (r : Register) (i : Int)
  | srlk (d s : Register) (n : Int)
  | srlg (d s : Register) (n : Int)
  | sllg_r (d s b : Register)
  | sll_r (d b : Register)
  | sllk_r (d s b : Register)
  | llh (d : Register) (m : MemOperand)
  | lrvh (d : Register) (m : MemOperand)
  | lrv (d : Register) (m : MemOperand)
  | strv (d : Register) (m : MemOperand)
  | bcr (mask : Condition) (r : Register)
  | basr (r1 r2 : Register)
  | bind (l : Label)
  | abort
  deriving Repr

/-- A register number that an instruction field can hold. -/
def Register.is_valid (r : Register) : Bool := decide (0 ≤ r.code ∧ r.code < 16)

/-- A memory operand for the short forms: unsigned 12-bit displacement. -/
def MemOperand.fits12 (m : MemOperand) : Bool :=
  m.rb.is_valid && m.rx.is_valid && is_uint12 m.offset

/-- A memory operand for the long-displacement forms: signed 20-bit
displacement. -/
def MemOperand.fits20 (m : MemOperand) : Bool :=
  m.rb.is_valid && m.rx.is_valid && is_int20 m.offset

/-- A 32-bit immediate field: the encoder takes a signed or an unsigned
32-bit quantity. -/
def is_imm32 (i : Int) : Bool := is_int32 i || is_uint32 i

/-- Modelled from the spec: the instruction encoder is not in the repository
file; as the spec states, an operand outside the limits of the instruction
form is a contract violation caught at emission time.  The limits are those of
the instruction formats: register numbers 0..15, signed 16-bit immediates for
the halfword-immediate forms, 32-bit immediates for the fullword-immediate
forms, unsigned 12-bit and signed 20-bit displacements. -/
def Instr.encodable : Instr → Bool
  | .iihf r i | .iilf r i | .llihf r i | .llilf r i => r.is_valid && is_imm32 i
  | .lghi r i | .lhi r i | .aghi r i | .ahi r i | .cghi r i | .chi r i =>
      r.is_valid && is_int16 i
  | .agfi r i | .afi r i | .cgfi r i | .cfi r i => r.is_valid && is_int32 i
  | .aghik d q i | .ahik d q i => d.is_valid && q.is_valid && is_int16 i
  | .lgr d q | .lr d q | .agr d q | .ar d q | .cgr d q | .cr_z d q | .clgr d q
  | .clr d q | .ngr d q | .nr d q => d.is_valid && q.is_valid
  | .agrk d p b | .ark d p b | .ngrk d p b | .nrk d p b =>
      d.is_valid && p.is_valid && b.is_valid
  | .lg d m | .ly d m | .stg d m | .sty d m | .cg d m | .cy d m | .lay d m
  | .lgf d m | .llgf d m | .lgh d m | .lhy d m | .sthy d m | .stcy d m =>
      d.is_valid && m.fits20
  | .l d m | .st d m | .c d m | .la d m | .lh d m | .sth d m | .stc d m =>
      d.is_valid && m.fits12
  | .ld d m | .std d m => d.is_valid && m.fits12
  | .ldy d m | .stdy d m => d.is_valid && m.fits20
  | .stmg p b m | .stmy p b m => p.is_valid && b.is_valid && m.fits20 && m.rx == r0
  | .stm p b m => p.is_valid && b.is_valid && m.fits12 && m.rx == r0
  | .nill r i | .nilh r i => r.is_valid && is_uint16 i
  | .nilf r i | .nihf r i => r.is_valid && is_imm32 i
  | .sllg d q k | .srag d q k => d.is_valid && q.is_valid && is_int20 k
  | .sll d k | .srl d k | .sra d k => d.is_valid && is_uint12 k
  | .sllk d q k | .srak d q k => d.is_valid && q.is_valid && is_int20 k
  | .risbg d q i3 i4 i5 _ =>
      d.is_valid && q.is_valid && is_uint8 i3 && is_uint8 i4 && is_uint8 i5
  | .tmll r i => r.is_valid && is_uint16 i
  | .tm m i => m.fits12 && m.rx == r0 && is_uint8 i
  | .mvc d q k => d.fits12 && d.rx == r0 && q.fits12 && q.rx == r0 && decide (1 ≤ k ∧ k ≤ 256)
  | .sgr d q | .sr d q | .lcgr d q | .lcr d q | .ltgr d q | .ltr d q | .ogr d q | .or_z d q
  | .xgr d q | .xr d q => d.is_valid && q.is_valid
  | .sgrk d p b | .srk d p b | .ogrk d p b | .ork d p b | .xgrk d p b | .xrk d p b =>
      d.is_valid && p.is_valid && b.is_valid
  | .oihf r i | .oilf r i | .xihf r i | .xilf r i => r.is_valid && is_imm32 i
  | .ag d m | .ay d m | .agf d m | .sg d m | .sy d m | .sgf d m | .alg d m | .aly d m
  | .sly d m | .slgf d m | .msg d m | .msy d m | .ng d m | .ny d m | .og d m | .oy d m
  | .xg d m | .xy d m | .clg d m | .cly d m => d.is_valid && m.fits20
  | .a d m | .s d m | .al_z d m | .sl d m | .ms d m | .n d m | .o d m | .x d m | .cl d m =>
      d.is_valid && m.fits12
  | .clgfi r i | .clfi r i => r.is_valid && is_imm32 i
  | .srlk d q k | .srlg d q k => d.is_valid && q.is_valid && is_int20 k
  | .sllg_r d q b | .sllk_r d q b => d.is_valid && q.is_valid && b.is_valid
  | .sll_r d b => d.is_valid && b.is_valid
  | .llh d m | .lrvh d m | .lrv d m | .strv d m => d.is_valid && m.fits20
  | .brc mask _ => decide (mask < 16)
  | .bcr mask r => decide (mask < 16) && r.is_valid
  | .basr p b => p.is_valid && b.is_valid
  | .bind _ => true
  | .abort => true

/-! ## The emission monad -/

/-- The assembler state that the modelled functions read or change: the
instruction stream emitted so far, the number of labels created, the
`has_frame_` flag, and whether an assertion has failed. -/
structure Asm where
  code : List Instr
  labels : Nat
  has_frame : Bool
  failed : Bool
  deriving Repr

/-- Code emission: a state transformer over `Asm`.  A failed assertion stops
the C++ emitter; here it sets `failed`, after which the emitted code is
disregarded (see `codeOf`). -/
structure Emit (α : Type) where
  run : Asm → α × Asm

@[noinline] def Emit.pure {α : Type} (a : α) : Emit α := ⟨fun s => (a, s)⟩

@[noinline] def Emit.bind {α β : Type} (x : Emit α) (f : α → Emit β) : Emit β :=
  ⟨fun s => (f (x.run s).1).run (x.run s).2⟩

instance : Monad Emit where
  pure := Emit.pure
  bind := Emit.bind

/-- Append one instruction, checking it against its instruction format. -/
def emit (i : Instr) : Emit Unit :=
  ⟨fun s => ((), { s with code := s.code ++ [i], failed := s.failed || !i.encodable })⟩

/-- The macro `ASSERT(cond)`. -/
def ASSERT (cond : Bool) : Emit Unit :=
  ⟨fun s => ((), { s with failed := s.failed || !cond })⟩

/-- A declaration `Label L;`: a label distinct from all labels made before. -/
def newLabel : Emit Label := ⟨fun s => (s.labels, { s with labels := s.labels + 1 })⟩

/-- The call `bind(&L)`. -/
def bind (l : Label) : Emit Unit := emit (Instr.bind l)

def has_frame : Emit Bool := ⟨fun s => (s.has_frame, s)⟩

/-- The emitted code of `e` started from an empty assembler (without a frame
unless `frame`), or `none` if an assertion fails. -/
def codeOf (e : Emit Unit) (frame : Bool) : Option (List Instr) :=
  let s := (e.run ⟨[], 0, frame, false⟩).2
  if s.failed then none else some s.code

/-! ## Machine state -/

/-- The machine the emitted code runs on: sixteen 64-bit general registers
(indexed by register), the condition code (0..3), a byte-addressed memory and
the 64-bit floating-point registers. -/
structure Machine where
  regs : Register → Nat
  cc : Nat
  mem : Nat → Nat
  fregs : DoubleRegister → Nat

def M16 : Nat := 65536
def M32 : Nat := 4294967296
def M64 : Nat := 18446744073709551616

/-- The modulus of pointer-size arithmetic, `2 ^ kBitsPerPointer`. -/
def ptrMod (cfg : Config) : Nat := if cfg.is64 then M64 else M32

/-- The modulus of effective addresses, `2 ^ addrBits`. -/
def addrMod (cfg : Config) : Nat := if cfg.is64 then M64 else 2147483648

def Machine.setReg (m : Machine) (r : Register) (v : Nat) : Machine :=
  { m with regs := fun x => if x = r then v else m.regs x }

def Machine.setCC (m : Machine) (c : Nat) : Machine := { m with cc := c }

def lo32 (v : Nat) : Nat := v % M32

def hi32 (v : Nat) : Nat := v / M32 % M32

/-- Replace bits 32..63 (the low word) of a 64-bit register value. -/
def setLo32 (v x : Nat) : Nat := hi32 v * M32 + x % M32

/-- Replace bits 0..31 (the high word) of a 64-bit register value. -/
def setHi32 (v x : Nat) : Nat := (x % M32) * M32 + lo32 v

/-- Replace bits 48..63 (the low halfword) of a 64-bit register value. -/
def setLo16 (v x : Nat) : Nat := (v % M64) / M16 * M16 + x % M16

/-- The pointer-size contents of a register: all 64 bits on the 64-bit
target, the low word on the 31-bit target. -/
def Machine.regP (cfg : Config) (m : Machine) (r : Register) : Nat :=
  m.regs r % ptrMod cfg

/-- Write a pointer-size value to a register, as the pointer-size
instructions of the target do (the high word is kept on the 31-bit target). -/
def Machine.setRegP (cfg : Config) (m : Machine) (r : Register) (v : Nat) : Machine :=
  if cfg.is64 then m.setReg r (v % M64) else m.setReg r (setLo32 (m.regs r) v)

/-- Two's-complement reading of `v` modulo `n` (`n` a power of two). -/
def signedOf (n : Nat) (v : Nat) : Int :=
  if v % n < n / 2 then ((v % n : Nat) : Int) else ((v % n : Nat) : Int) - (n : Int)

/-- The residue of an integer modulo `n`, as a natural number. -/
def unsignedOf (n : Nat) (i : Int) : Nat := (i % (n : Int)).toNat

/-- Sign-extension of the low 16 bits of an immediate field. -/
def toInt16 (x : Int) : Int := (x + 32768) % 65536 - 32768

/-- Condition code of a signed addition modulo `n`: 0 zero, 1 negative,
2 positive, 3 overflow. -/
def addCC (n : Nat) (a b : Nat) : Nat :=
  let s := signedOf n a + signedOf n b
  if s < -((n / 2 : Nat) : Int) ∨ ((n / 2 : Nat) : Int) ≤ s then 3
  else if s = 0 then 0 else if s < 0 then 1 else 2

/-- Condition code of a signed comparison: 0 equal, 1 first operand low,
2 first operand high. -/
def cmpCC (a b : Int) : Nat := if a = b then 0 else if a < b then 1 else 2

/-- Condition code of a logical (unsigned) comparison. -/
def cmpLogicalCC (a b : Nat) : Nat := if a = b then 0 else if a < b then 1 else 2

/-- Condition code of a logical operation: 0 result zero, 1 result not zero. -/
def logicCC (v : Nat) : Nat := if v = 0 then 0 else 1

/-- Condition code of a signed result: 0 zero, 1 negative, 2 positive. -/
def signCC (n : Nat) (v : Nat) : Nat :=
  if v % n = 0 then 0 else if signedOf n v < 0 then 1 else 2

/-- Condition code of TEST UNDER MASK on a field of `bits` bits: 0 selected
bits all zero (or mask zero), 3 all ones, otherwise mixed: 1, or for the
halfword forms 2 when the leftmost selected bit is one. -/
def tmCC (bits : Nat) (v mask : Nat) : Nat :=
  let sel := Nat.land (v % 2 ^ bits) (mask % 2 ^ bits)
  if sel = 0 then 0
  else if sel = mask % 2 ^ bits then 3
  else if bits = 16 ∧ Nat.land sel (2 ^ Nat.log2 (mask % 2 ^ bits)) ≠ 0 then 2
  else 1

/-- Whether the branch mask selects the condition code. -/
def condHolds (mask : Condition) (cc : Nat) : Bool := (mask / 2 ^ (3 - cc)) % 2 == 1

/-! ### Memory -/

/-- Big-endian value of the `n` bytes at `a`, addresses wrapping at the end of
the address space. -/
def readBytes (cfg : Config) (mem : Nat → Nat) (a : Nat) : Nat → Nat
  | 0 => 0
  | n + 1 => readBytes cfg mem a n * 256 + mem ((a + n) % addrMod cfg) % 256

/-- Store the low `n` bytes of `v`, big-endian, at `a`. -/
def writeBytes (cfg : Config) (mem : Nat → Nat) (a : Nat) : Nat → Nat → Nat → Nat
  | 0, _ => mem
  | n + 1, v => fun x =>
      if x = (a + n) % addrMod cfg then v % 256 else writeBytes cfg mem a n (v / 256) x

/-- The pointer-size word stored at address `a`. -/
def loadPtr (cfg : Config) (mem : Nat → Nat) (a : Nat) : Nat :=
  readBytes cfg mem a (kPointerSize cfg)

/-- A register used as base or index: register 0 contributes zero. -/
def Machine.base (m : Machine) (r : Register) : Nat := if r = r0 then 0 else m.regs r

/-- Effective address of a memory operand. -/
def effAddr (cfg : Config) (m : Machine) (op : MemOperand) : Nat :=
  unsignedOf (addrMod cfg) ((m.base op.rb : Int) + (m.base op.rx : Int) + op.offset)

def Machine.store (cfg : Config) (m : Machine) (a n v : Nat) : Machine :=
  { m with mem := writeBytes cfg m.mem a n v }

/-- Store `count` registers starting with `r` in consecutive slots of `width`
bytes (STM / STMG). -/
def storeMultiple (cfg : Config) (width : Nat) : Nat → Register → Nat → Machine → Machine
  | 0, _, _, m => m
  | count + 1, r, a, m =>
      storeMultiple cfg width count r.succ (a + width) (m.store cfg a width (m.regs r))

/-- Copy `n` bytes from `src` to `dst`, one byte at a time from the left
(MVC). -/
def copyBytes (cfg : Config) (dst src : Nat) : Nat → (Nat → Nat) → Nat → Nat
  | 0, mem => mem
  | n + 1, mem =>
      let mem1 := copyBytes cfg dst src n mem
      fun x => if x = (dst + n) % addrMod cfg then mem1 ((src + n) % addrMod cfg) % 256
               else mem1 x

/-- The bits selected by ROTATE THEN INSERT SELECTED BITS, positions counted
from the most significant bit (0) to the least significant (63). -/
def risbgMask (first last : Nat) : Nat :=
  if first ≤ last then 2 ^ (64 - first) - 2 ^ (63 - last)
  else (M64 - 1) - (2 ^ (63 - last) - 2 ^ (64 - first))

def rotl64 (v n : Nat) : Nat := ((v % M64) * 2 ^ (n % 64)) % M64 + (v % M64) / 2 ^ (64 - n % 64)

/-- The low `n` bytes of `v` in reverse order (the load-reversed and
store-reversed instructions). -/
def reverseBytes : Nat → Nat → Nat
  | 0, _ => 0
  | n + 1, v => (v % 256) * 256 ^ n + reverseBytes n (v / 256)

/-! ### Instruction semantics -/

/-- What one instruction does to control: continue with the next instruction,
branch to a label, branch to an address held in a register, call the code at
an address (control comes back to the next instruction), or abort. -/
inductive Next
  | continue (m : Machine)
  | goto (l : Label) (m : Machine)
  | jump (addr : Nat) (m : Machine)
  | call (target : Nat) (m : Machine)
  | abort (m : Machine)

/-- 64-bit signed addition `d := a + b`, setting the condition code. -/
def add64 (m : Machine) (d : Register) (a b : Nat) : Machine :=
  (m.setReg d ((a % M64 + b % M64) % M64)).setCC (addCC M64 a b)

/-- 32-bit signed addition into the low word of `d`, setting the condition
code. -/
def add32 (m : Machine) (d : Register) (a b : Nat) : Machine :=
  (m.setReg d (setLo32 (m.regs d) (a % M32 + b % M32))).setCC (addCC M32 a b)

/-- 64-bit AND into `d`. -/
def and64 (m : Machine) (d : Register) (a b : Nat) : Machine :=
  (m.setReg d (Nat.land (a % M64) (b % M64))).setCC (logicCC (Nat.land (a % M64) (b % M64)))

/-- 32-bit AND into the low word of `d`. -/
def and32 (m : Machine) (d : Register) (a b : Nat) : Machine :=
  (m.setReg d (setLo32 (m.regs d) (Nat.land (a % M32) (b % M32)))).setCC
    (logicCC (Nat.land (a % M32) (b % M32)))

/-- Condition code of a signed subtraction modulo `n`: 0 zero, 1 negative,
2 positive, 3 overflow. -/
def subCC (n : Nat) (a b : Nat) : Nat :=
  let s := signedOf n a - signedOf n b
  if s < -((n / 2 : Nat) : Int) ∨ ((n / 2 : Nat) : Int) ≤ s then 3
  else if s = 0 then 0 else if s < 0 then 1 else 2

/-- Condition code of a logical addition modulo `n`: 0 zero without carry,
1 not zero without carry, 2 zero with carry, 3 not zero with carry. -/
def addLogicalCC (n : Nat) (a b : Nat) : Nat :=
  if a % n + b % n < n then (if a % n + b % n = 0 then 0 else 1)
  else (if (a % n + b % n) % n = 0 then 2 else 3)

/-- Condition code of a logical subtraction modulo `n`: 1 not zero with
borrow, 2 zero without borrow, 3 not zero without borrow. -/
def subLogicalCC (n : Nat) (a b : Nat) : Nat :=
  if a % n < b % n then 1 else if a % n = b % n then 2 else 3

/-- 64-bit signed subtraction `d := a - b`, setting the condition code. -/
def sub64 (m : Machine) (d : Register) (a b : Nat) : Machine :=
  (m.setReg d ((a % M64 + (M64 - b % M64)) % M64)).setCC (subCC M64 a b)

/-- 32-bit signed subtraction into the low word of `d`, setting the condition
code. -/
def sub32 (m : Machine) (d : Register) (a b : Nat) : Machine :=
  (m.setReg d (setLo32 (m.regs d) (a % M32 + (M32 - b % M32)))).setCC (subCC M32 a b)

/-- 64-bit OR into `d`. -/
def or64 (m : Machine) (d : Register) (a b : Nat) : Machine :=
  (m.setReg d (Nat.lor (a % M64) (b % M64))).setCC (logicCC (Nat.lor (a % M64) (b % M64)))

/-- 32-bit OR into the low word of `d`. -/
def or32 (m : Machine) (d : Register) (a b : Nat) : Machine :=
  (m.setReg d (setLo32 (m.regs d) (Nat.lor (a % M32) (b % M32)))).setCC
    (logicCC (Nat.lor (a % M32) (b % M32)))

/-- 64-bit exclusive OR into `d`. -/
def xor64 (m : Machine) (d : Register) (a b : Nat) : Machine :=
  (m.setReg d (Nat.xor (a % M64) (b % M64))).setCC (logicCC (Nat.xor (a % M64) (b % M64)))

/-- 32-bit exclusive OR into the low word of `d`. -/
def xor32 (m : Machine) (d : Register) (a b : Nat) : Machine :=
  (m.setReg d (setLo32 (m.regs d) (Nat.xor (a % M32) (b % M32)))).setCC
    (logicCC (Nat.xor (a % M32) (b % M32)))

/-- 64-bit logical addition `d := a + b`, setting the condition code. -/
def addLogical64 (m : Machine) (d : Register) (a b : Nat) : Machine :=
  (m.setReg d ((a % M64 + b % M64) % M64)).setCC (addLogicalCC M64 a b)

/-- 32-bit logical addition into the low word of `d`. -/
def addLogical32 (m : Machine) (d : Register) (a b : Nat) : Machine :=
  (m.setReg d (setLo32 (m.regs d) (a % M32 + b % M32))).setCC (addLogicalCC M32 a b)

/-- 64-bit logical subtraction `d := a - b`, setting the condition code. -/
def subLogical64 (m : Machine) (d : Register) (a b : Nat) : Machine :=
  (m.setReg d ((a % M64 + (M64 - b % M64)) % M64)).setCC (subLogicalCC M64 a b)

/-- 32-bit logical subtraction into the low word of `d`. -/
def subLogical32 (m : Machine) (d : Register) (a b : Nat) : Machine :=
  (m.setReg d (setLo32 (m.regs d) (a % M32 + (M32 - b % M32)))).setCC (subLogicalCC M32 a b)

/-- 64-bit multiplication `d := a * b`; the condition code is unchanged. -/
def mul64 (m : Machine) (d : Register) (a b : Nat) : Machine :=
  m.setReg d ((a % M64) * (b % M64) % M64)

/-- 32-bit multiplication into the low word of `d`; the condition code is
unchanged. -/
def mul32 (m : Machine) (d : Register) (a b : Nat) : Machine :=
  m.setReg d (setLo32 (m.regs d) ((a % M32) * (b % M32)))

/-- The z/Architecture meaning of one instruction.  `link` is the address of
the instruction that follows (what BASR leaves in its first operand). -/
def step (cfg : Config) (link : Nat) (m : Machine) : Instr → Next
  | .iihf r i => .continue (m.setReg r (setHi32 (m.regs r) (unsignedOf M32 i)))
  | .iilf r i => .continue (m.setReg r (setLo32 (m.regs r) (unsignedOf M32 i)))
  | .llihf r i => .continue (m.setReg r (unsignedOf M32 i * M32))
  | .llilf r i => .continue (m.setReg r (unsignedOf M32 i))
  | .lghi r i => .continue (m.setReg r (unsignedOf M64 (toInt16 i)))
  | .lhi r i => .continue (m.setReg r (setLo32 (m.regs r) (unsignedOf M32 (toInt16 i))))
  | .lgr d s => .continue (m.setReg d (m.regs s % M64))
  | .lr d s => .continue (m.setReg d (setLo32 (m.regs d) (m.regs s)))
  | .lg d op => .continue (m.setReg d (readBytes cfg m.mem (effAddr cfg m op) 8))
  | .l d op | .ly d op =>
      .continue (m.setReg d (setLo32 (m.regs d) (readBytes cfg m.mem (effAddr cfg m op) 4)))
  | .lgf d op =>
      .continue (m.setReg d (unsignedOf M64 (signedOf M32 (readBytes cfg m.mem (effAddr cfg m op) 4))))
  | .llgf d op => .continue (m.setReg d (readBytes cfg m.mem (effAddr cfg m op) 4))
  | .lgh d op =>
      .continue (m.setReg d (unsignedOf M64 (signedOf M16 (readBytes cfg m.mem (effAddr cfg m op) 2))))
  | .lh d op | .lhy d op =>
      .continue (m.setReg d (setLo32 (m.regs d)
        (unsignedOf M32 (signedOf M16 (readBytes cfg m.mem (effAddr cfg m op) 2)))))
  | .ld d op | .ldy d op =>
      .continue { m with fregs := fun x =>
        if x = d then readBytes cfg m.mem (effAddr cfg m op) 8 else m.fregs x }
  | .stg s op => .continue (m.store cfg (effAddr cfg m op) 8 (m.regs s))
  | .st s op | .sty s op => .continue (m.store cfg (effAddr cfg m op) 4 (m.regs s))
  | .sth s op | .sthy s op => .continue (m.store cfg (effAddr cfg m op) 2 (m.regs s))
  | .stc s op | .stcy s op => .continue (m.store cfg (effAddr cfg m op) 1 (m.regs s))
  | .std s op | .stdy s op => .continue (m.store cfg (effAddr cfg m op) 8 (m.fregs s))
  | .stmg a b op =>
      .continue (storeMultiple cfg 8 (((b.code - a.code) % 16).toNat + 1) a (effAddr cfg m op) m)
  | .stm a b op | .stmy a b op =>
      .continue (storeMultiple cfg 4 (((b.code - a.code) % 16).toNat + 1) a (effAddr cfg m op) m)
  | .agr d s => .continue (add64 m d (m.regs d) (m.regs s))
  | .ar d s => .continue (add32 m d (m.regs d) (m.regs s))
  | .agrk d s1 s2 => .continue (add64 m d (m.regs s1) (m.regs s2))
  | .ark d s1 s2 => .continue (add32 m d (m.regs s1) (m.regs s2))
  | .aghi r i => .continue (add64 m r (m.regs r) (unsignedOf M64 (toInt16 i)))
  | .agfi r i => .continue (add64 m r (m.regs r) (unsignedOf M64 (toInt32 i)))
  | .ahi r i => .continue (add32 m r (m.regs r) (unsignedOf M32 (toInt16 i)))
  | .afi r i => .continue (add32 m r (m.regs r) (unsignedOf M32 i))
  | .aghik d s i => .continue (add64 m d (m.regs s) (unsignedOf M64 (toInt16 i)))
  | .ahik d s i => .continue (add32 m d (m.regs s) (unsignedOf M32 (toInt16 i)))
  | .cgr a b => .continue (m.setCC (cmpCC (signedOf M64 (m.regs a)) (signedOf M64 (m.regs b))))
  | .cr_z a b => .continue (m.setCC (cmpCC (signedOf M32 (m.regs a)) (signedOf M32 (m.regs b))))
  | .cghi r i => .continue (m.setCC (cmpCC (signedOf M64 (m.regs r)) (toInt16 i)))
  | .chi r i => .continue (m.setCC (cmpCC (signedOf M32 (m.regs r)) (toInt16 i)))
  | .cgfi r i => .continue (m.setCC (cmpCC (signedOf M64 (m.regs r)) (toInt32 i)))
  | .cfi r i => .continue (m.setCC (cmpCC (signedOf M32 (m.regs r)) (toInt32 i)))
  | .cg r op =>
      .continue (m.setCC (cmpCC (signedOf M64 (m.regs r))
        (signedOf M64 (readBytes cfg m.mem (effAddr cfg m op) 8))))
  | .c r op | .cy r op =>
      .continue (m.setCC (cmpCC (signedOf M32 (m.regs r))
        (signedOf M32 (readBytes cfg m.mem (effAddr cfg m op) 4))))
  | .clgr a b => .continue (m.setCC (cmpLogicalCC (m.regs a % M64) (m.regs b % M64)))
  | .clr a b => .continue (m.setCC (cmpLogicalCC (lo32 (m.regs a)) (lo32 (m.regs b))))
  | .ngr d s => .continue (and64 m d (m.regs d) (m.regs s))
  | .nr d s => .continue (and32 m d (m.regs d) (m.regs s))
  | .ngrk d s1 s2 => .continue (and64 m d (m.regs s1) (m.regs s2))
  | .nrk d s1 s2 => .continue (and32 m d (m.regs s1) (m.regs s2))
  | .nill r i =>
      let v := Nat.land (m.regs r % M16) (unsignedOf M16 i)
      .continue ((m.setReg r (setLo16 (m.regs r) v)).setCC (logicCC v))
  | .nilf r i => .continue (and32 m r (m.regs r) (unsignedOf M32 i))
  | .nihf r i =>
      let v := Nat.land (hi32 (m.regs r)) (unsignedOf M32 i)
      .continue ((m.setReg r (setHi32 (m.regs r) v)).setCC (logicCC v))
  | .nilh r i =>
      let v := Nat.land (m.regs r / M16 % M16) (unsignedOf M16 i)
      .continue ((m.setReg r (m.regs r % M64 / M32 * M32 + v * M16 + m.regs r % M16)).setCC
        (logicCC v))
  | .sllg d s n => .continue (m.setReg d ((m.regs s % M64) * 2 ^ (unsignedOf 64 n) % M64))
  | .srl d n =>
      .continue (m.setReg d (setLo32 (m.regs d) (lo32 (m.regs d) / 2 ^ (unsignedOf 64 n))))
  | .sra d n =>
      let v := unsignedOf M32 (signedOf M32 (m.regs d) / 2 ^ (unsignedOf 64 n))
      .continue ((m.setReg d (setLo32 (m.regs d) v)).setCC (signCC M32 v))
  | .srak d s n =>
      let v := unsignedOf M32 (signedOf M32 (m.regs s) / 2 ^ (unsignedOf 64 n))
      .continue ((m.setReg d (setLo32 (m.regs d) v)).setCC (signCC M32 v))
  | .srag d s n =>
      let v := unsignedOf M64 (signedOf M64 (m.regs s) / 2 ^ (unsignedOf 64 n))
      .continue ((m.setReg d v).setCC (signCC M64 v))
  | .sll d n =>
      .continue (m.setReg d (setLo32 (m.regs d) (lo32 (m.regs d) * 2 ^ (unsignedOf 64 n))))
  | .sllk d s n =>
      .continue (m.setReg d (setLo32 (m.regs d) (lo32 (m.regs s) * 2 ^ (unsignedOf 64 n))))
  | .risbg d s i3 i4 i5 z =>
      let mask := risbgMask (unsignedOf 64 i3) (unsignedOf 64 i4)
      let rot := rotl64 (m.regs s) (unsignedOf 64 i5)
      let v := if z then Nat.land rot mask
               else Nat.land (m.regs d % M64) (M64 - 1 - mask) + Nat.land rot mask
      .continue ((m.setReg d v).setCC (signCC M64 v))
  | .tmll r i => .continue (m.setCC (tmCC 16 (m.regs r) (unsignedOf M16 i)))
  | .tm op i => .continue (m.setCC (tmCC 8 (m.mem (effAddr cfg m op)) (unsignedOf 256 i)))
  | .la r op | .lay r op =>
      .continue (if cfg.is64 then m.setReg r (effAddr cfg m op)
                 else m.setReg r (setLo32 (m.regs r) (effAddr cfg m op)))
  | .mvc d s n =>
      .continue { m with mem := copyBytes cfg (effAddr cfg m d) (effAddr cfg m s) n m.mem }
  | .sgr d s => .continue (sub64 m d (m.regs d) (m.regs s))
  | .sr d s => .continue (sub32 m d (m.regs d) (m.regs s))
  | .sgrk d s1 s2 => .continue (sub64 m d (m.regs s1) (m.regs s2))
  | .srk d s1 s2 => .continue (sub32 m d (m.regs s1) (m.regs s2))
  | .lcgr d s => .continue (sub64 m d 0 (m.regs s))
  | .lcr d s => .continue (sub32 m d 0 (m.regs s))
  | .ltgr d s => .continue ((m.setReg d (m.regs s % M64)).setCC (signCC M64 (m.regs s)))
  | .ltr d s =>
      .continue ((m.setReg d (setLo32 (m.regs d) (m.regs s))).setCC (signCC M32 (m.regs s)))
  | .ogr d s => .continue (or64 m d (m.regs d) (m.regs s))
  | .or_z d s => .continue (or32 m d (m.regs d) (m.regs s))
  | .ogrk d s1 s2 => .continue (or64 m d (m.regs s1) (m.regs s2))
  | .ork d s1 s2 => .continue (or32 m d (m.regs s1) (m.regs s2))
  | .xgr d s => .continue (xor64 m d (m.regs d) (m.regs s))
  | .xr d s => .continue (xor32 m d (m.regs d) (m.regs s))
  | .xgrk d s1 s2 => .continue (xor64 m d (m.regs s1) (m.regs s2))
  | .xrk d s1 s2 => .continue (xor32 m d (m.regs s1) (m.regs s2))
  | .oihf r i =>
      let v := Nat.lor (hi32 (m.regs r)) (unsignedOf M32 i)
      .continue ((m.setReg r (setHi32 (m.regs r) v)).setCC (logicCC v))
  | .oilf r i => .continue (or32 m r (m.regs r) (unsignedOf M32 i))
  | .xihf r i =>
      let v := Nat.xor (hi32 (m.regs r)) (unsignedOf M32 i)
      .continue ((m.setReg r (setHi32 (m.regs r) v)).setCC (logicCC v))
  | .xilf r i => .continue (xor32 m r (m.regs r) (unsignedOf M32 i))
  | .ag d op => .continue (add64 m d (m.regs d) (readBytes cfg m.mem (effAddr cfg m op) 8))
  | .a d op | .ay d op =>
      .continue (add32 m d (m.regs d) (readBytes cfg m.mem (effAddr cfg m op) 4))
  | .agf d op =>
      .continue (add64 m d (m.regs d)
        (unsignedOf M64 (signedOf M32 (readBytes cfg m.mem (effAddr cfg m op) 4))))
  | .sg d op => .continue (sub64 m d (m.regs d) (readBytes cfg m.mem (effAddr cfg m op) 8))
  | .s d op | .sy d op =>
      .continue (sub32 m d (m.regs d) (readBytes cfg m.mem (effAddr cfg m op) 4))
  | .sgf d op =>
      .continue (sub64 m d (m.regs d)
        (unsignedOf M64 (signedOf M32 (readBytes cfg m.mem (effAddr cfg m op) 4))))
  | .alg d op =>
      .continue (addLogical64 m d (m.regs d) (readBytes cfg m.mem (effAddr cfg m op) 8))
  | .al_z d op | .aly d op =>
      .continue (addLogical32 m d (m.regs d) (readBytes cfg m.mem (effAddr cfg m op) 4))
  | .sl d op | .sly d op =>
      .continue (subLogical32 m d (m.regs d) (readBytes cfg m.mem (effAddr cfg m op) 4))
  | .slgf d op =>
      .continue (subLogical64 m d (m.regs d) (readBytes cfg m.mem (effAddr cfg m op) 4))
  | .msg d op => .continue (mul64 m d (m.regs d) (readBytes cfg m.mem (effAddr cfg m op) 8))
  | .ms d op | .msy d op =>
      .continue (mul32 m d (m.regs d) (readBytes cfg m.mem (effAddr cfg m op) 4))
  | .ng d op => .continue (and64 m d (m.regs d) (readBytes cfg m.mem (effAddr cfg m op) 8))
  | .n d op | .ny d op =>
      .continue (and32 m d (m.regs d) (readBytes cfg m.mem (effAddr cfg m op) 4))
  | .og d op => .continue (or64 m d (m.regs d) (readBytes cfg m.mem (effAddr cfg m op) 8))
  | .o d op | .oy d op =>
      .continue (or32 m d (m.regs d) (readBytes cfg m.mem (effAddr cfg m op) 4))
  | .xg d op => .continue (xor64 m d (m.regs d) (readBytes cfg m.mem (effAddr cfg m op) 8))
  | .x d op | .xy d op =>
      .continue (xor32 m d (m.regs d) (readBytes cfg m.mem (effAddr cfg m op) 4))
  | .clg r op =>
      .continue (m.setCC (cmpLogicalCC (m.regs r % M64)
        (readBytes cfg m.mem (effAddr cfg m op) 8)))
  | .cl r op | .cly r op =>
      .continue (m.setCC (cmpLogicalCC (lo32 (m.regs r))
        (readBytes cfg m.mem (effAddr cfg m op) 4)))
  | .clgfi r i => .continue (m.setCC (cmpLogicalCC (m.regs r % M64) (unsignedOf M32 i)))
  | .clfi r i => .continue (m.setCC (cmpLogicalCC (lo32 (m.regs r)) (unsignedOf M32 i)))
  | .srlk d s n =>
      .continue (m.setReg d (setLo32 (m.regs d) (lo32 (m.regs s) / 2 ^ (unsignedOf 64 n))))
  | .srlg d s n => .continue (m.setReg d ((m.regs s % M64) / 2 ^ (unsignedOf 64 n)))
  | .sllg_r d s b => .continue (m.setReg d ((m.regs s % M64) * 2 ^ (m.base b % 64) % M64))
  | .sll_r d b =>
      .continue (m.setReg d (setLo32 (m.regs d) (lo32 (m.regs d) * 2 ^ (m.base b % 64))))
  | .sllk_r d s b =>
      .continue (m.setReg d (setLo32 (m.regs d) (lo32 (m.regs s) * 2 ^ (m.base b % 64))))
  | .llh d op =>
      .continue (m.setReg d (setLo32 (m.regs d) (readBytes cfg m.mem (effAddr cfg m op) 2)))
  | .lrvh d op =>
      .continue (m.setReg d (setLo16 (m.regs d)
        (reverseBytes 2 (readBytes cfg m.mem (effAddr cfg m op) 2))))
  | .lrv d op =>
      .continue (m.setReg d (setLo32 (m.regs d)
        (reverseBytes 4 (readBytes cfg m.mem (effAddr cfg m op) 4))))
  | .strv d op =>
      .continue (m.store cfg (effAddr cfg m op) 4 (reverseBytes 4 (lo32 (m.regs d))))
  | .brc mask l => if condHolds mask m.cc then .goto l m else .continue m
  | .bcr mask r =>
      if condHolds mask m.cc && r != r0 then .jump (m.regs r % addrMod cfg) m else .continue m
  | .basr a b =>
      if b = r0 then .continue (m.setRegP cfg a link)
      else .call (m.regs b % addrMod cfg) (m.setRegP cfg a link)
  | .bind _ => .continue m
  | .abort => .abort m

/-! ### Running emitted code -/

/-- A call made by the emitted code, by the address of the code called. -/
inductive Event
  | call (target : Nat)
  deriving DecidableEq, Repr

/-- What the emitted code cannot see: the effect that the code at an address
has on the machine before it returns, and the address of the instruction
following each position of the fragment (the return address of a call made
there). -/
structure Env where
  callee : Nat → Machine → Machine
  link : Nat → Nat

/-- How a run of a code fragment ends: off the end of the fragment, by a
branch to a label the fragment does not bind (one supplied by the caller), by
a branch to an address held in a register, or in the abort sequence. -/
inductive Outcome
  | fallthrough
  | label (l : Label)
  | jump (addr : Nat)
  | abort
  deriving DecidableEq, Repr

structure Final where
  outcome : Outcome
  machine : Machine
  trace : List Event

/-- The label that a `bind` pseudo-instruction binds. -/
def Instr.boundLabel : Instr → Option Label
  | .bind lbl => some lbl
  | _ => none

/-- The part of a fragment that starts where label `l` is bound. -/
def suffixAt (l : Label) : List Instr → Option (List Instr)
  | [] => none
  | i :: rest => if i.boundLabel = some l then some (i :: rest) else suffixAt l rest

/-- Carry on after one instruction: `k` runs the fragment from a position,
`rest` is the position after the instruction. -/
def Next.resume (env : Env) (code : List Instr)
    (k : List Instr → Machine → List Event → Option Final) (rest : List Instr)
    (tr : List Event) : Next → Option Final
  | .continue m1 => k rest m1 tr
  | .goto l m1 =>
      match suffixAt l code with
      | some r => k r m1 tr
      | none => some ⟨.label l, m1, tr⟩
  | .jump a m1 => some ⟨.jump a, m1, tr⟩
  | .call t m1 => k rest (env.callee t m1) (tr ++ [.call t])
  | .abort m1 => some ⟨.abort, m1, tr⟩

/-- Run the fragment `code` for at most `fuel` instructions; `none` when the
fuel is used up.  The position is the list of instructions still ahead (a
suffix of `code`).  Running off the end of the fragment is falling through; a
branch to a label that the fragment does not bind leaves the fragment. -/
def run (cfg : Config) (env : Env) (code : List Instr) :
    Nat → List Instr → Machine → List Event → Option Final
  | 0, _, _, _ => none
  | _ + 1, [], m, tr => some ⟨.fallthrough, m, tr⟩
  | fuel + 1, i :: rest, m, tr =>
      Next.resume env code (run cfg env code fuel) rest tr
        (step cfg (env.link (code.length - rest.length)) m i)

/-- What the macro-assembler asks of a `CodeStub`: where its code is and the
two properties that `AllowThisStubCall` consults. -/
structure CodeStub where
  GetCode : Int
  SometimesSetsUpAFrame : Bool
  CompilingCallsToThisStubIsGCSafe : Bool

/-- Run a whole fragment from its first instruction with an empty trace. -/
def exec (cfg : Config) (env : Env) (code : List Instr) (fuel : Nat) (m : Machine) :
    Option Final :=
  run cfg env code fuel code m []

/-! ## External references and object-layout constants

Values the macro-assembler takes from the isolate, the heap and the frame
layout.  None is fixed by the repository file, so each is a field. -/

structure Isolate where
  /-- `ExternalReference::new_space_allocation_top_address`. -/
  new_space_allocation_top : Int
  /-- `ExternalReference::new_space_allocation_limit_address`. -/
  new_space_allocation_limit : Int
  /-- `ExternalReference(Isolate::kHandlerAddress, isolate())`. -/
  handler_address : Int
  /-- Location of the `ArgumentsAdaptorTrampoline` builtin. -/
  ArgumentsAdaptorTrampoline : Int
  /-- The handle `CodeObject()` of the code being generated. -/
  CodeObject : Int
  /-- The `RecordWriteStub` instance for its constructor arguments. -/
  RecordWriteStub : Register → Register → Register → Bool → Bool → CodeStub
  /-- `SharedFunctionInfo::kDontAdaptArgumentsSentinel`. -/
  kDontAdaptArgumentsSentinel : Int
  /-- `Code::kHeaderSize`. -/
  Code_kHeaderSize : Int
  /-- `MemoryChunk::kFlagsOffset`. -/
  MemoryChunk_kFlagsOffset : Int
  /-- `MemoryChunk::kPointersToHereAreInterestingMask`. -/
  kPointersToHereAreInterestingMask : Int
  /-- `MemoryChunk::kPointersFromHereAreInterestingMask`. -/
  kPointersFromHereAreInterestingMask : Int
  /-- The constant `kPageSizeBits`. -/
  kPageSizeBits : Int
  /-- `StackHandler::kKindWidth`. -/
  kKindWidth : Nat
  /-- `Context::SlotOffset(Context::GLOBAL_OBJECT_INDEX)`. -/
  Context_GlobalObjectSlotOffset : Int
  /-- `GlobalObject::kBuiltinsOffset`. -/
  GlobalObject_kBuiltinsOffset : Int
  /-- `JSBuiltinsObject::OffsetOfFunctionWithId(id)`. -/
  JSBuiltinsObject_OffsetOfFunctionWithId : Int → Int
  /-- `JSFunction::kCodeEntryOffset`. -/
  JSFunction_kCodeEntryOffset : Int
  /-- `Code::kHandlerTableOffset`. -/
  Code_kHandlerTableOffset : Int
  /-- `FixedArray::kHeaderSize`. -/
  FixedArray_kHeaderSize : Int
  /-- `StandardFrameConstants::kContextOffset`. -/
  StandardFrameConstants_kContextOffset : Int
  /-- `ExternalReference(Isolate::kCEntryFPAddress, isolate())`. -/
  c_entry_fp_address : Int
  /-- `ExternalReference(Isolate::kContextAddress, isolate())`. -/
  context_address : Int
  /-- `ExitFrameConstants::kSPOffset`. -/
  ExitFrameConstants_kSPOffset : Int
  /-- `ExitFrameConstants::kCodeOffset`. -/
  ExitFrameConstants_kCodeOffset : Int
  /-- The constant `kNumRequiredStackFrameSlots`. -/
  kNumRequiredStackFrameSlots : Int
  /-- The constant `kStackFrameSPSlot`. -/
  kStackFrameSPSlot : Int
  /-- `MacroAssembler::ActivationFrameAlignment()`, which asks the operating
  system or reads `FLAG_sim_stack_alignment`. -/
  ActivationFrameAlignment : Int
  /-- `DoubleRegister::kNumVolatileRegisters`. -/
  kNumVolatileRegisters : Int
  /-- `DoubleRegister::kNumRegisters`. -/
  DoubleRegister_kNumRegisters : Nat
  /-- The constant `kDoubleSize`. -/
  kDoubleSize : Int
  /-- `ExternalReference::store_buffer_top`. -/
  store_buffer_top : Int
  /-- `StoreBuffer::kStoreBufferOverflowBit`. -/
  kStoreBufferOverflowBit : Int
  /-- The `StoreBufferOverflowStub` instance for a `SaveFPRegsMode`. -/
  StoreBufferOverflowStub : Bool → CodeStub
  /-- `ExternalReference::new_space_mask`. -/
  new_space_mask : Int
  /-- `ExternalReference::new_space_start`. -/
  new_space_start : Int
  /-- `JSFunction::kSharedFunctionInfoOffset`. -/
  JSFunction_kSharedFunctionInfoOffset : Int
  /-- `JSFunction::kContextOffset`. -/
  JSFunction_kContextOffset : Int
  /-- `SharedFunctionInfo::kFormalParameterCountOffset`. -/
  SharedFunctionInfo_kFormalParameterCountOffset : Int
  /-- `JSGlobalPropertyCell::kValueOffset`. -/
  JSGlobalPropertyCell_kValueOffset : Int

/-- The option set `AllocationFlags`. -/
structure AllocationFlags where
  TAG_OBJECT : Bool
  RESULT_CONTAINS_TOP : Bool
  SIZE_IN_WORDS : Bool
  deriving DecidableEq, Repr

/-- The tagged small integer `Smi::FromInt(v)` as a pointer-size integer. -/
def Smi.FromInt (cfg : Config) (v : Int) : Int := v * 2 ^ kSmiShift cfg

/-! ## Pointer-size aliases

Modelled from the spec: the header defining these aliases is not part of the
repository file.  As the spec puts it, every operation has a pointer-width
entry point and a fixed-32-bit one; an alias is the 64-bit instruction on the
64-bit target and the 32-bit instruction on the 31-bit target. -/

def LoadRR (cfg : Config) (dst src : Register) : Emit Unit :=
  emit (if cfg.is64 then .lgr dst src else .lr dst src)

def LoadImmP (cfg : Config) (dst : Register) (opnd : Operand) : Emit Unit :=
  emit (if cfg.is64 then .lghi dst opnd.imm_ else .lhi dst opnd.imm_)

def CmpPH (cfg : Config) (dst : Register) (opnd : Operand) : Emit Unit :=
  emit (if cfg.is64 then .cghi dst opnd.imm_ else .chi dst opnd.imm_)

def AddRR (cfg : Config) (dst src : Register) : Emit Unit :=
  emit (if cfg.is64 then .agr dst src else .ar dst src)

def AndRR (cfg : Config) (dst src : Register) : Emit Unit :=
  emit (if cfg.is64 then .ngr dst src else .nr dst src)

def AddP_RRR (cfg : Config) (dst src1 src2 : Register) : Emit Unit :=
  emit (if cfg.is64 then .agrk dst src1 src2 else .ark dst src1 src2)

def AndP_RRR (cfg : Config) (dst src1 src2 : Register) : Emit Unit :=
  emit (if cfg.is64 then .ngrk dst src1 src2 else .nrk dst src1 src2)

def AddPImm_RRI (cfg : Config) (dst src : Register) (opnd : Operand) : Emit Unit :=
  emit (if cfg.is64 then .aghik dst src opnd.imm_ else .ahik dst src opnd.imm_)

/-- The branch `b(cond, &L)`. -/
def b (cond : Condition) (L : Label) : Emit Unit := emit (.brc cond L)

def beq (L : Label) : Emit Unit := b eq L
def bne (L : Label) : Emit Unit := b ne L
def bgt (L : Label) : Emit Unit := b gt L
def blt (L : Label) : Emit Unit := b lt L

/-- The branch `b(cond, reg)` to the address in a register. -/
def b_Register (cond : Condition) (target : Register) : Emit Unit := emit (.bcr cond target)

/-! ## Primitive emitters of the macro-assembler -/

/-- `MacroAssembler::mov`.  Recording relocation information adds no
instruction. -/
def mov (cfg : Config) (dst : Register) (src : Operand) : Emit Unit := do
  if cfg.is64 then
    let value := toInt64 src.immediate
    let hi_32 := toInt32 (value / 4294967296)
    let lo_32 := toInt32 value
    emit (.iihf dst hi_32)
    emit (.iilf dst lo_32)
  else
    let value := toInt32 src.immediate
    emit (.iilf dst value)

/-- `MacroAssembler::Load(Register, const Operand&)`. -/
def Load_Operand (cfg : Config) (dst : Register) (opnd : Operand) : Emit Unit := do
  let value := toIntPtr cfg opnd.immediate
  if is_int16 value then
    if cfg.is64 then emit (.lghi dst opnd.imm_) else emit (.lhi dst opnd.imm_)
  else
    if cfg.is64 then emit (.llilf dst opnd.imm_) else emit (.iilf dst opnd.imm_)

/-- `MacroAssembler::LoadIntLiteral`; the parameter is a C `int`. -/
def LoadIntLiteral (cfg : Config) (dst : Register) (value : Int) : Emit Unit :=
  Load_Operand cfg dst (Operand.ofInt (toInt32 value))

/-- `MacroAssembler::LoadSmiLiteral`; `smi` is the pointer-size integer that
represents the small integer. -/
def LoadSmiLiteral (cfg : Config) (dst : Register) (smi : Int) : Emit Unit := do
  let value := smi
  if cfg.is64 then
    ASSERT (value % 4294967296 == 0)
    emit (.llihf dst (value / 4294967296))
  else
    emit (.llilf dst value)

/-- `MacroAssembler::Add32(Register, const Operand&)`. -/
def Add32_Operand (dst : Register) (opnd : Operand) : Emit Unit :=
  if is_int16 opnd.immediate then emit (.ahi dst opnd.imm_) else emit (.afi dst opnd.imm_)

/-- `MacroAssembler::AddP(Register, const Operand&)`. -/
def AddP_Operand (cfg : Config) (dst : Register) (opnd : Operand) : Emit Unit :=
  if cfg.is64 then
    if is_int16 opnd.immediate then emit (.aghi dst opnd.imm_) else emit (.agfi dst opnd.imm_)
  else
    Add32_Operand dst opnd

/-- `MacroAssembler::AddP(Register, Register, const Operand&)`. -/
def AddP_Register_Operand (cfg : Config) (dst src : Register) (opnd : Operand) :
    Emit Unit := do
  if dst ≠ src then
    if cfg.distinct_ops && is_int16 opnd.immediate then
      AddPImm_RRI cfg dst src opnd
      return
    LoadRR cfg dst src
  AddP_Operand cfg dst opnd

/-- `MacroAssembler::AddP(Register, Register)`. -/
def AddP_Register (cfg : Config) (dst src : Register) : Emit Unit := AddRR cfg dst src

/-- `MacroAssembler::AddP(Register, Register, Register)`. -/
def AddP_Register_Register (cfg : Config) (dst src1 src2 : Register) : Emit Unit := do
  let mut src2 := src2
  if dst ≠ src1 && dst ≠ src2 then
    if cfg.distinct_ops then
      AddP_RRR cfg dst src1 src2
      return
    else
      LoadRR cfg dst src1
  else if dst = src2 then
    src2 := src1
  AddRR cfg dst src2

/-- `MacroAssembler::Cmp32(Register, Register)`. -/
def Cmp32_Register (src1 src2 : Register) : Emit Unit := emit (.cr_z src1 src2)

/-- `MacroAssembler::CmpP(Register, Register)`. -/
def CmpP_Register (cfg : Config) (src1 src2 : Register) : Emit Unit :=
  if cfg.is64 then emit (.cgr src1 src2) else Cmp32_Register src1 src2

/-- `MacroAssembler::Cmp32(Register, const Operand&)`. -/
def Cmp32_Operand (dst : Register) (opnd : Operand) : Emit Unit :=
  if opnd.rmode_ = RelocMode.NONE then
    let value := opnd.immediate
    if is_int16 value then emit (.chi dst opnd.imm_) else emit (.cfi dst opnd.imm_)
  else
    emit (.cfi dst opnd.imm_)

/-- `MacroAssembler::CmpP(Register, const Operand&)`. -/
def CmpP_Operand (cfg : Config) (dst : Register) (opnd : Operand) : Emit Unit := do
  if cfg.is64 then
    if opnd.rmode_ = RelocMode.NONE then
      emit (.cgfi dst opnd.imm_)
    else
      mov cfg r0 opnd
      Cmp32_Register dst r0
  else
    Cmp32_Operand dst opnd

/-- `MacroAssembler::Cmp32(Register, const MemOperand&)`. -/
def Cmp32_MemOperand (dst : Register) (opnd : MemOperand) : Emit Unit := do
  ASSERT (is_int20 opnd.offset)
  if is_uint12 opnd.offset then emit (.c dst opnd) else emit (.cy dst opnd)

/-- `MacroAssembler::CmpP(Register, const MemOperand&)`. -/
def CmpP_MemOperand (cfg : Config) (dst : Register) (opnd : MemOperand) : Emit Unit := do
  ASSERT (is_int20 opnd.offset)
  if cfg.is64 then emit (.cg dst opnd) else Cmp32_MemOperand dst opnd

/-- `MacroAssembler::CmpLogical32(Register, Register)`. -/
def CmpLogical32_Register (dst src : Register) : Emit Unit := emit (.clr dst src)

/-- `MacroAssembler::CmpLogicalP(Register, Register)`. -/
def CmpLogicalP_Register (cfg : Config) (dst src : Register) : Emit Unit :=
  if cfg.is64 then emit (.clgr dst src) else CmpLogical32_Register dst src

/-- `MacroAssembler::LoadP`. -/
def LoadP (cfg : Config) (dst : Register) (mem : MemOperand) (scratch : Register) :
    Emit Unit := do
  let offset := mem.offset
  if scratch ≠ no_reg && !is_int20 offset then
    LoadIntLiteral cfg scratch offset
    if cfg.is64 then emit (.lg dst (MemOperand.mk2 mem.rb scratch))
    else emit (.l dst (MemOperand.mk2 mem.rb scratch))
  else
    if cfg.is64 then emit (.lg dst mem)
    else if is_uint12 offset then emit (.l dst mem)
    else emit (.ly dst mem)

/-- `MacroAssembler::StoreW`.  The call on `MemOperand(base, scratch)` in the
last branch has a zero displacement, so it emits the short form. -/
def StoreW (cfg : Config) (src : Register) (mem : MemOperand) (scratch : Register) :
    Emit Unit := do
  let base := mem.rb
  let offset := mem.offset
  let mut use_RXform := false
  let mut use_RXYform := false
  if is_uint12 offset then
    use_RXform := true
  else if is_int20 offset then
    use_RXYform := true
  else if scratch ≠ no_reg then
    LoadIntLiteral cfg scratch offset
  else
    ASSERT false
  if use_RXform then
    emit (.st src mem)
  else if use_RXYform then
    emit (.sty src mem)
  else
    emit (.st src (MemOperand.mk2 base scratch))

/-- `MacroAssembler::StoreP`. -/
def StoreP (cfg : Config) (src : Register) (mem : MemOperand) (scratch : Register) :
    Emit Unit := do
  if !is_int20 mem.offset then
    ASSERT (scratch ≠ no_reg)
    LoadIntLiteral cfg scratch mem.offset
    if cfg.is64 then emit (.stg src (MemOperand.mk2 mem.rb scratch))
    else emit (.st src (MemOperand.mk2 mem.rb scratch))
  else
    if cfg.is64 then emit (.stg src mem)
    else StoreW cfg src mem no_reg

/-- `MacroAssembler::StoreMultipleP`. -/
def StoreMultipleP (cfg : Config) (src1 src2 : Register) (mem : MemOperand) : Emit Unit := do
  if cfg.is64 then
    ASSERT (is_int20 mem.offset)
    emit (.stmg src1 src2 mem)
  else
    if is_uint12 mem.offset then
      emit (.stm src1 src2 mem)
    else
      ASSERT (is_int20 mem.offset)
      emit (.stmy src1 src2 mem)

/-- `MacroAssembler::ShiftLeft(Register, Register, const Operand&)`. -/
def ShiftLeft (cfg : Config) (dst src : Register) (val : Operand) : Emit Unit := do
  if dst = src then
    emit (.sll dst val.imm_)
  else if cfg.distinct_ops then
    emit (.sllk dst src val.imm_)
  else
    emit (.lr dst src)
    emit (.sll dst val.imm_)

/-- The alias `ShiftLeftP`: `sllg` on the 64-bit target, `ShiftLeft`
otherwise.  Modelled from the spec: see the pointer-size aliases above. -/
def ShiftLeftP (cfg : Config) (dst src : Register) (val : Operand) : Emit Unit :=
  if cfg.is64 then emit (.sllg dst src val.imm_) else ShiftLeft cfg dst src val

/-- `MacroAssembler::Abort`.  The emitted sequence pushes the message and
calls the runtime abort function, which does not return; it is kept as the one
pseudo-instruction `abort`. -/
def Abort : Emit Unit := emit .abort

/-- `MacroAssembler::Check`. -/
def Check (cond : Condition) : Emit Unit := do
  let L ← newLabel
  b cond L
  Abort
  bind L


/-! ## Heap allocation -/

/-- `MacroAssembler::AllocateInNewSpace(int object_size, ...)`.  The test
`object_size & kObjectAlignmentMask` is written as the remainder modulo
`kPointerSize`, which it equals in two's complement. -/
def AllocateInNewSpace_int (cfg : Config) (iso : Isolate) (object_size : Int)
    (result scratch1 scratch2 : Register) (gc_required : Label)
    (flags : AllocationFlags) : Emit Unit := do
  if !cfg.FLAG_inline_new then
    if cfg.emit_debug_code then
      -- Trash the registers to simulate an allocation failure.
      LoadImmP cfg result (Operand.ofInt 0x7091)
      LoadImmP cfg scratch1 (Operand.ofInt 0x7191)
      LoadImmP cfg scratch2 (Operand.ofInt 0x7291)
    b al gc_required
  else
    ASSERT (result ≠ scratch1)
    ASSERT (result ≠ scratch2)
    ASSERT (scratch1 ≠ scratch2)
    ASSERT (scratch1 ≠ ip)
    ASSERT (scratch2 ≠ ip)
    -- Make object size into bytes.
    let object_size :=
      if flags.SIZE_IN_WORDS then object_size * (kPointerSize cfg : Int) else object_size
    ASSERT (object_size % (kPointerSize cfg : Int) == 0)
    let top := iso.new_space_allocation_top
    let limit := iso.new_space_allocation_limit
    ASSERT (limit - top == (kPointerSize cfg : Int))
    ASSERT (decide (result.code < ip.code))
    -- Set up allocation top address and object size registers.
    let topaddr := scratch1
    let obj_size_reg := scratch2
    mov cfg topaddr (Operand.mk top RelocMode.EXTERNAL_REFERENCE)
    LoadImmP cfg obj_size_reg (Operand.ofInt object_size)
    if !flags.RESULT_CONTAINS_TOP then
      -- Load allocation top into result and allocation limit into ip.
      LoadP cfg result (MemOperand.mk1 topaddr 0) no_reg
      LoadP cfg ip (MemOperand.mk1 topaddr (kPointerSize cfg)) no_reg
    else
      if cfg.emit_debug_code then
        LoadP cfg ip (MemOperand.mk1 topaddr 0) no_reg
        CmpP_Register cfg result ip
        Check eq
      -- Load allocation limit into ip. Result already contains allocation top.
      LoadP cfg ip (MemOperand.mk1 topaddr (limit - top)) r0
    -- Calculate new top and bail out if new space is exhausted.
    ASSERT (obj_size_reg = scratch2)
    AddP_Register cfg scratch2 result
    b CC_OF gc_required
    CmpLogicalP_Register cfg scratch2 ip
    bgt gc_required
    StoreP cfg scratch2 (MemOperand.mk1 topaddr 0) no_reg
    -- Tag object if requested.
    if flags.TAG_OBJECT then
      AddP_Operand cfg result (Operand.ofInt kHeapObjectTag)

/-- `MacroAssembler::AndP(Register, Register)`. -/
def AndP_Register (cfg : Config) (dst src : Register) : Emit Unit := AndRR cfg dst src

/-- `MacroAssembler::AllocateInNewSpace(Register object_size, ...)`. -/
def AllocateInNewSpace_Register (cfg : Config) (iso : Isolate) (object_size : Register)
    (result scratch1 scratch2 : Register) (gc_required : Label)
    (flags : AllocationFlags) : Emit Unit := do
  if !cfg.FLAG_inline_new then
    if cfg.emit_debug_code then
      -- Trash the registers to simulate an allocation failure.
      LoadImmP cfg result (Operand.ofInt 0x7091)
      LoadImmP cfg scratch1 (Operand.ofInt 0x7191)
      LoadImmP cfg scratch2 (Operand.ofInt 0x7291)
    b al gc_required
  else
    ASSERT (result ≠ scratch1)
    ASSERT (result ≠ scratch2)
    ASSERT (scratch1 ≠ scratch2)
    ASSERT (object_size ≠ ip)
    ASSERT (result ≠ ip)
    ASSERT (scratch1 ≠ ip)
    ASSERT (scratch2 ≠ ip)
    let top := iso.new_space_allocation_top
    let limit := iso.new_space_allocation_limit
    ASSERT (limit - top == (kPointerSize cfg : Int))
    ASSERT (decide (result.code < ip.code))
    -- Set up allocation top address.
    let topaddr := scratch1
    mov cfg topaddr (Operand.mk top RelocMode.EXTERNAL_REFERENCE)
    if !flags.RESULT_CONTAINS_TOP then
      -- Load allocation top into result and allocation limit into ip.
      LoadP cfg result (MemOperand.mk1 topaddr 0) no_reg
      LoadP cfg ip (MemOperand.mk1 topaddr (kPointerSize cfg)) no_reg
    else
      if cfg.emit_debug_code then
        LoadP cfg ip (MemOperand.mk1 topaddr 0) no_reg
        CmpP_Register cfg result ip
        Check eq
      -- Load allocation limit into ip. Result already contains allocation top.
      LoadP cfg ip (MemOperand.mk1 topaddr (limit - top)) no_reg
    -- Calculate new top and bail out if new space is exhausted.
    if flags.SIZE_IN_WORDS then
      ShiftLeftP cfg scratch2 object_size (Operand.ofInt (kPointerSizeLog2 cfg))
      AddP_Register cfg scratch2 result
    else
      AddP_Register_Register cfg scratch2 result object_size
    b CC_OF gc_required
    CmpLogicalP_Register cfg scratch2 ip
    bgt gc_required
    -- Update allocation top. result temporarily holds the new top.
    if cfg.emit_debug_code then
      mov cfg r0 (Operand.ofInt (kObjectAlignmentMask cfg))
      AndP_Register cfg r0 scratch2
      Check eq
    StoreP cfg scratch2 (MemOperand.mk1 topaddr 0) no_reg
    -- Tag object if requested.
    if flags.TAG_OBJECT then
      AddP_Operand cfg result (Operand.ofInt kHeapObjectTag)


/-- The size argument of the two overloads of `AllocateInNewSpace`: an
immediate `int object_size` or a `Register object_size`. -/
inductive SizeArg
  | imm (object_size : Int)
  | reg (object_size : Register)

/-- `MacroAssembler::AllocateInNewSpace`, either overload. -/
def AllocateInNewSpace (cfg : Config) (iso : Isolate) (size : SizeArg)
    (result scratch1 scratch2 : Register) (gc_required : Label) (flags : AllocationFlags) :
    Emit Unit :=
  match size with
  | .imm n => AllocateInNewSpace_int cfg iso n result scratch1 scratch2 gc_required flags
  | .reg r => AllocateInNewSpace_Register cfg iso r result scratch1 scratch2 gc_required flags

/-- The requested size in bytes, as a pointer-width word: the immediate or the
register content, times `kPointerSize` under `SIZE_IN_WORDS`. -/
def requestedBytes (cfg : Config) (flags : AllocationFlags) (m : Machine) : SizeArg → Nat
  | .imm n =>
      unsignedOf (ptrMod cfg) (if flags.SIZE_IN_WORDS then n * (kPointerSize cfg : Int) else n)
  | .reg r =>
      if flags.SIZE_IN_WORDS then (m.regP cfg r * kPointerSize cfg) % ptrMod cfg
      else m.regP cfg r

/-- The word in the allocation-top slot. -/
def allocationTop (cfg : Config) (iso : Isolate) (m : Machine) : Nat :=
  loadPtr cfg m.mem (unsignedOf (addrMod cfg) iso.new_space_allocation_top)

/-- The word in the allocation-limit slot. -/
def allocationLimit (cfg : Config) (iso : Isolate) (m : Machine) : Nat :=
  loadPtr cfg m.mem (unsignedOf (addrMod cfg) iso.new_space_allocation_limit)

/-- The top the allocation starts from: the word in the top slot, or, under
`RESULT_CONTAINS_TOP`, what the result register holds on entry. -/
def startTop (cfg : Config) (iso : Isolate) (flags : AllocationFlags) (result : Register)
    (m : Machine) : Nat :=
  if flags.RESULT_CONTAINS_TOP then m.regP cfg result else allocationTop cfg iso m

/-- The pointer-width addition `a + b` overflows as a signed addition. -/
def signedAddOverflows (cfg : Config) (a b : Nat) : Prop :=
  signedOf (ptrMod cfg) a + signedOf (ptrMod cfg) b < -((ptrMod cfg / 2 : Nat) : Int) ∨
    ((ptrMod cfg / 2 : Nat) : Int) ≤ signedOf (ptrMod cfg) a + signedOf (ptrMod cfg) b

/-- Register facts that the assertions of `AllocateInNewSpace` establish. -/
structure AllocRegs (result scratch1 scratch2 : Register) : Prop where
  h1 : result ≠ scratch1
  h2 : result ≠ scratch2
  h3 : scratch1 ≠ scratch2
  h4 : scratch1 ≠ ip
  h5 : scratch2 ≠ ip
  h6 : result ≠ ip

/-- Register facts about the size argument of the register overload: the size
register is not clobbered before it is read. -/
def SizeArg.clearOf (result scratch1 : Register) : SizeArg → Prop
  | .imm _ => True
  | .reg os => os ≠ scratch1 ∧ os ≠ result ∧ os ≠ ip

instance (a b : Nat) (cfg : Config) : Decidable (signedAddOverflows cfg a b) := by
  unfold signedAddOverflows; exact inferInstance

/-- The failure condition read as unsigned address arithmetic: `T + S` does
not fit the pointer width, or exceeds the limit `L`. -/
def unsignedAllocFails (cfg : Config) (T S L : Nat) : Prop :=
  ptrMod cfg ≤ T + S ∨ L < T + S

instance (cfg : Config) (T S L : Nat) : Decidable (unsignedAllocFails cfg T S L) := by
  unfold unsignedAllocFails; exact inferInstance

/-! ## Sample inputs -/

/-- The 64-bit target, release build, inline allocation enabled. -/
def cfg64 : Config := ⟨true, false, false, false, true, false, true⟩

/-- The 31-bit target, release build, inline allocation enabled. -/
def cfg31 : Config := ⟨false, false, false, false, true, false, true⟩

/-- External references of a sample isolate: the allocation top slot at address
4096, the limit slot one word after it, the handler slot at 8192, the
C-entry-frame-pointer slot at 12288 and the context slot at 12304. -/
def sampleIsolate (cfg : Config) : Isolate :=
  { new_space_allocation_top := 4096
    new_space_allocation_limit := 4096 + (kPointerSize cfg : Int)
    handler_address := 8192
    ArgumentsAdaptorTrampoline := 20480
    CodeObject := 24576
    RecordWriteStub := fun _ _ _ _ _ => ⟨28672, false, true⟩
    kDontAdaptArgumentsSentinel := -1
    Code_kHeaderSize := 64
    MemoryChunk_kFlagsOffset := 16
    kPointersToHereAreInterestingMask := 4
    kPointersFromHereAreInterestingMask := 8
    kPageSizeBits := 20
    kKindWidth := 2
    Context_GlobalObjectSlotOffset := 24
    GlobalObject_kBuiltinsOffset := 32
    JSBuiltinsObject_OffsetOfFunctionWithId := fun id => 40 + 8 * id
    JSFunction_kCodeEntryOffset := 24
    Code_kHandlerTableOffset := 48
    FixedArray_kHeaderSize := 16
    StandardFrameConstants_kContextOffset := -(kPointerSize cfg : Int)
    c_entry_fp_address := 12288
    context_address := 12304
    ExitFrameConstants_kSPOffset := -(kPointerSize cfg : Int)
    ExitFrameConstants_kCodeOffset := -2 * (kPointerSize cfg : Int)
    kNumRequiredStackFrameSlots := if cfg.is64 then 20 else 24
    kStackFrameSPSlot := 0
    ActivationFrameAlignment := 8
    kNumVolatileRegisters := if cfg.is64 then 7 else 14
    DoubleRegister_kNumRegisters := 16
    kDoubleSize := 8
    store_buffer_top := 16384
    kStoreBufferOverflowBit := 1048576
    StoreBufferOverflowStub := fun _ => ⟨32768, false, true⟩
    new_space_mask := -1048576
    new_space_start := 4194304
    JSFunction_kSharedFunctionInfoOffset := 40
    JSFunction_kContextOffset := 56
    SharedFunctionInfo_kFormalParameterCountOffset := 72
    JSGlobalPropertyCell_kValueOffset := 8 }

/-- An environment whose callees return at once and change nothing. -/
def sampleEnv : Env := ⟨fun _ m => m, fun n => n⟩

/-- Memory holding the big-endian 64-bit words `top` and `limit` in the top
and limit slots of `sampleIsolate cfg64`. -/
def allocMem64 (top limit : Nat) (a : Nat) : Nat :=
  if 4096 ≤ a ∧ a < 4104 then top / 256 ^ (4103 - a) % 256
  else if 4104 ≤ a ∧ a < 4112 then limit / 256 ^ (4111 - a) % 256
  else 0

/-- A 64-bit machine with all registers zero and the given top and limit. -/
def allocMachine64 (top limit : Nat) : Machine :=
  ⟨fun _ => 0, 0, allocMem64 top limit, fun _ => 0⟩

/-- The way the code emitted by `e` ends when run on `m`, if emission succeeds
and the run ends within `fuel` steps. -/
def outcomeOf (cfg : Config) (env : Env) (e : Emit Unit) (frame : Bool) (fuel : Nat)
    (m : Machine) : Option Outcome :=
  (codeOf e frame).bind fun code => (exec cfg env code fuel m).map fun f => f.outcome

/-! ## Small integers, stack, jumps and calls -/

/-- The inline `TestIfSmi`.  Modelled from the spec: the header that defines
it is not part of the repository file; a tagged small integer is recognised by
its tag bit (`kSmiTagMask`) being `kSmiTag`, tested by TEST UNDER MASK. -/
def TestIfSmi (value : Register) : Emit Unit := emit (.tmll value kSmiTagMask)

/-- The inline `JumpIfSmi`.  Modelled from the spec: see `TestIfSmi`; the
branch is taken when the tag bit is clear. -/
def JumpIfSmi (value : Register) (smi_label : Label) : Emit Unit := do
  TestIfSmi value
  beq smi_label

/-- The inline `push(Register)`.  Modelled from the spec: the header that
defines it is not part of the repository file; the stack grows downwards by one
pointer-size word and the register is stored at the new top. -/
def push (cfg : Config) (src : Register) : Emit Unit := do
  emit (.lay sp (MemOperand.mk1 sp (-(kPointerSize cfg : Int))))
  StoreP cfg src (MemOperand.mk1 sp 0) no_reg

/-- The inline `pop(Register)`.  Modelled from the spec: see `push`. -/
def pop (cfg : Config) (dst : Register) : Emit Unit := do
  LoadP cfg dst (MemOperand.mk1 sp 0) no_reg
  emit (.la sp (MemOperand.mk1 sp (kPointerSize cfg)))

/-- `RelocInfo::IsCodeTarget`.  Modelled from the spec: the relocation kinds
are declared outside the repository file. -/
def RelocMode.IsCodeTarget : RelocMode → Bool
  | .CODE_TARGET | .CODE_TARGET_WITH_ID => true
  | _ => false

/-- `NegateCondition`.  Modelled from the spec: declared with the condition
masks outside the repository file; it pairs `eq` with `ne`, `ge` with `lt` and
`gt` with `le`. -/
def NegateCondition (cond : Condition) : Condition :=
  if cond = eq then ne
  else if cond = ne then eq
  else if cond = ge then lt
  else if cond = gt then le
  else if cond = le then gt
  else if cond = lt then ge
  else 0xf - cond % 16

/-- `MacroAssembler::Jump(Register, Condition)`. -/
def Jump_Register (target : Register) (cond : Condition) : Emit Unit := do
  ASSERT (cond == al)
  b_Register cond target

/-- `MacroAssembler::Jump(intptr_t, RelocInfo::Mode, Condition)`. -/
def Jump_intptr (cfg : Config) (target : Int) (rmode : RelocMode) (cond : Condition) :
    Emit Unit := do
  let skip ← newLabel
  if cond ≠ al then
    b (NegateCondition cond) skip
  ASSERT (rmode == RelocMode.CODE_TARGET || rmode == RelocMode.RUNTIME_ENTRY)
  mov cfg ip ⟨target, rmode⟩
  b_Register al ip
  bind skip

/-- `MacroAssembler::Jump(Handle<Code>, RelocInfo::Mode, Condition)`; `code` is
the location of the code object. -/
def Jump_Code (cfg : Config) (code : Int) (rmode : RelocMode) (cond : Condition) :
    Emit Unit := do
  ASSERT rmode.IsCodeTarget
  Jump_intptr cfg code rmode cond

/-- `MacroAssembler::CallSize(Register, Condition)`. -/
def CallSize_Register : Int := 2

/-- `MacroAssembler::CallSize(Address, RelocInfo::Mode, Condition)`. -/
def CallSize_Address (cfg : Config) : Int := if cfg.is64 then 2 + 12 else 2 + 6

/-- `MacroAssembler::Call(Register, Condition)`.  The label `start` and the
closing size assertion only measure the emitted code. -/
def Call_Register (target : Register) (cond : Condition) : Emit Unit := do
  ASSERT (cond == al)
  emit (.basr r14 target)

/-- `MacroAssembler::Call(Address, RelocInfo::Mode, Condition)`. -/
def Call_Address (cfg : Config) (target : Int) (rmode : RelocMode) (cond : Condition) :
    Emit Unit := do
  ASSERT (cond == al)
  mov cfg ip ⟨target, rmode⟩
  emit (.basr r14 ip)

/-- `MacroAssembler::Call(Handle<Code>, RelocInfo::Mode, TypeFeedbackId,
Condition)`; `ast_id_none` is `ast_id.IsNone()`. -/
def Call_Code (cfg : Config) (code : Int) (rmode : RelocMode) (ast_id_none : Bool)
    (cond : Condition) : Emit Unit := do
  ASSERT rmode.IsCodeTarget
  let rmode :=
    if rmode == RelocMode.CODE_TARGET && !ast_id_none then RelocMode.CODE_TARGET_WITH_ID
    else rmode
  Call_Address cfg code rmode cond

/-- `MacroAssembler::AllowThisStubCall`. -/
def AllowThisStubCall (cfg : Config) (stub : CodeStub) : Emit Bool := do
  let frame ← has_frame
  if !frame && stub.SometimesSetsUpAFrame then
    return false
  return cfg.allow_stub_calls || stub.CompilingCallsToThisStubIsGCSafe

/-- `MacroAssembler::CallStub`. -/
def CallStub (cfg : Config) (stub : CodeStub) (cond : Condition) : Emit Unit := do
  let ok ← AllowThisStubCall cfg stub
  ASSERT ok
  Call_Code cfg stub.GetCode RelocMode.CODE_TARGET true cond

/-! ## Bit operations with an immediate -/

/-- The remainder `a % b` of C, which truncates towards zero. -/
def cRem (a b : Int) : Int := a - b * (Int.sign a * Int.sign b * ((Int.natAbs a / Int.natAbs b : Nat) : Int))

/-- `IsPowerOf2(x)` for an integer type of modulus `n`: `(x & (x - 1)) == 0`.
Modelled from the spec: the helper is defined outside the repository file. -/
def IsPowerOf2 (n : Nat) (x : Int) : Bool :=
  Nat.land (unsignedOf n x) (unsignedOf n (x - 1)) == 0

/-- `CompilerIntrinsics::CountLeadingZeros` of a 32-bit word.  Modelled from
the spec: the intrinsic is defined outside the repository file. -/
def CountLeadingZeros (v : Nat) : Int := if v % M32 = 0 then 32 else 31 - (Nat.log2 (v % M32) : Int)

/-- `MacroAssembler::ClearRightImm`. -/
def ClearRightImm (cfg : Config) (dst src : Register) (val : Operand) : Emit Unit := do
  let numBitsToClear := cRem val.imm_ ((kPointerSize cfg : Int) * 8)
  if cfg.general_instr_ext then
    let endBit := 63 - numBitsToClear
    emit (.risbg dst src 0 endBit 0 true)
    return
  let hexMask : Nat := M64 - 1 - (2 ^ numBitsToClear.toNat % M64 + M64 - 1) % M64
  if dst ≠ src then
    LoadRR cfg dst src
  if numBitsToClear ≤ 16 then
    emit (.nill dst (hexMask % M16 : Nat))
  else if numBitsToClear ≤ 32 then
    emit (.nilf dst (hexMask % M32 : Nat))
  else if numBitsToClear ≤ 64 then
    emit (.nilf dst 0)
    emit (.nihf dst (hexMask / M32 : Nat))

/-- `MacroAssembler::And(Register, const Operand&)`. -/
def And_Operand (dst : Register) (opnd : Operand) : Emit Unit := emit (.nilf dst opnd.imm_)

/-- `MacroAssembler::AndP(Register, const Operand&)`. -/
def AndP_Operand (cfg : Config) (dst : Register) (opnd : Operand) : Emit Unit := do
  if cfg.is64 then
    let value := opnd.imm_
    if value / 4294967296 ≠ -1 then
      emit (.nihf dst (value / 4294967296))
    emit (.nilf dst (value % 4294967296))
  else
    And_Operand dst opnd

/-- The loop of `AndP(Register, Register, const Operand&)` that counts and
shifts out the trailing zeros of `value`; a non-zero pointer-size value leaves
the loop within `fuel = 64` rounds. -/
def shiftOutTrailingZeros : Nat → Int → Int → Int × Int
  | 0, trailing_zeros, shifted_value => (trailing_zeros, shifted_value)
  | fuel + 1, trailing_zeros, shifted_value =>
      if 0 ≠ shifted_value ∧ shifted_value % 2 = 0 then
        shiftOutTrailingZeros fuel (trailing_zeros + 1) (shifted_value / 2)
      else (trailing_zeros, shifted_value)

/-- `MacroAssembler::AndP(Register, Register, const Operand&)`. -/
def AndP_Register_Operand (cfg : Config) (dst src : Register) (opnd : Operand) :
    Emit Unit := do
  let value := opnd.imm_
  if cfg.general_instr_ext then
    let (trailing_zeros, shifted_value) := shiftOutTrailingZeros 64 0 value
    if 0 ≠ shifted_value && IsPowerOf2 (ptrMod cfg) (shifted_value + 1) then
      let startBit := 32 + CountLeadingZeros (unsignedOf M32 shifted_value) - trailing_zeros
      let endBit := 63 - trailing_zeros
      emit (.risbg dst src startBit endBit 0 true)
      return
    else if -1 = shifted_value then
      let endBit := 63 - trailing_zeros
      emit (.risbg dst src 0 endBit 0 true)
      return
  if dst ≠ src && 0 ≠ value then
    LoadRR cfg dst src
  AndP_Operand cfg dst opnd

/-! ## Write barrier -/

/-- `MacroAssembler::CheckPageFlag`; `mask` is a C `int`. -/
def CheckPageFlag (cfg : Config) (iso : Isolate) (object scratch : Register) (mask : Int)
    (cc : Condition) (condition_met : Label) : Emit Unit := do
  ASSERT (cc == ne || cc == eq)
  ClearRightImm cfg scratch object (Operand.ofInt iso.kPageSizeBits)
  if IsPowerOf2 M32 mask then
    let mut byte_offset : Int := 4
    let mut shifted_mask : Nat := unsignedOf M32 mask
    if mask ≤ 0x80 then
      byte_offset := (kPointerSize cfg : Int) - 1
    else if mask < 0x8000 then
      byte_offset := (kPointerSize cfg : Int) - 2
      shifted_mask := unsignedOf M32 (mask / 256)
    else if mask < 0x800000 then
      byte_offset := (kPointerSize cfg : Int) - 3
      shifted_mask := unsignedOf M32 (mask / 65536)
    else
      byte_offset := (kPointerSize cfg : Int) - 4
      shifted_mask := unsignedOf M32 (mask / 16777216)
    if cfg.little_endian_host then
      byte_offset := (kPointerSize cfg : Int) - byte_offset - 1
    emit (.tm (MemOperand.mk1 scratch (iso.MemoryChunk_kFlagsOffset + byte_offset)) (shifted_mask : Int))
  else
    LoadP cfg scratch (MemOperand.mk1 scratch iso.MemoryChunk_kFlagsOffset) no_reg
    AndP_Register_Operand cfg r0 scratch (Operand.ofInt mask)
  if cc == ne then
    bne condition_met
  if cc == eq then
    beq condition_met

/-- The enumeration `LinkRegisterStatus`. -/
inductive LinkRegisterStatus
  | kLRHasNotBeenSaved
  | kLRHasBeenSaved
  deriving DecidableEq, Repr

/-- The enumeration `SmiCheck`. -/
inductive SmiCheck
  | INLINE_SMI_CHECK
  | OMIT_SMI_CHECK
  deriving DecidableEq, Repr

/-- The constant `kZapValue` as a pointer-size integer.  Modelled from the
spec: it is defined outside the repository file and only feeds the debug-code
clobbering of dead registers. -/
def kZapValue (cfg : Config) : Int := if cfg.is64 then 0xdeadbeedbeadbeef else 0xdeadbeef

/-- `MacroAssembler::RecordWrite`.  The arguments `remembered_set_action` and
`fp_mode` only select the stub. -/
def RecordWrite (cfg : Config) (iso : Isolate)
    (object address value : Register) (lr_status : LinkRegisterStatus) (fp_mode : Bool)
    (remembered_set_action : Bool) (smi_check : SmiCheck) : Emit Unit := do
  ASSERT (address ≠ cp && value ≠ cp)
  if cfg.emit_debug_code then
    CmpP_MemOperand cfg value (MemOperand.mk1 address 0)
    Check eq
  let done ← newLabel
  if smi_check = SmiCheck.INLINE_SMI_CHECK then
    JumpIfSmi value done
  CheckPageFlag cfg iso value value iso.kPointersToHereAreInterestingMask eq done
  CheckPageFlag cfg iso object value iso.kPointersFromHereAreInterestingMask eq done
  if lr_status = LinkRegisterStatus.kLRHasNotBeenSaved then
    push cfg r14
  let stub := iso.RecordWriteStub object value address remembered_set_action fp_mode
  CallStub cfg stub al
  if lr_status = LinkRegisterStatus.kLRHasNotBeenSaved then
    pop cfg r14
  bind done
  if cfg.emit_debug_code then
    mov cfg address (Operand.ofInt (toIntPtr cfg (kZapValue cfg + 12)))
    mov cfg value (Operand.ofInt (toIntPtr cfg (kZapValue cfg + 16)))

/-! ## Write-barrier conditions -/

/-- A tagged small integer: the tag bit (`kSmiTagMask`) is `kSmiTag`. -/
def isSmi (v : Nat) : Prop := v % 2 = 0

instance (v : Nat) : Decidable (isSmi v) := by unfold isSmi; exact inferInstance

/-- The start of the page that contains the address held in a register
value, for pages of `2 ^ n` bytes. -/
def pageOf (cfg : Config) (n : Nat) (x : Nat) : Nat := x % addrMod cfg / 2 ^ n * 2 ^ n

/-- The flags word of the page that contains the address `x`. -/
def pageFlags (cfg : Config) (iso : Isolate) (mem : Nat → Nat) (x : Nat) : Nat :=
  loadPtr cfg mem
    (unsignedOf (addrMod cfg)
      ((pageOf cfg iso.kPageSizeBits.toNat x : Int) + iso.MemoryChunk_kFlagsOffset))

/-- Whether the write barrier of `RecordWrite` has work to do: the value is
not a small integer, its page has flag bit `kTo` set and the page of the object
has flag bit `kFrom` set. -/
def barrierNeeded (cfg : Config) (iso : Isolate) (kTo kFrom : Nat) (m : Machine)
    (object value : Register) : Prop :=
  ¬ isSmi (m.regs value) ∧
    (pageFlags cfg iso m.mem (m.regs value)).testBit kTo = true ∧
    (pageFlags cfg iso m.mem (m.regs object)).testBit kFrom = true

instance (cfg : Config) (iso : Isolate) (kTo kFrom : Nat) (m : Machine)
    (object value : Register) : Decidable (barrierNeeded cfg iso kTo kFrom m object value) := by
  unfold barrierNeeded; exact inferInstance

/-- A 64-bit machine for the write barrier: `r3` holds an object on the page
at 0x500000, `r4` a heap pointer on the page at 0x300000; the low byte of the
flags word of the first page is `fromFlags`, of the second `toFlags`. -/
def barrierMachine (toFlags fromFlags : Nat) : Machine :=
  { regs := fun r => if r = r3 then 0x500041 else if r = r4 then 0x300081 else 0
    cc := 0
    mem := fun a => if a = 0x300017 then toFlags else if a = 0x500017 then fromFlags else 0
    fregs := fun _ => 0 }

/-! ## Invoking functions -/

/-- The class `ParameterCount`: an argument count known when the code is
generated (an immediate) or only at run time (in a register).  Modelled from
the spec: the class is declared outside the repository file; a count is either
a register or an immediate, and the accessors assert the matching kind. -/
structure ParameterCount where
  reg_ : Register
  immediate_ : Int
  deriving DecidableEq, Repr

/-- The constructor `ParameterCount(Register)`. -/
def ParameterCount.ofRegister (r : Register) : ParameterCount := ⟨r, 0⟩

/-- The constructor `ParameterCount(int)`. -/
def ParameterCount.ofImmediate (i : Int) : ParameterCount := ⟨no_reg, i⟩

def ParameterCount.is_reg (p : ParameterCount) : Bool := p.reg_ != no_reg

def ParameterCount.is_immediate (p : ParameterCount) : Bool := !p.is_reg

/-- The accessor `reg()`, which asserts `is_reg()`. -/
def ParameterCount.reg (p : ParameterCount) : Emit Register := do
  ASSERT p.is_reg
  return p.reg_

/-- The accessor `immediate()`, which asserts `is_immediate()`. -/
def ParameterCount.immediate (p : ParameterCount) : Emit Int := do
  ASSERT p.is_immediate
  return p.immediate_

/-- The enumeration `InvokeFlag`. -/
inductive InvokeFlag
  | CALL_FUNCTION
  | JUMP_FUNCTION
  deriving DecidableEq, Repr

/-- The enumeration `CallKind`. -/
inductive CallKind
  | CALL_AS_METHOD
  | CALL_AS_FUNCTION
  deriving DecidableEq, Repr

/-- The interface `CallWrapper`: what its two hooks emit. -/
structure CallWrapper where
  BeforeCall : Int → Emit Unit
  AfterCall : Emit Unit

/-- The wrapper `NullCallWrapper`, whose hooks do nothing. -/
def NullCallWrapper : CallWrapper := ⟨fun _ => pure (), pure ()⟩

/-- `MacroAssembler::SetCallKind`. -/
def SetCallKind (cfg : Config) (dst : Register) (call_kind : CallKind) : Emit Unit := do
  ASSERT (dst == r7)
  if call_kind = CallKind.CALL_AS_FUNCTION then
    LoadSmiLiteral cfg dst (Smi.FromInt cfg 1)
  else
    LoadSmiLiteral cfg dst (Smi.FromInt cfg 0)

/-- `MacroAssembler::InvokePrologue`; `code_constant` is the location of the
code handle, `none` for a null handle.  The result is what the function leaves
in `*definitely_mismatches`. -/
def InvokePrologue (cfg : Config) (iso : Isolate) (expected actual : ParameterCount)
    (code_constant : Option Int) (code_reg : Register) (done : Label) (flag : InvokeFlag)
    (call_wrapper : CallWrapper) (call_kind : CallKind) : Emit Bool := do
  let mut definitely_matches := false
  let mut definitely_mismatches := false
  let regular_invoke ← newLabel
  if expected.is_immediate then
    ASSERT actual.is_immediate
    let e ← expected.immediate
    let a ← actual.immediate
    if e = a then
      definitely_matches := true
    else
      mov cfg r2 (Operand.ofInt a)
      let sentinel := iso.kDontAdaptArgumentsSentinel
      if e = sentinel then
        definitely_matches := true
      else
        definitely_mismatches := true
        mov cfg r4 (Operand.ofInt e)
  else
    if actual.is_immediate then
      let er ← expected.reg
      let a ← actual.immediate
      CmpPH cfg er (Operand.ofInt a)
      beq regular_invoke
      mov cfg r2 (Operand.ofInt a)
    else
      let er ← expected.reg
      let ar ← actual.reg
      CmpP_Register cfg er ar
      beq regular_invoke
  if !definitely_matches then
    match code_constant with
    | some c =>
        mov cfg r5 ⟨c, RelocMode.EMBEDDED_OBJECT⟩
        AddP_Operand cfg r5 (Operand.ofInt (iso.Code_kHeaderSize - kHeapObjectTag))
    | none => pure ()
    let adaptor := iso.ArgumentsAdaptorTrampoline
    if flag = InvokeFlag.CALL_FUNCTION then
      call_wrapper.BeforeCall (CallSize_Address cfg)
      SetCallKind cfg r7 call_kind
      Call_Code cfg adaptor RelocMode.CODE_TARGET true al
      call_wrapper.AfterCall
      if !definitely_mismatches then
        b al done
    else
      SetCallKind cfg r7 call_kind
      Jump_Code cfg adaptor RelocMode.CODE_TARGET al
    bind regular_invoke
  return definitely_mismatches

/-- `MacroAssembler::InvokeCode(Register code, ...)`. -/
def InvokeCode_Register (cfg : Config) (iso : Isolate) (code : Register)
    (expected actual : ParameterCount) (flag : InvokeFlag) (call_wrapper : CallWrapper)
    (call_kind : CallKind) : Emit Unit := do
  let frame ← has_frame
  ASSERT (flag == InvokeFlag.JUMP_FUNCTION || frame)
  let done ← newLabel
  let definitely_mismatches ←
    InvokePrologue cfg iso expected actual none code done flag call_wrapper call_kind
  if !definitely_mismatches then
    if flag = InvokeFlag.CALL_FUNCTION then
      call_wrapper.BeforeCall CallSize_Register
      SetCallKind cfg r7 call_kind
      Call_Register code al
      call_wrapper.AfterCall
    else
      ASSERT (flag == InvokeFlag.JUMP_FUNCTION)
      SetCallKind cfg r7 call_kind
      Jump_Register code al
    bind done

/-- `MacroAssembler::InvokeCode(Handle<Code> code, ...)`. -/
def InvokeCode_Code (cfg : Config) (iso : Isolate) (code : Int)
    (expected actual : ParameterCount) (rmode : RelocMode) (flag : InvokeFlag)
    (call_kind : CallKind) : Emit Unit := do
  let frame ← has_frame
  ASSERT (flag == InvokeFlag.JUMP_FUNCTION || frame)
  let done ← newLabel
  let definitely_mismatches ←
    InvokePrologue cfg iso expected actual (some code) no_reg done flag NullCallWrapper call_kind
  if !definitely_mismatches then
    if flag = InvokeFlag.CALL_FUNCTION then
      SetCallKind cfg r7 call_kind
      Call_Code cfg code rmode true al
    else
      SetCallKind cfg r7 call_kind
      Jump_Code cfg code rmode al
    bind done

/-- `MacroAssembler::GetBuiltinFunction`. -/
def GetBuiltinFunction (cfg : Config) (iso : Isolate) (target : Register) (id : Int) :
    Emit Unit := do
  LoadP cfg target (MemOperand.mk1 cp iso.Context_GlobalObjectSlotOffset) no_reg
  LoadP cfg target (FieldMemOperand target iso.GlobalObject_kBuiltinsOffset) no_reg
  LoadP cfg target (FieldMemOperand target (iso.JSBuiltinsObject_OffsetOfFunctionWithId id)) r0

/-- `MacroAssembler::GetBuiltinEntry`. -/
def GetBuiltinEntry (cfg : Config) (iso : Isolate) (target : Register) (id : Int) :
    Emit Unit := do
  ASSERT (target != r3)
  GetBuiltinFunction cfg iso r3 id
  LoadP cfg target (FieldMemOperand r3 iso.JSFunction_kCodeEntryOffset) no_reg

/-- `MacroAssembler::InvokeBuiltin`. -/
def InvokeBuiltin (cfg : Config) (iso : Isolate) (id : Int) (flag : InvokeFlag)
    (call_wrapper : CallWrapper) : Emit Unit := do
  let frame ← has_frame
  ASSERT (flag == InvokeFlag.JUMP_FUNCTION || frame)
  GetBuiltinEntry cfg iso r4 id
  if flag = InvokeFlag.CALL_FUNCTION then
    call_wrapper.BeforeCall CallSize_Register
    SetCallKind cfg r7 CallKind.CALL_AS_METHOD
    Call_Register r4 al
    call_wrapper.AfterCall
  else
    ASSERT (flag == InvokeFlag.JUMP_FUNCTION)
    SetCallKind cfg r7 CallKind.CALL_AS_METHOD
    Jump_Register r4 al

/-! ## Exception handlers -/

/-- The enumeration `StackHandler::Kind`. -/
inductive StackHandlerKind
  | JS_ENTRY
  | CATCH
  | FINALLY
  deriving DecidableEq, Repr

/-- The numeric value of a handler kind. -/
def StackHandlerKind.toInt : StackHandlerKind → Int
  | .JS_ENTRY => 0
  | .CATCH => 1
  | .FINALLY => 2

/-- `BitField<T, shift, size>::encode`, which asserts that the value fits the
field and returns it shifted into place, as a 32-bit unsigned word.  Modelled
from the spec: the template is declared outside the repository file. -/
def BitField.encode (shift size : Nat) (value : Int) : Emit Nat := do
  ASSERT (decide (0 ≤ value ∧ value < 2 ^ size))
  return (value.toNat * 2 ^ shift) % M32

/-- `StackHandlerConstants::kSize`: five pointer-size words (next, code, state,
context, frame pointer), as the static assertions of `PushTryHandler` state. -/
def StackHandlerConstants.kSize (cfg : Config) : Int := 5 * (kPointerSize cfg : Int)

def StackHandlerConstants.kNextOffset (cfg : Config) : Int := 0 * (kPointerSize cfg : Int)

def StackHandlerConstants.kCodeOffset (cfg : Config) : Int := 1 * (kPointerSize cfg : Int)

def StackHandlerConstants.kStateSlot (cfg : Config) : Int := 2 * (kPointerSize cfg : Int)

def StackHandlerConstants.kContextOffset (cfg : Config) : Int := 3 * (kPointerSize cfg : Int)

def StackHandlerConstants.kFPOffset (cfg : Config) : Int := 4 * (kPointerSize cfg : Int)

/-- `MacroAssembler::PushTryHandler`. -/
def PushTryHandler (cfg : Config) (iso : Isolate) (kind : StackHandlerKind)
    (handler_index : Int) : Emit Unit := do
  mov cfg r7 ⟨iso.handler_address, RelocMode.EXTERNAL_REFERENCE⟩
  emit (.lay sp (MemOperand.mk1 sp (-StackHandlerConstants.kSize cfg)))
  emit (.mvc (MemOperand.mk1 sp (StackHandlerConstants.kNextOffset cfg)) (MemOperand.mk1 r7 0)
    (kPointerSize cfg))
  StoreP cfg sp (MemOperand.mk1 r7 0) no_reg
  let index ← BitField.encode iso.kKindWidth (32 - iso.kKindWidth) handler_index
  let kindBits ← BitField.encode 0 iso.kKindWidth kind.toInt
  let state : Nat := Nat.lor index kindBits
  if kind = StackHandlerKind.JS_ENTRY then
    LoadIntLiteral cfg r7 state
    LoadImmP cfg r8 ⟨0, RelocMode.NONE⟩
    LoadSmiLiteral cfg r9 (Smi.FromInt cfg 0)
    StoreMultipleP cfg r7 r9 (MemOperand.mk1 sp (StackHandlerConstants.kStateSlot cfg))
  else
    StoreP cfg fp (MemOperand.mk1 sp (StackHandlerConstants.kFPOffset cfg)) no_reg
    StoreP cfg cp (MemOperand.mk1 sp (StackHandlerConstants.kContextOffset cfg)) no_reg
    LoadIntLiteral cfg r7 state
    StoreP cfg r7 (MemOperand.mk1 sp (StackHandlerConstants.kStateSlot cfg)) no_reg
  mov cfg r7 ⟨iso.CodeObject, RelocMode.EMBEDDED_OBJECT⟩
  StoreP cfg r7 (MemOperand.mk1 sp (StackHandlerConstants.kCodeOffset cfg)) no_reg

/-- `MacroAssembler::PopTryHandler`. -/
def PopTryHandler (cfg : Config) (iso : Isolate) : Emit Unit := do
  LoadP cfg r3 (MemOperand.mk1 sp (StackHandlerConstants.kNextOffset cfg)) no_reg
  mov cfg ip ⟨iso.handler_address, RelocMode.EXTERNAL_REFERENCE⟩
  emit (.lay sp (MemOperand.mk1 sp (StackHandlerConstants.kSize cfg)))
  StoreP cfg r3 (MemOperand.mk1 ip 0) no_reg

/-- Compare instructions. -/
def Instr.isCompare : Instr → Bool
  | .cgr _ _ | .cr_z _ _ | .cghi _ _ | .chi _ _ | .cgfi _ _ | .cfi _ _ | .cg _ _ | .c _ _
  | .cy _ _ | .clgr _ _ | .clr _ _ | .clg _ _ | .cl _ _ | .cly _ _ | .clgfi _ _
  | .clfi _ _ => true
  | _ => false

/-- Transfers of control out of the generated code: a call (`basr`) or a jump
(`bcr`) through a register. -/
def Instr.isTransfer : Instr → Bool
  | .basr _ _ | .bcr _ _ => true
  | _ => false

/-- Instructions that write the register `r` with an immediate. -/
def Instr.loadsImmediateInto (r : Register) : Instr → Bool
  | .iihf d _ | .iilf d _ | .llihf d _ | .llilf d _ | .lghi d _ | .lhi d _ => d == r
  | _ => false

/-- The registers through which the transfers of a code fragment go, in
order. -/
def transferRegisters : List Instr → List Register
  | [] => []
  | .basr _ b :: rest => b :: transferRegisters rest
  | .bcr _ r :: rest => r :: transferRegisters rest
  | _ :: rest => transferRegisters rest

/-! ## Memory access with a displacement -/

/-- `MacroAssembler::LoadW`: load 32 bits and sign-extend. -/
def LoadW (cfg : Config) (dst : Register) (mem : MemOperand) (scratch : Register) :
    Emit Unit := do
  let offset := mem.offset
  if !is_int20 offset then
    ASSERT (scratch ≠ no_reg)
    LoadIntLiteral cfg scratch offset
    if cfg.is64 then emit (.lgf dst (MemOperand.mk2 mem.rb scratch))
    else emit (.l dst (MemOperand.mk2 mem.rb scratch))
  else
    if cfg.is64 then emit (.lgf dst mem)
    else if is_uint12 offset then emit (.l dst mem)
    else emit (.ly dst mem)

/-- `MacroAssembler::LoadlW`: load 32 bits and zero-extend. -/
def LoadlW (cfg : Config) (dst : Register) (mem : MemOperand) (scratch : Register) :
    Emit Unit := do
  let base := mem.rb
  let offset := mem.offset
  if cfg.is64 then
    if is_int20 offset then
      emit (.llgf dst mem)
    else if scratch ≠ no_reg then
      LoadIntLiteral cfg scratch offset
      emit (.llgf dst (MemOperand.mk2 base scratch))
    else
      ASSERT false
  else
    let mut use_RXform := false
    let mut use_RXYform := false
    if is_uint12 offset then
      use_RXform := true
    else if is_int20 offset then
      use_RXYform := true
    else if scratch ≠ no_reg then
      LoadIntLiteral cfg scratch offset
    else
      ASSERT false
    if use_RXform then
      emit (.l dst mem)
    else if use_RXYform then
      emit (.ly dst mem)
    else
      emit (.ly dst (MemOperand.mk2 base scratch))

/-- `MacroAssembler::LoadHalfWordP`: load 16 bits and sign-extend to pointer
size. -/
def LoadHalfWordP (cfg : Config) (dst : Register) (mem : MemOperand) (scratch : Register) :
    Emit Unit := do
  let base := mem.rb
  let offset := mem.offset
  if !is_int20 offset then
    ASSERT (scratch ≠ no_reg)
    LoadIntLiteral cfg scratch offset
    if cfg.is64 then emit (.lgh dst (MemOperand.mk2 base scratch))
    else emit (.lh dst (MemOperand.mk2 base scratch))
  else
    if cfg.is64 then emit (.lgh dst mem)
    else if is_uint12 offset then emit (.lh dst mem)
    else emit (.lhy dst mem)

/-- `MacroAssembler::StoreHalfWord`. -/
def StoreHalfWord (cfg : Config) (src : Register) (mem : MemOperand) (scratch : Register) :
    Emit Unit := do
  let base := mem.rb
  let offset := mem.offset
  if is_uint12 offset then
    emit (.sth src mem)
  else if is_int20 offset then
    emit (.sthy src mem)
  else
    ASSERT (scratch ≠ no_reg)
    LoadIntLiteral cfg scratch offset
    emit (.sth src (MemOperand.mk2 base scratch))

/-- `MacroAssembler::StoreByte`. -/
def StoreByte (cfg : Config) (src : Register) (mem : MemOperand) (scratch : Register) :
    Emit Unit := do
  let base := mem.rb
  let offset := mem.offset
  if is_uint12 offset then
    emit (.stc src mem)
  else if is_int20 offset then
    emit (.stcy src mem)
  else
    ASSERT (scratch ≠ no_reg)
    LoadIntLiteral cfg scratch offset
    emit (.stc src (MemOperand.mk2 base scratch))

/-- `MacroAssembler::LoadF`. -/
def LoadF (dst : DoubleRegister) (mem : MemOperand) : Emit Unit :=
  if is_uint12 mem.offset then emit (.ld dst mem) else emit (.ldy dst mem)

/-- `MacroAssembler::StoreF`. -/
def StoreF (dst : DoubleRegister) (mem : MemOperand) : Emit Unit :=
  if is_uint12 mem.offset then emit (.std dst mem) else emit (.stdy dst mem)
/-! ## Shifts, returns and pushes -/

/-- `MacroAssembler::ShiftRightArith(Register, Register, const Operand&)`:
arithmetic, 32-bit. -/
def ShiftRightArith (cfg : Config) (dst src : Register) (val : Operand) : Emit Unit := do
  if dst = src then
    emit (.sra dst val.imm_)
  else if cfg.distinct_ops then
    emit (.srak dst src val.imm_)
  else
    emit (.lr dst src)
    emit (.sra dst val.imm_)

/-- The alias `ShiftRightArithP`: `srag` on the 64-bit target, `ShiftRightArith`
otherwise.  Modelled from the spec: see the pointer-size aliases above. -/
def ShiftRightArithP (cfg : Config) (dst src : Register) (val : Operand) : Emit Unit :=
  if cfg.is64 then emit (.srag dst src val.imm_) else ShiftRightArith cfg dst src val

/-- The inline `SmiUntag(dst, src)`.  Modelled from the spec: the header that
defines it is not part of the repository file; the integer of a tagged small
integer is recovered by an arithmetic right shift by `kSmiShift`. -/
def SmiUntag (cfg : Config) (dst src : Register) : Emit Unit :=
  ShiftRightArithP cfg dst src (Operand.ofInt (kSmiShift cfg))

/-- `MacroAssembler::Ret()`. -/
def Ret : Emit Unit := b_Register al r14

/-- The inline `CleanseP`.  Modelled from the spec: the header that defines it
is not part of the repository file; as the comment in `EnterExitFrame` says, it
cleanses the top of a 31-bit pointer: code generated on the 31-bit machine
itself clears the bit above the 31-bit address, and nothing is emitted for the
64-bit target. -/
def CleanseP (cfg : Config) (src : Register) : Emit Unit :=
  if !cfg.is64 && !cfg.little_endian_host then emit (.nilh src 0x7FFF) else pure ()

/-- The inline `Push(src1, src2)`.  Modelled from the spec: the header that
defines it is not part of the repository file; the leftmost register is pushed
first, to the higher address. -/
def Push2 (cfg : Config) (src1 src2 : Register) : Emit Unit := do
  emit (.lay sp (MemOperand.mk1 sp (-(kPointerSize cfg : Int) * 2)))
  StoreP cfg src1 (MemOperand.mk1 sp (kPointerSize cfg)) no_reg
  StoreP cfg src2 (MemOperand.mk1 sp 0) no_reg

/-! ## Throwing -/

/-- `BitField<Kind, 0, kKindWidth>::kMask`, the mask of the kind field of a
handler state word. -/
def KindField.kMask (iso : Isolate) : Int := 2 ^ iso.kKindWidth - 1

/-- `MacroAssembler::JumpToHandlerEntry`. -/
def JumpToHandlerEntry (cfg : Config) (iso : Isolate) : Emit Unit := do
  LoadP cfg r5 (FieldMemOperand r3 iso.Code_kHandlerTableOffset) no_reg
  AddP_Operand cfg r5 (Operand.ofInt (iso.FixedArray_kHeaderSize - kHeapObjectTag))
  emit (.srl r4 iso.kKindWidth)
  LoadRR cfg ip r4
  emit (.sll ip (kPointerSizeLog2 cfg))
  AddP_Register cfg ip r5
  LoadP cfg r4 (MemOperand.mk1 ip 0) no_reg
  AddP_Operand cfg r3 (Operand.ofInt (iso.Code_kHeaderSize - kHeapObjectTag))
  SmiUntag cfg ip r4
  AddP_Register_Register cfg r0 r3 ip
  LoadRR cfg r14 r0
  Ret

/-- `MacroAssembler::Throw`. -/
def Throw (cfg : Config) (iso : Isolate) (value : Register) : Emit Unit := do
  let skip ← newLabel
  if value ≠ r2 then
    LoadRR cfg r2 value
  mov cfg r5 ⟨iso.handler_address, RelocMode.EXTERNAL_REFERENCE⟩
  LoadP cfg sp (MemOperand.mk1 r5 0) no_reg
  pop cfg r4
  StoreP cfg r4 (MemOperand.mk1 r5 0) no_reg
  pop cfg r3
  pop cfg r4
  pop cfg cp
  pop cfg fp
  CmpP_Operand cfg cp Operand.Zero
  beq skip
  StoreP cfg cp (MemOperand.mk1 fp iso.StandardFrameConstants_kContextOffset) no_reg
  bind skip
  JumpToHandlerEntry cfg iso

/-- `MacroAssembler::ThrowUncatchable`. -/
def ThrowUncatchable (cfg : Config) (iso : Isolate) (value : Register) : Emit Unit := do
  if value ≠ r2 then
    LoadRR cfg r2 value
  mov cfg r5 ⟨iso.handler_address, RelocMode.EXTERNAL_REFERENCE⟩
  LoadP cfg sp (MemOperand.mk1 r5 0) no_reg
  let fetch_next ← newLabel
  let check_kind ← newLabel
  b al check_kind
  bind fetch_next
  LoadP cfg sp (MemOperand.mk1 sp (StackHandlerConstants.kNextOffset cfg)) no_reg
  bind check_kind
  LoadP cfg r4 (MemOperand.mk1 sp (StackHandlerConstants.kStateSlot cfg)) no_reg
  mov cfg r0 (Operand.ofInt (KindField.kMask iso))
  AndP_Register cfg r0 r4
  bne fetch_next
  pop cfg r4
  StoreP cfg r4 (MemOperand.mk1 r5 0) no_reg
  pop cfg r3
  pop cfg r4
  pop cfg cp
  pop cfg fp
  JumpToHandlerEntry cfg iso

/-! ## Frames -/

/-- `MacroAssembler::EnterFrame`; `type` is the numeric value of the
`StackFrame::Type`. -/
def EnterFrame (cfg : Config) (iso : Isolate) (type : Int) : Emit Unit := do
  emit (.lay sp (MemOperand.mk1 sp (-5 * (kPointerSize cfg : Int))))
  CleanseP cfg r14
  StoreP cfg r14 (MemOperand.mk1 sp (4 * (kPointerSize cfg : Int))) no_reg
  StoreP cfg fp (MemOperand.mk1 sp (3 * (kPointerSize cfg : Int))) no_reg
  StoreP cfg cp (MemOperand.mk1 sp (2 * (kPointerSize cfg : Int))) no_reg
  LoadSmiLiteral cfg r0 (Smi.FromInt cfg type)
  StoreP cfg r0 (MemOperand.mk1 sp (1 * (kPointerSize cfg : Int))) no_reg
  mov cfg r0 ⟨iso.CodeObject, RelocMode.EMBEDDED_OBJECT⟩
  StoreP cfg r0 (MemOperand.mk1 sp (0 * (kPointerSize cfg : Int))) no_reg
  emit (.la fp (MemOperand.mk1 sp (3 * (kPointerSize cfg : Int))))

/-- `MacroAssembler::LeaveFrame`; the frame type is not used. -/
def LeaveFrame (cfg : Config) (type : Int) : Emit Unit := do
  LoadRR cfg sp fp
  LoadP cfg fp (MemOperand.mk1 sp 0) no_reg
  LoadP cfg r14 (MemOperand.mk1 sp (kPointerSize cfg)) no_reg
  emit (.la sp (MemOperand.mk1 sp (2 * (kPointerSize cfg : Int))))

/-- `ExitFrameConstants::kCallerSPDisplacement`, `kCallerPCOffset` and
`kCallerFPOffset`, with the values that `EnterExitFrame` asserts. -/
def ExitFrameConstants.kCallerSPDisplacement (cfg : Config) : Int := 2 * (kPointerSize cfg : Int)

def ExitFrameConstants.kCallerPCOffset (cfg : Config) : Int := 1 * (kPointerSize cfg : Int)

def ExitFrameConstants.kCallerFPOffset (cfg : Config) : Int := 0 * (kPointerSize cfg : Int)

/-- Emit a list of fragments in order. -/
def emitAll : List (Emit Unit) → Emit Unit
  | [] => pure ()
  | e :: es => do e; emitAll es

/-- The double registers that the exit frame saves, each with its slot number:
`d0`..`d6` on the 64-bit target; `d0`..`d3`, `d5` and `d7` upwards on the
31-bit target. -/
def savedDoubles (cfg : Config) (iso : Isolate) : List (Int × Int) :=
  if cfg.is64 then (List.range 7).map fun i => ((i : Int), (i : Int))
  else
    [(0, 0), (1, 1), (2, 2), (3, 3), (5, 4)] ++
      (List.range (iso.DoubleRegister_kNumRegisters - 7)).map fun j =>
        ((7 + j : Int), (5 + j : Int))

/-- `MacroAssembler::EnterExitFrame`. -/
def EnterExitFrame (cfg : Config) (iso : Isolate) (save_doubles : Bool) (stack_space : Int) :
    Emit Unit := do
  ASSERT (2 * (kPointerSize cfg : Int) == ExitFrameConstants.kCallerSPDisplacement cfg)
  ASSERT (1 * (kPointerSize cfg : Int) == ExitFrameConstants.kCallerPCOffset cfg)
  ASSERT (0 * (kPointerSize cfg : Int) == ExitFrameConstants.kCallerFPOffset cfg)
  ASSERT (decide (stack_space > 0))
  CleanseP cfg r14
  Push2 cfg r14 fp
  LoadRR cfg fp sp
  -- Reserve room for saved entry sp and code object.
  emit (.lay sp (MemOperand.mk1 sp (-2 * (kPointerSize cfg : Int))))
  if cfg.emit_debug_code then
    LoadImmP cfg r1 Operand.Zero
    StoreP cfg r1 (MemOperand.mk1 fp iso.ExitFrameConstants_kSPOffset) no_reg
  mov cfg r1 ⟨iso.CodeObject, RelocMode.EMBEDDED_OBJECT⟩
  StoreP cfg r1 (MemOperand.mk1 fp iso.ExitFrameConstants_kCodeOffset) no_reg
  -- Save the frame pointer and the context in top.
  mov cfg r1 ⟨iso.c_entry_fp_address, RelocMode.EXTERNAL_REFERENCE⟩
  StoreP cfg fp (MemOperand.mk1 r1 0) no_reg
  mov cfg r1 ⟨iso.context_address, RelocMode.EXTERNAL_REFERENCE⟩
  StoreP cfg cp (MemOperand.mk1 r1 0) no_reg
  -- Optionally save all volatile double registers.
  if save_doubles then
    let kNumRegs := iso.kNumVolatileRegisters
    emit (.lay sp (MemOperand.mk1 sp (-kNumRegs * iso.kDoubleSize)))
    emitAll ((savedDoubles cfg iso).map fun p =>
      StoreF (DoubleRegister.from_code p.1) (MemOperand.mk1 sp (p.2 * iso.kDoubleSize)))
  -- Allocate and align the frame preparing for calling the runtime function.
  let stack_space := stack_space + iso.kNumRequiredStackFrameSlots
  emit (.lay sp (MemOperand.mk1 sp (-stack_space * (kPointerSize cfg : Int))))
  let frame_alignment := iso.ActivationFrameAlignment
  if frame_alignment > 0 then
    ASSERT (frame_alignment == 8)
    ClearRightImm cfg sp sp (Operand.ofInt 3)
  -- Set the exit frame sp value to point just before the return address location.
  emit (.lay r1 (MemOperand.mk1 sp (iso.kStackFrameSPSlot * (kPointerSize cfg : Int))))
  StoreP cfg r1 (MemOperand.mk1 fp iso.ExitFrameConstants_kSPOffset) no_reg

/-- `MacroAssembler::LeaveExitFrame`; `DEBUG` tells whether the preprocessor
symbol `DEBUG` is defined, and `argument_count` is `no_reg` when there is
none. -/
def LeaveExitFrame (cfg : Config) (iso : Isolate) (DEBUG : Bool) (save_doubles : Bool)
    (argument_count : Register) : Emit Unit := do
  -- Optionally restore all double registers.
  if save_doubles then
    let kNumRegs := iso.kNumVolatileRegisters
    emit (.lay sp (MemOperand.mk1 fp (-(2 * (kPointerSize cfg : Int) + kNumRegs * iso.kDoubleSize))))
    emitAll ((savedDoubles cfg iso).map fun p =>
      LoadF (DoubleRegister.from_code p.1) (MemOperand.mk1 sp (p.2 * iso.kDoubleSize)))
  -- Clear top frame.
  LoadImmP cfg r0 ⟨0, RelocMode.NONE⟩
  mov cfg ip ⟨iso.c_entry_fp_address, RelocMode.EXTERNAL_REFERENCE⟩
  StoreP cfg r0 (MemOperand.mk1 ip 0) no_reg
  -- Restore current context from top and clear it in debug mode.
  mov cfg ip ⟨iso.context_address, RelocMode.EXTERNAL_REFERENCE⟩
  LoadP cfg cp (MemOperand.mk1 ip 0) no_reg
  if DEBUG then
    StoreP cfg r0 (MemOperand.mk1 ip 0) no_reg
  -- Tear down the exit frame, pop the arguments, and return.
  LoadRR cfg sp fp
  pop cfg fp
  pop cfg r14
  if argument_count.is_valid then
    ShiftLeftP cfg argument_count argument_count (Operand.ofInt (kPointerSizeLog2 cfg))
    emit (.la sp (MemOperand.mk2 sp argument_count))
/-! ## Straight-line code and pointer-size operations -/

/-- Instructions that always hand control to the next instruction. -/
def Instr.isStraight : Instr → Bool
  | .brc _ _ | .bcr _ _ | .basr _ _ | .abort => false
  | _ => true

/-- The machine after one instruction, as `step` gives it. -/
def Instr.effect (cfg : Config) (m : Machine) (i : Instr) : Machine :=
  match step cfg 0 m i with
  | .continue m1 => m1
  | .goto _ m1 => m1
  | .jump _ m1 => m1
  | .call _ m1 => m1
  | .abort m1 => m1

/-- The machine after a sequence of instructions executed in order. -/
def runStraight (cfg : Config) : List Instr → Machine → Machine
  | [], m => m
  | i :: rest, m => runStraight cfg rest (i.effect cfg m)

/-- The address held in a register: its contents modulo the size of the
address space. -/
def Machine.addr (cfg : Config) (m : Machine) (r : Register) : Nat := m.regs r % addrMod cfg

/-- The pointer-size load instruction that `LoadP` emits for a displacement
within the long-displacement range. -/
def ldP (cfg : Config) (dst : Register) (mem : MemOperand) : Instr :=
  if cfg.is64 then .lg dst mem else if is_uint12 mem.offset then .l dst mem else .ly dst mem

/-- The pointer-size store instruction that `StoreP` emits for a displacement
within the long-displacement range. -/
def stP (cfg : Config) (src : Register) (mem : MemOperand) : Instr :=
  if cfg.is64 then .stg src mem else if is_uint12 mem.offset then .st src mem else .sty src mem

/-- The instructions that `mov` emits. -/
def movCode (cfg : Config) (dst : Register) (imm : Int) : List Instr :=
  if cfg.is64 then
    [.iihf dst (toInt32 (toInt64 imm / 4294967296)), .iilf dst (toInt32 (toInt64 imm))]
  else [.iilf dst (toInt32 imm)]

/-- The register-to-register copy that `LoadRR` emits. -/
def lrP (cfg : Config) (dst src : Register) : Instr :=
  if cfg.is64 then .lgr dst src else .lr dst src

/-- The instruction that `LoadIntLiteral` emits. -/
def litInstr (cfg : Config) (dst : Register) (value : Int) : Instr :=
  if is_int16 (toIntPtr cfg (toInt32 value)) then
    (if cfg.is64 then .lghi dst (toInt32 value) else .lhi dst (toInt32 value))
  else (if cfg.is64 then .llilf dst (toInt32 value) else .iilf dst (toInt32 value))

/-- The pointer-size value that the instruction of `LoadIntLiteral` leaves in
its register: a value within the 16-bit range is sign-extended, any other is
the 32-bit pattern extended with zeros. -/
def litValue (cfg : Config) (value : Int) : Nat :=
  if is_int16 (toInt32 value) then unsignedOf (ptrMod cfg) (toInt32 value)
  else unsignedOf M32 value

/-- Two byte ranges of memory, `n` bytes at `a` and `k` bytes at `b`, have no
byte in common. -/
def Disjoint (cfg : Config) (a n b k : Nat) : Prop :=
  ∀ i, i < n → ∀ j, j < k → (a + i) % addrMod cfg ≠ (b + j) % addrMod cfg

instance (cfg : Config) (a n b k : Nat) : Decidable (Disjoint cfg a n b k) := by
  unfold Disjoint; exact inferInstance
/-- The address of the `k`-th pointer-size word counted from address `a`; `k`
may be negative. -/
def slot (cfg : Config) (a : Nat) (k : Int) : Nat :=
  unsignedOf (addrMod cfg) ((a : Int) + k * (kPointerSize cfg : Int))

/-- The instruction that `LoadImmP` emits. -/
def liP (cfg : Config) (dst : Register) (imm : Int) : Instr :=
  if cfg.is64 then .lghi dst imm else .lhi dst imm

/-- The store-multiple instruction that `StoreMultipleP` emits for a
displacement within the long-displacement range. -/
def stmP (cfg : Config) (src1 src2 : Register) (mem : MemOperand) : Instr :=
  if cfg.is64 then .stmg src1 src2 mem
  else if is_uint12 mem.offset then .stm src1 src2 mem else .stmy src1 src2 mem

/-- The instruction that `LoadSmiLiteral` emits. -/
def smiInstr (cfg : Config) (dst : Register) (smi : Int) : Instr :=
  if cfg.is64 then .llihf dst (smi / 4294967296) else .llilf dst smi
/-- The state word of a handler: `IndexField::encode(handler_index) |
KindField::encode(kind)`, a 32-bit unsigned value. -/
def StackHandler.state (iso : Isolate) (kind : StackHandlerKind) (handler_index : Int) : Nat :=
  Nat.lor (handler_index.toNat * 2 ^ iso.kKindWidth % M32) (kind.toInt.toNat * 2 ^ 0 % M32)

/-- The address of the current-handler slot. -/
def handlerSlot (cfg : Config) (iso : Isolate) : Nat := unsignedOf (addrMod cfg) iso.handler_address
/-- A machine with the stack pointer at `stack`, the context register holding
`context`, the frame pointer `frame`, every other register zero and memory all
zero. -/
def stackMachine (stack context frame : Nat) : Machine :=
  ⟨fun r => if r = sp then stack else if r = cp then context else if r = fp then frame else 0,
    0, fun _ => 0, fun _ => 0⟩

/-- The pointer-size word at the address `a` gives, after the code emitted by
`e` has run on `m` from its first instruction to its end. -/
def wordAfter (cfg : Config) (env : Env) (e : Emit Unit) (frame : Bool) (m : Machine)
    (a : Machine → Nat) : Option Nat :=
  (codeOf e frame).bind fun code =>
    (exec cfg env code (code.length + 1) m).map fun f => loadPtr cfg f.machine.mem (a f.machine)

/-! ## The three displacement buckets -/

/-- The instruction form that a displacement allows, in the words of the
specification: a displacement that fits the unsigned 12-bit field takes the
short form, one that fits the signed 20-bit field the long-displacement form,
and any other has to be materialised in a scratch register. -/
inductive Form
  | short
  | long
  | viaScratch
  deriving DecidableEq, Repr

/-- The bucket of a displacement. -/
def bucket (d : Int) : Form :=
  if 0 ≤ d ∧ d ≤ 4095 then .short
  else if -524288 ≤ d ∧ d ≤ 524287 then .long
  else .viaScratch

/-- The code that the three-bucket rule prescribes for an access `short` /
`long` of register `r` at `mem`: the short form, the long-displacement form,
or the load of the displacement into `scratch` followed by the base-plus-index
form `indexed` with displacement zero. -/
def bucketCode (cfg : Config) (short long indexed : Register → MemOperand → Instr) (r : Register)
    (mem : MemOperand) (scratch : Register) : List Instr :=
  match bucket mem.offset with
  | .short => [short r mem]
  | .long => [long r mem]
  | .viaScratch => [litInstr cfg scratch mem.offset, indexed r ⟨scratch, mem.rb, 0⟩]

/-- The displacement that an instruction carries, if it has a memory operand
(the first one for `mvc`). -/
def Instr.displacement : Instr → Option Int
  | .lg _ m | .l _ m | .ly _ m | .lgf _ m | .llgf _ m | .lgh _ m | .lh _ m | .lhy _ m
  | .ld _ m | .ldy _ m | .stg _ m | .st _ m | .sty _ m | .sth _ m | .sthy _ m | .stc _ m
  | .stcy _ m | .std _ m | .stdy _ m | .stmg _ _ m | .stm _ _ m | .stmy _ _ m | .cg _ m
  | .c _ m | .cy _ m | .tm m _ | .la _ m | .lay _ m | .mvc m _ _
  | .ag _ m | .a _ m | .ay _ m | .agf _ m | .sg _ m | .s _ m | .sy _ m | .sgf _ m
  | .alg _ m | .al_z _ m | .aly _ m | .sl _ m | .sly _ m | .slgf _ m | .msg _ m | .ms _ m
  | .msy _ m | .ng _ m | .n _ m | .ny _ m | .og _ m | .o _ m | .oy _ m | .xg _ m | .x _ m
  | .xy _ m | .clg _ m | .cl _ m | .cly _ m | .llh _ m | .lrvh _ m | .lrv _ m
  | .strv _ m => some m.offset
  | _ => none

/-- The emitted code of `e` appended to an assembler state, whether or not an
assertion failed. -/
def Emit.appended (e : Emit Unit) (st : Asm) : List Instr := (e.run st).2.code

/-- Whether an assertion fails while `e` emits its code from a state without
failure. -/
def Emit.fails (e : Emit Unit) (frame : Bool) : Bool := (e.run ⟨[], 0, frame, false⟩).2.failed

/-! ## Pointer cleansing -/

/-- The instructions that `CleanseP` emits. -/
def cleanseCode (cfg : Config) (r : Register) : List Instr :=
  if !cfg.is64 && !cfg.little_endian_host then [.nilh r 0x7FFF] else []

/-- The pointer-size value that `CleanseP` leaves in a register holding `v`:
where code is emitted, the bit above the 31-bit address is cleared. -/
def cleansed (cfg : Config) (v : Nat) : Nat :=
  if !cfg.is64 && !cfg.little_endian_host then v % 2147483648 else v

/-- The machine after the code of `CleanseP` for register `r`. -/
def cleanseM (cfg : Config) (r : Register) (m : Machine) : Machine :=
  runStraight cfg (cleanseCode cfg r) m

/-! ## Pointer-size arithmetic instructions -/

/-- The instruction that `AddP(Register, const Operand&)` emits. -/
def addPI (cfg : Config) (dst : Register) (imm : Int) : Instr :=
  if cfg.is64 then (if is_int16 imm then .aghi dst imm else .agfi dst imm)
  else (if is_int16 imm then .ahi dst imm else .afi dst imm)

/-- The instruction that `AddRR` (and so `AddP(Register, Register)`) emits. -/
def addP (cfg : Config) (dst src : Register) : Instr :=
  if cfg.is64 then .agr dst src else .ar dst src

/-- The instruction that `AndRR` (and so `AndP(Register, Register)`) emits. -/
def andP (cfg : Config) (dst src : Register) : Instr :=
  if cfg.is64 then .ngr dst src else .nr dst src

/-- The instruction that `CmpP(Register, Operand::Zero())` emits. -/
def cmpZero (cfg : Config) (r : Register) : Instr :=
  if cfg.is64 then .cgfi r 0 else .chi r 0

/-- The instructions that `SmiUntag(dst, src)` emits. -/
def untagCode (cfg : Config) (dst src : Register) : List Instr :=
  if cfg.is64 then [.srag dst src (kSmiShift cfg)]
  else if dst = src then [.sra dst (kSmiShift cfg)]
  else if cfg.distinct_ops then [.srak dst src (kSmiShift cfg)]
  else [.lr dst src, .sra dst (kSmiShift cfg)]

/-- The instructions that `AddP(dst, src1, src2)` emits for a destination
different from both sources. -/
def addRRR (cfg : Config) (dst src1 src2 : Register) : List Instr :=
  if cfg.distinct_ops then [if cfg.is64 then .agrk dst src1 src2 else .ark dst src1 src2]
  else [lrP cfg dst src1, addP cfg dst src2]

/-- The condition code that an instruction leaves. -/
def ccAfter (cfg : Config) (m : Machine) (i : Instr) : Nat := (i.effect cfg m).cc

/-- The condition code that a sequence of instructions leaves. -/
def ccAfterAll (cfg : Config) (m : Machine) (c : List Instr) : Nat := (runStraight cfg c m).cc

/-- The integer of a tagged small integer held in a pointer-size word. -/
def untagged (cfg : Config) (v : Nat) : Int := signedOf (ptrMod cfg) v / 2 ^ kSmiShift cfg

/-- The instructions of `JumpToHandlerEntry` before the final branch. -/
def jumpBody (cfg : Config) (iso : Isolate) : List Instr :=
  [ldP cfg r5 ⟨r3, r0, iso.Code_kHandlerTableOffset - kHeapObjectTag⟩,
    addPI cfg r5 (iso.FixedArray_kHeaderSize - kHeapObjectTag),
    .srl r4 iso.kKindWidth,
    lrP cfg ip r4,
    .sll ip (kPointerSizeLog2 cfg),
    addP cfg ip r5,
    ldP cfg r4 ⟨ip, r0, 0⟩,
    addPI cfg r3 (iso.Code_kHeaderSize - kHeapObjectTag)] ++
  (untagCode cfg ip r4 ++ (addRRR cfg r0 r3 ip ++ [lrP cfg r14 r0]))

/-- The instructions that `JumpToHandlerEntry` emits. -/
def jumpCode (cfg : Config) (iso : Isolate) : List Instr :=
  jumpBody cfg iso ++ [.bcr al r14]

/-- The entry address of a handler, in the words of the specification: the
start of the code of the code object `code` (its address plus the header size,
less the heap-object tag) plus the untagged offset stored in the handler table
of `code` at index `state >> kKindWidth`.  The handler table is the fixed array
whose tagged pointer is the field of `code` at `Code::kHandlerTableOffset`; its
elements start `FixedArray::kHeaderSize` past its address. -/
def handlerEntry (cfg : Config) (iso : Isolate) (mem : Nat → Nat) (code state : Nat) : Nat :=
  let table := loadPtr cfg mem
    (unsignedOf (addrMod cfg) ((code : Int) + (iso.Code_kHandlerTableOffset - kHeapObjectTag)))
  let index := state / 2 ^ iso.kKindWidth
  let offset := loadPtr cfg mem
    (unsignedOf (addrMod cfg)
      ((table : Int) + (iso.FixedArray_kHeaderSize - kHeapObjectTag) +
        (index : Int) * (kPointerSize cfg : Int)))
  unsignedOf (addrMod cfg)
    ((code : Int) + (iso.Code_kHeaderSize - kHeapObjectTag) + untagged cfg offset)

/-- The instructions that `pop(dst)` emits. -/
def popCode (cfg : Config) (dst : Register) : List Instr :=
  [ldP cfg dst ⟨sp, r0, 0⟩, .la sp ⟨sp, r0, (kPointerSize cfg : Int)⟩]

/-- The instructions of `Throw` and `ThrowUncatchable` that unlink the handler
record at `sp` and restore its fields. -/
def unlinkCode (cfg : Config) : List Instr :=
  popCode cfg r4 ++ (stP cfg r4 ⟨r5, r0, 0⟩ :: (popCode cfg r3 ++ (popCode cfg r4 ++
    (popCode cfg cp ++ popCode cfg fp))))

/-- The instructions of `Throw` up to the comparison of the restored context
with zero. -/
def throwPrefix (cfg : Config) (iso : Isolate) (value : Register) : List Instr :=
  (if value = r2 then [] else [lrP cfg r2 value]) ++
    (movCode cfg r5 iso.handler_address ++
      (ldP cfg sp ⟨r5, r0, 0⟩ :: (unlinkCode cfg ++ [cmpZero cfg cp])))

/-- The instructions of `Throw` from the conditional branch on. -/
def throwTail (cfg : Config) (iso : Isolate) : List Instr :=
  .brc eq 0 :: stP cfg cp ⟨fp, r0, iso.StandardFrameConstants_kContextOffset⟩ :: .bind 0 ::
    jumpCode cfg iso

/-- The `k`-th pointer-size field of the handler record at address `h`. -/
def handlerField (cfg : Config) (mem : Nat → Nat) (h : Nat) (k : Int) : Nat :=
  loadPtr cfg mem (slot cfg h k)

/-- The address of the frame's context slot, `fp +
StandardFrameConstants::kContextOffset`. -/
def contextSlot (cfg : Config) (iso : Isolate) (fpv : Nat) : Nat :=
  unsignedOf (addrMod cfg) ((fpv : Int) + iso.StandardFrameConstants_kContextOffset)
/-! ## A sample handler chain -/

/-- Store a list of pointer-size words at consecutive addresses from `a`. -/
def storeWords (cfg : Config) (mem : Nat → Nat) (a : Nat) : List Nat → Nat → Nat
  | [] => mem
  | v :: vs => storeWords cfg (writeBytes cfg mem a (kPointerSize cfg) v) (a + kPointerSize cfg) vs

/-- A memory of the 64-bit target that holds the handler chain
`[catch, catch, entry, catch]` (innermost first): four records of five words
(next, code, state, context, fp) at 1000, 2000, 3000 and 4000, and the
current-handler slot at 8192 pointing at the first.  The state word is
`index << 2 | kind`; the entry record has context and frame pointer zero. -/
def chainMem : Nat → Nat :=
  storeWords cfg64
    (storeWords cfg64
      (storeWords cfg64
        (storeWords cfg64
          (storeWords cfg64 (fun _ => 0) 8192 [1000])
          1000 [2000, 20001, 13, 7, 5000])
        2000 [3000, 21001, 9, 8, 6000])
      3000 [4000, 22001, 4, 0, 0])
    4000 [0, 23001, 5, 9, 7000]

/-- A machine of the 64-bit target with the sample handler chain in memory,
`r2 = 1` and `r3 = 42`. -/
def chainMachine : Machine :=
  ⟨fun r => if r = r2 then 1 else if r = r3 then 42 else 0, 0, chainMem, fun _ => 0⟩

/-! ## The code of `ThrowUncatchable` -/

/-- The instructions of `ThrowUncatchable` before the loop: the exception
value goes to `r2` and `sp` to the top handler. -/
def uncPrefix (cfg : Config) (iso : Isolate) (value : Register) : List Instr :=
  (if value = r2 then [] else [lrP cfg r2 value]) ++
    (movCode cfg r5 iso.handler_address ++ [ldP cfg sp ⟨r5, r0, 0⟩])

/-- The instructions at `check_kind` up to the conditional branch: the state
word of the record at `sp` is masked with the kind mask. -/
def checkStraight (cfg : Config) (iso : Isolate) : List Instr :=
  .bind 1 :: ldP cfg r4 ⟨sp, r0, StackHandlerConstants.kStateSlot cfg⟩ ::
    (movCode cfg r0 (KindField.kMask iso) ++ [andP cfg r0 r4])

/-- The code of `ThrowUncatchable` from `check_kind` on. -/
def uncCheck (cfg : Config) (iso : Isolate) : List Instr :=
  checkStraight cfg iso ++ (.brc ne 0 :: (unlinkCode cfg ++ jumpCode cfg iso))

/-- The code of `ThrowUncatchable` from `fetch_next` on. -/
def uncFetch (cfg : Config) (iso : Isolate) : List Instr :=
  .bind 0 :: ldP cfg sp ⟨sp, r0, StackHandlerConstants.kNextOffset cfg⟩ :: uncCheck cfg iso

/-- The kind bits of the state word of the handler record at `h`; zero is
`JS_ENTRY`. -/
def handlerKindBits (cfg : Config) (iso : Isolate) (mem : Nat → Nat) (h : Nat) : Nat :=
  handlerField cfg mem h 2 % 2 ^ iso.kKindWidth

/-- The handler chain from the record `h`: the records `skipped`, none of the
entry kind, each linked to the next by its first word, lead to the record
`e`. -/
def linked (cfg : Config) (iso : Isolate) (mem : Nat → Nat) : Nat → List Nat → Nat → Prop
  | h, [], e => h = e
  | h, s :: rest, e =>
      h = s ∧ handlerKindBits cfg iso mem s ≠ 0 ∧ linked cfg iso mem (handlerField cfg mem s 0) rest e

/-! ## The code of the exit frames -/

/-- The instruction that `LoadF` emits. -/
def loadF (d : DoubleRegister) (mem : MemOperand) : Instr :=
  if is_uint12 mem.offset then .ld d mem else .ldy d mem

/-- The instruction that `StoreF` emits. -/
def storeF (d : DoubleRegister) (mem : MemOperand) : Instr :=
  if is_uint12 mem.offset then .std d mem else .stdy d mem

/-- The instructions of `LeaveExitFrame` that restore the double registers. -/
def restoreDoubles (cfg : Config) (iso : Isolate) : List Instr :=
  .lay sp ⟨fp, r0, -(2 * (kPointerSize cfg : Int) + iso.kNumVolatileRegisters * iso.kDoubleSize)⟩ ::
    (savedDoubles cfg iso).map fun p =>
      loadF (DoubleRegister.from_code p.1) ⟨sp, r0, p.2 * iso.kDoubleSize⟩

/-- The instruction that `ShiftLeftP(r, r, k)` emits. -/
def shlP (cfg : Config) (r : Register) (k : Int) : Instr :=
  if cfg.is64 then .sllg r r k else .sll r k

/-- The instructions of `LeaveExitFrame` that pop the arguments. -/
def popArgs (cfg : Config) (argument_count : Register) : List Instr :=
  [shlP cfg argument_count (kPointerSizeLog2 cfg), .la sp ⟨argument_count, sp, 0⟩]

/-- The instructions of `LeaveExitFrame` that clear the C-entry frame pointer
slot and restore the context from the context slot, which is cleared in a
debug build only. -/
def leaveSlots (cfg : Config) (iso : Isolate) (DEBUG : Bool) : List Instr :=
  liP cfg r0 0 :: (movCode cfg ip iso.c_entry_fp_address ++ (stP cfg r0 ⟨ip, r0, 0⟩ ::
    (movCode cfg ip iso.context_address ++ (ldP cfg cp ⟨ip, r0, 0⟩ ::
      (if DEBUG then [stP cfg r0 ⟨ip, r0, 0⟩] else [])))))

/-- The instructions of `LeaveExitFrame` that tear down the frame. -/
def leaveFrameCode (cfg : Config) : List Instr :=
  lrP cfg sp fp :: (popCode cfg fp ++ popCode cfg r14)

/-- The instructions of `LeaveExitFrame` after the double registers are
restored. -/
def leaveCore (cfg : Config) (iso : Isolate) (DEBUG : Bool) (argument_count : Register) :
    List Instr :=
  leaveSlots cfg iso DEBUG ++ (leaveFrameCode cfg ++
    (if argument_count.is_valid then popArgs cfg argument_count else []))

/-- The instructions that `LeaveExitFrame` emits. -/
def leaveExitCode (cfg : Config) (iso : Isolate) (DEBUG save_doubles : Bool)
    (argument_count : Register) : List Instr :=
  (if save_doubles then restoreDoubles cfg iso else []) ++ leaveCore cfg iso DEBUG argument_count

/-- The address of the process-wide C-entry-frame-pointer slot. -/
def cEntryFpSlot (cfg : Config) (iso : Isolate) : Nat :=
  unsignedOf (addrMod cfg) iso.c_entry_fp_address

/-- The address of the process-wide context slot. -/
def contextTopSlot (cfg : Config) (iso : Isolate) : Nat :=
  unsignedOf (addrMod cfg) iso.context_address

/-- The instructions that `ClearRightImm(sp, sp, Operand(3))` emits. -/
def alignCode (cfg : Config) : List Instr :=
  if cfg.general_instr_ext then [.risbg sp sp 0 60 0 true] else [.nill sp 65528]

/-- The instructions of `EnterExitFrame` that build the frame: the return
address and the caller's frame pointer are pushed, `fp` is set, and the slots
for the stack pointer and the code object are reserved and filled. -/
def enterBuild (cfg : Config) (iso : Isolate) : List Instr :=
  cleanseCode cfg r14 ++ (.lay sp ⟨sp, r0, -(kPointerSize cfg : Int) * 2⟩ ::
    stP cfg r14 ⟨sp, r0, (kPointerSize cfg : Int)⟩ :: stP cfg fp ⟨sp, r0, 0⟩ :: lrP cfg fp sp ::
    .lay sp ⟨sp, r0, -2 * (kPointerSize cfg : Int)⟩ ::
    ((if cfg.emit_debug_code then
        [liP cfg r1 0, stP cfg r1 ⟨fp, r0, iso.ExitFrameConstants_kSPOffset⟩] else []) ++
      (movCode cfg r1 iso.CodeObject ++
        [stP cfg r1 ⟨fp, r0, iso.ExitFrameConstants_kCodeOffset⟩])))

/-- The instructions of `EnterExitFrame` that save the frame pointer and the
context in the two process-wide slots. -/
def enterSlots (cfg : Config) (iso : Isolate) : List Instr :=
  movCode cfg r1 iso.c_entry_fp_address ++ (stP cfg fp ⟨r1, r0, 0⟩ ::
    (movCode cfg r1 iso.context_address ++ [stP cfg cp ⟨r1, r0, 0⟩]))

/-- The instructions of `EnterExitFrame` up to the saving of the frame pointer
and the context in the two process-wide slots. -/
def enterHead (cfg : Config) (iso : Isolate) : List Instr :=
  enterBuild cfg iso ++ enterSlots cfg iso

/-- The instructions of `EnterExitFrame` that save the double registers. -/
def saveDoubles (cfg : Config) (iso : Isolate) : List Instr :=
  .lay sp ⟨sp, r0, -iso.kNumVolatileRegisters * iso.kDoubleSize⟩ ::
    (savedDoubles cfg iso).map fun p =>
      storeF (DoubleRegister.from_code p.1) ⟨sp, r0, p.2 * iso.kDoubleSize⟩

/-- The instructions of `EnterExitFrame` after the two process-wide slots are
written. -/
def enterTail (cfg : Config) (iso : Isolate) (save_doubles : Bool) (stack_space : Int) :
    List Instr :=
  (if save_doubles then saveDoubles cfg iso else []) ++
    (.lay sp ⟨sp, r0, -(stack_space + iso.kNumRequiredStackFrameSlots) * (kPointerSize cfg : Int)⟩ ::
      ((if iso.ActivationFrameAlignment > 0 then alignCode cfg else []) ++
        [.lay r1 ⟨sp, r0, iso.kStackFrameSPSlot * (kPointerSize cfg : Int)⟩,
          stP cfg r1 ⟨fp, r0, iso.ExitFrameConstants_kSPOffset⟩]))

/-- The instructions that `EnterExitFrame` emits. -/
def enterExitCode (cfg : Config) (iso : Isolate) (save_doubles : Bool) (stack_space : Int) :
    List Instr :=
  enterHead cfg iso ++ enterTail cfg iso save_doubles stack_space

/-- The address at which `EnterExitFrame` saves the double register with slot
number `k`, when the stack pointer is `a` before the area is reserved. -/
def doubleSlot (cfg : Config) (iso : Isolate) (a : Nat) (k : Int) : Nat :=
  unsignedOf (addrMod cfg)
    ((unsignedOf (addrMod cfg) ((a : Int) + -iso.kNumVolatileRegisters * iso.kDoubleSize) : Nat) +
      k * iso.kDoubleSize)

/-- The address of the slot of an exit frame that holds the stack pointer,
`fp + ExitFrameConstants::kSPOffset`. -/
def exitSpSlot (cfg : Config) (iso : Isolate) (fpv : Nat) : Nat :=
  unsignedOf (addrMod cfg) ((fpv : Int) + iso.ExitFrameConstants_kSPOffset)

/-- A machine of the 64-bit target inside an exit frame: `fp = 65520`, the
saved frame pointer 9 and the return address 77 in the two words at `fp`, the
context 7 in the process-wide context slot and the frame pointer in the
C-entry slot. -/
def exitMachine : Machine :=
  ⟨fun r => if r = fp then 65520 else if r = sp then 65000 else 0, 0,
    storeWords cfg64 (storeWords cfg64 (storeWords cfg64 (fun _ => 0) 65520 [9, 77])
      12288 [65520]) 12304 [7],
    fun _ => 0⟩

/-- The machine that the code of `LeaveExitFrame` leaves. -/
def leaveExitRun (cfg : Config) (iso : Isolate) (DEBUG save_doubles : Bool)
    (argument_count : Register) (m : Machine) : Machine :=
  runStraight cfg (leaveExitCode cfg iso DEBUG save_doubles argument_count) m

/-- The machine that the code of `EnterExitFrame` leaves. -/
def enterExitRun (cfg : Config) (iso : Isolate) (save_doubles : Bool) (stack_space : Int)
    (m : Machine) : Machine :=
  runStraight cfg (enterExitCode cfg iso save_doubles stack_space) m

/-! ## More pointer-size aliases

Modelled from the spec: see the pointer-size aliases above; the header that
defines these is not part of the repository file either. -/

def SubRR (cfg : Config) (dst src : Register) : Emit Unit :=
  emit (if cfg.is64 then .sgr dst src else .sr dst src)

def OrRR (cfg : Config) (dst src : Register) : Emit Unit :=
  emit (if cfg.is64 then .ogr dst src else .or_z dst src)

def XorRR (cfg : Config) (dst src : Register) : Emit Unit :=
  emit (if cfg.is64 then .xgr dst src else .xr dst src)

def SubP_RRR (cfg : Config) (dst src1 src2 : Register) : Emit Unit :=
  emit (if cfg.is64 then .sgrk dst src1 src2 else .srk dst src1 src2)

def OrP_RRR (cfg : Config) (dst src1 src2 : Register) : Emit Unit :=
  emit (if cfg.is64 then .ogrk dst src1 src2 else .ork dst src1 src2)

def XorP_RRR (cfg : Config) (dst src1 src2 : Register) : Emit Unit :=
  emit (if cfg.is64 then .xgrk dst src1 src2 else .xrk dst src1 src2)

def LoadComplementRR (cfg : Config) (dst src : Register) : Emit Unit :=
  emit (if cfg.is64 then .lcgr dst src else .lcr dst src)

def LoadAndTestRR (cfg : Config) (dst src : Register) : Emit Unit :=
  emit (if cfg.is64 then .ltgr dst src else .ltr dst src)

/-! ## Arithmetic on three registers -/

/-- `MacroAssembler::Add32(Register, Register)`. -/
def Add32_Register (dst src : Register) : Emit Unit := emit (.ar dst src)

/-- `MacroAssembler::Add32(Register, Register, Register)`. -/
def Add32_Register_Register (cfg : Config) (dst src1 src2 : Register) : Emit Unit := do
  let mut src2 := src2
  if dst ≠ src1 && dst ≠ src2 then
    if cfg.distinct_ops then
      emit (.ark dst src1 src2)
      return
    else
      emit (.lr dst src1)
  else if dst = src2 then
    src2 := src1
  emit (.ar dst src2)

/-- `MacroAssembler::Sub32(Register, Register)`. -/
def Sub32_Register (dst src : Register) : Emit Unit := emit (.sr dst src)

/-- `MacroAssembler::SubP(Register, Register)`. -/
def SubP_Register (cfg : Config) (dst src : Register) : Emit Unit := SubRR cfg dst src

/-- `MacroAssembler::Sub32(Register, Register, Register)`. -/
def Sub32_Register_Register (cfg : Config) (dst src1 src2 : Register) : Emit Unit := do
  if cfg.distinct_ops && dst ≠ src1 then
    emit (.srk dst src1 src2)
    return
  if dst ≠ src1 && dst ≠ src2 then
    emit (.lr dst src1)
  if dst ≠ src1 && dst = src2 then
    emit (.sr dst src1)
    emit (.lcr dst dst)
  else
    emit (.sr dst src2)

/-- `MacroAssembler::SubP(Register, Register, Register)`. -/
def SubP_Register_Register (cfg : Config) (dst src1 src2 : Register) : Emit Unit := do
  if cfg.distinct_ops && dst ≠ src1 then
    SubP_RRR cfg dst src1 src2
    return
  if dst ≠ src1 && dst ≠ src2 then
    LoadRR cfg dst src1
  if dst ≠ src1 && dst = src2 then
    SubP_Register cfg dst src1
    LoadComplementRR cfg dst dst
  else
    SubP_Register cfg dst src2

/-- `MacroAssembler::And(Register, Register)`. -/
def And_Register (dst src : Register) : Emit Unit := emit (.nr dst src)

/-- `MacroAssembler::And(Register, Register, Register)`. -/
def And_Register_Register (cfg : Config) (dst src1 src2 : Register) : Emit Unit := do
  let mut src2 := src2
  if dst ≠ src1 && dst ≠ src2 then
    if cfg.distinct_ops then
      emit (.nrk dst src1 src2)
      return
    else
      emit (.lr dst src1)
  else if dst = src2 then
    src2 := src1
  And_Register dst src2

/-- `MacroAssembler::AndP(Register, Register, Register)`. -/
def AndP_Register_Register (cfg : Config) (dst src1 src2 : Register) : Emit Unit := do
  let mut src2 := src2
  if dst ≠ src1 && dst ≠ src2 then
    if cfg.distinct_ops then
      AndP_RRR cfg dst src1 src2
      return
    else
      LoadRR cfg dst src1
  else if dst = src2 then
    src2 := src1
  AndP_Register cfg dst src2

/-- `MacroAssembler::Or(Register, Register)`. -/
def Or_Register (dst src : Register) : Emit Unit := emit (.or_z dst src)

/-- `MacroAssembler::OrP(Register, Register)`. -/
def OrP_Register (cfg : Config) (dst src : Register) : Emit Unit := OrRR cfg dst src

/-- `MacroAssembler::Or(Register, Register, Register)`. -/
def Or_Register_Register (cfg : Config) (dst src1 src2 : Register) : Emit Unit := do
  let mut src2 := src2
  if dst ≠ src1 && dst ≠ src2 then
    if cfg.distinct_ops then
      emit (.ork dst src1 src2)
      return
    else
      emit (.lr dst src1)
  else if dst = src2 then
    src2 := src1
  Or_Register dst src2

/-- `MacroAssembler::OrP(Register, Register, Register)`. -/
def OrP_Register_Register (cfg : Config) (dst src1 src2 : Register) : Emit Unit := do
  let mut src2 := src2
  if dst ≠ src1 && dst ≠ src2 then
    if cfg.distinct_ops then
      OrP_RRR cfg dst src1 src2
      return
    else
      LoadRR cfg dst src1
  else if dst = src2 then
    src2 := src1
  OrP_Register cfg dst src2

/-- `MacroAssembler::Xor(Register, Register)`. -/
def Xor_Register (dst src : Register) : Emit Unit := emit (.xr dst src)

/-- `MacroAssembler::XorP(Register, Register)`. -/
def XorP_Register (cfg : Config) (dst src : Register) : Emit Unit := XorRR cfg dst src

/-- `MacroAssembler::Xor(Register, Register, Register)`. -/
def Xor_Register_Register (cfg : Config) (dst src1 src2 : Register) : Emit Unit := do
  let mut src2 := src2
  if dst ≠ src1 && dst ≠ src2 then
    if cfg.distinct_ops then
      emit (.xrk dst src1 src2)
      return
    else
      emit (.lr dst src1)
  else if dst = src2 then
    src2 := src1
  Xor_Register dst src2

/-- `MacroAssembler::XorP(Register, Register, Register)`. -/
def XorP_Register_Register (cfg : Config) (dst src1 src2 : Register) : Emit Unit := do
  let mut src2 := src2
  if dst ≠ src1 && dst ≠ src2 then
    if cfg.distinct_ops then
      XorP_RRR cfg dst src1 src2
      return
    else
      LoadRR cfg dst src1
  else if dst = src2 then
    src2 := src1
  XorP_Register cfg dst src2

/-! ## Logical operations with an immediate -/

/-- `MacroAssembler::Or(Register, const Operand&)`. -/
def Or_Operand (dst : Register) (opnd : Operand) : Emit Unit := emit (.oilf dst opnd.imm_)

/-- `MacroAssembler::OrP(Register, const Operand&)`. -/
def OrP_Operand (cfg : Config) (dst : Register) (opnd : Operand) : Emit Unit := do
  if cfg.is64 then
    let value := opnd.imm_
    if value / 4294967296 ≠ 0 then
      emit (.oihf dst (value / 4294967296))
    emit (.oilf dst (value % 4294967296))
  else
    Or_Operand dst opnd

/-- `MacroAssembler::Xor(Register, const Operand&)`. -/
def Xor_Operand (dst : Register) (opnd : Operand) : Emit Unit := emit (.xilf dst opnd.imm_)

/-- `MacroAssembler::XorP(Register, const Operand&)`. -/
def XorP_Operand (cfg : Config) (dst : Register) (opnd : Operand) : Emit Unit := do
  if cfg.is64 then
    let value := opnd.imm_
    emit (.xihf dst (value / 4294967296))
    emit (.xilf dst (value % 4294967296))
  else
    Xor_Operand dst opnd

/-! ## Arithmetic with a memory operand -/

/-- The macro `UNIMPLEMENTED()`, which stops the emitter. -/
def UNIMPLEMENTED : Emit Unit := ASSERT false

/-- `MacroAssembler::MulP(Register, const MemOperand&)`. -/
def MulP_MemOperand (cfg : Config) (dst : Register) (opnd : MemOperand) : Emit Unit :=
  if cfg.is64 then
    if is_uint16 opnd.offset then emit (.ms dst opnd)
    else if is_int20 opnd.offset then emit (.msy dst opnd)
    else UNIMPLEMENTED
  else
    if is_int20 opnd.offset then emit (.msg dst opnd)
    else UNIMPLEMENTED

/-- `MacroAssembler::Add32(Register, const MemOperand&)`. -/
def Add32_MemOperand (dst : Register) (opnd : MemOperand) : Emit Unit := do
  ASSERT (is_int20 opnd.offset)
  if is_uint12 opnd.offset then emit (.a dst opnd) else emit (.ay dst opnd)

/-- `MacroAssembler::AddP(Register, const MemOperand&)`. -/
def AddP_MemOperand (cfg : Config) (dst : Register) (opnd : MemOperand) : Emit Unit := do
  if cfg.is64 then
    ASSERT (is_int20 opnd.offset)
    emit (.ag dst opnd)
  else
    Add32_MemOperand dst opnd

/-- `MacroAssembler::AddP_ExtendSrc(Register, const MemOperand&)`. -/
def AddP_ExtendSrc_MemOperand (cfg : Config) (dst : Register) (opnd : MemOperand) :
    Emit Unit := do
  if cfg.is64 then
    ASSERT (is_int20 opnd.offset)
    emit (.agf dst opnd)
  else
    Add32_MemOperand dst opnd

/-- `MacroAssembler::AddLogical(Register, const MemOperand&)`. -/
def AddLogical_MemOperand (dst : Register) (opnd : MemOperand) : Emit Unit := do
  ASSERT (is_int20 opnd.offset)
  if is_uint12 opnd.offset then emit (.al_z dst opnd) else emit (.aly dst opnd)

/-- `MacroAssembler::AddLogicalP(Register, const MemOperand&)`. -/
def AddLogicalP_MemOperand (cfg : Config) (dst : Register) (opnd : MemOperand) :
    Emit Unit := do
  if cfg.is64 then
    ASSERT (is_int20 opnd.offset)
    emit (.alg dst opnd)
  else
    AddLogical_MemOperand dst opnd

/-- `MacroAssembler::Sub32(Register, const MemOperand&)`. -/
def Sub32_MemOperand (dst : Register) (opnd : MemOperand) : Emit Unit := do
  ASSERT (is_int20 opnd.offset)
  if is_uint12 opnd.offset then emit (.s dst opnd) else emit (.sy dst opnd)

/-- `MacroAssembler::SubP(Register, const MemOperand&)`. -/
def SubP_MemOperand (cfg : Config) (dst : Register) (opnd : MemOperand) : Emit Unit :=
  if cfg.is64 then emit (.sg dst opnd) else Sub32_MemOperand dst opnd

/-- `MacroAssembler::SubP_ExtendSrc(Register, const MemOperand&)`. -/
def SubP_ExtendSrc_MemOperand (cfg : Config) (dst : Register) (opnd : MemOperand) :
    Emit Unit := do
  if cfg.is64 then
    ASSERT (is_int20 opnd.offset)
    emit (.sgf dst opnd)
  else
    Sub32_MemOperand dst opnd

/-- `MacroAssembler::SubLogical(Register, const MemOperand&)`. -/
def SubLogical_MemOperand (dst : Register) (opnd : MemOperand) : Emit Unit := do
  ASSERT (is_int20 opnd.offset)
  if is_uint12 opnd.offset then emit (.sl dst opnd) else emit (.sly dst opnd)

/-- `MacroAssembler::SubLogicalP(Register, const MemOperand&)`. -/
def SubLogicalP_MemOperand (cfg : Config) (dst : Register) (opnd : MemOperand) :
    Emit Unit := do
  ASSERT (is_int20 opnd.offset)
  if cfg.is64 then emit (.slgf dst opnd) else SubLogical_MemOperand dst opnd

/-- `MacroAssembler::SubLogicalP_ExtendSrc(Register, const MemOperand&)`. -/
def SubLogicalP_ExtendSrc_MemOperand (cfg : Config) (dst : Register) (opnd : MemOperand) :
    Emit Unit := do
  if cfg.is64 then
    ASSERT (is_int20 opnd.offset)
    emit (.slgf dst opnd)
  else
    SubLogical_MemOperand dst opnd

/-- `MacroAssembler::And(Register, const MemOperand&)`. -/
def And_MemOperand (dst : Register) (opnd : MemOperand) : Emit Unit := do
  ASSERT (is_int20 opnd.offset)
  if is_uint12 opnd.offset then emit (.n dst opnd) else emit (.ny dst opnd)

/-- `MacroAssembler::AndP(Register, const MemOperand&)`. -/
def AndP_MemOperand (cfg : Config) (dst : Register) (opnd : MemOperand) : Emit Unit := do
  ASSERT (is_int20 opnd.offset)
  if cfg.is64 then emit (.ng dst opnd) else And_MemOperand dst opnd

/-- `MacroAssembler::Or(Register, const MemOperand&)`. -/
def Or_MemOperand (dst : Register) (opnd : MemOperand) : Emit Unit := do
  ASSERT (is_int20 opnd.offset)
  if is_uint12 opnd.offset then emit (.o dst opnd) else emit (.oy dst opnd)

/-- `MacroAssembler::OrP(Register, const MemOperand&)`. -/
def OrP_MemOperand (cfg : Config) (dst : Register) (opnd : MemOperand) : Emit Unit := do
  ASSERT (is_int20 opnd.offset)
  if cfg.is64 then emit (.og dst opnd) else Or_MemOperand dst opnd

/-- `MacroAssembler::Xor(Register, const MemOperand&)`. -/
def Xor_MemOperand (dst : Register) (opnd : MemOperand) : Emit Unit := do
  ASSERT (is_int20 opnd.offset)
  if is_uint12 opnd.offset then emit (.x dst opnd) else emit (.xy dst opnd)

/-- `MacroAssembler::XorP(Register, const MemOperand&)`. -/
def XorP_MemOperand (cfg : Config) (dst : Register) (opnd : MemOperand) : Emit Unit := do
  ASSERT (is_int20 opnd.offset)
  if cfg.is64 then emit (.xg dst opnd) else Xor_MemOperand dst opnd

/-- `MacroAssembler::CmpLogical32(Register, const MemOperand&)`. -/
def CmpLogical32_MemOperand (dst : Register) (opnd : MemOperand) : Emit Unit := do
  ASSERT (is_int20 opnd.offset)
  if is_uint12 opnd.offset then emit (.cl dst opnd) else emit (.cly dst opnd)

/-- `MacroAssembler::CmpLogicalP(Register, const MemOperand&)`. -/
def CmpLogicalP_MemOperand (cfg : Config) (dst : Register) (opnd : MemOperand) :
    Emit Unit := do
  ASSERT (is_int20 opnd.offset)
  if cfg.is64 then emit (.clg dst opnd) else CmpLogical32_MemOperand dst opnd

/-- The pointer-size primitives that take a register and a memory operand and
have no `ExtendSrc` in their name. -/
inductive MemPrimitive
  | AddP | SubP | MulP | AndP | OrP | XorP | CmpP | CmpLogicalP | AddLogicalP | SubLogicalP
  deriving DecidableEq, Repr

/-- The emitter of a register-memory primitive. -/
def MemPrimitive.emitter (cfg : Config) (dst : Register) (opnd : MemOperand) :
    MemPrimitive → Emit Unit
  | .AddP => AddP_MemOperand cfg dst opnd
  | .SubP => SubP_MemOperand cfg dst opnd
  | .MulP => MulP_MemOperand cfg dst opnd
  | .AndP => AndP_MemOperand cfg dst opnd
  | .OrP => OrP_MemOperand cfg dst opnd
  | .XorP => XorP_MemOperand cfg dst opnd
  | .CmpP => CmpP_MemOperand cfg dst opnd
  | .CmpLogicalP => CmpLogicalP_MemOperand cfg dst opnd
  | .AddLogicalP => AddLogicalP_MemOperand cfg dst opnd
  | .SubLogicalP => SubLogicalP_MemOperand cfg dst opnd

/-- What a register-memory primitive is to compute on a pointer-size target
from the register `d` and the pointer-size operand `w`: the machine after the
register-register instruction of the same operation, were `w` in a register. -/
def MemPrimitive.apply (cfg : Config) (m : Machine) (d : Register) (w : Nat) :
    MemPrimitive → Machine
  | .AddP => if cfg.is64 then add64 m d (m.regs d) w else add32 m d (m.regs d) w
  | .SubP => if cfg.is64 then sub64 m d (m.regs d) w else sub32 m d (m.regs d) w
  | .MulP => if cfg.is64 then mul64 m d (m.regs d) w else mul32 m d (m.regs d) w
  | .AndP => if cfg.is64 then and64 m d (m.regs d) w else and32 m d (m.regs d) w
  | .OrP => if cfg.is64 then or64 m d (m.regs d) w else or32 m d (m.regs d) w
  | .XorP => if cfg.is64 then xor64 m d (m.regs d) w else xor32 m d (m.regs d) w
  | .CmpP =>
      m.setCC (cmpCC (signedOf (ptrMod cfg) (m.regs d)) (signedOf (ptrMod cfg) w))
  | .CmpLogicalP => m.setCC (cmpLogicalCC (m.regs d % ptrMod cfg) w)
  | .AddLogicalP =>
      if cfg.is64 then addLogical64 m d (m.regs d) w else addLogical32 m d (m.regs d) w
  | .SubLogicalP =>
      if cfg.is64 then subLogical64 m d (m.regs d) w else subLogical32 m d (m.regs d) w

/-- The number of bytes that an instruction reads from its memory operand,
for the register-memory arithmetic instructions. -/
def Instr.operandBytes : Instr → Option Nat
  | .ag _ _ | .sg _ _ | .alg _ _ | .msg _ _ | .ng _ _ | .og _ _ | .xg _ _ | .cg _ _
  | .clg _ _ => some 8
  | .a _ _ | .ay _ _ | .agf _ _ | .s _ _ | .sy _ _ | .sgf _ _ | .al_z _ _ | .aly _ _
  | .sl _ _ | .sly _ _ | .slgf _ _ | .ms _ _ | .msy _ _ | .n _ _ | .ny _ _ | .o _ _
  | .oy _ _ | .x _ _ | .xy _ _ | .c _ _ | .cy _ _ | .cl _ _ | .cly _ _ => some 4
  | _ => none

/-- A 64-bit machine whose register `r3` holds 5, with the 64-bit word
`2^32 + 3` at address 1000. -/
def wideWordMachine : Machine :=
  ⟨fun r => if r = r3 then 5 else if r = r4 then 1000 else 0, 0,
    storeWords cfg64 (fun _ => 0) 1000 [4294967299], fun _ => 0⟩

/-! ## Sizes of calls -/

/-- The length in bytes of an instruction, which its format fixes: two bytes
for the register-register format RR, four for RRE, RRF, RI, RX, RS and SI, six
for RIL, RIE, RXY, RSY and SS.  The pseudo-instructions take no room (the
sequence that `abort` stands for is not measured). -/
def Instr.bytes : Instr → Nat
  | .lr _ _ | .ar _ _ | .sr _ _ | .nr _ _ | .or_z _ _ | .xr _ _ | .cr_z _ _ | .clr _ _
  | .lcr _ _ | .ltr _ _ | .bcr _ _ | .basr _ _ => 2
  | .iihf _ _ | .iilf _ _ | .llihf _ _ | .llilf _ _ | .agfi _ _ | .afi _ _ | .cgfi _ _
  | .cfi _ _ | .nilf _ _ | .nihf _ _ | .oihf _ _ | .oilf _ _ | .xihf _ _ | .xilf _ _
  | .lg _ _ | .ly _ _ | .lgf _ _ | .llgf _ _ | .lgh _ _ | .lhy _ _ | .stg _ _ | .sty _ _
  | .sthy _ _ | .stcy _ _ | .ldy _ _ | .stdy _ _ | .lay _ _ | .cg _ _ | .cy _ _
  | .ag _ _ | .ay _ _ | .agf _ _ | .sg _ _ | .sy _ _ | .sgf _ _ | .alg _ _ | .aly _ _
  | .sly _ _ | .slgf _ _ | .msg _ _ | .msy _ _ | .ng _ _ | .ny _ _ | .og _ _ | .oy _ _
  | .xg _ _ | .xy _ _ | .clg _ _ | .cly _ _ | .stmg _ _ _ | .stmy _ _ _ | .sllg _ _ _
  | .srag _ _ _ | .sllk _ _ _ | .srak _ _ _ | .aghik _ _ _ | .ahik _ _ _
  | .risbg _ _ _ _ _ _ | .mvc _ _ _ | .clgfi _ _ | .clfi _ _ | .srlk _ _ _ | .srlg _ _ _
  | .sllg_r _ _ _ | .sllk_r _ _ _ | .llh _ _ | .lrvh _ _ | .lrv _ _ | .strv _ _ => 6
  | .bind _ | .abort => 0
  | _ => 4

/-- The number of bytes of a code fragment. -/
def codeBytes (code : List Instr) : Nat := (code.map Instr.bytes).sum

/-- `MacroAssembler::CallSize(Handle<Code>, RelocInfo::Mode, TypeFeedbackId,
Condition)`. -/
def CallSize_Code (cfg : Config) : Int := CallSize_Address cfg

/-! ## Undoing an allocation -/

/-- `MacroAssembler::UndoAllocationInNewSpace`; `DEBUG` is the compile-time
macro of that name. -/
def UndoAllocationInNewSpace (cfg : Config) (iso : Isolate) (DEBUG : Bool)
    (object scratch : Register) : Emit Unit := do
  let new_space_allocation_top := iso.new_space_allocation_top
  mov cfg r0 (Operand.ofInt (-kHeapObjectTagMask - 1))
  AndP_Register cfg object r0
  if DEBUG then
    mov cfg scratch ⟨new_space_allocation_top, RelocMode.EXTERNAL_REFERENCE⟩
    LoadP cfg scratch (MemOperand.mk1 scratch 0) no_reg
    CmpP_Register cfg object scratch
    Check lt
  mov cfg scratch ⟨new_space_allocation_top, RelocMode.EXTERNAL_REFERENCE⟩
  StoreP cfg object (MemOperand.mk1 scratch 0) no_reg

/-! ## The remembered set -/

/-- The enumeration `RememberedSetFinalAction`. -/
inductive RememberedSetFinalAction
  | kReturnAtEnd
  | kFallThroughAtEnd
  deriving DecidableEq, Repr

/-- `MacroAssembler::InNewSpace`. -/
def InNewSpace (cfg : Config) (iso : Isolate) (object scratch : Register) (cond : Condition)
    (branch : Label) : Emit Unit := do
  ASSERT (cond == eq || cond == ne)
  mov cfg r0 ⟨iso.new_space_mask, RelocMode.EXTERNAL_REFERENCE⟩
  AndP_Register_Register cfg scratch object r0
  mov cfg r0 ⟨iso.new_space_start, RelocMode.EXTERNAL_REFERENCE⟩
  CmpP_Register cfg scratch r0
  b cond branch

/-- The inline `JumpIfNotInNewSpace`.  Modelled from the spec: the header that
defines it is not part of the repository file; it branches when the object
lies outside the new space. -/
def JumpIfNotInNewSpace (cfg : Config) (iso : Isolate) (object scratch : Register)
    (branch : Label) : Emit Unit :=
  InNewSpace cfg iso object scratch ne branch

/-- The assembler's `stop`.  Modelled from the spec: it is defined outside the
repository file; the generated code halts there. -/
def stop : Emit Unit := emit .abort

/-- `MacroAssembler::RememberedSetHelper`. -/
def RememberedSetHelper (cfg : Config) (iso : Isolate) (object address scratch : Register)
    (fp_mode : Bool) (and_then : RememberedSetFinalAction) : Emit Unit := do
  let done ← newLabel
  if cfg.emit_debug_code then
    let ok ← newLabel
    JumpIfNotInNewSpace cfg iso object scratch ok
    stop
    bind ok
  let store_buffer := iso.store_buffer_top
  mov cfg ip ⟨store_buffer, RelocMode.EXTERNAL_REFERENCE⟩
  LoadP cfg scratch (MemOperand.mk1 ip 0) no_reg
  StoreP cfg address (MemOperand.mk1 scratch 0) no_reg
  AddP_Operand cfg scratch (Operand.ofInt (kPointerSize cfg))
  StoreP cfg scratch (MemOperand.mk1 ip 0) no_reg
  AndP_Register_Operand cfg r0 scratch (Operand.ofInt iso.kStoreBufferOverflowBit)
  if and_then = RememberedSetFinalAction.kFallThroughAtEnd then
    beq done
  else
    ASSERT (and_then == RememberedSetFinalAction.kReturnAtEnd)
    beq done
  push cfg r14
  let store_buffer_overflow := iso.StoreBufferOverflowStub fp_mode
  CallStub cfg store_buffer_overflow al
  pop cfg r14
  bind done
  if and_then = RememberedSetFinalAction.kReturnAtEnd then
    Ret

/-! ## Invoking a function object -/

/-- `MacroAssembler::InvokeFunction(Register, ...)`. -/
def InvokeFunction_Register (cfg : Config) (iso : Isolate) (function : Register)
    (actual : ParameterCount) (flag : InvokeFlag) (call_wrapper : CallWrapper)
    (call_kind : CallKind) : Emit Unit := do
  let frame ← has_frame
  ASSERT (flag == InvokeFlag.JUMP_FUNCTION || frame)
  ASSERT (function == r3)
  let expected_reg := r4
  let code_reg := r5
  LoadP cfg code_reg (FieldMemOperand r3 iso.JSFunction_kSharedFunctionInfoOffset) no_reg
  LoadP cfg cp (FieldMemOperand r3 iso.JSFunction_kContextOffset) no_reg
  LoadW cfg expected_reg
    (FieldMemOperand code_reg iso.SharedFunctionInfo_kFormalParameterCountOffset) no_reg
  if !cfg.is64 then
    SmiUntag cfg expected_reg expected_reg
  LoadP cfg code_reg (FieldMemOperand r3 iso.JSFunction_kCodeEntryOffset) no_reg
  let expected := ParameterCount.ofRegister expected_reg
  InvokeCode_Register cfg iso code_reg expected actual flag call_wrapper call_kind

/-- What the macro-assembler reads of a `Handle<JSFunction>`: where the object
is, whether the heap reports it in the new space, the location of the cell
made for it in that case, and the formal parameter count of its shared
function info. -/
structure JSFunctionHandle where
  location : Int
  InNewSpace : Bool
  cell : Int
  formal_parameter_count : Int

/-- `MacroAssembler::LoadHeapObject`. -/
def LoadHeapObject (cfg : Config) (iso : Isolate) (result : Register)
    (object : JSFunctionHandle) : Emit Unit := do
  if object.InNewSpace then
    mov cfg result ⟨object.cell, RelocMode.EMBEDDED_OBJECT⟩
    LoadP cfg result (FieldMemOperand result iso.JSGlobalPropertyCell_kValueOffset) no_reg
  else
    mov cfg result ⟨object.location, RelocMode.EMBEDDED_OBJECT⟩

/-- `MacroAssembler::InvokeFunction(Handle<JSFunction>, ...)`. -/
def InvokeFunction_Handle (cfg : Config) (iso : Isolate) (function : JSFunctionHandle)
    (actual : ParameterCount) (flag : InvokeFlag) (call_wrapper : CallWrapper)
    (call_kind : CallKind) : Emit Unit := do
  let frame ← has_frame
  ASSERT (flag == InvokeFlag.JUMP_FUNCTION || frame)
  LoadHeapObject cfg iso r3 function
  LoadP cfg cp (FieldMemOperand r3 iso.JSFunction_kContextOffset) no_reg
  let expected := ParameterCount.ofImmediate function.formal_parameter_count
  LoadP cfg r5 (FieldMemOperand r3 iso.JSFunction_kCodeEntryOffset) no_reg
  InvokeCode_Register cfg iso r5 expected actual flag call_wrapper call_kind

/-! ## Arithmetic with an overflow check -/

/-- `MacroAssembler::AddAndCheckForOverflow`. -/
def AddAndCheckForOverflow (cfg : Config) (dst left right overflow_dst scratch : Register) :
    Emit Unit := do
  ASSERT (dst != overflow_dst)
  ASSERT (dst != scratch)
  ASSERT (overflow_dst != scratch)
  ASSERT (overflow_dst != left)
  ASSERT (overflow_dst != right)
  if dst = left then
    LoadRR cfg scratch left
    AddP_Register_Register cfg dst left right
    XorP_Register cfg scratch dst
    XorP_Register_Register cfg overflow_dst dst right
    AndP_Register cfg overflow_dst scratch
    LoadAndTestRR cfg overflow_dst overflow_dst
  else if dst = right then
    LoadRR cfg scratch right
    AddP_Register_Register cfg dst left right
    XorP_Register cfg scratch dst
    XorP_Register_Register cfg overflow_dst dst left
    AndP_Register cfg overflow_dst scratch
    LoadAndTestRR cfg overflow_dst overflow_dst
  else
    AddP_Register_Register cfg dst left right
    XorP_Register_Register cfg overflow_dst dst left
    XorP_Register_Register cfg scratch dst right
    AndP_Register cfg overflow_dst scratch
    LoadAndTestRR cfg overflow_dst overflow_dst

/-- `MacroAssembler::SubAndCheckForOverflow`. -/
def SubAndCheckForOverflow (cfg : Config) (dst left right overflow_dst scratch : Register) :
    Emit Unit := do
  ASSERT (dst != overflow_dst)
  ASSERT (dst != scratch)
  ASSERT (overflow_dst != scratch)
  ASSERT (overflow_dst != left)
  ASSERT (overflow_dst != right)
  if dst = left then
    LoadRR cfg scratch left
    SubP_Register_Register cfg dst left right
    XorP_Register_Register cfg overflow_dst dst scratch
    XorP_Register cfg scratch right
    AndP_Register cfg overflow_dst scratch
    LoadAndTestRR cfg overflow_dst overflow_dst
  else if dst = right then
    LoadRR cfg scratch right
    SubP_Register_Register cfg dst left right
    XorP_Register_Register cfg overflow_dst dst left
    XorP_Register cfg scratch left
    AndP_Register cfg overflow_dst scratch
    LoadAndTestRR cfg overflow_dst overflow_dst
  else
    SubP_Register_Register cfg dst left right
    XorP_Register_Register cfg overflow_dst dst left
    XorP_Register_Register cfg scratch left right
    AndP_Register cfg overflow_dst scratch
    LoadAndTestRR cfg overflow_dst overflow_dst

/-! ## Emitters and the frame flag -/

/-- An emitter that does not look at the frame flag: started with another
flag it emits the same code, and leaves that flag. -/
structure Emit.FrameBlind {α : Type} (e : Emit α) : Prop where
  blind : ∀ st b, e.run { st with has_frame := b } =
    ((e.run st).1, { (e.run st).2 with has_frame := b })

/-- An emitter that leaves a failed assertion failed. -/
structure Emit.KeepsFailure {α : Type} (e : Emit α) : Prop where
  keeps : ∀ st, st.failed = true → (e.run st).2.failed = true

/-- A call wrapper whose hooks do not look at the frame flag and leave a
failed assertion failed. -/
structure CallWrapper.Tame (w : CallWrapper) : Prop where
  before_blind : ∀ n, (w.BeforeCall n).FrameBlind
  before_keeps : ∀ n, (w.BeforeCall n).KeepsFailure
  after_blind : w.AfterCall.FrameBlind
  after_keeps : w.AfterCall.KeepsFailure

/-! ## The code of the three-register primitives -/

/-- The operations of the three-register primitives. -/
inductive AluKind
  | add | sub | and | or | xor
  deriving DecidableEq, Repr

/-- The result of an operation on two values below the modulus `W`. -/
def AluKind.apply (k : AluKind) (W a b : Nat) : Nat :=
  match k with
  | .add => (a + b) % W
  | .sub => (a + (W - b)) % W
  | .and => Nat.land a b
  | .or => Nat.lor a b
  | .xor => Nat.xor a b

/-- The two-operand instruction of an operation, 64-bit (`wide`) or 32-bit. -/
def alu2 (k : AluKind) (wide : Bool) (d s : Register) : Instr :=
  match k, wide with
  | .add, true => .agr d s
  | .add, false => .ar d s
  | .sub, true => .sgr d s
  | .sub, false => .sr d s
  | .and, true => .ngr d s
  | .and, false => .nr d s
  | .or, true => .ogr d s
  | .or, false => .or_z d s
  | .xor, true => .xgr d s
  | .xor, false => .xr d s

/-- The three-operand instruction of an operation, 64-bit (`wide`) or 32-bit. -/
def alu3 (k : AluKind) (wide : Bool) (d s1 s2 : Register) : Instr :=
  match k, wide with
  | .add, true => .agrk d s1 s2
  | .add, false => .ark d s1 s2
  | .sub, true => .sgrk d s1 s2
  | .sub, false => .srk d s1 s2
  | .and, true => .ngrk d s1 s2
  | .and, false => .nrk d s1 s2
  | .or, true => .ogrk d s1 s2
  | .or, false => .ork d s1 s2
  | .xor, true => .xgrk d s1 s2
  | .xor, false => .xrk d s1 s2

/-- The register copy, 64-bit or 32-bit. -/
def copyRR (wide : Bool) (d s : Register) : Instr := if wide then .lgr d s else .lr d s

/-- The load-complement instruction, 64-bit or 32-bit. -/
def complementRR (wide : Bool) (d s : Register) : Instr := if wide then .lcgr d s else .lcr d s

/-- The instructions that a three-register primitive emits. -/
def threeRegisterCode (k : AluKind) (wide distinct : Bool) (dst src1 src2 : Register) :
    List Instr :=
  if k = AluKind.sub then
    if distinct = true ∧ dst ≠ src1 then [alu3 k wide dst src1 src2]
    else if dst ≠ src1 ∧ dst ≠ src2 then [copyRR wide dst src1, alu2 k wide dst src2]
    else if dst ≠ src1 ∧ dst = src2 then [alu2 k wide dst src1, complementRR wide dst dst]
    else [alu2 k wide dst src2]
  else
    if dst ≠ src1 ∧ dst ≠ src2 then
      (if distinct = true then [alu3 k wide dst src1 src2]
        else [copyRR wide dst src1, alu2 k wide dst src2])
    else if dst = src2 then [alu2 k wide dst src1]
    else [alu2 k wide dst src2]

/-- The three-register primitives. -/
inductive ThreeRegisterOp
  | Add32 | AddP | Sub32 | SubP | And | AndP | Or | OrP | Xor | XorP
  deriving DecidableEq, Repr

/-- The emitter of a three-register primitive. -/
def ThreeRegisterOp.emitter (cfg : Config) (dst src1 src2 : Register) :
    ThreeRegisterOp → Emit Unit
  | .Add32 => Add32_Register_Register cfg dst src1 src2
  | .AddP => AddP_Register_Register cfg dst src1 src2
  | .Sub32 => Sub32_Register_Register cfg dst src1 src2
  | .SubP => SubP_Register_Register cfg dst src1 src2
  | .And => And_Register_Register cfg dst src1 src2
  | .AndP => AndP_Register_Register cfg dst src1 src2
  | .Or => Or_Register_Register cfg dst src1 src2
  | .OrP => OrP_Register_Register cfg dst src1 src2
  | .Xor => Xor_Register_Register cfg dst src1 src2
  | .XorP => XorP_Register_Register cfg dst src1 src2

/-- The operation of a three-register primitive. -/
def ThreeRegisterOp.kind : ThreeRegisterOp → AluKind
  | .Add32 | .AddP => .add
  | .Sub32 | .SubP => .sub
  | .And | .AndP => .and
  | .Or | .OrP => .or
  | .Xor | .XorP => .xor

/-- Whether a three-register primitive works on 64 bits: the pointer-size
ones do on the 64-bit target. -/
def ThreeRegisterOp.wide (cfg : Config) : ThreeRegisterOp → Bool
  | .AddP | .SubP | .AndP | .OrP | .XorP => cfg.is64
  | _ => false

/-- The modulus `2^width` of a 64-bit or a 32-bit operation. -/
def widthModulus (wide : Bool) : Nat := if wide then M64 else M32

/-- The modulus `2^width` of a three-register primitive. -/
def ThreeRegisterOp.modulus (cfg : Config) (op : ThreeRegisterOp) : Nat :=
  widthModulus (op.wide cfg)

/-- The three-operand (non-destructive) forms of the arithmetic and logical
instructions. -/
def Instr.isThreeOperand : Instr → Bool
  | .agrk _ _ _ | .ark _ _ _ | .sgrk _ _ _ | .srk _ _ _ | .ngrk _ _ _ | .nrk _ _ _
  | .ogrk _ _ _ | .ork _ _ _ | .xgrk _ _ _ | .xrk _ _ _ => true
  | _ => false

/-- The 64-bit target with the distinct-operands facility. -/
def cfgDistinct : Config := { cfg64 with distinct_ops := true }

/-- What a 64-bit or a 32-bit instruction leaves in a register that held
`old`: the value, or the value in the low word. -/
def writeWidth (wide : Bool) (old v : Nat) : Nat := if wide then v else setLo32 old v

/-! ## Overflow-checked addition and subtraction -/

/-- The load-and-test instruction, 64-bit or 32-bit. -/
def testRR (wide : Bool) (d s : Register) : Instr := if wide then .ltgr d s else .ltr d s

/-- The instructions that `AddAndCheckForOverflow` emits. -/
def addOverflowCode (w distinct : Bool) (dst left right overflow_dst scratch : Register) :
    List Instr :=
  if dst = left then
    [copyRR w scratch left] ++ threeRegisterCode AluKind.add w distinct dst left right ++
      [alu2 AluKind.xor w scratch dst] ++
      threeRegisterCode AluKind.xor w distinct overflow_dst dst right ++
      [alu2 AluKind.and w overflow_dst scratch] ++ [testRR w overflow_dst overflow_dst]
  else if dst = right then
    [copyRR w scratch right] ++ threeRegisterCode AluKind.add w distinct dst left right ++
      [alu2 AluKind.xor w scratch dst] ++
      threeRegisterCode AluKind.xor w distinct overflow_dst dst left ++
      [alu2 AluKind.and w overflow_dst scratch] ++ [testRR w overflow_dst overflow_dst]
  else
    threeRegisterCode AluKind.add w distinct dst left right ++
      threeRegisterCode AluKind.xor w distinct overflow_dst dst left ++
      threeRegisterCode AluKind.xor w distinct scratch dst right ++
      [alu2 AluKind.and w overflow_dst scratch] ++ [testRR w overflow_dst overflow_dst]

/-- The instructions that `SubAndCheckForOverflow` emits. -/
def subOverflowCode (w distinct : Bool) (dst left right overflow_dst scratch : Register) :
    List Instr :=
  if dst = left then
    [copyRR w scratch left] ++ threeRegisterCode AluKind.sub w distinct dst left right ++
      threeRegisterCode AluKind.xor w distinct overflow_dst dst scratch ++
      [alu2 AluKind.xor w scratch right] ++
      [alu2 AluKind.and w overflow_dst scratch] ++ [testRR w overflow_dst overflow_dst]
  else if dst = right then
    [copyRR w scratch right] ++ threeRegisterCode AluKind.sub w distinct dst left right ++
      threeRegisterCode AluKind.xor w distinct overflow_dst dst left ++
      [alu2 AluKind.xor w scratch left] ++
      [alu2 AluKind.and w overflow_dst scratch] ++ [testRR w overflow_dst overflow_dst]
  else
    threeRegisterCode AluKind.sub w distinct dst left right ++
      threeRegisterCode AluKind.xor w distinct overflow_dst dst left ++
      threeRegisterCode AluKind.xor w distinct scratch left right ++
      [alu2 AluKind.and w overflow_dst scratch] ++ [testRR w overflow_dst overflow_dst]

/-- The two overflow-checked operations. -/
inductive CheckedOp
  | add | sub
  deriving DecidableEq, Repr

/-- The emitter of an overflow-checked operation. -/
def CheckedOp.emitter (cfg : Config) (dst left right overflow_dst scratch : Register) :
    CheckedOp → Emit Unit
  | .add => AddAndCheckForOverflow cfg dst left right overflow_dst scratch
  | .sub => SubAndCheckForOverflow cfg dst left right overflow_dst scratch

/-- The result modulo `W` of an operation on two values below `W`. -/
def CheckedOp.result (W a b : Nat) : CheckedOp → Nat
  | .add => (a + b) % W
  | .sub => (a + (W - b)) % W

/-- Whether the signed operation on the values `a` and `b` of the width with
modulus `W` leaves the signed range of that width. -/
def CheckedOp.overflows (W a b : Nat) : CheckedOp → Bool
  | .add => decide (signedOf W a + signedOf W b < -((W / 2 : Nat) : Int) ∨
      ((W / 2 : Nat) : Int) ≤ signedOf W a + signedOf W b)
  | .sub => decide (signedOf W a - signedOf W b < -((W / 2 : Nat) : Int) ∨
      ((W / 2 : Nat) : Int) ≤ signedOf W a - signedOf W b)

/-- The general registers modulo `W`. -/
def Machine.low (m : Machine) (W : Nat) (x : Register) : Nat := m.regs x % W

/-- A register file with one register replaced. -/
def setLow (ρ : Register → Nat) (d : Register) (v : Nat) : Register → Nat :=
  fun x => if x = d then v else ρ x

/-- A machine whose general registers all hold `v`. -/
def uniformMachine (v : Nat) : Machine := ⟨fun _ => v, 0, fun _ => 0, fun _ => 0⟩

/-! ## Undoing an allocation -/

/-- The pointer-size signed comparison that `CmpP(Register, Register)` emits. -/
def cmpP (cfg : Config) (a b : Register) : Instr := if cfg.is64 then .cgr a b else .cr_z a b

/-- The instructions of `UndoAllocationInNewSpace` that strip the tag. -/
def undoHead (cfg : Config) (object : Register) : List Instr :=
  movCode cfg r0 (-kHeapObjectTagMask - 1) ++ [andP cfg object r0]

/-- The instructions of `UndoAllocationInNewSpace` that, in a build with
`DEBUG`, compare the object with the current top. -/
def undoCheck (cfg : Config) (iso : Isolate) (object scratch : Register) : List Instr :=
  movCode cfg scratch iso.new_space_allocation_top ++
    [ldP cfg scratch ⟨scratch, r0, 0⟩, cmpP cfg object scratch]

/-- The instructions of `UndoAllocationInNewSpace` that write the top back. -/
def undoTail (cfg : Config) (iso : Isolate) (object scratch : Register) : List Instr :=
  movCode cfg scratch iso.new_space_allocation_top ++ [stP cfg object ⟨scratch, r0, 0⟩]

/-- The instructions that `UndoAllocationInNewSpace` emits. -/
def undoCode (cfg : Config) (iso : Isolate) (DEBUG : Bool) (object scratch : Register) :
    List Instr :=
  if DEBUG then
    (undoHead cfg object ++ undoCheck cfg iso object scratch) ++
      (.brc lt 0 :: .abort :: .bind 0 :: undoTail cfg iso object scratch)
  else undoHead cfg object ++ undoTail cfg iso object scratch

/-! ## The remembered set: the emitted code -/

/-- The instructions that `AndP(r0, src, Operand(2^k))` emits for `src` other
than `r0`: one rotate-and-select with the general-instructions extension, a
copy and the immediate conjunction without. -/
def andBitCode (cfg : Config) (src : Register) (k : Nat) : List Instr :=
  if cfg.general_instr_ext then [.risbg r0 src (63 - (k : Int)) (63 - (k : Int)) 0 true]
  else lrP cfg r0 src ::
    (if cfg.is64 then [.nihf r0 0, .nilf r0 ((2 : Int) ^ k)] else [.nilf r0 ((2 : Int) ^ k)])

/-- The address of the store-buffer-top slot. -/
def storeBufferSlot (cfg : Config) (iso : Isolate) : Nat :=
  unsignedOf (addrMod cfg) iso.store_buffer_top

/-- The word in the store-buffer-top slot. -/
def storeBufferTop (cfg : Config) (iso : Isolate) (m : Machine) : Nat :=
  loadPtr cfg m.mem (storeBufferSlot cfg iso)

/-- The instructions of `RememberedSetHelper` (without debug code) up to the
branch: append the address and test the overflow bit `2^k` of the new top. -/
def rsPrefix (cfg : Config) (iso : Isolate) (address scratch : Register) (k : Nat) :
    List Instr :=
  movCode cfg ip iso.store_buffer_top ++
    (ldP cfg scratch ⟨ip, r0, 0⟩ :: stP cfg address ⟨scratch, r0, 0⟩ ::
      addPI cfg scratch (kPointerSize cfg) :: stP cfg scratch ⟨ip, r0, 0⟩ ::
      andBitCode cfg scratch k)

/-- The instructions of `RememberedSetHelper` that push `r14` and load the
address of the overflow stub. -/
def rsSave (cfg : Config) (iso : Isolate) (fp_mode : Bool) : List Instr :=
  .lay sp ⟨sp, r0, -(kPointerSize cfg : Int)⟩ :: stP cfg r14 ⟨sp, r0, 0⟩ ::
    movCode cfg ip (iso.StoreBufferOverflowStub fp_mode).GetCode

/-- The return that `RememberedSetHelper` emits under `kReturnAtEnd`. -/
def rsRet (and_then : RememberedSetFinalAction) : List Instr :=
  if and_then = RememberedSetFinalAction.kReturnAtEnd then [.bcr al r14] else []

/-- The instructions that `RememberedSetHelper` emits without debug code. -/
def rsCode (cfg : Config) (iso : Isolate) (address scratch : Register) (fp_mode : Bool)
    (and_then : RememberedSetFinalAction) (k : Nat) : List Instr :=
  rsPrefix cfg iso address scratch k ++
    (.brc eq 0 :: (rsSave cfg iso fp_mode ++
      (.basr r14 ip :: (popCode cfg r14 ++ (.bind 0 :: rsRet and_then)))))

/-- A callee that keeps the stack pointer and the word on top of the stack. -/
def Env.keepsStackTop (cfg : Config) (env : Env) (target : Nat) : Prop :=
  ∀ mc : Machine, (env.callee target mc).addr cfg sp = mc.addr cfg sp ∧
    loadPtr cfg (env.callee target mc).mem (mc.addr cfg sp) = loadPtr cfg mc.mem (mc.addr cfg sp)
/-- A machine of the 64-bit target whose store-buffer-top slot (at 16384 in
`sampleIsolate`) holds `top`, with stack pointer 65536, return address 777 in
`r14` and the address 555 in `r2`. -/
def bufferMachine (top : Nat) : Machine :=
  ⟨fun r => if r = sp then 65536 else if r = r14 then 777 else if r = r2 then 555 else 0, 0,
    storeWords cfg64 (fun _ => 0) 16384 [top], fun _ => 0⟩

/-! ## The page-flag test: the emitted code -/

/-- The instructions that `ClearRightImm(d, s, Operand(n))` emits for a bit
count `n` above 16. -/
def clearCode (cfg : Config) (d s : Register) (n : Nat) : List Instr :=
  if cfg.general_instr_ext then [.risbg d s 0 (63 - (n : Int)) 0 true]
  else if d = s then [.nilf d ((M32 - 2 ^ n : Nat) : Int)]
  else [lrP cfg d s, .nilf d ((M32 - 2 ^ n : Nat) : Int)]

/-- The displacement of the byte of the flags word that `CheckPageFlag`
tests for the mask `2^k`, on a big-endian host: the comparisons `mask <= 0x80`,
`mask < 0x8000` and `mask < 0x800000` of the source, in terms of `k`. -/
def flagByteOffset (cfg : Config) (k : Nat) : Int :=
  if k ≤ 7 then (kPointerSize cfg : Int) - 1
  else if k ≤ 14 then (kPointerSize cfg : Int) - 2
  else if k ≤ 22 then (kPointerSize cfg : Int) - 3
  else (kPointerSize cfg : Int) - 4

/-- The instructions that `CheckPageFlag` emits for the single-bit mask `2^k`
with `k` other than 15 and 23. -/
def flagCode (cfg : Config) (iso : Isolate) (object scratch : Register) (n k : Nat)
    (cc : Condition) (condition_met : Label) : List Instr :=
  clearCode cfg scratch object n ++
    [.tm ⟨scratch, r0, iso.MemoryChunk_kFlagsOffset + flagByteOffset cfg k⟩ ((2 : Int) ^ (k % 8)),
      .brc cc condition_met]

/-- A machine with the value `x` in `r3` and the byte `v` at address `a`. -/
def byteMachine (x a v : Nat) : Machine :=
  ⟨fun r => if r = r3 then x else 0, 0, fun b => if b = a then v else 0, fun _ => 0⟩

/-- The run-time value of a parameter count: the signed pointer-size value of
its register, or its immediate. -/
def ParameterCount.valueAt (cfg : Config) (m : Machine) (p : ParameterCount) : Int :=
  if p.is_reg then signedOf (ptrMod cfg) (m.regs p.reg_) else p.immediate_

/-- How a single transfer to `target` shows in a run: under `CALL_FUNCTION` one
call event and control falls through, under `JUMP_FUNCTION` no call event and
the run ends in the jump. -/
def transferOf (flag : InvokeFlag) (target : Nat) : Outcome × List Event :=
  match flag with
  | .CALL_FUNCTION => (.fallthrough, [.call target])
  | .JUMP_FUNCTION => (.jump target, [])

/-! ## The call-kind tag -/

/-- Whether an instruction is the load of the call-kind tag into `r7` that
`SetCallKind` emits: the small integer 1 for `CALL_AS_FUNCTION`, 0 otherwise. -/
def Instr.loadsCallKind (cfg : Config) (call_kind : CallKind) : Instr → Bool
  | .llihf d v =>
      cfg.is64 && d == r7 &&
        v == Smi.FromInt cfg (if call_kind = CallKind.CALL_AS_FUNCTION then 1 else 0) / 4294967296
  | .llilf d v =>
      !cfg.is64 && d == r7 &&
        v == Smi.FromInt cfg (if call_kind = CallKind.CALL_AS_FUNCTION then 1 else 0)
  | _ => false

/-- One step of the scan for the call-kind tag.  The state says whether the
tag has just been loaded, with nothing after it but the load of a target
address into `ip`; `none` once a transfer has been met that the tag load does
not precede in this way. -/
def tagStep (cfg : Config) (call_kind : CallKind) : Option Bool → Instr → Option Bool
  | none, _ => none
  | some fresh, i =>
      if i.isTransfer then (if fresh then some false else none)
      else if i.loadsCallKind cfg call_kind then some true
      else some (fresh && i.loadsImmediateInto ip)

/-- The scan of a code fragment for the call-kind tag. -/
def tagScan (cfg : Config) (call_kind : CallKind) (c : List Instr) : Option Bool :=
  c.foldl (tagStep cfg call_kind) (some false)

/-- Whether every transfer of a code fragment (a call `basr` or a jump `bcr`
through a register) comes right after the load of the call-kind tag into `r7`,
with nothing between the two but the load of the target address into `ip`. -/
def callsTagged (cfg : Config) (call_kind : CallKind) (c : List Instr) : Bool :=
  (tagScan cfg call_kind c).isSome

/-- The invariant of an assembler state for the call-kind tag: unless an
assertion has failed, every transfer emitted so far is tagged, and under `b`
the tag has just been loaded. -/
def Asm.tagInv (cfg : Config) (call_kind : CallKind) (b : Bool) (st : Asm) : Prop :=
  st.failed = true ∨ ∃ f, tagScan cfg call_kind st.code = some f ∧ (b = true → f = true)

/-- An emitter that takes states with the invariant under `a` to states with
the invariant under `b`. -/
structure Emit.Tags {α : Type} (cfg : Config) (call_kind : CallKind) (a : Bool) (e : Emit α)
    (b : Bool) : Prop where
  tags : ∀ st, st.tagInv cfg call_kind a → (e.run st).2.tagInv cfg call_kind b

/-! ## Logical comparison with an immediate -/

/-- `MacroAssembler::CmpLogical32(Register, const Operand&)`. -/
def CmpLogical32_Operand (dst : Register) (opnd : Operand) : Emit Unit :=
  emit (.clfi dst opnd.imm_)

/-- `MacroAssembler::CmpLogicalP(Register, const Operand&)`; the assertion is
`static_cast<uint32_t>(opnd.immediate() >> 32) == 0`. -/
def CmpLogicalP_Operand (cfg : Config) (dst : Register) (opnd : Operand) : Emit Unit := do
  if cfg.is64 then
    ASSERT (unsignedOf M32 (opnd.immediate / 4294967296) == 0)
    emit (.clgfi dst opnd.imm_)
  else
    CmpLogical32_Operand dst opnd

/-! ## Logical shifts -/

/-- `MacroAssembler::ShiftRight(Register, Register, const Operand&)`: logical,
32-bit. -/
def ShiftRight (cfg : Config) (dst src : Register) (val : Operand) : Emit Unit := do
  if dst = src then
    emit (.srl dst val.imm_)
  else if cfg.distinct_ops then
    emit (.srlk dst src val.imm_)
  else
    emit (.lr dst src)
    emit (.srl dst val.imm_)

/-- `MacroAssembler::ShiftLeft(Register, Register, Register)`: logical, 32-bit,
by the amount in a register. -/
def ShiftLeft_Register (cfg : Config) (dst src val : Register) : Emit Unit := do
  ASSERT (dst ≠ val)
  if dst = src then
    emit (.sll_r dst val)
  else if cfg.distinct_ops then
    emit (.sllk_r dst src val)
  else
    emit (.lr dst src)
    emit (.sll_r dst val)

/-- Modelled from the spec: the alias `ShiftLeftP` with the amount in a
register is defined in the header (see the pointer-size aliases above): `sllg`
on the 64-bit target, `ShiftLeft` otherwise. -/
def ShiftLeftP_Register (cfg : Config) (dst src val : Register) : Emit Unit :=
  if cfg.is64 then emit (.sllg_r dst src val) else ShiftLeft_Register cfg dst src val

/-- Modelled from the spec: the alias `ShiftRightP` is defined in the header
(see the pointer-size aliases above): `srlg` on the 64-bit target,
`ShiftRight` otherwise. -/
def ShiftRightP (cfg : Config) (dst src : Register) (val : Operand) : Emit Unit :=
  if cfg.is64 then emit (.srlg dst src val.imm_) else ShiftRight cfg dst src val

/-! ## Complement -/

/-- `MacroAssembler::Not32`. -/
def Not32 (cfg : Config) (dst : Register) : Emit Unit :=
  XorP_Operand cfg dst (Operand.ofInt 0xFFFFFFFF)

/-- `MacroAssembler::NotP`. -/
def NotP (cfg : Config) (dst : Register) : Emit Unit := do
  if cfg.is64 then
    emit (.xihf dst 0xFFFFFFFF)
    emit (.xilf dst 0xFFFFFFFF)
  else
    Not32 cfg dst

/-! ## Roots -/

/-- The indices of `Heap::RootListIndex` that the modelled functions use.  The
enumeration is defined outside the repository file. -/
structure Heap where
  kUndefinedValueRootIndex : Int
  kHashSeedRootIndex : Int

/-- `MacroAssembler::LoadRoot`. -/
def LoadRoot (cfg : Config) (destination : Register) (index : Int) (cond : Condition) :
    Emit Unit := do
  ASSERT (cond == al)
  LoadP cfg destination (MemOperand.mk1 kRootRegister (index * 2 ^ kPointerSizeLog2 cfg)) r0

/-! ## The integer hash -/

/-- `MacroAssembler::GetNumberHash`. -/
def GetNumberHash (cfg : Config) (heap : Heap) (t0 scratch : Register) : Emit Unit := do
  LoadRoot cfg scratch heap.kHashSeedRootIndex al
  SmiUntag cfg scratch scratch
  XorP_Register cfg t0 scratch
  LoadRR cfg scratch t0
  NotP cfg scratch
  emit (.sll t0 15)
  AddP_Register_Register cfg t0 scratch t0
  ShiftRight cfg scratch t0 (Operand.ofInt 12)
  XorP_Register cfg t0 scratch
  ShiftLeft cfg scratch t0 (Operand.ofInt 2)
  AddP_Register_Register cfg t0 t0 scratch
  ShiftRight cfg scratch t0 (Operand.ofInt 4)
  XorP_Register cfg t0 scratch
  LoadRR cfg r0 t0
  ShiftLeft cfg scratch t0 (Operand.ofInt 3)
  AddP_Register_Register cfg t0 t0 scratch
  ShiftLeft cfg scratch r0 (Operand.ofInt 11)
  AddP_Register_Register cfg t0 t0 scratch
  ShiftRight cfg scratch t0 (Operand.ofInt 16)
  XorP_Register cfg t0 scratch

/-! ## Runtime calls -/

/-- What `CallRuntime` reads of a `Runtime::Function`: the declared number of
arguments (negative for a variable number), the size of the result, and the
address `ExternalReference(f, isolate())` of its entry. -/
structure RuntimeFunction where
  nargs : Int
  result_size : Int
  entry : Int

/-- `MacroAssembler::IllegalOperation`. -/
def IllegalOperation (cfg : Config) (heap : Heap) (num_arguments : Int) : Emit Unit := do
  if num_arguments > 0 then
    emit (.la sp (MemOperand.mk1 sp (num_arguments * (kPointerSize cfg : Int))))
  LoadRoot cfg r0 heap.kUndefinedValueRootIndex al

/-- `MacroAssembler::CallRuntime(const Runtime::Function*, int)`; `CEntryStub`
gives the stub for a result size. -/
def CallRuntime (cfg : Config) (heap : Heap) (CEntryStub : Int → CodeStub)
    (f : RuntimeFunction) (num_arguments : Int) : Emit Unit := do
  if f.nargs ≥ 0 ∧ f.nargs ≠ num_arguments then
    IllegalOperation cfg heap num_arguments
    return
  mov cfg r2 (Operand.ofInt num_arguments)
  mov cfg r3 ⟨f.entry, RelocMode.EXTERNAL_REFERENCE⟩
  let stub := if cfg.is64 then CEntryStub f.result_size else CEntryStub 1
  CallStub cfg stub al

/-! ## Powers of two -/

/-- `MacroAssembler::SubP(Register, Register, const Operand&)`. -/
def SubP_Register_Operand (cfg : Config) (dst src : Register) (imm : Operand) : Emit Unit :=
  AddP_Register_Operand cfg dst src (Operand.ofInt (-imm.imm_))

/-- `MacroAssembler::JumpIfNotPowerOfTwoOrZero`. -/
def JumpIfNotPowerOfTwoOrZero (cfg : Config) (reg scratch : Register)
    (not_power_of_two_or_zero : Label) : Emit Unit := do
  SubP_Register_Operand cfg scratch reg (Operand.ofInt 1)
  CmpP_Operand cfg scratch Operand.Zero
  blt not_power_of_two_or_zero
  AndP_Register_Register cfg r0 reg scratch
  bne not_power_of_two_or_zero

/-- `MacroAssembler::JumpIfNotPowerOfTwoOrZeroAndNeg`. -/
def JumpIfNotPowerOfTwoOrZeroAndNeg (cfg : Config) (reg scratch : Register)
    (zero_and_neg not_power_of_two : Label) : Emit Unit := do
  SubP_Register_Operand cfg scratch reg (Operand.ofInt 1)
  CmpP_Operand cfg scratch Operand.Zero
  blt zero_and_neg
  AndP_Register_Register cfg r0 reg scratch
  bne not_power_of_two

/-! ## Patching a relocated value -/

/-- `MacroAssembler::PatchRelocatedValue`.  `FlushICache` emits nothing. -/
def PatchRelocatedValue (cfg : Config) (patch_location scratch new_value : Register) :
    Emit Unit := do
  let mut offset : Int := 0
  if cfg.is64 then
    if cfg.emit_debug_code then
      if cfg.little_endian_host then
        emit (.lrvh scratch (MemOperand.mk1 patch_location 0))
      else
        emit (.llh scratch (MemOperand.mk1 patch_location 0))
      emit (.nilf scratch 0xFF0F)
      emit (.cfi scratch 0xC008)
      Check eq
    emit (.srlg scratch new_value 32)
    if cfg.little_endian_host then
      emit (.strv scratch (MemOperand.mk1 patch_location 2))
    else
      emit (.st scratch (MemOperand.mk1 patch_location 2))
    offset := offset + 6
  if cfg.emit_debug_code then
    if cfg.little_endian_host then
      emit (.lrvh scratch (MemOperand.mk1 patch_location offset))
    else
      emit (.llh scratch (MemOperand.mk1 patch_location offset))
    emit (.nilf scratch 0xFF0F)
    emit (.cfi scratch 0xC009)
    Check eq
  if cfg.little_endian_host then
    emit (.strv new_value (MemOperand.mk1 patch_location (2 + offset)))
  else
    emit (.st new_value (MemOperand.mk1 patch_location (2 + offset)))

/-- `MacroAssembler::GetRelocatedValueLocation`. -/
def GetRelocatedValueLocation (cfg : Config) (patch_location result scratch : Register) :
    Emit Unit := do
  let mut offset : Int := 0
  if cfg.is64 then
    if cfg.emit_debug_code then
      if cfg.little_endian_host then
        emit (.lrvh scratch (MemOperand.mk1 patch_location 0))
      else
        emit (.llh scratch (MemOperand.mk1 patch_location 0))
      emit (.nilf scratch 0xFF0F)
      emit (.cfi scratch 0xC008)
      Check eq
    if cfg.little_endian_host then
      emit (.lrv result (MemOperand.mk1 patch_location 2))
    else
      emit (.l result (MemOperand.mk1 patch_location 2))
    emit (.sllg result result 32)
    offset := offset + 6
  if cfg.emit_debug_code then
    if cfg.little_endian_host then
      emit (.lrvh scratch (MemOperand.mk1 patch_location offset))
    else
      emit (.llh scratch (MemOperand.mk1 patch_location offset))
    emit (.nilf scratch 0xFF0F)
    emit (.cfi scratch 0xC009)
    Check eq
  if cfg.little_endian_host then
    emit (.lrv result (MemOperand.mk1 patch_location (2 + offset)))
  else
    emit (.l result (MemOperand.mk1 patch_location (2 + offset)))

/-- Modelled from the spec: the instruction encoder is not in the repository
file.  The six bytes of a register-and-immediate instruction of format RIL:
the opcode byte, the register number and the second opcode part, and the
32-bit immediate in big-endian order (the bytes 2 to 5 that the two functions
above read and write). -/
def encodeRIL (op1 op2 : Nat) (r : Register) (imm : Int) : List Nat :=
  [op1, r.code.toNat % 16 * 16 + op2,
   unsignedOf M32 imm / 16777216 % 256, unsignedOf M32 imm / 65536 % 256,
   unsignedOf M32 imm / 256 % 256, unsignedOf M32 imm % 256]

/-- Modelled from the spec: the bytes of the fixed sequence of `mov(dst, v)`,
`IIHF` (opcode `C0.8`) and `IILF` (opcode `C0.9`) on the 64-bit target, `IILF`
alone on the 31-bit target. -/
def movBytes (cfg : Config) (dst : Register) (v : Int) : List Nat :=
  if cfg.is64 then
    encodeRIL 0xC0 8 dst (toInt32 (toInt64 v / 4294967296)) ++
      encodeRIL 0xC0 9 dst (toInt32 (toInt64 v))
  else encodeRIL 0xC0 9 dst (toInt32 v)

/-- Memory `mem` with the bytes `bs` stored from address `a` on. -/
def storeByteList (cfg : Config) (mem : Nat → Nat) (a : Nat) : List Nat → Nat → Nat
  | [] => mem
  | b :: bs => storeByteList cfg (fun x => if x = a % addrMod cfg then b else mem x) (a + 1) bs

/-! ## Mark bits -/

/-- `AreAliased`: whether two of the valid registers among the arguments are
the same register. -/
def AreAliased (regs : List Register) : Bool :=
  ((regs.filter Register.is_valid).length !=
    ((regs.filter Register.is_valid).map Register.code).eraseDups.length)

/-- Modelled from the spec: the constants `Bitmap::kBitsPerCellLog2`,
`Bitmap::kBytesPerCellLog2` and `kIntSize` are defined outside the repository
file; a cell of the mark bitmap is a 32-bit word. -/
def Bitmap.kBitsPerCellLog2 : Int := 5

def Bitmap.kBytesPerCellLog2 : Int := 2

def kIntSize : Int := 4

/-- Modelled from the spec: `Page::kPageAlignmentMask` is defined outside the
repository file; it is `(1 << kPageSizeBits) - 1`. -/
def Page.kPageAlignmentMask (iso : Isolate) : Int := 2 ^ iso.kPageSizeBits.toNat - 1

/-- Modelled from the spec: the inline `ExtractBitRange(dst, src, rangeStart,
rangeEnd)` is defined in the header, which is not part of the repository
file.  The bits `rangeEnd..rangeStart` of `src` (bit 0 the lowest) go to the
low bits of `dst` and the other bits are cleared: by one rotate-and-insert
with the general-instructions extension, by a logical right shift and a
conjunction with the mask otherwise. -/
def ExtractBitRange (cfg : Config) (dst src : Register) (rangeStart rangeEnd : Int) :
    Emit Unit := do
  ASSERT (decide (rangeStart ≥ rangeEnd ∧ rangeStart < (kBitsPerPointer cfg : Int)))
  if cfg.general_instr_ext then
    let shiftAmount := (64 - rangeEnd) % 64
    let endBit := 63
    let startBit := 63 - rangeStart + rangeEnd
    emit (.risbg dst src startBit endBit shiftAmount true)
  else
    if rangeEnd > 0 then
      ShiftRightP cfg dst src (Operand.ofInt rangeEnd)
    else if dst ≠ src then
      LoadRR cfg dst src
    let width := rangeStart - rangeEnd + 1
    AndP_Operand cfg dst (Operand.ofInt (2 ^ width.toNat - 1))

/-- `MacroAssembler::GetMarkBits`. -/
def GetMarkBits (cfg : Config) (iso : Isolate) (addr_reg bitmap_reg mask_reg : Register) :
    Emit Unit := do
  ASSERT (!AreAliased [addr_reg, bitmap_reg, mask_reg, no_reg])
  LoadRR cfg bitmap_reg addr_reg
  emit (.nilf bitmap_reg (-(Page.kPageAlignmentMask iso) - 1))
  let kLowBits := (kPointerSizeLog2 cfg : Int) + Bitmap.kBitsPerCellLog2
  ExtractBitRange cfg mask_reg addr_reg (kLowBits - 1) (kPointerSizeLog2 cfg)
  ExtractBitRange cfg ip addr_reg (iso.kPageSizeBits - 1) kLowBits
  ShiftLeftP cfg ip ip (Operand.ofInt Bitmap.kBytesPerCellLog2)
  AddP_Register cfg bitmap_reg ip
  LoadRR cfg ip mask_reg
  LoadImmP cfg mask_reg (Operand.ofInt 1)
  ShiftLeftP_Register cfg mask_reg mask_reg ip

/-- `MacroAssembler::HasColor`; `kHeaderSize` is `MemoryChunk::kHeaderSize`,
the offset of the mark bitmap in a page. -/
def HasColor (cfg : Config) (iso : Isolate) (kHeaderSize : Int)
    (object bitmap_scratch mask_scratch : Register) (has_color : Label)
    (first_bit second_bit : Int) : Emit Unit := do
  ASSERT (!AreAliased [object, bitmap_scratch, mask_scratch, no_reg])
  GetMarkBits cfg iso object bitmap_scratch mask_scratch
  let other_color ← newLabel
  let word_boundary ← newLabel
  LoadlW cfg ip (MemOperand.mk1 bitmap_scratch kHeaderSize) no_reg
  -- Test the first bit
  AndP_Register_Register cfg r0 ip mask_scratch
  b (if first_bit = 1 then eq else ne) other_color
  -- Shift left 1; may need to load the next cell
  emit (.sll mask_scratch 1)
  beq word_boundary
  -- Test the second bit
  AndP_Register_Register cfg r0 ip mask_scratch
  b (if second_bit = 1 then ne else eq) has_color
  b al other_color
  bind word_boundary
  LoadlW cfg ip (MemOperand.mk1 bitmap_scratch (kHeaderSize + kIntSize)) no_reg
  AndP_Register_Operand cfg r0 ip (Operand.ofInt 1)
  b (if second_bit = 1 then ne else eq) has_color
  bind other_color

/-- `MacroAssembler::JumpIfBlack`; the black pattern is `"10"`. -/
def JumpIfBlack (cfg : Config) (iso : Isolate) (kHeaderSize : Int)
    (object scratch0 scratch1 : Register) (on_black : Label) : Emit Unit :=
  HasColor cfg iso kHeaderSize object scratch0 scratch1 on_black 1 0

/-! ## The power-of-two test -/

/-- The instructions that `SubP(scratch, reg, Operand(1))` emits for two
different registers. -/
def subOneCode (cfg : Config) (scratch reg : Register) : List Instr :=
  if cfg.distinct_ops then
    [if cfg.is64 then .aghik scratch reg (-1) else .ahik scratch reg (-1)]
  else [lrP cfg scratch reg, addPI cfg scratch (-1)]

/-- The instructions that `JumpIfNotPowerOfTwoOrZero` (with both labels the
same) and `JumpIfNotPowerOfTwoOrZeroAndNeg` emit. -/
def powerOfTwoCode (cfg : Config) (reg scratch : Register) (l1 l2 : Label) : List Instr :=
  subOneCode cfg scratch reg ++ (cmpZero cfg scratch :: .brc lt l1 ::
    (threeRegisterCode AluKind.and cfg.is64 cfg.distinct_ops r0 reg scratch ++ [.brc ne l2]))

/-- A machine of which `r3` holds `2^63` and every other register zero. -/
def topBitMachine : Machine :=
  ⟨fun r => if r = r3 then 9223372036854775808 else 0, 0, fun _ => 0, fun _ => 0⟩

/-! ## The code of `CallRuntime` -/

/-- The instructions of `IllegalOperation`: the arguments are dropped and the
undefined value is loaded into `r0`. -/
def illegalCode (cfg : Config) (heap : Heap) (num_arguments : Int) : List Instr :=
  (if num_arguments > 0 then
      [Instr.la sp ⟨sp, r0, num_arguments * (kPointerSize cfg : Int)⟩] else []) ++
    [ldP cfg r0 ⟨kRootRegister, r0, heap.kUndefinedValueRootIndex * 2 ^ kPointerSizeLog2 cfg⟩]

/-- The instructions of `CallRuntime` up to the call: the argument count goes
to `r2`, the entry of the runtime function to `r3` and the address of the stub
to `ip`. -/
def runtimeArgs (cfg : Config) (f : RuntimeFunction) (num_arguments : Int) (stub : CodeStub) :
    List Instr :=
  movCode cfg r2 num_arguments ++ (movCode cfg r3 f.entry ++ movCode cfg ip stub.GetCode)

/-- The stub that `CallRuntime` calls. -/
def runtimeStub (cfg : Config) (CEntryStub : Int → CodeStub) (f : RuntimeFunction) : CodeStub :=
  if cfg.is64 then CEntryStub f.result_size else CEntryStub 1

/-- A machine with the roots register at 4096, the word 77 (standing for the
undefined value) in the second root slot, `r2 = 5` and the stack pointer at
65536. -/
def rootsMachine : Machine :=
  ⟨fun r => if r = kRootRegister then 4096 else if r = r2 then 5 else if r = sp then 65536 else 0,
    0, storeWords cfg64 (fun _ => 0) 4104 [77], fun _ => 0⟩

/-- The address of the root-list slot with the given index. -/
def rootSlot (cfg : Config) (m : Machine) (index : Int) : Nat :=
  unsignedOf (addrMod cfg) ((m.addr cfg kRootRegister : Int) + index * 2 ^ kPointerSizeLog2 cfg)

/-! ## The code of `AndP(dst, src, Operand)` -/

/-- The instructions of `AndP(Register, const Operand&)`. -/
def andImmCode (cfg : Config) (dst : Register) (v : Int) : List Instr :=
  if cfg.is64 then
    (if v / 4294967296 ≠ -1 then [Instr.nihf dst (v / 4294967296)] else []) ++
      [Instr.nilf dst (v % 4294967296)]
  else [Instr.nilf dst v]

/-- The copy-then-AND path of `AndP(Register, Register, const Operand&)`. -/
def andFallbackCode (cfg : Config) (dst src : Register) (v : Int) : List Instr :=
  (if dst ≠ src ∧ 0 ≠ v then [lrP cfg dst src] else []) ++ andImmCode cfg dst v

/-- The instructions of `AndP(Register, Register, const Operand&)`. -/
def andPCode (cfg : Config) (dst src : Register) (v : Int) : List Instr :=
  if cfg.general_instr_ext then
    if 0 ≠ (shiftOutTrailingZeros 64 0 v).2 ∧
        IsPowerOf2 (ptrMod cfg) ((shiftOutTrailingZeros 64 0 v).2 + 1) = true then
      [Instr.risbg dst src
        (32 + CountLeadingZeros (unsignedOf M32 (shiftOutTrailingZeros 64 0 v).2) -
          (shiftOutTrailingZeros 64 0 v).1)
        (63 - (shiftOutTrailingZeros 64 0 v).1) 0 true]
    else if -1 = (shiftOutTrailingZeros 64 0 v).2 then
      [Instr.risbg dst src 0 (63 - (shiftOutTrailingZeros 64 0 v).1) 0 true]
    else andFallbackCode cfg dst src v
  else andFallbackCode cfg dst src v

/-! ## Counting executed instructions -/

/-- Carry on after one instruction as `Next.resume` does, passing a tally
along. -/
def Next.resumeTally (env : Env) (code : List Instr)
    (k : List Instr → Machine → List Event → Nat → Option (Final × Nat)) (rest : List Instr)
    (tr : List Event) (n : Nat) : Next → Option (Final × Nat)
  | .continue m1 => k rest m1 tr n
  | .goto l m1 =>
      match suffixAt l code with
      | some r => k r m1 tr n
      | none => some (⟨.label l, m1, tr⟩, n)
  | .jump a m1 => some (⟨.jump a, m1, tr⟩, n)
  | .call t m1 => k rest (env.callee t m1) (tr ++ [.call t]) n
  | .abort m1 => some (⟨.abort, m1, tr⟩, n)

/-- Run the fragment as `run` does and count, starting from `n`, the executed
instructions that satisfy `p`. -/
def runTally (cfg : Config) (env : Env) (code : List Instr) (p : Instr → Bool) :
    Nat → List Instr → Machine → List Event → Nat → Option (Final × Nat)
  | 0, _, _, _, _ => none
  | _ + 1, [], m, tr, n => some (⟨.fallthrough, m, tr⟩, n)
  | fuel + 1, i :: rest, m, tr, n =>
      Next.resumeTally env code (runTally cfg env code p fuel) rest tr
        (if p i then n + 1 else n) (step cfg (env.link (code.length - rest.length)) m i)

/-- A load of register `dst` from a location addressed off the register
`base`. -/
def Instr.isLoad (dst base : Register) : Instr → Bool
  | .lg reg mem | .l reg mem | .ly reg mem => reg == dst && mem.rb == base
  | _ => false

/-! ## The code of `PatchRelocatedValue` and `GetRelocatedValueLocation` -/

/-- The debug-code check that the instruction at `patch_location + offset` has
the given opcode. -/
def opcodeCheck (patch_location scratch : Register) (offset opcode : Int) (L : Label) :
    List Instr :=
  [.llh scratch ⟨patch_location, r0, offset⟩, .nilf scratch 0xFF0F, .cfi scratch opcode,
    .brc eq L, .abort, .bind L]

/-- The instructions of `PatchRelocatedValue` on a big-endian host. -/
def patchCode (cfg : Config) (patch_location scratch new_value : Register) : List Instr :=
  if cfg.is64 then
    (if cfg.emit_debug_code then opcodeCheck patch_location scratch 0 0xC008 0 else []) ++
      ([.srlg scratch new_value 32, .st scratch ⟨patch_location, r0, 2⟩] ++
        ((if cfg.emit_debug_code then opcodeCheck patch_location scratch 6 0xC009 1 else []) ++
          [.st new_value ⟨patch_location, r0, 8⟩]))
  else
    (if cfg.emit_debug_code then opcodeCheck patch_location scratch 0 0xC009 0 else []) ++
      [.st new_value ⟨patch_location, r0, 2⟩]

/-- The instructions of `GetRelocatedValueLocation` on a big-endian host. -/
def getCode (cfg : Config) (patch_location result scratch : Register) : List Instr :=
  if cfg.is64 then
    (if cfg.emit_debug_code then opcodeCheck patch_location scratch 0 0xC008 0 else []) ++
      ([.l result ⟨patch_location, r0, 2⟩, .sllg result result 32] ++
        ((if cfg.emit_debug_code then opcodeCheck patch_location scratch 6 0xC009 1 else []) ++
          [.l result ⟨patch_location, r0, 8⟩]))
  else
    (if cfg.emit_debug_code then opcodeCheck patch_location scratch 0 0xC009 0 else []) ++
      [.l result ⟨patch_location, r0, 2⟩]

/-- The bytes from address `a` on are the bytes `bs`. -/
def holdsBytes (cfg : Config) (mem : Nat → Nat) (a : Nat) (bs : List Nat) : Prop :=
  ∀ k, k < bs.length → mem ((a + k) % addrMod cfg) % 256 = bs.getD k 0

instance (cfg : Config) (mem : Nat → Nat) (a : Nat) (bs : List Nat) :
    Decidable (holdsBytes cfg mem a bs) := by
  unfold holdsBytes; exact inferInstance

/-- A machine of the 64-bit target whose memory holds at 4096 the twelve bytes
of `mov(r5, 0x1122334455667788)`, with `r3 = 4096` and
`r4 = 0xAABBCCDD00112233`. -/
def patchMachine : Machine :=
  ⟨fun x => if x = r3 then 4096 else if x = r4 then 12302652056939340339 else 0, 0,
    storeByteList cfg64 (fun _ => 0) 4096 (movBytes cfg64 r5 1234605616436508552), fun _ => 0⟩

/-! ## The code of `GetNumberHash` -/

/-- Modelled from the spec: `ComputeIntegerHash` of `utils.h`, which is not in
the repository file, as the comments of `GetNumberHash` spell it out, with all
arithmetic modulo `2 ^ 32`: `h = key ^ seed; h = ~h + (h << 15);
h ^= h >> 12; h += h << 2; h ^= h >> 4; h *= 2057; h ^= h >> 16`. -/
def ComputeIntegerHash (key seed : Nat) : Nat :=
  let h0 := Nat.xor (key % M32) (seed % M32)
  let h1 := (Nat.xor h0 0xFFFFFFFF + h0 * 2 ^ 15) % M32
  let h2 := Nat.xor h1 (h1 / 2 ^ 12)
  let h3 := (h2 + h2 * 2 ^ 2) % M32
  let h4 := Nat.xor h3 (h3 / 2 ^ 4)
  let h5 := h4 * 2057 % M32
  Nat.xor h5 (h5 / 2 ^ 16)

/-- The instructions of the 32-bit `ShiftLeft` (`left`) and `ShiftRight` by an
immediate. -/
def shift32Code (left distinct : Bool) (dst src : Register) (n : Int) : List Instr :=
  if dst = src then [if left then .sll dst n else .srl dst n]
  else if distinct then [if left then .sllk dst src n else .srlk dst src n]
  else [.lr dst src, if left then .sll dst n else .srl dst n]

/-- The instructions of `NotP`. -/
def notCode (cfg : Config) (dst : Register) : List Instr :=
  if cfg.is64 then [.xihf dst 0xFFFFFFFF, .xilf dst 0xFFFFFFFF] else [.xilf dst 0xFFFFFFFF]

/-- The instructions of `GetNumberHash`. -/
def hashCode (cfg : Config) (heap : Heap) (t0 scratch : Register) : List Instr :=
  [ldP cfg scratch ⟨kRootRegister, r0, heap.kHashSeedRootIndex * 2 ^ kPointerSizeLog2 cfg⟩] ++
  (untagCode cfg scratch scratch ++
  ([alu2 AluKind.xor cfg.is64 t0 scratch] ++
  ([copyRR cfg.is64 scratch t0] ++
  (notCode cfg scratch ++
  ([Instr.sll t0 15] ++
  (threeRegisterCode AluKind.add cfg.is64 cfg.distinct_ops t0 scratch t0 ++
  (shift32Code false cfg.distinct_ops scratch t0 12 ++
  ([alu2 AluKind.xor cfg.is64 t0 scratch] ++
  (shift32Code true cfg.distinct_ops scratch t0 2 ++
  (threeRegisterCode AluKind.add cfg.is64 cfg.distinct_ops t0 t0 scratch ++
  (shift32Code false cfg.distinct_ops scratch t0 4 ++
  ([alu2 AluKind.xor cfg.is64 t0 scratch] ++
  ([copyRR cfg.is64 r0 t0] ++
  (shift32Code true cfg.distinct_ops scratch t0 3 ++
  (threeRegisterCode AluKind.add cfg.is64 cfg.distinct_ops t0 t0 scratch ++
  (shift32Code true cfg.distinct_ops scratch r0 11 ++
  (threeRegisterCode AluKind.add cfg.is64 cfg.distinct_ops t0 t0 scratch ++
  (shift32Code false cfg.distinct_ops scratch t0 16 ++
  [alu2 AluKind.xor cfg.is64 t0 scratch]))))))))))))))))))

/-- The 32-bit hash seed: the low word of the untagged small integer in the
hash-seed slot of the root list. -/
def hashSeed (cfg : Config) (heap : Heap) (m : Machine) : Nat :=
  unsignedOf (ptrMod cfg)
    (untagged cfg (loadPtr cfg m.mem (rootSlot cfg m heap.kHashSeedRootIndex))) % M32

/-- A machine of the 64-bit target with the roots register at 4096, the small
integer 7 (tagged: `7 * 2 ^ 32`) in root slot 2 and the key 12345 in `r2`. -/
def hashMachine : Machine :=
  ⟨fun r => if r = kRootRegister then 4096 else if r = r2 then 12345 else 0,
    0, storeWords cfg64 (fun _ => 0) 4112 [30064771072], fun _ => 0⟩

/-! ## The code of `GetMarkBits` and `HasColor` -/

/-- The instructions of `ShiftRightP` and `ShiftLeftP` (`left`) by an
immediate. -/
def shiftPCode (cfg : Config) (left : Bool) (dst src : Register) (n : Int) : List Instr :=
  if cfg.is64 then [if left then .sllg dst src n else .srlg dst src n]
  else shift32Code left cfg.distinct_ops dst src n

/-- The instructions of `ExtractBitRange`. -/
def extractCode (cfg : Config) (dst src : Register) (rangeStart rangeEnd : Int) : List Instr :=
  if cfg.general_instr_ext then
    [.risbg dst src (63 - rangeStart + rangeEnd) 63 ((64 - rangeEnd) % 64) true]
  else
    (if rangeEnd > 0 then shiftPCode cfg false dst src rangeEnd
      else if dst ≠ src then [lrP cfg dst src] else []) ++
      andImmCode cfg dst (2 ^ (rangeStart - rangeEnd + 1).toNat - 1)

/-- The instructions of `GetMarkBits` for registers that are not aliased. -/
def markBitsCode (cfg : Config) (iso : Isolate) (addr_reg bitmap_reg mask_reg : Register) :
    List Instr :=
  [lrP cfg bitmap_reg addr_reg, .nilf bitmap_reg (-(Page.kPageAlignmentMask iso) - 1)] ++
  (extractCode cfg mask_reg addr_reg ((kPointerSizeLog2 cfg : Int) + Bitmap.kBitsPerCellLog2 - 1)
      (kPointerSizeLog2 cfg) ++
  (extractCode cfg ip addr_reg (iso.kPageSizeBits - 1)
      ((kPointerSizeLog2 cfg : Int) + Bitmap.kBitsPerCellLog2) ++
  (shiftPCode cfg true ip ip Bitmap.kBytesPerCellLog2 ++
  ([addP cfg bitmap_reg ip, lrP cfg ip mask_reg, liP cfg mask_reg 1] ++
    [if cfg.is64 then .sllg_r mask_reg mask_reg ip else .sll_r mask_reg ip]))))

/-- The instruction that `LoadlW` emits for a displacement within the
long-displacement range. -/
def loadlW (cfg : Config) (dst : Register) (mem : MemOperand) : Instr :=
  if cfg.is64 then .llgf dst mem else if is_uint12 mem.offset then .l dst mem else .ly dst mem

/-- The instructions of `HasColor` behind those of `GetMarkBits`; label 0 is
`other_color` and label 1 is `word_boundary`. -/
def colorTail (cfg : Config) (kHeaderSize : Int) (bitmap_scratch mask_scratch : Register)
    (has_color : Label) (first_bit second_bit : Int) : List Instr :=
  [loadlW cfg ip ⟨bitmap_scratch, r0, kHeaderSize⟩] ++
  (threeRegisterCode AluKind.and cfg.is64 cfg.distinct_ops r0 ip mask_scratch ++
  ([.brc (if first_bit = 1 then eq else ne) 0, .sll mask_scratch 1, .brc eq 1] ++
  (threeRegisterCode AluKind.and cfg.is64 cfg.distinct_ops r0 ip mask_scratch ++
  ([.brc (if second_bit = 1 then ne else eq) has_color, .brc al 0, .bind 1,
      loadlW cfg ip ⟨bitmap_scratch, r0, kHeaderSize + kIntSize⟩] ++
  (andBitCode cfg ip 0 ++
  [.brc (if second_bit = 1 then ne else eq) has_color, .bind 0])))))

/-- The 32-bit bitmap cell that `LoadlW(ip, MemOperand(bitmap_scratch, off))`
reads. -/
def markCell (cfg : Config) (m : Machine) (bitmap_scratch : Register) (off : Int) : Nat :=
  readBytes cfg m.mem (effAddr cfg m ⟨bitmap_scratch, r0, off⟩) 4

/-- A machine with the object address `0x1000F8` in `r2`; the bitmap cell at
`0x100100` holds `0x80000000` and the next cell, at `0x100104`, holds 1. -/
def greyMachine : Machine :=
  ⟨fun r => if r = r2 then 0x1000F8 else 0, 0,
    fun a => if a = 0x100100 then 0x80 else if a = 0x100107 then 1 else 0, fun _ => 0⟩

/-- A machine of the 64-bit target whose top handler record, at 1000, has the
state word of a `CATCH` handler with index `2 ^ 29 + 1`.  The handler table of
its code object (at 30000, elements from 30016) has the offset 200 at index 1
and the offset 100 at index `2 ^ 29 + 1`; `r3 = 42`. -/
def wideIndexMachine : Machine :=
  ⟨fun r => if r = r3 then 42 else 0, 0,
    storeWords cfg64
      (storeWords cfg64
        (storeWords cfg64
          (storeWords cfg64
            (storeWords cfg64 (fun _ => 0) 8192 [1000])
            1000 [2000, 20001, 2147483653, 7, 5000])
          20048 [30001])
        30024 [858993459200])
      4294997320 [429496729600],
    fun _ => 0⟩

/-- The address that `JumpToHandlerEntry` leaves in `r14`, for the byte offset
`off` of the element within the handler table: the start of the code of the
code object `code` (its address plus the header size, less the heap-object tag)
plus the untagged offset stored `off` bytes past the first element of the handler
table of `code`. -/
def handlerEntryAt (cfg : Config) (iso : Isolate) (mem : Nat → Nat) (code off : Nat) : Nat :=
  let table := loadPtr cfg mem
    (unsignedOf (addrMod cfg) ((code : Int) + (iso.Code_kHandlerTableOffset - kHeapObjectTag)))
  let offset := loadPtr cfg mem
    (unsignedOf (addrMod cfg)
      ((table : Int) + (iso.FixedArray_kHeaderSize - kHeapObjectTag) + (off : Int)))
  unsignedOf (addrMod cfg)
    ((code : Int) + (iso.Code_kHeaderSize - kHeapObjectTag) + untagged cfg offset)

/-- The byte offset into the handler table that `srl(r4, kKindWidth)`,
`LoadRR(ip, r4)` and `sll(ip, kPointerSizeLog2)` compute from the state word:
both shifts work on the low 32 bits and keep the high word. -/
def tableOffset (cfg : Config) (iso : Isolate) (state : Nat) : Nat :=
  state / M32 * M32 + state % M32 / 2 ^ iso.kKindWidth * kPointerSize cfg % M32

/-! # Lemmas and theorems -/

/-! ## Running one instruction -/

@[simp] theorem run_iihf (cfg : Config) (env : Env) (code rest : List Instr) (fuel : Nat) (m : Machine)
    (tr : List Event) (r : Register) (i : Int) :
    run cfg env code (fuel + 1) (Instr.iihf r i :: rest) m tr =
      run cfg env code fuel rest
        (m.setReg r (setHi32 (m.regs r) (unsignedOf M32 i))) tr := id rfl

@[simp] theorem run_iilf (cfg : Config) (env : Env) (code rest : List Instr) (fuel : Nat) (m : Machine)
    (tr : List Event) (r : Register) (i : Int) :
    run cfg env code (fuel + 1) (Instr.iilf r i :: rest) m tr =
      run cfg env code fuel rest
        (m.setReg r (setLo32 (m.regs r) (unsignedOf M32 i))) tr := id rfl

@[simp] theorem run_llihf (cfg : Config) (env : Env) (code rest : List Instr) (fuel : Nat) (m : Machine)
    (tr : List Event) (r : Register) (i : Int) :
    run cfg env code (fuel + 1) (Instr.llihf r i :: rest) m tr =
      run cfg env code fuel rest
        (m.setReg r (unsignedOf M32 i * M32)) tr := id rfl

@[simp] theorem run_llilf (cfg : Config) (env : Env) (code rest : List Instr) (fuel : Nat) (m : Machine)
    (tr : List Event) (r : Register) (i : Int) :
    run cfg env code (fuel + 1) (Instr.llilf r i :: rest) m tr =
      run cfg env code fuel rest
        (m.setReg r (unsignedOf M32 i)) tr := id rfl

@[simp] theorem run_lghi (cfg : Config) (env : Env) (code rest : List Instr) (fuel : Nat) (m : Machine)
    (tr : List Event) (r : Register) (i : Int) :
    run cfg env code (fuel + 1) (Instr.lghi r i :: rest) m tr =
      run cfg env code fuel rest
        (m.setReg r (unsignedOf M64 (toInt16 i))) tr := id rfl

@[simp] theorem run_lhi (cfg : Config) (env : Env) (code rest : List Instr) (fuel : Nat) (m : Machine)
    (tr : List Event) (r : Register) (i : Int) :
    run cfg env code (fuel + 1) (Instr.lhi r i :: rest) m tr =
      run cfg env code fuel rest
        (m.setReg r (setLo32 (m.regs r) (unsignedOf M32 (toInt16 i)))) tr := id rfl

@[simp] theorem run_lgr (cfg : Config) (env : Env) (code rest : List Instr) (fuel : Nat) (m : Machine)
    (tr : List Event) (d : Register) (s : Register) :
    run cfg env code (fuel + 1) (Instr.lgr d s :: rest) m tr =
      run cfg env code fuel rest
        (m.setReg d (m.regs s % M64)) tr := id rfl

@[simp] theorem run_lr (cfg : Config) (env : Env) (code rest : List Instr) (fuel : Nat) (m : Machine)
    (tr : List Event) (d : Register) (s : Register) :
    run cfg env code (fuel + 1) (Instr.lr d s :: rest) m tr =
      run cfg env code fuel rest
        (m.setReg d (setLo32 (m.regs d) (m.regs s))) tr := id rfl

@[simp] theorem run_lg (cfg : Config) (env : Env) (code rest : List Instr) (fuel : Nat) (m : Machine)
    (tr : List Event) (d : Register) (op : MemOperand) :
    run cfg env code (fuel + 1) (Instr.lg d op :: rest) m tr =
      run cfg env code fuel rest
        (m.setReg d (readBytes cfg m.mem (effAddr cfg m op) 8)) tr := id rfl

@[simp] theorem run_l (cfg : Config) (env : Env) (code rest : List Instr) (fuel : Nat) (m : Machine)
    (tr : List Event) (d : Register) (op : MemOperand) :
    run cfg env code (fuel + 1) (Instr.l d op :: rest) m tr =
      run cfg env code fuel rest
        (m.setReg d (setLo32 (m.regs d) (readBytes cfg m.mem (effAddr cfg m op) 4))) tr := id rfl

@[simp] theorem run_ly (cfg : Config) (env : Env) (code rest : List Instr) (fuel : Nat) (m : Machine)
    (tr : List Event) (d : Register) (op : MemOperand) :
    run cfg env code (fuel + 1) (Instr.ly d op :: rest) m tr =
      run cfg env code fuel rest
        (m.setReg d (setLo32 (m.regs d) (readBytes cfg m.mem (effAddr cfg m op) 4))) tr := id rfl

@[simp] theorem run_stg (cfg : Config) (env : Env) (code rest : List Instr) (fuel : Nat) (m : Machine)
    (tr : List Event) (s : Register) (op : MemOperand) :
    run cfg env code (fuel + 1) (Instr.stg s op :: rest) m tr =
      run cfg env code fuel rest
        (m.store cfg (effAddr cfg m op) 8 (m.regs s)) tr := id rfl

@[simp] theorem run_st (cfg : Config) (env : Env) (code rest : List Instr) (fuel : Nat) (m : Machine)
    (tr : List Event) (s : Register) (op : MemOperand) :
    run cfg env code (fuel + 1) (Instr.st s op :: rest) m tr =
      run cfg env code fuel rest
        (m.store cfg (effAddr cfg m op) 4 (m.regs s)) tr := id rfl

@[simp] theorem run_sty (cfg : Config) (env : Env) (code rest : List Instr) (fuel : Nat) (m : Machine)
    (tr : List Event) (s : Register) (op : MemOperand) :
    run cfg env code (fuel + 1) (Instr.sty s op :: rest) m tr =
      run cfg env code fuel rest
        (m.store cfg (effAddr cfg m op) 4 (m.regs s)) tr := id rfl

@[simp] theorem run_stmg (cfg : Config) (env : Env) (code rest : List Instr) (fuel : Nat) (m : Machine)
    (tr : List Event) (a : Register) (b : Register) (op : MemOperand) :
    run cfg env code (fuel + 1) (Instr.stmg a b op :: rest) m tr =
      run cfg env code fuel rest
        (storeMultiple cfg 8 (((b.code - a.code) % 16).toNat + 1) a (effAddr cfg m op) m) tr := id rfl

@[simp] theorem run_stm (cfg : Config) (env : Env) (code rest : List Instr) (fuel : Nat) (m : Machine)
    (tr : List Event) (a : Register) (b : Register) (op : MemOperand) :
    run cfg env code (fuel + 1) (Instr.stm a b op :: rest) m tr =
      run cfg env code fuel rest
        (storeMultiple cfg 4 (((b.code - a.code) % 16).toNat + 1) a (effAddr cfg m op) m) tr := id rfl

@[simp] theorem run_stmy (cfg : Config) (env : Env) (code rest : List Instr) (fuel : Nat) (m : Machine)
    (tr : List Event) (a : Register) (b : Register) (op : MemOperand) :
    run cfg env code (fuel + 1) (Instr.stmy a b op :: rest) m tr =
      run cfg env code fuel rest
        (storeMultiple cfg 4 (((b.code - a.code) % 16).toNat + 1) a (effAddr cfg m op) m) tr := id rfl

@[simp] theorem run_agr (cfg : Config) (env : Env) (code rest : List Instr) (fuel : Nat) (m : Machine)
    (tr : List Event) (d : Register) (s : Register) :
    run cfg env code (fuel + 1) (Instr.agr d s :: rest) m tr =
      run cfg env code fuel rest
        (add64 m d (m.regs d) (m.regs s)) tr := id rfl

@[simp] theorem run_ar (cfg : Config) (env : Env) (code rest : List Instr) (fuel : Nat) (m : Machine)
    (tr : List Event) (d : Register) (s : Register) :
    run cfg env code (fuel + 1) (Instr.ar d s :: rest) m tr =
      run cfg env code fuel rest
        (add32 m d (m.regs d) (m.regs s)) tr := id rfl

@[simp] theorem run_agrk (cfg : Config) (env : Env) (code rest : List Instr) (fuel : Nat) (m : Machine)
    (tr : List Event) (d : Register) (s1 : Register) (s2 : Register) :
    run cfg env code (fuel + 1) (Instr.agrk d s1 s2 :: rest) m tr =
      run cfg env code fuel rest
        (add64 m d (m.regs s1) (m.regs s2)) tr := id rfl

@[simp] theorem run_ark (cfg : Config) (env : Env) (code rest : List Instr) (fuel : Nat) (m : Machine)
    (tr : List Event) (d : Register) (s1 : Register) (s2 : Register) :
    run cfg env code (fuel + 1) (Instr.ark d s1 s2 :: rest) m tr =
      run cfg env code fuel rest
        (add32 m d (m.regs s1) (m.regs s2)) tr := id rfl

@[simp] theorem run_aghi (cfg : Config) (env : Env) (code rest : List Instr) (fuel : Nat) (m : Machine)
    (tr : List Event) (r : Register) (i : Int) :
    run cfg env code (fuel + 1) (Instr.aghi r i :: rest) m tr =
      run cfg env code fuel rest
        (add64 m r (m.regs r) (unsignedOf M64 (toInt16 i))) tr := id rfl

@[simp] theorem run_agfi (cfg : Config) (env : Env) (code rest : List Instr) (fuel : Nat) (m : Machine)
    (tr : List Event) (r : Register) (i : Int) :
    run cfg env code (fuel + 1) (Instr.agfi r i :: rest) m tr =
      run cfg env code fuel rest
        (add64 m r (m.regs r) (unsignedOf M64 (toInt32 i))) tr := id rfl

@[simp] theorem run_ahi (cfg : Config) (env : Env) (code rest : List Instr) (fuel : Nat) (m : Machine)
    (tr : List Event) (r : Register) (i : Int) :
    run cfg env code (fuel + 1) (Instr.ahi r i :: rest) m tr =
      run cfg env code fuel rest
        (add32 m r (m.regs r) (unsignedOf M32 (toInt16 i))) tr := id rfl

@[simp] theorem run_afi (cfg : Config) (env : Env) (code rest : List Instr) (fuel : Nat) (m : Machine)
    (tr : List Event) (r : Register) (i : Int) :
    run cfg env code (fuel + 1) (Instr.afi r i :: rest) m tr =
      run cfg env code fuel rest
        (add32 m r (m.regs r) (unsignedOf M32 i)) tr := id rfl

@[simp] theorem run_aghik (cfg : Config) (env : Env) (code rest : List Instr) (fuel : Nat) (m : Machine)
    (tr : List Event) (d : Register) (s : Register) (i : Int) :
    run cfg env code (fuel + 1) (Instr.aghik d s i :: rest) m tr =
      run cfg env code fuel rest
        (add64 m d (m.regs s) (unsignedOf M64 (toInt16 i))) tr := id rfl

@[simp] theorem run_ahik (cfg : Config) (env : Env) (code rest : List Instr) (fuel : Nat) (m : Machine)
    (tr : List Event) (d : Register) (s : Register) (i : Int) :
    run cfg env code (fuel + 1) (Instr.ahik d s i :: rest) m tr =
      run cfg env code fuel rest
        (add32 m d (m.regs s) (unsignedOf M32 (toInt16 i))) tr := id rfl

@[simp] theorem run_cgr (cfg : Config) (env : Env) (code rest : List Instr) (fuel : Nat) (m : Machine)
    (tr : List Event) (a : Register) (b : Register) :
    run cfg env code (fuel + 1) (Instr.cgr a b :: rest) m tr =
      run cfg env code fuel rest
        (m.setCC (cmpCC (signedOf M64 (m.regs a)) (signedOf M64 (m.regs b)))) tr := id rfl

@[simp] theorem run_cr_z (cfg : Config) (env : Env) (code rest : List Instr) (fuel : Nat) (m : Machine)
    (tr : List Event) (a : Register) (b : Register) :
    run cfg env code (fuel + 1) (Instr.cr_z a b :: rest) m tr =
      run cfg env code fuel rest
        (m.setCC (cmpCC (signedOf M32 (m.regs a)) (signedOf M32 (m.regs b)))) tr := id rfl

@[simp] theorem run_cghi (cfg : Config) (env : Env) (code rest : List Instr) (fuel : Nat) (m : Machine)
    (tr : List Event) (r : Register) (i : Int) :
    run cfg env code (fuel + 1) (Instr.cghi r i :: rest) m tr =
      run cfg env code fuel rest
        (m.setCC (cmpCC (signedOf M64 (m.regs r)) (toInt16 i))) tr := id rfl

@[simp] theorem run_chi (cfg : Config) (env : Env) (code rest : List Instr) (fuel : Nat) (m : Machine)
    (tr : List Event) (r : Register) (i : Int) :
    run cfg env code (fuel + 1) (Instr.chi r i :: rest) m tr =
      run cfg env code fuel rest
        (m.setCC (cmpCC (signedOf M32 (m.regs r)) (toInt16 i))) tr := id rfl

@[simp] theorem run_cgfi (cfg : Config) (env : Env) (code rest : List Instr) (fuel : Nat) (m : Machine)
    (tr : List Event) (r : Register) (i : Int) :
    run cfg env code (fuel + 1) (Instr.cgfi r i :: rest) m tr =
      run cfg env code fuel rest
        (m.setCC (cmpCC (signedOf M64 (m.regs r)) (toInt32 i))) tr := id rfl

@[simp] theorem run_cfi (cfg : Config) (env : Env) (code rest : List Instr) (fuel : Nat) (m : Machine)
    (tr : List Event) (r : Register) (i : Int) :
    run cfg env code (fuel + 1) (Instr.cfi r i :: rest) m tr =
      run cfg env code fuel rest
        (m.setCC (cmpCC (signedOf M32 (m.regs r)) (toInt32 i))) tr := id rfl

@[simp] theorem run_cg (cfg : Config) (env : Env) (code rest : List Instr) (fuel : Nat) (m : Machine)
    (tr : List Event) (r : Register) (op : MemOperand) :
    run cfg env code (fuel + 1) (Instr.cg r op :: rest) m tr =
      run cfg env code fuel rest
        (m.setCC (cmpCC (signedOf M64 (m.regs r))
        (signedOf M64 (readBytes cfg m.mem (effAddr cfg m op) 8)))) tr := id rfl

@[simp] theorem run_c (cfg : Config) (env : Env) (code rest : List Instr) (fuel : Nat) (m : Machine)
    (tr : List Event) (r : Register) (op : MemOperand) :
    run cfg env code (fuel + 1) (Instr.c r op :: rest) m tr =
      run cfg env code fuel rest
        (m.setCC (cmpCC (signedOf M32 (m.regs r))
        (signedOf M32 (readBytes cfg m.mem (effAddr cfg m op) 4)))) tr := id rfl

@[simp] theorem run_cy (cfg : Config) (env : Env) (code rest : List Instr) (fuel : Nat) (m : Machine)
    (tr : List Event) (r : Register) (op : MemOperand) :
    run cfg env code (fuel + 1) (Instr.cy r op :: rest) m tr =
      run cfg env code fuel rest
        (m.setCC (cmpCC (signedOf M32 (m.regs r))
        (signedOf M32 (readBytes cfg m.mem (effAddr cfg m op) 4)))) tr := id rfl

@[simp] theorem run_clgr (cfg : Config) (env : Env) (code rest : List Instr) (fuel : Nat) (m : Machine)
    (tr : List Event) (a : Register) (b : Register) :
    run cfg env code (fuel + 1) (Instr.clgr a b :: rest) m tr =
      run cfg env code fuel rest
        (m.setCC (cmpLogicalCC (m.regs a % M64) (m.regs b % M64))) tr := id rfl

@[simp] theorem run_clr (cfg : Config) (env : Env) (code rest : List Instr) (fuel : Nat) (m : Machine)
    (tr : List Event) (a : Register) (b : Register) :
    run cfg env code (fuel + 1) (Instr.clr a b :: rest) m tr =
      run cfg env code fuel rest
        (m.setCC (cmpLogicalCC (lo32 (m.regs a)) (lo32 (m.regs b)))) tr := id rfl

@[simp] theorem run_ngr (cfg : Config) (env : Env) (code rest : List Instr) (fuel : Nat) (m : Machine)
    (tr : List Event) (d : Register) (s : Register) :
    run cfg env code (fuel + 1) (Instr.ngr d s :: rest) m tr =
      run cfg env code fuel rest
        (and64 m d (m.regs d) (m.regs s)) tr := id rfl

@[simp] theorem run_nr (cfg : Config) (env : Env) (code rest : List Instr) (fuel : Nat) (m : Machine)
    (tr : List Event) (d : Register) (s : Register) :
    run cfg env code (fuel + 1) (Instr.nr d s :: rest) m tr =
      run cfg env code fuel rest
        (and32 m d (m.regs d) (m.regs s)) tr := id rfl

@[simp] theorem run_ngrk (cfg : Config) (env : Env) (code rest : List Instr) (fuel : Nat) (m : Machine)
    (tr : List Event) (d : Register) (s1 : Register) (s2 : Register) :
    run cfg env code (fuel + 1) (Instr.ngrk d s1 s2 :: rest) m tr =
      run cfg env code fuel rest
        (and64 m d (m.regs s1) (m.regs s2)) tr := id rfl

@[simp] theorem run_nrk (cfg : Config) (env : Env) (code rest : List Instr) (fuel : Nat) (m : Machine)
    (tr : List Event) (d : Register) (s1 : Register) (s2 : Register) :
    run cfg env code (fuel + 1) (Instr.nrk d s1 s2 :: rest) m tr =
      run cfg env code fuel rest
        (and32 m d (m.regs s1) (m.regs s2)) tr := id rfl

@[simp] theorem run_nill (cfg : Config) (env : Env) (code rest : List Instr) (fuel : Nat) (m : Machine)
    (tr : List Event) (r : Register) (i : Int) :
    run cfg env code (fuel + 1) (Instr.nill r i :: rest) m tr =
      (let v := Nat.land (m.regs r % M16) (unsignedOf M16 i)
      run cfg env code fuel rest ((m.setReg r (setLo16 (m.regs r) v)).setCC (logicCC v)) tr) := id rfl

@[simp] theorem run_nilf (cfg : Config) (env : Env) (code rest : List Instr) (fuel : Nat) (m : Machine)
    (tr : List Event) (r : Register) (i : Int) :
    run cfg env code (fuel + 1) (Instr.nilf r i :: rest) m tr =
      run cfg env code fuel rest
        (and32 m r (m.regs r) (unsignedOf M32 i)) tr := id rfl

@[simp] theorem run_nihf (cfg : Config) (env : Env) (code rest : List Instr) (fuel : Nat) (m : Machine)
    (tr : List Event) (r : Register) (i : Int) :
    run cfg env code (fuel + 1) (Instr.nihf r i :: rest) m tr =
      (let v := Nat.land (hi32 (m.regs r)) (unsignedOf M32 i)
      run cfg env code fuel rest ((m.setReg r (setHi32 (m.regs r) v)).setCC (logicCC v)) tr) := id rfl

@[simp] theorem run_sllg (cfg : Config) (env : Env) (code rest : List Instr) (fuel : Nat) (m : Machine)
    (tr : List Event) (d : Register) (s : Register) (n : Int) :
    run cfg env code (fuel + 1) (Instr.sllg d s n :: rest) m tr =
      run cfg env code fuel rest
        (m.setReg d ((m.regs s % M64) * 2 ^ (unsignedOf 64 n) % M64)) tr := id rfl

@[simp] theorem run_sll (cfg : Config) (env : Env) (code rest : List Instr) (fuel : Nat) (m : Machine)
    (tr : List Event) (d : Register) (n : Int) :
    run cfg env code (fuel + 1) (Instr.sll d n :: rest) m tr =
      run cfg env code fuel rest
        (m.setReg d (setLo32 (m.regs d) (lo32 (m.regs d) * 2 ^ (unsignedOf 64 n)))) tr := id rfl

@[simp] theorem run_sllk (cfg : Config) (env : Env) (code rest : List Instr) (fuel : Nat) (m : Machine)
    (tr : List Event) (d : Register) (s : Register) (n : Int) :
    run cfg env code (fuel + 1) (Instr.sllk d s n :: rest) m tr =
      run cfg env code fuel rest
        (m.setReg d (setLo32 (m.regs d) (lo32 (m.regs s) * 2 ^ (unsignedOf 64 n)))) tr := id rfl

@[simp] theorem run_risbg (cfg : Config) (env : Env) (code rest : List Instr) (fuel : Nat) (m : Machine)
    (tr : List Event) (d : Register) (s : Register) (i3 : Int) (i4 : Int) (i5 : Int) (z : Bool) :
    run cfg env code (fuel + 1) (Instr.risbg d s i3 i4 i5 z :: rest) m tr =
      (let mask := risbgMask (unsignedOf 64 i3) (unsignedOf 64 i4)
      let rot := rotl64 (m.regs s) (unsignedOf 64 i5)
      let v := if z then Nat.land rot mask
      else Nat.land (m.regs d % M64) (M64 - 1 - mask) + Nat.land rot mask
      run cfg env code fuel rest ((m.setReg d v).setCC (signCC M64 v)) tr) := id rfl

@[simp] theorem run_tmll (cfg : Config) (env : Env) (code rest : List Instr) (fuel : Nat) (m : Machine)
    (tr : List Event) (r : Register) (i : Int) :
    run cfg env code (fuel + 1) (Instr.tmll r i :: rest) m tr =
      run cfg env code fuel rest
        (m.setCC (tmCC 16 (m.regs r) (unsignedOf M16 i))) tr := id rfl

@[simp] theorem run_tm (cfg : Config) (env : Env) (code rest : List Instr) (fuel : Nat) (m : Machine)
    (tr : List Event) (op : MemOperand) (i : Int) :
    run cfg env code (fuel + 1) (Instr.tm op i :: rest) m tr =
      run cfg env code fuel rest
        (m.setCC (tmCC 8 (m.mem (effAddr cfg m op)) (unsignedOf 256 i))) tr := id rfl

@[simp] theorem run_la (cfg : Config) (env : Env) (code rest : List Instr) (fuel : Nat) (m : Machine)
    (tr : List Event) (r : Register) (op : MemOperand) :
    run cfg env code (fuel + 1) (Instr.la r op :: rest) m tr =
      run cfg env code fuel rest
        (if cfg.is64 then m.setReg r (effAddr cfg m op)
                 else m.setReg r (setLo32 (m.regs r) (effAddr cfg m op))) tr := id rfl

@[simp] theorem run_lay (cfg : Config) (env : Env) (code rest : List Instr) (fuel : Nat) (m : Machine)
    (tr : List Event) (r : Register) (op : MemOperand) :
    run cfg env code (fuel + 1) (Instr.lay r op :: rest) m tr =
      run cfg env code fuel rest
        (if cfg.is64 then m.setReg r (effAddr cfg m op)
                 else m.setReg r (setLo32 (m.regs r) (effAddr cfg m op))) tr := id rfl

@[simp] theorem run_mvc (cfg : Config) (env : Env) (code rest : List Instr) (fuel : Nat) (m : Machine)
    (tr : List Event) (d : MemOperand) (s : MemOperand) (n : Nat) :
    run cfg env code (fuel + 1) (Instr.mvc d s n :: rest) m tr =
      run cfg env code fuel rest
        { m with mem := copyBytes cfg (effAddr cfg m d) (effAddr cfg m s) n m.mem } tr := id rfl

@[simp] theorem run_bind (cfg : Config) (env : Env) (code rest : List Instr) (fuel : Nat) (m : Machine)
    (tr : List Event) (x0 : Label) :
    run cfg env code (fuel + 1) (Instr.bind x0 :: rest) m tr =
      run cfg env code fuel rest
        m tr := id rfl

@[simp] theorem run_nil (cfg : Config) (env : Env) (code : List Instr) (fuel : Nat) (m : Machine)
    (tr : List Event) :
    run cfg env code (fuel + 1) [] m tr = some ⟨.fallthrough, m, tr⟩ := id rfl

theorem run_brc (cfg : Config) (env : Env) (code rest : List Instr) (fuel : Nat) (m : Machine)
    (tr : List Event) (mask : Condition) (l : Label) :
    run cfg env code (fuel + 1) (Instr.brc mask l :: rest) m tr =
      if condHolds mask m.cc = true then
        (match suffixAt l code with
         | some r => run cfg env code fuel r m tr
         | none => some ⟨.label l, m, tr⟩)
      else run cfg env code fuel rest m tr := by
  show Next.resume env code (run cfg env code fuel) rest tr
      (if condHolds mask m.cc = true then Next.goto l m else Next.continue m) = _
  split <;> rfl

theorem run_bcr (cfg : Config) (env : Env) (code rest : List Instr) (fuel : Nat) (m : Machine)
    (tr : List Event) (mask : Condition) (r : Register) :
    run cfg env code (fuel + 1) (Instr.bcr mask r :: rest) m tr =
      if (condHolds mask m.cc && r != r0) = true then some ⟨.jump (m.regs r % addrMod cfg), m, tr⟩
      else run cfg env code fuel rest m tr := by
  show Next.resume env code (run cfg env code fuel) rest tr
      (if (condHolds mask m.cc && r != r0) = true then Next.jump (m.regs r % addrMod cfg) m
       else Next.continue m) = _
  split <;> rfl

theorem run_basr (cfg : Config) (env : Env) (code rest : List Instr) (fuel : Nat) (m : Machine)
    (tr : List Event) (a b : Register) :
    run cfg env code (fuel + 1) (Instr.basr a b :: rest) m tr =
      if b = r0 then
        run cfg env code fuel rest (m.setRegP cfg a (env.link (code.length - rest.length))) tr
      else
        run cfg env code fuel rest
          (env.callee (m.regs b % addrMod cfg)
            (m.setRegP cfg a (env.link (code.length - rest.length))))
          (tr ++ [.call (m.regs b % addrMod cfg)]) := by
  show Next.resume env code (run cfg env code fuel) rest tr
      (if b = r0 then Next.continue (m.setRegP cfg a (env.link (code.length - rest.length)))
       else Next.call (m.regs b % addrMod cfg)
         (m.setRegP cfg a (env.link (code.length - rest.length)))) = _
  split <;> rfl

@[simp] theorem run_abort (cfg : Config) (env : Env) (code rest : List Instr) (fuel : Nat)
    (m : Machine) (tr : List Event) :
    run cfg env code (fuel + 1) (Instr.abort :: rest) m tr = some ⟨.abort, m, tr⟩ := rfl

theorem suffixAt_nil (l : Label) : suffixAt l [] = none := rfl

theorem suffixAt_cons (l : Label) (i : Instr) (rest : List Instr) :
    suffixAt l (i :: rest) =
      if i.boundLabel = some l then some (i :: rest) else suffixAt l rest := rfl

@[simp] theorem boundLabel_iihf (r : Register) (i : Int) :
    (Instr.iihf r i).boundLabel = none := rfl

@[simp] theorem boundLabel_iilf (r : Register) (i : Int) :
    (Instr.iilf r i).boundLabel = none := rfl

@[simp] theorem boundLabel_llihf (r : Register) (i : Int) :
    (Instr.llihf r i).boundLabel = none := rfl

@[simp] theorem boundLabel_llilf (r : Register) (i : Int) :
    (Instr.llilf r i).boundLabel = none := rfl

@[simp] theorem boundLabel_lghi (r : Register) (i : Int) :
    (Instr.lghi r i).boundLabel = none := rfl

@[simp] theorem boundLabel_lhi (r : Register) (i : Int) :
    (Instr.lhi r i).boundLabel = none := rfl

@[simp] theorem boundLabel_lgr (d : Register) (s : Register) :
    (Instr.lgr d s).boundLabel = none := rfl

@[simp] theorem boundLabel_lr (d : Register) (s : Register) :
    (Instr.lr d s).boundLabel = none := rfl

@[simp] theorem boundLabel_lg (d : Register) (m : MemOperand) :
    (Instr.lg d m).boundLabel = none := rfl

@[simp] theorem boundLabel_l (d : Register) (m : MemOperand) :
    (Instr.l d m).boundLabel = none := rfl

@[simp] theorem boundLabel_ly (d : Register) (m : MemOperand) :
    (Instr.ly d m).boundLabel = none := rfl

@[simp] theorem boundLabel_stg (s : Register) (m : MemOperand) :
    (Instr.stg s m).boundLabel = none := rfl

@[simp] theorem boundLabel_st (s : Register) (m : MemOperand) :
    (Instr.st s m).boundLabel = none := rfl

@[simp] theorem boundLabel_sty (s : Register) (m : MemOperand) :
    (Instr.sty s m).boundLabel = none := rfl

@[simp] theorem boundLabel_stmg (a : Register) (b : Register) (m : MemOperand) :
    (Instr.stmg a b m).boundLabel = none := rfl

@[simp] theorem boundLabel_stm (a : Register) (b : Register) (m : MemOperand) :
    (Instr.stm a b m).boundLabel = none := rfl

@[simp] theorem boundLabel_stmy (a : Register) (b : Register) (m : MemOperand) :
    (Instr.stmy a b m).boundLabel = none := rfl

@[simp] theorem boundLabel_agr (d : Register) (s : Register) :
    (Instr.agr d s).boundLabel = none := rfl

@[simp] theorem boundLabel_ar (d : Register) (s : Register) :
    (Instr.ar d s).boundLabel = none := rfl

@[simp] theorem boundLabel_agrk (d : Register) (s1 : Register) (s2 : Register) :
    (Instr.agrk d s1 s2).boundLabel = none := rfl

@[simp] theorem boundLabel_ark (d : Register) (s1 : Register) (s2 : Register) :
    (Instr.ark d s1 s2).boundLabel = none := rfl

@[simp] theorem boundLabel_aghi (r : Register) (i : Int) :
    (Instr.aghi r i).boundLabel = none := rfl

@[simp] theorem boundLabel_agfi (r : Register) (i : Int) :
    (Instr.agfi r i).boundLabel = none := rfl

@[simp] theorem boundLabel_ahi (r : Register) (i : Int) :
    (Instr.ahi r i).boundLabel = none := rfl

@[simp] theorem boundLabel_afi (r : Register) (i : Int) :
    (Instr.afi r i).boundLabel = none := rfl

@[simp] theorem boundLabel_aghik (d : Register) (s : Register) (i : Int) :
    (Instr.aghik d s i).boundLabel = none := rfl

@[simp] theorem boundLabel_ahik (d : Register) (s : Register) (i : Int) :
    (Instr.ahik d s i).boundLabel = none := rfl

@[simp] theorem boundLabel_cgr (a : Register) (b : Register) :
    (Instr.cgr a b).boundLabel = none := rfl

@[simp] theorem boundLabel_cr_z (a : Register) (b : Register) :
    (Instr.cr_z a b).boundLabel = none := rfl

@[simp] theorem boundLabel_cghi (r : Register) (i : Int) :
    (Instr.cghi r i).boundLabel = none := rfl

@[simp] theorem boundLabel_chi (r : Register) (i : Int) :
    (Instr.chi r i).boundLabel = none := rfl

@[simp] theorem boundLabel_cgfi (r : Register) (i : Int) :
    (Instr.cgfi r i).boundLabel = none := rfl

@[simp] theorem boundLabel_cfi (r : Register) (i : Int) :
    (Instr.cfi r i).boundLabel = none := rfl

@[simp] theorem boundLabel_cg (r : Register) (m : MemOperand) :
    (Instr.cg r m).boundLabel = none := rfl

@[simp] theorem boundLabel_c (r : Register) (m : MemOperand) :
    (Instr.c r m).boundLabel = none := rfl

@[simp] theorem boundLabel_cy (r : Register) (m : MemOperand) :
    (Instr.cy r m).boundLabel = none := rfl

@[simp] theorem boundLabel_clgr (a : Register) (b : Register) :
    (Instr.clgr a b).boundLabel = none := rfl

@[simp] theorem boundLabel_clr (a : Register) (b : Register) :
    (Instr.clr a b).boundLabel = none := rfl

@[simp] theorem boundLabel_ngr (d : Register) (s : Register) :
    (Instr.ngr d s).boundLabel = none := rfl

@[simp] theorem boundLabel_nr (d : Register) (s : Register) :
    (Instr.nr d s).boundLabel = none := rfl

@[simp] theorem boundLabel_ngrk (d : Register) (s1 : Register) (s2 : Register) :
    (Instr.ngrk d s1 s2).boundLabel = none := rfl

@[simp] theorem boundLabel_nrk (d : Register) (s1 : Register) (s2 : Register) :
    (Instr.nrk d s1 s2).boundLabel = none := rfl

@[simp] theorem boundLabel_nill (r : Register) (i : Int) :
    (Instr.nill r i).boundLabel = none := rfl

@[simp] theorem boundLabel_nilf (r : Register) (i : Int) :
    (Instr.nilf r i).boundLabel = none := rfl

@[simp] theorem boundLabel_nihf (r : Register) (i : Int) :
    (Instr.nihf r i).boundLabel = none := rfl

@[simp] theorem boundLabel_sllg (d : Register) (s : Register) (n : Int) :
    (Instr.sllg d s n).boundLabel = none := rfl

@[simp] theorem boundLabel_sll (d : Register) (n : Int) :
    (Instr.sll d n).boundLabel = none := rfl

@[simp] theorem boundLabel_sllk (d : Register) (s : Register) (n : Int) :
    (Instr.sllk d s n).boundLabel = none := rfl

@[simp] theorem boundLabel_risbg (d : Register) (s : Register) (i3 : Int) (i4 : Int) (i5 : Int) (zero_remaining : Bool) :
    (Instr.risbg d s i3 i4 i5 zero_remaining).boundLabel = none := rfl

@[simp] theorem boundLabel_tmll (r : Register) (i : Int) :
    (Instr.tmll r i).boundLabel = none := rfl

@[simp] theorem boundLabel_tm (m : MemOperand) (i : Int) :
    (Instr.tm m i).boundLabel = none := rfl

@[simp] theorem boundLabel_la (r : Register) (m : MemOperand) :
    (Instr.la r m).boundLabel = none := rfl

@[simp] theorem boundLabel_lay (r : Register) (m : MemOperand) :
    (Instr.lay r m).boundLabel = none := rfl

@[simp] theorem boundLabel_mvc (d : MemOperand) (s : MemOperand) (length : Nat) :
    (Instr.mvc d s length).boundLabel = none := rfl

@[simp] theorem boundLabel_brc (mask : Condition) (target : Label) :
    (Instr.brc mask target).boundLabel = none := rfl

@[simp] theorem boundLabel_bcr (mask : Condition) (r : Register) :
    (Instr.bcr mask r).boundLabel = none := rfl

@[simp] theorem boundLabel_basr (r1 : Register) (r2 : Register) :
    (Instr.basr r1 r2).boundLabel = none := rfl

@[simp] theorem boundLabel_bind (l : Label) :
    (Instr.bind l).boundLabel = some l := rfl

@[simp] theorem boundLabel_abort : Instr.abort.boundLabel = none := rfl


/-! ## Emission lemmas -/

@[simp] theorem Emit.run_bind_eq {α β : Type} (x : Emit α) (f : α → Emit β) (s : Asm) :
    (x >>= f).run s = (f (x.run s).1).run (x.run s).2 := rfl

@[simp] theorem Emit.run_pure {α : Type} (a : α) (s : Asm) :
    (Pure.pure a : Emit α).run s = (a, s) := rfl

@[simp] theorem run_emit (i : Instr) (s : Asm) :
    (emit i).run s = ((), { s with code := s.code ++ [i], failed := s.failed || !i.encodable }) := id rfl

@[simp] theorem run_ASSERT (c : Bool) (s : Asm) :
    (ASSERT c).run s = ((), { s with failed := s.failed || !c }) := id rfl

@[simp] theorem run_newLabel (s : Asm) :
    newLabel.run s = (s.labels, { s with labels := s.labels + 1 }) := id rfl

@[simp] theorem run_has_frame (s : Asm) : has_frame.run s = (s.has_frame, s) := id rfl

/-! ## Machine lemmas -/

@[simp] theorem setReg_regs (m : Machine) (r x : Register) (v : Nat) :
    (m.setReg r v).regs x = if x = r then v else m.regs x := rfl
@[simp] theorem setReg_cc (m : Machine) (r : Register) (v : Nat) : (m.setReg r v).cc = m.cc := rfl
@[simp] theorem setReg_mem (m : Machine) (r : Register) (v : Nat) : (m.setReg r v).mem = m.mem := rfl
@[simp] theorem setCC_regs (m : Machine) (c : Nat) : (m.setCC c).regs = m.regs := rfl
@[simp] theorem setCC_cc (m : Machine) (c : Nat) : (m.setCC c).cc = c := rfl
@[simp] theorem setCC_mem (m : Machine) (c : Nat) : (m.setCC c).mem = m.mem := rfl
@[simp] theorem store_regs (cfg : Config) (m : Machine) (a n v : Nat) :
    (m.store cfg a n v).regs = m.regs := rfl
@[simp] theorem store_cc (cfg : Config) (m : Machine) (a n v : Nat) :
    (m.store cfg a n v).cc = m.cc := rfl
@[simp] theorem store_mem (cfg : Config) (m : Machine) (a n v : Nat) :
    (m.store cfg a n v).mem = writeBytes cfg m.mem a n v := rfl
@[simp] theorem add64_regs (m : Machine) (d x : Register) (a b : Nat) :
    (add64 m d a b).regs x = if x = d then (a % M64 + b % M64) % M64 else m.regs x := rfl
@[simp] theorem add64_cc (m : Machine) (d : Register) (a b : Nat) :
    (add64 m d a b).cc = addCC M64 a b := rfl
@[simp] theorem add64_mem (m : Machine) (d : Register) (a b : Nat) :
    (add64 m d a b).mem = m.mem := rfl
@[simp] theorem add32_regs (m : Machine) (d x : Register) (a b : Nat) :
    (add32 m d a b).regs x = if x = d then setLo32 (m.regs d) (a % M32 + b % M32) else m.regs x := rfl
@[simp] theorem add32_cc (m : Machine) (d : Register) (a b : Nat) :
    (add32 m d a b).cc = addCC M32 a b := rfl
@[simp] theorem add32_mem (m : Machine) (d : Register) (a b : Nat) :
    (add32 m d a b).mem = m.mem := rfl

theorem condHolds_CC_OF_addCC (n a b : Nat) :
    condHolds CC_OF (addCC n a b) = true ↔
      (signedOf n a + signedOf n b < -((n / 2 : Nat) : Int) ∨
        ((n / 2 : Nat) : Int) ≤ signedOf n a + signedOf n b) := by
  unfold addCC
  simp only
  split_ifs with h1 h2 h3 <;> simp only [condHolds, CC_OF] <;> simp <;> omega

theorem condHolds_gt_cmpLogicalCC (a b : Nat) :
    condHolds gt (cmpLogicalCC a b) = true ↔ b < a := by
  unfold cmpLogicalCC
  split_ifs with h1 h2 <;> simp [condHolds, gt] <;> omega

theorem mov_value (x : Int) (v : Nat) :
    setLo32 (setHi32 v (unsignedOf M32 (toInt32 (toInt64 x / 4294967296))))
      (unsignedOf M32 (toInt32 (toInt64 x))) = unsignedOf M64 x := by
  simp only [setLo32, setHi32, unsignedOf, toInt32, toInt64, M32, M64, lo32, hi32]
  omega


/-! ## Memory lemmas -/

theorem addrMod_pos (cfg : Config) : 0 < addrMod cfg := by
  unfold addrMod M64; split <;> decide

theorem readBytes_lt (cfg : Config) (mem : Nat → Nat) (a n : Nat) :
    readBytes cfg mem a n < 256 ^ n := by
  induction n with
  | zero => simp [readBytes]
  | succ n ih =>
    have h : mem ((a + n) % addrMod cfg) % 256 < 256 := Nat.mod_lt _ (by decide)
    simp only [readBytes, pow_succ]
    omega

theorem writeBytes_of_ne (cfg : Config) (mem : Nat → Nat) (a x : Nat) :
    ∀ (n v : Nat), (∀ i, i < n → x ≠ (a + i) % addrMod cfg) →
      writeBytes cfg mem a n v x = mem x := by
  intro n
  induction n with
  | zero => intro v _; rfl
  | succ n ih =>
    intro v h
    have h1 : x ≠ (a + n) % addrMod cfg := h n (Nat.lt_succ_self n)
    simp only [writeBytes, if_neg h1]
    exact ih _ (fun i hi => h i (Nat.lt_succ_of_lt hi))

theorem add_mod_ne_of_lt (N a i j : Nat) (hij : i < j) (hj : j < N) :
    (a + i) % N ≠ (a + j) % N := by
  intro h
  have h1 : (a + j - (a + i)) % N = 0 := Nat.sub_mod_eq_zero_of_mod_eq h.symm
  have h2 : a + j - (a + i) = j - i := by omega
  rw [h2, Nat.mod_eq_of_lt (by omega)] at h1
  omega

theorem writeBytes_at (cfg : Config) (mem : Nat → Nat) (a : Nat) :
    ∀ (n v i : Nat), n ≤ addrMod cfg → i < n →
      writeBytes cfg mem a n v ((a + i) % addrMod cfg) = v / 256 ^ (n - 1 - i) % 256 := by
  intro n
  induction n with
  | zero => intro v i _ hi; omega
  | succ n ih =>
    intro v i hn hi
    by_cases hin : i = n
    · subst hin
      simp [writeBytes]
    · have hlt : i < n := by omega
      have hne : (a + i) % addrMod cfg ≠ (a + n) % addrMod cfg :=
        add_mod_ne_of_lt _ a i n hlt (by omega)
      simp only [writeBytes, if_neg hne]
      rw [ih (v / 256) i (by omega) hlt, Nat.div_div_eq_div_mul]
      have : 256 * 256 ^ (n - 1 - i) = 256 ^ (n + 1 - 1 - i) := by
        rw [← pow_succ']; congr 1; omega
      rw [this]

theorem readBytes_congr (cfg : Config) (mem1 mem2 : Nat → Nat) (a : Nat) :
    ∀ n : Nat, (∀ i, i < n →
        mem1 ((a + i) % addrMod cfg) % 256 = mem2 ((a + i) % addrMod cfg) % 256) →
      readBytes cfg mem1 a n = readBytes cfg mem2 a n := by
  intro n
  induction n with
  | zero => intro _; rfl
  | succ n ih =>
    intro h
    simp only [readBytes]
    rw [ih (fun i hi => h i (Nat.lt_succ_of_lt hi)), h n (Nat.lt_succ_self n)]

theorem readBytes_eq_of_bytes (cfg : Config) (mem : Nat → Nat) (a n v : Nat)
    (h : ∀ i, i < n → mem ((a + i) % addrMod cfg) % 256 = v / 256 ^ (n - 1 - i) % 256) :
    ∀ k, k ≤ n → readBytes cfg mem a k = v / 256 ^ (n - k) % 256 ^ k := by
  intro k
  induction k with
  | zero => intro _; simp [readBytes, Nat.mod_one]
  | succ k ih =>
    intro hk
    simp only [readBytes]
    rw [ih (by omega), h k (by omega)]
    have e1 : n - k = (n - 1 - k) + 1 := by omega
    have e2 : n - (k + 1) = n - 1 - k := by omega
    rw [e1, e2, pow_succ, ← Nat.div_div_eq_div_mul]
    generalize v / 256 ^ (n - 1 - k) = w
    rw [pow_succ', Nat.mod_mul]
    omega

theorem readBytes_writeBytes_same (cfg : Config) (mem : Nat → Nat) (a n v : Nat)
    (hn : n ≤ addrMod cfg) :
    readBytes cfg (writeBytes cfg mem a n v) a n = v % 256 ^ n := by
  have h := readBytes_eq_of_bytes cfg (writeBytes cfg mem a n v) a n v
    (fun i hi => by rw [writeBytes_at cfg mem a n v i hn hi, Nat.mod_mod]) n (Nat.le_refl n)
  simpa using h

theorem readBytes_writeBytes_disjoint (cfg : Config) (mem : Nat → Nat) (a b n k v : Nat)
    (h : ∀ i, i < k → ∀ j, j < n → (b + i) % addrMod cfg ≠ (a + j) % addrMod cfg) :
    readBytes cfg (writeBytes cfg mem a n v) b k = readBytes cfg mem b k := by
  apply readBytes_congr
  intro i hi
  rw [writeBytes_of_ne cfg mem a _ n v (fun j hj => h i hi j hj)]


theorem effAddr_base (cfg : Config) (m : Machine) (rb : Register) (off : Int) (h : rb ≠ r0) :
    effAddr cfg m ⟨rb, r0, off⟩ = unsignedOf (addrMod cfg) ((m.regs rb : Int) + off) := by
  simp [effAddr, Machine.base, h]

theorem signedOf_mod (n v : Nat) : signedOf n (v % n) = signedOf n v := by
  simp only [signedOf, Nat.mod_mod]

theorem signedOf_congr (n v w : Nat) (h : v % n = w % n) : signedOf n v = signedOf n w := by
  simp only [signedOf, h]

theorem unsignedOf_M64_toInt16_one : unsignedOf M64 (toInt16 1) = 1 := by decide

theorem unsignedOf_M32_toInt16_one : unsignedOf M32 (toInt16 1) = 1 := by decide

theorem writeBytes_congr (cfg : Config) (mem : Nat → Nat) (a n v w : Nat) (h : v = w) :
    writeBytes cfg mem a n v = writeBytes cfg mem a n w := by rw [h]

theorem writeBytes_congr_mod (cfg : Config) (mem : Nat → Nat) (a : Nat) :
    ∀ (n v w : Nat), v % 256 ^ n = w % 256 ^ n →
      writeBytes cfg mem a n v = writeBytes cfg mem a n w := by
  intro n
  induction n with
  | zero => intro v w _; rfl
  | succ n ih =>
    intro v w h
    rw [pow_succ', Nat.mod_mul, Nat.mod_mul] at h
    have hb : v % 256 < 256 := Nat.mod_lt _ (by decide)
    have hb' : w % 256 < 256 := Nat.mod_lt _ (by decide)
    have h1 : v % 256 = w % 256 := by
      have := congrArg (· % 256) h
      simp only [Nat.add_mul_mod_self_left, Nat.mod_mod] at this
      exact this
    have h2 : v / 256 % 256 ^ n = w / 256 % 256 ^ n := by
      rw [h1] at h
      have := Nat.add_left_cancel h
      exact Nat.eq_of_mul_eq_mul_left (by decide) this
    funext x
    simp only [writeBytes, h1, ih _ _ h2]

theorem alloc_tail64 (cfg : Config) (env : Env) (code : List Instr) (fuel : Nat)
    (m : Machine) (tr : List Event) (result scratch1 scratch2 : Register) (gc : Label)
    (tag : Bool) (T S L A : Nat)
    (h64 : cfg.is64 = true) (hgc : suffixAt gc code = none) (hs1 : scratch1 ≠ r0)
    (hA : unsignedOf M64 (m.regs scratch1) = A)
    (hsum : m.regs scratch2 % M64 = (T + S) % M64)
    (hcc : condHolds CC_OF m.cc = true ↔ signedAddOverflows cfg T S)
    (hip : m.regs ip % M64 = L)
    (hres : m.regs result % M64 = T % M64) :
    ∃ f, run cfg env code (fuel + 6)
        (Instr.brc CC_OF gc :: Instr.clgr scratch2 ip :: Instr.brc gt gc ::
          Instr.stg scratch2 ⟨scratch1, r0, 0⟩ ::
          (if tag = true then [Instr.aghi result 1] else [])) m tr = some f ∧
      f.trace = tr ∧
      ((signedAddOverflows cfg T S ∨ L < (T + S) % ptrMod cfg) →
        f.outcome = .label gc ∧ f.machine.mem = m.mem) ∧
      (¬ (signedAddOverflows cfg T S ∨ L < (T + S) % ptrMod cfg) →
        f.outcome = .fallthrough ∧
        f.machine.mem = writeBytes cfg m.mem A (kPointerSize cfg) ((T + S) % ptrMod cfg) ∧
        f.machine.regP cfg result = (T + (if tag = true then 1 else 0)) % ptrMod cfg) := by
  simp only [ptrMod, kPointerSize, h64, if_true, Machine.regP]
  simp only [run_brc, run_clgr, hgc, setCC_cc, setCC_regs, condHolds_gt_cmpLogicalCC, hip, hsum]
  by_cases hov : signedAddOverflows cfg T S
  · rw [if_pos (hcc.mpr hov)]
    exact ⟨_, rfl, rfl, fun _ => ⟨rfl, rfl⟩, fun h => absurd (Or.inl hov) h⟩
  · rw [if_neg (fun h => hov (hcc.mp h))]
    by_cases hgt : L < (T + S) % M64
    · rw [if_pos hgt]
      exact ⟨_, rfl, rfl, fun _ => ⟨rfl, rfl⟩, fun h => absurd (Or.inr hgt) h⟩
    · rw [if_neg hgt]
      cases tag
      · simp only [Bool.false_eq_true, if_false, run_stg, run_nil, effAddr_base _ _ _ _ hs1,
          setCC_regs, addrMod, h64, if_true, Int.add_zero]
        refine ⟨_, rfl, rfl, fun h => absurd h (by tauto), fun _ => ⟨rfl, ?_, ?_⟩⟩
        · simp only [store_mem, setCC_mem]
          rw [hA]
          exact writeBytes_congr_mod cfg _ _ 8 _ _ (by simp only [M64] at hsum ⊢; omega)
        · simp only [store_regs, setCC_regs, hres, Nat.add_zero]
      · simp only [if_true, run_stg, run_aghi, run_nil, effAddr_base _ _ _ _ hs1,
          setCC_regs, addrMod, h64, Int.add_zero, store_regs]
        refine ⟨_, rfl, rfl, fun h => absurd h (by tauto), fun _ => ⟨rfl, ?_, ?_⟩⟩
        · simp only [add64_mem, store_mem, setCC_mem]
          rw [hA]
          exact writeBytes_congr_mod cfg _ _ 8 _ _ (by simp only [M64] at hsum ⊢; omega)
        · simp only [add64_regs, if_true, unsignedOf_M64_toInt16_one]
          simp only [M64] at hres ⊢
          omega


theorem setLo32_mod (v x : Nat) : setLo32 v x % M32 = x % M32 := by
  simp only [setLo32, M32, hi32]; omega

theorem alloc_tail31 (cfg : Config) (env : Env) (code : List Instr) (fuel : Nat)
    (m : Machine) (tr : List Event) (result scratch1 scratch2 : Register) (gc : Label)
    (tag : Bool) (T S L A : Nat)
    (h64 : cfg.is64 = false) (hgc : suffixAt gc code = none) (hs1 : scratch1 ≠ r0)
    (hA : unsignedOf 2147483648 (m.regs scratch1) = A)
    (hsum : m.regs scratch2 % M32 = (T + S) % M32)
    (hcc : condHolds CC_OF m.cc = true ↔ signedAddOverflows cfg T S)
    (hip : m.regs ip % M32 = L)
    (hres : m.regs result % M32 = T % M32) :
    ∃ f, run cfg env code (fuel + 6)
        (Instr.brc CC_OF gc :: Instr.clr scratch2 ip :: Instr.brc gt gc ::
          Instr.st scratch2 ⟨scratch1, r0, 0⟩ ::
          (if tag = true then [Instr.ahi result 1] else [])) m tr = some f ∧
      f.trace = tr ∧
      ((signedAddOverflows cfg T S ∨ L < (T + S) % ptrMod cfg) →
        f.outcome = .label gc ∧ f.machine.mem = m.mem) ∧
      (¬ (signedAddOverflows cfg T S ∨ L < (T + S) % ptrMod cfg) →
        f.outcome = .fallthrough ∧
        f.machine.mem = writeBytes cfg m.mem A (kPointerSize cfg) ((T + S) % ptrMod cfg) ∧
        f.machine.regP cfg result = (T + (if tag = true then 1 else 0)) % ptrMod cfg) := by
  simp only [ptrMod, kPointerSize, h64, Bool.false_eq_true, if_false, Machine.regP]
  simp only [run_brc, run_clr, hgc, setCC_cc, setCC_regs, condHolds_gt_cmpLogicalCC, lo32, hip, hsum]
  by_cases hov : signedAddOverflows cfg T S
  · rw [if_pos (hcc.mpr hov)]
    exact ⟨_, rfl, rfl, fun _ => ⟨rfl, rfl⟩, fun h => absurd (Or.inl hov) h⟩
  · rw [if_neg (fun h => hov (hcc.mp h))]
    by_cases hgt : L < (T + S) % M32
    · rw [if_pos hgt]
      exact ⟨_, rfl, rfl, fun _ => ⟨rfl, rfl⟩, fun h => absurd (Or.inr hgt) h⟩
    · rw [if_neg hgt]
      cases tag
      · simp only [Bool.false_eq_true, if_false, run_st, run_nil, effAddr_base _ _ _ _ hs1,
          setCC_regs, addrMod, h64, Int.add_zero]
        refine ⟨_, rfl, rfl, fun h => absurd h (by tauto), fun _ => ⟨rfl, ?_, ?_⟩⟩
        · simp only [store_mem, setCC_mem]
          rw [hA]
          exact writeBytes_congr_mod cfg _ _ 4 _ _ (by simp only [M32] at hsum ⊢; omega)
        · simp only [store_regs, setCC_regs, hres, Nat.add_zero]
      · simp only [if_true, run_st, run_ahi, run_nil, effAddr_base _ _ _ _ hs1,
          setCC_regs, addrMod, h64, Bool.false_eq_true, if_false, Int.add_zero, store_regs]
        refine ⟨_, rfl, rfl, fun h => absurd h (by tauto), fun _ => ⟨rfl, ?_, ?_⟩⟩
        · simp only [add32_mem, store_mem, setCC_mem]
          rw [hA]
          exact writeBytes_congr_mod cfg _ _ 4 _ _ (by simp only [M32] at hsum ⊢; omega)
        · simp only [add32_regs, if_true, unsignedOf_M32_toInt16_one, setLo32_mod, store_regs,
            setCC_regs]
          simp only [M32] at hres ⊢
          omega


theorem Emit.run_ite {α : Type} (c : Prop) [Decidable c] (a b : Emit α) (s : Asm) :
    (if c then a else b).run s = if c then a.run s else b.run s := by
  split <;> rfl

theorem unsignedOf_M64_add (x k : Int) :
    unsignedOf M64 ((unsignedOf M64 x : Nat) + k) = unsignedOf M64 (x + k) := by
  simp only [unsignedOf, M64]; omega

theorem unsignedOf_M64_idem (x : Int) :
    unsignedOf M64 (unsignedOf M64 x : Nat) = unsignedOf M64 x := by
  simp only [unsignedOf, M64]; omega

theorem toInt16_of_is_int16 (x : Int) (h : is_int16 x = true) : toInt16 x = x := by
  simp only [is_int16, decide_eq_true_eq] at h
  simp only [toInt16]; omega

theorem unsignedOf_lt (n : Nat) (x : Int) (h : 0 < n) : unsignedOf n x < n := by
  unfold unsignedOf
  have h1 : 0 ≤ x % (n : Int) := Int.emod_nonneg _ (by omega)
  have h2 : x % (n : Int) < n := Int.emod_lt_of_pos _ (by omega)
  omega

theorem is_int16_one : is_int16 1 = true := by decide

theorem AllocateInNewSpace_spec_imm64 (cfg : Config) (iso : Isolate) (env : Env) (m : Machine)
    (size : Int) (result scratch1 scratch2 : Register) (gc : Label) (flags : AllocationFlags)
    (code : List Instr)
    (h64 : cfg.is64 = true)
    (hinl : cfg.FLAG_inline_new = true) (hdbg : cfg.emit_debug_code = false)
    (hregs : AllocRegs result scratch1 scratch2) (hs1 : scratch1 ≠ r0)
    (hlim : iso.new_space_allocation_limit = iso.new_space_allocation_top + (kPointerSize cfg : Int))
    (hcode : codeOf (AllocateInNewSpace cfg iso (.imm size) result scratch1 scratch2 gc flags) false
      = some code) :
    ∃ f, exec cfg env code 16 m = some f ∧ f.trace = [] ∧
      ((signedAddOverflows cfg (startTop cfg iso flags result m) (requestedBytes cfg flags m (.imm size)) ∨
          allocationLimit cfg iso m <
            (startTop cfg iso flags result m + requestedBytes cfg flags m (.imm size)) % ptrMod cfg) →
        f.outcome = .label gc ∧ f.machine.mem = m.mem) ∧
      (¬ (signedAddOverflows cfg (startTop cfg iso flags result m) (requestedBytes cfg flags m (.imm size)) ∨
          allocationLimit cfg iso m <
            (startTop cfg iso flags result m + requestedBytes cfg flags m (.imm size)) % ptrMod cfg) →
        f.outcome = .fallthrough ∧
        f.machine.mem = writeBytes cfg m.mem (unsignedOf (addrMod cfg) iso.new_space_allocation_top)
          (kPointerSize cfg)
          ((startTop cfg iso flags result m + requestedBytes cfg flags m (.imm size)) % ptrMod cfg) ∧
        f.machine.regP cfg result =
          (startTop cfg iso flags result m + (if flags.TAG_OBJECT = true then 1 else 0)) % ptrMod cfg) := by
  obtain ⟨h1, h2, h3, h4, h5, h6⟩ := hregs
  obtain ⟨tag, rct, siw⟩ := flags
  simp only [kPointerSize, h64, if_true] at hlim
  cases rct <;> cases tag
  all_goals simp [codeOf, AllocateInNewSpace, AllocateInNewSpace_int, mov, LoadImmP, LoadP, b, bgt, StoreP, AddP_Register, AddRR, CmpLogicalP_Register, AddP_Operand,  MemOperand.mk1, MemOperand.mk2, Operand.ofInt, Operand.immediate, kHeapObjectTag, LoadIntLiteral, Load_Operand, kPointerSize, h64, hinl, hdbg, is_int20, hlim, Instr.encodable, MemOperand.fits20, h1, h2, h3, h4, h5, is_int16_one] at hcode
  all_goals obtain ⟨hok, rfl⟩ := hcode
  all_goals have hsz : toInt16 (if siw = true then size * 8 else size) =
      (if siw = true then size * 8 else size) :=
    toInt16_of_is_int16 _ (by simp only [and_assoc] at hok; tauto)
  all_goals simp only [exec, run_iihf, run_iilf, run_lghi, run_lg]
  all_goals rw [run_agr]
  all_goals first
    | refine alloc_tail64 cfg env _ _ _ [] result scratch1 scratch2 gc false _ _ _ _ h64 (by simp [suffixAt_cons, suffixAt_nil]) hs1 ?_ ?_ ?_ ?_ ?_
    | refine alloc_tail64 cfg env _ _ _ [] result scratch1 scratch2 gc true _ _ _ _ h64 (by simp [suffixAt_cons, suffixAt_nil]) hs1 ?_ ?_ ?_ ?_ ?_
  all_goals simp only [setReg_regs, setReg_mem, add64_regs, add64_cc, add64_mem, if_true, if_neg h1, if_neg h2, if_neg h3, if_neg h4, if_neg h5, if_neg h6, if_neg (Ne.symm h1), if_neg (Ne.symm h2), if_neg (Ne.symm h3), if_neg (Ne.symm h4), if_neg (Ne.symm h5), if_neg (Ne.symm h6), mov_value, effAddr_base _ _ _ _ hs1, addrMod, h64, unsignedOf_M64_add, unsignedOf_M64_idem, Int.add_zero, hsz, hlim, startTop, requestedBytes, allocationLimit, allocationTop, loadPtr, kPointerSize, ptrMod, Machine.regP, Bool.false_eq_true, if_false, condHolds_CC_OF_addCC, signedAddOverflows]
  all_goals try simp only [signedOf_mod, Nat.cast_ofNat]
  all_goals first
    | rfl
    | (have hb := readBytes_lt cfg m.mem (unsignedOf M64 (iso.new_space_allocation_top + 8)) 8
       simp only [M64] at *; omega)

theorem unsignedOf_addr31_add (v : Nat) (x k : Int) :
    unsignedOf 2147483648 ((setLo32 v (unsignedOf M32 (toInt32 x)) : Nat) + k) =
      unsignedOf 2147483648 (x + k) := by
  simp only [setLo32, unsignedOf, toInt32, M32, hi32]; omega

theorem unsignedOf_addr31 (v : Nat) (x : Int) :
    unsignedOf 2147483648 (setLo32 v (unsignedOf M32 (toInt32 x)) : Nat) =
      unsignedOf 2147483648 x := by
  simp only [setLo32, unsignedOf, toInt32, M32, hi32]; omega

theorem signedOf_setLo32 (v x : Nat) : signedOf M32 (setLo32 v x) = signedOf M32 x :=
  signedOf_congr _ _ _ (setLo32_mod v x)

theorem AllocateInNewSpace_spec_imm31 (cfg : Config) (iso : Isolate) (env : Env) (m : Machine)
    (size : Int) (result scratch1 scratch2 : Register) (gc : Label) (flags : AllocationFlags)
    (code : List Instr)
    (h64 : cfg.is64 = false)
    (hinl : cfg.FLAG_inline_new = true) (hdbg : cfg.emit_debug_code = false)
    (hregs : AllocRegs result scratch1 scratch2) (hs1 : scratch1 ≠ r0)
    (hlim : iso.new_space_allocation_limit = iso.new_space_allocation_top + (kPointerSize cfg : Int))
    (hcode : codeOf (AllocateInNewSpace cfg iso (.imm size) result scratch1 scratch2 gc flags) false
      = some code) :
    ∃ f, exec cfg env code 16 m = some f ∧ f.trace = [] ∧
      ((signedAddOverflows cfg (startTop cfg iso flags result m) (requestedBytes cfg flags m (.imm size)) ∨
          allocationLimit cfg iso m <
            (startTop cfg iso flags result m + requestedBytes cfg flags m (.imm size)) % ptrMod cfg) →
        f.outcome = .label gc ∧ f.machine.mem = m.mem) ∧
      (¬ (signedAddOverflows cfg (startTop cfg iso flags result m) (requestedBytes cfg flags m (.imm size)) ∨
          allocationLimit cfg iso m <
            (startTop cfg iso flags result m + requestedBytes cfg flags m (.imm size)) % ptrMod cfg) →
        f.outcome = .fallthrough ∧
        f.machine.mem = writeBytes cfg m.mem (unsignedOf (addrMod cfg) iso.new_space_allocation_top)
          (kPointerSize cfg)
          ((startTop cfg iso flags result m + requestedBytes cfg flags m (.imm size)) % ptrMod cfg) ∧
        f.machine.regP cfg result =
          (startTop cfg iso flags result m + (if flags.TAG_OBJECT = true then 1 else 0)) % ptrMod cfg) := by
  obtain ⟨h1, h2, h3, h4, h5, h6⟩ := hregs
  obtain ⟨tag, rct, siw⟩ := flags
  simp only [kPointerSize, h64, Bool.false_eq_true, if_false] at hlim
  cases rct <;> cases tag
  all_goals simp [codeOf, AllocateInNewSpace, AllocateInNewSpace_int, mov, LoadImmP, LoadP, b, bgt, StoreP, AddP_Register, AddRR, CmpLogicalP_Register, AddP_Operand, StoreW, CmpLogical32_Register, Add32_Operand, is_uint12, MemOperand.fits12, MemOperand.mk1, MemOperand.mk2, Operand.ofInt, Operand.immediate, kHeapObjectTag, LoadIntLiteral, Load_Operand, kPointerSize, h64, hinl, hdbg, is_int20, hlim, Instr.encodable, MemOperand.fits20, h1, h2, h3, h4, h5, is_int16_one] at hcode
  all_goals obtain ⟨hok, rfl⟩ := hcode
  all_goals have hsz : toInt16 (if siw = true then size * 4 else size) =
      (if siw = true then size * 4 else size) :=
    toInt16_of_is_int16 _ (by simp only [and_assoc] at hok; tauto)
  all_goals simp only [exec, run_iilf, run_lhi, run_l]
  all_goals rw [run_ar]
  all_goals first
    | refine alloc_tail31 cfg env _ _ _ [] result scratch1 scratch2 gc false _ _ _ _ h64 (by simp [suffixAt_cons, suffixAt_nil]) hs1 ?_ ?_ ?_ ?_ ?_
    | refine alloc_tail31 cfg env _ _ _ [] result scratch1 scratch2 gc true _ _ _ _ h64 (by simp [suffixAt_cons, suffixAt_nil]) hs1 ?_ ?_ ?_ ?_ ?_
  all_goals simp only [setReg_regs, setReg_mem, add32_regs, add32_cc, add32_mem, if_true, if_neg h1, if_neg h2, if_neg h3, if_neg h4, if_neg h5, if_neg h6, if_neg (Ne.symm h1), if_neg (Ne.symm h2), if_neg (Ne.symm h3), if_neg (Ne.symm h4), if_neg (Ne.symm h5), if_neg (Ne.symm h6), mov_value, effAddr_base _ _ _ _ hs1, addrMod, h64, unsignedOf_addr31_add, unsignedOf_addr31, signedOf_setLo32, setLo32_mod, Nat.mod_mod, Int.add_zero, hsz, hlim, startTop, requestedBytes, allocationLimit, allocationTop, loadPtr, kPointerSize, ptrMod, Machine.regP, Bool.false_eq_true, if_false, condHolds_CC_OF_addCC, signedAddOverflows]
  all_goals try simp only [signedOf_mod, Nat.cast_ofNat]
  all_goals first
    | rfl
    | (have hb := readBytes_lt cfg m.mem (unsignedOf 2147483648 (iso.new_space_allocation_top + 4)) 4
       simp only [M32] at *; omega)

theorem two_pow_shift3 : 2 ^ unsignedOf 64 3 = 8 := by decide

theorem two_pow_shift2 : 2 ^ unsignedOf 64 2 = 4 := by decide

set_option maxHeartbeats 1000000 in
theorem AllocateInNewSpace_spec_reg64 (cfg : Config) (iso : Isolate) (env : Env) (m : Machine)
    (os : Register) (result scratch1 scratch2 : Register) (gc : Label) (flags : AllocationFlags)
    (code : List Instr)
    (h64 : cfg.is64 = true)
    (hinl : cfg.FLAG_inline_new = true) (hdbg : cfg.emit_debug_code = false)
    (hregs : AllocRegs result scratch1 scratch2) (hs1 : scratch1 ≠ r0)
    (hlim : iso.new_space_allocation_limit = iso.new_space_allocation_top + (kPointerSize cfg : Int))
    (hos1 : os ≠ scratch1) (hosr : os ≠ result) (hosip : os ≠ ip)
    (hcode : codeOf (AllocateInNewSpace cfg iso (.reg os) result scratch1 scratch2 gc flags) false
      = some code) :
    ∃ f, exec cfg env code 16 m = some f ∧ f.trace = [] ∧
      ((signedAddOverflows cfg (startTop cfg iso flags result m) (requestedBytes cfg flags m (.reg os)) ∨
          allocationLimit cfg iso m <
            (startTop cfg iso flags result m + requestedBytes cfg flags m (.reg os)) % ptrMod cfg) →
        f.outcome = .label gc ∧ f.machine.mem = m.mem) ∧
      (¬ (signedAddOverflows cfg (startTop cfg iso flags result m) (requestedBytes cfg flags m (.reg os)) ∨
          allocationLimit cfg iso m <
            (startTop cfg iso flags result m + requestedBytes cfg flags m (.reg os)) % ptrMod cfg) →
        f.outcome = .fallthrough ∧
        f.machine.mem = writeBytes cfg m.mem (unsignedOf (addrMod cfg) iso.new_space_allocation_top)
          (kPointerSize cfg)
          ((startTop cfg iso flags result m + requestedBytes cfg flags m (.reg os)) % ptrMod cfg) ∧
        f.machine.regP cfg result =
          (startTop cfg iso flags result m + (if flags.TAG_OBJECT = true then 1 else 0)) % ptrMod cfg) := by
  obtain ⟨h1, h2, h3, h4, h5, h6⟩ := hregs
  obtain ⟨tag, rct, siw⟩ := flags
  simp only [kPointerSize, h64, if_true] at hlim
  cases siw
  · by_cases heq : scratch2 = os
    · subst heq
      cases rct <;> cases tag
      all_goals simp [codeOf, AllocateInNewSpace, AllocateInNewSpace_Register, mov, LoadImmP, LoadP, b, bgt, StoreP, StoreW, AddP_Register, AddP_Register_Register, AddP_RRR, LoadRR, ShiftLeftP, ShiftLeft, AddRR, CmpLogicalP_Register, CmpLogical32_Register, AddP_Operand, Add32_Operand, MemOperand.mk1, MemOperand.mk2, Operand.ofInt, Operand.immediate, kHeapObjectTag, LoadIntLiteral, Load_Operand, kPointerSize, kPointerSizeLog2, h64, hinl, hdbg, is_int20, is_uint12, hlim, Instr.encodable, MemOperand.fits20, MemOperand.fits12, h1, h2, h3, h4, h5, h6, Ne.symm h1, Ne.symm h2, Ne.symm h3, hosip, is_int16_one] at hcode
      all_goals obtain ⟨hok, rfl⟩ := hcode
      all_goals simp only [exec, run_iihf, run_iilf, run_lg, run_sllg, run_lgr, run_agrk, run_agr]
      all_goals first
        | refine alloc_tail64 cfg env _ _ _ [] result scratch1 scratch2 gc false _ _ _ _ h64 (by simp [suffixAt_cons, suffixAt_nil]) hs1 ?_ ?_ ?_ ?_ ?_
        | refine alloc_tail64 cfg env _ _ _ [] result scratch1 scratch2 gc true _ _ _ _ h64 (by simp [suffixAt_cons, suffixAt_nil]) hs1 ?_ ?_ ?_ ?_ ?_
      all_goals simp only [setReg_regs, setReg_mem, add64_regs, add64_cc, add64_mem, if_true, if_neg h1, if_neg h2, if_neg h3, if_neg h4, if_neg h5, if_neg h6, if_neg (Ne.symm h1), if_neg (Ne.symm h2), if_neg (Ne.symm h3), if_neg (Ne.symm h4), if_neg (Ne.symm h5), if_neg (Ne.symm h6), if_neg hos1, if_neg hosr, if_neg hosip, if_neg (Ne.symm hos1), if_neg (Ne.symm hosr), if_neg (Ne.symm hosip), mov_value, effAddr_base _ _ _ _ hs1, addrMod, h64, unsignedOf_M64_add, unsignedOf_M64_idem, Int.add_zero, hlim, startTop, requestedBytes, allocationLimit, allocationTop, loadPtr, kPointerSize, ptrMod, Machine.regP, Bool.false_eq_true, if_false, condHolds_CC_OF_addCC, signedAddOverflows]
      all_goals try simp only [signedOf_mod, Nat.cast_ofNat, two_pow_shift3, two_pow_shift2]
      all_goals first
        | rfl
        | (have hb := readBytes_lt cfg m.mem (unsignedOf M64 (iso.new_space_allocation_top + 8)) 8
           simp only [M64] at *; omega)
    · cases hd : cfg.distinct_ops <;> cases rct <;> cases tag
      all_goals simp [codeOf, AllocateInNewSpace, AllocateInNewSpace_Register, mov, LoadImmP, LoadP, b, bgt, StoreP, StoreW, AddP_Register, AddP_Register_Register, AddP_RRR, LoadRR, ShiftLeftP, ShiftLeft, AddRR, CmpLogicalP_Register, CmpLogical32_Register, AddP_Operand, Add32_Operand, MemOperand.mk1, MemOperand.mk2, Operand.ofInt, Operand.immediate, kHeapObjectTag, LoadIntLiteral, Load_Operand, kPointerSize, kPointerSizeLog2, h64, hinl, hdbg, is_int20, is_uint12, hlim, Instr.encodable, MemOperand.fits20, MemOperand.fits12, h1, h2, h3, h4, h5, h6, Ne.symm h1, Ne.symm h2, Ne.symm h3, hosip, is_int16_one, heq, hd] at hcode
      all_goals obtain ⟨hok, rfl⟩ := hcode
      all_goals simp only [exec, run_iihf, run_iilf, run_lg, run_sllg, run_lgr, run_agrk, run_agr]
      all_goals first
        | refine alloc_tail64 cfg env _ _ _ [] result scratch1 scratch2 gc false _ _ _ _ h64 (by simp [suffixAt_cons, suffixAt_nil]) hs1 ?_ ?_ ?_ ?_ ?_
        | refine alloc_tail64 cfg env _ _ _ [] result scratch1 scratch2 gc true _ _ _ _ h64 (by simp [suffixAt_cons, suffixAt_nil]) hs1 ?_ ?_ ?_ ?_ ?_
      all_goals simp only [setReg_regs, setReg_mem, add64_regs, add64_cc, add64_mem, if_true, if_neg h1, if_neg h2, if_neg h3, if_neg h4, if_neg h5, if_neg h6, if_neg (Ne.symm h1), if_neg (Ne.symm h2), if_neg (Ne.symm h3), if_neg (Ne.symm h4), if_neg (Ne.symm h5), if_neg (Ne.symm h6), if_neg hos1, if_neg hosr, if_neg hosip, if_neg (Ne.symm hos1), if_neg (Ne.symm hosr), if_neg (Ne.symm hosip), if_neg heq, if_neg (Ne.symm heq), mov_value, effAddr_base _ _ _ _ hs1, addrMod, h64, unsignedOf_M64_add, unsignedOf_M64_idem, Int.add_zero, hlim, startTop, requestedBytes, allocationLimit, allocationTop, loadPtr, kPointerSize, ptrMod, Machine.regP, Bool.false_eq_true, if_false, condHolds_CC_OF_addCC, signedAddOverflows]
      all_goals try simp only [signedOf_mod, Nat.cast_ofNat, two_pow_shift3, two_pow_shift2]
      all_goals first
        | rfl
        | (have hb := readBytes_lt cfg m.mem (unsignedOf M64 (iso.new_space_allocation_top + 8)) 8
           simp only [M64] at *; omega)
  · cases rct <;> cases tag
    all_goals simp [codeOf, AllocateInNewSpace, AllocateInNewSpace_Register, mov, LoadImmP, LoadP, b, bgt, StoreP, StoreW, AddP_Register, AddP_Register_Register, AddP_RRR, LoadRR, ShiftLeftP, ShiftLeft, AddRR, CmpLogicalP_Register, CmpLogical32_Register, AddP_Operand, Add32_Operand, MemOperand.mk1, MemOperand.mk2, Operand.ofInt, Operand.immediate, kHeapObjectTag, LoadIntLiteral, Load_Operand, kPointerSize, kPointerSizeLog2, h64, hinl, hdbg, is_int20, is_uint12, hlim, Instr.encodable, MemOperand.fits20, MemOperand.fits12, h1, h2, h3, h4, h5, h6, Ne.symm h1, Ne.symm h2, Ne.symm h3, hosip, is_int16_one] at hcode
    all_goals obtain ⟨hok, rfl⟩ := hcode
    all_goals simp only [exec, run_iihf, run_iilf, run_lg, run_sllg, run_lgr, run_agrk, run_agr]
    all_goals first
      | refine alloc_tail64 cfg env _ _ _ [] result scratch1 scratch2 gc false _ _ _ _ h64 (by simp [suffixAt_cons, suffixAt_nil]) hs1 ?_ ?_ ?_ ?_ ?_
      | refine alloc_tail64 cfg env _ _ _ [] result scratch1 scratch2 gc true _ _ _ _ h64 (by simp [suffixAt_cons, suffixAt_nil]) hs1 ?_ ?_ ?_ ?_ ?_
    all_goals simp only [setReg_regs, setReg_mem, add64_regs, add64_cc, add64_mem, if_true, if_neg h1, if_neg h2, if_neg h3, if_neg h4, if_neg h5, if_neg h6, if_neg (Ne.symm h1), if_neg (Ne.symm h2), if_neg (Ne.symm h3), if_neg (Ne.symm h4), if_neg (Ne.symm h5), if_neg (Ne.symm h6), if_neg hos1, if_neg hosr, if_neg hosip, if_neg (Ne.symm hos1), if_neg (Ne.symm hosr), if_neg (Ne.symm hosip), mov_value, effAddr_base _ _ _ _ hs1, addrMod, h64, unsignedOf_M64_add, unsignedOf_M64_idem, Int.add_zero, hlim, startTop, requestedBytes, allocationLimit, allocationTop, loadPtr, kPointerSize, ptrMod, Machine.regP, Bool.false_eq_true, if_false, condHolds_CC_OF_addCC, signedAddOverflows]
    all_goals try simp only [signedOf_mod, Nat.cast_ofNat, two_pow_shift3, two_pow_shift2]
    all_goals first
      | rfl
      | (have hb := readBytes_lt cfg m.mem (unsignedOf M64 (iso.new_space_allocation_top + 8)) 8
         simp only [M64] at *; omega)

set_option maxHeartbeats 1000000 in
theorem AllocateInNewSpace_spec_reg31 (cfg : Config) (iso : Isolate) (env : Env) (m : Machine)
    (os : Register) (result scratch1 scratch2 : Register) (gc : Label) (flags : AllocationFlags)
    (code : List Instr)
    (h64 : cfg.is64 = false)
    (hinl : cfg.FLAG_inline_new = true) (hdbg : cfg.emit_debug_code = false)
    (hregs : AllocRegs result scratch1 scratch2) (hs1 : scratch1 ≠ r0)
    (hlim : iso.new_space_allocation_limit = iso.new_space_allocation_top + (kPointerSize cfg : Int))
    (hos1 : os ≠ scratch1) (hosr : os ≠ result) (hosip : os ≠ ip)
    (hcode : codeOf (AllocateInNewSpace cfg iso (.reg os) result scratch1 scratch2 gc flags) false
      = some code) :
    ∃ f, exec cfg env code 16 m = some f ∧ f.trace = [] ∧
      ((signedAddOverflows cfg (startTop cfg iso flags result m) (requestedBytes cfg flags m (.reg os)) ∨
          allocationLimit cfg iso m <
            (startTop cfg iso flags result m + requestedBytes cfg flags m (.reg os)) % ptrMod cfg) →
        f.outcome = .label gc ∧ f.machine.mem = m.mem) ∧
      (¬ (signedAddOverflows cfg (startTop cfg iso flags result m) (requestedBytes cfg flags m (.reg os)) ∨
          allocationLimit cfg iso m <
            (startTop cfg iso flags result m + requestedBytes cfg flags m (.reg os)) % ptrMod cfg) →
        f.outcome = .fallthrough ∧
        f.machine.mem = writeBytes cfg m.mem (unsignedOf (addrMod cfg) iso.new_space_allocation_top)
          (kPointerSize cfg)
          ((startTop cfg iso flags result m + requestedBytes cfg flags m (.reg os)) % ptrMod cfg) ∧
        f.machine.regP cfg result =
          (startTop cfg iso flags result m + (if flags.TAG_OBJECT = true then 1 else 0)) % ptrMod cfg) := by
  obtain ⟨h1, h2, h3, h4, h5, h6⟩ := hregs
  obtain ⟨tag, rct, siw⟩ := flags
  simp only [kPointerSize, h64, Bool.false_eq_true, if_false] at hlim
  cases siw
  · by_cases heq : scratch2 = os
    · subst heq
      cases rct <;> cases tag
      all_goals simp [codeOf, AllocateInNewSpace, AllocateInNewSpace_Register, mov, LoadImmP, LoadP, b, bgt, StoreP, StoreW, AddP_Register, AddP_Register_Register, AddP_RRR, LoadRR, ShiftLeftP, ShiftLeft, AddRR, CmpLogicalP_Register, CmpLogical32_Register, AddP_Operand, Add32_Operand, MemOperand.mk1, MemOperand.mk2, Operand.ofInt, Operand.immediate, kHeapObjectTag, LoadIntLiteral, Load_Operand, kPointerSize, kPointerSizeLog2, h64, hinl, hdbg, is_int20, is_uint12, hlim, Instr.encodable, MemOperand.fits20, MemOperand.fits12, h1, h2, h3, h4, h5, h6, Ne.symm h1, Ne.symm h2, Ne.symm h3, hosip, is_int16_one] at hcode
      all_goals obtain ⟨hok, rfl⟩ := hcode
      all_goals simp only [exec, run_iilf, run_l, run_sll, run_sllk, run_lr, run_ark, run_ar]
      all_goals first
        | refine alloc_tail31 cfg env _ _ _ [] result scratch1 scratch2 gc false _ _ _ _ h64 (by simp [suffixAt_cons, suffixAt_nil]) hs1 ?_ ?_ ?_ ?_ ?_
        | refine alloc_tail31 cfg env _ _ _ [] result scratch1 scratch2 gc true _ _ _ _ h64 (by simp [suffixAt_cons, suffixAt_nil]) hs1 ?_ ?_ ?_ ?_ ?_
      all_goals simp only [setReg_regs, setReg_mem, add32_regs, add32_cc, add32_mem, if_true, if_neg h1, if_neg h2, if_neg h3, if_neg h4, if_neg h5, if_neg h6, if_neg (Ne.symm h1), if_neg (Ne.symm h2), if_neg (Ne.symm h3), if_neg (Ne.symm h4), if_neg (Ne.symm h5), if_neg (Ne.symm h6), if_neg hos1, if_neg hosr, if_neg hosip, if_neg (Ne.symm hos1), if_neg (Ne.symm hosr), if_neg (Ne.symm hosip), mov_value, effAddr_base _ _ _ _ hs1, addrMod, h64, unsignedOf_addr31_add, unsignedOf_addr31, signedOf_setLo32, setLo32_mod, Nat.mod_mod, lo32, Int.add_zero, hlim, startTop, requestedBytes, allocationLimit, allocationTop, loadPtr, kPointerSize, ptrMod, Machine.regP, Bool.false_eq_true, if_false, condHolds_CC_OF_addCC, signedAddOverflows]
      all_goals try simp only [signedOf_mod, Nat.cast_ofNat, two_pow_shift3, two_pow_shift2]
      all_goals first
        | rfl
        | (have hb := readBytes_lt cfg m.mem (unsignedOf 2147483648 (iso.new_space_allocation_top + 4)) 4
           simp only [M32] at *; omega)
    · cases hd : cfg.distinct_ops <;> cases rct <;> cases tag
      all_goals simp [codeOf, AllocateInNewSpace, AllocateInNewSpace_Register, mov, LoadImmP, LoadP, b, bgt, StoreP, StoreW, AddP_Register, AddP_Register_Register, AddP_RRR, LoadRR, ShiftLeftP, ShiftLeft, AddRR, CmpLogicalP_Register, CmpLogical32_Register, AddP_Operand, Add32_Operand, MemOperand.mk1, MemOperand.mk2, Operand.ofInt, Operand.immediate, kHeapObjectTag, LoadIntLiteral, Load_Operand, kPointerSize, kPointerSizeLog2, h64, hinl, hdbg, is_int20, is_uint12, hlim, Instr.encodable, MemOperand.fits20, MemOperand.fits12, h1, h2, h3, h4, h5, h6, Ne.symm h1, Ne.symm h2, Ne.symm h3, hosip, is_int16_one, heq, hd] at hcode
      all_goals obtain ⟨hok, rfl⟩ := hcode
      all_goals simp only [exec, run_iilf, run_l, run_sll, run_sllk, run_lr, run_ark, run_ar]
      all_goals first
        | refine alloc_tail31 cfg env _ _ _ [] result scratch1 scratch2 gc false _ _ _ _ h64 (by simp [suffixAt_cons, suffixAt_nil]) hs1 ?_ ?_ ?_ ?_ ?_
        | refine alloc_tail31 cfg env _ _ _ [] result scratch1 scratch2 gc true _ _ _ _ h64 (by simp [suffixAt_cons, suffixAt_nil]) hs1 ?_ ?_ ?_ ?_ ?_
      all_goals simp only [setReg_regs, setReg_mem, add32_regs, add32_cc, add32_mem, if_true, if_neg h1, if_neg h2, if_neg h3, if_neg h4, if_neg h5, if_neg h6, if_neg (Ne.symm h1), if_neg (Ne.symm h2), if_neg (Ne.symm h3), if_neg (Ne.symm h4), if_neg (Ne.symm h5), if_neg (Ne.symm h6), if_neg hos1, if_neg hosr, if_neg hosip, if_neg (Ne.symm hos1), if_neg (Ne.symm hosr), if_neg (Ne.symm hosip), if_neg heq, if_neg (Ne.symm heq), mov_value, effAddr_base _ _ _ _ hs1, addrMod, h64, unsignedOf_addr31_add, unsignedOf_addr31, signedOf_setLo32, setLo32_mod, Nat.mod_mod, lo32, Int.add_zero, hlim, startTop, requestedBytes, allocationLimit, allocationTop, loadPtr, kPointerSize, ptrMod, Machine.regP, Bool.false_eq_true, if_false, condHolds_CC_OF_addCC, signedAddOverflows]
      all_goals try simp only [signedOf_mod, Nat.cast_ofNat, two_pow_shift3, two_pow_shift2]
      all_goals first
        | rfl
        | (have hb := readBytes_lt cfg m.mem (unsignedOf 2147483648 (iso.new_space_allocation_top + 4)) 4
           simp only [M32] at *; omega)
  · by_cases heq : scratch2 = os
    · subst heq
      cases rct <;> cases tag
      all_goals simp [codeOf, AllocateInNewSpace, AllocateInNewSpace_Register, mov, LoadImmP, LoadP, b, bgt, StoreP, StoreW, AddP_Register, AddP_Register_Register, AddP_RRR, LoadRR, ShiftLeftP, ShiftLeft, AddRR, CmpLogicalP_Register, CmpLogical32_Register, AddP_Operand, Add32_Operand, MemOperand.mk1, MemOperand.mk2, Operand.ofInt, Operand.immediate, kHeapObjectTag, LoadIntLiteral, Load_Operand, kPointerSize, kPointerSizeLog2, h64, hinl, hdbg, is_int20, is_uint12, hlim, Instr.encodable, MemOperand.fits20, MemOperand.fits12, h1, h2, h3, h4, h5, h6, Ne.symm h1, Ne.symm h2, Ne.symm h3, hosip, is_int16_one] at hcode
      all_goals obtain ⟨hok, rfl⟩ := hcode
      all_goals simp only [exec, run_iilf, run_l, run_sll, run_sllk, run_lr, run_ark, run_ar]
      all_goals first
        | refine alloc_tail31 cfg env _ _ _ [] result scratch1 scratch2 gc false _ _ _ _ h64 (by simp [suffixAt_cons, suffixAt_nil]) hs1 ?_ ?_ ?_ ?_ ?_
        | refine alloc_tail31 cfg env _ _ _ [] result scratch1 scratch2 gc true _ _ _ _ h64 (by simp [suffixAt_cons, suffixAt_nil]) hs1 ?_ ?_ ?_ ?_ ?_
      all_goals simp only [setReg_regs, setReg_mem, add32_regs, add32_cc, add32_mem, if_true, if_neg h1, if_neg h2, if_neg h3, if_neg h4, if_neg h5, if_neg h6, if_neg (Ne.symm h1), if_neg (Ne.symm h2), if_neg (Ne.symm h3), if_neg (Ne.symm h4), if_neg (Ne.symm h5), if_neg (Ne.symm h6), if_neg hos1, if_neg hosr, if_neg hosip, if_neg (Ne.symm hos1), if_neg (Ne.symm hosr), if_neg (Ne.symm hosip), mov_value, effAddr_base _ _ _ _ hs1, addrMod, h64, unsignedOf_addr31_add, unsignedOf_addr31, signedOf_setLo32, setLo32_mod, Nat.mod_mod, lo32, Int.add_zero, hlim, startTop, requestedBytes, allocationLimit, allocationTop, loadPtr, kPointerSize, ptrMod, Machine.regP, Bool.false_eq_true, if_false, condHolds_CC_OF_addCC, signedAddOverflows]
      all_goals try simp only [signedOf_mod, Nat.cast_ofNat, two_pow_shift3, two_pow_shift2]
      all_goals first
        | rfl
        | (have hb := readBytes_lt cfg m.mem (unsignedOf 2147483648 (iso.new_space_allocation_top + 4)) 4
           simp only [M32] at *; omega)
    · cases hd : cfg.distinct_ops <;> cases rct <;> cases tag
      all_goals simp [codeOf, AllocateInNewSpace, AllocateInNewSpace_Register, mov, LoadImmP, LoadP, b, bgt, StoreP, StoreW, AddP_Register, AddP_Register_Register, AddP_RRR, LoadRR, ShiftLeftP, ShiftLeft, AddRR, CmpLogicalP_Register, CmpLogical32_Register, AddP_Operand, Add32_Operand, MemOperand.mk1, MemOperand.mk2, Operand.ofInt, Operand.immediate, kHeapObjectTag, LoadIntLiteral, Load_Operand, kPointerSize, kPointerSizeLog2, h64, hinl, hdbg, is_int20, is_uint12, hlim, Instr.encodable, MemOperand.fits20, MemOperand.fits12, h1, h2, h3, h4, h5, h6, Ne.symm h1, Ne.symm h2, Ne.symm h3, hosip, is_int16_one, heq, hd] at hcode
      all_goals obtain ⟨hok, rfl⟩ := hcode
      all_goals simp only [exec, run_iilf, run_l, run_sll, run_sllk, run_lr, run_ark, run_ar]
      all_goals first
        | refine alloc_tail31 cfg env _ _ _ [] result scratch1 scratch2 gc false _ _ _ _ h64 (by simp [suffixAt_cons, suffixAt_nil]) hs1 ?_ ?_ ?_ ?_ ?_
        | refine alloc_tail31 cfg env _ _ _ [] result scratch1 scratch2 gc true _ _ _ _ h64 (by simp [suffixAt_cons, suffixAt_nil]) hs1 ?_ ?_ ?_ ?_ ?_
      all_goals simp only [setReg_regs, setReg_mem, add32_regs, add32_cc, add32_mem, if_true, if_neg h1, if_neg h2, if_neg h3, if_neg h4, if_neg h5, if_neg h6, if_neg (Ne.symm h1), if_neg (Ne.symm h2), if_neg (Ne.symm h3), if_neg (Ne.symm h4), if_neg (Ne.symm h5), if_neg (Ne.symm h6), if_neg hos1, if_neg hosr, if_neg hosip, if_neg (Ne.symm hos1), if_neg (Ne.symm hosr), if_neg (Ne.symm hosip), if_neg heq, if_neg (Ne.symm heq), mov_value, effAddr_base _ _ _ _ hs1, addrMod, h64, unsignedOf_addr31_add, unsignedOf_addr31, signedOf_setLo32, setLo32_mod, Nat.mod_mod, lo32, Int.add_zero, hlim, startTop, requestedBytes, allocationLimit, allocationTop, loadPtr, kPointerSize, ptrMod, Machine.regP, Bool.false_eq_true, if_false, condHolds_CC_OF_addCC, signedAddOverflows]
      all_goals try simp only [signedOf_mod, Nat.cast_ofNat, two_pow_shift3, two_pow_shift2]
      all_goals first
        | rfl
        | (have hb := readBytes_lt cfg m.mem (unsignedOf 2147483648 (iso.new_space_allocation_top + 4)) 4
           simp only [M32] at *; omega)

/-- Behaviour of the code of `AllocateInNewSpace`, either overload and either
target, in a release build with inline allocation. -/
theorem AllocateInNewSpace_spec (cfg : Config) (iso : Isolate) (env : Env) (m : Machine)
    (size : SizeArg) (result scratch1 scratch2 : Register) (gc : Label) (flags : AllocationFlags)
    (code : List Instr)
    (hinl : cfg.FLAG_inline_new = true) (hdbg : cfg.emit_debug_code = false)
    (hregs : AllocRegs result scratch1 scratch2) (hs1 : scratch1 ≠ r0)
    (hlim : iso.new_space_allocation_limit = iso.new_space_allocation_top + (kPointerSize cfg : Int))
    (hsize : size.clearOf result scratch1)
    (hcode : codeOf (AllocateInNewSpace cfg iso size result scratch1 scratch2 gc flags) false
      = some code) :
    ∃ f, exec cfg env code 16 m = some f ∧ f.trace = [] ∧
      ((signedAddOverflows cfg (startTop cfg iso flags result m) (requestedBytes cfg flags m size) ∨
          allocationLimit cfg iso m <
            (startTop cfg iso flags result m + requestedBytes cfg flags m size) % ptrMod cfg) →
        f.outcome = .label gc ∧ f.machine.mem = m.mem) ∧
      (¬ (signedAddOverflows cfg (startTop cfg iso flags result m) (requestedBytes cfg flags m size) ∨
          allocationLimit cfg iso m <
            (startTop cfg iso flags result m + requestedBytes cfg flags m size) % ptrMod cfg) →
        f.outcome = .fallthrough ∧
        f.machine.mem = writeBytes cfg m.mem (unsignedOf (addrMod cfg) iso.new_space_allocation_top)
          (kPointerSize cfg)
          ((startTop cfg iso flags result m + requestedBytes cfg flags m size) % ptrMod cfg) ∧
        f.machine.regP cfg result =
          (startTop cfg iso flags result m + (if flags.TAG_OBJECT = true then 1 else 0)) % ptrMod cfg) := by
  cases size with
  | imm n =>
    cases h64 : cfg.is64
    · exact AllocateInNewSpace_spec_imm31 cfg iso env m n result scratch1 scratch2 gc flags code
        h64 hinl hdbg hregs hs1 hlim hcode
    · exact AllocateInNewSpace_spec_imm64 cfg iso env m n result scratch1 scratch2 gc flags code
        h64 hinl hdbg hregs hs1 hlim hcode
  | reg os =>
    obtain ⟨ho1, ho2, ho3⟩ := hsize
    cases h64 : cfg.is64
    · exact AllocateInNewSpace_spec_reg31 cfg iso env m os result scratch1 scratch2 gc flags code
        h64 hinl hdbg hregs hs1 hlim ho1 ho2 ho3 hcode
    · exact AllocateInNewSpace_spec_reg64 cfg iso env m os result scratch1 scratch2 gc flags code
        h64 hinl hdbg hregs hs1 hlim ho1 ho2 ho3 hcode

/-- C1 (as amended): the code emitted by `AllocateInNewSpace`, either overload,
run from any machine state, ends at `gc_required` exactly when the pointer-width
addition of the top `T` and the byte size `S` overflows as a signed addition or
the pointer-width sum exceeds the limit `L` as an unsigned address; in every
other case it falls through. -/
theorem AllocateInNewSpace_gc_required_iff (cfg : Config) (iso : Isolate) (env : Env)
    (m : Machine) (size : SizeArg) (result scratch1 scratch2 : Register) (gc : Label)
    (flags : AllocationFlags) (code : List Instr)
    (hinl : cfg.FLAG_inline_new = true) (hdbg : cfg.emit_debug_code = false)
    (hregs : AllocRegs result scratch1 scratch2) (hs1 : scratch1 ≠ r0)
    (hlim : iso.new_space_allocation_limit = iso.new_space_allocation_top + (kPointerSize cfg : Int))
    (hsize : size.clearOf result scratch1)
    (hcode : codeOf (AllocateInNewSpace cfg iso size result scratch1 scratch2 gc flags) false
      = some code) :
    ∃ f, exec cfg env code 16 m = some f ∧
      (f.outcome = .label gc ↔
        (signedAddOverflows cfg (startTop cfg iso flags result m) (requestedBytes cfg flags m size) ∨
          allocationLimit cfg iso m <
            (startTop cfg iso flags result m + requestedBytes cfg flags m size) % ptrMod cfg)) ∧
      (f.outcome = .fallthrough ↔
        ¬ (signedAddOverflows cfg (startTop cfg iso flags result m) (requestedBytes cfg flags m size) ∨
          allocationLimit cfg iso m <
            (startTop cfg iso flags result m + requestedBytes cfg flags m size) % ptrMod cfg)) := by
  obtain ⟨f, hf, -, hyes, hno⟩ := AllocateInNewSpace_spec cfg iso env m size result scratch1
    scratch2 gc flags code hinl hdbg hregs hs1 hlim hsize hcode
  refine ⟨f, hf, ?_, ?_⟩
  · constructor
    · intro ho
      by_contra hc
      rw [(hno hc).1] at ho
      exact Outcome.noConfusion ho
    · exact fun hc => (hyes hc).1
  · constructor
    · intro ho hc
      rw [(hyes hc).1] at ho
      exact Outcome.noConfusion ho
    · exact fun hc => (hno hc).1


theorem alloc_slots_disjoint (cfg : Config) (top : Int) :
    ∀ i, i < kPointerSize cfg → ∀ j, j < kPointerSize cfg →
      (unsignedOf (addrMod cfg) (top + (kPointerSize cfg : Int)) + i) % addrMod cfg ≠
        (unsignedOf (addrMod cfg) top + j) % addrMod cfg := by
  intro i hi j hj
  cases h64 : cfg.is64 <;>
    simp only [kPointerSize, addrMod, h64, unsignedOf, Bool.false_eq_true, if_false, if_true,
      M64, Nat.cast_ofNat] at * <;> omega

theorem signedOf_add_of_not_overflow (cfg : Config) (a b : Nat)
    (h : ¬ signedAddOverflows cfg a b) :
    signedOf (ptrMod cfg) ((a + b) % ptrMod cfg) = signedOf (ptrMod cfg) a + signedOf (ptrMod cfg) b := by
  cases h64 : cfg.is64 <;>
    simp only [signedAddOverflows, signedOf, ptrMod, h64, Bool.false_eq_true, if_false, if_true,
      M64, M32, Nat.mod_mod] at * <;> split_ifs at * <;> omega

theorem ptrMod_eq_pow (cfg : Config) : ptrMod cfg = 256 ^ kPointerSize cfg := by
  cases h64 : cfg.is64 <;> simp [ptrMod, kPointerSize, h64, M64, M32]

theorem kPointerSize_le_addrMod (cfg : Config) : kPointerSize cfg ≤ addrMod cfg := by
  cases h64 : cfg.is64 <;> simp [addrMod, kPointerSize, h64, M64]

/-- C2: whenever the code emitted by `AllocateInNewSpace` falls through from
top `T` with byte size `S`, the allocation-top slot holds the pointer-width sum
`T + S` (which is also the exact sum of the two words read as signed), the
allocation-limit slot is unchanged, and the result register holds `T`, or
`T + kHeapObjectTag` under `TAG_OBJECT`.  Under `RESULT_CONTAINS_TOP` the top
`T` is what the result register held on entry, whatever the top slot holds: the
register is not reloaded. -/
theorem AllocateInNewSpace_fallthrough_state (cfg : Config) (iso : Isolate) (env : Env)
    (m : Machine) (size : SizeArg) (result scratch1 scratch2 : Register) (gc : Label)
    (flags : AllocationFlags) (code : List Instr)
    (hinl : cfg.FLAG_inline_new = true) (hdbg : cfg.emit_debug_code = false)
    (hregs : AllocRegs result scratch1 scratch2) (hs1 : scratch1 ≠ r0)
    (hlim : iso.new_space_allocation_limit = iso.new_space_allocation_top + (kPointerSize cfg : Int))
    (hsize : size.clearOf result scratch1)
    (hcode : codeOf (AllocateInNewSpace cfg iso size result scratch1 scratch2 gc flags) false
      = some code) :
    ∃ f, exec cfg env code 16 m = some f ∧
      (f.outcome = .fallthrough →
        allocationTop cfg iso f.machine =
          (startTop cfg iso flags result m + requestedBytes cfg flags m size) % ptrMod cfg ∧
        signedOf (ptrMod cfg) (allocationTop cfg iso f.machine) =
          signedOf (ptrMod cfg) (startTop cfg iso flags result m) +
            signedOf (ptrMod cfg) (requestedBytes cfg flags m size) ∧
        allocationLimit cfg iso f.machine = allocationLimit cfg iso m ∧
        f.machine.regP cfg result =
          unsignedOf (ptrMod cfg) ((startTop cfg iso flags result m : Int) +
            (if flags.TAG_OBJECT = true then kHeapObjectTag else 0)) ∧
        (flags.RESULT_CONTAINS_TOP = true →
          f.machine.regP cfg result =
            unsignedOf (ptrMod cfg) ((m.regP cfg result : Int) +
              (if flags.TAG_OBJECT = true then kHeapObjectTag else 0)))) := by
  obtain ⟨f, hf, -, hyes, hno⟩ := AllocateInNewSpace_spec cfg iso env m size result scratch1
    scratch2 gc flags code hinl hdbg hregs hs1 hlim hsize hcode
  refine ⟨f, hf, fun ho => ?_⟩
  by_cases hc : signedAddOverflows cfg (startTop cfg iso flags result m) (requestedBytes cfg flags m size) ∨
          allocationLimit cfg iso m <
            (startTop cfg iso flags result m + requestedBytes cfg flags m size) % ptrMod cfg
  · rw [(hyes hc).1] at ho
    exact Outcome.noConfusion ho
  · obtain ⟨-, hmem, hres⟩ := hno hc
    have htop : allocationTop cfg iso f.machine =
        (startTop cfg iso flags result m + requestedBytes cfg flags m size) % ptrMod cfg := by
      rw [allocationTop, loadPtr, hmem,
        readBytes_writeBytes_same cfg _ _ _ _ (kPointerSize_le_addrMod cfg), ← ptrMod_eq_pow,
        Nat.mod_mod]
    have hres2 : f.machine.regP cfg result =
          unsignedOf (ptrMod cfg) ((startTop cfg iso flags result m : Int) +
            (if flags.TAG_OBJECT = true then kHeapObjectTag else 0)) := by
      rw [hres]
      cases flags.TAG_OBJECT <;> cases h64 : cfg.is64 <;>
        simp only [unsignedOf, kHeapObjectTag, ptrMod, h64, M64, M32, Bool.false_eq_true,
          if_false, if_true] <;> omega
    refine ⟨htop, ?_, ?_, hres2, ?_⟩
    · rw [htop]
      exact signedOf_add_of_not_overflow cfg _ _ (fun h => hc (Or.inl h))
    · simp only [allocationLimit, loadPtr, hmem, hlim]
      exact readBytes_writeBytes_disjoint cfg _ _ _ _ _ _ (alloc_slots_disjoint cfg _)
    · intro hr
      rw [hres2, startTop, if_pos hr]



/-- C1 (counterexample): on the 64-bit target with top `T = 2^63 - 16`, byte
size `S = 32` and limit `L = 2^64 - 1`, the sum `T + S` neither overflows the
pointer width nor exceeds `L`, yet the emitted code ends at `gc_required`. -/
theorem AllocateInNewSpace_unsigned_claim_fails :
    outcomeOf cfg64 sampleEnv
        (AllocateInNewSpace cfg64 (sampleIsolate cfg64) (.imm 32) r2 r3 r4 7 ⟨false, false, false⟩)
        false 16 (allocMachine64 9223372036854775792 18446744073709551615) = some (.label 7) ∧
      startTop cfg64 (sampleIsolate cfg64) ⟨false, false, false⟩ r2
        (allocMachine64 9223372036854775792 18446744073709551615) = 9223372036854775792 ∧
      requestedBytes cfg64 ⟨false, false, false⟩
        (allocMachine64 9223372036854775792 18446744073709551615) (.imm 32) = 32 ∧
      allocationLimit cfg64 (sampleIsolate cfg64)
        (allocMachine64 9223372036854775792 18446744073709551615) = 18446744073709551615 ∧
      ¬ unsignedAllocFails cfg64 9223372036854775792 32 18446744073709551615 := by
  decide

/-- C1 (witness): the amended statement at a sample input of the 64-bit target. -/
theorem AllocateInNewSpace_gc_required_iff_witness :
    ∃ f, exec cfg64 sampleEnv
        [.iihf r3 0, .iilf r3 4096, .lghi r4 32, .lg r2 ⟨r3, r0, 0⟩, .lg ip ⟨r3, r0, 8⟩,
          .agr r4 r2, .brc CC_OF 7, .clgr r4 ip, .brc gt 7, .stg r4 ⟨r3, r0, 0⟩]
        16 (allocMachine64 65536 131072) = some f ∧
      (f.outcome = .label 7 ↔
        (signedAddOverflows cfg64
            (startTop cfg64 (sampleIsolate cfg64) ⟨false, false, false⟩ r2 (allocMachine64 65536 131072))
            (requestedBytes cfg64 ⟨false, false, false⟩ (allocMachine64 65536 131072) (.imm 32)) ∨
          allocationLimit cfg64 (sampleIsolate cfg64) (allocMachine64 65536 131072) <
            (startTop cfg64 (sampleIsolate cfg64) ⟨false, false, false⟩ r2 (allocMachine64 65536 131072) +
              requestedBytes cfg64 ⟨false, false, false⟩ (allocMachine64 65536 131072) (.imm 32)) %
              ptrMod cfg64)) ∧
      (f.outcome = .fallthrough ↔
        ¬ (signedAddOverflows cfg64
            (startTop cfg64 (sampleIsolate cfg64) ⟨false, false, false⟩ r2 (allocMachine64 65536 131072))
            (requestedBytes cfg64 ⟨false, false, false⟩ (allocMachine64 65536 131072) (.imm 32)) ∨
          allocationLimit cfg64 (sampleIsolate cfg64) (allocMachine64 65536 131072) <
            (startTop cfg64 (sampleIsolate cfg64) ⟨false, false, false⟩ r2 (allocMachine64 65536 131072) +
              requestedBytes cfg64 ⟨false, false, false⟩ (allocMachine64 65536 131072) (.imm 32)) %
              ptrMod cfg64)) :=
  AllocateInNewSpace_gc_required_iff cfg64 (sampleIsolate cfg64) sampleEnv
    (allocMachine64 65536 131072) (.imm 32) r2 r3 r4 7 ⟨false, false, false⟩ _
    (by decide) (by decide) ⟨by decide, by decide, by decide, by decide, by decide, by decide⟩
    (by decide) (by decide) trivial (by rfl)


/-- C2 (witness): the statement at a sample input of the 64-bit target with
`TAG_OBJECT`. -/
theorem AllocateInNewSpace_fallthrough_state_witness :
    ∃ f, exec cfg64 sampleEnv
        [.iihf r3 0, .iilf r3 4096, .lghi r4 32, .lg r2 ⟨r3, r0, 0⟩, .lg ip ⟨r3, r0, 8⟩,
          .agr r4 r2, .brc CC_OF 7, .clgr r4 ip, .brc gt 7, .stg r4 ⟨r3, r0, 0⟩, .aghi r2 1]
        16 (allocMachine64 65536 131072) = some f ∧
      (f.outcome = .fallthrough →
        allocationTop cfg64 (sampleIsolate cfg64) f.machine =
          (startTop cfg64 (sampleIsolate cfg64) ⟨true, false, false⟩ r2 (allocMachine64 65536 131072) +
            requestedBytes cfg64 ⟨true, false, false⟩ (allocMachine64 65536 131072) (.imm 32)) %
            ptrMod cfg64 ∧
        signedOf (ptrMod cfg64) (allocationTop cfg64 (sampleIsolate cfg64) f.machine) =
          signedOf (ptrMod cfg64)
              (startTop cfg64 (sampleIsolate cfg64) ⟨true, false, false⟩ r2 (allocMachine64 65536 131072)) +
            signedOf (ptrMod cfg64)
              (requestedBytes cfg64 ⟨true, false, false⟩ (allocMachine64 65536 131072) (.imm 32)) ∧
        allocationLimit cfg64 (sampleIsolate cfg64) f.machine =
          allocationLimit cfg64 (sampleIsolate cfg64) (allocMachine64 65536 131072) ∧
        f.machine.regP cfg64 r2 =
          unsignedOf (ptrMod cfg64)
            ((startTop cfg64 (sampleIsolate cfg64) ⟨true, false, false⟩ r2
                (allocMachine64 65536 131072) : Int) +
              (if (⟨true, false, false⟩ : AllocationFlags).TAG_OBJECT = true then kHeapObjectTag else 0)) ∧
        ((⟨true, false, false⟩ : AllocationFlags).RESULT_CONTAINS_TOP = true →
          f.machine.regP cfg64 r2 =
            unsignedOf (ptrMod cfg64)
              (((allocMachine64 65536 131072).regP cfg64 r2 : Int) +
                (if (⟨true, false, false⟩ : AllocationFlags).TAG_OBJECT = true then kHeapObjectTag
                  else 0)))) :=
  AllocateInNewSpace_fallthrough_state cfg64 (sampleIsolate cfg64) sampleEnv
    (allocMachine64 65536 131072) (.imm 32) r2 r3 r4 7 ⟨true, false, false⟩ _
    (by decide) (by decide) ⟨by decide, by decide, by decide, by decide, by decide, by decide⟩
    (by decide) (by decide) trivial (by rfl)

/-! ## Write barrier -/

theorem cRem_small (a b : Nat) (h : a < b) : cRem (a : Int) (b : Int) = a := by
  unfold cRem
  rcases Nat.eq_zero_or_pos a with h0 | h0
  · subst h0; simp
  · have : a / b = 0 := Nat.div_eq_of_lt h
    simp [this]

theorem ClearRightImm_run (cfg : Config) (d s : Register) (v : Int) (n : Nat) (st : Asm)
    (hv : v = (n : Int)) (hn1 : 16 < n) (hn2 : n < 32) :
    (ClearRightImm cfg d s ⟨v, RelocMode.NONE⟩).run st =
      (if cfg.general_instr_ext = true then emit (.risbg d s 0 (63 - (n : Int)) 0 true)
       else if d = s then emit (.nilf d ((M32 - 2 ^ n : Nat) : Int))
       else do
        LoadRR cfg d s
        emit (.nilf d ((M32 - 2 ^ n : Nat) : Int))).run st := by
  subst hv
  have hc : cRem (n : Int) ((kPointerSize cfg : Int) * 8) = n := by
    have := cRem_small n (kPointerSize cfg * 8) (by unfold kPointerSize; split <;> omega)
    simpa using this
  have h16 : ¬ ((n : Int) ≤ 16) := by omega
  have h32 : (n : Int) ≤ 32 := by omega
  have hm : ((M64 - 1 - (2 ^ n % M64 + M64 - 1) % M64) % M32 : Nat) = M32 - 2 ^ n := by
    interval_cases n <;> decide
  cases hg : cfg.general_instr_ext <;> by_cases hds : d = s <;>
    simp [ClearRightImm, Operand.ofInt, hc, hg, h16, h32, hds, hm]

theorem CheckPageFlag_run (cfg : Config) (iso : Isolate) (object scratch : Register)
    (mask : Int) (k : Nat) (done : Label) (st : Asm)
    (hle : cfg.little_endian_host = false) (hmask : mask = ((2 : Int) ^ k)) (hk : k ≤ 7) :
    (CheckPageFlag cfg iso object scratch mask eq done).run st =
      (do
        ClearRightImm cfg scratch object ⟨iso.kPageSizeBits, RelocMode.NONE⟩
        emit (.tm ⟨scratch, r0, iso.MemoryChunk_kFlagsOffset + ((kPointerSize cfg : Int) - 1)⟩
          ((2 : Int) ^ k))
        emit (.brc eq done)).run st := by
  subst hmask
  obtain ⟨c, l, h, f⟩ := st
  interval_cases k <;>
    simp +decide [CheckPageFlag, IsPowerOf2, hle, MemOperand.mk1, beq, bne, b, eq, ne, Operand.ofInt,
      unsignedOf, M32]

theorem AllowThisStubCall_run (cfg : Config) (stub : CodeStub) (st : Asm) :
    (AllowThisStubCall cfg stub).run st =
      ((!(!st.has_frame && stub.SometimesSetsUpAFrame)) &&
        (cfg.allow_stub_calls || stub.CompilingCallsToThisStubIsGCSafe), st) := by
  cases hf : st.has_frame <;> cases hs : stub.SometimesSetsUpAFrame <;>
    simp [AllowThisStubCall, hf, hs]

theorem condHolds_eq_smi_test (v : Nat) :
    condHolds eq (tmCC 16 v (unsignedOf M16 kSmiTagMask)) = decide (isSmi v) := by
  have h1 : unsignedOf M16 kSmiTagMask = 1 := by decide
  have h2 : Nat.land (v % 2 ^ 16) (1 % 2 ^ 16) = v % 2 := by
    show (v % 2 ^ 16) &&& (1 % 2 ^ 16) = v % 2
    rw [show (1 : Nat) % 2 ^ 16 = 1 from rfl, Nat.and_one_is_mod]
    omega
  simp only [tmCC, h1, h2, isSmi]
  rcases Nat.mod_two_eq_zero_or_one v with h | h <;> simp +decide [h, condHolds, eq]

theorem land_two_pow (b k : Nat) : Nat.land b (2 ^ k) = if b.testBit k then 2 ^ k else 0 := by
  show b &&& 2 ^ k = _
  apply Nat.eq_of_testBit_eq
  intro i
  rw [Nat.testBit_and, Nat.testBit_two_pow]
  by_cases hik : k = i
  · subst hik
    cases hb : b.testBit k <;> simp [Nat.testBit_two_pow_self]
  · cases hb : b.testBit k <;> simp [hik, Nat.testBit_two_pow]

theorem condHolds_eq_flag_test (b k : Nat) (hk : k ≤ 7) :
    condHolds eq (tmCC 8 b (unsignedOf 256 ((2 : Int) ^ k))) = !(b % 256).testBit k := by
  have h1 : unsignedOf 256 ((2 : Int) ^ k) % 256 = 2 ^ k := by
    interval_cases k <;> decide
  have hpos : 2 ^ k ≠ 0 := by positivity
  simp only [tmCC, show (2 : Nat) ^ 8 = 256 from rfl, h1, land_two_pow]
  cases hb : (b % 256).testBit k <;> simp +decide [condHolds, eq, hpos]

theorem testBit_low_byte (q r k : Nat) (hk : k ≤ 7) :
    (q * 256 + r % 256).testBit k = (r % 256).testBit k := by
  have h := Nat.testBit_mul_pow_two_add q (show r % 256 < 2 ^ 8 by omega) k
  rw [show (2 : Nat) ^ 8 * q = q * 256 by omega] at h
  rw [h, if_pos (by omega)]

theorem testBit_loadPtr_low (cfg : Config) (mem : Nat → Nat) (a k : Nat) (hk : k ≤ 7) :
    (loadPtr cfg mem a).testBit k =
      (mem ((a + (kPointerSize cfg - 1)) % addrMod cfg) % 256).testBit k := by
  cases h64 : cfg.is64 <;>
    simp only [loadPtr, kPointerSize, h64, Bool.false_eq_true, if_false, if_true, readBytes] <;>
    exact testBit_low_byte _ _ k hk

@[simp] theorem and32_regs (m : Machine) (d x : Register) (a b : Nat) :
    (and32 m d a b).regs x = if x = d then setLo32 (m.regs d) (Nat.land (a % M32) (b % M32))
      else m.regs x := rfl

@[simp] theorem and32_mem (m : Machine) (d : Register) (a b : Nat) : (and32 m d a b).mem = m.mem :=
  rfl

@[simp] theorem and32_cc (m : Machine) (d : Register) (a b : Nat) :
    (and32 m d a b).cc = logicCC (Nat.land (a % M32) (b % M32)) := rfl

theorem land_hi_mask (y k n : Nat) (hn : n ≤ k) :
    Nat.land (y % 2 ^ k) (2 ^ k - 2 ^ n) = y % 2 ^ k / 2 ^ n * 2 ^ n := by
  show (y % 2 ^ k) &&& (2 ^ k - 2 ^ n) = _
  apply Nat.eq_of_testBit_eq
  intro i
  have hmask : 2 ^ k - 2 ^ n = 2 ^ n * (2 ^ (k - n) - 1) := by
    rw [Nat.mul_sub, ← pow_add, Nat.add_sub_cancel' hn, Nat.mul_one]
  rw [Nat.testBit_and, hmask, Nat.testBit_mul_pow_two, Nat.testBit_two_pow_sub_one,
    Nat.mul_comm, Nat.testBit_mul_pow_two, Nat.testBit_mod_two_pow]
  by_cases h1 : n ≤ i
  · by_cases h2 : i < k
    · have h3 : i - n < k - n := by omega
      have h4 : n + (i - n) = i := by omega
      rw [← Nat.shiftRight_eq_div_pow, Nat.testBit_shiftRight, Nat.testBit_mod_two_pow, h4]
      simp [h1, h2, h3]
    · have h3 : ¬ i - n < k - n := by omega
      have h4 : n + (i - n) = i := by omega
      rw [← Nat.shiftRight_eq_div_pow, Nat.testBit_shiftRight, Nat.testBit_mod_two_pow, h4]
      simp [h1, h2, h3]
  · simp [h1]

theorem page_nilf64 (n Y x : Nat) (hn1 : 16 < n) (hn2 : n < 32) (hY : Y % M64 = x % M64) :
    setLo32 Y (Nat.land (Y % M32) (unsignedOf M32 ((M32 - 2 ^ n : Nat) : Int) % M32)) % M64 =
      x % M64 / 2 ^ n * 2 ^ n := by
  have h := land_hi_mask Y 32 n (by omega)
  have hm : unsignedOf M32 ((M32 - 2 ^ n : Nat) : Int) % M32 = 2 ^ 32 - 2 ^ n := by
    interval_cases n <;> decide
  rw [hm, show M32 = 2 ^ 32 from rfl, h]
  simp only [setLo32, hi32, M32, M64] at *
  interval_cases n <;> omega

theorem page_nilf31 (n Y x : Nat) (hn1 : 16 < n) (hn2 : n < 32) (hY : Y % M32 = x % M32) :
    setLo32 Y (Nat.land (Y % M32) (unsignedOf M32 ((M32 - 2 ^ n : Nat) : Int) % M32)) % 2147483648 =
      x % 2147483648 / 2 ^ n * 2 ^ n := by
  have h := land_hi_mask Y 32 n (by omega)
  have hm : unsignedOf M32 ((M32 - 2 ^ n : Nat) : Int) % M32 = 2 ^ 32 - 2 ^ n := by
    interval_cases n <;> decide
  rw [hm, show M32 = 2 ^ 32 from rfl, h]
  simp only [setLo32, hi32, M32, M64] at *
  interval_cases n <;> omega

theorem page_risbg (n x : Nat) (hn1 : 16 < n) (hn2 : n < 32) :
    Nat.land (rotl64 x (unsignedOf 64 0)) (risbgMask (unsignedOf 64 0) (unsignedOf 64 (63 - (n : Int)))) =
      x % M64 / 2 ^ n * 2 ^ n := by
  have h := land_hi_mask x 64 n (by omega)
  have hr : rotl64 x (unsignedOf 64 0) = x % 2 ^ 64 := by
    have h0 : x % 18446744073709551616 / 18446744073709551616 = 0 :=
      Nat.div_eq_of_lt (Nat.mod_lt _ (by decide))
    simp only [rotl64, show unsignedOf 64 0 = 0 from rfl, M64, Nat.zero_mod, pow_zero, Nat.mul_one,
      Nat.sub_zero, Nat.mod_mod, show (2 : Nat) ^ 64 = 18446744073709551616 from rfl, h0,
      Nat.add_zero]
  have hm : risbgMask (unsignedOf 64 0) (unsignedOf 64 (63 - (n : Int))) = 2 ^ 64 - 2 ^ n := by
    interval_cases n <;> decide
  rw [hr, hm, h]
  rfl

theorem flag_of_page (cfg : Config) (iso : Isolate) (mem : Nat → Nat) (E x k : Nat)
    (hE : E % addrMod cfg = pageOf cfg iso.kPageSizeBits.toNat x) (hk : k ≤ 7) :
    (mem (unsignedOf (addrMod cfg)
        ((E : Int) + (iso.MemoryChunk_kFlagsOffset + ((kPointerSize cfg : Int) - 1)))) % 256).testBit k =
      (pageFlags cfg iso mem x).testBit k := by
  rw [pageFlags, testBit_loadPtr_low cfg mem _ k hk, ← hE]
  congr 3
  cases h64 : cfg.is64 <;>
    simp only [unsignedOf, addrMod, kPointerSize, h64, Bool.false_eq_true, if_false, if_true, M64,
      Nat.cast_ofNat] <;> omega

theorem flag_nilf64 (cfg : Config) (iso : Isolate) (mem : Nat → Nat) (Y x n k : Nat)
    (h64 : cfg.is64 = true) (hn : iso.kPageSizeBits = (n : Int)) (hn1 : 16 < n) (hn2 : n < 32)
    (hk : k ≤ 7) (hY : Y % M64 = x % M64) :
    (mem (unsignedOf (addrMod cfg)
        ((setLo32 Y (Nat.land (Y % M32) (unsignedOf M32 ((M32 - 2 ^ n : Nat) : Int) % M32)) : Nat) +
          (iso.MemoryChunk_kFlagsOffset + 7))) % 256).testBit k =
      (pageFlags cfg iso mem x).testBit k := by
  have hE : setLo32 Y (Nat.land (Y % M32) (unsignedOf M32 ((M32 - 2 ^ n : Nat) : Int) % M32)) %
      addrMod cfg = pageOf cfg iso.kPageSizeBits.toNat x := by
    simp only [addrMod, pageOf, h64, if_true, hn, Int.toNat_ofNat]
    exact page_nilf64 n Y x hn1 hn2 hY
  have h := flag_of_page cfg iso mem _ x k hE hk
  simpa [kPointerSize, h64] using h

theorem flag_nilf31 (cfg : Config) (iso : Isolate) (mem : Nat → Nat) (Y x n k : Nat)
    (h64 : cfg.is64 = false) (hn : iso.kPageSizeBits = (n : Int)) (hn1 : 16 < n) (hn2 : n < 32)
    (hk : k ≤ 7) (hY : Y % M32 = x % M32) :
    (mem (unsignedOf (addrMod cfg)
        ((setLo32 Y (Nat.land (Y % M32) (unsignedOf M32 ((M32 - 2 ^ n : Nat) : Int) % M32)) : Nat) +
          (iso.MemoryChunk_kFlagsOffset + 3))) % 256).testBit k =
      (pageFlags cfg iso mem x).testBit k := by
  have hE : setLo32 Y (Nat.land (Y % M32) (unsignedOf M32 ((M32 - 2 ^ n : Nat) : Int) % M32)) %
      addrMod cfg = pageOf cfg iso.kPageSizeBits.toNat x := by
    simp only [addrMod, pageOf, h64, Bool.false_eq_true, if_false, hn, Int.toNat_ofNat]
    exact page_nilf31 n Y x hn1 hn2 hY
  have h := flag_of_page cfg iso mem _ x k hE hk
  simpa [kPointerSize, h64] using h

theorem flag_risbg64 (cfg : Config) (iso : Isolate) (mem : Nat → Nat) (x n k : Nat)
    (h64 : cfg.is64 = true) (hn : iso.kPageSizeBits = (n : Int)) (hn1 : 16 < n) (hn2 : n < 32)
    (hk : k ≤ 7) :
    (mem (unsignedOf (addrMod cfg)
        ((Nat.land (rotl64 x (unsignedOf 64 0))
            (risbgMask (unsignedOf 64 0) (unsignedOf 64 (63 - (n : Int)))) : Nat) +
          (iso.MemoryChunk_kFlagsOffset + 7))) % 256).testBit k =
      (pageFlags cfg iso mem x).testBit k := by
  have hE : Nat.land (rotl64 x (unsignedOf 64 0))
      (risbgMask (unsignedOf 64 0) (unsignedOf 64 (63 - (n : Int)))) %
      addrMod cfg = pageOf cfg iso.kPageSizeBits.toNat x := by
    simp only [addrMod, pageOf, h64, if_true, hn, Int.toNat_ofNat, page_risbg n x hn1 hn2]
    simp only [M64]
    interval_cases n <;> omega
  have h := flag_of_page cfg iso mem _ x k hE hk
  simpa [kPointerSize, h64] using h

theorem flag_risbg31 (cfg : Config) (iso : Isolate) (mem : Nat → Nat) (x n k : Nat)
    (h64 : cfg.is64 = false) (hn : iso.kPageSizeBits = (n : Int)) (hn1 : 16 < n) (hn2 : n < 32)
    (hk : k ≤ 7) :
    (mem (unsignedOf (addrMod cfg)
        ((Nat.land (rotl64 x (unsignedOf 64 0))
            (risbgMask (unsignedOf 64 0) (unsignedOf 64 (63 - (n : Int)))) : Nat) +
          (iso.MemoryChunk_kFlagsOffset + 3))) % 256).testBit k =
      (pageFlags cfg iso mem x).testBit k := by
  have hE : Nat.land (rotl64 x (unsignedOf 64 0))
      (risbgMask (unsignedOf 64 0) (unsignedOf 64 (63 - (n : Int)))) %
      addrMod cfg = pageOf cfg iso.kPageSizeBits.toNat x := by
    simp only [addrMod, pageOf, h64, Bool.false_eq_true, if_false, hn, Int.toNat_ofNat,
      page_risbg n x hn1 hn2]
    simp only [M64]
    interval_cases n <;> omega
  have h := flag_of_page cfg iso mem _ x k hE hk
  simpa [kPointerSize, h64] using h

theorem call_target64 (cfg : Config) (h64 : cfg.is64 = true) (v : Nat) (x : Int) :
    setLo32 (setHi32 v (unsignedOf M32 (toInt32 (toInt64 x / 4294967296))))
      (unsignedOf M32 (toInt32 (toInt64 x))) % addrMod cfg = unsignedOf (addrMod cfg) x := by
  rw [mov_value]
  simp only [addrMod, h64, if_true, unsignedOf, M64]
  omega

theorem call_target31 (cfg : Config) (h64 : cfg.is64 = false) (v : Nat) (x : Int) :
    setLo32 v (unsignedOf M32 (toInt32 x)) % addrMod cfg = unsignedOf (addrMod cfg) x := by
  simp only [addrMod, h64, Bool.false_eq_true, if_false, unsignedOf, setLo32, hi32, toInt32, M32]
  omega

theorem ip_ne_r0 : ip ≠ r0 := by decide

theorem exec_eq_run (cfg : Config) (env : Env) (code pos : List Instr) (fuel : Nat) (m : Machine)
    (h : pos = code) : exec cfg env code fuel m = run cfg env code fuel pos m [] := by
  subst h; rfl

set_option maxHeartbeats 2000000 in
/-- C3: for the code emitted by `RecordWrite` with the inline smi check (release
code, distinct `value` and `object` registers, single-bit page flags in the low
byte of the flags word), run from any machine state: the `RecordWriteStub` is
called, once, exactly when the value is not a tagged small integer, the page of
the value has the pointers-to-here flag set and the page of the object has the
pointers-from-here flag set; otherwise no call is made at all.  Either way
control leaves the code at its end. -/
theorem RecordWrite_calls_stub_iff (cfg : Config) (iso : Isolate) (env : Env) (m : Machine)
    (object address value : Register) (lr_status : LinkRegisterStatus) (fp_mode rsa : Bool)
    (frame : Bool) (code : List Instr) (n kTo kFrom : Nat)
    (hdbg : cfg.emit_debug_code = false) (hle : cfg.little_endian_host = false)
    (hn : iso.kPageSizeBits = (n : Int)) (hn1 : 16 < n) (hn2 : n < 32)
    (hto : iso.kPointersToHereAreInterestingMask = (2 : Int) ^ kTo) (hkTo : kTo ≤ 7)
    (hfrom : iso.kPointersFromHereAreInterestingMask = (2 : Int) ^ kFrom) (hkFrom : kFrom ≤ 7)
    (hvo : value ≠ object) (hv0 : value ≠ r0)
    (hcode : codeOf (RecordWrite cfg iso object address value lr_status fp_mode rsa
      .INLINE_SMI_CHECK) frame = some code) :
    ∃ f, exec cfg env code 32 m = some f ∧ f.outcome = .fallthrough ∧
      f.trace = if barrierNeeded cfg iso kTo kFrom m object value then
          [Event.call (unsignedOf (addrMod cfg)
            (iso.RecordWriteStub object value address rsa fp_mode).GetCode)]
        else [] := by
  have e1 := fun d st => CheckPageFlag_run cfg iso value value _ kTo d st hle hto hkTo
  have e2 := fun d st => CheckPageFlag_run cfg iso object value _ kFrom d st hle hfrom hkFrom
  have e3 := fun d s st => ClearRightImm_run cfg d s _ n st hn hn1 hn2
  cases h64 : cfg.is64 <;> cases hgie : cfg.general_instr_ext <;> cases lr_status
  all_goals simp [codeOf, RecordWrite, JumpIfSmi, TestIfSmi, e1, e2, e3, push, pop, CallStub,
    AllowThisStubCall_run, Call_Code, Call_Address, mov, LoadRR, LoadP, StoreP, StoreW, b, beq, bne,
    bind, MemOperand.mk1, Operand.ofInt, Operand.immediate, kPointerSize, h64, hgie, hdbg, hle,
    hvo, is_int20, is_uint12, RelocMode.IsCodeTarget] at hcode
  all_goals obtain ⟨hok, hC⟩ := hcode
  all_goals have hdone : suffixAt 0 code = some [Instr.bind 0] := by rw [← hC]; simp [suffixAt_cons, suffixAt_nil]
  all_goals rw [exec_eq_run cfg env code _ 32 m hC]
  all_goals simp only [run_tmll, run_brc, setCC_cc, condHolds_eq_smi_test, hdone, run_nilf, run_lgr,
    run_lr, run_risbg, run_tm, run_bind, run_nil, setCC_regs, setCC_mem, and32_regs, and32_mem,
    setReg_regs, setReg_mem, if_true, if_neg hvo, if_neg (Ne.symm hvo), effAddr_base _ _ _ _ hv0,
    condHolds_eq_flag_test _ _ hkTo, condHolds_eq_flag_test _ _ hkFrom, h64,
    run_lay, run_stg, run_st, run_iihf, run_iilf, run_lg, run_l, run_la, run_basr, if_neg ip_ne_r0,
    List.nil_append]
  all_goals first
    | rw [flag_nilf64 cfg iso m.mem _ (m.regs value) n kTo h64 hn hn1 hn2 hkTo rfl,
        flag_nilf64 cfg iso m.mem _ (m.regs object) n kFrom h64 hn hn1 hn2 hkFrom (Nat.mod_mod _ _)]
    | rw [flag_nilf31 cfg iso m.mem _ (m.regs value) n kTo h64 hn hn1 hn2 hkTo rfl,
        flag_nilf31 cfg iso m.mem _ (m.regs object) n kFrom h64 hn hn1 hn2 hkFrom (setLo32_mod _ _)]
    | rw [flag_risbg64 cfg iso m.mem (m.regs value) n kTo h64 hn hn1 hn2 hkTo,
        flag_risbg64 cfg iso m.mem (m.regs object) n kFrom h64 hn hn1 hn2 hkFrom]
    | rw [flag_risbg31 cfg iso m.mem (m.regs value) n kTo h64 hn hn1 hn2 hkTo,
        flag_risbg31 cfg iso m.mem (m.regs object) n kFrom h64 hn hn1 hn2 hkFrom]
  all_goals unfold barrierNeeded
  all_goals by_cases hs : isSmi (m.regs value)
  all_goals by_cases hT : (pageFlags cfg iso m.mem (m.regs value)).testBit kTo = true
  all_goals by_cases hF : (pageFlags cfg iso m.mem (m.regs object)).testBit kFrom = true
  all_goals try simp only [Bool.not_eq_true] at hT
  all_goals try simp only [Bool.not_eq_true] at hF
  all_goals simp only [hs, hT, hF, decide_True, decide_False, if_true, if_false, Bool.not_true,
    Bool.not_false, Bool.false_eq_true, not_true_eq_false, not_false_eq_true, and_true, and_false,
    false_and, true_and, and_self]
  all_goals refine ⟨_, rfl, rfl, ?_⟩
  all_goals first
    | rfl
    | exact congrArg (fun t => [Event.call t]) (call_target64 cfg h64 _ _)
    | exact congrArg (fun t => [Event.call t]) (call_target31 cfg h64 _ _)

/-- C3 (witness): the statement on the 64-bit target with both page flags set. -/
theorem RecordWrite_calls_stub_iff_witness :
    ∃ code, codeOf (RecordWrite cfg64 (sampleIsolate cfg64) r3 r5 r4 .kLRHasNotBeenSaved false
        false .INLINE_SMI_CHECK) true = some code ∧
      ∃ f, exec cfg64 sampleEnv code 32 (barrierMachine 4 8) = some f ∧
        f.outcome = .fallthrough ∧
        f.trace = if barrierNeeded cfg64 (sampleIsolate cfg64) 2 3 (barrierMachine 4 8) r3 r4 then
            [Event.call (unsignedOf (addrMod cfg64)
              ((sampleIsolate cfg64).RecordWriteStub r3 r4 r5 false false).GetCode)]
          else [] :=
  ⟨_, rfl, RecordWrite_calls_stub_iff cfg64 (sampleIsolate cfg64) sampleEnv (barrierMachine 4 8)
    r3 r5 r4 .kLRHasNotBeenSaved false false true _ 20 2 3 (by decide) (by decide) (by decide)
    (by decide) (by decide) (by decide) (by decide) (by decide) (by decide) (by decide)
    (by decide) rfl⟩

theorem setReg_regs_self (m : Machine) (r : Register) (v : Nat) : (m.setReg r v).regs r = v := by
  simp [Machine.setReg]

theorem setReg_regs_ne (m : Machine) (r x : Register) (v : Nat) (h : x ≠ r) :
    (m.setReg r v).regs x = m.regs x := by
  simp [Machine.setReg, h]

theorem r2_ne_r3 : r2 ≠ r3 := by decide

theorem r2_ne_r4 : r2 ≠ r4 := by decide

theorem r2_ne_r7 : r2 ≠ r7 := by decide

theorem r2_ne_r8 : r2 ≠ r8 := by decide

theorem r2_ne_r9 : r2 ≠ r9 := by decide

theorem r2_ne_ip : r2 ≠ ip := by decide

theorem r2_ne_r14 : r2 ≠ r14 := by decide

theorem r2_ne_sp : r2 ≠ sp := by decide

theorem r2_ne_fp : r2 ≠ fp := by decide

theorem r2_ne_cp : r2 ≠ cp := by decide

theorem r3_ne_r2 : r3 ≠ r2 := by decide

theorem r3_ne_r4 : r3 ≠ r4 := by decide

theorem r3_ne_r7 : r3 ≠ r7 := by decide

theorem r3_ne_r8 : r3 ≠ r8 := by decide

theorem r3_ne_r9 : r3 ≠ r9 := by decide

theorem r3_ne_ip : r3 ≠ ip := by decide

theorem r3_ne_r14 : r3 ≠ r14 := by decide

theorem r3_ne_sp : r3 ≠ sp := by decide

theorem r3_ne_fp : r3 ≠ fp := by decide

theorem r3_ne_cp : r3 ≠ cp := by decide

theorem r4_ne_r2 : r4 ≠ r2 := by decide

theorem r4_ne_r3 : r4 ≠ r3 := by decide

theorem r4_ne_r7 : r4 ≠ r7 := by decide

theorem r4_ne_r8 : r4 ≠ r8 := by decide

theorem r4_ne_r9 : r4 ≠ r9 := by decide

theorem r4_ne_ip : r4 ≠ ip := by decide

theorem r4_ne_r14 : r4 ≠ r14 := by decide

theorem r4_ne_sp : r4 ≠ sp := by decide

theorem r4_ne_fp : r4 ≠ fp := by decide

theorem r4_ne_cp : r4 ≠ cp := by decide

theorem r7_ne_r2 : r7 ≠ r2 := by decide

theorem r7_ne_r3 : r7 ≠ r3 := by decide

theorem r7_ne_r4 : r7 ≠ r4 := by decide

theorem r7_ne_r8 : r7 ≠ r8 := by decide

theorem r7_ne_r9 : r7 ≠ r9 := by decide

theorem r7_ne_ip : r7 ≠ ip := by decide

theorem r7_ne_r14 : r7 ≠ r14 := by decide

theorem r7_ne_sp : r7 ≠ sp := by decide

theorem r7_ne_fp : r7 ≠ fp := by decide

theorem r7_ne_cp : r7 ≠ cp := by decide

theorem r8_ne_r2 : r8 ≠ r2 := by decide

theorem r8_ne_r3 : r8 ≠ r3 := by decide

theorem r8_ne_r4 : r8 ≠ r4 := by decide

theorem r8_ne_r7 : r8 ≠ r7 := by decide

theorem r8_ne_r9 : r8 ≠ r9 := by decide

theorem r8_ne_ip : r8 ≠ ip := by decide

theorem r8_ne_r14 : r8 ≠ r14 := by decide

theorem r8_ne_sp : r8 ≠ sp := by decide

theorem r8_ne_fp : r8 ≠ fp := by decide

theorem r8_ne_cp : r8 ≠ cp := by decide

theorem r9_ne_r2 : r9 ≠ r2 := by decide

theorem r9_ne_r3 : r9 ≠ r3 := by decide

theorem r9_ne_r4 : r9 ≠ r4 := by decide

theorem r9_ne_r7 : r9 ≠ r7 := by decide

theorem r9_ne_r8 : r9 ≠ r8 := by decide

theorem r9_ne_ip : r9 ≠ ip := by decide

theorem r9_ne_r14 : r9 ≠ r14 := by decide

theorem r9_ne_sp : r9 ≠ sp := by decide

theorem r9_ne_fp : r9 ≠ fp := by decide

theorem r9_ne_cp : r9 ≠ cp := by decide

theorem ip_ne_r2 : ip ≠ r2 := by decide

theorem ip_ne_r3 : ip ≠ r3 := by decide

theorem ip_ne_r4 : ip ≠ r4 := by decide

theorem ip_ne_r7 : ip ≠ r7 := by decide

theorem ip_ne_r8 : ip ≠ r8 := by decide

theorem ip_ne_r9 : ip ≠ r9 := by decide

theorem ip_ne_r14 : ip ≠ r14 := by decide

theorem ip_ne_sp : ip ≠ sp := by decide

theorem ip_ne_fp : ip ≠ fp := by decide

theorem ip_ne_cp : ip ≠ cp := by decide

theorem r14_ne_r2 : r14 ≠ r2 := by decide

theorem r14_ne_r3 : r14 ≠ r3 := by decide

theorem r14_ne_r4 : r14 ≠ r4 := by decide

theorem r14_ne_r7 : r14 ≠ r7 := by decide

theorem r14_ne_r8 : r14 ≠ r8 := by decide

theorem r14_ne_r9 : r14 ≠ r9 := by decide

theorem r14_ne_ip : r14 ≠ ip := by decide

theorem r14_ne_sp : r14 ≠ sp := by decide

theorem r14_ne_fp : r14 ≠ fp := by decide

theorem r14_ne_cp : r14 ≠ cp := by decide

theorem sp_ne_r2 : sp ≠ r2 := by decide

theorem sp_ne_r3 : sp ≠ r3 := by decide

theorem sp_ne_r4 : sp ≠ r4 := by decide

theorem sp_ne_r7 : sp ≠ r7 := by decide

theorem sp_ne_r8 : sp ≠ r8 := by decide

theorem sp_ne_r9 : sp ≠ r9 := by decide

theorem sp_ne_ip : sp ≠ ip := by decide

theorem sp_ne_r14 : sp ≠ r14 := by decide

theorem sp_ne_fp : sp ≠ fp := by decide

theorem sp_ne_cp : sp ≠ cp := by decide

theorem fp_ne_r2 : fp ≠ r2 := by decide

theorem fp_ne_r3 : fp ≠ r3 := by decide

theorem fp_ne_r4 : fp ≠ r4 := by decide

theorem fp_ne_r7 : fp ≠ r7 := by decide

theorem fp_ne_r8 : fp ≠ r8 := by decide

theorem fp_ne_r9 : fp ≠ r9 := by decide

theorem fp_ne_ip : fp ≠ ip := by decide

theorem fp_ne_r14 : fp ≠ r14 := by decide

theorem fp_ne_sp : fp ≠ sp := by decide

theorem fp_ne_cp : fp ≠ cp := by decide

theorem cp_ne_r2 : cp ≠ r2 := by decide

theorem cp_ne_r3 : cp ≠ r3 := by decide

theorem cp_ne_r4 : cp ≠ r4 := by decide

theorem cp_ne_r7 : cp ≠ r7 := by decide

theorem cp_ne_r8 : cp ≠ r8 := by decide

theorem cp_ne_r9 : cp ≠ r9 := by decide

theorem cp_ne_ip : cp ≠ ip := by decide

theorem cp_ne_r14 : cp ≠ r14 := by decide

theorem cp_ne_sp : cp ≠ sp := by decide

theorem cp_ne_fp : cp ≠ fp := by decide
set_option maxHeartbeats 4000000 in
/-- C4: when the expected and actual counts are immediates and equal, or the
expected immediate is the don't-adapt sentinel, `InvokePrologue` reports
`definitely_mismatches = false` and emits nothing for equal counts, and only the
load of the actual count into `r2` for the sentinel: no compare and nothing
that mentions the adaptor.  The code of `InvokeCode` then holds exactly one
transfer, the direct call (`CALL_FUNCTION`) or jump (`JUMP_FUNCTION`) through
the code register, preceded only by immediate loads of `r2` and `r7`. -/
theorem InvokeCode_matching_counts (cfg : Config) (iso : Isolate) (code : Register) (e a : Int)
    (flag : InvokeFlag) (call_kind : CallKind) (frame : Bool) (c : List Instr)
    (hmatch : e = a ∨ e = iso.kDontAdaptArgumentsSentinel)
    (hcode : codeOf (InvokeCode_Register cfg iso code (.ofImmediate e) (.ofImmediate a) flag
      NullCallWrapper call_kind) frame = some c) :
    (∀ (code_constant : Option Int) (code_reg : Register) (done : Label) (w : CallWrapper)
        (st : Asm),
      (InvokePrologue cfg iso (.ofImmediate e) (.ofImmediate a) code_constant code_reg done flag w
          call_kind).run st =
        (false, ((if e = a then pure () else mov cfg r2 (Operand.ofInt a) : Emit Unit).run
          { st with labels := st.labels + 1 }).2)) ∧
    c.countP Instr.isTransfer = 1 ∧ c.countP Instr.isCompare = 0 ∧
    ∃ pre, c = pre ++ [if flag = InvokeFlag.CALL_FUNCTION then Instr.basr r14 code
                       else Instr.bcr al code, Instr.bind 0] ∧
      pre.all (fun i => i.loadsImmediateInto r2 || i.loadsImmediateInto r7) = true := by
  have hpro : ∀ (code_constant : Option Int) (code_reg : Register) (done : Label) (w : CallWrapper)
        (st : Asm),
      (InvokePrologue cfg iso (.ofImmediate e) (.ofImmediate a) code_constant code_reg done flag w
          call_kind).run st =
        (false, ((if e = a then pure () else mov cfg r2 (Operand.ofInt a) : Emit Unit).run
          { st with labels := st.labels + 1 }).2) := by
    intro code_constant code_reg done w st
    obtain ⟨sc, sl, sh, sf⟩ := st
    by_cases hea : e = a
    · simp [InvokePrologue, ParameterCount.ofImmediate, ParameterCount.is_immediate,
        ParameterCount.is_reg, ParameterCount.immediate, hea]
    · have hs : e = iso.kDontAdaptArgumentsSentinel := hmatch.resolve_left hea
      subst hs
      simp [InvokePrologue, ParameterCount.ofImmediate, ParameterCount.is_immediate,
        ParameterCount.is_reg, ParameterCount.immediate, hea]
  refine ⟨hpro, ?_⟩
  have hpro0 := fun w st => hpro none code 0 w st
  have hflag : (InvokeFlag.CALL_FUNCTION == InvokeFlag.JUMP_FUNCTION) = false := rfl
  have hfin : ∀ l : List Instr, l = c →
      (List.countP Instr.isTransfer l = 1 ∧ List.countP Instr.isCompare l = 0 ∧
        (l.take (l.length - 2) ++ [if flag = InvokeFlag.CALL_FUNCTION then Instr.basr r14 code
                       else Instr.bcr al code, Instr.bind 0] = l) ∧
        (l.take (l.length - 2)).all
          (fun i => i.loadsImmediateInto r2 || i.loadsImmediateInto r7) = true) →
      c.countP Instr.isTransfer = 1 ∧ c.countP Instr.isCompare = 0 ∧
      ∃ pre, c = pre ++ [if flag = InvokeFlag.CALL_FUNCTION then Instr.basr r14 code
                       else Instr.bcr al code, Instr.bind 0] ∧
        pre.all (fun i => i.loadsImmediateInto r2 || i.loadsImmediateInto r7) = true := by
    intro l hlc ⟨h1, h2, h3, h4⟩
    subst hlc
    exact ⟨h1, h2, _, h3.symm, h4⟩
  by_cases hea : e = a
  · subst hea
    cases flag <;> cases call_kind <;> cases h64 : cfg.is64 <;> cases frame
    all_goals simp [hflag, codeOf, InvokeCode_Register, hpro0, NullCallWrapper, SetCallKind,
      LoadSmiLiteral, Smi.FromInt, kSmiShift, Call_Register, Jump_Register, b_Register, bind, mov,
      Operand.ofInt, Operand.immediate, h64] at hcode
    all_goals refine hfin _ hcode.2 ?_
    all_goals simp [Instr.isTransfer, Instr.isCompare, Instr.loadsImmediateInto]
  · cases flag <;> cases call_kind <;> cases h64 : cfg.is64 <;> cases frame
    all_goals simp [hflag, codeOf, InvokeCode_Register, hpro0, NullCallWrapper, SetCallKind,
      LoadSmiLiteral, Smi.FromInt, kSmiShift, Call_Register, Jump_Register, b_Register, bind, mov,
      Operand.ofInt, Operand.immediate, h64, hea] at hcode
    all_goals refine hfin _ hcode.2 ?_
    all_goals simp [Instr.isTransfer, Instr.isCompare, Instr.loadsImmediateInto]
theorem condHolds_al (cc : Nat) : condHolds al cc = true := by
  have h : 3 - cc ≤ 3 := by omega
  unfold condHolds al
  interval_cases (3 - cc) <;> decide

theorem unsignedOf_mod_self (n : Nat) (x : Int) : unsignedOf n x % n = unsignedOf n x := by
  rcases Nat.eq_zero_or_pos n with h | h
  · subst h; simp
  · exact Nat.mod_eq_of_lt (unsignedOf_lt n x h)

theorem mov_regP31 (v : Nat) (x : Int) :
    setLo32 v (unsignedOf M32 (toInt32 x)) % M32 = unsignedOf M32 x := by
  simp only [setLo32, hi32, unsignedOf, toInt32, M32]
  omega

theorem call_target64m (cfg : Config) (h64 : cfg.is64 = true) (x : Int) :
    unsignedOf M64 x % addrMod cfg = unsignedOf (addrMod cfg) x := by
  simp only [addrMod, h64, if_true, unsignedOf, M64]; omega

set_option maxHeartbeats 4000000 in
/-- C5: for unequal immediate counts `e ≠ a`, `e` not the don't-adapt sentinel,
the code of `InvokeCode` has no compare and one transfer, which goes through
`ip`; run from any machine state it transfers to the arguments-adaptor
trampoline (a call under `CALL_FUNCTION`, a jump under `JUMP_FUNCTION`) with
`r2 = a` and `r4 = e`, and never to the callee code. -/
theorem InvokeCode_mismatch_adaptor (cfg : Config) (iso : Isolate) (env : Env) (m : Machine)
    (code : Register) (e a : Int) (flag : InvokeFlag) (call_kind : CallKind) (frame : Bool)
    (c : List Instr)
    (hne : e ≠ a) (hns : e ≠ iso.kDontAdaptArgumentsSentinel)
    (hcode : codeOf (InvokeCode_Register cfg iso code (.ofImmediate e) (.ofImmediate a) flag
      NullCallWrapper call_kind) frame = some c) :
    c.countP Instr.isCompare = 0 ∧ transferRegisters c = [ip] ∧
    ∃ f, exec cfg env c 16 m = some f ∧
      (flag = InvokeFlag.CALL_FUNCTION →
        f.outcome = .fallthrough ∧
        f.trace = [Event.call (unsignedOf (addrMod cfg) iso.ArgumentsAdaptorTrampoline)] ∧
        ∃ m1, f.machine = env.callee (unsignedOf (addrMod cfg) iso.ArgumentsAdaptorTrampoline) m1 ∧
          m1.regP cfg r2 = unsignedOf (ptrMod cfg) a ∧ m1.regP cfg r4 = unsignedOf (ptrMod cfg) e) ∧
      (flag = InvokeFlag.JUMP_FUNCTION →
        f.outcome = .jump (unsignedOf (addrMod cfg) iso.ArgumentsAdaptorTrampoline) ∧
        f.trace = [] ∧
        f.machine.regP cfg r2 = unsignedOf (ptrMod cfg) a ∧
        f.machine.regP cfg r4 = unsignedOf (ptrMod cfg) e) := by
  have hflag : (InvokeFlag.CALL_FUNCTION == InvokeFlag.JUMP_FUNCTION) = false := rfl
  cases flag <;> cases call_kind <;> cases h64 : cfg.is64 <;> cases frame
  all_goals simp [hflag, codeOf, InvokeCode_Register, InvokePrologue, ParameterCount.ofImmediate,
    ParameterCount.is_immediate, ParameterCount.is_reg, ParameterCount.immediate, NullCallWrapper,
    SetCallKind, LoadSmiLiteral, Smi.FromInt, kSmiShift, Call_Register, Jump_Register, Call_Code,
    Call_Address, Jump_Code, Jump_intptr, b_Register, bind, mov, b,
    Operand.ofInt, Operand.immediate, h64, hne, hns, RelocMode.IsCodeTarget] at hcode
  all_goals obtain ⟨hok, hC⟩ := hcode
  all_goals rw [exec_eq_run cfg env c _ 16 m hC]
  all_goals subst hC
  all_goals refine ⟨by simp [Instr.isCompare], by simp [transferRegisters], ?_⟩
  all_goals simp only [run_iihf, run_iilf, run_llihf, run_llilf, run_basr, run_bcr, run_bind, run_nil,
    condHolds_al, Bool.true_and, List.nil_append, if_neg ip_ne_r0, bne_iff_ne, ne_eq,
    not_false_eq_true, decide_True, decide_not, Bool.not_false, ip_ne_r0, if_true,
    setReg_regs_self, setReg_regs_ne _ _ _ _ r4_ne_r2, setReg_regs_ne _ _ _ _ ip_ne_r2,
    setReg_regs_ne _ _ _ _ ip_ne_r4, setReg_regs_ne _ _ _ _ ip_ne_r7, mov_value]
  all_goals first
    | simp only [call_target64m cfg h64, if_false, if_true, true_implies, forall_const]
    | simp only [call_target31 cfg h64, if_false, if_true, true_implies, forall_const]
  all_goals refine ⟨_, rfl, ?_⟩
  all_goals simp only [reduceCtorEq, false_implies, true_implies, and_true, true_and, forall_const]
  all_goals first
    | refine ⟨_, rfl, ?_, ?_⟩
    | refine ⟨?_, ?_⟩
  all_goals simp only [Machine.regP, Machine.setRegP, ptrMod, h64, if_true, if_false, Bool.false_eq_true,
        setReg_regs_self, setReg_regs_ne _ _ _ _ r2_ne_r4, setReg_regs_ne _ _ _ _ r2_ne_r7,
        setReg_regs_ne _ _ _ _ r2_ne_ip, setReg_regs_ne _ _ _ _ r2_ne_r14,
        setReg_regs_ne _ _ _ _ r4_ne_r7, setReg_regs_ne _ _ _ _ r4_ne_ip,
        setReg_regs_ne _ _ _ _ r4_ne_r14, mov_value, mov_regP31, unsignedOf_mod_self M64]
/-- C4 (witness): expected = actual = 3 on the 64-bit target, a call from code
with a frame. -/
theorem InvokeCode_matching_counts_witness :
    ((3 : Int) = 3 ∨ (3 : Int) = (sampleIsolate cfg64).kDontAdaptArgumentsSentinel) ∧
    codeOf (InvokeCode_Register cfg64 (sampleIsolate cfg64) r5 (.ofImmediate 3) (.ofImmediate 3)
      .CALL_FUNCTION NullCallWrapper .CALL_AS_FUNCTION) true =
        some [.llihf r7 1, .basr r14 r5, .bind 0] ∧
    [Instr.llihf r7 1, .basr r14 r5, .bind 0].countP Instr.isTransfer = 1 ∧
    [Instr.llihf r7 1, .basr r14 r5, .bind 0].countP Instr.isCompare = 0 :=
  ⟨Or.inl rfl, rfl,
    (InvokeCode_matching_counts cfg64 (sampleIsolate cfg64) r5 3 3 .CALL_FUNCTION .CALL_AS_FUNCTION
      true _ (Or.inl rfl) rfl).2.1,
    (InvokeCode_matching_counts cfg64 (sampleIsolate cfg64) r5 3 3 .CALL_FUNCTION .CALL_AS_FUNCTION
      true _ (Or.inl rfl) rfl).2.2.1⟩

/-- C5 (witness): expected = 2, actual = 5 on the 64-bit target: the adaptor is
called with `r2 = 5` and `r4 = 2`. -/
theorem InvokeCode_mismatch_adaptor_witness :
    (2 : Int) ≠ 5 ∧ (2 : Int) ≠ (sampleIsolate cfg64).kDontAdaptArgumentsSentinel ∧
    ∃ c, codeOf (InvokeCode_Register cfg64 (sampleIsolate cfg64) r5 (.ofImmediate 2)
        (.ofImmediate 5) .CALL_FUNCTION NullCallWrapper .CALL_AS_FUNCTION) true = some c ∧
      ∃ f, exec cfg64 sampleEnv c 16 (allocMachine64 0 0) = some f ∧
        f.outcome = .fallthrough ∧
        f.trace = [Event.call 20480] ∧
        ∃ m1, f.machine = sampleEnv.callee 20480 m1 ∧
          m1.regP cfg64 r2 = 5 ∧ m1.regP cfg64 r4 = 2 :=
  ⟨by decide, by decide, _, rfl,
    (InvokeCode_mismatch_adaptor cfg64 (sampleIsolate cfg64) sampleEnv (allocMachine64 0 0) r5 2 5
      .CALL_FUNCTION .CALL_AS_FUNCTION true _ (by decide) (by decide) rfl).2.2.imp
      (fun _ h => ⟨h.1, h.2.1 rfl⟩)⟩

/-! ## Straight-line code -/

theorem step_of_isStraight (cfg : Config) (link : Nat) (m : Machine) (i : Instr)
    (h : i.isStraight = true) : step cfg link m i = .continue (i.effect cfg m) := by
  cases i <;> first | rfl | exact absurd h (by simp [Instr.isStraight])

theorem runStraight_nil (cfg : Config) (m : Machine) : runStraight cfg [] m = m := rfl

theorem runStraight_cons (cfg : Config) (i : Instr) (rest : List Instr) (m : Machine) :
    runStraight cfg (i :: rest) m = runStraight cfg rest (i.effect cfg m) := rfl

theorem runStraight_append (cfg : Config) (a b : List Instr) (m : Machine) :
    runStraight cfg (a ++ b) m = runStraight cfg b (runStraight cfg a m) := by
  induction a generalizing m with
  | nil => rfl
  | cons i a ih => exact ih _

/-- Running a straight-line prefix takes one unit of fuel for each instruction
and leaves the trace alone. -/
theorem run_straight (cfg : Config) (env : Env) (code : List Instr) (a rest : List Instr)
    (h : ∀ i ∈ a, i.isStraight = true) (fuel : Nat) (m : Machine) (tr : List Event) :
    run cfg env code (fuel + a.length) (a ++ rest) m tr =
      run cfg env code fuel rest (runStraight cfg a m) tr := by
  induction a generalizing m with
  | nil => rfl
  | cons i a ih =>
    have hi : i.isStraight = true := h i (List.mem_cons_self _ _)
    have e : fuel + (i :: a).length = (fuel + a.length) + 1 := by simp [Nat.add_assoc]
    rw [e]
    show Next.resume env code (run cfg env code (fuel + a.length)) (a ++ rest) tr
      (step cfg _ m i) = _
    rw [step_of_isStraight cfg _ m i hi]
    exact ih (fun j hj => h j (List.mem_cons_of_mem _ hj)) _

theorem exec_straight (cfg : Config) (env : Env) (code : List Instr)
    (h : ∀ i ∈ code, i.isStraight = true) (fuel : Nat) (m : Machine) :
    exec cfg env code (fuel + 1 + code.length) m =
      some ⟨.fallthrough, runStraight cfg code m, []⟩ := by
  have := run_straight cfg env code code [] h (fuel + 1) m []
  rw [List.append_nil] at this
  exact this
/-! ## Pointer-size operations on the machine -/

theorem ptrMod_pos (cfg : Config) : 0 < ptrMod cfg := by
  unfold ptrMod M64 M32; split <;> decide

theorem addrMod_dvd_ptrMod (cfg : Config) : addrMod cfg ∣ ptrMod cfg := by
  unfold addrMod ptrMod M64 M32; split
  · exact dvd_rfl
  · exact ⟨2, by decide⟩

theorem ptrMod_eq_256_pow (cfg : Config) : ptrMod cfg = 256 ^ kPointerSize cfg := by
  unfold ptrMod kPointerSize M64 M32; split <;> decide

theorem setRegP_mem (cfg : Config) (m : Machine) (r : Register) (v : Nat) :
    (m.setRegP cfg r v).mem = m.mem := by
  unfold Machine.setRegP; split <;> rfl

theorem setRegP_cc (cfg : Config) (m : Machine) (r : Register) (v : Nat) :
    (m.setRegP cfg r v).cc = m.cc := by
  unfold Machine.setRegP; split <;> rfl

theorem setRegP_fregs (cfg : Config) (m : Machine) (r : Register) (v : Nat) :
    (m.setRegP cfg r v).fregs = m.fregs := by
  unfold Machine.setRegP; split <;> rfl

theorem setRegP_regs_ne (cfg : Config) (m : Machine) (r x : Register) (v : Nat) (h : x ≠ r) :
    (m.setRegP cfg r v).regs x = m.regs x := by
  unfold Machine.setRegP; split <;> simp [Machine.setReg, h]

theorem regP_setRegP_self (cfg : Config) (m : Machine) (r : Register) (v : Nat) :
    (m.setRegP cfg r v).regP cfg r = v % ptrMod cfg := by
  unfold Machine.setRegP Machine.regP ptrMod
  split <;> simp [Machine.setReg, setLo32_mod]

theorem regP_setRegP_ne (cfg : Config) (m : Machine) (r x : Register) (v : Nat) (h : x ≠ r) :
    (m.setRegP cfg r v).regP cfg x = m.regP cfg x := by
  unfold Machine.regP; rw [setRegP_regs_ne cfg m r x v h]

theorem addr_eq_regP_mod (cfg : Config) (m : Machine) (r : Register) :
    m.addr cfg r = m.regP cfg r % addrMod cfg := by
  unfold Machine.addr Machine.regP
  exact (Nat.mod_mod_of_dvd _ (addrMod_dvd_ptrMod cfg)).symm

theorem addr_setRegP_self (cfg : Config) (m : Machine) (r : Register) (v : Nat) :
    (m.setRegP cfg r v).addr cfg r = v % addrMod cfg := by
  rw [addr_eq_regP_mod, regP_setRegP_self, Nat.mod_mod_of_dvd _ (addrMod_dvd_ptrMod cfg)]

theorem addr_setRegP_ne (cfg : Config) (m : Machine) (r x : Register) (v : Nat) (h : x ≠ r) :
    (m.setRegP cfg r v).addr cfg x = m.addr cfg x := by
  unfold Machine.addr; rw [setRegP_regs_ne cfg m r x v h]

theorem regP_store (cfg : Config) (m : Machine) (a n v : Nat) (x : Register) :
    (m.store cfg a n v).regP cfg x = m.regP cfg x := rfl

theorem addr_store (cfg : Config) (m : Machine) (a n v : Nat) (x : Register) :
    (m.store cfg a n v).addr cfg x = m.addr cfg x := rfl

theorem store_fregs (cfg : Config) (m : Machine) (a n v : Nat) :
    (m.store cfg a n v).fregs = m.fregs := rfl

theorem regP_lt (cfg : Config) (m : Machine) (r : Register) : m.regP cfg r < ptrMod cfg :=
  Nat.mod_lt _ (ptrMod_pos cfg)

theorem addr_lt (cfg : Config) (m : Machine) (r : Register) : m.addr cfg r < addrMod cfg :=
  Nat.mod_lt _ (addrMod_pos cfg)

theorem unsignedOf_congr_mod (n : Nat) (x y : Int) (h : x % (n : Int) = y % (n : Int)) :
    unsignedOf n x = unsignedOf n y := by
  unfold unsignedOf; rw [h]

theorem effAddr_disp (cfg : Config) (m : Machine) (rb : Register) (off : Int) (h : rb ≠ r0) :
    effAddr cfg m ⟨rb, r0, off⟩ = unsignedOf (addrMod cfg) ((m.addr cfg rb : Int) + off) := by
  rw [effAddr_base cfg m rb off h]
  apply unsignedOf_congr_mod
  unfold Machine.addr
  rw [Int.add_emod, Int.add_emod (((m.regs rb % addrMod cfg : Nat) : Int))]
  congr 2
  rw [Int.natCast_mod, Int.emod_emod_of_dvd _ dvd_rfl]

/-! ### What the pointer-size instructions do -/

theorem store_congr (cfg : Config) (m : Machine) (a n v w : Nat) (h : v % 256 ^ n = w % 256 ^ n) :
    m.store cfg a n v = m.store cfg a n w := by
  unfold Machine.store; rw [writeBytes_congr_mod cfg m.mem a n v w h]

theorem setLo32_congr (v x y : Nat) (h : x % M32 = y % M32) : setLo32 v x = setLo32 v y := by
  unfold setLo32; rw [h]

theorem effect_ldP (cfg : Config) (m : Machine) (d : Register) (op : MemOperand) :
    (ldP cfg d op).effect cfg m = m.setRegP cfg d (loadPtr cfg m.mem (effAddr cfg m op)) := by
  unfold ldP Machine.setRegP loadPtr kPointerSize
  cases h : cfg.is64
  · simp only [Bool.false_eq_true, if_false]
    split <;> rfl
  · simp only [if_true]
    have hlt := readBytes_lt cfg m.mem (effAddr cfg m op) 8
    show m.setReg d (readBytes cfg m.mem (effAddr cfg m op) 8) = _
    rw [Nat.mod_eq_of_lt (by simpa [M64] using hlt)]

theorem effect_stP (cfg : Config) (m : Machine) (s : Register) (op : MemOperand) :
    (stP cfg s op).effect cfg m =
      m.store cfg (effAddr cfg m op) (kPointerSize cfg) (m.regP cfg s) := by
  have e : m.store cfg (effAddr cfg m op) (kPointerSize cfg) (m.regs s) =
      m.store cfg (effAddr cfg m op) (kPointerSize cfg) (m.regP cfg s) := by
    apply store_congr
    unfold Machine.regP
    rw [ptrMod_eq_256_pow, Nat.mod_mod]
  rw [← e]
  unfold stP kPointerSize
  cases h : cfg.is64
  · simp only [Bool.false_eq_true, if_false]
    split <;> rfl
  · rfl

theorem effAddr_lt (cfg : Config) (m : Machine) (op : MemOperand) : effAddr cfg m op < addrMod cfg :=
  unsignedOf_lt _ _ (addrMod_pos cfg)

theorem addrMod_le_M64 (cfg : Config) : addrMod cfg ≤ M64 := by
  unfold addrMod M64; split <;> decide

theorem effect_lay (cfg : Config) (m : Machine) (r : Register) (op : MemOperand) :
    (Instr.lay r op).effect cfg m = m.setRegP cfg r (effAddr cfg m op) := by
  show (if cfg.is64 then m.setReg r (effAddr cfg m op)
    else m.setReg r (setLo32 (m.regs r) (effAddr cfg m op))) = _
  unfold Machine.setRegP
  rw [Nat.mod_eq_of_lt (lt_of_lt_of_le (effAddr_lt cfg m op) (addrMod_le_M64 cfg))]

theorem effect_la (cfg : Config) (m : Machine) (r : Register) (op : MemOperand) :
    (Instr.la r op).effect cfg m = m.setRegP cfg r (effAddr cfg m op) :=
  effect_lay cfg m r op

theorem effect_lrP (cfg : Config) (m : Machine) (d s : Register) :
    (lrP cfg d s).effect cfg m = m.setRegP cfg d (m.regP cfg s) := by
  unfold lrP Machine.setRegP Machine.regP ptrMod
  cases h : cfg.is64
  · simp only [Bool.false_eq_true, if_false]
    show m.setReg d (setLo32 (m.regs d) (m.regs s)) = _
    rw [setLo32_congr _ _ (m.regs s % M32) (Nat.mod_mod _ _).symm]
  · simp only [if_true]
    show m.setReg d (m.regs s % M64) = _
    rw [Nat.mod_mod]

theorem setReg_setReg (m : Machine) (r : Register) (v w : Nat) :
    (m.setReg r v).setReg r w = m.setReg r w := by
  unfold Machine.setReg
  congr 1
  funext x
  by_cases h : x = r <;> simp [h]

theorem runStraight_movCode (cfg : Config) (d : Register) (imm : Int) (rest : List Instr)
    (m : Machine) :
    runStraight cfg (movCode cfg d imm ++ rest) m =
      runStraight cfg rest (m.setRegP cfg d (unsignedOf (ptrMod cfg) imm)) := by
  unfold movCode Machine.setRegP ptrMod
  cases h : cfg.is64
  · simp only [Bool.false_eq_true, if_false, List.cons_append, List.nil_append]
    show runStraight cfg rest (m.setReg d (setLo32 (m.regs d) (unsignedOf M32 (toInt32 imm)))) = _
    rw [setLo32_congr _ _ (unsignedOf M32 imm)
      (by simp only [unsignedOf, toInt32, M32]; omega)]
  · simp only [if_true, List.cons_append, List.nil_append]
    show runStraight cfg rest
      ((m.setReg d (setHi32 (m.regs d) (unsignedOf M32 (toInt32 (toInt64 imm / 4294967296))))).setReg d
        (setLo32 ((m.setReg d (setHi32 (m.regs d)
            (unsignedOf M32 (toInt32 (toInt64 imm / 4294967296))))).regs d)
          (unsignedOf M32 (toInt32 (toInt64 imm))))) = _
    rw [setReg_setReg, setReg_regs, if_pos rfl, mov_value, unsignedOf_mod_self]

theorem effect_litInstr (cfg : Config) (m : Machine) (d : Register) (value : Int) :
    (litInstr cfg d value).effect cfg m = m.setRegP cfg d (litValue cfg value) := by
  have h32 : toInt32 (toInt32 value) = toInt32 value := by simp only [toInt32]; omega
  have h64 : toInt64 (toInt32 value) = toInt32 value := by simp only [toInt32, toInt64]; omega
  unfold litInstr litValue Machine.setRegP toIntPtr ptrMod
  cases h : cfg.is64
  · simp only [Bool.false_eq_true, if_false, h32]
    by_cases hi : is_int16 (toInt32 value) = true
    · simp only [hi, if_true]
      show m.setReg d (setLo32 (m.regs d) (unsignedOf M32 (toInt16 (toInt32 value)))) = _
      rw [toInt16_of_is_int16 _ hi]
    · simp only [hi, Bool.false_eq_true, if_false]
      show m.setReg d (setLo32 (m.regs d) (unsignedOf M32 (toInt32 value))) = _
      rw [setLo32_congr _ _ (unsignedOf M32 value)
        (by simp only [unsignedOf, toInt32, M32]; omega)]
  · simp only [if_true, h64]
    by_cases hi : is_int16 (toInt32 value) = true
    · simp only [hi, if_true]
      show m.setReg d (unsignedOf M64 (toInt16 (toInt32 value))) = _
      rw [toInt16_of_is_int16 _ hi, unsignedOf_mod_self]
    · simp only [hi, Bool.false_eq_true, if_false]
      show m.setReg d (unsignedOf M32 (toInt32 value)) = _
      congr 1
      simp only [unsignedOf, toInt32, M32, M64]; omega
/-! ## What the primitive emitters emit -/

theorem LoadP_run_fits (cfg : Config) (dst rb rx : Register) (off : Int) (scratch : Register)
    (st : Asm) (h : is_int20 off = true) :
    (LoadP cfg dst ⟨rb, rx, off⟩ scratch).run st = (emit (ldP cfg dst ⟨rb, rx, off⟩)).run st := by
  unfold LoadP ldP
  cases cfg.is64 <;> by_cases h12 : is_uint12 off = true <;> simp [h, h12]

theorem StoreP_run_fits (cfg : Config) (src rb rx : Register) (off : Int) (scratch : Register)
    (st : Asm) (h : is_int20 off = true) :
    (StoreP cfg src ⟨rb, rx, off⟩ scratch).run st = (emit (stP cfg src ⟨rb, rx, off⟩)).run st := by
  unfold StoreP StoreW stP
  cases cfg.is64 <;> by_cases h12 : is_uint12 off = true <;> simp [h, h12]

theorem LoadRR_run (cfg : Config) (dst src : Register) (st : Asm) :
    (LoadRR cfg dst src).run st = (emit (lrP cfg dst src)).run st := rfl

/-- Appending a list of instructions. -/
theorem emit_two (i j : Instr) (st : Asm) :
    ((emit j).run ((emit i).run st).2) =
      ((), { st with code := st.code ++ [i, j],
                     failed := st.failed || !([i, j].all Instr.encodable) }) := by
  simp [Bool.or_assoc]

theorem mov_run (cfg : Config) (dst : Register) (src : Operand) (st : Asm) :
    (mov cfg dst src).run st =
      ((), { st with code := st.code ++ movCode cfg dst src.imm_,
                     failed := st.failed || !((movCode cfg dst src.imm_).all Instr.encodable) }) := by
  unfold mov movCode Operand.immediate
  cases cfg.is64 <;> simp [Bool.or_assoc]

theorem LoadIntLiteral_run (cfg : Config) (dst : Register) (value : Int) (st : Asm) :
    (LoadIntLiteral cfg dst value).run st = (emit (litInstr cfg dst value)).run st := by
  unfold LoadIntLiteral Load_Operand litInstr Operand.ofInt Operand.immediate
  cases cfg.is64 <;> by_cases h : is_int16 (toIntPtr cfg (toInt32 value)) = true <;> simp [h]

theorem is_int20_words (cfg : Config) (k : Int) (h1 : -65536 ≤ k) (h2 : k ≤ 65535) :
    is_int20 (k * (kPointerSize cfg : Int)) = true := by
  unfold is_int20 kPointerSize
  cases cfg.is64 <;> simp <;> omega

theorem is_int20_zero : is_int20 0 = true := by decide

theorem is_int20_neg_words (cfg : Config) (k : Int) (h1 : -65535 ≤ k) (h2 : k ≤ 65535) :
    is_int20 (-(k * (kPointerSize cfg : Int))) = true := by
  have hw : (kPointerSize cfg : Int) = 8 ∨ (kPointerSize cfg : Int) = 4 := by
    unfold kPointerSize; cases cfg.is64 <;> simp
  unfold is_int20
  rw [decide_eq_true_eq]
  rcases hw with hw | hw <;> rw [hw] <;> omega

theorem is_int20_word (cfg : Config) : is_int20 (kPointerSize cfg : Int) = true := by
  unfold is_int20 kPointerSize
  cases cfg.is64 <;> simp

theorem LoadImmP_run (cfg : Config) (dst : Register) (opnd : Operand) (st : Asm) :
    (LoadImmP cfg dst opnd).run st = (emit (liP cfg dst opnd.imm_)).run st := rfl

theorem StoreMultipleP_run_fits (cfg : Config) (src1 src2 rb rx : Register) (off : Int)
    (st : Asm) (h : is_int20 off = true) :
    (StoreMultipleP cfg src1 src2 ⟨rb, rx, off⟩).run st =
      (emit (stmP cfg src1 src2 ⟨rb, rx, off⟩)).run st := by
  unfold StoreMultipleP stmP
  cases cfg.is64 <;> by_cases h12 : is_uint12 off = true <;> simp [h, h12]

theorem LoadSmiLiteral_run (cfg : Config) (dst : Register) (smi : Int) (st : Asm) :
    (LoadSmiLiteral cfg dst smi).run st =
      (emit (smiInstr cfg dst smi)).run
        { st with failed := st.failed || (cfg.is64 && !(smi % 4294967296 == 0)) } := by
  unfold LoadSmiLiteral smiInstr
  cases cfg.is64 <;> simp

theorem code_of_ite {c : Prop} [Decidable c] {L code : List Instr}
    (h : (if c then none else some L) = some code) : code = L ∧ ¬ c := by
  by_cases hc : c
  · rw [if_pos hc] at h; exact absurd h (by simp)
  · rw [if_neg hc] at h; exact ⟨(Option.some.inj h).symm, hc⟩

theorem isStraight_stP (cfg : Config) (s : Register) (op : MemOperand) :
    (stP cfg s op).isStraight = true := by
  unfold stP; split
  · rfl
  · split <;> rfl

theorem isStraight_ldP (cfg : Config) (s : Register) (op : MemOperand) :
    (ldP cfg s op).isStraight = true := by
  unfold ldP; split
  · rfl
  · split <;> rfl

theorem isStraight_stmP (cfg : Config) (a b : Register) (op : MemOperand) :
    (stmP cfg a b op).isStraight = true := by
  unfold stmP; split
  · rfl
  · split <;> rfl

theorem isStraight_lrP (cfg : Config) (d s : Register) : (lrP cfg d s).isStraight = true := by
  unfold lrP; split <;> rfl

theorem isStraight_liP (cfg : Config) (d : Register) (i : Int) : (liP cfg d i).isStraight = true := by
  unfold liP; split <;> rfl

theorem isStraight_smiInstr (cfg : Config) (d : Register) (i : Int) :
    (smiInstr cfg d i).isStraight = true := by
  unfold smiInstr; split <;> rfl

theorem isStraight_litInstr (cfg : Config) (d : Register) (i : Int) :
    (litInstr cfg d i).isStraight = true := by
  unfold litInstr; split <;> split <;> rfl

theorem isStraight_movCode (cfg : Config) (d : Register) (i : Int) :
    ∀ x ∈ movCode cfg d i, x.isStraight = true := by
  unfold movCode; split <;> simp [Instr.isStraight]
/-! ## Words in memory -/

theorem readBytes_mod_addr (cfg : Config) (mem : Nat → Nat) (a : Nat) :
    ∀ n, readBytes cfg mem (a % addrMod cfg) n = readBytes cfg mem a n := by
  intro n
  induction n with
  | zero => rfl
  | succ n ih => simp only [readBytes, ih, Nat.mod_add_mod]

theorem writeBytes_mod_addr (cfg : Config) (mem : Nat → Nat) (a : Nat) :
    ∀ n v, writeBytes cfg mem (a % addrMod cfg) n v = writeBytes cfg mem a n v := by
  intro n
  induction n with
  | zero => intro v; rfl
  | succ n ih => intro v; funext x; simp only [writeBytes, ih, Nat.mod_add_mod]

theorem kPointerSize_le_addr (cfg : Config) : kPointerSize cfg ≤ addrMod cfg := by
  unfold kPointerSize addrMod M64; split <;> decide

theorem loadPtr_write_same (cfg : Config) (mem : Nat → Nat) (a v : Nat) :
    loadPtr cfg (writeBytes cfg mem a (kPointerSize cfg) v) a = v % ptrMod cfg := by
  unfold loadPtr
  rw [readBytes_writeBytes_same cfg mem a _ v (kPointerSize_le_addr cfg), ptrMod_eq_256_pow]

theorem Disjoint.symm {cfg : Config} {a n b k : Nat} (h : Disjoint cfg a n b k) :
    Disjoint cfg b k a n := fun j hj i hi => (h i hi j hj).symm

theorem readBytes_write_of_disjoint (cfg : Config) (mem : Nat → Nat) (a b n k v : Nat)
    (h : Disjoint cfg b k a n) :
    readBytes cfg (writeBytes cfg mem a n v) b k = readBytes cfg mem b k :=
  readBytes_writeBytes_disjoint cfg mem a b n k v h

theorem loadPtr_write_of_disjoint (cfg : Config) (mem : Nat → Nat) (a b n v : Nat)
    (h : Disjoint cfg b (kPointerSize cfg) a n) :
    loadPtr cfg (writeBytes cfg mem a n v) b = loadPtr cfg mem b :=
  readBytes_writeBytes_disjoint cfg mem a b n _ v h

theorem Disjoint.mod_left {cfg : Config} {a n b k : Nat} (h : Disjoint cfg a n b k) :
    Disjoint cfg (a % addrMod cfg) n b k := fun i hi j hj => by
  rw [Nat.mod_add_mod]; exact h i hi j hj

theorem Disjoint.mod_right {cfg : Config} {a n b k : Nat} (h : Disjoint cfg a n b k) :
    Disjoint cfg a n (b % addrMod cfg) k := fun i hi j hj => by
  rw [Nat.mod_add_mod]; exact h i hi j hj

/-- A part of a range is disjoint from what the range is disjoint from. -/
theorem Disjoint.sub_right {cfg : Config} {a n b k : Nat} (h : Disjoint cfg a n b k)
    (off k1 : Nat) (hk : off + k1 ≤ k) : Disjoint cfg a n (b + off) k1 := fun i hi j hj => by
  rw [Nat.add_assoc]; exact h i hi (off + j) (by omega)

theorem Disjoint.sub_left {cfg : Config} {a n b k : Nat} (h : Disjoint cfg a n b k)
    (off n1 : Nat) (hn : off + n1 ≤ n) : Disjoint cfg (a + off) n1 b k :=
  (h.symm.sub_right off n1 hn).symm

/-- Two ranges at different offsets from the same address are disjoint when
they do not overlap and do not wrap around onto each other. -/
theorem disjoint_offsets (cfg : Config) (a i n j k : Nat) (h : i + n ≤ j ∨ j + k ≤ i)
    (h1 : j + k ≤ addrMod cfg + i) (h2 : i + n ≤ addrMod cfg + j) :
    Disjoint cfg (a + i) n (a + j) k := by
  intro x hx y hy he
  rcases h with h | h
  · have := add_mod_ne_of_lt (addrMod cfg) (a + i) x (j + y - i) (by omega) (by omega)
    rw [show a + i + (j + y - i) = a + j + y by omega] at this
    exact this he
  · have := add_mod_ne_of_lt (addrMod cfg) (a + j) y (i + x - j) (by omega) (by omega)
    rw [show a + j + (i + x - j) = a + i + x by omega] at this
    exact this he.symm

theorem slot_lt (cfg : Config) (a : Nat) (k : Int) : slot cfg a k < addrMod cfg :=
  unsignedOf_lt _ _ (addrMod_pos cfg)

theorem unsignedOf_nat_add (n : Nat) (a k : Nat) :
    unsignedOf n ((a : Int) + (k : Int)) = (a + k) % n := by
  unfold unsignedOf
  rw [← Nat.cast_add, ← Int.natCast_mod, Int.toNat_natCast]

theorem unsignedOf_add_mod (n : Nat) (x y : Int) (h : 0 < n) :
    unsignedOf n ((unsignedOf n x : Int) + y) = unsignedOf n (x + y) := by
  apply unsignedOf_congr_mod
  unfold unsignedOf
  rw [Int.toNat_of_nonneg (Int.emod_nonneg _ (by omega)), Int.emod_add_emod]

theorem kPointerSize_cases (cfg : Config) :
    (kPointerSize cfg = 8 ∧ addrMod cfg = M64 ∧ ptrMod cfg = M64 ∧ cfg.is64 = true) ∨
    (kPointerSize cfg = 4 ∧ addrMod cfg = 2147483648 ∧ ptrMod cfg = M32 ∧ cfg.is64 = false) := by
  unfold kPointerSize addrMod ptrMod
  cases cfg.is64 <;> simp

theorem word_span (cfg : Config) (d : Nat) (hd : d ≤ 1048576) :
    d * kPointerSize cfg + kPointerSize cfg ≤ addrMod cfg := by
  rcases kPointerSize_cases cfg with ⟨h1, h2, _, _⟩ | ⟨h1, h2, _, _⟩
  · rw [h1, h2]; simp only [M64]; omega
  · rw [h1, h2]; omega

theorem slot_slot (cfg : Config) (a : Nat) (j k : Int) :
    slot cfg (slot cfg a j) k = slot cfg a (j + k) := by
  unfold slot
  rw [unsignedOf_add_mod _ _ _ (addrMod_pos cfg)]
  congr 1; ring

theorem slot_zero (cfg : Config) (a : Nat) : slot cfg a 0 = a % addrMod cfg := by
  unfold slot unsignedOf
  rw [zero_mul, add_zero, ← Int.natCast_mod, Int.toNat_natCast]

theorem slot_nat (cfg : Config) (a k : Nat) :
    slot cfg a (k : Int) = (a + k * kPointerSize cfg) % addrMod cfg := by
  unfold slot
  rw [← Nat.cast_mul, unsignedOf_nat_add]

theorem slot_add_nat (cfg : Config) (a : Nat) (j : Int) (d : Nat) :
    slot cfg a (j + d) = (slot cfg a j + d * kPointerSize cfg) % addrMod cfg := by
  rw [← slot_slot, slot_nat]

theorem slot_mod (cfg : Config) (a : Nat) (k : Int) :
    slot cfg (a % addrMod cfg) k = slot cfg a k := by
  rw [← slot_zero, slot_slot, zero_add]

theorem slot_mod_self (cfg : Config) (a : Nat) (k : Int) :
    slot cfg a k % addrMod cfg = slot cfg a k := Nat.mod_eq_of_lt (slot_lt cfg a k)

/-- Different words counted from the same address do not overlap. -/
theorem disjoint_slots (cfg : Config) (a : Nat) (j k : Int) (h : j ≠ k)
    (h1 : j - k ≤ 1048576) (h2 : k - j ≤ 1048576) :
    Disjoint cfg (slot cfg a j) (kPointerSize cfg) (slot cfg a k) (kPointerSize cfg) := by
  have key : ∀ (x : Int) (d : Nat), 1 ≤ d → d ≤ 1048576 →
      Disjoint cfg (slot cfg a x) (kPointerSize cfg) (slot cfg a (x + d)) (kPointerSize cfg) := by
    intro x d hd1 hd2
    rw [slot_add_nat]
    apply Disjoint.mod_right
    have hs := word_span cfg d hd2
    have hp : kPointerSize cfg ≤ d * kPointerSize cfg := Nat.le_mul_of_pos_left _ hd1
    have := disjoint_offsets cfg (slot cfg a x) 0 (kPointerSize cfg) (d * kPointerSize cfg)
      (kPointerSize cfg) (Or.inl (by omega)) (by omega) (by omega)
    simpa using this
  rcases lt_or_gt_of_ne h with hlt | hgt
  · have := key j (k - j).toNat (by omega) (by omega)
    rwa [Int.toNat_of_nonneg (by omega), add_sub_cancel] at this
  · have := key k (j - k).toNat (by omega) (by omega)
    rw [Int.toNat_of_nonneg (by omega), add_sub_cancel] at this
    exact this.symm

theorem loadPtr_write_slot_ne (cfg : Config) (mem : Nat → Nat) (a : Nat) (j k : Int) (v : Nat)
    (h : j ≠ k) (h1 : j - k ≤ 1048576) (h2 : k - j ≤ 1048576) :
    loadPtr cfg (writeBytes cfg mem (slot cfg a j) (kPointerSize cfg) v) (slot cfg a k) =
      loadPtr cfg mem (slot cfg a k) :=
  loadPtr_write_of_disjoint cfg mem _ _ _ v (disjoint_slots cfg a k j (Ne.symm h) h2 h1)

/-- A word of a block is disjoint from what the block is disjoint from. -/
theorem disjoint_slot_of_block {cfg : Config} {b n a c : Nat}
    (h : Disjoint cfg b n a (c * kPointerSize cfg)) (k : Nat) (hk : k < c) :
    Disjoint cfg b n (slot cfg a k) (kPointerSize cfg) := by
  rw [slot_nat]
  apply Disjoint.mod_right
  apply h.sub_right
  calc k * kPointerSize cfg + kPointerSize cfg = (k + 1) * kPointerSize cfg := by ring
    _ ≤ c * kPointerSize cfg := Nat.mul_le_mul_right _ hk

/-! ### Copying bytes -/

theorem copyBytes_of_ne (cfg : Config) (dst src : Nat) (mem : Nat → Nat) (x : Nat) :
    ∀ n, (∀ i, i < n → x ≠ (dst + i) % addrMod cfg) → copyBytes cfg dst src n mem x = mem x := by
  intro n
  induction n with
  | zero => intro _; rfl
  | succ n ih =>
    intro h
    have h1 : x ≠ (dst + n) % addrMod cfg := h n (Nat.lt_succ_self n)
    simp only [copyBytes, if_neg h1]
    exact ih (fun i hi => h i (Nat.lt_succ_of_lt hi))

theorem readBytes_pointwise (cfg : Config) (mem1 mem2 : Nat → Nat) (a b : Nat) :
    ∀ n : Nat, (∀ i, i < n →
        mem1 ((a + i) % addrMod cfg) % 256 = mem2 ((b + i) % addrMod cfg) % 256) →
      readBytes cfg mem1 a n = readBytes cfg mem2 b n := by
  intro n
  induction n with
  | zero => intro _; rfl
  | succ n ih =>
    intro h
    simp only [readBytes]
    rw [ih (fun i hi => h i (Nat.lt_succ_of_lt hi)), h n (Nat.lt_succ_self n)]

theorem copyBytes_at (cfg : Config) (dst src : Nat) (mem : Nat → Nat) :
    ∀ n, n ≤ addrMod cfg → Disjoint cfg dst n src n → ∀ i, i < n →
      copyBytes cfg dst src n mem ((dst + i) % addrMod cfg) = mem ((src + i) % addrMod cfg) % 256 := by
  intro n
  induction n with
  | zero => intro _ _ i hi; omega
  | succ n ih =>
    intro hn hd i hi
    have hd' : Disjoint cfg dst n src n := fun x hx y hy => hd x (by omega) y (by omega)
    by_cases hin : i = n
    · subst hin
      simp only [copyBytes, if_true]
      rw [copyBytes_of_ne cfg dst src mem _ i (fun j hj => (hd j (by omega) i (by omega)).symm)]
    · have hlt : i < n := by omega
      have hne : (dst + i) % addrMod cfg ≠ (dst + n) % addrMod cfg :=
        add_mod_ne_of_lt _ dst i n hlt (by omega)
      simp only [copyBytes, if_neg hne]
      exact ih (by omega) hd' i hlt

theorem readBytes_copyBytes (cfg : Config) (dst src n : Nat) (mem : Nat → Nat)
    (hn : n ≤ addrMod cfg) (hd : Disjoint cfg dst n src n) :
    readBytes cfg (copyBytes cfg dst src n mem) dst n = readBytes cfg mem src n := by
  apply readBytes_pointwise
  intro i hi
  rw [copyBytes_at cfg dst src mem n hn hd i hi, Nat.mod_mod]

theorem readBytes_copyBytes_of_disjoint (cfg : Config) (dst src n : Nat) (mem : Nat → Nat)
    (b k : Nat) (h : Disjoint cfg b k dst n) :
    readBytes cfg (copyBytes cfg dst src n mem) b k = readBytes cfg mem b k := by
  apply readBytes_congr
  intro i hi
  rw [copyBytes_of_ne cfg dst src mem _ n (fun j hj => h i hi j hj)]
/-! ### More instruction effects -/

theorem regP_setReg_self (cfg : Config) (m : Machine) (r : Register) (v : Nat) :
    (m.setReg r v).regP cfg r = v % ptrMod cfg := by
  simp [Machine.regP, Machine.setReg]

theorem regP_setReg_ne (cfg : Config) (m : Machine) (r x : Register) (v : Nat) (h : x ≠ r) :
    (m.setReg r v).regP cfg x = m.regP cfg x := by
  simp [Machine.regP, Machine.setReg, h]

theorem addr_setReg_self (cfg : Config) (m : Machine) (r : Register) (v : Nat) :
    (m.setReg r v).addr cfg r = v % addrMod cfg := by
  simp [Machine.addr, Machine.setReg]

theorem addr_setReg_ne (cfg : Config) (m : Machine) (r x : Register) (v : Nat) (h : x ≠ r) :
    (m.setReg r v).addr cfg x = m.addr cfg x := by
  simp [Machine.addr, Machine.setReg, h]

theorem effect_mvc (cfg : Config) (m : Machine) (d s : MemOperand) (n : Nat) :
    (Instr.mvc d s n).effect cfg m =
      { m with mem := copyBytes cfg (effAddr cfg m d) (effAddr cfg m s) n m.mem } := rfl

theorem effect_liP (cfg : Config) (m : Machine) (d : Register) (imm : Int) :
    (liP cfg d imm).effect cfg m = m.setRegP cfg d (unsignedOf (ptrMod cfg) (toInt16 imm)) := by
  unfold liP Machine.setRegP ptrMod
  cases h : cfg.is64
  · rfl
  · simp only [if_true]
    show m.setReg d (unsignedOf M64 (toInt16 imm)) = _
    rw [unsignedOf_mod_self]

theorem effect_smiInstr (cfg : Config) (m : Machine) (d : Register) (smi : Int) :
    (smiInstr cfg d smi).effect cfg m =
      m.setReg d (if cfg.is64 then unsignedOf M32 (smi / 4294967296) * M32
        else unsignedOf M32 smi) := by
  unfold smiInstr
  cases h : cfg.is64 <;> rfl

theorem smi_value (cfg : Config) (smi : Int) (h : cfg.is64 = true → smi % 4294967296 = 0) :
    (if cfg.is64 then unsignedOf M32 (smi / 4294967296) * M32 else unsignedOf M32 smi) %
      ptrMod cfg = unsignedOf (ptrMod cfg) smi := by
  unfold ptrMod
  cases h64 : cfg.is64
  · simp only [Bool.false_eq_true, if_false, unsignedOf_mod_self]
  · have := h h64
    simp only [if_true, unsignedOf, M32, M64]
    omega

theorem mem_rec_update (m : Machine) (f : Nat → Nat) : ({ m with mem := f } : Machine).mem = f := rfl

theorem regP_rec_update (cfg : Config) (m : Machine) (f : Nat → Nat) (x : Register) :
    ({ m with mem := f } : Machine).regP cfg x = m.regP cfg x := rfl

theorem addr_rec_update (cfg : Config) (m : Machine) (f : Nat → Nat) (x : Register) :
    ({ m with mem := f } : Machine).addr cfg x = m.addr cfg x := rfl

/-- The three registers `r7`, `r8`, `r9` stored by one store-multiple. -/
theorem effect_stmP_r7_r9 (cfg : Config) (m : Machine) (op : MemOperand) :
    (stmP cfg r7 r9 op).effect cfg m =
      ((m.store cfg (effAddr cfg m op) (kPointerSize cfg) (m.regP cfg r7)).store cfg
          (effAddr cfg m op + kPointerSize cfg) (kPointerSize cfg) (m.regP cfg r8)).store cfg
        (effAddr cfg m op + kPointerSize cfg + kPointerSize cfg) (kPointerSize cfg)
        (m.regP cfg r9) := by
  have e : ∀ (mm : Machine) (a : Nat) (r : Register),
      mm.store cfg a (kPointerSize cfg) (m.regs r) =
        mm.store cfg a (kPointerSize cfg) (m.regP cfg r) := by
    intro mm a r
    apply store_congr
    unfold Machine.regP
    rw [ptrMod_eq_256_pow, Nat.mod_mod]
  rw [← e, ← e, ← e]
  unfold stmP kPointerSize
  cases h : cfg.is64
  · simp only [Bool.false_eq_true, if_false]
    split <;> rfl
  · rfl

/-! ### Folding addresses into `slot` -/

theorem slot_fold (cfg : Config) (a : Nat) (k : Int) :
    unsignedOf (addrMod cfg) ((a : Int) + k * (kPointerSize cfg : Int)) = slot cfg a k := rfl

theorem slot_fold_neg (cfg : Config) (a : Nat) (k : Int) :
    unsignedOf (addrMod cfg) ((a : Int) + -(k * (kPointerSize cfg : Int))) = slot cfg a (-k) := by
  unfold slot; rw [neg_mul]

theorem slot_fold_zero (cfg : Config) (a : Nat) :
    unsignedOf (addrMod cfg) ((a : Int) + 0) = slot cfg a 0 := by
  unfold slot; rw [zero_mul]

theorem slot_fold_one (cfg : Config) (a : Nat) :
    unsignedOf (addrMod cfg) ((a : Int) + (kPointerSize cfg : Int)) = slot cfg a 1 := by
  unfold slot; rw [one_mul]

theorem unsignedOf_ptr_mod_addr (cfg : Config) (x : Int) :
    unsignedOf (ptrMod cfg) x % addrMod cfg = unsignedOf (addrMod cfg) x := by
  rcases kPointerSize_cases cfg with ⟨_, h2, h3, _⟩ | ⟨_, h2, h3, _⟩ <;> rw [h2, h3] <;>
    simp only [unsignedOf, M64, M32] <;> omega

theorem writeBytes_slot_add (cfg : Config) (mem : Nat → Nat) (a : Nat) (k : Int) (n v : Nat) :
    writeBytes cfg mem (slot cfg a k + kPointerSize cfg) n v =
      writeBytes cfg mem (slot cfg a (k + 1)) n v := by
  have := slot_add_nat cfg a k 1
  rw [Nat.cast_one, one_mul] at this
  rw [this, writeBytes_mod_addr]

theorem slot_of_lt (cfg : Config) (a : Nat) (h : a < addrMod cfg) : slot cfg a 0 = a := by
  rw [slot_zero, Nat.mod_eq_of_lt h]
theorem slot_unsignedOf_zero (cfg : Config) (x : Int) :
    slot cfg (unsignedOf (addrMod cfg) x) 0 = unsignedOf (addrMod cfg) x :=
  slot_of_lt cfg _ (unsignedOf_lt _ _ (addrMod_pos cfg))

theorem slot_slot_zero (cfg : Config) (a : Nat) (k : Int) :
    slot cfg (slot cfg a k) 0 = slot cfg a k := slot_of_lt cfg _ (slot_lt cfg a k)

theorem writeBytes_slot_add2 (cfg : Config) (mem : Nat → Nat) (a : Nat) (k : Int) (n v : Nat) :
    writeBytes cfg mem (slot cfg a k + kPointerSize cfg + kPointerSize cfg) n v =
      writeBytes cfg mem (slot cfg a (k + 2)) n v := by
  have := slot_add_nat cfg a k 2
  rw [show ((2 : Nat) : Int) = 2 from rfl] at this
  have e : slot cfg a k + kPointerSize cfg + kPointerSize cfg =
      slot cfg a k + 2 * kPointerSize cfg := by omega
  rw [e, ← writeBytes_mod_addr, ← this]

theorem addrMod_le_ptrMod (cfg : Config) : addrMod cfg ≤ ptrMod cfg :=
  Nat.le_of_dvd (ptrMod_pos cfg) (addrMod_dvd_ptrMod cfg)

theorem slot_mod_ptr (cfg : Config) (a : Nat) (k : Int) :
    slot cfg a k % ptrMod cfg = slot cfg a k :=
  Nat.mod_eq_of_lt (lt_of_lt_of_le (slot_lt cfg a k) (addrMod_le_ptrMod cfg))

theorem litValue_mod_ptr (cfg : Config) (v : Int) : litValue cfg v % ptrMod cfg = litValue cfg v := by
  apply Nat.mod_eq_of_lt
  unfold litValue
  split
  · exact unsignedOf_lt _ _ (ptrMod_pos cfg)
  · have h1 : unsignedOf M32 v < M32 := unsignedOf_lt _ _ (by decide)
    have h2 : M32 ≤ ptrMod cfg := by unfold ptrMod M32 M64; split <;> decide
    omega

theorem regP_mod_ptr (cfg : Config) (m : Machine) (r : Register) :
    m.regP cfg r % ptrMod cfg = m.regP cfg r := Nat.mod_eq_of_lt (regP_lt cfg m r)

theorem loadPtr_copyBytes (cfg : Config) (dst src : Nat) (mem : Nat → Nat)
    (hd : Disjoint cfg dst (kPointerSize cfg) src (kPointerSize cfg)) :
    loadPtr cfg (copyBytes cfg dst src (kPointerSize cfg) mem) dst = loadPtr cfg mem src :=
  readBytes_copyBytes cfg dst src _ mem (kPointerSize_le_addr cfg) hd

theorem loadPtr_copyBytes_of_disjoint (cfg : Config) (dst src n : Nat) (mem : Nat → Nat) (b : Nat)
    (h : Disjoint cfg b (kPointerSize cfg) dst n) :
    loadPtr cfg (copyBytes cfg dst src n mem) b = loadPtr cfg mem b :=
  readBytes_copyBytes_of_disjoint cfg dst src n mem b _ h

theorem unsignedOf_toInt16_zero (n : Nat) : unsignedOf n (toInt16 0) = 0 := by
  simp [unsignedOf, toInt16]

theorem smi_zero_value (cfg : Config) :
    (if cfg.is64 = true then unsignedOf M32 (Smi.FromInt cfg 0 / 4294967296) * M32
      else unsignedOf M32 (Smi.FromInt cfg 0)) = 0 := by
  unfold Smi.FromInt
  rw [zero_mul]
  split <;> simp [unsignedOf]
/-! ## Exception handlers -/

theorem sp_ne_r0 : sp ≠ r0 := by decide

theorem r7_ne_r0 : r7 ≠ r0 := by decide

theorem litValue_cases (cfg : Config) (v : Nat) (hv : v < M32) :
    litValue cfg (v : Int) = v ∨
      (cfg.is64 = true ∧ 4294934528 ≤ v ∧ litValue cfg (v : Int) = v + (M64 - M32)) := by
  unfold litValue
  simp only [M32, M64] at hv ⊢
  by_cases hi : is_int16 (toInt32 (v : Int)) = true
  · rw [if_pos hi]
    simp only [is_int16, toInt32, decide_eq_true_eq] at hi
    rcases kPointerSize_cases cfg with ⟨_, _, h3, h4⟩ | ⟨_, _, h3, h4⟩
    · rw [h3]
      simp only [unsignedOf, toInt32, M64, h4, true_and]
      omega
    · left
      rw [h3]
      simp only [unsignedOf, toInt32, M32]
      omega
  · rw [if_neg hi]
    left
    simp only [unsignedOf, M32]
    omega

theorem litValue_mod32 (cfg : Config) (v : Nat) (hv : v < M32) :
    litValue cfg (v : Int) % M32 = v := by
  rcases litValue_cases cfg v hv with h | ⟨_, _, h⟩ <;> rw [h] <;> simp only [M32, M64] at hv ⊢ <;>
    omega

theorem litValue_exact (cfg : Config) (v : Nat) (hv : v < M32)
    (h : cfg.is64 = false ∨ v < 4294934528) : litValue cfg (v : Int) = v := by
  rcases litValue_cases cfg v hv with h1 | ⟨h1, h2, _⟩
  · exact h1
  · rcases h with h | h
    · rw [h] at h1; exact absurd h1 (by decide)
    · omega

theorem state_lt (iso : Isolate) (kind : StackHandlerKind) (handler_index : Int) :
    StackHandler.state iso kind handler_index < M32 := by
  unfold StackHandler.state
  exact Nat.or_lt_two_pow (n := 32) (Nat.mod_lt _ (by decide)) (Nat.mod_lt _ (by decide))

/-- The code of `PushTryHandler` is straight-line code that builds the record
of five words below the old stack pointer and links it into the handler
slot. -/
theorem PushTryHandler_spec (cfg : Config) (iso : Isolate)
    (kind : StackHandlerKind) (handler_index : Int) (frame : Bool) (code : List Instr)
    (hcode : codeOf (PushTryHandler cfg iso kind handler_index) frame = some code) :
    (∀ i ∈ code, i.isStraight = true) ∧
    ∀ m : Machine, (runStraight cfg code m).addr cfg sp = slot cfg (m.addr cfg sp) (-5) ∧
      (Disjoint cfg (handlerSlot cfg iso) (kPointerSize cfg)
          (slot cfg (m.addr cfg sp) (-5)) (5 * kPointerSize cfg) →
        loadPtr cfg (runStraight cfg code m).mem (slot cfg (slot cfg (m.addr cfg sp) (-5)) 0) =
          loadPtr cfg m.mem (handlerSlot cfg iso) ∧
        loadPtr cfg (runStraight cfg code m).mem (slot cfg (slot cfg (m.addr cfg sp) (-5)) 1) =
          unsignedOf (ptrMod cfg) iso.CodeObject ∧
        loadPtr cfg (runStraight cfg code m).mem (slot cfg (slot cfg (m.addr cfg sp) (-5)) 2) =
          litValue cfg (StackHandler.state iso kind handler_index) ∧
        loadPtr cfg (runStraight cfg code m).mem (slot cfg (slot cfg (m.addr cfg sp) (-5)) 3) =
          (if kind = StackHandlerKind.JS_ENTRY then 0 else m.regP cfg cp) ∧
        loadPtr cfg (runStraight cfg code m).mem (slot cfg (slot cfg (m.addr cfg sp) (-5)) 4) =
          (if kind = StackHandlerKind.JS_ENTRY then 0 else m.regP cfg fp) ∧
        loadPtr cfg (runStraight cfg code m).mem (handlerSlot cfg iso) =
          slot cfg (m.addr cfg sp) (-5)) := by
  cases kind
  all_goals simp only [codeOf, PushTryHandler, mov_run, LoadP_run_fits, StoreP_run_fits,
      LoadIntLiteral_run, LoadImmP_run, LoadSmiLiteral_run, StoreMultipleP_run_fits,
      is_int20_words _ 0 (by decide) (by decide), is_int20_words _ 1 (by decide) (by decide),
      is_int20_words _ 2 (by decide) (by decide), is_int20_words _ 3 (by decide) (by decide),
      is_int20_words _ 4 (by decide) (by decide), is_int20_zero,
      MemOperand.mk1, StackHandlerConstants.kSize,
      StackHandlerConstants.kNextOffset, StackHandlerConstants.kCodeOffset,
      StackHandlerConstants.kStateSlot, StackHandlerConstants.kContextOffset,
      StackHandlerConstants.kFPOffset, Emit.run_bind_eq, Emit.run_pure, run_emit, run_ASSERT,
      BitField.encode, bind_pure_comp, reduceCtorEq, if_false, if_true, List.nil_append,
      List.append_assoc, List.cons_append, Bool.false_or] at hcode
  all_goals obtain ⟨rfl, hok⟩ := code_of_ite hcode
  all_goals clear hcode hok
  all_goals refine ⟨?_, fun m => ⟨?_, fun hslot => ?_⟩⟩
  · intro i hi
    simp only [List.mem_append, List.mem_cons, List.mem_singleton, List.not_mem_nil, or_false] at hi
    rcases hi with hi | rfl | rfl | rfl | rfl | rfl | rfl | rfl | hi | rfl
    all_goals first
      | exact isStraight_movCode _ _ _ _ hi
      | exact isStraight_stP _ _ _
      | exact isStraight_litInstr _ _ _
      | exact isStraight_liP _ _ _
      | exact isStraight_smiInstr _ _ _
      | exact isStraight_stmP _ _ _ _
      | rfl
  rotate_left 2
  · intro i hi
    simp only [List.mem_append, List.mem_cons, List.mem_singleton, List.not_mem_nil, or_false] at hi
    rcases hi with hi | rfl | rfl | rfl | rfl | rfl | rfl | rfl | hi | rfl
    all_goals first
      | exact isStraight_movCode _ _ _ _ hi
      | exact isStraight_stP _ _ _
      | exact isStraight_litInstr _ _ _
      | rfl
  rotate_left 2
  · intro i hi
    simp only [List.mem_append, List.mem_cons, List.mem_singleton, List.not_mem_nil, or_false] at hi
    rcases hi with hi | rfl | rfl | rfl | rfl | rfl | rfl | rfl | hi | rfl
    all_goals first
      | exact isStraight_movCode _ _ _ _ hi
      | exact isStraight_stP _ _ _
      | exact isStraight_litInstr _ _ _
      | rfl
  rotate_left 2
  all_goals try have hd0 := disjoint_slot_of_block hslot 0 (by decide)
  all_goals try have hd1 := disjoint_slot_of_block hslot 1 (by decide)
  all_goals try have hd2 := disjoint_slot_of_block hslot 2 (by decide)
  all_goals try have hd3 := disjoint_slot_of_block hslot 3 (by decide)
  all_goals try have hd4 := disjoint_slot_of_block hslot 4 (by decide)
  all_goals try simp only [Nat.cast_ofNat, Nat.cast_zero, Nat.cast_one, handlerSlot] at hd0 hd1 hd2 hd3 hd4
  all_goals try simp only [StackHandler.state, handlerSlot]
  all_goals simp +decide only [runStraight_movCode, runStraight_cons, runStraight_nil, effect_stP,
      effect_lay, effect_mvc, effect_litInstr, effect_liP, effect_smiInstr, effect_stmP_r7_r9,
      effAddr_disp _ _ _ _ sp_ne_r0, effAddr_disp _ _ _ _ r7_ne_r0,
      addr_store, addr_setRegP_self, addr_setRegP_ne, addr_setReg_ne, addr_setReg_self,
      addr_rec_update, regP_store, regP_setRegP_self, regP_setRegP_ne, regP_setReg_self,
      regP_setReg_ne, regP_rec_update,
      slot_fold, slot_fold_neg, slot_fold_zero, slot_fold_one, slot_mod_self,
      unsignedOf_ptr_mod_addr,
      store_mem, setRegP_mem, setReg_mem, mem_rec_update, slot_unsignedOf_zero,
      writeBytes_slot_add, writeBytes_slot_add2, Int.reduceAdd, slot_mod_ptr, litValue_mod_ptr,
      regP_mod_ptr, unsignedOf_mod_self, unsignedOf_toInt16_zero, smi_zero_value, Nat.zero_mod,
      loadPtr_write_same, loadPtr_write_slot_ne, loadPtr_write_of_disjoint, loadPtr_copyBytes,
      loadPtr_copyBytes_of_disjoint, true_and, and_true, reduceCtorEq, if_true, if_false]
  all_goals simp +decide only [loadPtr_write_same, loadPtr_write_slot_ne, loadPtr_write_of_disjoint,
      loadPtr_copyBytes, loadPtr_copyBytes_of_disjoint, hd0, hd1, hd2, hd3, hd4, hd0.symm, hd1.symm,
      hd2.symm, hd3.symm, hd4.symm, true_and, and_true, slot_mod_ptr, litValue_mod_ptr,
      regP_mod_ptr, unsignedOf_mod_self, Nat.zero_mod]

theorem exec_of_straight (cfg : Config) (env : Env) (code : List Instr)
    (h : ∀ i ∈ code, i.isStraight = true) (m : Machine) :
    exec cfg env code (code.length + 1) m = some ⟨.fallthrough, runStraight cfg code m, []⟩ := by
  have := exec_straight cfg env code h 0 m
  rwa [show 0 + 1 + code.length = code.length + 1 by omega] at this

/-- C9: the code of `PushTryHandler` lowers the stack pointer by five words
and leaves there, in this order, the previous contents of the handler slot, the
code object, the state word, the context and the frame pointer (both zero for
`JS_ENTRY`, the current `cp` and `fp` otherwise); the handler slot then holds
the new stack pointer.  The state slot holds `IndexField(handler_index) |
KindField(kind)` in its low 32 bits, and exactly that value on the 31-bit
target and whenever the state is below `2 ^ 32 - 32768`; a larger state reaches
`LoadIntLiteral` as a negative `int` and is stored sign-extended on the 64-bit
target, which is not the state word. -/
theorem PushTryHandler_record (cfg : Config) (iso : Isolate) (env : Env) (m : Machine)
    (kind : StackHandlerKind) (handler_index : Int) (frame : Bool) (code : List Instr)
    (hslot : Disjoint cfg (handlerSlot cfg iso) (kPointerSize cfg)
        (slot cfg (m.addr cfg sp) (-5)) (5 * kPointerSize cfg))
    (hcode : codeOf (PushTryHandler cfg iso kind handler_index) frame = some code) :
    ∃ f, exec cfg env code (code.length + 1) m = some f ∧ f.outcome = .fallthrough ∧
      f.machine.addr cfg sp = slot cfg (m.addr cfg sp) (-5) ∧
      loadPtr cfg f.machine.mem (slot cfg (f.machine.addr cfg sp) 0) =
        loadPtr cfg m.mem (handlerSlot cfg iso) ∧
      loadPtr cfg f.machine.mem (slot cfg (f.machine.addr cfg sp) 1) =
        unsignedOf (ptrMod cfg) iso.CodeObject ∧
      loadPtr cfg f.machine.mem (slot cfg (f.machine.addr cfg sp) 2) % M32 =
        StackHandler.state iso kind handler_index ∧
      (cfg.is64 = false ∨ StackHandler.state iso kind handler_index < 4294934528 →
        loadPtr cfg f.machine.mem (slot cfg (f.machine.addr cfg sp) 2) =
          StackHandler.state iso kind handler_index) ∧
      loadPtr cfg f.machine.mem (slot cfg (f.machine.addr cfg sp) 3) =
        (if kind = StackHandlerKind.JS_ENTRY then 0 else m.regP cfg cp) ∧
      loadPtr cfg f.machine.mem (slot cfg (f.machine.addr cfg sp) 4) =
        (if kind = StackHandlerKind.JS_ENTRY then 0 else m.regP cfg fp) ∧
      loadPtr cfg f.machine.mem (handlerSlot cfg iso) = f.machine.addr cfg sp := by
  obtain ⟨hs, hm⟩ := PushTryHandler_spec cfg iso kind handler_index frame code hcode
  obtain ⟨h4, hrest⟩ := hm m
  obtain ⟨h5, h6, h7, h8, h9, h10⟩ := hrest hslot
  refine ⟨_, exec_of_straight cfg env code hs m, rfl, h4, ?_⟩
  show _ ∧ _ ∧ _ ∧ _ ∧ _ ∧ _ ∧ loadPtr cfg (runStraight cfg code m).mem _ = (runStraight cfg code m).addr cfg sp
  rw [h4]
  refine ⟨h5, h6, ?_, ?_, h8, h9, h10⟩
  · rw [h7]; exact litValue_mod32 cfg _ (state_lt iso kind handler_index)
  · intro h; rw [h7]; exact litValue_exact cfg _ (state_lt iso kind handler_index) h

theorem sample_handler_disjoint (k : Nat) (hk : k ≤ 4096) :
    Disjoint cfg64 (handlerSlot cfg64 (sampleIsolate cfg64)) (kPointerSize cfg64)
      (slot cfg64 ((stackMachine 65536 0 0).addr cfg64 sp) (-5)) k := by
  have h1 : handlerSlot cfg64 (sampleIsolate cfg64) = 8192 := by decide
  have h2 : slot cfg64 ((stackMachine 65536 0 0).addr cfg64 sp) (-5) = 65496 := by decide
  have h3 : addrMod cfg64 = 18446744073709551616 := by decide
  have h4 : kPointerSize cfg64 = 8 := by decide
  intro i hi j hj
  rw [h1, h2, h3]
  rw [h4] at hi
  omega

/-- C9 (counterexample): on the 64-bit target the handler index `2 ^ 30 - 1`
with kind `CATCH` has the state word `0xFFFFFFFD`, but the word that the code
leaves in the state slot is `0xFFFFFFFFFFFFFFFD`. -/
theorem PushTryHandler_state_word_sign_extended :
    wordAfter cfg64 sampleEnv (PushTryHandler cfg64 (sampleIsolate cfg64) .CATCH 1073741823) false
        (stackMachine 65536 0 0) (fun m => slot cfg64 (m.addr cfg64 sp) 2) =
      some 18446744073709551613 ∧
    StackHandler.state (sampleIsolate cfg64) .CATCH 1073741823 = 4294967293 := by
  refine ⟨?_, by decide⟩
  have hc : ∃ code, codeOf (PushTryHandler cfg64 (sampleIsolate cfg64) .CATCH 1073741823) false =
      some code := ⟨_, rfl⟩
  obtain ⟨code, hc⟩ := hc
  obtain ⟨hs, hm⟩ := PushTryHandler_spec cfg64 (sampleIsolate cfg64) .CATCH 1073741823 false code hc
  obtain ⟨h4, hrest⟩ := hm (stackMachine 65536 0 0)
  obtain ⟨_, _, h7, _⟩ := hrest (sample_handler_disjoint _ (by decide))
  have h1 := exec_of_straight cfg64 sampleEnv code hs (stackMachine 65536 0 0)
  have hv : litValue cfg64 (StackHandler.state (sampleIsolate cfg64) .CATCH 1073741823) =
      18446744073709551613 := by decide
  simp only [wordAfter, hc, Option.some_bind, h1, Option.map_some', h4, h7, hv]

/-- C9 (witness): a `CATCH` handler with index 3 pushed on the 64-bit target
with the stack pointer at 65536. -/
theorem PushTryHandler_record_witness :
    ∃ code, codeOf (PushTryHandler cfg64 (sampleIsolate cfg64) .CATCH 3) false = some code ∧
      ∃ f, exec cfg64 sampleEnv code (code.length + 1) (stackMachine 65536 7 9) = some f ∧
        f.machine.addr cfg64 sp = 65496 ∧
        loadPtr cfg64 f.machine.mem (slot cfg64 (f.machine.addr cfg64 sp) 2) = 13 ∧
        loadPtr cfg64 f.machine.mem (slot cfg64 (f.machine.addr cfg64 sp) 3) = 7 ∧
        loadPtr cfg64 f.machine.mem (slot cfg64 (f.machine.addr cfg64 sp) 4) = 9 :=
  ⟨_, rfl,
    (PushTryHandler_record cfg64 (sampleIsolate cfg64) sampleEnv (stackMachine 65536 7 9) .CATCH 3
      false _ (sample_handler_disjoint _ (by decide)) rfl).imp
      (fun _ h => ⟨h.1, h.2.2.1, h.2.2.2.2.2.2.1 (Or.inr (by decide)), h.2.2.2.2.2.2.2.1,
        h.2.2.2.2.2.2.2.2.1⟩)⟩

/-- A run of words inside a block is disjoint from what the block is disjoint
from. -/
theorem disjoint_sub_block {cfg : Config} {b n a : Nat} {j : Int} {c : Nat}
    (h : Disjoint cfg b n (slot cfg a j) (c * kPointerSize cfg)) (k c1 : Nat) (hk : k + c1 ≤ c) :
    Disjoint cfg b n (slot cfg a (j + k)) (c1 * kPointerSize cfg) := by
  rw [slot_add_nat]
  apply Disjoint.mod_right
  apply h.sub_right
  calc k * kPointerSize cfg + c1 * kPointerSize cfg = (k + c1) * kPointerSize cfg := by ring
    _ ≤ c * kPointerSize cfg := Nat.mul_le_mul_right _ hk

/-- The code of `PopTryHandler` is straight-line code that moves the stack
pointer up by five words and puts the first word of the record it leaves into
the handler slot. -/
theorem PopTryHandler_spec (cfg : Config) (iso : Isolate) (frame : Bool) (code : List Instr)
    (hcode : codeOf (PopTryHandler cfg iso) frame = some code) :
    (∀ i ∈ code, i.isStraight = true) ∧
    ∀ m : Machine, (runStraight cfg code m).addr cfg sp = slot cfg (m.addr cfg sp) 5 ∧
      loadPtr cfg (runStraight cfg code m).mem (handlerSlot cfg iso) =
        loadPtr cfg m.mem (slot cfg (m.addr cfg sp) 0) := by
  simp only [codeOf, PopTryHandler, mov_run, LoadP_run_fits, StoreP_run_fits,
      is_int20_words _ 0 (by decide) (by decide), is_int20_zero,
      MemOperand.mk1, StackHandlerConstants.kSize, StackHandlerConstants.kNextOffset,
      Emit.run_bind_eq, Emit.run_pure, run_emit, List.nil_append,
      List.append_assoc, List.cons_append, Bool.false_or] at hcode
  obtain ⟨rfl, hok⟩ := code_of_ite hcode
  clear hcode hok
  refine ⟨?_, fun m => ?_⟩
  · intro i hi
    simp only [List.mem_append, List.mem_cons, List.mem_singleton, List.not_mem_nil, or_false] at hi
    rcases hi with rfl | hi | rfl | rfl
    all_goals first
      | exact isStraight_movCode _ _ _ _ hi
      | exact isStraight_stP _ _ _
      | exact isStraight_ldP _ _ _
      | rfl
  · simp only [handlerSlot]
    simp +decide only [runStraight_movCode, runStraight_cons, runStraight_nil, effect_stP,
      effect_ldP, effect_lay, effAddr_disp _ _ _ _ sp_ne_r0, effAddr_disp _ _ _ _ ip_ne_r0,
      addr_store, addr_setRegP_self, addr_setRegP_ne, regP_store, regP_setRegP_self,
      regP_setRegP_ne, slot_fold, slot_fold_zero, slot_mod_self, unsignedOf_ptr_mod_addr,
      store_mem, setRegP_mem, slot_unsignedOf_zero, loadPtr_write_same, Nat.mod_mod, true_and]
    exact Nat.mod_eq_of_lt (by
      unfold loadPtr; rw [ptrMod_eq_256_pow]; exact readBytes_lt _ _ _ _)

/-- C10: the code of `PushTryHandler` followed by the code of `PopTryHandler`
leaves the stack pointer and the handler slot as they were; and after the code
of three `PushTryHandler` calls followed by the code of `PopTryHandler`, the
handler slot and the stack pointer hold the address at which the first two
pushes leave the stack pointer, where the second record lies. -/
theorem PushTryHandler_PopTryHandler_restores (cfg : Config) (iso : Isolate) (env : Env)
    (m : Machine) (k1 k2 k3 : StackHandlerKind) (i1 i2 i3 : Int) (frame : Bool)
    (c1 c2 c3 cpop : List Instr)
    (hslot : Disjoint cfg (handlerSlot cfg iso) (kPointerSize cfg)
        (slot cfg (m.addr cfg sp) (-15)) (15 * kPointerSize cfg))
    (h1 : codeOf (PushTryHandler cfg iso k1 i1) frame = some c1)
    (h2 : codeOf (PushTryHandler cfg iso k2 i2) frame = some c2)
    (h3 : codeOf (PushTryHandler cfg iso k3 i3) frame = some c3)
    (hp : codeOf (PopTryHandler cfg iso) frame = some cpop) :
    (∃ f, exec cfg env (c1 ++ cpop) ((c1 ++ cpop).length + 1) m = some f ∧
      f.outcome = .fallthrough ∧
      f.machine.addr cfg sp = m.addr cfg sp ∧
      loadPtr cfg f.machine.mem (handlerSlot cfg iso) = loadPtr cfg m.mem (handlerSlot cfg iso)) ∧
    (∃ f2 f, exec cfg env (c1 ++ c2) ((c1 ++ c2).length + 1) m = some f2 ∧
      exec cfg env (c1 ++ c2 ++ c3 ++ cpop) ((c1 ++ c2 ++ c3 ++ cpop).length + 1) m = some f ∧
      f.outcome = .fallthrough ∧
      f2.machine.addr cfg sp = slot cfg (m.addr cfg sp) (-10) ∧
      loadPtr cfg f2.machine.mem (handlerSlot cfg iso) = f2.machine.addr cfg sp ∧
      f.machine.addr cfg sp = f2.machine.addr cfg sp ∧
      loadPtr cfg f.machine.mem (handlerSlot cfg iso) = f2.machine.addr cfg sp) := by
  obtain ⟨s1, p1⟩ := PushTryHandler_spec cfg iso k1 i1 frame c1 h1
  obtain ⟨s2, p2⟩ := PushTryHandler_spec cfg iso k2 i2 frame c2 h2
  obtain ⟨s3, p3⟩ := PushTryHandler_spec cfg iso k3 i3 frame c3 h3
  obtain ⟨sp0, pp⟩ := PopTryHandler_spec cfg iso frame cpop hp
  have hb1 : Disjoint cfg (handlerSlot cfg iso) (kPointerSize cfg)
      (slot cfg (m.addr cfg sp) (-5)) (5 * kPointerSize cfg) := by
    have := disjoint_sub_block hslot 10 5 (by decide)
    simpa using this
  have hb2 : Disjoint cfg (handlerSlot cfg iso) (kPointerSize cfg)
      (slot cfg (m.addr cfg sp) (-10)) (5 * kPointerSize cfg) := by
    have := disjoint_sub_block hslot 5 5 (by decide)
    simpa using this
  have hb3 : Disjoint cfg (handlerSlot cfg iso) (kPointerSize cfg)
      (slot cfg (m.addr cfg sp) (-15)) (5 * kPointerSize cfg) := by
    have := disjoint_sub_block hslot 0 5 (by decide)
    simpa using this
  have hall : ∀ (a b : List Instr), (∀ i ∈ a, i.isStraight = true) →
      (∀ i ∈ b, i.isStraight = true) → ∀ i ∈ a ++ b, i.isStraight = true := by
    intro a b ha hb i hi
    rcases List.mem_append.mp hi with h | h
    · exact ha i h
    · exact hb i h
  have haddr : slot cfg (m.addr cfg sp) 0 = m.addr cfg sp := slot_of_lt cfg _ (addr_lt cfg m sp)
  constructor
  · refine ⟨_, exec_of_straight cfg env _ (hall _ _ s1 sp0) m, rfl, ?_, ?_⟩
    · show (runStraight cfg (c1 ++ cpop) m).addr cfg sp = _
      rw [runStraight_append, (pp _).1, (p1 m).1, slot_slot]
      simpa using haddr
    · show loadPtr cfg (runStraight cfg (c1 ++ cpop) m).mem _ = _
      rw [runStraight_append, (pp _).2, (p1 m).1]
      exact ((p1 m).2 hb1).1
  · have e2 : (runStraight cfg (c1 ++ c2) m).addr cfg sp = slot cfg (m.addr cfg sp) (-10) := by
      rw [runStraight_append, (p2 _).1, (p1 m).1, slot_slot]; rfl
    have hs2 : loadPtr cfg (runStraight cfg (c1 ++ c2) m).mem (handlerSlot cfg iso) =
        slot cfg (m.addr cfg sp) (-10) := by
      rw [runStraight_append]
      have := ((p2 (runStraight cfg c1 m)).2 (by rw [(p1 m).1, slot_slot]; exact hb2)).2.2.2.2.2
      rw [this, (p1 m).1, slot_slot]; rfl
    have e3 : (runStraight cfg (c1 ++ c2 ++ c3) m).addr cfg sp = slot cfg (m.addr cfg sp) (-15) := by
      rw [runStraight_append, (p3 _).1, e2, slot_slot]; rfl
    refine ⟨_, _, exec_of_straight cfg env _ (hall _ _ s1 s2) m,
      exec_of_straight cfg env _ (hall _ _ (hall _ _ (hall _ _ s1 s2) s3) sp0) m, rfl, e2, ?_, ?_, ?_⟩
    · show loadPtr cfg (runStraight cfg (c1 ++ c2) m).mem _ = (runStraight cfg (c1 ++ c2) m).addr cfg sp
      rw [hs2, e2]
    · show (runStraight cfg (c1 ++ c2 ++ c3 ++ cpop) m).addr cfg sp =
        (runStraight cfg (c1 ++ c2) m).addr cfg sp
      rw [runStraight_append, (pp _).1, e3, e2, slot_slot]; rfl
    · show loadPtr cfg (runStraight cfg (c1 ++ c2 ++ c3 ++ cpop) m).mem _ =
        (runStraight cfg (c1 ++ c2) m).addr cfg sp
      rw [runStraight_append, (pp _).2, e3, e2]
      rw [runStraight_append (a := c1 ++ c2)]
      have := ((p3 (runStraight cfg (c1 ++ c2) m)).2 (by rw [e2, slot_slot]; exact hb3)).1
      have e15 : slot cfg (slot cfg (m.addr cfg sp) (-10)) (-5) = slot cfg (m.addr cfg sp) (-15) := by
        rw [slot_slot]; rfl
      rw [e2, e15] at this
      rw [this, hs2]

theorem sample_handler_disjoint_three :
    Disjoint cfg64 (handlerSlot cfg64 (sampleIsolate cfg64)) (kPointerSize cfg64)
      (slot cfg64 ((stackMachine 65536 0 0).addr cfg64 sp) (-15)) (15 * kPointerSize cfg64) := by
  have h1 : handlerSlot cfg64 (sampleIsolate cfg64) = 8192 := by decide
  have h2 : slot cfg64 ((stackMachine 65536 0 0).addr cfg64 sp) (-15) = 65416 := by decide
  have h3 : addrMod cfg64 = 18446744073709551616 := by decide
  have h4 : kPointerSize cfg64 = 8 := by decide
  intro i hi j hj
  rw [h1, h2, h3]
  rw [h4] at hi hj
  omega

/-- C10 (witness): three `CATCH` handlers pushed and one popped on the 64-bit
target, with the stack pointer at 65536. -/
theorem PushTryHandler_PopTryHandler_restores_witness :
    ∃ c1 c2 c3 cpop,
      codeOf (PushTryHandler cfg64 (sampleIsolate cfg64) .CATCH 1) false = some c1 ∧
      codeOf (PushTryHandler cfg64 (sampleIsolate cfg64) .CATCH 2) false = some c2 ∧
      codeOf (PushTryHandler cfg64 (sampleIsolate cfg64) .CATCH 3) false = some c3 ∧
      codeOf (PopTryHandler cfg64 (sampleIsolate cfg64)) false = some cpop ∧
      (∃ f, exec cfg64 sampleEnv (c1 ++ cpop) ((c1 ++ cpop).length + 1) (stackMachine 65536 0 0) =
          some f ∧
        f.outcome = .fallthrough ∧
        f.machine.addr cfg64 sp = (stackMachine 65536 0 0).addr cfg64 sp ∧
        loadPtr cfg64 f.machine.mem (handlerSlot cfg64 (sampleIsolate cfg64)) =
          loadPtr cfg64 (stackMachine 65536 0 0).mem (handlerSlot cfg64 (sampleIsolate cfg64))) ∧
      (∃ f2 f, exec cfg64 sampleEnv (c1 ++ c2) ((c1 ++ c2).length + 1) (stackMachine 65536 0 0) =
          some f2 ∧
        exec cfg64 sampleEnv (c1 ++ c2 ++ c3 ++ cpop) ((c1 ++ c2 ++ c3 ++ cpop).length + 1)
          (stackMachine 65536 0 0) = some f ∧
        f.outcome = .fallthrough ∧
        f2.machine.addr cfg64 sp = slot cfg64 ((stackMachine 65536 0 0).addr cfg64 sp) (-10) ∧
        loadPtr cfg64 f2.machine.mem (handlerSlot cfg64 (sampleIsolate cfg64)) =
          f2.machine.addr cfg64 sp ∧
        f.machine.addr cfg64 sp = f2.machine.addr cfg64 sp ∧
        loadPtr cfg64 f.machine.mem (handlerSlot cfg64 (sampleIsolate cfg64)) =
          f2.machine.addr cfg64 sp) :=
  ⟨_, _, _, _, rfl, rfl, rfl, rfl,
    PushTryHandler_PopTryHandler_restores cfg64 (sampleIsolate cfg64) sampleEnv
      (stackMachine 65536 0 0) .CATCH .CATCH .CATCH 1 2 3 false _ _ _ _
      sample_handler_disjoint_three rfl rfl rfl rfl⟩

/-! ## Memory access with a displacement -/

theorem bucket_short (d : Int) (h : is_uint12 d = true) : bucket d = .short := by
  simp only [is_uint12, decide_eq_true_eq] at h
  simp [bucket, h]

theorem bucket_long (d : Int) (h1 : is_uint12 d = false) (h2 : is_int20 d = true) :
    bucket d = .long := by
  simp only [is_uint12, is_int20, decide_eq_true_eq, decide_eq_false_iff_not] at h1 h2
  simp [bucket, h1, h2]

theorem bucket_viaScratch (d : Int) (h2 : is_int20 d = false) : bucket d = .viaScratch := by
  simp only [is_int20, decide_eq_false_iff_not] at h2
  have h1 : ¬ (0 ≤ d ∧ d ≤ 4095) := by omega
  simp [bucket, h1, h2]

theorem is_uint12_of_not_int20 (d : Int) (h2 : is_int20 d = false) : is_uint12 d = false := by
  simp only [is_int20, is_uint12, decide_eq_false_iff_not] at h2 ⊢
  omega

/-- C14: `StoreW`, `StoreHalfWord`, `StoreByte` and, on the 31-bit target,
`LoadlW` emit exactly the code of the three-bucket rule: the short form for a
displacement in 0..4095, the long-displacement form for any other displacement
in -524288..524287, and otherwise (a scratch register being supplied) the load
of the displacement into the scratch register followed by the base-plus-index
form with displacement 0.  In the first two buckets the emitted code is the
single access instruction, which leaves the scratch register as it was (for
the load, unless the scratch register is the destination). -/
theorem store_form_buckets (cfg : Config) (r scratch : Register) (mem : MemOperand) (st : Asm)
    (hs : bucket mem.offset = .viaScratch → scratch ≠ no_reg) :
    (StoreW cfg r mem scratch).appended st =
      st.code ++ bucketCode cfg Instr.st Instr.sty Instr.st r mem scratch ∧
    (StoreHalfWord cfg r mem scratch).appended st =
      st.code ++ bucketCode cfg Instr.sth Instr.sthy Instr.sth r mem scratch ∧
    (StoreByte cfg r mem scratch).appended st =
      st.code ++ bucketCode cfg Instr.stc Instr.stcy Instr.stc r mem scratch ∧
    (cfg.is64 = false → (LoadlW cfg r mem scratch).appended st =
      st.code ++ bucketCode cfg Instr.l Instr.ly Instr.ly r mem scratch) ∧
    (bucket mem.offset ≠ .viaScratch → ∀ m : Machine,
      (runStraight cfg (bucketCode cfg Instr.st Instr.sty Instr.st r mem scratch) m).regs = m.regs ∧
      (runStraight cfg (bucketCode cfg Instr.sth Instr.sthy Instr.sth r mem scratch) m).regs =
        m.regs ∧
      (runStraight cfg (bucketCode cfg Instr.stc Instr.stcy Instr.stc r mem scratch) m).regs =
        m.regs ∧
      (scratch ≠ r →
        (runStraight cfg (bucketCode cfg Instr.l Instr.ly Instr.ly r mem scratch) m).regs scratch =
          m.regs scratch)) := by
  obtain ⟨rb, rx, d⟩ := mem
  simp only at hs
  by_cases h12 : is_uint12 d = true
  · have hb := bucket_short d h12
    have h20 : is_int20 d = true := by
      simp only [is_uint12, is_int20, decide_eq_true_eq] at h12 ⊢; omega
    refine ⟨?_, ?_, ?_, ?_, ?_⟩
    · simp [Emit.appended, StoreW, bucketCode, hb, h12]
    · simp [Emit.appended, StoreHalfWord, bucketCode, hb, h12]
    · simp [Emit.appended, StoreByte, bucketCode, hb, h12]
    · intro h64; simp [Emit.appended, LoadlW, bucketCode, hb, h12, h64]
    · intro _ m
      simp only [bucketCode, hb, runStraight_cons, runStraight_nil]
      refine ⟨rfl, rfl, rfl, fun hne => ?_⟩
      show (m.setReg r _).regs scratch = _
      rw [setReg_regs, if_neg hne]
  · simp only [Bool.not_eq_true] at h12
    by_cases h20 : is_int20 d = true
    · have hb := bucket_long d h12 h20
      refine ⟨?_, ?_, ?_, ?_, ?_⟩
      · simp [Emit.appended, StoreW, bucketCode, hb, h12, h20]
      · simp [Emit.appended, StoreHalfWord, bucketCode, hb, h12, h20]
      · simp [Emit.appended, StoreByte, bucketCode, hb, h12, h20]
      · intro h64; simp [Emit.appended, LoadlW, bucketCode, hb, h12, h20, h64]
      · intro _ m
        simp only [bucketCode, hb, runStraight_cons, runStraight_nil]
        refine ⟨rfl, rfl, rfl, fun hne => ?_⟩
        show (m.setReg r _).regs scratch = _
        rw [setReg_regs, if_neg hne]
    · simp only [Bool.not_eq_true] at h20
      have hb := bucket_viaScratch d h20
      have hsc := hs hb
      refine ⟨?_, ?_, ?_, ?_, ?_⟩
      · simp [Emit.appended, StoreW, bucketCode, hb, h12, h20, hsc, LoadIntLiteral_run,
          MemOperand.mk2]
      · simp [Emit.appended, StoreHalfWord, bucketCode, hb, h12, h20, hsc, LoadIntLiteral_run,
          MemOperand.mk2]
      · simp [Emit.appended, StoreByte, bucketCode, hb, h12, h20, hsc, LoadIntLiteral_run,
          MemOperand.mk2]
      · intro h64
        simp [Emit.appended, LoadlW, bucketCode, hb, h12, h20, hsc, h64, LoadIntLiteral_run,
          MemOperand.mk2]
      · intro h; exact absurd hb h

/-- C14 (witness): a displacement outside the long-displacement range, with
`r3` as the scratch register, on the 64-bit target. -/
theorem store_form_buckets_witness :
    (bucket (⟨r4, r0, 600000⟩ : MemOperand).offset = .viaScratch → r3 ≠ no_reg) ∧
    (StoreW cfg64 r2 ⟨r4, r0, 600000⟩ r3).appended ⟨[], 0, false, false⟩ =
      [] ++ bucketCode cfg64 Instr.st Instr.sty Instr.st r2 ⟨r4, r0, 600000⟩ r3 :=
  ⟨fun _ => by decide,
    (store_form_buckets cfg64 r2 r3 ⟨r4, r0, 600000⟩ ⟨[], 0, false, false⟩ (fun _ => by decide)).1⟩
theorem codeOf_eq_none_iff (e : Emit Unit) (frame : Bool) :
    codeOf e frame = none ↔ e.fails frame = true := by
  unfold codeOf Emit.fails
  simp only
  split <;> simp_all

theorem codeOf_isSome_iff (e : Emit Unit) (frame : Bool) :
    (codeOf e frame).isSome = true ↔ e.fails frame = false := by
  unfold codeOf Emit.fails
  simp only
  split <;> simp_all

/-- C15: with no scratch register (`no_reg`), every displacement outside the
signed 20-bit range makes `StoreP`, `LoadW`, `LoadlW`, `StoreW`,
`LoadHalfWordP`, `StoreHalfWord` and `StoreByte` fail an assertion, so that no
code results; with a displacement inside that range (and valid registers in
the operands) none of them fails, whatever the scratch register is, `no_reg`
included. -/
theorem no_scratch_asserts (cfg : Config) (r rb rx : Register) (d : Int) (frame : Bool) :
    (is_int20 d = false →
      codeOf (StoreP cfg r ⟨rb, rx, d⟩ no_reg) frame = none ∧
      codeOf (LoadW cfg r ⟨rb, rx, d⟩ no_reg) frame = none ∧
      codeOf (LoadlW cfg r ⟨rb, rx, d⟩ no_reg) frame = none ∧
      codeOf (StoreW cfg r ⟨rb, rx, d⟩ no_reg) frame = none ∧
      codeOf (LoadHalfWordP cfg r ⟨rb, rx, d⟩ no_reg) frame = none ∧
      codeOf (StoreHalfWord cfg r ⟨rb, rx, d⟩ no_reg) frame = none ∧
      codeOf (StoreByte cfg r ⟨rb, rx, d⟩ no_reg) frame = none) ∧
    (is_int20 d = true → r.is_valid = true → rb.is_valid = true → rx.is_valid = true →
      ∀ scratch : Register,
        (codeOf (StoreP cfg r ⟨rb, rx, d⟩ scratch) frame).isSome = true ∧
        (codeOf (LoadW cfg r ⟨rb, rx, d⟩ scratch) frame).isSome = true ∧
        (codeOf (LoadlW cfg r ⟨rb, rx, d⟩ scratch) frame).isSome = true ∧
        (codeOf (StoreW cfg r ⟨rb, rx, d⟩ scratch) frame).isSome = true ∧
        (codeOf (LoadHalfWordP cfg r ⟨rb, rx, d⟩ scratch) frame).isSome = true ∧
        (codeOf (StoreHalfWord cfg r ⟨rb, rx, d⟩ scratch) frame).isSome = true ∧
        (codeOf (StoreByte cfg r ⟨rb, rx, d⟩ scratch) frame).isSome = true) := by
  constructor
  · intro h20
    have h12 := is_uint12_of_not_int20 d h20
    simp only [codeOf_eq_none_iff, Emit.fails]
    refine ⟨?_, ?_, ?_, ?_, ?_, ?_, ?_⟩
    · cases h : cfg.is64 <;> simp [StoreP, h20, h, LoadIntLiteral_run]
    · cases h : cfg.is64 <;> simp [LoadW, h20, h, LoadIntLiteral_run]
    · cases h : cfg.is64 <;> simp [LoadlW, h20, h12, h]
    · simp [StoreW, h20, h12]
    · cases h : cfg.is64 <;> simp [LoadHalfWordP, h20, h, LoadIntLiteral_run]
    · simp [StoreHalfWord, h20, h12, LoadIntLiteral_run]
    · simp [StoreByte, h20, h12, LoadIntLiteral_run]
  · intro h20 hr hb hx scratch
    simp only [codeOf_isSome_iff, Emit.fails]
    by_cases h12 : is_uint12 d = true
    · cases h : cfg.is64 <;>
        simp [StoreP, StoreW, LoadW, LoadlW, LoadHalfWordP, StoreHalfWord, StoreByte, h20, h12, h,
          Instr.encodable, MemOperand.fits12, MemOperand.fits20, hr, hb, hx]
    · simp only [Bool.not_eq_true] at h12
      cases h : cfg.is64 <;>
        simp [StoreP, StoreW, LoadW, LoadlW, LoadHalfWordP, StoreHalfWord, StoreByte, h20, h12, h,
          Instr.encodable, MemOperand.fits12, MemOperand.fits20, hr, hb, hx]

/-- C15 (witness): the displacement 600000 without a scratch register, and the
displacement 4096 with and without one, on the 64-bit target. -/
theorem no_scratch_asserts_witness :
    codeOf (StoreP cfg64 r2 ⟨r4, r0, 600000⟩ no_reg) false = none ∧
    (codeOf (StoreP cfg64 r2 ⟨r4, r0, 4096⟩ no_reg) false).isSome = true ∧
    (codeOf (StoreP cfg64 r2 ⟨r4, r0, 4096⟩ r3) false).isSome = true :=
  ⟨((no_scratch_asserts cfg64 r2 r4 r0 600000 false).1 (by decide)).1,
    ((no_scratch_asserts cfg64 r2 r4 r0 4096 false).2 (by decide) (by decide) (by decide)
      (by decide) no_reg).1,
    ((no_scratch_asserts cfg64 r2 r4 r0 4096 false).2 (by decide) (by decide) (by decide)
      (by decide) r3).1⟩
/-- The instruction that `LoadP` emits after the displacement has been loaded
into the scratch register. -/
theorem LoadP_appended_scratch (cfg : Config) (dst rb rx scratch : Register) (d : Int) (st : Asm)
    (h20 : is_int20 d = false) (hs : scratch ≠ no_reg) :
    (LoadP cfg dst ⟨rb, rx, d⟩ scratch).appended st =
      st.code ++ [litInstr cfg scratch d, ldP cfg dst ⟨scratch, rb, 0⟩] := by
  cases h : cfg.is64 <;>
    simp [Emit.appended, LoadP, h20, hs, h, LoadIntLiteral_run, MemOperand.mk2, ldP, is_uint12]

theorem litInstr_displacement (cfg : Config) (r : Register) (v : Int) :
    (litInstr cfg r v).displacement = none := by
  unfold litInstr; split <;> split <;> rfl

theorem ldP_displacement (cfg : Config) (r : Register) (op : MemOperand) :
    (ldP cfg r op).displacement = some op.offset := by
  unfold ldP; split
  · rfl
  · split <;> rfl

/-- C16: for a displacement `d` outside the signed 20-bit range (so outside the
unsigned 12-bit range too), `LoadP` with a scratch register emits the load of
`d` into the scratch register and the base-plus-index load with displacement 0,
so that no emitted instruction carries `d` as its displacement; `LoadP` without
a scratch register and `LoadF` / `StoreF`, which take none, hand `d` to an
instruction form that cannot hold it, which is a contract violation: no code
results. -/
theorem out_of_range_displacement_never_emitted (cfg : Config) (dst rb rx scratch : Register)
    (f : DoubleRegister) (d : Int) (frame : Bool) (st : Asm) (h20 : is_int20 d = false) :
    (scratch ≠ no_reg →
      (LoadP cfg dst ⟨rb, rx, d⟩ scratch).appended st =
        st.code ++ [litInstr cfg scratch d, ldP cfg dst ⟨scratch, rb, 0⟩] ∧
      (litInstr cfg scratch d).displacement ≠ some d ∧
      (ldP cfg dst ⟨scratch, rb, 0⟩).displacement ≠ some d) ∧
    codeOf (LoadP cfg dst ⟨rb, rx, d⟩ no_reg) frame = none ∧
    codeOf (LoadF f ⟨rb, rx, d⟩) frame = none ∧
    codeOf (StoreF f ⟨rb, rx, d⟩) frame = none ∧
    (∀ code, codeOf (LoadP cfg dst ⟨rb, rx, d⟩ scratch) frame = some code →
      ∀ i ∈ code, i.displacement ≠ some d) := by
  have h12 := is_uint12_of_not_int20 d h20
  have hd0 : (0 : Int) ≠ d := by
    intro h; subst h; exact absurd h20 (by decide)
  have hnone : codeOf (LoadP cfg dst ⟨rb, rx, d⟩ no_reg) frame = none := by
    rw [codeOf_eq_none_iff]
    cases h : cfg.is64 <;>
      simp [Emit.fails, LoadP, h, h12, Instr.encodable, MemOperand.fits20, h20]
  refine ⟨fun hs => ⟨LoadP_appended_scratch cfg dst rb rx scratch d st h20 hs, ?_, ?_⟩, hnone,
    ?_, ?_, ?_⟩
  · rw [litInstr_displacement]; exact fun h => nomatch h
  · rw [ldP_displacement]; exact fun h => hd0 (Option.some.inj h)
  · rw [codeOf_eq_none_iff]
    simp [Emit.fails, LoadF, h12, Instr.encodable, MemOperand.fits20, h20]
  · rw [codeOf_eq_none_iff]
    simp [Emit.fails, StoreF, h12, Instr.encodable, MemOperand.fits20, h20]
  · intro code hcode i hi
    by_cases hs : scratch = no_reg
    · subst hs; rw [hnone] at hcode; exact absurd hcode (by simp)
    · have hc : code = (LoadP cfg dst ⟨rb, rx, d⟩ scratch).appended ⟨[], 0, frame, false⟩ := by
        unfold codeOf at hcode
        simp only at hcode
        split at hcode
        · exact absurd hcode (by simp)
        · exact (Option.some.inj hcode).symm
      rw [hc, LoadP_appended_scratch cfg dst rb rx scratch d _ h20 hs] at hi
      simp only [List.nil_append, List.mem_cons, List.mem_singleton, List.not_mem_nil,
        or_false] at hi
      rcases hi with rfl | rfl
      · rw [litInstr_displacement]; exact fun h => nomatch h
      · rw [ldP_displacement]; exact fun h => hd0 (Option.some.inj h)

/-- C16 (witness): the displacement 600000 on the 64-bit target. -/
theorem out_of_range_displacement_never_emitted_witness :
    is_int20 600000 = false ∧
    codeOf (LoadP cfg64 r2 ⟨r4, r0, 600000⟩ no_reg) false = none ∧
    codeOf (LoadF ⟨1⟩ ⟨r4, r0, 600000⟩) false = none ∧
    codeOf (StoreF ⟨1⟩ ⟨r4, r0, 600000⟩) false = none :=
  ⟨by decide,
    (out_of_range_displacement_never_emitted cfg64 r2 r4 r0 r3 ⟨1⟩ 600000 false ⟨[], 0, false, false⟩
      (by decide)).2.1,
    (out_of_range_displacement_never_emitted cfg64 r2 r4 r0 r3 ⟨1⟩ 600000 false ⟨[], 0, false, false⟩
      (by decide)).2.2.1,
    (out_of_range_displacement_never_emitted cfg64 r2 r4 r0 r3 ⟨1⟩ 600000 false ⟨[], 0, false, false⟩
      (by decide)).2.2.2.1⟩

theorem unsignedOf_add_nat (n a : Nat) (x : Int) (h : 0 < n) :
    (unsignedOf n x + a) % n = unsignedOf n ((a : Int) + x) := by
  rw [← unsignedOf_nat_add, unsignedOf_add_mod _ _ _ h, add_comm]

/-- Effective address of a base-plus-index operand with displacement zero. -/
theorem effAddr_indexed (cfg : Config) (m : Machine) (rb rx : Register) (hb : rb ≠ r0)
    (hx : rx ≠ r0) :
    effAddr cfg m ⟨rb, rx, 0⟩ = (m.addr cfg rb + m.addr cfg rx) % addrMod cfg := by
  unfold effAddr Machine.base Machine.addr
  simp only [hb, hx, if_false, add_zero]
  rw [← Nat.cast_add, unsignedOf, ← Int.natCast_mod, Int.toNat_natCast, Nat.add_mod]

/-- The address contribution of a displacement materialised by
`LoadIntLiteral`: a displacement outside the signed 20-bit range is extended
with zeros on the 64-bit target, which adds 2^32 to a negative one. -/
theorem litValue_addr (cfg : Config) (d : Int) (h32 : is_int32 d = true)
    (h20 : is_int20 d = false) :
    litValue cfg d % addrMod cfg =
      unsignedOf (addrMod cfg) (d + if cfg.is64 = true ∧ d < 0 then 4294967296 else 0) := by
  have h32a : -2147483648 ≤ d ∧ d ≤ 2147483647 := by simpa [is_int32] using h32
  have h20a : ¬ (-524288 ≤ d ∧ d ≤ 524287) := by simpa [is_int20] using h20
  have ht : toInt32 d = d := by unfold toInt32; omega
  have h16 : is_int16 d = false := by
    simp only [is_int16, decide_eq_false_iff_not]; omega
  unfold litValue
  rw [ht, h16]
  simp only [Bool.false_eq_true, if_false]
  rcases kPointerSize_cases cfg with ⟨_, h2, _, h4⟩ | ⟨_, h2, _, h4⟩
  · rw [h2, h4]
    simp only [true_and, unsignedOf, M32, M64]
    split <;> omega
  · rw [h2, h4]
    simp only [Bool.false_eq_true, false_and, if_false, unsignedOf, M32, add_zero]
    omega

/-- The code of `StoreP` for a displacement outside the signed 20-bit range,
and the store it performs. -/
theorem StoreP_scratch_run (cfg : Config) (src rb scratch : Register) (d : Int) (st : Asm)
    (m : Machine) (h32 : is_int32 d = true) (h20 : is_int20 d = false)
    (hs : scratch ≠ no_reg) (hs0 : scratch ≠ r0) (hb0 : rb ≠ r0) (hsb : rb ≠ scratch) :
    (StoreP cfg src ⟨rb, r0, d⟩ scratch).appended st =
      st.code ++ [litInstr cfg scratch d, stP cfg src ⟨scratch, rb, 0⟩] ∧
    runStraight cfg [litInstr cfg scratch d, stP cfg src ⟨scratch, rb, 0⟩] m =
      (m.setRegP cfg scratch (litValue cfg d)).store cfg
        (unsignedOf (addrMod cfg)
          ((m.addr cfg rb : Int) + d + if cfg.is64 = true ∧ d < 0 then 4294967296 else 0))
        (kPointerSize cfg) ((m.setRegP cfg scratch (litValue cfg d)).regP cfg src) := by
  constructor
  · cases h : cfg.is64 <;>
      simp [Emit.appended, StoreP, h20, hs, h, LoadIntLiteral_run, MemOperand.mk2, stP, is_uint12,
        run_ASSERT, Emit.run_bind_eq]
  · simp only [runStraight_cons, runStraight_nil, effect_litInstr, effect_stP]
    rw [effAddr_indexed cfg _ scratch rb hs0 hb0, addr_setRegP_self,
      addr_setRegP_ne cfg m scratch rb _ hsb, litValue_addr cfg d h32 h20]
    congr 1
    rw [unsignedOf_add_nat _ _ _ (addrMod_pos cfg), add_assoc]

/-- C17: what the scratch form of `StoreP` does with a 32-bit displacement `d`
outside the signed 20-bit range.  The code is the load of `d` into the scratch
register followed by the base-plus-index store.  On the 31-bit target, and on
the 64-bit target for a positive `d`, the store goes to `b + d`; on the 64-bit
target a negative `d` is extended with zeros, so the scratch register holds
`d + 2^32` and the store goes to `b + d + 2^32`, which is not `b + d`. -/
theorem scratch_form_address (cfg : Config) (src rb scratch : Register) (d : Int) (st : Asm)
    (m : Machine) (h32 : is_int32 d = true) (h20 : is_int20 d = false)
    (hs : scratch ≠ no_reg) (hs0 : scratch ≠ r0) (hb0 : rb ≠ r0) (hsb : rb ≠ scratch)
    (hss : src ≠ scratch) :
    (StoreP cfg src ⟨rb, r0, d⟩ scratch).appended st =
      st.code ++ [litInstr cfg scratch d, stP cfg src ⟨scratch, rb, 0⟩] ∧
    (cfg.is64 = false ∨ 0 ≤ d →
      runStraight cfg [litInstr cfg scratch d, stP cfg src ⟨scratch, rb, 0⟩] m =
        (m.setRegP cfg scratch (litValue cfg d)).store cfg
          (unsignedOf (addrMod cfg) ((m.addr cfg rb : Int) + d)) (kPointerSize cfg)
          (m.regP cfg src)) ∧
    (cfg.is64 = true → d < 0 →
      runStraight cfg [litInstr cfg scratch d, stP cfg src ⟨scratch, rb, 0⟩] m =
        (m.setRegP cfg scratch (litValue cfg d)).store cfg
          (unsignedOf (addrMod cfg) ((m.addr cfg rb : Int) + d + 4294967296)) (kPointerSize cfg)
          (m.regP cfg src) ∧
      litValue cfg d = unsignedOf M32 d ∧
      litValue cfg d ≠ unsignedOf (ptrMod cfg) d ∧
      unsignedOf (addrMod cfg) ((m.addr cfg rb : Int) + d + 4294967296) ≠
        unsignedOf (addrMod cfg) ((m.addr cfg rb : Int) + d)) := by
  obtain ⟨hcode, hrun⟩ := StoreP_scratch_run cfg src rb scratch d st m h32 h20 hs hs0 hb0 hsb
  rw [regP_setRegP_ne cfg m scratch src _ hss] at hrun
  have h32a : -2147483648 ≤ d ∧ d ≤ 2147483647 := by simpa [is_int32] using h32
  have h20a : ¬ (-524288 ≤ d ∧ d ≤ 524287) := by simpa [is_int20] using h20
  refine ⟨hcode, ?_, ?_⟩
  · intro h
    rw [hrun]
    have : ¬ (cfg.is64 = true ∧ d < 0) := by
      rintro ⟨h1, h2⟩
      rcases h with h | h
      · rw [h] at h1; exact absurd h1 (by decide)
      · omega
    rw [if_neg this, add_zero]
  · intro h64 hd
    rw [hrun, if_pos ⟨h64, hd⟩]
    have ht : toInt32 d = d := by unfold toInt32; omega
    have h16 : is_int16 d = false := by
      simp only [is_int16, decide_eq_false_iff_not]; omega
    have hl : litValue cfg d = unsignedOf M32 d := by
      unfold litValue; rw [ht, h16]; rfl
    have ha : addrMod cfg = M64 := by unfold addrMod; rw [h64]; rfl
    have hp : ptrMod cfg = M64 := by unfold ptrMod; rw [h64]; rfl
    have hb := addr_lt cfg m rb
    refine ⟨rfl, hl, ?_, ?_⟩
    · rw [hl, hp]; simp only [unsignedOf, M32, M64]; omega
    · rw [ha] at hb ⊢
      simp only [unsignedOf, M64] at hb ⊢
      omega

/-- C17 (failing input): on the 64-bit target the code of
`StoreP(cp, MemOperand(sp, -600000), r3)`, run with `sp = 1000000` and
`cp = 7`, leaves the word at `sp - 600000 = 400000` untouched and stores 7 at
`4295367296 = 400000 + 2^32`; the scratch register holds `2^32 - 600000`. -/
theorem StoreP_negative_displacement_misses :
    wordAfter cfg64 sampleEnv (StoreP cfg64 cp ⟨sp, r0, -600000⟩ r3) false
        (stackMachine 1000000 7 0) (fun _ => 400000) = some 0 ∧
    wordAfter cfg64 sampleEnv (StoreP cfg64 cp ⟨sp, r0, -600000⟩ r3) false
        (stackMachine 1000000 7 0) (fun _ => 4295367296) = some 7 ∧
    wordAfter cfg64 sampleEnv (StoreP cfg64 cp ⟨sp, r0, 600000⟩ r3) false
        (stackMachine 1000000 7 0) (fun _ => 1600000) = some 7 := by
  have hc : codeOf (StoreP cfg64 cp ⟨sp, r0, -600000⟩ r3) false =
      some [litInstr cfg64 r3 (-600000), stP cfg64 cp ⟨r3, sp, 0⟩] := rfl
  have hc2 : codeOf (StoreP cfg64 cp ⟨sp, r0, 600000⟩ r3) false =
      some [litInstr cfg64 r3 600000, stP cfg64 cp ⟨r3, sp, 0⟩] := rfl
  have hst : ∀ d, ∀ i ∈ [litInstr cfg64 r3 d, stP cfg64 cp ⟨r3, sp, 0⟩], i.isStraight = true := by
    intro d i hi
    simp only [List.mem_cons, List.mem_singleton, List.not_mem_nil, or_false] at hi
    rcases hi with rfl | rfl
    · unfold litInstr; split <;> rfl
    · rfl
  have h1 := exec_of_straight cfg64 sampleEnv _ (hst (-600000)) (stackMachine 1000000 7 0)
  have h2 := exec_of_straight cfg64 sampleEnv _ (hst 600000) (stackMachine 1000000 7 0)
  have hr := (StoreP_scratch_run cfg64 cp sp r3 (-600000) ⟨[], 0, false, false⟩
    (stackMachine 1000000 7 0) (by decide) (by decide) (by decide) (by decide) (by decide)
    (by decide)).2
  have hr2 := (StoreP_scratch_run cfg64 cp sp r3 600000 ⟨[], 0, false, false⟩
    (stackMachine 1000000 7 0) (by decide) (by decide) (by decide) (by decide) (by decide)
    (by decide)).2
  have ha : unsignedOf (addrMod cfg64) ((((stackMachine 1000000 7 0).addr cfg64 sp : Nat) : Int)
      + (-600000) + if cfg64.is64 = true ∧ (-600000 : Int) < 0 then 4294967296 else 0) =
      4295367296 := by decide
  have ha2 : unsignedOf (addrMod cfg64) ((((stackMachine 1000000 7 0).addr cfg64 sp : Nat) : Int)
      + 600000 + if cfg64.is64 = true ∧ (600000 : Int) < 0 then 4294967296 else 0) =
      1600000 := by decide
  have hv : ∀ v, ((stackMachine 1000000 7 0).setRegP cfg64 r3 v).regP cfg64 cp = 7 := by
    intro v; rw [regP_setRegP_ne cfg64 _ r3 cp v (by decide)]; decide
  have hz : loadPtr cfg64 (stackMachine 1000000 7 0).mem 400000 = 0 := by decide
  have hd : Disjoint cfg64 400000 (kPointerSize cfg64) 4295367296 (kPointerSize cfg64) := by
    have h3 : addrMod cfg64 = 18446744073709551616 := by decide
    have h4 : kPointerSize cfg64 = 8 := by decide
    intro i hi j hj
    rw [h3]
    rw [h4] at hi hj
    omega
  rw [ha, hv] at hr
  rw [ha2, hv] at hr2
  refine ⟨?_, ?_, ?_⟩
  · simp only [wordAfter, hc, Option.some_bind, List.length_cons, List.length_nil] at h1 ⊢
    rw [h1, hr]
    simp only [Option.map_some', Machine.store, setRegP_mem,
      loadPtr_write_of_disjoint cfg64 _ _ _ _ _ hd, hz]
  · simp only [wordAfter, hc, Option.some_bind, List.length_cons, List.length_nil] at h1 ⊢
    rw [h1, hr]
    simp only [Option.map_some', Machine.store, loadPtr_write_same]
    decide
  · simp only [wordAfter, hc2, Option.some_bind, List.length_cons, List.length_nil] at h2 ⊢
    rw [h2, hr2]
    simp only [Option.map_some', Machine.store, loadPtr_write_same]
    decide

/-- C17 (witness): the displacements 600000 and -600000 on the 64-bit target
with base `sp = 1000000`. -/
theorem scratch_form_address_witness :
    runStraight cfg64 [litInstr cfg64 r3 600000, stP cfg64 cp ⟨r3, sp, 0⟩]
        (stackMachine 1000000 7 0) =
      ((stackMachine 1000000 7 0).setRegP cfg64 r3 (litValue cfg64 600000)).store cfg64
        (unsignedOf (addrMod cfg64) ((((stackMachine 1000000 7 0).addr cfg64 sp : Nat) : Int)
          + 600000)) (kPointerSize cfg64) ((stackMachine 1000000 7 0).regP cfg64 cp) ∧
    litValue cfg64 (-600000) ≠ unsignedOf (ptrMod cfg64) (-600000) :=
  ⟨(scratch_form_address cfg64 cp sp r3 600000 ⟨[], 0, false, false⟩ (stackMachine 1000000 7 0)
      (by decide) (by decide) (by decide) (by decide) (by decide) (by decide) (by decide)).2.1
      (Or.inr (by decide)),
    ((scratch_form_address cfg64 cp sp r3 (-600000) ⟨[], 0, false, false⟩
      (stackMachine 1000000 7 0) (by decide) (by decide) (by decide) (by decide) (by decide)
      (by decide) (by decide)).2.2 rfl (by decide)).2.2.1⟩

theorem CleanseP_run (cfg : Config) (r : Register) (st : Asm) :
    (CleanseP cfg r).run st =
      ((), { st with code := st.code ++ cleanseCode cfg r,
                     failed := st.failed || !((cleanseCode cfg r).all Instr.encodable) }) := by
  unfold CleanseP cleanseCode
  split <;> simp

theorem isStraight_cleanseCode (cfg : Config) (r : Register) :
    ∀ x ∈ cleanseCode cfg r, x.isStraight = true := by
  unfold cleanseCode; split <;> simp [Instr.isStraight]

theorem land_32767 (x : Nat) : Nat.land x 32767 = x % 32768 :=
  Nat.and_pow_two_sub_one_eq_mod x 15

/-- The machine after the code of `CleanseP`: only the cleansed register
changes, and its address is kept. -/
theorem runStraight_cleanseCode (cfg : Config) (r : Register) (rest : List Instr) (m : Machine) :
    ∃ m1 : Machine, runStraight cfg (cleanseCode cfg r ++ rest) m = runStraight cfg rest m1 ∧
      m1.mem = m.mem ∧ (∀ x, m1.addr cfg x = m.addr cfg x) ∧
      (∀ x, x ≠ r → m1.regP cfg x = m.regP cfg x) ∧
      m1.regP cfg r = cleansed cfg (m.regP cfg r) := by
  unfold cleanseCode cleansed
  by_cases h : (!cfg.is64 && !cfg.little_endian_host) = true
  · rw [if_pos h, if_pos h]
    have h64 : cfg.is64 = false := by
      cases h1 : cfg.is64
      · rfl
      · rw [h1] at h; simp at h
    refine ⟨(Instr.nilh r 0x7FFF).effect cfg m, rfl, rfl, ?_, ?_, ?_⟩
    · intro x
      show (if x = r then _ else m.regs x) % addrMod cfg = m.regs x % addrMod cfg
      split
      · rename_i hx
        subst hx
        have e : unsignedOf M16 32767 = 32767 := by decide
        simp only [addrMod, h64, Bool.false_eq_true, if_false, e]
        rw [show Nat.land (m.regs x / M16 % M16) 32767 = (m.regs x / M16 % M16) % 32768 from
          land_32767 _]
        simp only [M16, M32, M64]
        omega
      · rfl
    · intro x hx
      show (if x = r then _ else m.regs x) % ptrMod cfg = m.regs x % ptrMod cfg
      rw [if_neg hx]
    · show (if r = r then _ else m.regs r) % ptrMod cfg = m.regs r % ptrMod cfg % 2147483648
      rw [if_pos rfl]
      have e : unsignedOf M16 32767 = 32767 := by decide
      simp only [ptrMod, h64, Bool.false_eq_true, if_false, e]
      rw [show Nat.land (m.regs r / M16 % M16) 32767 = (m.regs r / M16 % M16) % 32768 from
        land_32767 _]
      simp only [M16, M32, M64]
      omega
  · rw [if_neg h, if_neg h]
    exact ⟨m, rfl, rfl, fun _ => rfl, fun _ _ => rfl, rfl⟩

theorem cleansed_mod_addr (cfg : Config) (v : Nat) : cleansed cfg v % addrMod cfg = v % addrMod cfg := by
  unfold cleansed
  split
  · rename_i h
    have h64 : cfg.is64 = false := by
      cases h1 : cfg.is64
      · rfl
      · rw [h1] at h; simp at h
    simp only [addrMod, h64, Bool.false_eq_true, if_false, Nat.mod_mod]
  · rfl

theorem runStraight_cleanse (cfg : Config) (r : Register) (rest : List Instr) (m : Machine) :
    runStraight cfg (cleanseCode cfg r ++ rest) m = runStraight cfg rest (cleanseM cfg r m) :=
  runStraight_append cfg _ _ m

theorem cleanseM_facts (cfg : Config) (r : Register) (m : Machine) :
    (cleanseM cfg r m).mem = m.mem ∧ (∀ x, (cleanseM cfg r m).addr cfg x = m.addr cfg x) ∧
      (∀ x, x ≠ r → (cleanseM cfg r m).regP cfg x = m.regP cfg x) ∧
      (cleanseM cfg r m).regP cfg r = cleansed cfg (m.regP cfg r) := by
  obtain ⟨m1, h1, h2⟩ := runStraight_cleanseCode cfg r [] m
  rw [List.append_nil] at h1
  unfold cleanseM
  rw [h1]
  exact h2

theorem cleanseM_mem (cfg : Config) (r : Register) (m : Machine) :
    (cleanseM cfg r m).mem = m.mem := (cleanseM_facts cfg r m).1

theorem cleanseM_addr (cfg : Config) (r : Register) (m : Machine) (x : Register) :
    (cleanseM cfg r m).addr cfg x = m.addr cfg x := (cleanseM_facts cfg r m).2.1 x

theorem cleanseM_regP_ne (cfg : Config) (r : Register) (m : Machine) (x : Register) (h : x ≠ r) :
    (cleanseM cfg r m).regP cfg x = m.regP cfg x := (cleanseM_facts cfg r m).2.2.1 x h

theorem cleanseM_regP_self (cfg : Config) (r : Register) (m : Machine) :
    (cleanseM cfg r m).regP cfg r = cleansed cfg (m.regP cfg r) := (cleanseM_facts cfg r m).2.2.2

theorem cleansed_mod_ptr (cfg : Config) (m : Machine) (r : Register) :
    cleansed cfg (m.regP cfg r) % ptrMod cfg = cleansed cfg (m.regP cfg r) := by
  apply Nat.mod_eq_of_lt
  have := regP_lt cfg m r
  unfold cleansed
  split
  · exact lt_of_le_of_lt (Nat.mod_le _ _) this
  · exact this
theorem smi_FromInt_value (cfg : Config) (t : Int) :
    (if cfg.is64 = true then unsignedOf M32 (Smi.FromInt cfg t / 4294967296) * M32
      else unsignedOf M32 (Smi.FromInt cfg t)) % ptrMod cfg =
      unsignedOf (ptrMod cfg) (Smi.FromInt cfg t) := by
  unfold Smi.FromInt kSmiShift ptrMod
  cases h : cfg.is64
  · simp only [Bool.false_eq_true, if_false, unsignedOf, M32]
    omega
  · simp only [if_true, unsignedOf, M32, M64]
    have e : t * 2 ^ 32 / 4294967296 = t := by
      rw [show (2 : Int) ^ 32 = 4294967296 from rfl]
      exact Int.mul_ediv_cancel t (by decide)
    rw [e]
    omega

/-- The code of `EnterFrame` is straight-line code; with `S` the stack address
five words below the stack pointer at entry, it leaves `sp = S`,
`fp = S + 3 words` and the five words of the frame at `S`. -/
theorem EnterFrame_spec (cfg : Config) (iso : Isolate) (type : Int) (frame : Bool)
    (code : List Instr) (hcode : codeOf (EnterFrame cfg iso type) frame = some code) :
    (∀ i ∈ code, i.isStraight = true) ∧
    ∀ m : Machine,
      (runStraight cfg code m).regP cfg sp = slot cfg (m.addr cfg sp) (-5) ∧
      (runStraight cfg code m).regP cfg fp = slot cfg (slot cfg (m.addr cfg sp) (-5)) 3 ∧
      (runStraight cfg code m).regP cfg cp = m.regP cfg cp ∧
      loadPtr cfg (runStraight cfg code m).mem (slot cfg (slot cfg (m.addr cfg sp) (-5)) 0) =
        unsignedOf (ptrMod cfg) iso.CodeObject ∧
      loadPtr cfg (runStraight cfg code m).mem (slot cfg (slot cfg (m.addr cfg sp) (-5)) 1) =
        unsignedOf (ptrMod cfg) (Smi.FromInt cfg type) ∧
      loadPtr cfg (runStraight cfg code m).mem (slot cfg (slot cfg (m.addr cfg sp) (-5)) 2) =
        m.regP cfg cp ∧
      loadPtr cfg (runStraight cfg code m).mem (slot cfg (slot cfg (m.addr cfg sp) (-5)) 3) =
        m.regP cfg fp ∧
      loadPtr cfg (runStraight cfg code m).mem (slot cfg (slot cfg (m.addr cfg sp) (-5)) 4) =
        cleansed cfg (m.regP cfg r14) := by
  simp only [codeOf, EnterFrame, mov_run, StoreP_run_fits, CleanseP_run, LoadSmiLiteral_run,
      is_int20_words _ 0 (by decide) (by decide), is_int20_words _ 1 (by decide) (by decide),
      is_int20_words _ 2 (by decide) (by decide), is_int20_words _ 3 (by decide) (by decide),
      is_int20_words _ 4 (by decide) (by decide), is_int20_words _ (-5) (by decide) (by decide),
      MemOperand.mk1, Emit.run_bind_eq, Emit.run_pure, run_emit, List.nil_append,
      List.append_assoc, List.cons_append, Bool.false_or] at hcode
  obtain ⟨rfl, hok⟩ := code_of_ite hcode
  clear hcode hok
  refine ⟨?_, fun m => ?_⟩
  · intro i hi
    simp only [List.mem_append, List.mem_cons, List.mem_singleton, List.not_mem_nil, or_false] at hi
    rcases hi with rfl | hi | rfl | rfl | rfl | rfl | rfl | hi | rfl | rfl
    all_goals first
      | exact isStraight_movCode _ _ _ _ hi
      | exact isStraight_cleanseCode _ _ _ hi
      | exact isStraight_stP _ _ _
      | exact isStraight_smiInstr _ _ _
      | rfl
  · simp +decide only [runStraight_movCode, runStraight_cleanse, runStraight_cons, runStraight_nil,
      effect_stP, effect_lay, effect_la, effect_smiInstr,
      effAddr_disp _ _ _ _ sp_ne_r0,
      cleanseM_mem, cleanseM_addr, cleanseM_regP_ne, cleanseM_regP_self, cleansed_mod_ptr,
      addr_store, addr_setRegP_self, addr_setRegP_ne, addr_setReg_ne, addr_setReg_self,
      addr_rec_update, regP_store, regP_setRegP_self, regP_setRegP_ne, regP_setReg_self,
      regP_setReg_ne, regP_rec_update,
      slot_fold, slot_fold_neg, slot_fold_zero, slot_fold_one, slot_mod_self,
      unsignedOf_ptr_mod_addr, store_mem, setRegP_mem, setReg_mem, mem_rec_update,
      slot_unsignedOf_zero, Int.reduceNeg,
      slot_mod_ptr, regP_mod_ptr, unsignedOf_mod_self,
      loadPtr_write_same, loadPtr_write_slot_ne,
      true_and, and_true, reduceCtorEq, if_true, if_false]
    rw [Nat.mod_mod]
    exact smi_FromInt_value cfg type
theorem regP_mod_addr (cfg : Config) (m : Machine) (r : Register) :
    m.regP cfg r % addrMod cfg = m.addr cfg r := (addr_eq_regP_mod cfg m r).symm

theorem loadPtr_mod_ptr (cfg : Config) (mem : Nat → Nat) (a : Nat) :
    loadPtr cfg mem a % ptrMod cfg = loadPtr cfg mem a :=
  Nat.mod_eq_of_lt (by unfold loadPtr; rw [ptrMod_eq_256_pow]; exact readBytes_lt _ _ _ _)

/-- The code of `LeaveFrame` is straight-line code that reloads `fp` and `r14`
from the two words at `fp` and leaves `sp` two words above them. -/
theorem LeaveFrame_spec (cfg : Config) (type : Int) (frame : Bool)
    (code : List Instr) (hcode : codeOf (LeaveFrame cfg type) frame = some code) :
    (∀ i ∈ code, i.isStraight = true) ∧
    ∀ m : Machine,
      (runStraight cfg code m).regP cfg sp = slot cfg (m.addr cfg fp) 2 ∧
      (runStraight cfg code m).regP cfg fp = loadPtr cfg m.mem (slot cfg (m.addr cfg fp) 0) ∧
      (runStraight cfg code m).regP cfg r14 = loadPtr cfg m.mem (slot cfg (m.addr cfg fp) 1) ∧
      (runStraight cfg code m).mem = m.mem := by
  simp only [codeOf, LeaveFrame, LoadP_run_fits, LoadRR_run,
      is_int20_words _ 2 (by decide) (by decide), is_int20_zero, is_int20_word,
      MemOperand.mk1, Emit.run_bind_eq, Emit.run_pure, run_emit, List.nil_append,
      List.append_assoc, List.cons_append, Bool.false_or] at hcode
  obtain ⟨rfl, hok⟩ := code_of_ite hcode
  clear hcode hok
  refine ⟨?_, fun m => ?_⟩
  · intro i hi
    simp only [List.mem_append, List.mem_cons, List.mem_singleton, List.not_mem_nil, or_false] at hi
    rcases hi with rfl | rfl | rfl | rfl
    all_goals first
      | exact isStraight_ldP _ _ _
      | exact isStraight_lrP _ _ _
      | rfl
  · simp +decide only [runStraight_cons, runStraight_nil,
      effect_ldP, effect_lrP, effect_la,
      effAddr_disp _ _ _ _ sp_ne_r0, regP_mod_addr,
      addr_store, addr_setRegP_self, addr_setRegP_ne, addr_setReg_ne, addr_setReg_self,
      addr_rec_update, regP_store, regP_setRegP_self, regP_setRegP_ne, regP_setReg_self,
      regP_setReg_ne, regP_rec_update,
      slot_fold, slot_fold_neg, slot_fold_zero, slot_fold_one, slot_mod_self,
      unsignedOf_ptr_mod_addr, store_mem, setRegP_mem, setReg_mem, mem_rec_update,
      slot_unsignedOf_zero, loadPtr_mod_ptr,
      slot_mod_ptr, regP_mod_ptr, unsignedOf_mod_self,
      true_and, and_true, reduceCtorEq, if_true, if_false]
/-- C18: from stack pointer `s`, the code of `EnterFrame(type)` runs to its end
and leaves `sp = s - 5 words`; the five words at `sp + 0..4` hold the code
object, the Smi-encoded frame type, the context register `cp`, the caller's
frame pointer and the return address (`r14` as `CleanseP` leaves it: the bit
above the 31-bit address is cleared where `CleanseP` emits code, so that the
word addresses what `r14` addresses, and is `r14` itself on the 64-bit target);
`fp = sp + 3 words` and `cp` is unchanged. -/
theorem EnterFrame_layout (cfg : Config) (iso : Isolate) (env : Env) (m : Machine) (type : Int)
    (frame : Bool) (code : List Instr)
    (hcode : codeOf (EnterFrame cfg iso type) frame = some code) :
    ∃ f, exec cfg env code (code.length + 1) m = some f ∧
      f.outcome = .fallthrough ∧
      f.machine.regP cfg sp = slot cfg (m.addr cfg sp) (-5) ∧
      loadPtr cfg f.machine.mem (slot cfg (f.machine.addr cfg sp) 0) =
        unsignedOf (ptrMod cfg) iso.CodeObject ∧
      loadPtr cfg f.machine.mem (slot cfg (f.machine.addr cfg sp) 1) =
        unsignedOf (ptrMod cfg) (Smi.FromInt cfg type) ∧
      loadPtr cfg f.machine.mem (slot cfg (f.machine.addr cfg sp) 2) = m.regP cfg cp ∧
      loadPtr cfg f.machine.mem (slot cfg (f.machine.addr cfg sp) 3) = m.regP cfg fp ∧
      loadPtr cfg f.machine.mem (slot cfg (f.machine.addr cfg sp) 4) =
        cleansed cfg (m.regP cfg r14) ∧
      loadPtr cfg f.machine.mem (slot cfg (f.machine.addr cfg sp) 4) % addrMod cfg =
        m.addr cfg r14 ∧
      (cfg.is64 = true →
        loadPtr cfg f.machine.mem (slot cfg (f.machine.addr cfg sp) 4) = m.regP cfg r14) ∧
      f.machine.regP cfg fp = slot cfg (f.machine.addr cfg sp) 3 ∧
      f.machine.regP cfg cp = m.regP cfg cp := by
  obtain ⟨hs, hm⟩ := EnterFrame_spec cfg iso type frame code hcode
  obtain ⟨h1, h2, h3, h4, h5, h6, h7, h8⟩ := hm m
  have ha : (runStraight cfg code m).addr cfg sp = slot cfg (m.addr cfg sp) (-5) := by
    rw [addr_eq_regP_mod, h1, slot_mod_self]
  refine ⟨_, exec_of_straight cfg env code hs m, rfl, h1, ?_, ?_, ?_, ?_, ?_, ?_, ?_, ?_, h3⟩
  · show loadPtr cfg (runStraight cfg code m).mem (slot cfg ((runStraight cfg code m).addr cfg sp) 0) = _
    rw [ha, h4]
  · show loadPtr cfg (runStraight cfg code m).mem (slot cfg ((runStraight cfg code m).addr cfg sp) 1) = _
    rw [ha, h5]
  · show loadPtr cfg (runStraight cfg code m).mem (slot cfg ((runStraight cfg code m).addr cfg sp) 2) = _
    rw [ha, h6]
  · show loadPtr cfg (runStraight cfg code m).mem (slot cfg ((runStraight cfg code m).addr cfg sp) 3) = _
    rw [ha, h7]
  · show loadPtr cfg (runStraight cfg code m).mem (slot cfg ((runStraight cfg code m).addr cfg sp) 4) = _
    rw [ha, h8]
  · show loadPtr cfg (runStraight cfg code m).mem
      (slot cfg ((runStraight cfg code m).addr cfg sp) 4) % addrMod cfg = _
    rw [ha, h8, cleansed_mod_addr, regP_mod_addr]
  · intro h64
    show loadPtr cfg (runStraight cfg code m).mem (slot cfg ((runStraight cfg code m).addr cfg sp) 4) = _
    rw [ha, h8]
    unfold cleansed
    rw [h64]
    rfl
  · show (runStraight cfg code m).regP cfg fp = slot cfg ((runStraight cfg code m).addr cfg sp) 3
    rw [ha, h2]

/-- C18 (witness): an internal frame entered on the 64-bit target with the
stack pointer at 65536, `cp = 7` and `fp = 9`. -/
theorem EnterFrame_layout_witness :
    ∃ code, codeOf (EnterFrame cfg64 (sampleIsolate cfg64) 4) false = some code ∧
      ∃ f, exec cfg64 sampleEnv code (code.length + 1) (stackMachine 65536 7 9) = some f ∧
        f.machine.regP cfg64 sp = 65496 ∧
        loadPtr cfg64 f.machine.mem (slot cfg64 (f.machine.addr cfg64 sp) 1) = 17179869184 ∧
        loadPtr cfg64 f.machine.mem (slot cfg64 (f.machine.addr cfg64 sp) 2) = 7 ∧
        loadPtr cfg64 f.machine.mem (slot cfg64 (f.machine.addr cfg64 sp) 3) = 9 :=
  ⟨_, rfl,
    (EnterFrame_layout cfg64 (sampleIsolate cfg64) sampleEnv (stackMachine 65536 7 9) 4
      false _ rfl).imp
      (fun _ h => ⟨h.1, h.2.2.1, h.2.2.2.2.1, h.2.2.2.2.2.1, h.2.2.2.2.2.2.1⟩)⟩

/-- C19: the code of `EnterFrame(type)` followed by the code of
`LeaveFrame(type)` leaves `sp` addressing what it addressed before, `fp` as it
was, and `r14` holding the return address that was saved on entry; the same
holds when the code of `LeaveFrame` runs on any later machine state in which
`fp` still addresses the frame and the two saved words are untouched. -/
theorem EnterFrame_LeaveFrame_restores (cfg : Config) (iso : Isolate) (env : Env) (m : Machine)
    (type : Int) (frame : Bool) (c1 c2 : List Instr)
    (h1 : codeOf (EnterFrame cfg iso type) frame = some c1)
    (h2 : codeOf (LeaveFrame cfg type) frame = some c2) :
    (∃ f, exec cfg env (c1 ++ c2) ((c1 ++ c2).length + 1) m = some f ∧
      f.outcome = .fallthrough ∧
      f.machine.addr cfg sp = m.addr cfg sp ∧
      f.machine.regP cfg fp = m.regP cfg fp ∧
      f.machine.regP cfg r14 = cleansed cfg (m.regP cfg r14) ∧
      f.machine.addr cfg r14 = m.addr cfg r14) ∧
    (∃ f1, exec cfg env c1 (c1.length + 1) m = some f1 ∧
      loadPtr cfg f1.machine.mem (slot cfg (f1.machine.addr cfg fp) 1) =
        cleansed cfg (m.regP cfg r14) ∧
      ∀ m2 : Machine, m2.addr cfg fp = f1.machine.addr cfg fp →
        loadPtr cfg m2.mem (slot cfg (f1.machine.addr cfg fp) 0) =
          loadPtr cfg f1.machine.mem (slot cfg (f1.machine.addr cfg fp) 0) →
        loadPtr cfg m2.mem (slot cfg (f1.machine.addr cfg fp) 1) =
          loadPtr cfg f1.machine.mem (slot cfg (f1.machine.addr cfg fp) 1) →
        ∃ f2, exec cfg env c2 (c2.length + 1) m2 = some f2 ∧
          f2.outcome = .fallthrough ∧
          f2.machine.addr cfg sp = m.addr cfg sp ∧
          f2.machine.regP cfg fp = m.regP cfg fp ∧
          f2.machine.regP cfg r14 = cleansed cfg (m.regP cfg r14) ∧
          f2.machine.addr cfg r14 = m.addr cfg r14) := by
  obtain ⟨s1, p1⟩ := EnterFrame_spec cfg iso type frame c1 h1
  obtain ⟨s2, p2⟩ := LeaveFrame_spec cfg type frame c2 h2
  obtain ⟨e1, e2, e3, e4, e5, e6, e7, e8⟩ := p1 m
  have hfp : (runStraight cfg c1 m).addr cfg fp = slot cfg (m.addr cfg sp) (-2) := by
    rw [addr_eq_regP_mod, e2, slot_mod_self, slot_slot]; rfl
  have w0 : slot cfg (slot cfg (m.addr cfg sp) (-2)) 0 = slot cfg (slot cfg (m.addr cfg sp) (-5)) 3 := by
    rw [slot_slot, slot_slot]; rfl
  have w1 : slot cfg (slot cfg (m.addr cfg sp) (-2)) 1 = slot cfg (slot cfg (m.addr cfg sp) (-5)) 4 := by
    rw [slot_slot, slot_slot]; rfl
  have w2 : slot cfg (slot cfg (m.addr cfg sp) (-2)) 2 = m.addr cfg sp := by
    rw [slot_slot, show (-2 : Int) + 2 = 0 from rfl, slot_zero]
    exact Nat.mod_eq_of_lt (addr_lt cfg m sp)
  have key : ∀ m2 : Machine, m2.addr cfg fp = slot cfg (m.addr cfg sp) (-2) →
      loadPtr cfg m2.mem (slot cfg (slot cfg (m.addr cfg sp) (-2)) 0) = m.regP cfg fp →
      loadPtr cfg m2.mem (slot cfg (slot cfg (m.addr cfg sp) (-2)) 1) =
        cleansed cfg (m.regP cfg r14) →
      (runStraight cfg c2 m2).addr cfg sp = m.addr cfg sp ∧
      (runStraight cfg c2 m2).regP cfg fp = m.regP cfg fp ∧
      (runStraight cfg c2 m2).regP cfg r14 = cleansed cfg (m.regP cfg r14) ∧
      (runStraight cfg c2 m2).addr cfg r14 = m.addr cfg r14 := by
    intro m2 a0 a1 a2
    obtain ⟨q1, q2, q3, _⟩ := p2 m2
    rw [a0] at q1 q2 q3
    refine ⟨?_, ?_, ?_, ?_⟩
    · rw [addr_eq_regP_mod, q1, w2]; exact Nat.mod_eq_of_lt (addr_lt cfg m sp)
    · rw [q2, a1]
    · rw [q3, a2]
    · rw [addr_eq_regP_mod, q3, a2, cleansed_mod_addr, regP_mod_addr]
  have hst : ∀ i ∈ c1 ++ c2, i.isStraight = true := by
    intro i hi
    rcases List.mem_append.1 hi with h | h
    · exact s1 i h
    · exact s2 i h
  refine ⟨⟨_, exec_of_straight cfg env _ hst m, rfl, ?_⟩,
    ⟨_, exec_of_straight cfg env _ s1 m, ?_, fun m2 a0 a1 a2 =>
      ⟨_, exec_of_straight cfg env _ s2 m2, rfl, ?_⟩⟩⟩
  · show (runStraight cfg (c1 ++ c2) m).addr cfg sp = _ ∧ _
    rw [runStraight_append]
    exact key _ hfp (by rw [w0, e7]) (by rw [w1, e8])
  · show loadPtr cfg (runStraight cfg c1 m).mem (slot cfg ((runStraight cfg c1 m).addr cfg fp) 1) = _
    rw [hfp, w1, e8]
  · have b0 : (runStraight cfg c1 m).addr cfg fp = slot cfg (m.addr cfg sp) (-2) := hfp
    have a0x : m2.addr cfg fp = (runStraight cfg c1 m).addr cfg fp := a0
    have a1x : loadPtr cfg m2.mem (slot cfg ((runStraight cfg c1 m).addr cfg fp) 0) =
      loadPtr cfg (runStraight cfg c1 m).mem (slot cfg ((runStraight cfg c1 m).addr cfg fp) 0) := a1
    have a2x : loadPtr cfg m2.mem (slot cfg ((runStraight cfg c1 m).addr cfg fp) 1) =
      loadPtr cfg (runStraight cfg c1 m).mem (slot cfg ((runStraight cfg c1 m).addr cfg fp) 1) := a2
    rw [b0] at a0x a1x a2x
    rw [w0, e7] at a1x
    rw [w1, e8] at a2x
    rw [← w0] at a1x
    rw [← w1] at a2x
    exact key m2 a0x a1x a2x

/-- C19 (witness): an internal frame entered and left on the 64-bit target
with the stack pointer at 65536, `cp = 7` and `fp = 9`. -/
theorem EnterFrame_LeaveFrame_restores_witness :
    ∃ c1 c2, codeOf (EnterFrame cfg64 (sampleIsolate cfg64) 4) false = some c1 ∧
      codeOf (LeaveFrame cfg64 4) false = some c2 ∧
      ∃ f, exec cfg64 sampleEnv (c1 ++ c2) ((c1 ++ c2).length + 1) (stackMachine 65536 7 9) =
          some f ∧
        f.machine.addr cfg64 sp = 65536 ∧ f.machine.regP cfg64 fp = 9 :=
  ⟨_, _, rfl, rfl,
    (EnterFrame_LeaveFrame_restores cfg64 (sampleIsolate cfg64) sampleEnv (stackMachine 65536 7 9) 4
      false _ _ rfl rfl).1.imp
      (fun _ h => ⟨h.1, h.2.2.1, h.2.2.2.1⟩)⟩

/-! ## Effects of the arithmetic instructions -/

theorem regP_setCC (cfg : Config) (m : Machine) (c : Nat) (x : Register) :
    (m.setCC c).regP cfg x = m.regP cfg x := rfl

theorem addr_setCC (cfg : Config) (m : Machine) (c : Nat) (x : Register) :
    (m.setCC c).addr cfg x = m.addr cfg x := rfl

theorem machine_ext (a b : Machine) (h1 : a.regs = b.regs) (h2 : a.cc = b.cc) (h3 : a.mem = b.mem)
    (h4 : a.fregs = b.fregs) : a = b := by
  cases a; cases b; simp only at h1 h2 h3 h4; subst h1 h2 h3 h4; rfl

theorem setRegP_regs (cfg : Config) (m : Machine) (r : Register) (v : Nat) :
    (m.setRegP cfg r v).regs =
      fun x => if x = r then (if cfg.is64 then v % M64 else setLo32 (m.regs r) v) else m.regs x := by
  unfold Machine.setRegP Machine.setReg
  split <;> rfl

/-- An instruction that writes `w` to register `d` and leaves a condition
code is `setRegP` followed by `setCC` when `w` has the pointer-size value `v`
and keeps the high word on the 31-bit target. -/
theorem setReg_eq_setRegP (cfg : Config) (m : Machine) (d : Register) (w v c : Nat)
    (h : w = if cfg.is64 then v % M64 else setLo32 (m.regs d) v) :
    (m.setReg d w).setCC c = (m.setRegP cfg d v).setCC c := by
  apply machine_ext
  · rw [setCC_regs, setCC_regs, setRegP_regs, h]; rfl
  · rfl
  · rw [setCC_mem, setCC_mem, setRegP_mem]; rfl
  · show m.fregs = (m.setRegP cfg d v).fregs
    rw [setRegP_fregs]

theorem setReg_eq_setRegP_nocc (cfg : Config) (m : Machine) (d : Register) (w v : Nat)
    (h : w = if cfg.is64 then v % M64 else setLo32 (m.regs d) v) :
    m.setReg d w = m.setRegP cfg d v := by
  apply machine_ext
  · rw [setRegP_regs, h]; rfl
  · rw [setRegP_cc]; rfl
  · rw [setRegP_mem]; rfl
  · rw [setRegP_fregs]; rfl

theorem effect_addP (cfg : Config) (m : Machine) (d s : Register) :
    (addP cfg d s).effect cfg m =
      (m.setRegP cfg d (m.regP cfg d + m.regP cfg s)).setCC (ccAfter cfg m (addP cfg d s)) := by
  unfold ccAfter addP
  cases h : cfg.is64
  · simp only [Bool.false_eq_true, if_false]
    show (m.setReg d _).setCC _ = _
    apply setReg_eq_setRegP
    simp only [h, Bool.false_eq_true, if_false, Machine.regP, ptrMod]
  · simp only [if_true]
    show (m.setReg d _).setCC _ = _
    apply setReg_eq_setRegP
    simp only [h, if_true, Machine.regP, ptrMod]

theorem effect_addPI (cfg : Config) (m : Machine) (d : Register) (imm : Int)
    (h32 : is_int32 imm = true) :
    (addPI cfg d imm).effect cfg m =
      (m.setRegP cfg d (m.regP cfg d + unsignedOf (ptrMod cfg) imm)).setCC
        (ccAfter cfg m (addPI cfg d imm)) := by
  have h32a : -2147483648 ≤ imm ∧ imm ≤ 2147483647 := by simpa [is_int32] using h32
  have ht : toInt32 imm = imm := by unfold toInt32; omega
  unfold ccAfter addPI
  cases h : cfg.is64 <;> by_cases h16 : is_int16 imm = true
  all_goals simp only [h16, Bool.false_eq_true, if_false, if_true]
  all_goals show (m.setReg d _).setCC _ = _
  all_goals apply setReg_eq_setRegP
  all_goals simp only [h, Bool.false_eq_true, if_false, if_true, Machine.regP, ptrMod, ht]
  all_goals try rw [show toInt16 imm = imm from by
    have h16a : -32768 ≤ imm ∧ imm ≤ 32767 := by simpa [is_int16] using h16
    unfold toInt16; omega]
  all_goals first
    | rw [Nat.mod_eq_of_lt (unsignedOf_lt M64 imm (by decide))]
    | rw [Nat.mod_eq_of_lt (unsignedOf_lt M32 imm (by decide))]

theorem unsignedOf_64_nat (k : Nat) (h : k < 64) : unsignedOf 64 (k : Int) = k := by
  unfold unsignedOf; omega

theorem effect_srl (cfg : Config) (m : Machine) (d : Register) (k : Nat) (hk : k < 64)
    (h : m.regP cfg d < M32) :
    (Instr.srl d (k : Int)).effect cfg m = m.setRegP cfg d (m.regP cfg d / 2 ^ k) := by
  show m.setReg d _ = _
  apply setReg_eq_setRegP_nocc
  rw [unsignedOf_64_nat k hk]
  have hq : m.regP cfg d / 2 ^ k ≤ m.regP cfg d := Nat.div_le_self _ _
  unfold Machine.regP ptrMod at *
  cases h64 : cfg.is64
  · simp only [h64, Bool.false_eq_true, if_false, lo32] at *
  · simp only [h64, if_true] at *
    have e1 : lo32 (m.regs d) = m.regs d % M64 := by
      simp only [lo32, M32, M64] at *; omega
    have e2 : hi32 (m.regs d) = 0 := by
      simp only [hi32, M32, M64] at *; omega
    rw [e1]
    simp only [setLo32, e2]
    generalize m.regs d % M64 / 2 ^ k = q at *
    simp only [M32, M64] at *
    omega

theorem effect_sll (cfg : Config) (m : Machine) (d : Register) (k : Nat) (hk : k < 64)
    (h : cfg.is64 = true → m.regP cfg d * 2 ^ k < M32) :
    (Instr.sll d (k : Int)).effect cfg m = m.setRegP cfg d (m.regP cfg d * 2 ^ k) := by
  show m.setReg d _ = _
  apply setReg_eq_setRegP_nocc
  rw [unsignedOf_64_nat k hk]
  unfold Machine.regP ptrMod at *
  cases h64 : cfg.is64
  · simp only [h64, Bool.false_eq_true, if_false, lo32] at *
  · simp only [h64, if_true, true_implies] at *
    have hp : 1 ≤ 2 ^ k := Nat.one_le_two_pow
    have hlt : m.regs d % M64 < M32 := by
      calc m.regs d % M64 = m.regs d % M64 * 1 := (Nat.mul_one _).symm
        _ ≤ m.regs d % M64 * 2 ^ k := Nat.mul_le_mul_left _ hp
        _ < M32 := h
    have e1 : lo32 (m.regs d) = m.regs d % M64 := by
      simp only [lo32, M32, M64] at *; omega
    have e2 : hi32 (m.regs d) = 0 := by
      simp only [hi32, M32, M64] at *; omega
    rw [e1]
    simp only [setLo32, e2]
    generalize m.regs d % M64 * 2 ^ k = q at *
    simp only [M32, M64] at *
    omega

theorem effect_cmpZero (cfg : Config) (m : Machine) (r : Register) :
    (cmpZero cfg r).effect cfg m = m.setCC (cmpCC (signedOf (ptrMod cfg) (m.regs r)) 0) := by
  unfold cmpZero ptrMod
  cases h : cfg.is64 <;> rfl

theorem condHolds_eq_cmpCC (a b : Int) : condHolds eq (cmpCC a b) = true ↔ a = b := by
  unfold cmpCC
  split_ifs with h1 h2 <;> simp [condHolds, eq, h1]

theorem signedOf_eq_zero (n v : Nat) (hn : 2 ≤ n) : signedOf n v = 0 ↔ v % n = 0 := by
  unfold signedOf
  have : v % n < n := Nat.mod_lt _ (by omega)
  split <;> omega

theorem condHolds_eq_cmpZero (cfg : Config) (m : Machine) (r : Register) :
    condHolds eq (cmpCC (signedOf (ptrMod cfg) (m.regs r)) 0) = true ↔ m.regP cfg r = 0 := by
  rw [condHolds_eq_cmpCC, signedOf_eq_zero _ _ (by unfold ptrMod M64 M32; split <;> decide)]
  rfl

theorem effect_andP (cfg : Config) (m : Machine) (d s : Register) :
    (andP cfg d s).effect cfg m =
      (m.setRegP cfg d (Nat.land (m.regP cfg d) (m.regP cfg s))).setCC
        (logicCC (Nat.land (m.regP cfg d) (m.regP cfg s))) := by
  unfold andP
  cases h : cfg.is64
  · simp only [Bool.false_eq_true, if_false]
    show (m.setReg d _).setCC _ = _
    have : ptrMod cfg = M32 := by unfold ptrMod; rw [h]; rfl
    simp only [Machine.regP, this]
    apply setReg_eq_setRegP
    simp only [h, Bool.false_eq_true, if_false]
  · simp only [if_true]
    show (m.setReg d _).setCC _ = _
    have : ptrMod cfg = M64 := by unfold ptrMod; rw [h]; rfl
    simp only [Machine.regP, this]
    apply setReg_eq_setRegP
    simp only [h, if_true]
    have hlt : Nat.land (m.regs d % M64) (m.regs s % M64) < M64 :=
      lt_of_le_of_lt Nat.and_le_left (Nat.mod_lt _ (by decide))
    exact (Nat.mod_eq_of_lt hlt).symm

theorem condHolds_ne_logicCC (v : Nat) : condHolds ne (logicCC v) = true ↔ v ≠ 0 := by
  unfold logicCC
  split <;> simp [condHolds, ne, *]

/-- A machine that differs from `m` in register `d` and the condition code
only. -/
theorem eq_setRegP_setCC (cfg : Config) (m m1 : Machine) (d : Register) (v : Nat)
    (hmem : m1.mem = m.mem) (hf : m1.fregs = m.fregs)
    (hregs : ∀ x, x ≠ d → m1.regs x = m.regs x)
    (hd : m1.regs d = if cfg.is64 then v % M64 else setLo32 (m.regs d) v) :
    m1 = (m.setRegP cfg d v).setCC m1.cc := by
  apply machine_ext
  · rw [setCC_regs, setRegP_regs]
    funext x
    by_cases hx : x = d
    · subst hx; rw [if_pos rfl, hd]
    · rw [if_neg hx, hregs x hx]
  · rfl
  · rw [setCC_mem, setRegP_mem, hmem]
  · show m1.fregs = (m.setRegP cfg d v).fregs
    rw [setRegP_fregs, hf]

theorem kSmiShift_lt (cfg : Config) : kSmiShift cfg < 64 := by
  unfold kSmiShift; split <;> decide

theorem effects_srag (cfg : Config) (m : Machine) (d s : Register) (n : Int) :
    (Instr.srag d s n).effect cfg m =
      (m.setReg d (unsignedOf M64 (signedOf M64 (m.regs s) / 2 ^ (unsignedOf 64 n)))).setCC
        (signCC M64 (unsignedOf M64 (signedOf M64 (m.regs s) / 2 ^ (unsignedOf 64 n)))) := rfl

theorem effects_sra (cfg : Config) (m : Machine) (d : Register) (n : Int) :
    (Instr.sra d n).effect cfg m =
      (m.setReg d (setLo32 (m.regs d)
        (unsignedOf M32 (signedOf M32 (m.regs d) / 2 ^ (unsignedOf 64 n))))).setCC
        (signCC M32 (unsignedOf M32 (signedOf M32 (m.regs d) / 2 ^ (unsignedOf 64 n)))) := rfl

theorem effects_srak (cfg : Config) (m : Machine) (d s : Register) (n : Int) :
    (Instr.srak d s n).effect cfg m =
      (m.setReg d (setLo32 (m.regs d)
        (unsignedOf M32 (signedOf M32 (m.regs s) / 2 ^ (unsignedOf 64 n))))).setCC
        (signCC M32 (unsignedOf M32 (signedOf M32 (m.regs s) / 2 ^ (unsignedOf 64 n)))) := rfl

theorem effects_lr (cfg : Config) (m : Machine) (d s : Register) :
    (Instr.lr d s).effect cfg m = m.setReg d (setLo32 (m.regs d) (m.regs s)) := rfl

theorem setLo32_setLo32 (v x y : Nat) : setLo32 (setLo32 v x) y = setLo32 v y := by
  simp only [setLo32, hi32, M32]; omega

theorem runStraight_untag (cfg : Config) (d s : Register) (rest : List Instr) (m : Machine) :
    runStraight cfg (untagCode cfg d s ++ rest) m =
      runStraight cfg rest
        ((m.setRegP cfg d (unsignedOf (ptrMod cfg) (untagged cfg (m.regP cfg s)))).setCC
          (ccAfterAll cfg m (untagCode cfg d s))) := by
  rw [runStraight_append]
  congr 1
  unfold ccAfterAll
  have hk := unsignedOf_64_nat _ (kSmiShift_lt cfg)
  cases h : cfg.is64
  · have hp : ptrMod cfg = M32 := by unfold ptrMod; rw [h]; rfl
    by_cases hds : d = s
    · have hc : untagCode cfg d s = [.sra d (kSmiShift cfg)] := by
        simp [untagCode, h, hds]
      rw [hc]
      apply eq_setRegP_setCC
      · rfl
      · rfl
      · intro x hx
        simp only [runStraight_cons, runStraight_nil, effects_sra, setCC_regs]
        exact setReg_regs_ne _ _ _ _ hx
      · simp only [runStraight_cons, runStraight_nil, effects_sra, setCC_regs, setReg_regs_self,
          h, Bool.false_eq_true, if_false, hk, untagged, hp, Machine.regP, signedOf_mod, hds]
    · cases hdo : cfg.distinct_ops
      · have hc : untagCode cfg d s = [.lr d s, .sra d (kSmiShift cfg)] := by
          simp [untagCode, h, hds, hdo]
        rw [hc]
        apply eq_setRegP_setCC
        · rfl
        · rfl
        · intro x hx
          simp only [runStraight_cons, runStraight_nil, effects_sra, effects_lr, setCC_regs]
          rw [setReg_regs_ne _ _ _ _ hx, setReg_regs_ne _ _ _ _ hx]
        · simp only [runStraight_cons, runStraight_nil, effects_sra, effects_lr, setCC_regs,
            setReg_regs_self, h, Bool.false_eq_true, if_false, hk, untagged, hp, Machine.regP,
            signedOf_mod, setLo32_setLo32, signedOf_setLo32]
      · have hc : untagCode cfg d s = [.srak d s (kSmiShift cfg)] := by
          simp [untagCode, h, hds, hdo]
        rw [hc]
        apply eq_setRegP_setCC
        · rfl
        · rfl
        · intro x hx
          simp only [runStraight_cons, runStraight_nil, effects_srak, setCC_regs]
          exact setReg_regs_ne _ _ _ _ hx
        · simp only [runStraight_cons, runStraight_nil, effects_srak, setCC_regs, setReg_regs_self,
            h, Bool.false_eq_true, if_false, hk, untagged, hp, Machine.regP, signedOf_mod]
  · have hp : ptrMod cfg = M64 := by unfold ptrMod; rw [h]; rfl
    have hc : untagCode cfg d s = [.srag d s (kSmiShift cfg)] := by
      simp [untagCode, h]
    rw [hc]
    apply eq_setRegP_setCC
    · rfl
    · rfl
    · intro x hx
      simp only [runStraight_cons, runStraight_nil, effects_srag, setCC_regs]
      exact setReg_regs_ne _ _ _ _ hx
    · simp only [runStraight_cons, runStraight_nil, effects_srag, setCC_regs, setReg_regs_self,
        h, if_true, hk, untagged, hp, Machine.regP, signedOf_mod]
      exact (Nat.mod_eq_of_lt (unsignedOf_lt M64 _ (by decide))).symm

theorem setRegP_setRegP (cfg : Config) (m : Machine) (d : Register) (a b : Nat) :
    (m.setRegP cfg d a).setRegP cfg d b = m.setRegP cfg d b := by
  apply machine_ext
  · rw [setRegP_regs, setRegP_regs]
    funext x
    by_cases hx : x = d
    · subst hx
      simp only [if_true, setRegP_regs]
      split
      · rfl
      · exact setLo32_setLo32 _ _ _
    · simp only [if_neg hx, setRegP_regs]
  · rw [setRegP_cc, setRegP_cc, setRegP_cc]
  · rw [setRegP_mem, setRegP_mem, setRegP_mem]
  · rw [setRegP_fregs, setRegP_fregs, setRegP_fregs]

theorem setRegP_congr (cfg : Config) (m : Machine) (d : Register) (a b : Nat)
    (h : a % ptrMod cfg = b % ptrMod cfg) : m.setRegP cfg d a = m.setRegP cfg d b := by
  unfold Machine.setRegP
  unfold ptrMod at h
  cases h64 : cfg.is64
  · simp only [h64, Bool.false_eq_true, if_false] at h ⊢
    rw [setLo32_congr _ _ _ h]
  · simp only [h64, if_true] at h ⊢
    rw [h]

theorem runStraight_addRRR (cfg : Config) (d s1 s2 : Register) (rest : List Instr) (m : Machine)
    (h1 : d ≠ s1) (h2 : d ≠ s2) :
    runStraight cfg (addRRR cfg d s1 s2 ++ rest) m =
      runStraight cfg rest
        ((m.setRegP cfg d (m.regP cfg s1 + m.regP cfg s2)).setCC
          (ccAfterAll cfg m (addRRR cfg d s1 s2))) := by
  rw [runStraight_append]
  congr 1
  unfold ccAfterAll
  cases hdo : cfg.distinct_ops
  · have hc : addRRR cfg d s1 s2 = [lrP cfg d s1, addP cfg d s2] := by
      simp [addRRR, hdo]
    rw [hc]
    simp only [runStraight_cons, runStraight_nil, effect_lrP, effect_addP, setCC_cc,
      regP_setRegP_self, regP_setRegP_ne cfg m d s2 _ (Ne.symm h2), setRegP_setRegP]
    congr 1
    apply setRegP_congr
    rw [Nat.add_mod, Nat.mod_mod, ← Nat.add_mod]
  · cases h : cfg.is64
    · have hp : ptrMod cfg = M32 := by unfold ptrMod; rw [h]; rfl
      have hc : addRRR cfg d s1 s2 = [.ark d s1 s2] := by
        simp [addRRR, hdo, h]
      rw [hc]
      apply eq_setRegP_setCC
      · rfl
      · rfl
      · intro x hx
        show (if x = d then _ else m.regs x) = m.regs x
        rw [if_neg hx]
      · show (if d = d then _ else m.regs d) = _
        simp only [if_true, h, Bool.false_eq_true, if_false, Machine.regP, hp]
    · have hp : ptrMod cfg = M64 := by unfold ptrMod; rw [h]; rfl
      have hc : addRRR cfg d s1 s2 = [.agrk d s1 s2] := by
        simp [addRRR, hdo, h]
      rw [hc]
      apply eq_setRegP_setCC
      · rfl
      · rfl
      · intro x hx
        show (if x = d then _ else m.regs x) = m.regs x
        rw [if_neg hx]
      · show (if d = d then _ else m.regs d) = _
        simp only [if_true, h, Machine.regP, hp]
/-! ## Emission of the arithmetic instructions -/

theorem AddP_Operand_run (cfg : Config) (dst : Register) (opnd : Operand) (st : Asm) :
    (AddP_Operand cfg dst opnd).run st = (emit (addPI cfg dst opnd.imm_)).run st := by
  unfold AddP_Operand Add32_Operand addPI Operand.immediate
  cases cfg.is64 <;> by_cases h : is_int16 opnd.imm_ = true <;> simp [h]

theorem AddP_Register_run (cfg : Config) (dst src : Register) (st : Asm) :
    (AddP_Register cfg dst src).run st = (emit (addP cfg dst src)).run st := rfl

theorem AndP_Register_run (cfg : Config) (dst src : Register) (st : Asm) :
    (AndP_Register cfg dst src).run st = (emit (andP cfg dst src)).run st := rfl

theorem CmpP_Operand_Zero_run (cfg : Config) (r : Register) (st : Asm) :
    (CmpP_Operand cfg r Operand.Zero).run st = (emit (cmpZero cfg r)).run st := by
  unfold CmpP_Operand Cmp32_Operand cmpZero Operand.Zero Operand.immediate
  cases cfg.is64 <;> simp [is_int16]

theorem SmiUntag_run (cfg : Config) (dst src : Register) (st : Asm) :
    (SmiUntag cfg dst src).run st =
      ((), { st with code := st.code ++ untagCode cfg dst src,
                     failed := st.failed || !((untagCode cfg dst src).all Instr.encodable) }) := by
  unfold SmiUntag ShiftRightArithP ShiftRightArith untagCode Operand.ofInt
  cases cfg.is64 <;> by_cases h : dst = src <;> cases cfg.distinct_ops <;>
    simp [h, Bool.or_assoc, Bool.not_and]

theorem AddP_Register_Register_run (cfg : Config) (dst src1 src2 : Register) (st : Asm)
    (h1 : dst ≠ src1) (h2 : dst ≠ src2) :
    (AddP_Register_Register cfg dst src1 src2).run st =
      ((), { st with code := st.code ++ addRRR cfg dst src1 src2,
                     failed := st.failed || !((addRRR cfg dst src1 src2).all Instr.encodable) }) := by
  unfold AddP_Register_Register addRRR AddP_RRR LoadRR AddRR lrP addP
  cases cfg.is64 <;> cases cfg.distinct_ops <;>
    simp [h1, h2, Bool.or_assoc, Bool.not_and]

theorem LoadP_run_no_reg (cfg : Config) (dst : Register) (mem : MemOperand) (st : Asm) :
    (LoadP cfg dst mem no_reg).run st = (emit (ldP cfg dst mem)).run st := by
  unfold LoadP ldP
  cases cfg.is64 <;> by_cases h12 : is_uint12 mem.offset = true <;> simp [h12]

/-! ## Position lemmas -/

theorem isStraight_addPI (cfg : Config) (d : Register) (i : Int) :
    (addPI cfg d i).isStraight = true := by
  unfold addPI; split <;> split <;> rfl

theorem isStraight_addP (cfg : Config) (d s : Register) : (addP cfg d s).isStraight = true := by
  unfold addP; split <;> rfl

theorem isStraight_andP (cfg : Config) (d s : Register) : (andP cfg d s).isStraight = true := by
  unfold andP; split <;> rfl

theorem isStraight_cmpZero (cfg : Config) (d : Register) : (cmpZero cfg d).isStraight = true := by
  unfold cmpZero; split <;> rfl

theorem isStraight_untagCode (cfg : Config) (d s : Register) :
    ∀ x ∈ untagCode cfg d s, x.isStraight = true := by
  unfold untagCode; split
  · simp [Instr.isStraight]
  · split
    · simp [Instr.isStraight]
    · split <;> simp [Instr.isStraight]

theorem isStraight_addRRR (cfg : Config) (d s1 s2 : Register) :
    ∀ x ∈ addRRR cfg d s1 s2, x.isStraight = true := by
  unfold addRRR; split
  · split <;> simp [Instr.isStraight]
  · intro x hx
    simp only [List.mem_cons, List.mem_singleton, List.not_mem_nil, or_false] at hx
    rcases hx with rfl | rfl
    · exact isStraight_lrP _ _ _
    · exact isStraight_addP _ _ _

/-- More fuel does not change the result of a run that ends. -/
theorem run_mono (cfg : Config) (env : Env) (code : List Instr) :
    ∀ (fuel : Nat) (pos : List Instr) (m : Machine) (tr : List Event) (f : Final),
      run cfg env code fuel pos m tr = some f → run cfg env code (fuel + 1) pos m tr = some f := by
  intro fuel
  induction fuel with
  | zero => intro pos m tr f h; exact absurd h (by simp [run])
  | succ n ih =>
    intro pos m tr f h
    cases pos with
    | nil => exact h
    | cons i rest =>
      show Next.resume env code (run cfg env code (n + 1)) rest tr _ = some f
      have h1 : Next.resume env code (run cfg env code n) rest tr
        (step cfg (env.link (code.length - rest.length)) m i) = some f := h
      revert h1
      cases step cfg (env.link (code.length - rest.length)) m i with
      | «continue» m1 => exact ih _ _ _ _
      | goto l m1 =>
        simp only [Next.resume]
        cases suffixAt l code with
        | none => exact id
        | some r => exact ih _ _ _ _
      | jump a m1 => exact id
      | call t m1 => exact ih _ _ _ _
      | abort m1 => exact id

theorem run_mono_add (cfg : Config) (env : Env) (code : List Instr) (k : Nat) :
    ∀ (fuel : Nat) (pos : List Instr) (m : Machine) (tr : List Event) (f : Final),
      run cfg env code fuel pos m tr = some f → run cfg env code (fuel + k) pos m tr = some f := by
  induction k with
  | zero => intro fuel pos m tr f h; exact h
  | succ n ih => intro fuel pos m tr f h; exact run_mono cfg env code _ _ _ _ _ (ih _ _ _ _ _ h)

theorem run_mono_le (cfg : Config) (env : Env) (code : List Instr) (a b : Nat) (hab : a ≤ b)
    (pos : List Instr) (m : Machine) (tr : List Event) (f : Final)
    (h : run cfg env code a pos m tr = some f) : run cfg env code b pos m tr = some f := by
  obtain ⟨k, rfl⟩ := Nat.exists_eq_add_of_le hab
  exact run_mono_add cfg env code k a pos m tr f h

theorem suffixAt_skip (l : Label) (a rest : List Instr) (h : ∀ i ∈ a, i.boundLabel = none) :
    suffixAt l (a ++ rest) = suffixAt l rest := by
  induction a with
  | nil => rfl
  | cons i t ih =>
    rw [List.cons_append, suffixAt_cons, h i (List.mem_cons_self _ _)]
    simp only [reduceCtorEq, if_false]
    exact ih (fun x hx => h x (List.mem_cons_of_mem _ hx))

theorem boundLabel_ldP (cfg : Config) (d : Register) (op : MemOperand) :
    (ldP cfg d op).boundLabel = none := by
  unfold ldP; split
  · rfl
  · split <;> rfl

theorem boundLabel_stP (cfg : Config) (d : Register) (op : MemOperand) :
    (stP cfg d op).boundLabel = none := by
  unfold stP; split
  · rfl
  · split <;> rfl

theorem boundLabel_lrP (cfg : Config) (d s : Register) : (lrP cfg d s).boundLabel = none := by
  unfold lrP; split <;> rfl

theorem boundLabel_addPI (cfg : Config) (d : Register) (i : Int) :
    (addPI cfg d i).boundLabel = none := by
  unfold addPI; split <;> split <;> rfl

theorem boundLabel_addP (cfg : Config) (d s : Register) : (addP cfg d s).boundLabel = none := by
  unfold addP; split <;> rfl

theorem boundLabel_andP (cfg : Config) (d s : Register) : (andP cfg d s).boundLabel = none := by
  unfold andP; split <;> rfl

theorem boundLabel_cmpZero (cfg : Config) (d : Register) : (cmpZero cfg d).boundLabel = none := by
  unfold cmpZero; split <;> rfl

theorem boundLabel_movCode (cfg : Config) (d : Register) (i : Int) :
    ∀ x ∈ movCode cfg d i, x.boundLabel = none := by
  unfold movCode; split <;> simp [Instr.boundLabel]

theorem boundLabel_untagCode (cfg : Config) (d s : Register) :
    ∀ x ∈ untagCode cfg d s, x.boundLabel = none := by
  unfold untagCode; split
  · simp [Instr.boundLabel]
  · split
    · simp [Instr.boundLabel]
    · split <;> simp [Instr.boundLabel]

theorem boundLabel_addRRR (cfg : Config) (d s1 s2 : Register) :
    ∀ x ∈ addRRR cfg d s1 s2, x.boundLabel = none := by
  unfold addRRR; split
  · split <;> simp [Instr.boundLabel]
  · intro x hx
    simp only [List.mem_cons, List.mem_singleton, List.not_mem_nil, or_false] at hx
    rcases hx with rfl | rfl
    · exact boundLabel_lrP _ _ _
    · exact boundLabel_addP _ _ _
theorem unsignedOf_addr_add (cfg : Config) (m : Machine) (r : Register) (x : Int) :
    unsignedOf (addrMod cfg) ((m.addr cfg r : Int) + x) =
      unsignedOf (addrMod cfg) ((m.regP cfg r : Int) + x) := by
  unfold Machine.addr Machine.regP
  rcases kPointerSize_cases cfg with ⟨_, h2, h3, _⟩ | ⟨_, h2, h3, _⟩ <;>
    rw [h2, h3] <;> simp only [unsignedOf, M64, M32] <;> omega

theorem JumpToHandlerEntry_run (cfg : Config) (iso : Isolate) (st : Asm) :
    (JumpToHandlerEntry cfg iso).run st =
      ((), { st with code := st.code ++ jumpCode cfg iso,
                     failed := st.failed || !((jumpCode cfg iso).all Instr.encodable) }) := by
  simp only [JumpToHandlerEntry, LoadP_run_no_reg, AddP_Operand_run, AddP_Register_run,
    SmiUntag_run, AddP_Register_Register_run cfg r0 r3 ip _ (by decide) (by decide), LoadRR_run, Ret,
    b_Register, FieldMemOperand, MemOperand.mk1, Operand.ofInt,
    Emit.run_bind_eq, Emit.run_pure, run_emit, List.nil_append,
    List.append_assoc, List.cons_append, jumpCode, jumpBody, List.all_append, List.all_cons,
    List.all_nil, Bool.and_true, Bool.not_and, Bool.or_assoc]

theorem isStraight_jumpBody (cfg : Config) (iso : Isolate) :
    ∀ i ∈ jumpBody cfg iso, i.isStraight = true := by
  intro i hi
  simp only [jumpBody, List.mem_append, List.mem_cons, List.mem_singleton, List.not_mem_nil,
    or_false] at hi
  rcases hi with (rfl | rfl | rfl | rfl | rfl | rfl | rfl | rfl) | hi | hi | rfl
  all_goals first
    | exact isStraight_untagCode _ _ _ _ hi
    | exact isStraight_addRRR _ _ _ _ _ hi
    | exact isStraight_ldP _ _ _
    | exact isStraight_lrP _ _ _
    | exact isStraight_addPI _ _ _
    | exact isStraight_addP _ _ _
    | rfl

theorem boundLabel_jumpCode (cfg : Config) (iso : Isolate) :
    ∀ i ∈ jumpCode cfg iso, i.boundLabel = none := by
  intro i hi
  simp only [jumpCode, jumpBody, List.mem_append, List.mem_cons, List.mem_singleton,
    List.not_mem_nil, or_false] at hi
  rcases hi with ((rfl | rfl | rfl | rfl | rfl | rfl | rfl | rfl) | hi | hi | rfl) | rfl
  all_goals first
    | exact boundLabel_untagCode _ _ _ _ hi
    | exact boundLabel_addRRR _ _ _ _ _ hi
    | exact boundLabel_ldP _ _ _
    | exact boundLabel_lrP _ _ _
    | exact boundLabel_addPI _ _ _
    | exact boundLabel_addP _ _ _
    | rfl

theorem kPointerSizeLog2_lt (cfg : Config) : kPointerSizeLog2 cfg < 64 := by
  unfold kPointerSizeLog2; split <;> decide

theorem two_pow_log2 (cfg : Config) : 2 ^ kPointerSizeLog2 cfg = kPointerSize cfg := by
  unfold kPointerSizeLog2 kPointerSize; split <;> rfl

/-- The machine that the instructions of `JumpToHandlerEntry` before the
branch leave: memory and the registers `r2`, `sp`, `cp`, `fp` are kept, and
`r14` addresses the handler entry. -/
theorem jumpBody_facts (cfg : Config) (iso : Isolate) (m : Machine)
    (hkw : iso.kKindWidth < 64)
    (hF : is_int32 (iso.FixedArray_kHeaderSize - kHeapObjectTag) = true)
    (hH : is_int32 (iso.Code_kHeaderSize - kHeapObjectTag) = true)
    (hS : m.regP cfg r4 < M32)
    (hI : cfg.is64 = true → m.regP cfg r4 / 2 ^ iso.kKindWidth * kPointerSize cfg < M32) :
    (runStraight cfg (jumpBody cfg iso) m).mem = m.mem ∧
    (runStraight cfg (jumpBody cfg iso) m).regP cfg r2 = m.regP cfg r2 ∧
    (runStraight cfg (jumpBody cfg iso) m).regP cfg sp = m.regP cfg sp ∧
    (runStraight cfg (jumpBody cfg iso) m).regP cfg cp = m.regP cfg cp ∧
    (runStraight cfg (jumpBody cfg iso) m).regP cfg fp = m.regP cfg fp ∧
    (runStraight cfg (jumpBody cfg iso) m).addr cfg r14 =
      handlerEntry cfg iso m.mem (m.regP cfg r3) (m.regP cfg r4) := by
  unfold jumpBody
  rw [List.cons_append, runStraight_cons, effect_ldP,
    List.cons_append, runStraight_cons, effect_addPI _ _ _ _ hF,
    List.cons_append, runStraight_cons,
    effect_srl _ _ _ _ hkw (by
      simp +decide only [regP_setCC, regP_setRegP_ne]
      exact hS),
    List.cons_append, runStraight_cons, effect_lrP,
    List.cons_append, runStraight_cons,
    effect_sll _ _ _ _ (kPointerSizeLog2_lt cfg) (by
      simp +decide only [regP_setCC, regP_setRegP_ne, regP_setRegP_self, two_pow_log2]
      intro h64
      have := hI h64
      have hp : ptrMod cfg = M64 := by unfold ptrMod; rw [h64]; rfl
      rw [hp]
      have h1 : m.regP cfg r4 / 2 ^ iso.kKindWidth ≤ m.regP cfg r4 := Nat.div_le_self _ _
      rw [Nat.mod_eq_of_lt (by simp only [M32, M64] at *; omega),
        Nat.mod_eq_of_lt (by simp only [M32, M64] at *; omega)]
      exact this),
    List.cons_append, runStraight_cons, effect_addP,
    List.cons_append, runStraight_cons, effect_ldP,
    List.cons_append, runStraight_cons, effect_addPI _ _ _ _ hH,
    List.nil_append, runStraight_untag, runStraight_addRRR _ _ _ _ _ _ (by decide) (by decide),
    runStraight_cons, runStraight_nil, effect_lrP]
  simp +decide only [regP_setCC, addr_setCC, setCC_mem, setRegP_mem, regP_setRegP_ne,
    regP_setRegP_self, addr_setRegP_self, addr_setRegP_ne, true_and,
    effAddr_disp _ _ _ _ ip_ne_r0, effAddr_disp _ _ _ _ (show r3 ≠ r0 by decide),
    loadPtr_mod_ptr, Nat.mod_mod, two_pow_log2, handlerEntry]
  rw [unsignedOf_addr_add]
  generalize loadPtr cfg m.mem (unsignedOf (addrMod cfg)
    ((m.regP cfg r3 : Int) + (iso.Code_kHandlerTableOffset - kHeapObjectTag))) = T
  generalize m.regP cfg r4 / 2 ^ iso.kKindWidth = I
  generalize iso.FixedArray_kHeaderSize - kHeapObjectTag = cF
  have hE : unsignedOf (addrMod cfg)
      ((((I % ptrMod cfg * kPointerSize cfg % ptrMod cfg +
        (T + unsignedOf (ptrMod cfg) cF) % ptrMod cfg) % addrMod cfg : Nat) : Int) + 0) =
      unsignedOf (addrMod cfg) ((T : Int) + cF + (I : Int) * (kPointerSize cfg : Int)) := by
    rcases kPointerSize_cases cfg with ⟨h1, h2, h3, _⟩ | ⟨h1, h2, h3, _⟩ <;>
      rw [h1, h2, h3] <;> simp only [unsignedOf, M64, M32] <;> omega
  rw [hE]
  generalize untagged cfg (loadPtr cfg m.mem (unsignedOf (addrMod cfg)
    ((T : Int) + cF + (I : Int) * (kPointerSize cfg : Int)))) = U
  generalize iso.Code_kHeaderSize - kHeapObjectTag = cH
  generalize m.regP cfg r3 = C
  rcases kPointerSize_cases cfg with ⟨h1, h2, h3, _⟩ | ⟨h1, h2, h3, _⟩ <;>
    rw [h2, h3] <;> simp only [unsignedOf, M64, M32] <;> omega
theorem Throw_code (cfg : Config) (iso : Isolate) (value : Register) (frame : Bool)
    (code : List Instr) (hcode : codeOf (Throw cfg iso value) frame = some code) :
    is_int20 iso.StandardFrameConstants_kContextOffset = true ∧
      code = throwPrefix cfg iso value ++ throwTail cfg iso := by
  by_cases h20 : is_int20 iso.StandardFrameConstants_kContextOffset = true
  · refine ⟨h20, ?_⟩
    by_cases hv : value = r2
    · subst hv
      simp only [codeOf, Throw, mov_run, LoadP_run_no_reg, pop, LoadRR_run, run_newLabel,
        CmpP_Operand_Zero_run, JumpToHandlerEntry_run, beq, b, bind, ne_eq, not_true,
        if_false, StoreP_run_fits _ _ _ _ _ _ _ is_int20_zero, StoreP_run_fits _ _ _ _ _ _ _ h20,
        MemOperand.mk1, Emit.run_bind_eq, Emit.run_pure, run_emit, List.nil_append,
        List.append_assoc, List.cons_append, Bool.false_or] at hcode
      obtain ⟨rfl, hok⟩ := code_of_ite hcode
      simp only [throwPrefix, throwTail, unlinkCode, popCode, if_true, List.nil_append,
        List.append_assoc, List.cons_append, ↓reduceIte]
    · simp only [codeOf, Throw, mov_run, LoadP_run_no_reg, pop, LoadRR_run, run_newLabel,
        CmpP_Operand_Zero_run, JumpToHandlerEntry_run, beq, b, bind, hv, ne_eq, not_false_eq_true,
        if_true, StoreP_run_fits _ _ _ _ _ _ _ is_int20_zero, StoreP_run_fits _ _ _ _ _ _ _ h20,
        MemOperand.mk1, Emit.run_bind_eq, Emit.run_pure, run_emit, List.nil_append,
        List.append_assoc, List.cons_append, Bool.false_or] at hcode
      obtain ⟨rfl, hok⟩ := code_of_ite hcode
      simp only [throwPrefix, throwTail, unlinkCode, popCode, hv, if_false, List.nil_append,
        List.append_assoc, List.cons_append]
  · exfalso
    have h20f : is_int20 iso.StandardFrameConstants_kContextOffset = false := by
      simpa using h20
    by_cases hv : value = r2
    · simp only [codeOf, Throw, mov_run, LoadP_run_no_reg, pop, LoadRR_run, run_newLabel,
        CmpP_Operand_Zero_run, JumpToHandlerEntry_run, beq, b, bind, hv, ne_eq, not_true,
        if_false, StoreP_run_fits _ _ _ _ _ _ _ is_int20_zero,
        MemOperand.mk1, Emit.run_bind_eq, Emit.run_pure, run_emit, List.nil_append,
        List.append_assoc, List.cons_append, Bool.false_or] at hcode
      cases h64 : cfg.is64 <;> simp [StoreP, h20f, LoadIntLiteral_run, h64] at hcode
    · simp only [codeOf, Throw, mov_run, LoadP_run_no_reg, pop, LoadRR_run, run_newLabel,
        CmpP_Operand_Zero_run, JumpToHandlerEntry_run, beq, b, bind, hv, ne_eq, not_false_eq_true,
        if_true, StoreP_run_fits _ _ _ _ _ _ _ is_int20_zero,
        MemOperand.mk1, Emit.run_bind_eq, Emit.run_pure, run_emit, List.nil_append,
        List.append_assoc, List.cons_append, Bool.false_or] at hcode
      cases h64 : cfg.is64 <;> simp [StoreP, h20f, LoadIntLiteral_run, h64] at hcode

theorem jumpBody_mem (cfg : Config) (iso : Isolate) (m : Machine) :
    (runStraight cfg (jumpBody cfg iso) m).mem = m.mem := by
  have hI : ∀ (d : Register) (i : Int) (m : Machine), ((addPI cfg d i).effect cfg m).mem = m.mem := by
    intro d i m; unfold addPI; split <;> split <;> rfl
  have hA : ∀ (d s : Register) (m : Machine), ((addP cfg d s).effect cfg m).mem = m.mem := by
    intro d s m; unfold addP; split <;> rfl
  unfold jumpBody
  rw [List.cons_append, runStraight_cons, List.cons_append, runStraight_cons,
    List.cons_append, runStraight_cons, List.cons_append, runStraight_cons,
    List.cons_append, runStraight_cons, List.cons_append, runStraight_cons,
    List.cons_append, runStraight_cons, List.cons_append, runStraight_cons,
    List.nil_append, runStraight_untag, runStraight_addRRR _ _ _ _ _ _ (by decide) (by decide),
    runStraight_cons, runStraight_nil, effect_lrP, setRegP_mem, setCC_mem, setRegP_mem,
    setCC_mem, setRegP_mem, hI, effect_ldP, setRegP_mem, hA, effect_lrP]
  have hsll : ∀ (d : Register) (n : Int) (m : Machine),
      ((Instr.sll d n).effect cfg m).mem = m.mem := fun _ _ _ => rfl
  have hsrl : ∀ (d : Register) (n : Int) (m : Machine),
      ((Instr.srl d n).effect cfg m).mem = m.mem := fun _ _ _ => rfl
  simp only [setRegP_mem, hI, effect_ldP, hsll, hsrl]

/-- The code of `JumpToHandlerEntry` always ends in a jump, to the address
that its instructions leave in `r14`. -/
theorem run_jumpCode (cfg : Config) (iso : Isolate) (env : Env) (full : List Instr) (k : Nat)
    (m : Machine) (tr : List Event) :
    run cfg env full (k + 1 + (jumpBody cfg iso).length) (jumpCode cfg iso) m tr =
      some ⟨.jump ((runStraight cfg (jumpBody cfg iso) m).addr cfg r14),
        runStraight cfg (jumpBody cfg iso) m, tr⟩ := by
  unfold jumpCode
  rw [run_straight cfg env full _ _ (isStraight_jumpBody cfg iso), run_bcr, condHolds_al]
  rfl
theorem isStraight_unlinkCode (cfg : Config) : ∀ i ∈ unlinkCode cfg, i.isStraight = true := by
  intro i hi
  simp only [unlinkCode, popCode, List.mem_append, List.mem_cons, List.mem_singleton,
    List.not_mem_nil, or_false, List.cons_append, List.nil_append] at hi
  rcases hi with rfl | rfl | rfl | rfl | rfl | rfl | rfl | rfl | rfl | rfl | rfl
  all_goals first
    | exact isStraight_ldP _ _ _
    | exact isStraight_stP _ _ _
    | rfl

theorem boundLabel_unlinkCode (cfg : Config) : ∀ i ∈ unlinkCode cfg, i.boundLabel = none := by
  intro i hi
  simp only [unlinkCode, popCode, List.mem_append, List.mem_cons, List.mem_singleton,
    List.not_mem_nil, or_false, List.cons_append, List.nil_append] at hi
  rcases hi with rfl | rfl | rfl | rfl | rfl | rfl | rfl | rfl | rfl | rfl | rfl
  all_goals first
    | exact boundLabel_ldP _ _ _
    | exact boundLabel_stP _ _ _
    | rfl

/-- The instructions that unlink the handler record at `sp`: the first word of
the record goes to the slot that `r5` addresses, the other four to `r3`, `r4`,
`cp` and `fp`, and `sp` ends five words up. -/
theorem unlink_facts (cfg : Config) (m : Machine)
    (hd : Disjoint cfg (slot cfg (m.addr cfg r5) 0) (kPointerSize cfg) (m.addr cfg sp)
      (5 * kPointerSize cfg)) :
    (runStraight cfg (unlinkCode cfg) m).regP cfg sp = slot cfg (m.addr cfg sp) 5 ∧
    (runStraight cfg (unlinkCode cfg) m).regP cfg r3 = handlerField cfg m.mem (m.addr cfg sp) 1 ∧
    (runStraight cfg (unlinkCode cfg) m).regP cfg r4 = handlerField cfg m.mem (m.addr cfg sp) 2 ∧
    (runStraight cfg (unlinkCode cfg) m).regP cfg cp = handlerField cfg m.mem (m.addr cfg sp) 3 ∧
    (runStraight cfg (unlinkCode cfg) m).regP cfg fp = handlerField cfg m.mem (m.addr cfg sp) 4 ∧
    (runStraight cfg (unlinkCode cfg) m).regP cfg r2 = m.regP cfg r2 ∧
    (runStraight cfg (unlinkCode cfg) m).mem =
      writeBytes cfg m.mem (slot cfg (m.addr cfg r5) 0) (kPointerSize cfg)
        (handlerField cfg m.mem (m.addr cfg sp) 0) := by
  have hd1 := disjoint_slot_of_block hd 1 (by decide)
  have hd2 := disjoint_slot_of_block hd 2 (by decide)
  have hd3 := disjoint_slot_of_block hd 3 (by decide)
  have hd4 := disjoint_slot_of_block hd 4 (by decide)
  simp only [Nat.cast_ofNat, Nat.cast_one] at hd1 hd2 hd3 hd4
  simp +decide only [unlinkCode, popCode, List.cons_append, List.nil_append, handlerField,
    runStraight_cons, runStraight_nil, effect_stP, effect_ldP, effect_la,
    effAddr_disp _ _ _ _ sp_ne_r0, effAddr_disp _ _ _ _ (show r5 ≠ r0 by decide),
    addr_store, addr_setRegP_self, addr_setRegP_ne, regP_store, regP_setRegP_self,
    regP_setRegP_ne, slot_fold, slot_fold_zero, slot_fold_one, slot_mod_self, slot_slot,
    Int.reduceAdd,
    store_mem, setRegP_mem, slot_mod_ptr, loadPtr_mod_ptr,
    loadPtr_write_of_disjoint cfg _ _ _ _ _ hd1.symm,
    loadPtr_write_of_disjoint cfg _ _ _ _ _ hd2.symm,
    loadPtr_write_of_disjoint cfg _ _ _ _ _ hd3.symm,
    loadPtr_write_of_disjoint cfg _ _ _ _ _ hd4.symm, true_and, and_true]
theorem isStraight_throwPrefix (cfg : Config) (iso : Isolate) (value : Register) :
    ∀ i ∈ throwPrefix cfg iso value, i.isStraight = true := by
  intro i hi
  simp only [throwPrefix, List.mem_append, List.mem_cons, List.mem_singleton,
    List.not_mem_nil, or_false] at hi
  rcases hi with hi | hi | rfl | hi | rfl
  · split at hi
    · exact absurd hi (List.not_mem_nil _)
    · rw [List.mem_singleton] at hi; subst hi; exact isStraight_lrP _ _ _
  · exact isStraight_movCode _ _ _ _ hi
  · exact isStraight_ldP _ _ _
  · exact isStraight_unlinkCode _ _ hi
  · exact isStraight_cmpZero _ _

theorem boundLabel_throwPrefix (cfg : Config) (iso : Isolate) (value : Register) :
    ∀ i ∈ throwPrefix cfg iso value, i.boundLabel = none := by
  intro i hi
  simp only [throwPrefix, List.mem_append, List.mem_cons, List.mem_singleton,
    List.not_mem_nil, or_false] at hi
  rcases hi with hi | hi | rfl | hi | rfl
  · split at hi
    · exact absurd hi (List.not_mem_nil _)
    · rw [List.mem_singleton] at hi; subst hi; exact boundLabel_lrP _ _ _
  · exact boundLabel_movCode _ _ _ _ hi
  · exact boundLabel_ldP _ _ _
  · exact boundLabel_unlinkCode _ _ hi
  · exact boundLabel_cmpZero _ _

/-- The machine after the instructions of `Throw` up to the comparison. -/
theorem throwPrefix_facts (cfg : Config) (iso : Isolate) (value : Register) (m : Machine)
    (hd : Disjoint cfg (handlerSlot cfg iso) (kPointerSize cfg)
      (loadPtr cfg m.mem (handlerSlot cfg iso)) (5 * kPointerSize cfg)) :
    (runStraight cfg (throwPrefix cfg iso value) m).regP cfg r2 = m.regP cfg value ∧
    (runStraight cfg (throwPrefix cfg iso value) m).regP cfg sp =
      slot cfg (loadPtr cfg m.mem (handlerSlot cfg iso)) 5 ∧
    (runStraight cfg (throwPrefix cfg iso value) m).regP cfg r3 =
      handlerField cfg m.mem (loadPtr cfg m.mem (handlerSlot cfg iso)) 1 ∧
    (runStraight cfg (throwPrefix cfg iso value) m).regP cfg r4 =
      handlerField cfg m.mem (loadPtr cfg m.mem (handlerSlot cfg iso)) 2 ∧
    (runStraight cfg (throwPrefix cfg iso value) m).regP cfg cp =
      handlerField cfg m.mem (loadPtr cfg m.mem (handlerSlot cfg iso)) 3 ∧
    (runStraight cfg (throwPrefix cfg iso value) m).regP cfg fp =
      handlerField cfg m.mem (loadPtr cfg m.mem (handlerSlot cfg iso)) 4 ∧
    (runStraight cfg (throwPrefix cfg iso value) m).mem =
      writeBytes cfg m.mem (handlerSlot cfg iso) (kPointerSize cfg)
        (handlerField cfg m.mem (loadPtr cfg m.mem (handlerSlot cfg iso)) 0) ∧
    (condHolds eq (runStraight cfg (throwPrefix cfg iso value) m).cc = true ↔
      handlerField cfg m.mem (loadPtr cfg m.mem (handlerSlot cfg iso)) 3 = 0) := by
  -- the machine after the optional copy of the value
  obtain ⟨mA, hA, hAmem, hAr2⟩ : ∃ mA : Machine,
      runStraight cfg (if value = r2 then [] else [lrP cfg r2 value]) m = mA ∧ mA.mem = m.mem ∧
        mA.regP cfg r2 = m.regP cfg value := by
    by_cases hv : value = r2
    · subst hv
      exact ⟨m, by rw [if_pos rfl]; rfl, rfl, rfl⟩
    · refine ⟨runStraight cfg [lrP cfg r2 value] m, by rw [if_neg hv], ?_, ?_⟩
      · rw [runStraight_cons, runStraight_nil, effect_lrP, setRegP_mem]
      · rw [runStraight_cons, runStraight_nil, effect_lrP, regP_setRegP_self, regP_mod_ptr]
  have hH : ∀ mm : Machine, slot cfg ((mm.setRegP cfg r5
      (unsignedOf (ptrMod cfg) iso.handler_address)).addr cfg r5) 0 = handlerSlot cfg iso := by
    intro mm
    rw [addr_setRegP_self, unsignedOf_ptr_mod_addr, slot_unsignedOf_zero]; rfl
  unfold throwPrefix
  rw [runStraight_append, hA, runStraight_movCode, runStraight_cons, effect_ldP,
    effAddr_disp _ _ _ _ (show r5 ≠ r0 by decide), slot_fold_zero, hH, setRegP_mem, hAmem,
    runStraight_append]
  have hd' : Disjoint cfg (slot cfg (((mA.setRegP cfg r5
      (unsignedOf (ptrMod cfg) iso.handler_address)).setRegP cfg sp
        (loadPtr cfg m.mem (handlerSlot cfg iso))).addr cfg r5) 0) (kPointerSize cfg)
      (((mA.setRegP cfg r5 (unsignedOf (ptrMod cfg) iso.handler_address)).setRegP cfg sp
        (loadPtr cfg m.mem (handlerSlot cfg iso))).addr cfg sp) (5 * kPointerSize cfg) := by
    rw [addr_setRegP_ne cfg _ sp r5 _ (by decide), hH, addr_setRegP_self]
    exact hd.mod_right
  obtain ⟨u1, u2, u3, u4, u5, u6, u7⟩ := unlink_facts cfg _ hd'
  rw [addr_setRegP_ne cfg _ sp r5 _ (by decide), hH] at u7
  simp only [addr_setRegP_self, handlerField, slot_mod, setRegP_mem, hAmem] at u1 u2 u3 u4 u5 u7
  rw [regP_setRegP_ne cfg _ sp r2 _ (by decide), regP_setRegP_ne cfg _ r5 r2 _ (by decide),
    hAr2] at u6
  rw [runStraight_cons, runStraight_nil, effect_cmpZero]
  refine ⟨u6, u1, u2, u3, u4, u5, u7, ?_⟩
  rw [setCC_cc, condHolds_eq_cmpZero, u4]
  rfl
/-- The code of `Throw` reaches the code of `JumpToHandlerEntry` with the top
handler unlinked and its fields in the registers; the context is stored into
the frame exactly when it is not zero. -/
theorem Throw_reaches_jump (cfg : Config) (iso : Isolate) (env : Env) (full : List Instr)
    (value : Register) (m : Machine) (tr : List Event)
    (hfull : suffixAt 0 full = some (.bind 0 :: jumpCode cfg iso))
    (hd : Disjoint cfg (handlerSlot cfg iso) (kPointerSize cfg)
      (loadPtr cfg m.mem (handlerSlot cfg iso)) (5 * kPointerSize cfg)) :
    ∃ n mJ, n ≤ (throwPrefix cfg iso value).length + 3 ∧
      (∀ k, run cfg env full (n + k) (throwPrefix cfg iso value ++ throwTail cfg iso) m tr =
        run cfg env full k (jumpCode cfg iso) mJ tr) ∧
      mJ.regP cfg r2 = m.regP cfg value ∧
      mJ.regP cfg sp = slot cfg (loadPtr cfg m.mem (handlerSlot cfg iso)) 5 ∧
      mJ.regP cfg r3 = handlerField cfg m.mem (loadPtr cfg m.mem (handlerSlot cfg iso)) 1 ∧
      mJ.regP cfg r4 = handlerField cfg m.mem (loadPtr cfg m.mem (handlerSlot cfg iso)) 2 ∧
      mJ.regP cfg cp = handlerField cfg m.mem (loadPtr cfg m.mem (handlerSlot cfg iso)) 3 ∧
      mJ.regP cfg fp = handlerField cfg m.mem (loadPtr cfg m.mem (handlerSlot cfg iso)) 4 ∧
      mJ.mem =
        (if handlerField cfg m.mem (loadPtr cfg m.mem (handlerSlot cfg iso)) 3 = 0 then
          writeBytes cfg m.mem (handlerSlot cfg iso) (kPointerSize cfg)
            (handlerField cfg m.mem (loadPtr cfg m.mem (handlerSlot cfg iso)) 0)
        else
          writeBytes cfg
            (writeBytes cfg m.mem (handlerSlot cfg iso) (kPointerSize cfg)
              (handlerField cfg m.mem (loadPtr cfg m.mem (handlerSlot cfg iso)) 0))
            (contextSlot cfg iso
              (handlerField cfg m.mem (loadPtr cfg m.mem (handlerSlot cfg iso)) 4))
            (kPointerSize cfg)
            (handlerField cfg m.mem (loadPtr cfg m.mem (handlerSlot cfg iso)) 3)) := by
  obtain ⟨f2, fsp, f3, f4, fcp, ffp, fmem, fcc⟩ := throwPrefix_facts cfg iso value m hd
  have hst := isStraight_throwPrefix cfg iso value
  by_cases hz : handlerField cfg m.mem (loadPtr cfg m.mem (handlerSlot cfg iso)) 3 = 0
  · refine ⟨(throwPrefix cfg iso value).length + 2, runStraight cfg (throwPrefix cfg iso value) m,
      by omega, fun k => ?_, f2, fsp, f3, f4, fcp, ffp, ?_⟩
    · rw [show (throwPrefix cfg iso value).length + 2 + k =
          (k + 1 + 1) + (throwPrefix cfg iso value).length by omega,
        run_straight cfg env full _ _ hst, throwTail, run_brc, if_pos (fcc.2 hz), hfull]
      exact run_bind cfg env full _ k _ tr 0
    · rw [if_pos hz, fmem]
  · refine ⟨(throwPrefix cfg iso value).length + 3,
      runStraight cfg [stP cfg cp ⟨fp, r0, iso.StandardFrameConstants_kContextOffset⟩, .bind 0]
        (runStraight cfg (throwPrefix cfg iso value) m),
      by omega, fun k => ?_, ?_, ?_, ?_, ?_, ?_, ?_, ?_⟩
    · have hs2 : ∀ i ∈ [stP cfg cp ⟨fp, r0, iso.StandardFrameConstants_kContextOffset⟩,
          Instr.bind 0], i.isStraight = true := by
        intro i hi
        simp only [List.mem_cons, List.mem_singleton, List.not_mem_nil, or_false] at hi
        rcases hi with rfl | rfl
        · exact isStraight_stP _ _ _
        · rfl
      rw [show (throwPrefix cfg iso value).length + 3 + k =
          (k + 2 + 1) + (throwPrefix cfg iso value).length by omega,
        run_straight cfg env full _ _ hst, throwTail, run_brc,
        if_neg (fun h => hz (fcc.1 h))]
      exact run_straight cfg env full
        [stP cfg cp ⟨fp, r0, iso.StandardFrameConstants_kContextOffset⟩, .bind 0]
        (jumpCode cfg iso) hs2 k _ tr
    all_goals rw [runStraight_cons, runStraight_cons, runStraight_nil, effect_stP]
    · exact f2
    · exact fsp
    · exact f3
    · exact f4
    · exact fcp
    · exact ffp
    · rw [if_neg hz]
      show writeBytes cfg _ _ _ _ = _
      rw [fmem, fcp, effAddr_disp _ _ _ _ (show fp ≠ r0 by decide), unsignedOf_addr_add, ffp]
      rfl
theorem suffixAt_throw (cfg : Config) (iso : Isolate) (value : Register) (c1 : List Instr)
    (h1 : ∀ i ∈ c1, i.boundLabel = none) :
    suffixAt 0 (c1 ++ (throwPrefix cfg iso value ++ throwTail cfg iso)) =
      some (.bind 0 :: jumpCode cfg iso) := by
  rw [suffixAt_skip 0 _ _ h1, suffixAt_skip 0 _ _ (boundLabel_throwPrefix cfg iso value), throwTail,
    suffixAt_cons, if_neg (by simp [Instr.boundLabel]), suffixAt_cons, boundLabel_stP,
    if_neg (by simp), suffixAt_cons]
  rfl

theorem JumpToHandlerEntry_appended (cfg : Config) (iso : Isolate) (st : Asm) :
    (JumpToHandlerEntry cfg iso).appended st = st.code ++ jumpCode cfg iso := by
  unfold Emit.appended
  rw [JumpToHandlerEntry_run]

theorem length_throwTail (cfg : Config) (iso : Isolate) :
    (throwTail cfg iso).length = (jumpBody cfg iso).length + 4 := by
  simp [throwTail, jumpCode]

theorem effect_srl_low (cfg : Config) (m : Machine) (d : Register) (k : Nat) (hk : k < 64) :
    (Instr.srl d (k : Int)).effect cfg m =
      m.setRegP cfg d (m.regP cfg d / M32 * M32 + m.regP cfg d % M32 / 2 ^ k) := by
  show m.setReg d _ = _
  apply setReg_eq_setRegP_nocc
  rw [unsignedOf_64_nat k hk]
  unfold Machine.regP ptrMod
  have hq : m.regs d % M32 / 2 ^ k ≤ m.regs d % M32 := Nat.div_le_self _ _
  have hlt : m.regs d % M32 < M32 := Nat.mod_lt _ (by decide)
  cases h64 : cfg.is64
  · simp only [Bool.false_eq_true, if_false, lo32, setLo32, Nat.mod_mod]
    rw [Nat.div_eq_of_lt hlt, Nat.zero_mul, Nat.zero_add]
  · simp only [if_true, lo32, setLo32, hi32]
    have e : m.regs d % M64 % M32 = m.regs d % M32 := by simp only [M32, M64]; omega
    rw [e]
    generalize m.regs d % M32 / 2 ^ k = q at *
    simp only [M32, M64] at *
    omega

theorem effect_sll_low (cfg : Config) (m : Machine) (d : Register) (k : Nat) (hk : k < 64) :
    (Instr.sll d (k : Int)).effect cfg m =
      m.setRegP cfg d (m.regP cfg d / M32 * M32 + m.regP cfg d % M32 * 2 ^ k % M32) := by
  show m.setReg d _ = _
  apply setReg_eq_setRegP_nocc
  rw [unsignedOf_64_nat k hk]
  unfold Machine.regP ptrMod
  have hlt : m.regs d % M32 < M32 := Nat.mod_lt _ (by decide)
  cases h64 : cfg.is64
  · simp only [Bool.false_eq_true, if_false, lo32, setLo32, Nat.mod_mod]
    rw [Nat.div_eq_of_lt hlt, Nat.zero_mul, Nat.zero_add, Nat.mod_mod]
  · simp only [if_true, lo32, setLo32, hi32]
    have e : m.regs d % M64 % M32 = m.regs d % M32 := by simp only [M32, M64]; omega
    rw [e]
    generalize m.regs d % M32 * 2 ^ k = q at *
    simp only [M32, M64] at *
    omega

theorem handlerEntry_eq_at (cfg : Config) (iso : Isolate) (mem : Nat → Nat) (code state : Nat) :
    handlerEntry cfg iso mem code state =
      handlerEntryAt cfg iso mem code (state / 2 ^ iso.kKindWidth * kPointerSize cfg) := by
  unfold handlerEntry handlerEntryAt
  simp only [Nat.cast_mul]

/-- The offset that the code computes is the offset of the element at index
`state >> kKindWidth` when the state is a 32-bit word and, on the 64-bit
target, the scaled index fits 32 bits. -/
theorem tableOffset_eq (cfg : Config) (iso : Isolate) (state : Nat) (hS : state < M32)
    (hI : cfg.is64 = true → state / 2 ^ iso.kKindWidth * kPointerSize cfg < M32) :
    ((tableOffset cfg iso state : Nat) : Int) % (addrMod cfg : Int) =
      ((state / 2 ^ iso.kKindWidth * kPointerSize cfg : Nat) : Int) % (addrMod cfg : Int) := by
  unfold tableOffset
  rw [Nat.div_eq_of_lt hS, Nat.zero_mul, Nat.zero_add, Nat.mod_eq_of_lt hS]
  cases h64 : cfg.is64
  · generalize state / 2 ^ iso.kKindWidth = I
    have hp : kPointerSize cfg = 4 := by unfold kPointerSize; rw [h64]; rfl
    have ha : addrMod cfg = 2147483648 := by unfold addrMod; rw [h64]; rfl
    rw [hp, ha]
    simp only [M32]
    omega
  · rw [Nat.mod_eq_of_lt (hI h64)]

theorem handlerEntryAt_tableOffset (cfg : Config) (iso : Isolate) (mem : Nat → Nat)
    (code state : Nat) (hS : state < M32)
    (hI : cfg.is64 = true → state / 2 ^ iso.kKindWidth * kPointerSize cfg < M32) :
    handlerEntryAt cfg iso mem code (tableOffset cfg iso state) =
      handlerEntry cfg iso mem code state := by
  rw [handlerEntry_eq_at]
  unfold handlerEntryAt
  dsimp only
  have e : ∀ a : Int, unsignedOf (addrMod cfg) (a + ((tableOffset cfg iso state : Nat) : Int)) =
      unsignedOf (addrMod cfg)
        (a + ((state / 2 ^ iso.kKindWidth * kPointerSize cfg : Nat) : Int)) := by
    intro a
    apply unsignedOf_congr_mod
    rw [Int.add_emod, tableOffset_eq cfg iso state hS hI, ← Int.add_emod]
  rw [e]

/-- The machine that the instructions of `JumpToHandlerEntry` before the
branch leave, for any state word: memory and the registers `r2`, `sp`, `cp`,
`fp` are kept, and `r14` addresses the entry found at the byte offset that the
two 32-bit shifts compute. -/
theorem jumpBody_entry (cfg : Config) (iso : Isolate) (m : Machine)
    (hkw : iso.kKindWidth < 64)
    (hF : is_int32 (iso.FixedArray_kHeaderSize - kHeapObjectTag) = true)
    (hH : is_int32 (iso.Code_kHeaderSize - kHeapObjectTag) = true) :
    (runStraight cfg (jumpBody cfg iso) m).mem = m.mem ∧
    (runStraight cfg (jumpBody cfg iso) m).regP cfg r2 = m.regP cfg r2 ∧
    (runStraight cfg (jumpBody cfg iso) m).regP cfg sp = m.regP cfg sp ∧
    (runStraight cfg (jumpBody cfg iso) m).regP cfg cp = m.regP cfg cp ∧
    (runStraight cfg (jumpBody cfg iso) m).regP cfg fp = m.regP cfg fp ∧
    (runStraight cfg (jumpBody cfg iso) m).addr cfg r14 =
      handlerEntryAt cfg iso m.mem (m.regP cfg r3) (tableOffset cfg iso (m.regP cfg r4)) := by
  unfold jumpBody
  rw [List.cons_append, runStraight_cons, effect_ldP,
    List.cons_append, runStraight_cons, effect_addPI _ _ _ _ hF,
    List.cons_append, runStraight_cons, effect_srl_low _ _ _ _ hkw,
    List.cons_append, runStraight_cons, effect_lrP,
    List.cons_append, runStraight_cons, effect_sll_low _ _ _ _ (kPointerSizeLog2_lt cfg),
    List.cons_append, runStraight_cons, effect_addP,
    List.cons_append, runStraight_cons, effect_ldP,
    List.cons_append, runStraight_cons, effect_addPI _ _ _ _ hH,
    List.nil_append, runStraight_untag, runStraight_addRRR _ _ _ _ _ _ (by decide) (by decide),
    runStraight_cons, runStraight_nil, effect_lrP]
  simp +decide only [regP_setCC, addr_setCC, setCC_mem, setRegP_mem, regP_setRegP_ne,
    regP_setRegP_self, addr_setRegP_self, addr_setRegP_ne, true_and,
    effAddr_disp _ _ _ _ ip_ne_r0, effAddr_disp _ _ _ _ (show r3 ≠ r0 by decide),
    loadPtr_mod_ptr, Nat.mod_mod, two_pow_log2, handlerEntryAt, tableOffset]
  rw [unsignedOf_addr_add]
  generalize loadPtr cfg m.mem (unsignedOf (addrMod cfg)
    ((m.regP cfg r3 : Int) + (iso.Code_kHandlerTableOffset - kHeapObjectTag))) = T
  have hq : m.regP cfg r4 % M32 / 2 ^ iso.kKindWidth ≤ m.regP cfg r4 % M32 := Nat.div_le_self _ _
  have hlt : m.regP cfg r4 % M32 < M32 := Nat.mod_lt _ (by decide)
  have hS : m.regP cfg r4 < ptrMod cfg := regP_lt cfg m r4
  generalize m.regP cfg r4 % M32 / 2 ^ iso.kKindWidth = I at *
  generalize m.regP cfg r4 = S at *
  generalize iso.FixedArray_kHeaderSize - kHeapObjectTag = cF
  have hE : unsignedOf (addrMod cfg)
      (((((S / M32 * M32 + I) % ptrMod cfg / M32 * M32 +
            (S / M32 * M32 + I) % ptrMod cfg % M32 * kPointerSize cfg % M32) % ptrMod cfg +
          (T + unsignedOf (ptrMod cfg) cF) % ptrMod cfg) % addrMod cfg : Nat) + 0) =
      unsignedOf (addrMod cfg)
        ((T : Int) + cF + ((S / M32 * M32 + I * kPointerSize cfg % M32 : Nat) : Int)) := by
    rcases kPointerSize_cases cfg with ⟨h1, h2, h3, _⟩ | ⟨h1, h2, h3, _⟩ <;>
      rw [h1, h2, h3] at * <;> simp only [unsignedOf, M64, M32] at * <;> omega
  rw [hE]
  generalize untagged cfg (loadPtr cfg m.mem (unsignedOf (addrMod cfg)
    ((T : Int) + cF + ((S / M32 * M32 + I * kPointerSize cfg % M32 : Nat) : Int)))) = U
  generalize iso.Code_kHeaderSize - kHeapObjectTag = cH
  generalize m.regP cfg r3 = C
  rcases kPointerSize_cases cfg with ⟨h1, h2, h3, _⟩ | ⟨h1, h2, h3, _⟩ <;>
    rw [h2, h3] <;> simp only [unsignedOf, M64, M32] <;> omega

/-- The run of the code of `Throw` for any top handler record: it reaches the
code of `JumpToHandlerEntry` with the record unlinked and its fields in the
registers, and jumps to the entry found at the byte offset that the two 32-bit
shifts compute from the state word. -/
theorem Throw_runs (cfg : Config) (iso : Isolate) (env : Env) (m : Machine)
    (value : Register) (frame : Bool) (code : List Instr)
    (hcode : codeOf (Throw cfg iso value) frame = some code)
    (hkw : iso.kKindWidth < 64)
    (hF : is_int32 (iso.FixedArray_kHeaderSize - kHeapObjectTag) = true)
    (hH : is_int32 (iso.Code_kHeaderSize - kHeapObjectTag) = true)
    (hd : Disjoint cfg (handlerSlot cfg iso) (kPointerSize cfg)
      (loadPtr cfg m.mem (handlerSlot cfg iso)) (5 * kPointerSize cfg)) :
    ∃ pre n mJ mF,
      code = pre ++ jumpCode cfg iso ∧
      (∀ st, (JumpToHandlerEntry cfg iso).appended st = st.code ++ jumpCode cfg iso) ∧
      (∀ k, run cfg env code (n + k) code m [] = run cfg env code k (jumpCode cfg iso) mJ []) ∧
      mJ.regP cfg r2 = m.regP cfg value ∧
      (handlerField cfg m.mem (loadPtr cfg m.mem (handlerSlot cfg iso)) 3 = 0 ∨
        Disjoint cfg (handlerSlot cfg iso) (kPointerSize cfg)
          (contextSlot cfg iso (handlerField cfg m.mem (loadPtr cfg m.mem (handlerSlot cfg iso)) 4))
          (kPointerSize cfg) →
        loadPtr cfg mJ.mem (handlerSlot cfg iso) =
          handlerField cfg m.mem (loadPtr cfg m.mem (handlerSlot cfg iso)) 0) ∧
      mJ.regP cfg sp = slot cfg (loadPtr cfg m.mem (handlerSlot cfg iso)) 5 ∧
      mJ.regP cfg r3 = handlerField cfg m.mem (loadPtr cfg m.mem (handlerSlot cfg iso)) 1 ∧
      mJ.regP cfg r4 = handlerField cfg m.mem (loadPtr cfg m.mem (handlerSlot cfg iso)) 2 ∧
      mJ.regP cfg cp = handlerField cfg m.mem (loadPtr cfg m.mem (handlerSlot cfg iso)) 3 ∧
      mJ.regP cfg fp = handlerField cfg m.mem (loadPtr cfg m.mem (handlerSlot cfg iso)) 4 ∧
      exec cfg env code (code.length + 1) m =
        some ⟨.jump (handlerEntryAt cfg iso mJ.mem
          (handlerField cfg m.mem (loadPtr cfg m.mem (handlerSlot cfg iso)) 1)
          (tableOffset cfg iso
            (handlerField cfg m.mem (loadPtr cfg m.mem (handlerSlot cfg iso)) 2))), mF, []⟩ ∧
      mF.mem = mJ.mem ∧
      mF.regP cfg r2 = m.regP cfg value ∧
      mF.regP cfg sp = slot cfg (loadPtr cfg m.mem (handlerSlot cfg iso)) 5 ∧
      mF.regP cfg cp = handlerField cfg m.mem (loadPtr cfg m.mem (handlerSlot cfg iso)) 3 ∧
      mF.regP cfg fp = handlerField cfg m.mem (loadPtr cfg m.mem (handlerSlot cfg iso)) 4 ∧
      mJ.mem =
        (if handlerField cfg m.mem (loadPtr cfg m.mem (handlerSlot cfg iso)) 3 = 0 then
          writeBytes cfg m.mem (handlerSlot cfg iso) (kPointerSize cfg)
            (handlerField cfg m.mem (loadPtr cfg m.mem (handlerSlot cfg iso)) 0)
        else
          writeBytes cfg
            (writeBytes cfg m.mem (handlerSlot cfg iso) (kPointerSize cfg)
              (handlerField cfg m.mem (loadPtr cfg m.mem (handlerSlot cfg iso)) 0))
            (contextSlot cfg iso
              (handlerField cfg m.mem (loadPtr cfg m.mem (handlerSlot cfg iso)) 4))
            (kPointerSize cfg)
            (handlerField cfg m.mem (loadPtr cfg m.mem (handlerSlot cfg iso)) 3)) := by
  obtain ⟨h20, rfl⟩ := Throw_code cfg iso value frame code hcode
  have hfull := suffixAt_throw cfg iso value [] (fun _ h => absurd h (List.not_mem_nil _))
  rw [List.nil_append] at hfull
  obtain ⟨n, mJ, hn, hrun, g2, gsp, g3, g4, gcp, gfp, gmem⟩ :=
    Throw_reaches_jump cfg iso env _ value m [] hfull hd
  obtain ⟨j1, j2, j3, j4, j5, j6⟩ := jumpBody_entry cfg iso mJ hkw hF hH
  refine ⟨throwPrefix cfg iso value ++
      [.brc eq 0, stP cfg cp ⟨fp, r0, iso.StandardFrameConstants_kContextOffset⟩, .bind 0],
    n, mJ, runStraight cfg (jumpBody cfg iso) mJ, ?_, JumpToHandlerEntry_appended cfg iso, hrun,
    g2, ?_, gsp, g3, g4, gcp, gfp, ?_, j1, ?_, ?_, ?_, ?_, gmem⟩
  · simp only [throwTail, List.append_assoc, List.cons_append, List.nil_append]
  · intro h
    rw [gmem]
    split
    · rw [loadPtr_write_same]; exact loadPtr_mod_ptr _ _ _
    · rename_i hz
      rcases h with h | h
      · exact absurd h hz
      · rw [loadPtr_write_of_disjoint cfg _ _ _ _ _ h, loadPtr_write_same]
        exact loadPtr_mod_ptr _ _ _
  · have hr := run_jumpCode cfg iso env (throwPrefix cfg iso value ++ throwTail cfg iso) 0 mJ []
    rw [← hrun, j6, g3, g4] at hr
    refine run_mono_le cfg env _ _ _ ?_ _ _ _ _ hr
    rw [List.length_append, length_throwTail]
    omega
  · rw [j2, g2]
  · rw [j3, gsp]
  · rw [j4, gcp]
  · rw [j5, gfp]

/-- C11: for a top handler record `h` (the address in the current-handler
slot) whose five words lie apart from the slot, the code of `Throw(value)`
reaches the code of `JumpToHandlerEntry` with `r2 = value`, the slot holding
`h.next`, `sp = h + 5 words`, `r3 = h.code`, `r4 = h.state`, `cp = h.context`
and `fp = h.fp`, the five fields being taken in the order next, code, state,
context, fp; it then jumps to the start of the code of `h.code` plus the
untagged offset stored in the handler table of `h.code` at the byte offset that
`srl`, `LoadRR` and `sll` compute from the state word (`tableOffset`).  That is
the entry at index `h.state >> kKindWidth` when the state word is a 32-bit
state and, on the 64-bit target, the index times the pointer size is below
`2 ^ 32`. -/
theorem Throw_unwinds_to_top_handler (cfg : Config) (iso : Isolate) (env : Env) (m : Machine)
    (value : Register) (frame : Bool) (code : List Instr)
    (hcode : codeOf (Throw cfg iso value) frame = some code)
    (hkw : iso.kKindWidth < 64)
    (hF : is_int32 (iso.FixedArray_kHeaderSize - kHeapObjectTag) = true)
    (hH : is_int32 (iso.Code_kHeaderSize - kHeapObjectTag) = true)
    (hd : Disjoint cfg (handlerSlot cfg iso) (kPointerSize cfg)
      (loadPtr cfg m.mem (handlerSlot cfg iso)) (5 * kPointerSize cfg)) :
    ∃ pre n mJ mF,
      code = pre ++ jumpCode cfg iso ∧
      (∀ st, (JumpToHandlerEntry cfg iso).appended st = st.code ++ jumpCode cfg iso) ∧
      (∀ k, run cfg env code (n + k) code m [] = run cfg env code k (jumpCode cfg iso) mJ []) ∧
      mJ.regP cfg r2 = m.regP cfg value ∧
      (handlerField cfg m.mem (loadPtr cfg m.mem (handlerSlot cfg iso)) 3 = 0 ∨
        Disjoint cfg (handlerSlot cfg iso) (kPointerSize cfg)
          (contextSlot cfg iso (handlerField cfg m.mem (loadPtr cfg m.mem (handlerSlot cfg iso)) 4))
          (kPointerSize cfg) →
        loadPtr cfg mJ.mem (handlerSlot cfg iso) =
          handlerField cfg m.mem (loadPtr cfg m.mem (handlerSlot cfg iso)) 0) ∧
      mJ.regP cfg sp = slot cfg (loadPtr cfg m.mem (handlerSlot cfg iso)) 5 ∧
      mJ.regP cfg r3 = handlerField cfg m.mem (loadPtr cfg m.mem (handlerSlot cfg iso)) 1 ∧
      mJ.regP cfg r4 = handlerField cfg m.mem (loadPtr cfg m.mem (handlerSlot cfg iso)) 2 ∧
      mJ.regP cfg cp = handlerField cfg m.mem (loadPtr cfg m.mem (handlerSlot cfg iso)) 3 ∧
      mJ.regP cfg fp = handlerField cfg m.mem (loadPtr cfg m.mem (handlerSlot cfg iso)) 4 ∧
      exec cfg env code (code.length + 1) m =
        some ⟨.jump (handlerEntryAt cfg iso mJ.mem
          (handlerField cfg m.mem (loadPtr cfg m.mem (handlerSlot cfg iso)) 1)
          (tableOffset cfg iso
            (handlerField cfg m.mem (loadPtr cfg m.mem (handlerSlot cfg iso)) 2))), mF, []⟩ ∧
      mF.mem = mJ.mem ∧
      mF.regP cfg r2 = m.regP cfg value ∧
      mF.regP cfg sp = slot cfg (loadPtr cfg m.mem (handlerSlot cfg iso)) 5 ∧
      mF.regP cfg cp = handlerField cfg m.mem (loadPtr cfg m.mem (handlerSlot cfg iso)) 3 ∧
      mF.regP cfg fp = handlerField cfg m.mem (loadPtr cfg m.mem (handlerSlot cfg iso)) 4 ∧
      (handlerField cfg m.mem (loadPtr cfg m.mem (handlerSlot cfg iso)) 2 < M32 →
        (cfg.is64 = true →
          handlerField cfg m.mem (loadPtr cfg m.mem (handlerSlot cfg iso)) 2 /
            2 ^ iso.kKindWidth * kPointerSize cfg < M32) →
        handlerEntryAt cfg iso mJ.mem
            (handlerField cfg m.mem (loadPtr cfg m.mem (handlerSlot cfg iso)) 1)
            (tableOffset cfg iso
              (handlerField cfg m.mem (loadPtr cfg m.mem (handlerSlot cfg iso)) 2)) =
          handlerEntry cfg iso mJ.mem
            (handlerField cfg m.mem (loadPtr cfg m.mem (handlerSlot cfg iso)) 1)
            (handlerField cfg m.mem (loadPtr cfg m.mem (handlerSlot cfg iso)) 2)) := by
  obtain ⟨pre, n, mJ, mF, h1, h2, h3, h4, h5, h6, h7, h8, h9, h10, h11, h12, h13, h14, h15, h16, -⟩ :=
    Throw_runs cfg iso env m value frame code hcode hkw hF hH hd
  exact ⟨pre, n, mJ, mF, h1, h2, h3, h4, h5, h6, h7, h8, h9, h10, h11, h12, h13, h14, h15, h16,
    fun hS hI => handlerEntryAt_tableOffset cfg iso mJ.mem _ _ hS hI⟩

theorem chain_top :
    loadPtr cfg64 chainMachine.mem (handlerSlot cfg64 (sampleIsolate cfg64)) = 1000 := by decide

theorem chain_disjoint :
    Disjoint cfg64 (handlerSlot cfg64 (sampleIsolate cfg64)) (kPointerSize cfg64)
      (loadPtr cfg64 chainMachine.mem (handlerSlot cfg64 (sampleIsolate cfg64)))
      (5 * kPointerSize cfg64) := by
  rw [chain_top]; decide

theorem chain_state :
    handlerField cfg64 chainMachine.mem
      (loadPtr cfg64 chainMachine.mem (handlerSlot cfg64 (sampleIsolate cfg64))) 2 = 13 := by
  rw [chain_top]; decide

/-- C11 (witness): `Throw(r3)` on the sample chain of the 64-bit target, whose
top record is the catch handler at 1000. -/
theorem Throw_unwinds_to_top_handler_witness :
    ∃ code, codeOf (Throw cfg64 (sampleIsolate cfg64) r3) false = some code ∧
      ∃ mF t, exec cfg64 sampleEnv code (code.length + 1) chainMachine = some ⟨.jump t, mF, []⟩ ∧
        mF.regP cfg64 r2 = 42 ∧ mF.regP cfg64 sp = 1040 ∧ mF.regP cfg64 cp = 7 ∧
        mF.regP cfg64 fp = 5000 :=
  ⟨_, rfl,
    match Throw_unwinds_to_top_handler cfg64 (sampleIsolate cfg64) sampleEnv chainMachine r3 false
      _ rfl (by decide) (by decide) (by decide) chain_disjoint with
    | ⟨_, _, _, mF, h⟩ =>
      ⟨mF, _, h.2.2.2.2.2.2.2.2.2.2.1, h.2.2.2.2.2.2.2.2.2.2.2.2.1.trans (by decide),
        h.2.2.2.2.2.2.2.2.2.2.2.2.2.1.trans (by rw [chain_top]; decide),
        h.2.2.2.2.2.2.2.2.2.2.2.2.2.2.1.trans (by rw [chain_top]; decide),
        h.2.2.2.2.2.2.2.2.2.2.2.2.2.2.2.1.trans (by rw [chain_top]; decide)⟩⟩

theorem wide_top :
    loadPtr cfg64 wideIndexMachine.mem (handlerSlot cfg64 (sampleIsolate cfg64)) = 1000 := by decide

theorem wide_disjoint :
    Disjoint cfg64 (handlerSlot cfg64 (sampleIsolate cfg64)) (kPointerSize cfg64)
      (loadPtr cfg64 wideIndexMachine.mem (handlerSlot cfg64 (sampleIsolate cfg64)))
      (5 * kPointerSize cfg64) := by
  rw [wide_top]; decide

/-- C11 (counterexample): `Throw(r3)` on the 64-bit target with a top handler
record whose state word is that of a `CATCH` handler with index `2 ^ 29 + 1`
(`0x80000005`).  The 32-bit `sll` drops the top bit of the scaled index, so the
offset is read from element 1 of the handler table (200) and the code jumps to
20264, while the entry at index `state >> kKindWidth` is 20164. -/
theorem Throw_wide_index_wrong_entry :
    StackHandler.state (sampleIsolate cfg64) .CATCH 536870913 = 2147483653 ∧
    handlerField cfg64 wideIndexMachine.mem 1000 2 = 2147483653 ∧
    (codeOf (Throw cfg64 (sampleIsolate cfg64) r3) false).bind
        (fun c => (exec cfg64 sampleEnv c (c.length + 1) wideIndexMachine).map
          (fun f => (f.outcome,
            handlerEntry cfg64 (sampleIsolate cfg64) f.machine.mem 20001 2147483653))) =
      some (.jump 20264, 20164) := by
  refine ⟨by decide, by decide, ?_⟩
  have hc : ∃ code, codeOf (Throw cfg64 (sampleIsolate cfg64) r3) false = some code := ⟨_, rfl⟩
  obtain ⟨code, hc⟩ := hc
  obtain ⟨_, _, mJ, mF, -, -, -, -, -, -, -, -, -, -, hexec, hmem, -, -, -, -, hJ⟩ :=
    Throw_runs cfg64 (sampleIsolate cfg64) sampleEnv wideIndexMachine r3 false code hc
      (by decide) (by decide) (by decide) wide_disjoint
  rw [wide_top] at hexec hJ
  have f0 : handlerField cfg64 wideIndexMachine.mem 1000 0 = 2000 := by decide
  have f1 : handlerField cfg64 wideIndexMachine.mem 1000 1 = 20001 := by decide
  have f2 : handlerField cfg64 wideIndexMachine.mem 1000 2 = 2147483653 := by decide
  have f3 : handlerField cfg64 wideIndexMachine.mem 1000 3 = 7 := by decide
  have f4 : handlerField cfg64 wideIndexMachine.mem 1000 4 = 5000 := by decide
  rw [f0, f3, f4, if_neg (by decide)] at hJ
  rw [f1, f2] at hexec
  rw [hc, Option.some_bind, hexec, Option.map_some']
  dsimp only
  rw [hmem, hJ]
  decide

/-- C12: for a handler record that the code of `PushTryHandler` builds (with a
non-zero context register at that time for the kinds other than `JS_ENTRY`),
the code of `Throw` ends in a jump and writes, besides the current-handler
slot, the context into the frame slot at `fp + kContextOffset` when the kind is
not `JS_ENTRY`, and nothing besides the current-handler slot when the kind is
`JS_ENTRY`. -/
theorem Throw_restores_context (cfg : Config) (iso : Isolate) (env : Env) (m : Machine)
    (kind : StackHandlerKind) (handler_index : Int) (value : Register) (frame : Bool)
    (c1 c2 : List Instr)
    (h1 : codeOf (PushTryHandler cfg iso kind handler_index) frame = some c1)
    (h2 : codeOf (Throw cfg iso value) frame = some c2)
    (hd : Disjoint cfg (handlerSlot cfg iso) (kPointerSize cfg)
      (slot cfg (m.addr cfg sp) (-5)) (5 * kPointerSize cfg))
    (hcp : kind ≠ .JS_ENTRY → m.regP cfg cp ≠ 0) :
    ∃ f1, exec cfg env c1 (c1.length + 1) m = some f1 ∧ f1.outcome = .fallthrough ∧
      ∃ t mF, exec cfg env c2 (c2.length + 1) f1.machine = some ⟨.jump t, mF, []⟩ ∧
        (kind = .JS_ENTRY →
          mF.mem = writeBytes cfg f1.machine.mem (handlerSlot cfg iso) (kPointerSize cfg)
            (loadPtr cfg m.mem (handlerSlot cfg iso))) ∧
        (kind ≠ .JS_ENTRY →
          mF.mem = writeBytes cfg
            (writeBytes cfg f1.machine.mem (handlerSlot cfg iso) (kPointerSize cfg)
              (loadPtr cfg m.mem (handlerSlot cfg iso)))
            (contextSlot cfg iso (m.regP cfg fp)) (kPointerSize cfg) (m.regP cfg cp)) := by
  obtain ⟨s1, p1⟩ := PushTryHandler_spec cfg iso kind handler_index frame c1 h1
  obtain ⟨a1, a2⟩ := p1 m
  obtain ⟨w0, _, _, w3, w4, wH⟩ := a2 hd
  obtain ⟨_, rfl⟩ := Throw_code cfg iso value frame c2 h2
  have hfull := suffixAt_throw cfg iso value [] (fun _ h => absurd h (List.not_mem_nil _))
  rw [List.nil_append] at hfull
  have hd1 : Disjoint cfg (handlerSlot cfg iso) (kPointerSize cfg)
      (loadPtr cfg (runStraight cfg c1 m).mem (handlerSlot cfg iso)) (5 * kPointerSize cfg) := by
    rw [wH]; exact hd
  obtain ⟨n, mJ, hn, hrun, _, _, _, _, _, _, gmem⟩ :=
    Throw_reaches_jump cfg iso env _ value (runStraight cfg c1 m) [] hfull hd1
  have hr := run_jumpCode cfg iso env (throwPrefix cfg iso value ++ throwTail cfg iso) 0 mJ []
  rw [← hrun] at hr
  have hexec : exec cfg env (throwPrefix cfg iso value ++ throwTail cfg iso)
      ((throwPrefix cfg iso value ++ throwTail cfg iso).length + 1) (runStraight cfg c1 m) =
      some ⟨.jump ((runStraight cfg (jumpBody cfg iso) mJ).addr cfg r14),
        runStraight cfg (jumpBody cfg iso) mJ, []⟩ := by
    refine run_mono_le cfg env _ _ _ ?_ _ _ _ _ hr
    rw [List.length_append, length_throwTail]
    omega
  simp only [handlerField, wH, w0, w3, w4] at gmem
  refine ⟨_, exec_of_straight cfg env c1 s1 m, rfl, _, _, hexec, ?_, ?_⟩
  · intro hk
    rw [jumpBody_mem, gmem, if_pos hk, if_pos rfl]
  · intro hk
    rw [jumpBody_mem, gmem, if_neg hk, if_neg (hcp hk), if_neg hk]

/-- C12 (witness): a catch handler and an entry handler pushed on the 64-bit
target with `sp = 65536`, `cp = 7`, `fp = 9`, then thrown to. -/
theorem Throw_restores_context_witness :
    (∃ c1 c2, codeOf (PushTryHandler cfg64 (sampleIsolate cfg64) .CATCH 3) false = some c1 ∧
      codeOf (Throw cfg64 (sampleIsolate cfg64) r2) false = some c2 ∧
      ∃ f1, exec cfg64 sampleEnv c1 (c1.length + 1) (stackMachine 65536 7 9) = some f1 ∧
        ∃ t mF, exec cfg64 sampleEnv c2 (c2.length + 1) f1.machine = some ⟨.jump t, mF, []⟩ ∧
          mF.mem = writeBytes cfg64
            (writeBytes cfg64 f1.machine.mem 8192 8 0) 1 8 7) :=
  ⟨_, _, rfl, rfl,
    match Throw_restores_context cfg64 (sampleIsolate cfg64) sampleEnv (stackMachine 65536 7 9)
      .CATCH 3 r2 false _ _ rfl rfl (sample_handler_disjoint _ (by decide)) (fun _ => by decide) with
    | ⟨f1, h1, _, t, mF, h2, _, h3⟩ => ⟨f1, h1, t, mF, h2, h3 (by decide)⟩⟩

theorem ThrowUncatchable_code (cfg : Config) (iso : Isolate) (value : Register) (frame : Bool)
    (code : List Instr) (hcode : codeOf (ThrowUncatchable cfg iso value) frame = some code) :
    code = uncPrefix cfg iso value ++ (.brc al 1 :: uncFetch cfg iso) := by
  by_cases hv : value = r2
  · subst hv
    simp only [codeOf, ThrowUncatchable, mov_run, LoadP_run_no_reg, pop, LoadRR_run, run_newLabel,
      JumpToHandlerEntry_run, AndP_Register_run, bne, b, bind, ne_eq, not_true,
      if_false, StoreP_run_fits _ _ _ _ _ _ _ is_int20_zero, Operand.ofInt,
      MemOperand.mk1, Emit.run_bind_eq, Emit.run_pure, run_emit, List.nil_append,
      List.append_assoc, List.cons_append, Bool.false_or] at hcode
    obtain ⟨rfl, hok⟩ := code_of_ite hcode
    simp only [uncPrefix, uncFetch, uncCheck, checkStraight, unlinkCode, popCode, if_true,
      List.nil_append, List.append_assoc, List.cons_append, ↓reduceIte]
  · simp only [codeOf, ThrowUncatchable, mov_run, LoadP_run_no_reg, pop, LoadRR_run, run_newLabel,
      JumpToHandlerEntry_run, AndP_Register_run, bne, b, bind, hv, ne_eq, not_false_eq_true,
      if_true, StoreP_run_fits _ _ _ _ _ _ _ is_int20_zero, Operand.ofInt,
      MemOperand.mk1, Emit.run_bind_eq, Emit.run_pure, run_emit, List.nil_append,
      List.append_assoc, List.cons_append, Bool.false_or] at hcode
    obtain ⟨rfl, hok⟩ := code_of_ite hcode
    simp only [uncPrefix, uncFetch, uncCheck, checkStraight, unlinkCode, popCode, hv, if_false,
      List.nil_append, List.append_assoc, List.cons_append]

theorem isStraight_checkStraight (cfg : Config) (iso : Isolate) :
    ∀ i ∈ checkStraight cfg iso, i.isStraight = true := by
  intro i hi
  simp only [checkStraight, List.mem_append, List.mem_cons, List.mem_singleton,
    List.not_mem_nil, or_false] at hi
  rcases hi with rfl | rfl | hi | rfl
  · rfl
  · exact isStraight_ldP _ _ _
  · exact isStraight_movCode _ _ _ _ hi
  · exact isStraight_andP _ _ _

theorem isStraight_uncPrefix (cfg : Config) (iso : Isolate) (value : Register) :
    ∀ i ∈ uncPrefix cfg iso value, i.isStraight = true := by
  intro i hi
  simp only [uncPrefix, List.mem_append, List.mem_cons, List.mem_singleton,
    List.not_mem_nil, or_false] at hi
  rcases hi with hi | hi | rfl
  · split at hi
    · exact absurd hi (List.not_mem_nil _)
    · rw [List.mem_singleton] at hi; subst hi; exact isStraight_lrP _ _ _
  · exact isStraight_movCode _ _ _ _ hi
  · exact isStraight_ldP _ _ _

theorem boundLabel_uncPrefix (cfg : Config) (iso : Isolate) (value : Register) :
    ∀ i ∈ uncPrefix cfg iso value, i.boundLabel = none := by
  intro i hi
  simp only [uncPrefix, List.mem_append, List.mem_cons, List.mem_singleton,
    List.not_mem_nil, or_false] at hi
  rcases hi with hi | hi | rfl
  · split at hi
    · exact absurd hi (List.not_mem_nil _)
    · rw [List.mem_singleton] at hi; subst hi; exact boundLabel_lrP _ _ _
  · exact boundLabel_movCode _ _ _ _ hi
  · exact boundLabel_ldP _ _ _

theorem suffixAt_fetch (cfg : Config) (iso : Isolate) (value : Register) :
    suffixAt 0 (uncPrefix cfg iso value ++ (.brc al 1 :: uncFetch cfg iso)) =
      some (uncFetch cfg iso) := by
  rw [suffixAt_skip 0 _ _ (boundLabel_uncPrefix cfg iso value), suffixAt_cons,
    if_neg (by simp [Instr.boundLabel]), uncFetch, suffixAt_cons]
  rfl

theorem suffixAt_check (cfg : Config) (iso : Isolate) (value : Register) :
    suffixAt 1 (uncPrefix cfg iso value ++ (.brc al 1 :: uncFetch cfg iso)) =
      some (uncCheck cfg iso) := by
  rw [suffixAt_skip 1 _ _ (boundLabel_uncPrefix cfg iso value), suffixAt_cons,
    if_neg (by simp [Instr.boundLabel]), uncFetch, suffixAt_cons,
    if_neg (by simp [Instr.boundLabel]), suffixAt_cons, boundLabel_ldP, if_neg (by simp),
    uncCheck, checkStraight, List.cons_append, suffixAt_cons]
  rfl

theorem kMask_value (cfg : Config) (iso : Isolate) (hkw : iso.kKindWidth < 32) :
    unsignedOf (ptrMod cfg) (KindField.kMask iso) = 2 ^ iso.kKindWidth - 1 := by
  unfold KindField.kMask unsignedOf
  have h1 : (1 : Nat) ≤ 2 ^ iso.kKindWidth := Nat.one_le_two_pow
  have h2 : 2 ^ iso.kKindWidth < 2 ^ 32 := Nat.pow_lt_pow_right (by decide) hkw
  have h3 : ((2 : Int) ^ iso.kKindWidth - 1) = ((2 ^ iso.kKindWidth - 1 : Nat) : Int) := by
    rw [Nat.cast_sub h1]; simp
  rw [h3, ← Int.natCast_mod, Int.toNat_natCast]
  apply Nat.mod_eq_of_lt
  have : M32 ≤ ptrMod cfg := by unfold ptrMod M32 M64; split <;> decide
  simp only [M32] at this
  omega

/-- The machine after the instructions at `check_kind`: only `r4`, `r0` and
the condition code change, and the branch back is taken exactly when the kind
bits of the record at `sp` are not zero. -/
theorem checkStraight_facts (cfg : Config) (iso : Isolate) (m : Machine)
    (hkw : iso.kKindWidth < 32) :
    (runStraight cfg (checkStraight cfg iso) m).mem = m.mem ∧
    (runStraight cfg (checkStraight cfg iso) m).regP cfg sp = m.regP cfg sp ∧
    (runStraight cfg (checkStraight cfg iso) m).regP cfg r2 = m.regP cfg r2 ∧
    (runStraight cfg (checkStraight cfg iso) m).regP cfg r5 = m.regP cfg r5 ∧
    (condHolds ne (runStraight cfg (checkStraight cfg iso) m).cc = true ↔
      handlerKindBits cfg iso m.mem (m.regP cfg sp) ≠ 0) := by
  unfold checkStraight
  rw [runStraight_cons, runStraight_cons, effect_ldP, runStraight_movCode, runStraight_cons,
    runStraight_nil, effect_andP]
  have hb : ∀ mm : Machine, (Instr.bind 1).effect cfg mm = mm := fun _ => rfl
  simp +decide only [hb, setCC_mem, setRegP_mem, regP_setCC, regP_setRegP_ne, setCC_cc,
    regP_setRegP_self, true_and, condHolds_ne_logicCC, kMask_value cfg iso hkw,
    effAddr_disp _ _ _ _ sp_ne_r0, StackHandlerConstants.kStateSlot, slot_fold,
    loadPtr_mod_ptr, handlerKindBits, handlerField]
  rw [Nat.mod_eq_of_lt (lt_of_lt_of_le (Nat.sub_lt Nat.one_le_two_pow Nat.one_pos)
      (le_trans (Nat.le_of_lt (Nat.pow_lt_pow_right (by decide) hkw))
        (by unfold ptrMod M32 M64; split <;> decide))),
    ← slot_mod cfg (m.regP cfg sp), regP_mod_addr]
  have : Nat.land (2 ^ iso.kKindWidth - 1) (loadPtr cfg m.mem (slot cfg (m.addr cfg sp) 2)) =
      loadPtr cfg m.mem (slot cfg (m.addr cfg sp) 2) % 2 ^ iso.kKindWidth := by
    show (2 ^ iso.kKindWidth - 1) &&& _ = _
    rw [Nat.and_comm]
    exact Nat.and_pow_two_sub_one_eq_mod _ _
  rw [this]
/-- The loop of `ThrowUncatchable`: from `check_kind` with `sp` at the first
record of a chain, the code skips the records that are not of the entry kind
and arrives at the unlinking code with `sp` at the entry record; memory, `r2`
and `r5` are as they were. -/
theorem unc_loop (cfg : Config) (iso : Isolate) (env : Env) (full : List Instr)
    (hkw : iso.kKindWidth < 32) (hs0 : suffixAt 0 full = some (uncFetch cfg iso))
    (tr : List Event) :
    ∀ (skipped : List Nat) (e : Nat) (μ : Machine),
      linked cfg iso μ.mem (μ.regP cfg sp) skipped e → handlerKindBits cfg iso μ.mem e = 0 →
      ∃ n μ1, n ≤ (skipped.length + 1) * ((checkStraight cfg iso).length + 3) ∧
        (∀ k, run cfg env full (n + k) (uncCheck cfg iso) μ tr =
          run cfg env full k (unlinkCode cfg ++ jumpCode cfg iso) μ1 tr) ∧
        μ1.mem = μ.mem ∧ μ1.regP cfg sp = e ∧ μ1.regP cfg r2 = μ.regP cfg r2 ∧
        μ1.regP cfg r5 = μ.regP cfg r5 := by
  intro skipped
  induction skipped with
  | nil =>
    intro e μ hl hk
    obtain ⟨c1, c2, c3, c4, c5⟩ := checkStraight_facts cfg iso μ hkw
    have hl0 : μ.regP cfg sp = e := hl
    refine ⟨(checkStraight cfg iso).length + 1, runStraight cfg (checkStraight cfg iso) μ,
      by simp, fun k => ?_, c1, by rw [c2, hl0], c3, c4⟩
    rw [show (checkStraight cfg iso).length + 1 + k = (k + 1) + (checkStraight cfg iso).length
        by omega, uncCheck,
      run_straight cfg env full _ _ (isStraight_checkStraight cfg iso), run_brc,
      if_neg (fun h => c5.1 h (by rw [hl0]; exact hk))]
  | cons s rest ih =>
    intro e μ hl hk
    obtain ⟨hs, hks, hrest⟩ := hl
    obtain ⟨c1, c2, c3, c4, c5⟩ := checkStraight_facts cfg iso μ hkw
    have hmem2 : ((runStraight cfg (checkStraight cfg iso) μ).setRegP cfg sp
        (handlerField cfg μ.mem s 0)).mem = μ.mem := by
      rw [setRegP_mem, c1]
    have hsp2 : ((runStraight cfg (checkStraight cfg iso) μ).setRegP cfg sp
        (handlerField cfg μ.mem s 0)).regP cfg sp = handlerField cfg μ.mem s 0 := by
      rw [regP_setRegP_self]; exact loadPtr_mod_ptr _ _ _
    obtain ⟨n, μ1, hn, hrun, i1, i2, i3, i4⟩ := ih e
      ((runStraight cfg (checkStraight cfg iso) μ).setRegP cfg sp (handlerField cfg μ.mem s 0))
      (by rw [hmem2, hsp2]; exact hrest) (by rw [hmem2]; exact hk)
    refine ⟨(checkStraight cfg iso).length + 3 + n, μ1, ?_, fun k => ?_, by rw [i1, hmem2], i2,
      ?_, ?_⟩
    · rw [List.length_cons]
      have : (rest.length + 1 + 1) * ((checkStraight cfg iso).length + 3) =
          (rest.length + 1) * ((checkStraight cfg iso).length + 3) +
            ((checkStraight cfg iso).length + 3) := by ring
      omega
    · rw [show (checkStraight cfg iso).length + 3 + n + k =
          ((n + k) + 1 + 1 + 1) + (checkStraight cfg iso).length by omega, uncCheck,
        run_straight cfg env full _ _ (isStraight_checkStraight cfg iso), run_brc,
        if_pos (c5.2 (by rw [hs]; exact hks)), hs0]
      show run cfg env full (n + k + 1 + 1) (uncFetch cfg iso) _ tr = _
      rw [uncFetch, run_bind]
      have hst : ∀ i ∈ [ldP cfg sp ⟨sp, r0, StackHandlerConstants.kNextOffset cfg⟩],
          i.isStraight = true := by
        intro i hi
        rw [List.mem_singleton] at hi; subst hi; exact isStraight_ldP _ _ _
      have := run_straight cfg env full
        [ldP cfg sp ⟨sp, r0, StackHandlerConstants.kNextOffset cfg⟩] (uncCheck cfg iso) hst
        (n + k) (runStraight cfg (checkStraight cfg iso) μ) tr
      rw [List.length_singleton] at this
      rw [show ldP cfg sp ⟨sp, r0, StackHandlerConstants.kNextOffset cfg⟩ :: uncCheck cfg iso =
        [ldP cfg sp ⟨sp, r0, StackHandlerConstants.kNextOffset cfg⟩] ++ uncCheck cfg iso from rfl,
        this, runStraight_cons, runStraight_nil, effect_ldP,
        effAddr_disp _ _ _ _ sp_ne_r0, StackHandlerConstants.kNextOffset, slot_fold,
        addr_eq_regP_mod, c2, c1, hs]
      have e0 : loadPtr cfg μ.mem (slot cfg (s % addrMod cfg) 0) = handlerField cfg μ.mem s 0 := by
        rw [slot_mod]; rfl
      rw [e0]
      exact hrun k
    · rw [i3, regP_setRegP_ne cfg _ sp r2 _ (by decide), c3]
    · rw [i4, regP_setRegP_ne cfg _ sp r5 _ (by decide), c4]
theorem uncPrefix_facts (cfg : Config) (iso : Isolate) (value : Register) (m : Machine) :
    (runStraight cfg (uncPrefix cfg iso value) m).mem = m.mem ∧
    (runStraight cfg (uncPrefix cfg iso value) m).regP cfg sp =
      loadPtr cfg m.mem (handlerSlot cfg iso) ∧
    (runStraight cfg (uncPrefix cfg iso value) m).regP cfg r2 = m.regP cfg value ∧
    slot cfg ((runStraight cfg (uncPrefix cfg iso value) m).addr cfg r5) 0 =
      handlerSlot cfg iso := by
  obtain ⟨mA, hA, hAmem, hAr2⟩ : ∃ mA : Machine,
      runStraight cfg (if value = r2 then [] else [lrP cfg r2 value]) m = mA ∧ mA.mem = m.mem ∧
        mA.regP cfg r2 = m.regP cfg value := by
    by_cases hv : value = r2
    · subst hv
      exact ⟨m, by rw [if_pos rfl]; rfl, rfl, rfl⟩
    · refine ⟨runStraight cfg [lrP cfg r2 value] m, by rw [if_neg hv], ?_, ?_⟩
      · rw [runStraight_cons, runStraight_nil, effect_lrP, setRegP_mem]
      · rw [runStraight_cons, runStraight_nil, effect_lrP, regP_setRegP_self, regP_mod_ptr]
  have hH : ∀ mm : Machine, slot cfg ((mm.setRegP cfg r5
      (unsignedOf (ptrMod cfg) iso.handler_address)).addr cfg r5) 0 = handlerSlot cfg iso := by
    intro mm
    rw [addr_setRegP_self, unsignedOf_ptr_mod_addr, slot_unsignedOf_zero]; rfl
  unfold uncPrefix
  rw [runStraight_append, hA, runStraight_movCode, runStraight_cons, runStraight_nil, effect_ldP,
    effAddr_disp _ _ _ _ (show r5 ≠ r0 by decide), slot_fold_zero, hH]
  simp only [setRegP_mem, hAmem]
  refine ⟨trivial, ?_, ?_, ?_⟩
  · rw [regP_setRegP_self]; exact loadPtr_mod_ptr _ _ _
  · rw [regP_setRegP_ne cfg _ sp r2 _ (by decide), regP_setRegP_ne cfg _ r5 r2 _ (by decide), hAr2]
  · rw [addr_setRegP_ne cfg _ sp r5 _ (by decide), hH]

theorem length_uncFetch (cfg : Config) (iso : Isolate) :
    (uncFetch cfg iso).length =
      (checkStraight cfg iso).length + 3 + (unlinkCode cfg).length + (jumpBody cfg iso).length + 1 := by
  simp only [uncFetch, uncCheck, jumpCode, List.length_cons, List.length_append,
    List.length_singleton, List.length_nil]
  omega

/-- C13: for a handler chain from the current-handler slot in which the
records `skipped`, none of the entry kind, lead to a record `e` of the entry
kind (kind bits zero) whose five words lie apart from the slot, the code of
`ThrowUncatchable` reaches the code of `JumpToHandlerEntry` with the slot
holding `e.next`, `sp` five words past `e`, and `r3`, `r4`, `cp`, `fp` holding
the code, state, context and fp words of `e`; memory is unchanged but for the
slot, so that no state of a skipped record is restored, and it ends in a jump.
The result is given by the slot, the links and kinds of the skipped records and
the words of `e` alone: nothing is assumed of a record after `e`. -/
theorem ThrowUncatchable_selects_entry (cfg : Config) (iso : Isolate) (env : Env) (m : Machine)
    (value : Register) (frame : Bool) (code : List Instr) (skipped : List Nat) (e : Nat)
    (hcode : codeOf (ThrowUncatchable cfg iso value) frame = some code)
    (hkw : iso.kKindWidth < 32)
    (hchain : linked cfg iso m.mem (loadPtr cfg m.mem (handlerSlot cfg iso)) skipped e)
    (hentry : handlerKindBits cfg iso m.mem e = 0)
    (hd : Disjoint cfg (handlerSlot cfg iso) (kPointerSize cfg) e (5 * kPointerSize cfg)) :
    ∃ pre n mJ t mF,
      code = pre ++ jumpCode cfg iso ∧
      (∀ st, (JumpToHandlerEntry cfg iso).appended st = st.code ++ jumpCode cfg iso) ∧
      (∀ k, run cfg env code (n + k) code m [] = run cfg env code k (jumpCode cfg iso) mJ []) ∧
      loadPtr cfg mJ.mem (handlerSlot cfg iso) = handlerField cfg m.mem e 0 ∧
      mJ.regP cfg sp = slot cfg e 5 ∧
      mJ.regP cfg r3 = handlerField cfg m.mem e 1 ∧
      mJ.regP cfg r4 = handlerField cfg m.mem e 2 ∧
      mJ.regP cfg cp = handlerField cfg m.mem e 3 ∧
      mJ.regP cfg fp = handlerField cfg m.mem e 4 ∧
      mJ.regP cfg r2 = m.regP cfg value ∧
      mJ.mem = writeBytes cfg m.mem (handlerSlot cfg iso) (kPointerSize cfg)
        (handlerField cfg m.mem e 0) ∧
      exec cfg env code ((skipped.length + 2) * code.length) m = some ⟨.jump t, mF, []⟩ ∧
      mF.mem = mJ.mem := by
  have hcode2 := ThrowUncatchable_code cfg iso value frame code hcode
  subst hcode2
  obtain ⟨p1, p2, p3, p4⟩ := uncPrefix_facts cfg iso value m
  obtain ⟨n, μ1, hn, hrun, i1, i2, i3, i4⟩ := unc_loop cfg iso env
    (uncPrefix cfg iso value ++ (.brc al 1 :: uncFetch cfg iso)) hkw
    (suffixAt_fetch cfg iso value) [] skipped e (runStraight cfg (uncPrefix cfg iso value) m)
    (by rw [p1, p2]; exact hchain) (by rw [p1]; exact hentry)
  have hr5 : slot cfg (μ1.addr cfg r5) 0 = handlerSlot cfg iso := by
    rw [addr_eq_regP_mod, i4, regP_mod_addr, p4]
  have hd1 : Disjoint cfg (slot cfg (μ1.addr cfg r5) 0) (kPointerSize cfg) (μ1.addr cfg sp)
      (5 * kPointerSize cfg) := by
    rw [hr5, addr_eq_regP_mod, i2]
    exact hd.mod_right
  obtain ⟨u1, u2, u3, u4, u5, u6, u7⟩ := unlink_facts cfg μ1 hd1
  rw [hr5] at u7
  simp only [addr_eq_regP_mod, i2, handlerField, slot_mod, i1, p1] at u1 u2 u3 u4 u5 u7
  have hreach : ∀ k, run cfg env (uncPrefix cfg iso value ++ (.brc al 1 :: uncFetch cfg iso))
      ((uncPrefix cfg iso value).length + 1 + n + (unlinkCode cfg).length + k)
      (uncPrefix cfg iso value ++ (.brc al 1 :: uncFetch cfg iso)) m [] =
      run cfg env (uncPrefix cfg iso value ++ (.brc al 1 :: uncFetch cfg iso)) k
        (jumpCode cfg iso) (runStraight cfg (unlinkCode cfg) μ1) [] := by
    intro k
    rw [show (uncPrefix cfg iso value).length + 1 + n + (unlinkCode cfg).length + k =
        ((n + (k + (unlinkCode cfg).length)) + 1) + (uncPrefix cfg iso value).length by omega,
      run_straight cfg env _ _ _ (isStraight_uncPrefix cfg iso value), run_brc,
      if_pos (condHolds_al _), suffixAt_check]
    show run cfg env _ (n + (k + (unlinkCode cfg).length)) (uncCheck cfg iso) _ [] = _
    rw [hrun, run_straight cfg env _ _ _ (isStraight_unlinkCode cfg)]
  have hr := run_jumpCode cfg iso env (uncPrefix cfg iso value ++ (.brc al 1 :: uncFetch cfg iso))
    0 (runStraight cfg (unlinkCode cfg) μ1) []
  rw [← hreach] at hr
  refine ⟨uncPrefix cfg iso value ++ (.brc al 1 :: .bind 0 ::
      ldP cfg sp ⟨sp, r0, StackHandlerConstants.kNextOffset cfg⟩ ::
        (checkStraight cfg iso ++ (.brc ne 0 :: unlinkCode cfg))),
    (uncPrefix cfg iso value).length + 1 + n + (unlinkCode cfg).length,
    runStraight cfg (unlinkCode cfg) μ1,
    (runStraight cfg (jumpBody cfg iso) (runStraight cfg (unlinkCode cfg) μ1)).addr cfg r14,
    runStraight cfg (jumpBody cfg iso) (runStraight cfg (unlinkCode cfg) μ1),
    ?_, JumpToHandlerEntry_appended cfg iso, hreach,
    ?_, u1, u2, u3, u4, u5, ?_, u7, ?_, jumpBody_mem cfg iso _⟩
  · simp only [uncFetch, uncCheck, List.append_assoc, List.cons_append, List.nil_append]
  · rw [u7, loadPtr_write_same]; exact loadPtr_mod_ptr _ _ _
  · rw [u6, i3, p3]
  · refine run_mono_le cfg env _ _ _ ?_ _ _ _ _ hr
    rw [List.length_append, List.length_cons, length_uncFetch]
    have h3 : (skipped.length + 1) * ((checkStraight cfg iso).length + 3) ≤
        (skipped.length + 1) * ((uncPrefix cfg iso value).length +
          ((checkStraight cfg iso).length + 3 + (unlinkCode cfg).length +
            (jumpBody cfg iso).length + 1 + 1)) :=
      Nat.mul_le_mul_left _ (by omega)
    have h4 : (skipped.length + 2) * ((uncPrefix cfg iso value).length +
          ((checkStraight cfg iso).length + 3 + (unlinkCode cfg).length +
            (jumpBody cfg iso).length + 1 + 1)) =
        (skipped.length + 1) * ((uncPrefix cfg iso value).length +
          ((checkStraight cfg iso).length + 3 + (unlinkCode cfg).length +
            (jumpBody cfg iso).length + 1 + 1)) + ((uncPrefix cfg iso value).length +
          ((checkStraight cfg iso).length + 3 + (unlinkCode cfg).length +
            (jumpBody cfg iso).length + 1 + 1)) := by ring
    rw [h4]
    omega

theorem chain_linked :
    linked cfg64 (sampleIsolate cfg64) chainMachine.mem
      (loadPtr cfg64 chainMachine.mem (handlerSlot cfg64 (sampleIsolate cfg64))) [1000, 2000] 3000 :=
  ⟨by decide, by decide, by decide, by decide,
    (by decide : handlerField cfg64 chainMachine.mem 2000 0 = 3000)⟩

/-- C13 (witness): on the chain `[catch, catch, entry, catch]` at 1000, 2000,
3000 and 4000 the third record is selected: the slot gets its next link 4000,
`sp` is 3040, and `r3`, `r4`, `cp`, `fp` are its words 22001, 4, 0, 0. -/
theorem ThrowUncatchable_selects_entry_witness :
    ∃ code, codeOf (ThrowUncatchable cfg64 (sampleIsolate cfg64) r3) false = some code ∧
      ∃ n mJ, (∀ k, run cfg64 sampleEnv code (n + k) code chainMachine [] =
          run cfg64 sampleEnv code k (jumpCode cfg64 (sampleIsolate cfg64)) mJ []) ∧
        loadPtr cfg64 mJ.mem (handlerSlot cfg64 (sampleIsolate cfg64)) = 4000 ∧
        mJ.regP cfg64 sp = 3040 ∧ mJ.regP cfg64 r3 = 22001 ∧ mJ.regP cfg64 r4 = 4 ∧
        mJ.regP cfg64 cp = 0 ∧ mJ.regP cfg64 fp = 0 ∧ mJ.regP cfg64 r2 = 42 :=
  ⟨_, rfl,
    match ThrowUncatchable_selects_entry cfg64 (sampleIsolate cfg64) sampleEnv chainMachine r3
      false _ [1000, 2000] 3000 rfl (by decide) chain_linked (by decide) (by decide) with
    | ⟨_, n, mJ, _, _, h⟩ =>
      ⟨n, mJ, h.2.2.1, h.2.2.2.1.trans (by decide), h.2.2.2.2.1.trans (by decide),
        h.2.2.2.2.2.1.trans (by decide), h.2.2.2.2.2.2.1.trans (by decide),
        h.2.2.2.2.2.2.2.1.trans (by decide), h.2.2.2.2.2.2.2.2.1.trans (by decide),
        h.2.2.2.2.2.2.2.2.2.1.trans (by decide)⟩⟩

theorem LoadF_run (d : DoubleRegister) (mem : MemOperand) (st : Asm) :
    (LoadF d mem).run st = (emit (loadF d mem)).run st := by
  unfold LoadF loadF; split <;> rfl

theorem StoreF_run (d : DoubleRegister) (mem : MemOperand) (st : Asm) :
    (StoreF d mem).run st = (emit (storeF d mem)).run st := by
  unfold StoreF storeF; split <;> rfl

/-- Emitting a list of single instructions. -/
theorem emitAll_map {α : Type} (l : List α) (f : α → Emit Unit) (g : α → Instr)
    (h : ∀ a st, (f a).run st = (emit (g a)).run st) (st : Asm) :
    (emitAll (l.map f)).run st =
      ((), { st with code := st.code ++ l.map g,
                     failed := st.failed || !((l.map g).all Instr.encodable) }) := by
  induction l generalizing st with
  | nil => simp [emitAll]
  | cons a rest ih =>
    simp only [List.map_cons, emitAll, Emit.run_bind_eq, h, run_emit, ih, List.all_cons,
      List.append_assoc, List.singleton_append, Bool.not_and, Bool.or_assoc]

theorem ShiftLeftP_self_run (cfg : Config) (r : Register) (k : Int) (rm : RelocMode) (st : Asm) :
    (ShiftLeftP cfg r r ⟨k, rm⟩).run st = (emit (shlP cfg r k)).run st := by
  unfold ShiftLeftP ShiftLeft shlP
  cases cfg.is64 <;> simp

theorem LeaveExitFrame_code (cfg : Config) (iso : Isolate) (DEBUG save_doubles : Bool)
    (argument_count : Register) (frame : Bool) (code : List Instr)
    (hcode : codeOf (LeaveExitFrame cfg iso DEBUG save_doubles argument_count) frame = some code) :
    code = leaveExitCode cfg iso DEBUG save_doubles argument_count := by
  cases DEBUG <;> cases save_doubles <;> cases hv : argument_count.is_valid
  all_goals simp only [codeOf, LeaveExitFrame, mov_run, LoadP_run_no_reg, pop, LoadRR_run,
      LoadImmP_run, ShiftLeftP_self_run, hv,
      emitAll_map _ _ _ (fun (p : Int × Int) st =>
        LoadF_run (DoubleRegister.from_code p.1) ⟨sp, r0, p.2 * iso.kDoubleSize⟩ st),
      Bool.false_eq_true, if_false, if_true,
      StoreP_run_fits _ _ _ _ _ _ _ is_int20_zero, Operand.ofInt,
      MemOperand.mk1, MemOperand.mk2, Emit.run_bind_eq, Emit.run_pure, run_emit, List.nil_append,
      List.append_assoc, List.cons_append, Bool.false_or] at hcode
  all_goals obtain ⟨rfl, hok⟩ := code_of_ite hcode
  all_goals simp only [leaveExitCode, leaveCore, leaveSlots, leaveFrameCode, restoreDoubles,
      popArgs, popCode, hv,
      Bool.false_eq_true, if_false, if_true,
      List.nil_append, List.append_assoc, List.cons_append, List.append_nil]

theorem ClearRightImm_sp3_run (cfg : Config) (rm : RelocMode) (st : Asm) :
    (ClearRightImm cfg sp sp ⟨3, rm⟩).run st =
      ((), { st with code := st.code ++ alignCode cfg,
                     failed := st.failed || !((alignCode cfg).all Instr.encodable) }) := by
  have h3 : ∀ c : Config, cRem 3 ((kPointerSize c : Int) * 8) = 3 := by
    intro c; unfold kPointerSize; cases c.is64 <;> decide
  unfold ClearRightImm alignCode
  cases hg : cfg.general_instr_ext
  · simp only [h3, Bool.false_eq_true, if_false, ne_eq, not_true, Emit.run_bind_eq, Emit.run_pure,
      run_emit, List.all_cons, List.all_nil, Bool.and_true]
    rfl
  · simp only [h3, if_true, Emit.run_bind_eq, Emit.run_pure, run_emit, List.all_cons,
      List.all_nil, Bool.and_true]
    rfl

theorem EnterExitFrame_code (cfg : Config) (iso : Isolate) (save_doubles : Bool)
    (stack_space : Int) (frame : Bool) (code : List Instr)
    (h1 : is_int20 iso.ExitFrameConstants_kSPOffset = true)
    (h2 : is_int20 iso.ExitFrameConstants_kCodeOffset = true)
    (hcode : codeOf (EnterExitFrame cfg iso save_doubles stack_space) frame = some code) :
    code = enterExitCode cfg iso save_doubles stack_space := by
  cases hdbg : cfg.emit_debug_code <;> cases save_doubles <;>
    by_cases hfa : iso.ActivationFrameAlignment > 0
  all_goals simp only [codeOf, EnterExitFrame, mov_run, CleanseP_run, Push2, LoadRR_run,
      LoadImmP_run, ClearRightImm_sp3_run, hdbg, hfa, run_ASSERT, Operand.Zero,
      emitAll_map _ _ _ (fun (p : Int × Int) st =>
        StoreF_run (DoubleRegister.from_code p.1) ⟨sp, r0, p.2 * iso.kDoubleSize⟩ st),
      Bool.false_eq_true, if_false, if_true,
      StoreP_run_fits _ _ _ _ _ _ _ is_int20_zero, StoreP_run_fits _ _ _ _ _ _ _ h1,
      StoreP_run_fits _ _ _ _ _ _ _ h2, StoreP_run_fits _ _ _ _ _ _ _ (is_int20_word cfg),
      Operand.ofInt, MemOperand.mk1, Emit.run_bind_eq, Emit.run_pure, run_emit, List.nil_append,
      List.append_assoc, List.cons_append, Bool.false_or] at hcode
  all_goals obtain ⟨rfl, hok⟩ := code_of_ite hcode
  all_goals simp only [enterExitCode, enterHead, enterBuild, enterSlots, enterTail, saveDoubles,
      hdbg, hfa,
      Bool.false_eq_true, if_false, if_true,
      List.nil_append, List.append_assoc, List.cons_append, List.append_nil]
theorem effect_shlP (cfg : Config) (m : Machine) (r : Register) (k : Nat) (hk : k < 64) :
    (shlP cfg r (k : Int)).effect cfg m = m.setRegP cfg r (m.regP cfg r * 2 ^ k) := by
  unfold shlP
  cases h : cfg.is64
  · simp only [Bool.false_eq_true, if_false]
    show m.setReg r _ = _
    apply setReg_eq_setRegP_nocc
    rw [unsignedOf_64_nat k hk]
    simp only [h, Bool.false_eq_true, if_false, Machine.regP, ptrMod, lo32]
  · simp only [if_true]
    show m.setReg r _ = _
    apply setReg_eq_setRegP_nocc
    rw [unsignedOf_64_nat k hk]
    simp only [h, if_true, Machine.regP, ptrMod]

theorem isStraight_shlP (cfg : Config) (r : Register) (k : Int) :
    (shlP cfg r k).isStraight = true := by
  unfold shlP; split <;> rfl

theorem isStraight_loadF (d : DoubleRegister) (mem : MemOperand) :
    (loadF d mem).isStraight = true := by
  unfold loadF; split <;> rfl

theorem isStraight_storeF (d : DoubleRegister) (mem : MemOperand) :
    (storeF d mem).isStraight = true := by
  unfold storeF; split <;> rfl

theorem isStraight_alignCode (cfg : Config) : ∀ i ∈ alignCode cfg, i.isStraight = true := by
  unfold alignCode; split <;> simp [Instr.isStraight]

theorem regP_congr (cfg : Config) (m1 m2 : Machine) (x : Register) (h : m1.regs x = m2.regs x) :
    m1.regP cfg x = m2.regP cfg x := by
  unfold Machine.regP; rw [h]

theorem addr_congr (cfg : Config) (m1 m2 : Machine) (x : Register) (h : m1.regs x = m2.regs x) :
    m1.addr cfg x = m2.addr cfg x := by
  unfold Machine.addr; rw [h]

theorem effAddr_congr (cfg : Config) (m1 m2 : Machine) (op : MemOperand)
    (h : m1.regs = m2.regs) : effAddr cfg m1 op = effAddr cfg m2 op := by
  unfold effAddr Machine.base; rw [h]

theorem effAddr_setRegP_ne (cfg : Config) (m : Machine) (r : Register) (v : Nat)
    (b x : Register) (d : Int) (h1 : b ≠ r) (h2 : x ≠ r) :
    effAddr cfg (m.setRegP cfg r v) ⟨b, x, d⟩ = effAddr cfg m ⟨b, x, d⟩ := by
  unfold effAddr Machine.base
  simp only [setRegP_regs_ne cfg m r b v h1, setRegP_regs_ne cfg m r x v h2]

theorem effAddr_store (cfg : Config) (m : Machine) (a n v : Nat) (op : MemOperand) :
    effAddr cfg (m.store cfg a n v) op = effAddr cfg m op := rfl

theorem effAddr_setRegP_self (cfg : Config) (m : Machine) (r : Register) (a : Int)
    (h : r ≠ r0) :
    effAddr cfg (m.setRegP cfg r (unsignedOf (ptrMod cfg) a)) ⟨r, r0, 0⟩ =
      unsignedOf (addrMod cfg) a := by
  rw [effAddr_disp _ _ _ _ h, slot_fold_zero, addr_setRegP_self, unsignedOf_ptr_mod_addr,
    slot_unsignedOf_zero]

/-- Loads of double registers change neither memory nor a general register. -/
theorem runStraight_loadF {α : Type} (cfg : Config) (l : List α) (f : α → DoubleRegister)
    (g : α → MemOperand) (m : Machine) :
    (runStraight cfg (l.map fun p => loadF (f p) (g p)) m).mem = m.mem ∧
      (runStraight cfg (l.map fun p => loadF (f p) (g p)) m).regs = m.regs := by
  induction l generalizing m with
  | nil => exact ⟨rfl, rfl⟩
  | cons a rest ih =>
    rw [List.map_cons, runStraight_cons]
    obtain ⟨i1, i2⟩ := ih ((loadF (f a) (g a)).effect cfg m)
    have e1 : ((loadF (f a) (g a)).effect cfg m).mem = m.mem := by
      unfold loadF; split <;> rfl
    have e2 : ((loadF (f a) (g a)).effect cfg m).regs = m.regs := by
      unfold loadF; split <;> rfl
    exact ⟨i1.trans e1, i2.trans e2⟩

theorem effect_storeF (cfg : Config) (m : Machine) (d : DoubleRegister) (op : MemOperand) :
    (storeF d op).effect cfg m = m.store cfg (effAddr cfg m op) 8 (m.fregs d) := by
  unfold storeF; split <;> rfl

/-- Stores of double registers keep the general registers and every word
that lies apart from the stored doubles. -/
theorem runStraight_storeF {α : Type} (cfg : Config) (l : List α) (f : α → DoubleRegister)
    (g : α → MemOperand) (X : Nat) (m : Machine)
    (h : ∀ p ∈ l, Disjoint cfg X (kPointerSize cfg) (effAddr cfg m (g p)) 8) :
    loadPtr cfg (runStraight cfg (l.map fun p => storeF (f p) (g p)) m).mem X = loadPtr cfg m.mem X ∧
      (runStraight cfg (l.map fun p => storeF (f p) (g p)) m).regs = m.regs := by
  induction l generalizing m with
  | nil => exact ⟨rfl, rfl⟩
  | cons a rest ih =>
    rw [List.map_cons, runStraight_cons, effect_storeF]
    obtain ⟨i1, i2⟩ := ih (m.store cfg (effAddr cfg m (g a)) 8 (m.fregs (f a)))
      (fun p hp => by rw [effAddr_store]; exact h p (List.mem_cons_of_mem _ hp))
    refine ⟨i1.trans ?_, i2⟩
    exact loadPtr_write_of_disjoint cfg _ _ _ _ _ (h a (List.mem_cons_self _ _))

theorem restoreDoubles_facts (cfg : Config) (iso : Isolate) (m : Machine) :
    (runStraight cfg (restoreDoubles cfg iso) m).mem = m.mem ∧
      ∀ x, x ≠ sp → (runStraight cfg (restoreDoubles cfg iso) m).regs x = m.regs x := by
  unfold restoreDoubles
  rw [runStraight_cons]
  obtain ⟨h1, h2⟩ := runStraight_loadF cfg (savedDoubles cfg iso)
    (fun p => DoubleRegister.from_code p.1) (fun p => ⟨sp, r0, p.2 * iso.kDoubleSize⟩)
    ((Instr.lay sp ⟨fp, r0, -(2 * (kPointerSize cfg : Int) +
      iso.kNumVolatileRegisters * iso.kDoubleSize)⟩).effect cfg m)
  rw [h1, h2, effect_lay]
  exact ⟨setRegP_mem _ _ _ _, fun x hx => setRegP_regs_ne cfg m sp x _ hx⟩

theorem regs_store (cfg : Config) (m : Machine) (a n v : Nat) :
    (m.store cfg a n v).regs = m.regs := rfl

/-- The instructions of `LeaveExitFrame` that clear the C-entry slot and
restore the context. -/
theorem leaveSlots_facts (cfg : Config) (iso : Isolate) (DEBUG : Bool) (m : Machine)
    (hd : Disjoint cfg (contextTopSlot cfg iso) (kPointerSize cfg) (cEntryFpSlot cfg iso)
      (kPointerSize cfg)) :
    (runStraight cfg (leaveSlots cfg iso DEBUG) m).mem =
      (if DEBUG then
        writeBytes cfg (writeBytes cfg m.mem (cEntryFpSlot cfg iso) (kPointerSize cfg) 0)
          (contextTopSlot cfg iso) (kPointerSize cfg) 0
      else writeBytes cfg m.mem (cEntryFpSlot cfg iso) (kPointerSize cfg) 0) ∧
    (runStraight cfg (leaveSlots cfg iso DEBUG) m).regP cfg cp =
      loadPtr cfg m.mem (contextTopSlot cfg iso) ∧
    (∀ x, x ≠ r0 → x ≠ ip → x ≠ cp →
      (runStraight cfg (leaveSlots cfg iso DEBUG) m).regs x = m.regs x) := by
  have n1 : r0 ≠ ip := by decide
  have n2 : r0 ≠ cp := by decide
  have n3 : ip ≠ cp := by decide
  have n4 : ip ≠ r0 := by decide
  unfold cEntryFpSlot contextTopSlot at hd ⊢
  unfold leaveSlots
  rw [runStraight_cons, effect_liP, runStraight_movCode, runStraight_cons, effect_stP,
    runStraight_movCode, runStraight_cons, effect_ldP]
  cases DEBUG
  · simp only [Bool.false_eq_true, if_false, runStraight_nil, effAddr_setRegP_self _ _ _ _ n4,
      effAddr_store, regP_store, regP_setRegP_ne _ _ _ _ _ n1, regP_setRegP_self, store_mem,
      setRegP_mem, unsignedOf_toInt16_zero, Nat.zero_mod, loadPtr_mod_ptr,
      loadPtr_write_of_disjoint cfg _ _ _ _ _ hd, true_and]
    intro x h1 h2 h3
    simp only [setRegP_regs_ne _ _ _ _ _ h3, setRegP_regs_ne _ _ _ _ _ h2,
      setRegP_regs_ne _ _ _ _ _ h1, regs_store]
  · simp only [if_true, runStraight_cons, runStraight_nil, effect_stP,
      effAddr_setRegP_self _ _ _ _ n4, effAddr_setRegP_ne _ _ _ _ _ _ _ n3 n2,
      effAddr_store, regP_store, regP_setRegP_ne _ _ _ _ _ n1, regP_setRegP_ne _ _ _ _ _ n2,
      regP_setRegP_self, store_mem,
      setRegP_mem, unsignedOf_toInt16_zero, Nat.zero_mod, loadPtr_mod_ptr,
      loadPtr_write_of_disjoint cfg _ _ _ _ _ hd, true_and]
    intro x h1 h2 h3
    simp only [setRegP_regs_ne _ _ _ _ _ h3, setRegP_regs_ne _ _ _ _ _ h2,
      setRegP_regs_ne _ _ _ _ _ h1, regs_store]

/-- The instructions of `LeaveExitFrame` that tear down the frame. -/
theorem leaveFrame_facts (cfg : Config) (m : Machine) :
    (runStraight cfg (leaveFrameCode cfg) m).regP cfg sp = slot cfg (m.addr cfg fp) 2 ∧
    (runStraight cfg (leaveFrameCode cfg) m).regP cfg fp =
      loadPtr cfg m.mem (slot cfg (m.addr cfg fp) 0) ∧
    (runStraight cfg (leaveFrameCode cfg) m).regP cfg r14 =
      loadPtr cfg m.mem (slot cfg (m.addr cfg fp) 1) ∧
    (runStraight cfg (leaveFrameCode cfg) m).mem = m.mem ∧
    (∀ x, x ≠ sp → x ≠ fp → x ≠ r14 →
      (runStraight cfg (leaveFrameCode cfg) m).regs x = m.regs x) := by
  unfold leaveFrameCode popCode
  refine ⟨?_, ?_, ?_, ?_, ?_⟩
  any_goals
    simp +decide only [List.cons_append, List.nil_append, runStraight_cons, runStraight_nil,
      effect_ldP, effect_lrP, effect_la,
      effAddr_disp _ _ _ _ sp_ne_r0, regP_mod_addr,
      addr_store, addr_setRegP_self, addr_setRegP_ne, regP_store, regP_setRegP_self,
      regP_setRegP_ne,
      slot_fold, slot_fold_neg, slot_fold_zero, slot_fold_one, slot_mod_self, slot_slot,
      slot_slot_zero, Int.reduceAdd,
      unsignedOf_ptr_mod_addr, store_mem, setRegP_mem,
      slot_unsignedOf_zero, loadPtr_mod_ptr,
      slot_mod_ptr, regP_mod_ptr, unsignedOf_mod_self,
      true_and, and_true, reduceCtorEq, if_true, if_false]
  intro x h1 h2 h3
  simp only [List.cons_append, List.nil_append, runStraight_cons, runStraight_nil,
    effect_ldP, effect_lrP, effect_la, setRegP_regs_ne _ _ _ _ _ h3,
    setRegP_regs_ne _ _ _ _ _ h2, setRegP_regs_ne _ _ _ _ _ h1]

/-- The instructions of `LeaveExitFrame` that pop the arguments. -/
theorem popArgs_facts (cfg : Config) (argc : Register) (m : Machine) (h0 : argc ≠ r0)
    (hs : argc ≠ sp) :
    (runStraight cfg (popArgs cfg argc) m).addr cfg sp =
      (m.regP cfg argc * kPointerSize cfg % addrMod cfg + m.addr cfg sp) % addrMod cfg ∧
    (runStraight cfg (popArgs cfg argc) m).mem = m.mem ∧
    (∀ x, x ≠ sp → x ≠ argc → (runStraight cfg (popArgs cfg argc) m).regs x = m.regs x) := by
  unfold popArgs
  rw [runStraight_cons, runStraight_cons, runStraight_nil,
    effect_shlP _ _ _ _ (kPointerSizeLog2_lt cfg), effect_la,
    effAddr_indexed _ _ _ _ h0 sp_ne_r0]
  refine ⟨?_, ?_, ?_⟩
  · rw [addr_setRegP_self, Nat.mod_mod, addr_setRegP_self,
      addr_setRegP_ne _ _ _ _ _ (Ne.symm hs), two_pow_log2]
  · rw [setRegP_mem, setRegP_mem]
  · intro x h1 h2
    rw [setRegP_regs_ne _ _ _ _ _ h1, setRegP_regs_ne _ _ _ _ _ h2]

theorem straight_append {a b : List Instr} (h1 : ∀ i ∈ a, i.isStraight = true)
    (h2 : ∀ i ∈ b, i.isStraight = true) : ∀ i ∈ a ++ b, i.isStraight = true := by
  intro i hi
  rcases List.mem_append.mp hi with h | h
  · exact h1 i h
  · exact h2 i h

theorem straight_cons {x : Instr} {b : List Instr} (h1 : x.isStraight = true)
    (h2 : ∀ i ∈ b, i.isStraight = true) : ∀ i ∈ x :: b, i.isStraight = true := by
  intro i hi
  rcases List.mem_cons.mp hi with h | h
  · rw [h]; exact h1
  · exact h2 i h

theorem straight_nil : ∀ i ∈ ([] : List Instr), i.isStraight = true := by
  intro i hi; cases hi

theorem straight_ite {c : Prop} [Decidable c] {a b : List Instr}
    (h1 : ∀ i ∈ a, i.isStraight = true) (h2 : ∀ i ∈ b, i.isStraight = true) :
    ∀ i ∈ (if c then a else b), i.isStraight = true := by
  split
  · exact h1
  · exact h2

theorem straight_map {α : Type} (l : List α) (f : α → Instr) (h : ∀ p, (f p).isStraight = true) :
    ∀ i ∈ l.map f, i.isStraight = true := by
  intro i hi
  obtain ⟨p, _, rfl⟩ := List.mem_map.mp hi
  exact h p

theorem isStraight_leaveExitCode (cfg : Config) (iso : Isolate) (DEBUG sd : Bool)
    (argc : Register) : ∀ i ∈ leaveExitCode cfg iso DEBUG sd argc, i.isStraight = true := by
  unfold leaveExitCode leaveCore leaveSlots leaveFrameCode popCode popArgs restoreDoubles
  refine straight_append (straight_ite (straight_cons rfl (straight_map _ _
    (fun p => isStraight_loadF _ _))) straight_nil) (straight_append ?_ (straight_append ?_ ?_))
  · exact straight_cons (isStraight_liP _ _ _) (straight_append (isStraight_movCode _ _ _)
      (straight_cons (isStraight_stP _ _ _) (straight_append (isStraight_movCode _ _ _)
        (straight_cons (isStraight_ldP _ _ _)
          (straight_ite (straight_cons (isStraight_stP _ _ _) straight_nil) straight_nil)))))
  · exact straight_cons (isStraight_lrP _ _ _) (straight_append
      (straight_cons (isStraight_ldP _ _ _) (straight_cons rfl straight_nil))
      (straight_cons (isStraight_ldP _ _ _) (straight_cons rfl straight_nil)))
  · exact straight_ite (straight_cons (isStraight_shlP _ _ _) (straight_cons rfl straight_nil))
      straight_nil

theorem isStraight_enterExitCode (cfg : Config) (iso : Isolate) (sd : Bool) (ss : Int) :
    ∀ i ∈ enterExitCode cfg iso sd ss, i.isStraight = true := by
  unfold enterExitCode enterHead enterBuild enterSlots enterTail saveDoubles
  refine straight_append (straight_append ?_ ?_) (straight_append ?_ (straight_cons rfl
    (straight_append (straight_ite (isStraight_alignCode cfg) straight_nil)
      (straight_cons rfl (straight_cons (isStraight_stP _ _ _) straight_nil)))))
  · exact straight_append (isStraight_cleanseCode _ _) (straight_cons rfl
      (straight_cons (isStraight_stP _ _ _) (straight_cons (isStraight_stP _ _ _)
        (straight_cons (isStraight_lrP _ _ _) (straight_cons rfl
          (straight_append (straight_ite (straight_cons (isStraight_liP _ _ _)
            (straight_cons (isStraight_stP _ _ _) straight_nil)) straight_nil)
            (straight_append (isStraight_movCode _ _ _)
              (straight_cons (isStraight_stP _ _ _) straight_nil))))))))
  · exact straight_append (isStraight_movCode _ _ _) (straight_cons (isStraight_stP _ _ _)
      (straight_append (isStraight_movCode _ _ _)
        (straight_cons (isStraight_stP _ _ _) straight_nil)))
  · exact straight_ite (straight_cons rfl (straight_map _ _ (fun p => isStraight_storeF _ _)))
      straight_nil

/-- What the code of `LeaveExitFrame` leaves: the C-entry slot is zero, the
context slot is zero in a debug build and untouched otherwise, `cp` holds the
word of the context slot, `fp` and `r14` the two words at the frame pointer,
and `sp` addresses the word above them, advanced by the argument count. -/
theorem LeaveExitFrame_facts (cfg : Config) (iso : Isolate) (DEBUG sd : Bool) (argc : Register)
    (m : Machine) (h0 : argc ≠ r0) (hsp : argc ≠ sp) (hfp : argc ≠ fp) (h14 : argc ≠ r14)
    (hcp : argc ≠ cp) (hip : argc ≠ ip)
    (hd : Disjoint cfg (contextTopSlot cfg iso) (kPointerSize cfg) (cEntryFpSlot cfg iso)
      (kPointerSize cfg))
    (hf0 : Disjoint cfg (slot cfg (m.addr cfg fp) 0) (kPointerSize cfg) (cEntryFpSlot cfg iso)
      (kPointerSize cfg))
    (hf1 : Disjoint cfg (slot cfg (m.addr cfg fp) 1) (kPointerSize cfg) (cEntryFpSlot cfg iso)
      (kPointerSize cfg))
    (hc0 : DEBUG = true → Disjoint cfg (slot cfg (m.addr cfg fp) 0) (kPointerSize cfg)
      (contextTopSlot cfg iso) (kPointerSize cfg))
    (hc1 : DEBUG = true → Disjoint cfg (slot cfg (m.addr cfg fp) 1) (kPointerSize cfg)
      (contextTopSlot cfg iso) (kPointerSize cfg)) :
    loadPtr cfg (leaveExitRun cfg iso DEBUG sd argc m).mem (cEntryFpSlot cfg iso) = 0 ∧
    loadPtr cfg (leaveExitRun cfg iso DEBUG sd argc m).mem (contextTopSlot cfg iso) =
      (if DEBUG then 0 else loadPtr cfg m.mem (contextTopSlot cfg iso)) ∧
    (leaveExitRun cfg iso DEBUG sd argc m).regP cfg cp =
      loadPtr cfg m.mem (contextTopSlot cfg iso) ∧
    (leaveExitRun cfg iso DEBUG sd argc m).regP cfg fp =
      loadPtr cfg m.mem (slot cfg (m.addr cfg fp) 0) ∧
    (leaveExitRun cfg iso DEBUG sd argc m).regP cfg r14 =
      loadPtr cfg m.mem (slot cfg (m.addr cfg fp) 1) ∧
    (leaveExitRun cfg iso DEBUG sd argc m).addr cfg sp =
      (if argc.is_valid then
        (m.regP cfg argc * kPointerSize cfg % addrMod cfg + slot cfg (m.addr cfg fp) 2) %
          addrMod cfg
      else slot cfg (m.addr cfg fp) 2) := by
  unfold leaveExitRun leaveExitCode leaveCore
  simp only [runStraight_append]
  have hm0 : (runStraight cfg (if sd = true then restoreDoubles cfg iso else []) m).mem = m.mem ∧
      ∀ x, x ≠ sp →
        (runStraight cfg (if sd = true then restoreDoubles cfg iso else []) m).regs x =
          m.regs x := by
    cases sd
    · exact ⟨rfl, fun _ _ => rfl⟩
    · exact restoreDoubles_facts cfg iso m
  generalize runStraight cfg (if sd = true then restoreDoubles cfg iso else []) m = m0 at hm0 ⊢
  obtain ⟨d1, d2⟩ := hm0
  have hA := leaveSlots_facts cfg iso DEBUG m0 hd
  generalize runStraight cfg (leaveSlots cfg iso DEBUG) m0 = m1 at hA ⊢
  obtain ⟨a1, a2, a3⟩ := hA
  have hB := leaveFrame_facts cfg m1
  generalize runStraight cfg (leaveFrameCode cfg) m1 = m2 at hB ⊢
  obtain ⟨b1, b2, b3, b4, b5⟩ := hB
  have hC : (runStraight cfg (if argc.is_valid = true then popArgs cfg argc else []) m2).mem =
        m2.mem ∧
      (∀ x, x ≠ sp → x ≠ argc →
        (runStraight cfg (if argc.is_valid = true then popArgs cfg argc else []) m2).regs x =
          m2.regs x) ∧
      (runStraight cfg (if argc.is_valid = true then popArgs cfg argc else []) m2).addr cfg sp =
        (if argc.is_valid then
          (m2.regP cfg argc * kPointerSize cfg % addrMod cfg + m2.addr cfg sp) % addrMod cfg
        else m2.addr cfg sp) := by
    cases hv : argc.is_valid
    · exact ⟨rfl, fun _ _ _ => rfl, rfl⟩
    · obtain ⟨p1, p2, p3⟩ := popArgs_facts cfg argc m2 h0 hsp
      exact ⟨p2, p3, p1⟩
  generalize runStraight cfg (if argc.is_valid = true then popArgs cfg argc else []) m2 = m3
    at hC ⊢
  obtain ⟨c1, c2, c3⟩ := hC
  have eF : m1.addr cfg fp = m.addr cfg fp :=
    (addr_congr cfg _ _ fp (a3 fp (by decide) (by decide) (by decide))).trans
      (addr_congr cfg _ _ fp (d2 fp (by decide)))
  have eA : m2.regP cfg argc = m.regP cfg argc :=
    (regP_congr cfg _ _ argc (b5 argc hsp hfp h14)).trans
      ((regP_congr cfg _ _ argc (a3 argc h0 hip hcp)).trans
        (regP_congr cfg _ _ argc (d2 argc hsp)))
  have eS : m2.addr cfg sp = slot cfg (m.addr cfg fp) 2 := by
    rw [addr_eq_regP_mod, b1, slot_mod_self, eF]
  have r0' : loadPtr cfg m1.mem (slot cfg (m.addr cfg fp) 0) =
      loadPtr cfg m.mem (slot cfg (m.addr cfg fp) 0) := by
    rw [a1]
    cases DEBUG
    · rw [if_neg (by decide), loadPtr_write_of_disjoint cfg _ _ _ _ _ hf0, d1]
    · rw [if_pos rfl, loadPtr_write_of_disjoint cfg _ _ _ _ _ (hc0 rfl),
        loadPtr_write_of_disjoint cfg _ _ _ _ _ hf0, d1]
  have r1' : loadPtr cfg m1.mem (slot cfg (m.addr cfg fp) 1) =
      loadPtr cfg m.mem (slot cfg (m.addr cfg fp) 1) := by
    rw [a1]
    cases DEBUG
    · rw [if_neg (by decide), loadPtr_write_of_disjoint cfg _ _ _ _ _ hf1, d1]
    · rw [if_pos rfl, loadPtr_write_of_disjoint cfg _ _ _ _ _ (hc1 rfl),
        loadPtr_write_of_disjoint cfg _ _ _ _ _ hf1, d1]
  refine ⟨?_, ?_, ?_, ?_, ?_, ?_⟩
  · rw [c1, b4, a1]
    cases DEBUG
    · rw [if_neg (by decide), loadPtr_write_same, Nat.zero_mod]
    · rw [if_pos rfl, loadPtr_write_of_disjoint cfg _ _ _ _ _ hd.symm, loadPtr_write_same,
        Nat.zero_mod]
  · rw [c1, b4, a1]
    cases DEBUG
    · rw [if_neg (by decide), if_neg (by decide), loadPtr_write_of_disjoint cfg _ _ _ _ _ hd, d1]
    · rw [if_pos rfl, if_pos rfl, loadPtr_write_same, Nat.zero_mod]
  · rw [regP_congr cfg _ _ cp (c2 cp (by decide) (Ne.symm hcp)),
      regP_congr cfg _ _ cp (b5 cp (by decide) (by decide) (by decide)), a2, d1]
  · rw [regP_congr cfg _ _ fp (c2 fp (by decide) (Ne.symm hfp)), b2, eF, r0']
  · rw [regP_congr cfg _ _ r14 (c2 r14 (by decide) (Ne.symm h14)), b3, eF, r1']
  · rw [c3, eA, eS]
theorem slot_fold_neg_two (cfg : Config) (a : Nat) :
    unsignedOf (addrMod cfg) ((a : Int) + -(kPointerSize cfg : Int) * 2) = slot cfg a (-2) := by
  unfold slot; congr 1; ring

/-- The instructions of `EnterExitFrame` that build the frame leave `fp` two
words and `sp` four words below the stack pointer on entry, and keep `cp`. -/
theorem enterBuild_facts (cfg : Config) (iso : Isolate) (m : Machine) :
    (runStraight cfg (enterBuild cfg iso) m).regP cfg fp = slot cfg (m.addr cfg sp) (-2) ∧
    (runStraight cfg (enterBuild cfg iso) m).regP cfg cp = m.regP cfg cp ∧
    (runStraight cfg (enterBuild cfg iso) m).addr cfg sp = slot cfg (m.addr cfg sp) (-4) := by
  unfold enterBuild
  cases hdbg : cfg.emit_debug_code
  all_goals
    simp +decide only [Bool.false_eq_true, List.cons_append, List.nil_append,
      runStraight_movCode, runStraight_cleanse, runStraight_cons, runStraight_nil,
      effect_stP, effect_lay, effect_la, effect_lrP, effect_liP,
      effAddr_disp _ _ _ _ sp_ne_r0,
      cleanseM_mem, cleanseM_addr, cleanseM_regP_ne, cleanseM_regP_self, cleansed_mod_ptr,
      addr_store, addr_setRegP_self, addr_setRegP_ne, regP_store, regP_setRegP_self,
      regP_setRegP_ne, regP_mod_addr,
      slot_fold, slot_fold_neg, slot_fold_neg_two, slot_fold_zero, slot_fold_one, slot_mod_self,
      slot_slot, Int.reduceAdd, Int.reduceNeg,
      unsignedOf_ptr_mod_addr, store_mem, setRegP_mem,
      slot_unsignedOf_zero,
      slot_mod_ptr, regP_mod_ptr, unsignedOf_mod_self,
      true_and, and_true, reduceCtorEq, if_true, if_false]

/-- The instructions of `EnterExitFrame` that fill the two process-wide
slots store `fp` and `cp` there. -/
theorem enterSlots_facts (cfg : Config) (iso : Isolate) (m : Machine)
    (hd : Disjoint cfg (cEntryFpSlot cfg iso) (kPointerSize cfg) (contextTopSlot cfg iso)
      (kPointerSize cfg)) :
    loadPtr cfg (runStraight cfg (enterSlots cfg iso) m).mem (cEntryFpSlot cfg iso) =
      m.regP cfg fp ∧
    loadPtr cfg (runStraight cfg (enterSlots cfg iso) m).mem (contextTopSlot cfg iso) =
      m.regP cfg cp ∧
    (∀ x, x ≠ r1 → (runStraight cfg (enterSlots cfg iso) m).regs x = m.regs x) := by
  have n1 : r1 ≠ r0 := by decide
  have n2 : fp ≠ r1 := by decide
  have n3 : cp ≠ r1 := by decide
  unfold cEntryFpSlot contextTopSlot at hd ⊢
  unfold enterSlots
  rw [runStraight_movCode, runStraight_cons, effect_stP, runStraight_movCode, runStraight_cons,
    effect_stP, runStraight_nil]
  simp only [effAddr_setRegP_self _ _ _ _ n1, effAddr_store, regP_store,
    regP_setRegP_ne _ _ _ _ _ n2, regP_setRegP_ne _ _ _ _ _ n3, store_mem, setRegP_mem,
    loadPtr_write_of_disjoint cfg _ _ _ _ _ hd, loadPtr_write_same, regP_mod_ptr, true_and]
  intro x h1
  simp only [setRegP_regs_ne _ _ _ _ _ h1, regs_store]

theorem alignCode_facts (cfg : Config) (m : Machine) :
    (runStraight cfg (alignCode cfg) m).mem = m.mem ∧
      ∀ x, x ≠ sp → (runStraight cfg (alignCode cfg) m).regs x = m.regs x := by
  unfold alignCode
  split
  · exact ⟨rfl, fun x hx => setReg_regs_ne _ _ _ _ hx⟩
  · exact ⟨rfl, fun x hx => setReg_regs_ne _ _ _ _ hx⟩

theorem doubleSlot_eq (cfg : Config) (iso : Isolate) (m : Machine) (k : Int) :
    effAddr cfg (m.setRegP cfg sp (effAddr cfg m
        ⟨sp, r0, -iso.kNumVolatileRegisters * iso.kDoubleSize⟩)) ⟨sp, r0, k * iso.kDoubleSize⟩ =
      doubleSlot cfg iso (m.addr cfg sp) k := by
  rw [effAddr_disp _ _ _ _ sp_ne_r0, addr_setRegP_self, effAddr_disp _ _ _ _ sp_ne_r0,
    Nat.mod_eq_of_lt (unsignedOf_lt _ _ (addrMod_pos cfg))]
  rfl

/-- The instructions of `EnterExitFrame` after the two process-wide slots are
written keep `fp` and every word that lies apart from the saved doubles and
from the frame slot of the stack pointer. -/
theorem enterTail_facts (cfg : Config) (iso : Isolate) (sd : Bool) (ss : Int) (m : Machine)
    (X : Nat)
    (hs : Disjoint cfg X (kPointerSize cfg) (exitSpSlot cfg iso (m.addr cfg fp))
      (kPointerSize cfg))
    (hdbl : sd = true → ∀ p ∈ savedDoubles cfg iso,
      Disjoint cfg X (kPointerSize cfg) (doubleSlot cfg iso (m.addr cfg sp) p.2) 8) :
    loadPtr cfg (runStraight cfg (enterTail cfg iso sd ss) m).mem X = loadPtr cfg m.mem X ∧
      (runStraight cfg (enterTail cfg iso sd ss) m).regs fp = m.regs fp := by
  unfold enterTail
  simp only [runStraight_append, runStraight_cons, runStraight_nil, effect_lay, effect_stP]
  have h0 : loadPtr cfg (runStraight cfg (if sd = true then saveDoubles cfg iso else []) m).mem X =
        loadPtr cfg m.mem X ∧
      (runStraight cfg (if sd = true then saveDoubles cfg iso else []) m).regs fp =
        m.regs fp := by
    cases sd
    · exact ⟨rfl, rfl⟩
    · rw [if_pos rfl]
      unfold saveDoubles
      rw [runStraight_cons, effect_lay]
      obtain ⟨i1, i2⟩ := runStraight_storeF cfg (savedDoubles cfg iso)
        (fun p => DoubleRegister.from_code p.1) (fun p => ⟨sp, r0, p.2 * iso.kDoubleSize⟩) X
        (m.setRegP cfg sp (effAddr cfg m ⟨sp, r0, -iso.kNumVolatileRegisters * iso.kDoubleSize⟩))
        (fun p hp => by rw [doubleSlot_eq]; exact hdbl rfl p hp)
      refine ⟨i1.trans (by rw [setRegP_mem]), ?_⟩
      rw [i2]
      exact setRegP_regs_ne _ _ _ _ _ (by decide)
  generalize runStraight cfg (if sd = true then saveDoubles cfg iso else []) m = m0 at h0 ⊢
  obtain ⟨a1, a2⟩ := h0
  have h1 := alignCode_facts cfg (m0.setRegP cfg sp (effAddr cfg m0
    ⟨sp, r0, -(ss + iso.kNumRequiredStackFrameSlots) * (kPointerSize cfg : Int)⟩))
  have h2 : (runStraight cfg (if iso.ActivationFrameAlignment > 0 then alignCode cfg else [])
        (m0.setRegP cfg sp (effAddr cfg m0
          ⟨sp, r0, -(ss + iso.kNumRequiredStackFrameSlots) * (kPointerSize cfg : Int)⟩))).mem =
        m0.mem ∧
      (runStraight cfg (if iso.ActivationFrameAlignment > 0 then alignCode cfg else [])
        (m0.setRegP cfg sp (effAddr cfg m0
          ⟨sp, r0, -(ss + iso.kNumRequiredStackFrameSlots) * (kPointerSize cfg : Int)⟩))).regs fp =
        m0.regs fp := by
    split
    · exact ⟨h1.1.trans (setRegP_mem _ _ _ _),
        (h1.2 fp (by decide)).trans (setRegP_regs_ne _ _ _ _ _ (by decide))⟩
    · exact ⟨setRegP_mem _ _ _ _, setRegP_regs_ne _ _ _ _ _ (by decide)⟩
  generalize runStraight cfg (if iso.ActivationFrameAlignment > 0 then alignCode cfg else [])
    (m0.setRegP cfg sp (effAddr cfg m0
      ⟨sp, r0, -(ss + iso.kNumRequiredStackFrameSlots) * (kPointerSize cfg : Int)⟩)) = m1
    at h2 ⊢
  obtain ⟨b1, b2⟩ := h2
  have e1 : effAddr cfg (m1.setRegP cfg r1 (effAddr cfg m1
        ⟨sp, r0, iso.kStackFrameSPSlot * (kPointerSize cfg : Int)⟩))
        ⟨fp, r0, iso.ExitFrameConstants_kSPOffset⟩ =
      exitSpSlot cfg iso (m.addr cfg fp) := by
    rw [effAddr_disp _ _ _ _ (by decide), addr_setRegP_ne _ _ _ _ _ (by decide),
      addr_congr cfg m1 m fp (b2.trans a2)]
    rfl
  refine ⟨?_, ?_⟩
  · rw [store_mem, setRegP_mem, e1, loadPtr_write_of_disjoint cfg _ _ _ _ _ hs, b1, a1]
  · show (Machine.setRegP cfg m1 r1 _).regs fp = _
    rw [setRegP_regs_ne _ _ _ _ _ (by decide), b2, a2]

/-- What the code of `EnterExitFrame` leaves: `fp` lies two words below the
stack pointer on entry, the C-entry slot holds it and the context slot holds
`cp`. -/
theorem EnterExitFrame_facts (cfg : Config) (iso : Isolate) (sd : Bool) (ss : Int) (m : Machine)
    (hd : Disjoint cfg (cEntryFpSlot cfg iso) (kPointerSize cfg) (contextTopSlot cfg iso)
      (kPointerSize cfg))
    (hs1 : Disjoint cfg (cEntryFpSlot cfg iso) (kPointerSize cfg)
      (exitSpSlot cfg iso (slot cfg (m.addr cfg sp) (-2))) (kPointerSize cfg))
    (hs2 : Disjoint cfg (contextTopSlot cfg iso) (kPointerSize cfg)
      (exitSpSlot cfg iso (slot cfg (m.addr cfg sp) (-2))) (kPointerSize cfg))
    (hdbl : sd = true → ∀ p ∈ savedDoubles cfg iso,
      Disjoint cfg (cEntryFpSlot cfg iso) (kPointerSize cfg)
        (doubleSlot cfg iso (slot cfg (m.addr cfg sp) (-4)) p.2) 8 ∧
      Disjoint cfg (contextTopSlot cfg iso) (kPointerSize cfg)
        (doubleSlot cfg iso (slot cfg (m.addr cfg sp) (-4)) p.2) 8) :
    (enterExitRun cfg iso sd ss m).regP cfg fp = slot cfg (m.addr cfg sp) (-2) ∧
    loadPtr cfg (enterExitRun cfg iso sd ss m).mem (cEntryFpSlot cfg iso) =
      slot cfg (m.addr cfg sp) (-2) ∧
    loadPtr cfg (enterExitRun cfg iso sd ss m).mem (contextTopSlot cfg iso) = m.regP cfg cp := by
  unfold enterExitRun enterExitCode enterHead
  simp only [runStraight_append]
  obtain ⟨a1, a2, a3⟩ := enterBuild_facts cfg iso m
  generalize runStraight cfg (enterBuild cfg iso) m = m1 at a1 a2 a3 ⊢
  obtain ⟨b1, b2, b3⟩ := enterSlots_facts cfg iso m1 hd
  generalize runStraight cfg (enterSlots cfg iso) m1 = m2 at b1 b2 b3 ⊢
  have eF : m2.addr cfg fp = slot cfg (m.addr cfg sp) (-2) := by
    rw [addr_congr cfg m2 m1 fp (b3 fp (by decide)), addr_eq_regP_mod, a1, slot_mod_self]
  have eS : m2.addr cfg sp = slot cfg (m.addr cfg sp) (-4) := by
    rw [addr_congr cfg m2 m1 sp (b3 sp (by decide)), a3]
  obtain ⟨c1, c2⟩ := enterTail_facts cfg iso sd ss m2 (cEntryFpSlot cfg iso)
    (by rw [eF]; exact hs1) (fun h p hp => by rw [eS]; exact (hdbl h p hp).1)
  obtain ⟨c3, _⟩ := enterTail_facts cfg iso sd ss m2 (contextTopSlot cfg iso)
    (by rw [eF]; exact hs2) (fun h p hp => by rw [eS]; exact (hdbl h p hp).2)
  refine ⟨?_, ?_, ?_⟩
  · rw [regP_congr cfg _ m2 fp c2, regP_congr cfg m2 m1 fp (b3 fp (by decide)), a1]
  · rw [c1, b1, a1]
  · rw [c3, b2, a2]
/-- C20 (amended): the code of `EnterExitFrame` runs to its end and leaves the
new frame pointer, two words below the stack pointer on entry, in the
process-wide C-entry-frame-pointer slot and `cp` in the process-wide context
slot. The code of `LeaveExitFrame` runs to its end and leaves zero in the
C-entry-frame-pointer slot; the context slot is cleared in a debug build only
and keeps the context otherwise; `cp` holds the word that was in the context
slot, `fp` and `r14` hold the two words at the frame pointer, and `sp`
addresses the word above them, advanced by `argument_count` words when the
register is valid; that address is the stack pointer from before the frame was
built when `fp` is the frame pointer that `EnterExitFrame` set. The slots are
taken apart from each other and from the words of the frame. -/
theorem ExitFrame_slots (cfg : Config) (iso : Isolate) (env : Env) (m m2 : Machine)
    (DEBUG sd : Bool) (ss : Int) (argc : Register) (frame : Bool) (c1 c2 : List Instr)
    (hk1 : is_int20 iso.ExitFrameConstants_kSPOffset = true)
    (hk2 : is_int20 iso.ExitFrameConstants_kCodeOffset = true)
    (h1 : codeOf (EnterExitFrame cfg iso sd ss) frame = some c1)
    (h2 : codeOf (LeaveExitFrame cfg iso DEBUG sd argc) frame = some c2)
    (ha : argc ≠ r0 ∧ argc ≠ sp ∧ argc ≠ fp ∧ argc ≠ r14 ∧ argc ≠ cp ∧ argc ≠ ip)
    (hd : Disjoint cfg (cEntryFpSlot cfg iso) (kPointerSize cfg) (contextTopSlot cfg iso)
      (kPointerSize cfg))
    (hs1 : Disjoint cfg (cEntryFpSlot cfg iso) (kPointerSize cfg)
      (exitSpSlot cfg iso (slot cfg (m.addr cfg sp) (-2))) (kPointerSize cfg))
    (hs2 : Disjoint cfg (contextTopSlot cfg iso) (kPointerSize cfg)
      (exitSpSlot cfg iso (slot cfg (m.addr cfg sp) (-2))) (kPointerSize cfg))
    (hdbl : sd = true → ∀ p ∈ savedDoubles cfg iso,
      Disjoint cfg (cEntryFpSlot cfg iso) (kPointerSize cfg)
        (doubleSlot cfg iso (slot cfg (m.addr cfg sp) (-4)) p.2) 8 ∧
      Disjoint cfg (contextTopSlot cfg iso) (kPointerSize cfg)
        (doubleSlot cfg iso (slot cfg (m.addr cfg sp) (-4)) p.2) 8)
    (hf0 : Disjoint cfg (slot cfg (m2.addr cfg fp) 0) (kPointerSize cfg) (cEntryFpSlot cfg iso)
      (kPointerSize cfg))
    (hf1 : Disjoint cfg (slot cfg (m2.addr cfg fp) 1) (kPointerSize cfg) (cEntryFpSlot cfg iso)
      (kPointerSize cfg))
    (hc0 : DEBUG = true → Disjoint cfg (slot cfg (m2.addr cfg fp) 0) (kPointerSize cfg)
      (contextTopSlot cfg iso) (kPointerSize cfg))
    (hc1 : DEBUG = true → Disjoint cfg (slot cfg (m2.addr cfg fp) 1) (kPointerSize cfg)
      (contextTopSlot cfg iso) (kPointerSize cfg)) :
    (∃ f1, exec cfg env c1 (c1.length + 1) m = some f1 ∧ f1.outcome = .fallthrough ∧
      f1.machine.regP cfg fp = slot cfg (m.addr cfg sp) (-2) ∧
      loadPtr cfg f1.machine.mem (cEntryFpSlot cfg iso) = f1.machine.regP cfg fp ∧
      loadPtr cfg f1.machine.mem (contextTopSlot cfg iso) = m.regP cfg cp) ∧
    (∃ f2, exec cfg env c2 (c2.length + 1) m2 = some f2 ∧ f2.outcome = .fallthrough ∧
      loadPtr cfg f2.machine.mem (cEntryFpSlot cfg iso) = 0 ∧
      loadPtr cfg f2.machine.mem (contextTopSlot cfg iso) =
        (if DEBUG then 0 else loadPtr cfg m2.mem (contextTopSlot cfg iso)) ∧
      f2.machine.regP cfg cp = loadPtr cfg m2.mem (contextTopSlot cfg iso) ∧
      f2.machine.regP cfg fp = loadPtr cfg m2.mem (slot cfg (m2.addr cfg fp) 0) ∧
      f2.machine.regP cfg r14 = loadPtr cfg m2.mem (slot cfg (m2.addr cfg fp) 1) ∧
      f2.machine.addr cfg sp =
        (if argc.is_valid then
          (m2.regP cfg argc * kPointerSize cfg % addrMod cfg + slot cfg (m2.addr cfg fp) 2) %
            addrMod cfg
        else slot cfg (m2.addr cfg fp) 2)) ∧
    (m2.addr cfg fp = slot cfg (m.addr cfg sp) (-2) →
      slot cfg (m2.addr cfg fp) 2 = m.addr cfg sp) := by
  have e1 := EnterExitFrame_code cfg iso sd ss frame c1 hk1 hk2 h1
  have e2 := LeaveExitFrame_code cfg iso DEBUG sd argc frame c2 h2
  subst e1 e2
  obtain ⟨a1, a2, a3⟩ := EnterExitFrame_facts cfg iso sd ss m hd hs1 hs2 hdbl
  obtain ⟨b1, b2, b3, b4, b5, b6⟩ := LeaveExitFrame_facts cfg iso DEBUG sd argc m2 ha.1 ha.2.1
    ha.2.2.1 ha.2.2.2.1 ha.2.2.2.2.1 ha.2.2.2.2.2 hd.symm hf0 hf1 hc0 hc1
  refine ⟨⟨_, exec_of_straight cfg env _ (isStraight_enterExitCode cfg iso sd ss) m, rfl, a1,
    a2.trans a1.symm, a3⟩,
    ⟨_, exec_of_straight cfg env _ (isStraight_leaveExitCode cfg iso DEBUG sd argc) m2, rfl,
      b1, b2, b3, b4, b5, b6⟩, fun h => ?_⟩
  rw [h, slot_slot]
  show slot cfg _ 0 = _
  rw [slot_zero, Nat.mod_eq_of_lt (addr_lt cfg m sp)]

/-- In a build without `DEBUG` the code of `LeaveExitFrame` leaves the context
in the process-wide context slot: on a 64-bit machine whose context slot holds
7, the slot holds 7 afterwards (and `cp` holds 7), while the C-entry slot is
cleared. -/
theorem LeaveExitFrame_release_keeps_context :
    ∃ code f,
      codeOf (LeaveExitFrame cfg64 (sampleIsolate cfg64) false false no_reg) false = some code ∧
      exec cfg64 sampleEnv code (code.length + 1) exitMachine = some f ∧
      loadPtr cfg64 exitMachine.mem (contextTopSlot cfg64 (sampleIsolate cfg64)) = 7 ∧
      loadPtr cfg64 f.machine.mem (contextTopSlot cfg64 (sampleIsolate cfg64)) = 7 ∧
      f.machine.regP cfg64 cp = 7 ∧
      loadPtr cfg64 f.machine.mem (cEntryFpSlot cfg64 (sampleIsolate cfg64)) = 0 :=
  have hv : loadPtr cfg64 exitMachine.mem (contextTopSlot cfg64 (sampleIsolate cfg64)) = 7 := by
    decide
  match LeaveExitFrame_facts cfg64 (sampleIsolate cfg64) false false no_reg exitMachine
    (by decide) (by decide) (by decide) (by decide) (by decide) (by decide) (by decide)
    (by decide) (by decide) (fun h => absurd h (by decide)) (fun h => absurd h (by decide)) with
  | ⟨b1, b2, b3, _⟩ =>
    ⟨leaveExitCode cfg64 (sampleIsolate cfg64) false false no_reg, _, rfl,
      exec_of_straight cfg64 sampleEnv _
        (isStraight_leaveExitCode cfg64 (sampleIsolate cfg64) false false no_reg) exitMachine,
      hv, b2.trans hv, b3.trans hv, b1⟩

theorem ExitFrame_slots_witness :
    ∃ c1 c2,
      codeOf (EnterExitFrame cfg64 (sampleIsolate cfg64) false 1) true = some c1 ∧
      codeOf (LeaveExitFrame cfg64 (sampleIsolate cfg64) true false r6) true = some c2 ∧
      (∃ f1, exec cfg64 sampleEnv c1 (c1.length + 1) (stackMachine 65536 7 9) = some f1 ∧
        f1.machine.regP cfg64 fp = 65520 ∧
        loadPtr cfg64 f1.machine.mem (cEntryFpSlot cfg64 (sampleIsolate cfg64)) =
          f1.machine.regP cfg64 fp ∧
        loadPtr cfg64 f1.machine.mem (contextTopSlot cfg64 (sampleIsolate cfg64)) = 7) ∧
      (∃ f2, exec cfg64 sampleEnv c2 (c2.length + 1) exitMachine = some f2 ∧
        loadPtr cfg64 f2.machine.mem (cEntryFpSlot cfg64 (sampleIsolate cfg64)) = 0 ∧
        loadPtr cfg64 f2.machine.mem (contextTopSlot cfg64 (sampleIsolate cfg64)) = 0 ∧
        f2.machine.regP cfg64 cp = 7 ∧ f2.machine.regP cfg64 fp = 9 ∧
        f2.machine.regP cfg64 r14 = 77 ∧ f2.machine.addr cfg64 sp = 65536) :=
  match ExitFrame_slots cfg64 (sampleIsolate cfg64) sampleEnv (stackMachine 65536 7 9)
    exitMachine true false 1 r6 true _ _ (by decide) (by decide) rfl rfl (by decide) (by decide)
    (by decide) (by decide) (fun h => absurd h (by decide)) (by decide) (by decide)
    (fun _ => by decide) (fun _ => by decide) with
  | ⟨⟨f1, e1, _, a1, a2, a3⟩, ⟨f2, e2, _, b1, b2, b3, b4, b5, b6⟩, _⟩ =>
    ⟨_, _, rfl, rfl, ⟨f1, e1, a1.trans (by decide), a2, a3.trans (by decide)⟩,
      ⟨f2, e2, b1, b2, b3.trans (by decide), b4.trans (by decide), b5.trans (by decide),
        b6.trans (by decide)⟩⟩

theorem is_imm32_toInt32 (x : Int) : is_imm32 (toInt32 x) = true := by
  have h : is_int32 (toInt32 x) = true := by
    unfold is_int32 toInt32
    simp only [decide_eq_true_eq]
    omega
  unfold is_imm32
  rw [h]
  rfl

theorem encodable_movCode (cfg : Config) (d : Register) (imm : Int) (hd : d.is_valid = true) :
    (movCode cfg d imm).all Instr.encodable = true := by
  unfold movCode
  cases cfg.is64
  · show (Instr.iilf d _).encodable && true = true
    show (d.is_valid && is_imm32 _ && true) = true
    rw [hd, is_imm32_toInt32]; rfl
  · show ((Instr.iihf d _).encodable && ((Instr.iilf d _).encodable && true)) = true
    show ((d.is_valid && is_imm32 _) && ((d.is_valid && is_imm32 _) && true)) = true
    rw [hd, is_imm32_toInt32, is_imm32_toInt32]; rfl

theorem codeBytes_movCode (cfg : Config) (d : Register) (imm : Int) :
    codeBytes (movCode cfg d imm ++ [Instr.basr r14 ip]) = if cfg.is64 then 14 else 8 := by
  unfold movCode
  cases cfg.is64 <;> rfl

/-- C27: the code that `Call` emits takes as many bytes as the matching
`CallSize` returns: 2 for a register target; for an address and for a code
object 14 on the 64-bit target and 8 on the 31-bit target, whatever the target
and the relocation mode; `CallSize` of a code object is `CallSize` of its
address; and `Call` does emit code for the condition `al` (for a code object:
with a code-target relocation mode). -/
theorem Call_bytes_eq_CallSize (cfg : Config) (frame : Bool) :
    (∀ (target : Register) (cond : Condition) (code : List Instr),
      codeOf (Call_Register target cond) frame = some code →
        (codeBytes code : Int) = CallSize_Register ∧ CallSize_Register = 2) ∧
    (∀ (target : Int) (rmode : RelocMode) (cond : Condition) (code : List Instr),
      codeOf (Call_Address cfg target rmode cond) frame = some code →
        (codeBytes code : Int) = CallSize_Address cfg ∧
        CallSize_Address cfg = (if cfg.is64 then 14 else 8)) ∧
    (∀ (target : Int) (rmode : RelocMode) (ast_id_none : Bool) (cond : Condition)
        (code : List Instr),
      codeOf (Call_Code cfg target rmode ast_id_none cond) frame = some code →
        (codeBytes code : Int) = CallSize_Code cfg ∧
        CallSize_Code cfg = CallSize_Address cfg) ∧
    (∀ target : Register, target.is_valid = true →
      (codeOf (Call_Register target al) frame).isSome = true) ∧
    (∀ (target : Int) (rmode : RelocMode),
      (codeOf (Call_Address cfg target rmode al) frame).isSome = true) ∧
    (∀ (target : Int) (rmode : RelocMode) (ast_id_none : Bool), rmode.IsCodeTarget = true →
      (codeOf (Call_Code cfg target rmode ast_id_none al) frame).isSome = true) := by
  have hsz : CallSize_Address cfg = (if cfg.is64 then 14 else 8) := by
    unfold CallSize_Address; cases cfg.is64 <;> rfl
  have hb : ∀ t : Int, ((codeBytes (movCode cfg ip t ++ [Instr.basr r14 ip]) : Nat) : Int) =
      CallSize_Address cfg := by
    intro t
    rw [codeBytes_movCode, hsz]
    cases cfg.is64 <;> rfl
  have he : ∀ t : Int, (movCode cfg ip t).all Instr.encodable = true :=
    fun t => encodable_movCode cfg ip t (by decide)
  have hbasr : (Instr.basr r14 ip).encodable = true := by decide
  refine ⟨?_, ?_, ?_, ?_, ?_, ?_⟩
  · intro target cond code h
    simp only [codeOf, Call_Register, Emit.run_bind_eq, run_emit, run_ASSERT] at h
    obtain ⟨rfl, _⟩ := code_of_ite h
    exact ⟨rfl, rfl⟩
  · intro target rmode cond code h
    simp only [codeOf, Call_Address, mov_run, Emit.run_bind_eq, run_emit, run_ASSERT,
      List.nil_append] at h
    obtain ⟨rfl, _⟩ := code_of_ite h
    exact ⟨hb _, hsz⟩
  · intro target rmode ast cond code h
    simp only [codeOf, Call_Code, Call_Address, mov_run, Emit.run_bind_eq, run_emit,
      run_ASSERT, List.nil_append] at h
    obtain ⟨rfl, _⟩ := code_of_ite h
    exact ⟨hb _, rfl⟩
  · intro target hv
    have e : (Instr.basr r14 target).encodable = true := by
      show (r14.is_valid && target.is_valid) = true
      rw [hv]; rfl
    simp only [codeOf, Call_Register, Emit.run_bind_eq, run_emit, run_ASSERT, e]
    rfl
  · intro target rmode
    simp only [codeOf, Call_Address, mov_run, Emit.run_bind_eq, run_emit, run_ASSERT,
      List.nil_append, he, hbasr]
    rfl
  · intro target rmode ast hr
    simp only [codeOf, Call_Code, Call_Address, mov_run, Emit.run_bind_eq, run_emit,
      run_ASSERT, List.nil_append, he, hbasr, hr]
    rfl
/-- C26, the primitives that comply: for `AddP`, `SubP`, `AndP`, `OrP`, `XorP`,
`CmpP`, `CmpLogicalP`, `AddLogicalP` with a memory operand on both targets, and
for `SubLogicalP` on the 31-bit target, the emitter emits one instruction, which
reads a pointer-size operand (8 bytes on the 64-bit target, 4 on the 31-bit
target) and does to the machine what the operation does with the pointer-size
word at the operand's address. -/
theorem pointer_size_memory_operand (cfg : Config) (p : MemPrimitive) (dst : Register)
    (opnd : MemOperand) (frame : Bool) (code : List Instr)
    (hmul : p ≠ MemPrimitive.MulP)
    (hsl : p = MemPrimitive.SubLogicalP → cfg.is64 = false)
    (hcode : codeOf (p.emitter cfg dst opnd) frame = some code) :
    ∃ i, code = [i] ∧ i.operandBytes = some (kPointerSize cfg) ∧
      ∀ m, i.effect cfg m = p.apply cfg m dst (loadPtr cfg m.mem (effAddr cfg m opnd)) := by
  cases p
  case MulP => exact absurd rfl hmul
  all_goals cases h64 : cfg.is64
  case SubLogicalP.true => exact absurd (hsl rfl) (by rw [h64]; decide)
  all_goals by_cases h12 : is_uint12 opnd.offset = true
  all_goals
    simp only [codeOf, MemPrimitive.emitter, AddP_MemOperand, Add32_MemOperand, SubP_MemOperand,
      Sub32_MemOperand, AndP_MemOperand, And_MemOperand, OrP_MemOperand, Or_MemOperand,
      XorP_MemOperand, Xor_MemOperand, CmpP_MemOperand, Cmp32_MemOperand,
      CmpLogicalP_MemOperand, CmpLogical32_MemOperand, AddLogicalP_MemOperand,
      AddLogical_MemOperand, SubLogicalP_MemOperand, SubLogical_MemOperand, h64, h12,
      Bool.false_eq_true, if_false, if_true, Emit.run_bind_eq, run_emit, run_ASSERT,
      List.nil_append] at hcode
    obtain ⟨rfl, _⟩ := code_of_ite hcode
    refine ⟨_, rfl, ?_, fun m => ?_⟩
  all_goals first
    | (simp only [kPointerSize, h64, if_true, Bool.false_eq_true, if_false]; rfl)
    | (simp only [MemPrimitive.apply, loadPtr, kPointerSize, ptrMod, h64, if_true,
        Bool.false_eq_true, if_false]; rfl)

/-- `MulP` and `SubLogicalP` with a memory operand read an operand that is not
pointer-size: on the 64-bit target `MulP` emits `ms`, which reads 4 bytes, so
that 5 times the 64-bit word `2^32 + 3` comes out as 5; on the 31-bit target it
emits `msg`, which reads 8 bytes; on the 64-bit target `SubLogicalP` emits
`slgf`, which reads 4 bytes. -/
theorem MulP_SubLogicalP_operand_width :
    codeOf (MulP_MemOperand cfg64 r3 ⟨r4, r0, 0⟩) false = some [Instr.ms r3 ⟨r4, r0, 0⟩] ∧
    (Instr.ms r3 ⟨r4, r0, 0⟩).operandBytes = some 4 ∧ kPointerSize cfg64 = 8 ∧
    loadPtr cfg64 wideWordMachine.mem (effAddr cfg64 wideWordMachine ⟨r4, r0, 0⟩) = 4294967299 ∧
    ((Instr.ms r3 ⟨r4, r0, 0⟩).effect cfg64 wideWordMachine).regs r3 = 5 ∧
    (MemPrimitive.MulP.apply cfg64 wideWordMachine r3 4294967299).regs r3 = 21474836495 ∧
    codeOf (MulP_MemOperand cfg31 r3 ⟨r4, r0, 0⟩) false = some [Instr.msg r3 ⟨r4, r0, 0⟩] ∧
    (Instr.msg r3 ⟨r4, r0, 0⟩).operandBytes = some 8 ∧ kPointerSize cfg31 = 4 ∧
    codeOf (SubLogicalP_MemOperand cfg64 r3 ⟨r4, r0, 0⟩) false =
      some [Instr.slgf r3 ⟨r4, r0, 0⟩] ∧
    (Instr.slgf r3 ⟨r4, r0, 0⟩).operandBytes = some 4 ∧
    ((Instr.slgf r3 ⟨r4, r0, 0⟩).effect cfg64 wideWordMachine).regs r3 = 4 ∧
    (MemPrimitive.SubLogicalP.apply cfg64 wideWordMachine r3 4294967299).regs r3 =
      18446744069414584322 :=
  ⟨rfl, rfl, rfl, by decide, by decide, by decide, rfl, rfl, rfl, rfl, rfl, by decide, by decide⟩

theorem pointer_size_memory_operand_witness :
    ∃ i, [Instr.ag r3 ⟨r4, r0, 0⟩] = [i] ∧ i.operandBytes = some (kPointerSize cfg64) ∧
      ∀ m, i.effect cfg64 m =
        MemPrimitive.AddP.apply cfg64 m r3 (loadPtr cfg64 m.mem (effAddr cfg64 m ⟨r4, r0, 0⟩)) :=
  pointer_size_memory_operand cfg64 MemPrimitive.AddP r3 ⟨r4, r0, 0⟩ false _ (by decide)
    (fun h => absurd h (by decide)) rfl
theorem toInt32_of_is_int32 (x : Int) (h : is_int32 x = true) : toInt32 x = x := by
  simp only [is_int32, decide_eq_true_eq] at h
  simp only [toInt32]; omega

theorem addCC_congr (n a b c : Nat) (h : b % n = c % n) : addCC n a b = addCC n a c := by
  unfold addCC; rw [signedOf_congr n b c h]

theorem add32_congr (m : Machine) (d : Register) (a b c : Nat) (h : b % M32 = c % M32) :
    add32 m d a b = add32 m d a c := by
  unfold add32; rw [h, addCC_congr M32 a b c h]

theorem add64_congr (m : Machine) (d : Register) (a b c : Nat) (h : b % M64 = c % M64) :
    add64 m d a b = add64 m d a c := by
  unfold add64; rw [h, addCC_congr M64 a b c h]

theorem unsignedOf_mod_same (n : Nat) (x : Int) (h : 0 < n) : unsignedOf n x % n = unsignedOf n x :=
  Nat.mod_eq_of_lt (unsignedOf_lt n x h)

theorem signedOf_unsignedOf_32 (v : Int) (h : is_int32 v = true) :
    signedOf M32 (unsignedOf M32 v) = v := by
  simp only [is_int32, decide_eq_true_eq] at h
  simp only [signedOf, unsignedOf, M32]
  split <;> omega

/-- C24: for a 32-bit immediate `v`, `Add32(dst, v)`, `AddP(dst, v)` and
`Cmp32(dst, v)` emit the short-immediate instruction when `v` lies in
-32768..32767 and the long-immediate instruction otherwise, and the emitted
instruction leaves the machine (the destination and the condition code
included) as the register-register form of the primitive does on a register
that holds `v`. -/
theorem immediate_form_matches_register_form (cfg : Config) (dst src : Register) (v : Int)
    (hv : is_int32 v = true) :
    (is_int16 v = true ↔ -32768 ≤ v ∧ v ≤ 32767) ∧
    (∀ st, (Add32_Operand dst (Operand.ofInt v)).appended st =
      st.code ++ [if is_int16 v then Instr.ahi dst v else Instr.afi dst v]) ∧
    (∀ st, (AddP_Operand cfg dst (Operand.ofInt v)).appended st =
      st.code ++ [if cfg.is64 then (if is_int16 v then Instr.aghi dst v else Instr.agfi dst v)
        else (if is_int16 v then Instr.ahi dst v else Instr.afi dst v)]) ∧
    (∀ st, (Cmp32_Operand dst (Operand.ofInt v)).appended st =
      st.code ++ [if is_int16 v then Instr.chi dst v else Instr.cfi dst v]) ∧
    (∀ m : Machine, lo32 (m.regs src) = unsignedOf M32 v →
      (if is_int16 v then Instr.ahi dst v else Instr.afi dst v).effect cfg m =
        (Instr.ar dst src).effect cfg m) ∧
    (∀ m : Machine, m.regP cfg src = unsignedOf (ptrMod cfg) v →
      (if cfg.is64 then (if is_int16 v then Instr.aghi dst v else Instr.agfi dst v)
        else (if is_int16 v then Instr.ahi dst v else Instr.afi dst v)).effect cfg m =
        (if cfg.is64 then Instr.agr dst src else Instr.ar dst src).effect cfg m) ∧
    (∀ m : Machine, lo32 (m.regs src) = unsignedOf M32 v →
      (if is_int16 v then Instr.chi dst v else Instr.cfi dst v).effect cfg m =
        (Instr.cr_z dst src).effect cfg m) := by
  have h32 := toInt32_of_is_int32 v hv
  have hP32 : (0 : Nat) < M32 := by decide
  have hP64 : (0 : Nat) < M64 := by decide
  refine ⟨?_, ?_, ?_, ?_, ?_, ?_, ?_⟩
  · simp only [is_int16, decide_eq_true_eq]
  · intro st
    unfold Emit.appended Add32_Operand Operand.ofInt Operand.immediate
    by_cases h16 : is_int16 v = true
    all_goals simp only [h16, if_true, if_false, Bool.false_eq_true, run_emit]
  · intro st
    unfold Emit.appended AddP_Operand Add32_Operand Operand.ofInt Operand.immediate
    cases cfg.is64 <;> by_cases h16 : is_int16 v = true
    all_goals simp only [h16, if_true, if_false, Bool.false_eq_true, run_emit]
  · intro st
    unfold Emit.appended Cmp32_Operand Operand.ofInt Operand.immediate
    by_cases h16 : is_int16 v = true
    all_goals simp only [h16, if_true, if_false, Bool.false_eq_true, run_emit]
  · intro m h
    unfold lo32 at h
    by_cases h16 : is_int16 v = true
    · rw [if_pos h16]
      show add32 m dst (m.regs dst) (unsignedOf M32 (toInt16 v)) = add32 m dst (m.regs dst) _
      rw [toInt16_of_is_int16 v h16]
      exact add32_congr _ _ _ _ _ (by rw [h, unsignedOf_mod_same _ _ hP32])
    · rw [if_neg h16]
      show add32 m dst (m.regs dst) (unsignedOf M32 v) = add32 m dst (m.regs dst) _
      exact add32_congr _ _ _ _ _ (by rw [h, unsignedOf_mod_same _ _ hP32])
  · intro m h
    unfold Machine.regP ptrMod at h
    cases h64 : cfg.is64
    · simp only [h64, Bool.false_eq_true, if_false] at h ⊢
      by_cases h16 : is_int16 v = true
      · rw [if_pos h16]
        show add32 m dst (m.regs dst) (unsignedOf M32 (toInt16 v)) = add32 m dst (m.regs dst) _
        rw [toInt16_of_is_int16 v h16]
        exact add32_congr _ _ _ _ _ (by rw [h, unsignedOf_mod_same _ _ hP32])
      · rw [if_neg h16]
        show add32 m dst (m.regs dst) (unsignedOf M32 v) = add32 m dst (m.regs dst) _
        exact add32_congr _ _ _ _ _ (by rw [h, unsignedOf_mod_same _ _ hP32])
    · simp only [h64, if_true] at h ⊢
      by_cases h16 : is_int16 v = true
      · rw [if_pos h16]
        show add64 m dst (m.regs dst) (unsignedOf M64 (toInt16 v)) = add64 m dst (m.regs dst) _
        rw [toInt16_of_is_int16 v h16]
        exact add64_congr _ _ _ _ _ (by rw [h, unsignedOf_mod_same _ _ hP64])
      · rw [if_neg h16]
        show add64 m dst (m.regs dst) (unsignedOf M64 (toInt32 v)) = add64 m dst (m.regs dst) _
        rw [h32]
        exact add64_congr _ _ _ _ _ (by rw [h, unsignedOf_mod_same _ _ hP64])
  · intro m h
    unfold lo32 at h
    have hs : signedOf M32 (m.regs src) = v := by
      rw [← signedOf_mod, h, signedOf_unsignedOf_32 v hv]
    by_cases h16 : is_int16 v = true
    · rw [if_pos h16]
      show m.setCC (cmpCC (signedOf M32 (m.regs dst)) (toInt16 v)) =
        m.setCC (cmpCC (signedOf M32 (m.regs dst)) (signedOf M32 (m.regs src)))
      rw [toInt16_of_is_int16 v h16, hs]
    · rw [if_neg h16]
      show m.setCC (cmpCC (signedOf M32 (m.regs dst)) (toInt32 v)) =
        m.setCC (cmpCC (signedOf M32 (m.regs dst)) (signedOf M32 (m.regs src)))
      rw [h32, hs]

theorem immediate_form_matches_register_form_witness :
    (Instr.afi r2 100000).effect cfg64 (stackMachine 100000 7 9) =
      (Instr.ar r2 sp).effect cfg64 (stackMachine 100000 7 9) :=
  (immediate_form_matches_register_form cfg64 r2 sp 100000 (by decide)).2.2.2.2.1
    (stackMachine 100000 7 9) (by decide)
theorem testBit_hilo (p q j : Nat) (hq : q < 2 ^ 32) :
    (p * 2 ^ 32 + q).testBit j = if j < 32 then q.testBit j else p.testBit (j - 32) := by
  rw [Nat.mul_comm]
  exact Nat.testBit_mul_pow_two_add p hq j

theorem land_hilo (p q a b : Nat) (hq : q < 2 ^ 32) (hb : b < 2 ^ 32) :
    Nat.land (p * 2 ^ 32 + q) (a * 2 ^ 32 + b) = Nat.land p a * 2 ^ 32 + Nat.land q b := by
  show (p * 2 ^ 32 + q) &&& (a * 2 ^ 32 + b) = (p &&& a) * 2 ^ 32 + (q &&& b)
  apply Nat.eq_of_testBit_eq
  intro j
  rw [Nat.testBit_and, testBit_hilo _ _ _ hq, testBit_hilo _ _ _ hb,
    testBit_hilo _ _ _ (Nat.and_lt_two_pow _ hb)]
  split <;> rw [Nat.testBit_and]

theorem lor_hilo (p q a b : Nat) (hq : q < 2 ^ 32) (hb : b < 2 ^ 32) :
    Nat.lor (p * 2 ^ 32 + q) (a * 2 ^ 32 + b) = Nat.lor p a * 2 ^ 32 + Nat.lor q b := by
  show (p * 2 ^ 32 + q) ||| (a * 2 ^ 32 + b) = (p ||| a) * 2 ^ 32 + (q ||| b)
  apply Nat.eq_of_testBit_eq
  intro j
  rw [Nat.testBit_or, testBit_hilo _ _ _ hq, testBit_hilo _ _ _ hb,
    testBit_hilo _ _ _ (Nat.or_lt_two_pow hq hb)]
  split <;> rw [Nat.testBit_or]

theorem xor_hilo (p q a b : Nat) (hq : q < 2 ^ 32) (hb : b < 2 ^ 32) :
    Nat.xor (p * 2 ^ 32 + q) (a * 2 ^ 32 + b) = Nat.xor p a * 2 ^ 32 + Nat.xor q b := by
  show (p * 2 ^ 32 + q) ^^^ (a * 2 ^ 32 + b) = (p ^^^ a) * 2 ^ 32 + (q ^^^ b)
  apply Nat.eq_of_testBit_eq
  intro j
  rw [Nat.testBit_xor, testBit_hilo _ _ _ hq, testBit_hilo _ _ _ hb,
    testBit_hilo _ _ _ (Nat.xor_lt_two_pow hq hb)]
  split <;> rw [Nat.testBit_xor]

theorem land_lt_M32 (a b : Nat) (hb : b < M32) : Nat.land a b < M32 := by
  have hb2 : b < 2 ^ 32 := hb
  show a &&& b < 2 ^ 32
  exact Nat.and_lt_two_pow a hb2

theorem lor_lt_M32 (a b : Nat) (ha : a < M32) (hb : b < M32) : Nat.lor a b < M32 := by
  have ha2 : a < 2 ^ 32 := ha
  have hb2 : b < 2 ^ 32 := hb
  show a ||| b < 2 ^ 32
  exact Nat.or_lt_two_pow ha2 hb2

theorem xor_lt_M32 (a b : Nat) (ha : a < M32) (hb : b < M32) : Nat.xor a b < M32 := by
  have ha2 : a < 2 ^ 32 := ha
  have hb2 : b < 2 ^ 32 := hb
  show a ^^^ b < 2 ^ 32
  exact Nat.xor_lt_two_pow ha2 hb2

theorem hilo_decomp (x : Nat) : x % M64 = (x / M32 % M32) * 2 ^ 32 + x % M32 := by
  simp only [M64, M32]; omega

/-- The high-half and the low-half AND together are the 64-bit AND. -/
theorem and_halves (x V : Nat) (hV : V < M64) :
    setLo32 (setHi32 x (Nat.land (hi32 x) (V / M32)))
        (Nat.land (setHi32 x (Nat.land (hi32 x) (V / M32)) % M32) (V % M32 % M32)) =
      Nat.land (x % M64) V := by
  have hA : V / M32 < M32 := by simp only [M64, M32] at *; omega
  have hB : V % M32 < M32 := Nat.mod_lt _ (by decide)
  have h1 := land_lt_M32 (hi32 x) (V / M32) hA
  have h2 := land_lt_M32 (x % M32) (V % M32) hB
  have hx : x % M32 < M32 := Nat.mod_lt _ (by decide)
  have e : Nat.land (x % M64) V = Nat.land (hi32 x) (V / M32) * 2 ^ 32 + Nat.land (x % M32) (V % M32) := by
    rw [hilo_decomp x, show V = V / M32 * 2 ^ 32 + V % M32 by simp only [M32]; omega]
    rw [land_hilo _ _ _ _ hx hB]
    have : (V / M32 * 2 ^ 32 + V % M32) / M32 = V / M32 := by simp only [M32]; omega
    have : (V / M32 * 2 ^ 32 + V % M32) % M32 = V % M32 := by simp only [M32]; omega
    simp only [hi32, *]
  rw [e]
  generalize Nat.land (hi32 x) (V / M32) = H at *
  have e2 : setHi32 x H % M32 = x % M32 := by
    simp only [setHi32, lo32, M32] at *; omega
  rw [e2, Nat.mod_mod]
  generalize Nat.land (x % M32) (V % M32) = L at *
  simp only [setLo32, setHi32, hi32, lo32, M32] at *
  omega

theorem setHi32_hi32 (x y : Nat) (hy : y < M32) :
    hi32 (setHi32 x y) = y ∧ setHi32 x y % M32 = x % M32 := by
  simp only [setHi32, hi32, lo32, M32] at *; omega

theorem and_halves_low (x V : Nat) (hV : V < M64) (hhi : V / M32 = M32 - 1) :
    setLo32 x (Nat.land (x % M32) (V % M32 % M32)) = Nat.land (x % M64) V := by
  have hh : hi32 x < M32 := Nat.mod_lt _ (by decide)
  have e0 : Nat.land (hi32 x) (V / M32) = hi32 x := by
    rw [hhi]
    show hi32 x &&& (2 ^ 32 - 1) = hi32 x
    rw [Nat.and_pow_two_sub_one_eq_mod]
    exact Nat.mod_eq_of_lt hh
  have h := and_halves x V hV
  rw [e0, (setHi32_hi32 x (hi32 x) hh).2] at h
  rw [← h]
  unfold setLo32
  rw [(setHi32_hi32 x (hi32 x) hh).1]

/-- The high-half and the low-half OR together are the 64-bit OR. -/
theorem or_halves (x V : Nat) (hV : V < M64) :
    setLo32 (setHi32 x (Nat.lor (hi32 x) (V / M32)))
        (Nat.lor (setHi32 x (Nat.lor (hi32 x) (V / M32)) % M32) (V % M32 % M32)) =
      Nat.lor (x % M64) V := by
  have hA : V / M32 < M32 := by simp only [M64, M32] at *; omega
  have hB : V % M32 < M32 := Nat.mod_lt _ (by decide)
  have hx : x % M32 < M32 := Nat.mod_lt _ (by decide)
  have hh : hi32 x < M32 := Nat.mod_lt _ (by decide)
  have h1 := lor_lt_M32 (hi32 x) (V / M32) hh hA
  have h2 := lor_lt_M32 (x % M32) (V % M32) hx hB
  have e : Nat.lor (x % M64) V = Nat.lor (hi32 x) (V / M32) * 2 ^ 32 + Nat.lor (x % M32) (V % M32) := by
    rw [hilo_decomp x, show V = V / M32 * 2 ^ 32 + V % M32 by simp only [M32]; omega]
    rw [lor_hilo _ _ _ _ hx hB]
    have : (V / M32 * 2 ^ 32 + V % M32) / M32 = V / M32 := by simp only [M32]; omega
    have : (V / M32 * 2 ^ 32 + V % M32) % M32 = V % M32 := by simp only [M32]; omega
    simp only [hi32, *]
  rw [e]
  generalize Nat.lor (hi32 x) (V / M32) = H at *
  have e2 : setHi32 x H % M32 = x % M32 := by
    simp only [setHi32, lo32, M32] at *; omega
  rw [e2, Nat.mod_mod]
  generalize Nat.lor (x % M32) (V % M32) = L at *
  simp only [setLo32, setHi32, hi32, lo32, M32] at *
  omega

theorem or_halves_low (x V : Nat) (hV : V < M64) (hhi : V / M32 = 0) :
    setLo32 x (Nat.lor (x % M32) (V % M32 % M32)) = Nat.lor (x % M64) V := by
  have hh : hi32 x < M32 := Nat.mod_lt _ (by decide)
  have e0 : Nat.lor (hi32 x) (V / M32) = hi32 x := by
    rw [hhi]
    show hi32 x ||| 0 = hi32 x
    exact Nat.or_zero _
  have h := or_halves x V hV
  rw [e0, (setHi32_hi32 x (hi32 x) hh).2] at h
  rw [← h]
  unfold setLo32
  rw [(setHi32_hi32 x (hi32 x) hh).1]

/-- The high-half and the low-half XOR together are the 64-bit XOR. -/
theorem xor_halves (x V : Nat) (hV : V < M64) :
    setLo32 (setHi32 x (Nat.xor (hi32 x) (V / M32)))
        (Nat.xor (setHi32 x (Nat.xor (hi32 x) (V / M32)) % M32) (V % M32 % M32)) =
      Nat.xor (x % M64) V := by
  have hA : V / M32 < M32 := by simp only [M64, M32] at *; omega
  have hB : V % M32 < M32 := Nat.mod_lt _ (by decide)
  have hx : x % M32 < M32 := Nat.mod_lt _ (by decide)
  have hh : hi32 x < M32 := Nat.mod_lt _ (by decide)
  have h1 := xor_lt_M32 (hi32 x) (V / M32) hh hA
  have h2 := xor_lt_M32 (x % M32) (V % M32) hx hB
  have e : Nat.xor (x % M64) V = Nat.xor (hi32 x) (V / M32) * 2 ^ 32 + Nat.xor (x % M32) (V % M32) := by
    rw [hilo_decomp x, show V = V / M32 * 2 ^ 32 + V % M32 by simp only [M32]; omega]
    rw [xor_hilo _ _ _ _ hx hB]
    have : (V / M32 * 2 ^ 32 + V % M32) / M32 = V / M32 := by simp only [M32]; omega
    have : (V / M32 * 2 ^ 32 + V % M32) % M32 = V % M32 := by simp only [M32]; omega
    simp only [hi32, *]
  rw [e]
  generalize Nat.xor (hi32 x) (V / M32) = H at *
  have e2 : setHi32 x H % M32 = x % M32 := by
    simp only [setHi32, lo32, M32] at *; omega
  rw [e2, Nat.mod_mod]
  generalize Nat.xor (x % M32) (V % M32) = L at *
  simp only [setLo32, setHi32, hi32, lo32, M32] at *
  omega

theorem unsignedOf_hi (v : Int) :
    unsignedOf M32 (v / 4294967296) = unsignedOf M64 v / M32 := by
  simp only [unsignedOf, M32, M64]; omega

theorem unsignedOf_lo (v : Int) :
    unsignedOf M32 (v % 4294967296) = unsignedOf M64 v % M32 := by
  simp only [unsignedOf, M32, M64]; omega
/-- C25: on the 64-bit target, for every 64-bit immediate `v` and every
machine, `mov(dst, v)` emits the high-half insert and then the low-half insert
and leaves `dst = v`; `AndP(dst, v)`, `OrP(dst, v)` and `XorP(dst, v)` emit the
high-half instruction followed by the low-half instruction and leave
`dst = x & v`, `x | v`, `x ^ v` over all 64 bits, `x` being what `dst` held; the
high-half instruction is left out exactly when the high half of `v` is all ones
(for AND) or zero (for OR), which is when it would change nothing. -/
theorem wide_immediates (cfg : Config) (dst : Register) (v : Int) (rmode : RelocMode)
    (m : Machine) (h64 : cfg.is64 = true)
    (hv : -9223372036854775808 ≤ v ∧ v ≤ 9223372036854775807) :
    (∀ st, (mov cfg dst ⟨v, rmode⟩).appended st =
      st.code ++ [Instr.iihf dst (toInt32 (v / 4294967296)), Instr.iilf dst (toInt32 v)]) ∧
    (runStraight cfg [Instr.iihf dst (toInt32 (v / 4294967296)), Instr.iilf dst (toInt32 v)]
      m).regs dst = unsignedOf M64 v ∧
    (∀ st, (AndP_Operand cfg dst ⟨v, rmode⟩).appended st =
      st.code ++ ((if v / 4294967296 = -1 then [] else [Instr.nihf dst (v / 4294967296)]) ++
        [Instr.nilf dst (v % 4294967296)])) ∧
    (runStraight cfg ((if v / 4294967296 = -1 then [] else [Instr.nihf dst (v / 4294967296)]) ++
        [Instr.nilf dst (v % 4294967296)]) m).regs dst =
      Nat.land (m.regs dst % M64) (unsignedOf M64 v) ∧
    (v / 4294967296 = -1 ↔ unsignedOf M64 v / M32 = M32 - 1) ∧
    (∀ st, (OrP_Operand cfg dst ⟨v, rmode⟩).appended st =
      st.code ++ ((if v / 4294967296 = 0 then [] else [Instr.oihf dst (v / 4294967296)]) ++
        [Instr.oilf dst (v % 4294967296)])) ∧
    (runStraight cfg ((if v / 4294967296 = 0 then [] else [Instr.oihf dst (v / 4294967296)]) ++
        [Instr.oilf dst (v % 4294967296)]) m).regs dst =
      Nat.lor (m.regs dst % M64) (unsignedOf M64 v) ∧
    (v / 4294967296 = 0 ↔ unsignedOf M64 v / M32 = 0) ∧
    (∀ st, (XorP_Operand cfg dst ⟨v, rmode⟩).appended st =
      st.code ++ [Instr.xihf dst (v / 4294967296), Instr.xilf dst (v % 4294967296)]) ∧
    (runStraight cfg [Instr.xihf dst (v / 4294967296), Instr.xilf dst (v % 4294967296)]
      m).regs dst = Nat.xor (m.regs dst % M64) (unsignedOf M64 v) := by
  have hV : unsignedOf M64 v < M64 := unsignedOf_lt _ _ (by decide)
  have ht : toInt64 v = v := by unfold toInt64; omega
  have hA : (v / 4294967296 = -1 ↔ unsignedOf M64 v / M32 = M32 - 1) := by
    simp only [unsignedOf, M32, M64]; omega
  have hO : (v / 4294967296 = 0 ↔ unsignedOf M64 v / M32 = 0) := by
    simp only [unsignedOf, M32, M64]; omega
  refine ⟨?_, ?_, ?_, ?_, hA, ?_, ?_, hO, ?_, ?_⟩
  · intro st
    unfold Emit.appended
    rw [mov_run]
    simp only [movCode, h64, if_true, ht]
  · have := runStraight_movCode cfg dst v [] m
    rw [List.append_nil] at this
    simp only [movCode, h64, if_true, ht] at this
    rw [this, runStraight_nil, setRegP_regs]
    simp only [h64, if_true, ptrMod]
    exact Nat.mod_eq_of_lt hV
  · intro st
    unfold Emit.appended AndP_Operand
    by_cases hh : v / 4294967296 = -1
    all_goals simp only [h64, hh, if_true, if_false, ne_eq, not_true_eq_false, not_false_eq_true,
      Emit.run_bind_eq, Emit.run_pure, run_emit, List.nil_append, List.append_assoc,
      List.singleton_append]
  · by_cases hh : v / 4294967296 = -1
    · rw [if_pos hh]
      show (and32 m dst (m.regs dst) (unsignedOf M32 (v % 4294967296))).regs dst = _
      simp only [and32, setCC_regs, setReg_regs, if_true, unsignedOf_lo]
      exact and_halves_low _ _ hV (hA.mp hh)
    · rw [if_neg hh]
      have e1 : Instr.effect cfg m (Instr.nihf dst (v / 4294967296)) =
          (m.setReg dst (setHi32 (m.regs dst) (Nat.land (hi32 (m.regs dst))
            (unsignedOf M32 (v / 4294967296))))).setCC
            (logicCC (Nat.land (hi32 (m.regs dst)) (unsignedOf M32 (v / 4294967296)))) := rfl
      simp only [List.singleton_append, runStraight_cons, runStraight_nil, e1]
      show (and32 _ dst _ (unsignedOf M32 (v % 4294967296))).regs dst = _
      simp only [and32, setCC_regs, setReg_regs, if_true, unsignedOf_lo, unsignedOf_hi]
      exact and_halves _ _ hV
  · intro st
    unfold Emit.appended OrP_Operand
    by_cases hh : v / 4294967296 = 0
    all_goals simp only [h64, hh, if_true, if_false, ne_eq, not_true_eq_false, not_false_eq_true,
      Emit.run_bind_eq, Emit.run_pure, run_emit, List.nil_append, List.append_assoc,
      List.singleton_append]
  · by_cases hh : v / 4294967296 = 0
    · rw [if_pos hh]
      show (or32 m dst (m.regs dst) (unsignedOf M32 (v % 4294967296))).regs dst = _
      simp only [or32, setCC_regs, setReg_regs, if_true, unsignedOf_lo]
      exact or_halves_low _ _ hV (hO.mp hh)
    · rw [if_neg hh]
      have e1 : Instr.effect cfg m (Instr.oihf dst (v / 4294967296)) =
          (m.setReg dst (setHi32 (m.regs dst) (Nat.lor (hi32 (m.regs dst))
            (unsignedOf M32 (v / 4294967296))))).setCC
            (logicCC (Nat.lor (hi32 (m.regs dst)) (unsignedOf M32 (v / 4294967296)))) := rfl
      simp only [List.singleton_append, runStraight_cons, runStraight_nil, e1]
      show (or32 _ dst _ (unsignedOf M32 (v % 4294967296))).regs dst = _
      simp only [or32, setCC_regs, setReg_regs, if_true, unsignedOf_lo, unsignedOf_hi]
      exact or_halves _ _ hV
  · intro st
    unfold Emit.appended XorP_Operand
    simp only [h64, if_true, Emit.run_bind_eq, Emit.run_pure, run_emit, List.append_assoc,
      List.singleton_append]
  · have e1 : Instr.effect cfg m (Instr.xihf dst (v / 4294967296)) =
        (m.setReg dst (setHi32 (m.regs dst) (Nat.xor (hi32 (m.regs dst))
          (unsignedOf M32 (v / 4294967296))))).setCC
          (logicCC (Nat.xor (hi32 (m.regs dst)) (unsignedOf M32 (v / 4294967296)))) := rfl
    simp only [runStraight_cons, runStraight_nil, e1]
    show (xor32 _ dst _ (unsignedOf M32 (v % 4294967296))).regs dst = _
    simp only [xor32, setCC_regs, setReg_regs, if_true, unsignedOf_lo, unsignedOf_hi]
    exact xor_halves _ _ hV

theorem wide_immediates_witness :
    (runStraight cfg64 [Instr.xihf r2 (81985529216486895 / 4294967296),
      Instr.xilf r2 (81985529216486895 % 4294967296)] (stackMachine 65536 7 9)).regs r2 =
      Nat.xor ((stackMachine 65536 7 9).regs r2 % M64) (unsignedOf M64 81985529216486895) :=
  (wide_immediates cfg64 r2 81985529216486895 RelocMode.NONE (stackMachine 65536 7 9) rfl
    (by decide)).2.2.2.2.2.2.2.2.2

set_option linter.unusedTactic false
set_option linter.unreachableTactic false

theorem blind_pure {α : Type} (a : α) : (pure a : Emit α).FrameBlind := ⟨fun _ _ => rfl⟩

theorem keeps_pure {α : Type} (a : α) : (pure a : Emit α).KeepsFailure := ⟨fun _ h => h⟩

theorem blind_bind {α β : Type} (x : Emit α) (f : α → Emit β) (hx : x.FrameBlind)
    (hf : ∀ a, (f a).FrameBlind) : (x >>= f).FrameBlind := by
  refine ⟨fun st b => ?_⟩
  rw [Emit.run_bind_eq, Emit.run_bind_eq, hx.blind st b]
  exact (hf _).blind _ b

theorem keeps_bind {α β : Type} (x : Emit α) (f : α → Emit β) (hx : x.KeepsFailure)
    (hf : ∀ a, (f a).KeepsFailure) : (x >>= f).KeepsFailure := by
  refine ⟨fun st h => ?_⟩
  rw [Emit.run_bind_eq]
  exact (hf _).keeps _ (hx.keeps st h)

theorem blind_emit (i : Instr) : (emit i).FrameBlind := ⟨fun _ _ => rfl⟩

theorem keeps_emit (i : Instr) : (emit i).KeepsFailure :=
  ⟨fun st h => by rw [run_emit]; show (st.failed || _) = true; rw [h]; rfl⟩

theorem blind_ASSERT (c : Bool) : (ASSERT c).FrameBlind := ⟨fun _ _ => rfl⟩

theorem keeps_ASSERT (c : Bool) : (ASSERT c).KeepsFailure :=
  ⟨fun st h => by rw [run_ASSERT]; show (st.failed || _) = true; rw [h]; rfl⟩

theorem blind_newLabel : newLabel.FrameBlind := ⟨fun _ _ => rfl⟩

theorem keeps_newLabel : newLabel.KeepsFailure := ⟨fun _ h => h⟩

theorem keeps_has_frame : has_frame.KeepsFailure := ⟨fun _ h => h⟩

theorem blind_ite {α : Type} (c : Prop) [Decidable c] (x y : Emit α) (hx : x.FrameBlind)
    (hy : y.FrameBlind) : (if c then x else y).FrameBlind := by
  split
  · exact hx
  · exact hy

theorem keeps_ite {α : Type} (c : Prop) [Decidable c] (x y : Emit α) (hx : x.KeepsFailure)
    (hy : y.KeepsFailure) : (if c then x else y).KeepsFailure := by
  split
  · exact hx
  · exact hy

/-- Reading the frame flag is harmless when what follows does not depend on
what was read. -/
theorem blind_frame_bind {β : Type} (f : Bool → Emit β) (h : ∀ b, f b = f true)
    (hf : (f true).FrameBlind) : (has_frame >>= f).FrameBlind := by
  refine ⟨fun st b => ?_⟩
  rw [Emit.run_bind_eq, Emit.run_bind_eq, run_has_frame, run_has_frame]
  show (f b).run { st with has_frame := b } =
    (((f st.has_frame).run st).1, { ((f st.has_frame).run st).2 with has_frame := b })
  rw [h b, h st.has_frame]
  exact hf.blind st b

theorem NullCallWrapper_tame : NullCallWrapper.Tame :=
  ⟨fun _ => blind_pure _, fun _ => keeps_pure _, blind_pure _, keeps_pure _⟩

theorem blind_InvokeCode_Register_jump (cfg : Config) (iso : Isolate) (code : Register)
    (expected actual : ParameterCount) (call_wrapper : CallWrapper) (call_kind : CallKind)
    (hw : call_wrapper.Tame) :
    (InvokeCode_Register cfg iso code expected actual InvokeFlag.JUMP_FUNCTION call_wrapper
      call_kind).FrameBlind := by
  unfold InvokeCode_Register
  repeat' first
    | exact blind_pure _
    | exact blind_emit _
    | exact blind_ASSERT _
    | exact blind_newLabel
    | exact keeps_pure _
    | exact keeps_emit _
    | exact keeps_ASSERT _
    | exact keeps_newLabel
    | exact keeps_has_frame
    | exact hw.before_blind _
    | exact hw.before_keeps _
    | exact hw.after_blind
    | exact hw.after_keeps
    | apply blind_frame_bind
    | apply blind_bind
    | apply keeps_bind
    | apply blind_ite
    | apply keeps_ite
    | (intro b; cases b <;> rfl)
    | intro _
    | split
    | unfold InvokePrologue
    | unfold mov
    | unfold LoadP
    | unfold LoadW
    | unfold LoadIntLiteral
    | unfold Load_Operand
    | unfold LoadSmiLiteral
    | unfold SetCallKind
    | unfold Call_Code
    | unfold Call_Address
    | unfold Call_Register
    | unfold Jump_Code
    | unfold Jump_intptr
    | unfold Jump_Register
    | unfold b_Register
    | unfold CmpPH
    | unfold CmpP_Register
    | unfold Cmp32_Register
    | unfold AddP_Operand
    | unfold Add32_Operand
    | unfold beq
    | unfold bne
    | unfold b
    | unfold S390.bind
    | unfold LoadRR
    | unfold SmiUntag
    | unfold ShiftRightArithP
    | unfold ShiftRightArith
    | unfold ParameterCount.reg
    | unfold ParameterCount.immediate
    | unfold GetBuiltinEntry
    | unfold GetBuiltinFunction
    | unfold LoadHeapObject

theorem keeps_InvokeCode_Register (cfg : Config) (iso : Isolate) (code : Register)
    (expected actual : ParameterCount) (flag : InvokeFlag) (call_wrapper : CallWrapper)
    (call_kind : CallKind) (hw : call_wrapper.Tame) :
    (InvokeCode_Register cfg iso code expected actual flag call_wrapper call_kind).KeepsFailure := by
  unfold InvokeCode_Register
  repeat' first
    | exact blind_pure _
    | exact blind_emit _
    | exact blind_ASSERT _
    | exact blind_newLabel
    | exact keeps_pure _
    | exact keeps_emit _
    | exact keeps_ASSERT _
    | exact keeps_newLabel
    | exact keeps_has_frame
    | exact hw.before_blind _
    | exact hw.before_keeps _
    | exact hw.after_blind
    | exact hw.after_keeps
    | apply blind_frame_bind
    | apply blind_bind
    | apply keeps_bind
    | apply blind_ite
    | apply keeps_ite
    | (intro b; cases b <;> rfl)
    | intro _
    | split
    | unfold InvokePrologue
    | unfold mov
    | unfold LoadP
    | unfold LoadW
    | unfold LoadIntLiteral
    | unfold Load_Operand
    | unfold LoadSmiLiteral
    | unfold SetCallKind
    | unfold Call_Code
    | unfold Call_Address
    | unfold Call_Register
    | unfold Jump_Code
    | unfold Jump_intptr
    | unfold Jump_Register
    | unfold b_Register
    | unfold CmpPH
    | unfold CmpP_Register
    | unfold Cmp32_Register
    | unfold AddP_Operand
    | unfold Add32_Operand
    | unfold beq
    | unfold bne
    | unfold b
    | unfold S390.bind
    | unfold LoadRR
    | unfold SmiUntag
    | unfold ShiftRightArithP
    | unfold ShiftRightArith
    | unfold ParameterCount.reg
    | unfold ParameterCount.immediate
    | unfold GetBuiltinEntry
    | unfold GetBuiltinFunction
    | unfold LoadHeapObject

theorem blind_InvokeCode_Code_jump (cfg : Config) (iso : Isolate) (code : Int)
    (expected actual : ParameterCount) (rmode : RelocMode) (call_kind : CallKind) :
    (InvokeCode_Code cfg iso code expected actual rmode InvokeFlag.JUMP_FUNCTION
      call_kind).FrameBlind := by
  have hw := NullCallWrapper_tame
  unfold InvokeCode_Code
  repeat' first
    | exact blind_pure _
    | exact blind_emit _
    | exact blind_ASSERT _
    | exact blind_newLabel
    | exact keeps_pure _
    | exact keeps_emit _
    | exact keeps_ASSERT _
    | exact keeps_newLabel
    | exact keeps_has_frame
    | exact hw.before_blind _
    | exact hw.before_keeps _
    | exact hw.after_blind
    | exact hw.after_keeps
    | apply blind_frame_bind
    | apply blind_bind
    | apply keeps_bind
    | apply blind_ite
    | apply keeps_ite
    | (intro b; cases b <;> rfl)
    | intro _
    | split
    | unfold InvokePrologue
    | unfold mov
    | unfold LoadP
    | unfold LoadW
    | unfold LoadIntLiteral
    | unfold Load_Operand
    | unfold LoadSmiLiteral
    | unfold SetCallKind
    | unfold Call_Code
    | unfold Call_Address
    | unfold Call_Register
    | unfold Jump_Code
    | unfold Jump_intptr
    | unfold Jump_Register
    | unfold b_Register
    | unfold CmpPH
    | unfold CmpP_Register
    | unfold Cmp32_Register
    | unfold AddP_Operand
    | unfold Add32_Operand
    | unfold beq
    | unfold bne
    | unfold b
    | unfold S390.bind
    | unfold LoadRR
    | unfold SmiUntag
    | unfold ShiftRightArithP
    | unfold ShiftRightArith
    | unfold ParameterCount.reg
    | unfold ParameterCount.immediate
    | unfold GetBuiltinEntry
    | unfold GetBuiltinFunction
    | unfold LoadHeapObject

theorem keeps_InvokeCode_Code (cfg : Config) (iso : Isolate) (code : Int)
    (expected actual : ParameterCount) (rmode : RelocMode) (flag : InvokeFlag)
    (call_kind : CallKind) :
    (InvokeCode_Code cfg iso code expected actual rmode flag call_kind).KeepsFailure := by
  have hw := NullCallWrapper_tame
  unfold InvokeCode_Code
  repeat' first
    | exact blind_pure _
    | exact blind_emit _
    | exact blind_ASSERT _
    | exact blind_newLabel
    | exact keeps_pure _
    | exact keeps_emit _
    | exact keeps_ASSERT _
    | exact keeps_newLabel
    | exact keeps_has_frame
    | exact hw.before_blind _
    | exact hw.before_keeps _
    | exact hw.after_blind
    | exact hw.after_keeps
    | apply blind_frame_bind
    | apply blind_bind
    | apply keeps_bind
    | apply blind_ite
    | apply keeps_ite
    | (intro b; cases b <;> rfl)
    | intro _
    | split
    | unfold InvokePrologue
    | unfold mov
    | unfold LoadP
    | unfold LoadW
    | unfold LoadIntLiteral
    | unfold Load_Operand
    | unfold LoadSmiLiteral
    | unfold SetCallKind
    | unfold Call_Code
    | unfold Call_Address
    | unfold Call_Register
    | unfold Jump_Code
    | unfold Jump_intptr
    | unfold Jump_Register
    | unfold b_Register
    | unfold CmpPH
    | unfold CmpP_Register
    | unfold Cmp32_Register
    | unfold AddP_Operand
    | unfold Add32_Operand
    | unfold beq
    | unfold bne
    | unfold b
    | unfold S390.bind
    | unfold LoadRR
    | unfold SmiUntag
    | unfold ShiftRightArithP
    | unfold ShiftRightArith
    | unfold ParameterCount.reg
    | unfold ParameterCount.immediate
    | unfold GetBuiltinEntry
    | unfold GetBuiltinFunction
    | unfold LoadHeapObject

theorem blind_InvokeBuiltin_jump (cfg : Config) (iso : Isolate) (id : Int)
    (call_wrapper : CallWrapper) (hw : call_wrapper.Tame) :
    (InvokeBuiltin cfg iso id InvokeFlag.JUMP_FUNCTION call_wrapper).FrameBlind := by
  unfold InvokeBuiltin
  repeat' first
    | exact blind_pure _
    | exact blind_emit _
    | exact blind_ASSERT _
    | exact blind_newLabel
    | exact keeps_pure _
    | exact keeps_emit _
    | exact keeps_ASSERT _
    | exact keeps_newLabel
    | exact keeps_has_frame
    | exact hw.before_blind _
    | exact hw.before_keeps _
    | exact hw.after_blind
    | exact hw.after_keeps
    | apply blind_frame_bind
    | apply blind_bind
    | apply keeps_bind
    | apply blind_ite
    | apply keeps_ite
    | (intro b; cases b <;> rfl)
    | intro _
    | split
    | unfold InvokePrologue
    | unfold mov
    | unfold LoadP
    | unfold LoadW
    | unfold LoadIntLiteral
    | unfold Load_Operand
    | unfold LoadSmiLiteral
    | unfold SetCallKind
    | unfold Call_Code
    | unfold Call_Address
    | unfold Call_Register
    | unfold Jump_Code
    | unfold Jump_intptr
    | unfold Jump_Register
    | unfold b_Register
    | unfold CmpPH
    | unfold CmpP_Register
    | unfold Cmp32_Register
    | unfold AddP_Operand
    | unfold Add32_Operand
    | unfold beq
    | unfold bne
    | unfold b
    | unfold S390.bind
    | unfold LoadRR
    | unfold SmiUntag
    | unfold ShiftRightArithP
    | unfold ShiftRightArith
    | unfold ParameterCount.reg
    | unfold ParameterCount.immediate
    | unfold GetBuiltinEntry
    | unfold GetBuiltinFunction
    | unfold LoadHeapObject

theorem keeps_InvokeBuiltin (cfg : Config) (iso : Isolate) (id : Int) (flag : InvokeFlag)
    (call_wrapper : CallWrapper) (hw : call_wrapper.Tame) :
    (InvokeBuiltin cfg iso id flag call_wrapper).KeepsFailure := by
  unfold InvokeBuiltin
  repeat' first
    | exact blind_pure _
    | exact blind_emit _
    | exact blind_ASSERT _
    | exact blind_newLabel
    | exact keeps_pure _
    | exact keeps_emit _
    | exact keeps_ASSERT _
    | exact keeps_newLabel
    | exact keeps_has_frame
    | exact hw.before_blind _
    | exact hw.before_keeps _
    | exact hw.after_blind
    | exact hw.after_keeps
    | apply blind_frame_bind
    | apply blind_bind
    | apply keeps_bind
    | apply blind_ite
    | apply keeps_ite
    | (intro b; cases b <;> rfl)
    | intro _
    | split
    | unfold InvokePrologue
    | unfold mov
    | unfold LoadP
    | unfold LoadW
    | unfold LoadIntLiteral
    | unfold Load_Operand
    | unfold LoadSmiLiteral
    | unfold SetCallKind
    | unfold Call_Code
    | unfold Call_Address
    | unfold Call_Register
    | unfold Jump_Code
    | unfold Jump_intptr
    | unfold Jump_Register
    | unfold b_Register
    | unfold CmpPH
    | unfold CmpP_Register
    | unfold Cmp32_Register
    | unfold AddP_Operand
    | unfold Add32_Operand
    | unfold beq
    | unfold bne
    | unfold b
    | unfold S390.bind
    | unfold LoadRR
    | unfold SmiUntag
    | unfold ShiftRightArithP
    | unfold ShiftRightArith
    | unfold ParameterCount.reg
    | unfold ParameterCount.immediate
    | unfold GetBuiltinEntry
    | unfold GetBuiltinFunction
    | unfold LoadHeapObject

theorem blind_InvokeFunction_Register_jump (cfg : Config) (iso : Isolate) (function : Register)
    (actual : ParameterCount) (call_wrapper : CallWrapper) (call_kind : CallKind)
    (hw : call_wrapper.Tame) :
    (InvokeFunction_Register cfg iso function actual InvokeFlag.JUMP_FUNCTION call_wrapper
      call_kind).FrameBlind := by
  unfold InvokeFunction_Register
  repeat' first
    | exact blind_pure _
    | exact blind_emit _
    | exact blind_ASSERT _
    | exact blind_newLabel
    | exact keeps_pure _
    | exact keeps_emit _
    | exact keeps_ASSERT _
    | exact keeps_newLabel
    | exact keeps_has_frame
    | exact hw.before_blind _
    | exact hw.before_keeps _
    | exact hw.after_blind
    | exact hw.after_keeps
    | apply blind_frame_bind
    | apply blind_bind
    | apply keeps_bind
    | apply blind_ite
    | apply keeps_ite
    | (intro b; cases b <;> rfl)
    | intro _
    | split
    | unfold InvokePrologue
    | unfold mov
    | unfold LoadP
    | unfold LoadW
    | unfold LoadIntLiteral
    | unfold Load_Operand
    | unfold LoadSmiLiteral
    | unfold SetCallKind
    | unfold Call_Code
    | unfold Call_Address
    | unfold Call_Register
    | unfold Jump_Code
    | unfold Jump_intptr
    | unfold Jump_Register
    | unfold b_Register
    | unfold CmpPH
    | unfold CmpP_Register
    | unfold Cmp32_Register
    | unfold AddP_Operand
    | unfold Add32_Operand
    | unfold beq
    | unfold bne
    | unfold b
    | unfold S390.bind
    | unfold LoadRR
    | unfold SmiUntag
    | unfold ShiftRightArithP
    | unfold ShiftRightArith
    | unfold ParameterCount.reg
    | unfold ParameterCount.immediate
    | unfold GetBuiltinEntry
    | unfold GetBuiltinFunction
    | unfold LoadHeapObject

theorem keeps_InvokeFunction_Register (cfg : Config) (iso : Isolate) (function : Register)
    (actual : ParameterCount) (flag : InvokeFlag) (call_wrapper : CallWrapper)
    (call_kind : CallKind) (hw : call_wrapper.Tame) :
    (InvokeFunction_Register cfg iso function actual flag call_wrapper call_kind).KeepsFailure := by
  unfold InvokeFunction_Register
  repeat' first
    | exact blind_pure _
    | exact blind_emit _
    | exact blind_ASSERT _
    | exact blind_newLabel
    | exact keeps_pure _
    | exact keeps_emit _
    | exact keeps_ASSERT _
    | exact keeps_newLabel
    | exact keeps_has_frame
    | exact hw.before_blind _
    | exact hw.before_keeps _
    | exact hw.after_blind
    | exact hw.after_keeps
    | apply blind_frame_bind
    | apply blind_bind
    | apply keeps_bind
    | apply blind_ite
    | apply keeps_ite
    | (intro b; cases b <;> rfl)
    | intro _
    | split
    | unfold InvokePrologue
    | unfold mov
    | unfold LoadP
    | unfold LoadW
    | unfold LoadIntLiteral
    | unfold Load_Operand
    | unfold LoadSmiLiteral
    | unfold SetCallKind
    | unfold Call_Code
    | unfold Call_Address
    | unfold Call_Register
    | unfold Jump_Code
    | unfold Jump_intptr
    | unfold Jump_Register
    | unfold b_Register
    | unfold CmpPH
    | unfold CmpP_Register
    | unfold Cmp32_Register
    | unfold AddP_Operand
    | unfold Add32_Operand
    | unfold beq
    | unfold bne
    | unfold b
    | unfold S390.bind
    | unfold LoadRR
    | unfold SmiUntag
    | unfold ShiftRightArithP
    | unfold ShiftRightArith
    | unfold ParameterCount.reg
    | unfold ParameterCount.immediate
    | unfold GetBuiltinEntry
    | unfold GetBuiltinFunction
    | unfold LoadHeapObject

theorem blind_InvokeFunction_Handle_jump (cfg : Config) (iso : Isolate)
    (function : JSFunctionHandle) (actual : ParameterCount) (call_wrapper : CallWrapper)
    (call_kind : CallKind) (hw : call_wrapper.Tame) :
    (InvokeFunction_Handle cfg iso function actual InvokeFlag.JUMP_FUNCTION call_wrapper
      call_kind).FrameBlind := by
  unfold InvokeFunction_Handle
  repeat' first
    | exact blind_pure _
    | exact blind_emit _
    | exact blind_ASSERT _
    | exact blind_newLabel
    | exact keeps_pure _
    | exact keeps_emit _
    | exact keeps_ASSERT _
    | exact keeps_newLabel
    | exact keeps_has_frame
    | exact hw.before_blind _
    | exact hw.before_keeps _
    | exact hw.after_blind
    | exact hw.after_keeps
    | apply blind_frame_bind
    | apply blind_bind
    | apply keeps_bind
    | apply blind_ite
    | apply keeps_ite
    | (intro b; cases b <;> rfl)
    | intro _
    | split
    | unfold InvokePrologue
    | unfold mov
    | unfold LoadP
    | unfold LoadW
    | unfold LoadIntLiteral
    | unfold Load_Operand
    | unfold LoadSmiLiteral
    | unfold SetCallKind
    | unfold Call_Code
    | unfold Call_Address
    | unfold Call_Register
    | unfold Jump_Code
    | unfold Jump_intptr
    | unfold Jump_Register
    | unfold b_Register
    | unfold CmpPH
    | unfold CmpP_Register
    | unfold Cmp32_Register
    | unfold AddP_Operand
    | unfold Add32_Operand
    | unfold beq
    | unfold bne
    | unfold b
    | unfold S390.bind
    | unfold LoadRR
    | unfold SmiUntag
    | unfold ShiftRightArithP
    | unfold ShiftRightArith
    | unfold ParameterCount.reg
    | unfold ParameterCount.immediate
    | unfold GetBuiltinEntry
    | unfold GetBuiltinFunction
    | unfold LoadHeapObject

theorem keeps_InvokeFunction_Handle (cfg : Config) (iso : Isolate)
    (function : JSFunctionHandle) (actual : ParameterCount) (flag : InvokeFlag)
    (call_wrapper : CallWrapper) (call_kind : CallKind) (hw : call_wrapper.Tame) :
    (InvokeFunction_Handle cfg iso function actual flag call_wrapper call_kind).KeepsFailure := by
  unfold InvokeFunction_Handle
  repeat' first
    | exact blind_pure _
    | exact blind_emit _
    | exact blind_ASSERT _
    | exact blind_newLabel
    | exact keeps_pure _
    | exact keeps_emit _
    | exact keeps_ASSERT _
    | exact keeps_newLabel
    | exact keeps_has_frame
    | exact hw.before_blind _
    | exact hw.before_keeps _
    | exact hw.after_blind
    | exact hw.after_keeps
    | apply blind_frame_bind
    | apply blind_bind
    | apply keeps_bind
    | apply blind_ite
    | apply keeps_ite
    | (intro b; cases b <;> rfl)
    | intro _
    | split
    | unfold InvokePrologue
    | unfold mov
    | unfold LoadP
    | unfold LoadW
    | unfold LoadIntLiteral
    | unfold Load_Operand
    | unfold LoadSmiLiteral
    | unfold SetCallKind
    | unfold Call_Code
    | unfold Call_Address
    | unfold Call_Register
    | unfold Jump_Code
    | unfold Jump_intptr
    | unfold Jump_Register
    | unfold b_Register
    | unfold CmpPH
    | unfold CmpP_Register
    | unfold Cmp32_Register
    | unfold AddP_Operand
    | unfold Add32_Operand
    | unfold beq
    | unfold bne
    | unfold b
    | unfold S390.bind
    | unfold LoadRR
    | unfold SmiUntag
    | unfold ShiftRightArithP
    | unfold ShiftRightArith
    | unfold ParameterCount.reg
    | unfold ParameterCount.immediate
    | unfold GetBuiltinEntry
    | unfold GetBuiltinFunction
    | unfold LoadHeapObject
theorem codeOf_of_blind (e : Emit Unit) (h : e.FrameBlind) : codeOf e false = codeOf e true := by
  unfold codeOf
  have := h.blind ⟨[], 0, true, false⟩ false
  simp only at this ⊢
  rw [this]

theorem codeOf_none_of_keeps (e : Emit Unit) (h : e.KeepsFailure)
    (hst : e.run ⟨[], 0, false, false⟩ = e.run ⟨[], 0, false, true⟩) :
    codeOf e false = none := by
  unfold codeOf
  simp only
  rw [hst, h.keeps ⟨[], 0, false, true⟩ rfl]
  rfl

/-- C28: `InvokeCode` (both overloads), `InvokeFunction` (both overloads) and
`InvokeBuiltin` fail their assertion when the flag is `CALL_FUNCTION` and the
assembler has no frame; with `JUMP_FUNCTION` the frame flag makes no
difference: without a frame they emit what they emit with one.  The hooks of
the call wrapper are taken not to look at the frame flag themselves. -/
theorem invoke_frame_assertion (cfg : Config) (iso : Isolate) (code function : Register)
    (code_object : Int) (handle : JSFunctionHandle) (id : Int)
    (expected actual : ParameterCount) (rmode : RelocMode) (call_wrapper : CallWrapper)
    (call_kind : CallKind) (hw : call_wrapper.Tame) :
    (codeOf (InvokeCode_Register cfg iso code expected actual InvokeFlag.CALL_FUNCTION
        call_wrapper call_kind) false = none ∧
      codeOf (InvokeCode_Register cfg iso code expected actual InvokeFlag.JUMP_FUNCTION
        call_wrapper call_kind) false =
      codeOf (InvokeCode_Register cfg iso code expected actual InvokeFlag.JUMP_FUNCTION
        call_wrapper call_kind) true) ∧
    (codeOf (InvokeCode_Code cfg iso code_object expected actual rmode InvokeFlag.CALL_FUNCTION
        call_kind) false = none ∧
      codeOf (InvokeCode_Code cfg iso code_object expected actual rmode InvokeFlag.JUMP_FUNCTION
        call_kind) false =
      codeOf (InvokeCode_Code cfg iso code_object expected actual rmode InvokeFlag.JUMP_FUNCTION
        call_kind) true) ∧
    (codeOf (InvokeFunction_Register cfg iso function actual InvokeFlag.CALL_FUNCTION
        call_wrapper call_kind) false = none ∧
      codeOf (InvokeFunction_Register cfg iso function actual InvokeFlag.JUMP_FUNCTION
        call_wrapper call_kind) false =
      codeOf (InvokeFunction_Register cfg iso function actual InvokeFlag.JUMP_FUNCTION
        call_wrapper call_kind) true) ∧
    (codeOf (InvokeFunction_Handle cfg iso handle actual InvokeFlag.CALL_FUNCTION
        call_wrapper call_kind) false = none ∧
      codeOf (InvokeFunction_Handle cfg iso handle actual InvokeFlag.JUMP_FUNCTION
        call_wrapper call_kind) false =
      codeOf (InvokeFunction_Handle cfg iso handle actual InvokeFlag.JUMP_FUNCTION
        call_wrapper call_kind) true) ∧
    (codeOf (InvokeBuiltin cfg iso id InvokeFlag.CALL_FUNCTION call_wrapper) false = none ∧
      codeOf (InvokeBuiltin cfg iso id InvokeFlag.JUMP_FUNCTION call_wrapper) false =
      codeOf (InvokeBuiltin cfg iso id InvokeFlag.JUMP_FUNCTION call_wrapper) true) :=
  ⟨⟨codeOf_none_of_keeps _ (keeps_InvokeCode_Register cfg iso code expected actual _
        call_wrapper call_kind hw) rfl,
      codeOf_of_blind _ (blind_InvokeCode_Register_jump cfg iso code expected actual
        call_wrapper call_kind hw)⟩,
    ⟨codeOf_none_of_keeps _ (keeps_InvokeCode_Code cfg iso code_object expected actual rmode _
        call_kind) rfl,
      codeOf_of_blind _ (blind_InvokeCode_Code_jump cfg iso code_object expected actual rmode
        call_kind)⟩,
    ⟨codeOf_none_of_keeps _ (keeps_InvokeFunction_Register cfg iso function actual _
        call_wrapper call_kind hw) rfl,
      codeOf_of_blind _ (blind_InvokeFunction_Register_jump cfg iso function actual
        call_wrapper call_kind hw)⟩,
    ⟨codeOf_none_of_keeps _ (keeps_InvokeFunction_Handle cfg iso handle actual _
        call_wrapper call_kind hw) rfl,
      codeOf_of_blind _ (blind_InvokeFunction_Handle_jump cfg iso handle actual
        call_wrapper call_kind hw)⟩,
    ⟨codeOf_none_of_keeps _ (keeps_InvokeBuiltin cfg iso id _ call_wrapper hw) rfl,
      codeOf_of_blind _ (blind_InvokeBuiltin_jump cfg iso id call_wrapper hw)⟩⟩

theorem invoke_frame_assertion_witness :
    codeOf (InvokeBuiltin cfg64 (sampleIsolate cfg64) 3 InvokeFlag.CALL_FUNCTION NullCallWrapper)
      false = none ∧
    (codeOf (InvokeBuiltin cfg64 (sampleIsolate cfg64) 3 InvokeFlag.CALL_FUNCTION NullCallWrapper)
      true).isSome = true ∧
    (codeOf (InvokeBuiltin cfg64 (sampleIsolate cfg64) 3 InvokeFlag.JUMP_FUNCTION NullCallWrapper)
      false).isSome = true :=
  ⟨(invoke_frame_assertion cfg64 (sampleIsolate cfg64) r5 r3 0 ⟨0, false, 0, 2⟩ 3
      (ParameterCount.ofImmediate 2) (ParameterCount.ofImmediate 2) RelocMode.CODE_TARGET
      NullCallWrapper CallKind.CALL_AS_FUNCTION NullCallWrapper_tame).2.2.2.2.1,
    by decide, by decide⟩

theorem setLo32_mod_arg (v x : Nat) : setLo32 v (x % M32) = setLo32 v x :=
  setLo32_congr _ _ _ (Nat.mod_mod _ _)

theorem regs_alu3 (cfg : Config) (m : Machine) (k : AluKind) (w : Bool) (d s1 s2 : Register) :
    ((alu3 k w d s1 s2).effect cfg m).regs = fun x =>
      if x = d then writeWidth w (m.regs d)
        (k.apply (widthModulus w) (m.regs s1 % widthModulus w) (m.regs s2 % widthModulus w))
      else m.regs x := by
  cases k <;> cases w
  all_goals first
    | rfl
    | (funext x
       show (if x = d then setLo32 (m.regs d) _ else m.regs x) = _
       simp only [writeWidth, widthModulus, AluKind.apply, Bool.false_eq_true, if_false,
         setLo32_mod_arg])

theorem regs_alu2 (cfg : Config) (m : Machine) (k : AluKind) (w : Bool) (d s : Register) :
    ((alu2 k w d s).effect cfg m).regs = fun x =>
      if x = d then writeWidth w (m.regs d)
        (k.apply (widthModulus w) (m.regs d % widthModulus w) (m.regs s % widthModulus w))
      else m.regs x := by
  have e : (alu2 k w d s).effect cfg m = (alu3 k w d d s).effect cfg m := by
    cases k <;> cases w <;> rfl
  rw [e]
  exact regs_alu3 cfg m k w d d s

theorem regs_copyRR (cfg : Config) (m : Machine) (w : Bool) (d s : Register) :
    ((copyRR w d s).effect cfg m).regs = fun x =>
      if x = d then writeWidth w (m.regs d) (m.regs s % widthModulus w) else m.regs x := by
  cases w
  · funext x
    show (if x = d then setLo32 (m.regs d) _ else m.regs x) = _
    simp only [writeWidth, widthModulus, Bool.false_eq_true, if_false, setLo32_mod_arg]
  · rfl

theorem regs_complementRR (cfg : Config) (m : Machine) (w : Bool) (d s : Register) :
    ((complementRR w d s).effect cfg m).regs = fun x =>
      if x = d then writeWidth w (m.regs d)
        (AluKind.sub.apply (widthModulus w) 0 (m.regs s % widthModulus w))
      else m.regs x := by
  cases w
  · funext x
    show (if x = d then setLo32 (m.regs d) _ else m.regs x) = _
    simp only [writeWidth, widthModulus, AluKind.apply, Bool.false_eq_true, if_false,
      setLo32_mod_arg]
    rfl
  · rfl

theorem widthModulus_pos (w : Bool) : 0 < widthModulus w := by cases w <;> decide

theorem writeWidth_mod (w : Bool) (old v : Nat) :
    writeWidth w old v % widthModulus w = v % widthModulus w := by
  cases w
  · exact setLo32_mod old v
  · rfl

theorem AluKind.apply_lt (k : AluKind) (w : Bool) (a b : Nat) (ha : a < widthModulus w)
    (hb : b < widthModulus w) : k.apply (widthModulus w) a b < widthModulus w := by
  cases k
  · exact Nat.mod_lt _ (widthModulus_pos w)
  · exact Nat.mod_lt _ (widthModulus_pos w)
  · cases w
    · exact land_lt_M32 a b hb
    · have hb2 : b < 2 ^ 64 := hb
      show a &&& b < 2 ^ 64
      exact Nat.and_lt_two_pow a hb2
  · cases w
    · exact lor_lt_M32 a b ha hb
    · have ha2 : a < 2 ^ 64 := ha
      have hb2 : b < 2 ^ 64 := hb
      show a ||| b < 2 ^ 64
      exact Nat.or_lt_two_pow ha2 hb2
  · cases w
    · exact xor_lt_M32 a b ha hb
    · have ha2 : a < 2 ^ 64 := ha
      have hb2 : b < 2 ^ 64 := hb
      show a ^^^ b < 2 ^ 64
      exact Nat.xor_lt_two_pow ha2 hb2

theorem AluKind.apply_mod (k : AluKind) (w : Bool) (a b : Nat) :
    k.apply (widthModulus w) (a % widthModulus w) (b % widthModulus w) % widthModulus w =
      k.apply (widthModulus w) (a % widthModulus w) (b % widthModulus w) :=
  Nat.mod_eq_of_lt (k.apply_lt w _ _ (Nat.mod_lt _ (widthModulus_pos w))
    (Nat.mod_lt _ (widthModulus_pos w)))

theorem AluKind.apply_comm (k : AluKind) (W a b : Nat) (hk : k ≠ AluKind.sub) :
    k.apply W a b = k.apply W b a := by
  cases k
  · show (a + b) % W = (b + a) % W
    rw [Nat.add_comm]
  · exact absurd rfl hk
  · exact Nat.land_comm a b
  · exact Nat.lor_comm a b
  · exact Nat.xor_comm a b

/-- Subtracting the other way round and complementing is subtracting. -/
theorem sub_swap_negate (w : Bool) (a b : Nat) :
    AluKind.sub.apply (widthModulus w) 0
        (AluKind.sub.apply (widthModulus w) (b % widthModulus w) (a % widthModulus w)) =
      AluKind.sub.apply (widthModulus w) (a % widthModulus w) (b % widthModulus w) := by
  cases w <;> simp only [AluKind.apply, widthModulus, Bool.false_eq_true, if_false, if_true,
    M32, M64] <;> omega
/-- The instructions of a three-register primitive leave the result of the
operation on the two sources in `dst`, modulo `2^width`, and change no other
register. -/
theorem run_threeRegisterCode (cfg : Config) (m : Machine) (k : AluKind) (w distinct : Bool)
    (dst s1 s2 : Register) :
    (runStraight cfg (threeRegisterCode k w distinct dst s1 s2) m).regs dst % widthModulus w =
      k.apply (widthModulus w) (m.regs s1 % widthModulus w) (m.regs s2 % widthModulus w) ∧
    ∀ x, x ≠ dst → (runStraight cfg (threeRegisterCode k w distinct dst s1 s2) m).regs x =
      m.regs x := by
  unfold threeRegisterCode
  by_cases hk : k = AluKind.sub
  · subst hk
    by_cases h1 : dst = s1
    · subst h1
      by_cases h2 : dst = s2
      · subst h2
        cases distinct
        · skip
          simp only [*, if_true, if_false, ne_eq, not_true_eq_false, not_false_eq_true, and_true,
            true_and, and_false, false_and, and_self, reduceCtorEq,
            Bool.false_eq_true, runStraight_cons, runStraight_nil, regs_alu2, regs_alu3,
            regs_copyRR, regs_complementRR, writeWidth_mod, Nat.mod_mod, AluKind.apply_mod,
            sub_swap_negate]
          first
            | exact fun x hx => by simp only [hx, if_false]
            | exact ⟨trivial, fun x hx => by simp only [hx, if_false]⟩
            | exact ⟨rfl, fun x hx => by simp only [hx, if_false]⟩
            | exact ⟨AluKind.apply_comm k _ _ _ hk, fun x hx => by simp only [hx, if_false]⟩
        · skip
          simp only [*, if_true, if_false, ne_eq, not_true_eq_false, not_false_eq_true, and_true,
            true_and, and_false, false_and, and_self, reduceCtorEq,
            Bool.false_eq_true, runStraight_cons, runStraight_nil, regs_alu2, regs_alu3,
            regs_copyRR, regs_complementRR, writeWidth_mod, Nat.mod_mod, AluKind.apply_mod,
            sub_swap_negate]
          first
            | exact fun x hx => by simp only [hx, if_false]
            | exact ⟨trivial, fun x hx => by simp only [hx, if_false]⟩
            | exact ⟨rfl, fun x hx => by simp only [hx, if_false]⟩
            | exact ⟨AluKind.apply_comm k _ _ _ hk, fun x hx => by simp only [hx, if_false]⟩
      · have h2' : ¬ s2 = dst := fun h => h2 h.symm
        cases distinct
        · skip
          simp only [*, if_true, if_false, ne_eq, not_true_eq_false, not_false_eq_true, and_true,
            true_and, and_false, false_and, and_self, reduceCtorEq,
            Bool.false_eq_true, runStraight_cons, runStraight_nil, regs_alu2, regs_alu3,
            regs_copyRR, regs_complementRR, writeWidth_mod, Nat.mod_mod, AluKind.apply_mod,
            sub_swap_negate]
          first
            | exact fun x hx => by simp only [hx, if_false]
            | exact ⟨trivial, fun x hx => by simp only [hx, if_false]⟩
            | exact ⟨rfl, fun x hx => by simp only [hx, if_false]⟩
            | exact ⟨AluKind.apply_comm k _ _ _ hk, fun x hx => by simp only [hx, if_false]⟩
        · skip
          simp only [*, if_true, if_false, ne_eq, not_true_eq_false, not_false_eq_true, and_true,
            true_and, and_false, false_and, and_self, reduceCtorEq,
            Bool.false_eq_true, runStraight_cons, runStraight_nil, regs_alu2, regs_alu3,
            regs_copyRR, regs_complementRR, writeWidth_mod, Nat.mod_mod, AluKind.apply_mod,
            sub_swap_negate]
          first
            | exact fun x hx => by simp only [hx, if_false]
            | exact ⟨trivial, fun x hx => by simp only [hx, if_false]⟩
            | exact ⟨rfl, fun x hx => by simp only [hx, if_false]⟩
            | exact ⟨AluKind.apply_comm k _ _ _ hk, fun x hx => by simp only [hx, if_false]⟩
    · have h1' : ¬ s1 = dst := fun h => h1 h.symm
      by_cases h2 : dst = s2
      · subst h2
        cases distinct
        · skip
          simp only [*, if_true, if_false, ne_eq, not_true_eq_false, not_false_eq_true, and_true,
            true_and, and_false, false_and, and_self, reduceCtorEq,
            Bool.false_eq_true, runStraight_cons, runStraight_nil, regs_alu2, regs_alu3,
            regs_copyRR, regs_complementRR, writeWidth_mod, Nat.mod_mod, AluKind.apply_mod,
            sub_swap_negate]
          first
            | exact fun x hx => by simp only [hx, if_false]
            | exact ⟨trivial, fun x hx => by simp only [hx, if_false]⟩
            | exact ⟨rfl, fun x hx => by simp only [hx, if_false]⟩
            | exact ⟨AluKind.apply_comm k _ _ _ hk, fun x hx => by simp only [hx, if_false]⟩
        · skip
          simp only [*, if_true, if_false, ne_eq, not_true_eq_false, not_false_eq_true, and_true,
            true_and, and_false, false_and, and_self, reduceCtorEq,
            Bool.false_eq_true, runStraight_cons, runStraight_nil, regs_alu2, regs_alu3,
            regs_copyRR, regs_complementRR, writeWidth_mod, Nat.mod_mod, AluKind.apply_mod,
            sub_swap_negate]
          first
            | exact fun x hx => by simp only [hx, if_false]
            | exact ⟨trivial, fun x hx => by simp only [hx, if_false]⟩
            | exact ⟨rfl, fun x hx => by simp only [hx, if_false]⟩
            | exact ⟨AluKind.apply_comm k _ _ _ hk, fun x hx => by simp only [hx, if_false]⟩
      · have h2' : ¬ s2 = dst := fun h => h2 h.symm
        cases distinct
        · skip
          simp only [*, if_true, if_false, ne_eq, not_true_eq_false, not_false_eq_true, and_true,
            true_and, and_false, false_and, and_self, reduceCtorEq,
            Bool.false_eq_true, runStraight_cons, runStraight_nil, regs_alu2, regs_alu3,
            regs_copyRR, regs_complementRR, writeWidth_mod, Nat.mod_mod, AluKind.apply_mod,
            sub_swap_negate]
          first
            | exact fun x hx => by simp only [hx, if_false]
            | exact ⟨trivial, fun x hx => by simp only [hx, if_false]⟩
            | exact ⟨rfl, fun x hx => by simp only [hx, if_false]⟩
            | exact ⟨AluKind.apply_comm k _ _ _ hk, fun x hx => by simp only [hx, if_false]⟩
        · skip
          simp only [*, if_true, if_false, ne_eq, not_true_eq_false, not_false_eq_true, and_true,
            true_and, and_false, false_and, and_self, reduceCtorEq,
            Bool.false_eq_true, runStraight_cons, runStraight_nil, regs_alu2, regs_alu3,
            regs_copyRR, regs_complementRR, writeWidth_mod, Nat.mod_mod, AluKind.apply_mod,
            sub_swap_negate]
          first
            | exact fun x hx => by simp only [hx, if_false]
            | exact ⟨trivial, fun x hx => by simp only [hx, if_false]⟩
            | exact ⟨rfl, fun x hx => by simp only [hx, if_false]⟩
            | exact ⟨AluKind.apply_comm k _ _ _ hk, fun x hx => by simp only [hx, if_false]⟩
  · skip
    by_cases h1 : dst = s1
    · subst h1
      by_cases h2 : dst = s2
      · subst h2
        cases distinct
        · skip
          simp only [*, if_true, if_false, ne_eq, not_true_eq_false, not_false_eq_true, and_true,
            true_and, and_false, false_and, and_self, reduceCtorEq,
            Bool.false_eq_true, runStraight_cons, runStraight_nil, regs_alu2, regs_alu3,
            regs_copyRR, regs_complementRR, writeWidth_mod, Nat.mod_mod, AluKind.apply_mod,
            sub_swap_negate]
          first
            | exact fun x hx => by simp only [hx, if_false]
            | exact ⟨trivial, fun x hx => by simp only [hx, if_false]⟩
            | exact ⟨rfl, fun x hx => by simp only [hx, if_false]⟩
            | exact ⟨AluKind.apply_comm k _ _ _ hk, fun x hx => by simp only [hx, if_false]⟩
        · skip
          simp only [*, if_true, if_false, ne_eq, not_true_eq_false, not_false_eq_true, and_true,
            true_and, and_false, false_and, and_self, reduceCtorEq,
            Bool.false_eq_true, runStraight_cons, runStraight_nil, regs_alu2, regs_alu3,
            regs_copyRR, regs_complementRR, writeWidth_mod, Nat.mod_mod, AluKind.apply_mod,
            sub_swap_negate]
          first
            | exact fun x hx => by simp only [hx, if_false]
            | exact ⟨trivial, fun x hx => by simp only [hx, if_false]⟩
            | exact ⟨rfl, fun x hx => by simp only [hx, if_false]⟩
            | exact ⟨AluKind.apply_comm k _ _ _ hk, fun x hx => by simp only [hx, if_false]⟩
      · have h2' : ¬ s2 = dst := fun h => h2 h.symm
        cases distinct
        · skip
          simp only [*, if_true, if_false, ne_eq, not_true_eq_false, not_false_eq_true, and_true,
            true_and, and_false, false_and, and_self, reduceCtorEq,
            Bool.false_eq_true, runStraight_cons, runStraight_nil, regs_alu2, regs_alu3,
            regs_copyRR, regs_complementRR, writeWidth_mod, Nat.mod_mod, AluKind.apply_mod,
            sub_swap_negate]
          first
            | exact fun x hx => by simp only [hx, if_false]
            | exact ⟨trivial, fun x hx => by simp only [hx, if_false]⟩
            | exact ⟨rfl, fun x hx => by simp only [hx, if_false]⟩
            | exact ⟨AluKind.apply_comm k _ _ _ hk, fun x hx => by simp only [hx, if_false]⟩
        · skip
          simp only [*, if_true, if_false, ne_eq, not_true_eq_false, not_false_eq_true, and_true,
            true_and, and_false, false_and, and_self, reduceCtorEq,
            Bool.false_eq_true, runStraight_cons, runStraight_nil, regs_alu2, regs_alu3,
            regs_copyRR, regs_complementRR, writeWidth_mod, Nat.mod_mod, AluKind.apply_mod,
            sub_swap_negate]
          first
            | exact fun x hx => by simp only [hx, if_false]
            | exact ⟨trivial, fun x hx => by simp only [hx, if_false]⟩
            | exact ⟨rfl, fun x hx => by simp only [hx, if_false]⟩
            | exact ⟨AluKind.apply_comm k _ _ _ hk, fun x hx => by simp only [hx, if_false]⟩
    · have h1' : ¬ s1 = dst := fun h => h1 h.symm
      by_cases h2 : dst = s2
      · subst h2
        cases distinct
        · skip
          simp only [*, if_true, if_false, ne_eq, not_true_eq_false, not_false_eq_true, and_true,
            true_and, and_false, false_and, and_self, reduceCtorEq,
            Bool.false_eq_true, runStraight_cons, runStraight_nil, regs_alu2, regs_alu3,
            regs_copyRR, regs_complementRR, writeWidth_mod, Nat.mod_mod, AluKind.apply_mod,
            sub_swap_negate]
          first
            | exact fun x hx => by simp only [hx, if_false]
            | exact ⟨trivial, fun x hx => by simp only [hx, if_false]⟩
            | exact ⟨rfl, fun x hx => by simp only [hx, if_false]⟩
            | exact ⟨AluKind.apply_comm k _ _ _ hk, fun x hx => by simp only [hx, if_false]⟩
        · skip
          simp only [*, if_true, if_false, ne_eq, not_true_eq_false, not_false_eq_true, and_true,
            true_and, and_false, false_and, and_self, reduceCtorEq,
            Bool.false_eq_true, runStraight_cons, runStraight_nil, regs_alu2, regs_alu3,
            regs_copyRR, regs_complementRR, writeWidth_mod, Nat.mod_mod, AluKind.apply_mod,
            sub_swap_negate]
          first
            | exact fun x hx => by simp only [hx, if_false]
            | exact ⟨trivial, fun x hx => by simp only [hx, if_false]⟩
            | exact ⟨rfl, fun x hx => by simp only [hx, if_false]⟩
            | exact ⟨AluKind.apply_comm k _ _ _ hk, fun x hx => by simp only [hx, if_false]⟩
      · have h2' : ¬ s2 = dst := fun h => h2 h.symm
        cases distinct
        · skip
          simp only [*, if_true, if_false, ne_eq, not_true_eq_false, not_false_eq_true, and_true,
            true_and, and_false, false_and, and_self, reduceCtorEq,
            Bool.false_eq_true, runStraight_cons, runStraight_nil, regs_alu2, regs_alu3,
            regs_copyRR, regs_complementRR, writeWidth_mod, Nat.mod_mod, AluKind.apply_mod,
            sub_swap_negate]
          first
            | exact fun x hx => by simp only [hx, if_false]
            | exact ⟨trivial, fun x hx => by simp only [hx, if_false]⟩
            | exact ⟨rfl, fun x hx => by simp only [hx, if_false]⟩
            | exact ⟨AluKind.apply_comm k _ _ _ hk, fun x hx => by simp only [hx, if_false]⟩
        · skip
          simp only [*, if_true, if_false, ne_eq, not_true_eq_false, not_false_eq_true, and_true,
            true_and, and_false, false_and, and_self, reduceCtorEq,
            Bool.false_eq_true, runStraight_cons, runStraight_nil, regs_alu2, regs_alu3,
            regs_copyRR, regs_complementRR, writeWidth_mod, Nat.mod_mod, AluKind.apply_mod,
            sub_swap_negate]
          first
            | exact fun x hx => by simp only [hx, if_false]
            | exact ⟨trivial, fun x hx => by simp only [hx, if_false]⟩
            | exact ⟨rfl, fun x hx => by simp only [hx, if_false]⟩
            | exact ⟨AluKind.apply_comm k _ _ _ hk, fun x hx => by simp only [hx, if_false]⟩
theorem codeOf_of_run (e : Emit Unit) (L : List Instr) (frame : Bool) (code : List Instr)
    (h : ∀ st, e.run st =
      ((), { st with code := st.code ++ L, failed := st.failed || !(L.all Instr.encodable) }))
    (hcode : codeOf e frame = some code) : code = L := by
  unfold codeOf at hcode
  rw [h] at hcode
  simp only [List.nil_append] at hcode
  exact (code_of_ite hcode).1

theorem Add32_Register_Register_code (cfg : Config) (dst s1 s2 : Register) (st : Asm) :
    (Add32_Register_Register cfg dst s1 s2).run st =
      ((), { st with
        code := st.code ++ threeRegisterCode AluKind.add false cfg.distinct_ops dst s1 s2,
        failed := st.failed ||
          !((threeRegisterCode AluKind.add false cfg.distinct_ops dst s1 s2).all
            Instr.encodable) }) := by
  by_cases h1 : dst = s1
  · subst h1
    by_cases h2 : dst = s2
    · subst h2
      cases hd : cfg.distinct_ops <;>
      simp [Add32_Register_Register, Add32_Register, threeRegisterCode, alu2, alu3, copyRR,
        complementRR, *, Bool.or_assoc, Bool.not_and]
    · cases hd : cfg.distinct_ops <;>
      simp [Add32_Register_Register, Add32_Register, threeRegisterCode, alu2, alu3, copyRR,
        complementRR, *, Bool.or_assoc, Bool.not_and]
  · by_cases h2 : dst = s2
    · subst h2
      cases hd : cfg.distinct_ops <;>
      simp [Add32_Register_Register, Add32_Register, threeRegisterCode, alu2, alu3, copyRR,
        complementRR, *, Bool.or_assoc, Bool.not_and]
    · cases hd : cfg.distinct_ops <;>
      simp [Add32_Register_Register, Add32_Register, threeRegisterCode, alu2, alu3, copyRR,
        complementRR, *, Bool.or_assoc, Bool.not_and]

theorem AddP_Register_Register_code (cfg : Config) (dst s1 s2 : Register) (st : Asm) :
    (AddP_Register_Register cfg dst s1 s2).run st =
      ((), { st with
        code := st.code ++ threeRegisterCode AluKind.add cfg.is64 cfg.distinct_ops dst s1 s2,
        failed := st.failed ||
          !((threeRegisterCode AluKind.add cfg.is64 cfg.distinct_ops dst s1 s2).all
            Instr.encodable) }) := by
  by_cases h1 : dst = s1
  · subst h1
    by_cases h2 : dst = s2
    · subst h2
      cases hd : cfg.distinct_ops <;> cases h64 : cfg.is64 <;>
      simp [AddP_Register_Register, AddP_RRR, LoadRR, AddRR, threeRegisterCode, alu2, alu3, copyRR,
        complementRR, *, Bool.or_assoc, Bool.not_and]
    · cases hd : cfg.distinct_ops <;> cases h64 : cfg.is64 <;>
      simp [AddP_Register_Register, AddP_RRR, LoadRR, AddRR, threeRegisterCode, alu2, alu3, copyRR,
        complementRR, *, Bool.or_assoc, Bool.not_and]
  · by_cases h2 : dst = s2
    · subst h2
      cases hd : cfg.distinct_ops <;> cases h64 : cfg.is64 <;>
      simp [AddP_Register_Register, AddP_RRR, LoadRR, AddRR, threeRegisterCode, alu2, alu3, copyRR,
        complementRR, *, Bool.or_assoc, Bool.not_and]
    · cases hd : cfg.distinct_ops <;> cases h64 : cfg.is64 <;>
      simp [AddP_Register_Register, AddP_RRR, LoadRR, AddRR, threeRegisterCode, alu2, alu3, copyRR,
        complementRR, *, Bool.or_assoc, Bool.not_and]

theorem Sub32_Register_Register_code (cfg : Config) (dst s1 s2 : Register) (st : Asm) :
    (Sub32_Register_Register cfg dst s1 s2).run st =
      ((), { st with
        code := st.code ++ threeRegisterCode AluKind.sub false cfg.distinct_ops dst s1 s2,
        failed := st.failed ||
          !((threeRegisterCode AluKind.sub false cfg.distinct_ops dst s1 s2).all
            Instr.encodable) }) := by
  by_cases h1 : dst = s1
  · subst h1
    by_cases h2 : dst = s2
    · subst h2
      cases hd : cfg.distinct_ops <;>
      simp [Sub32_Register_Register, Sub32_Register, threeRegisterCode, alu2, alu3, copyRR,
        complementRR, *, Bool.or_assoc, Bool.not_and]
    · cases hd : cfg.distinct_ops <;>
      simp [Sub32_Register_Register, Sub32_Register, threeRegisterCode, alu2, alu3, copyRR,
        complementRR, *, Bool.or_assoc, Bool.not_and]
  · by_cases h2 : dst = s2
    · subst h2
      cases hd : cfg.distinct_ops <;>
      simp [Sub32_Register_Register, Sub32_Register, threeRegisterCode, alu2, alu3, copyRR,
        complementRR, *, Bool.or_assoc, Bool.not_and]
    · cases hd : cfg.distinct_ops <;>
      simp [Sub32_Register_Register, Sub32_Register, threeRegisterCode, alu2, alu3, copyRR,
        complementRR, *, Bool.or_assoc, Bool.not_and]

theorem SubP_Register_Register_code (cfg : Config) (dst s1 s2 : Register) (st : Asm) :
    (SubP_Register_Register cfg dst s1 s2).run st =
      ((), { st with
        code := st.code ++ threeRegisterCode AluKind.sub cfg.is64 cfg.distinct_ops dst s1 s2,
        failed := st.failed ||
          !((threeRegisterCode AluKind.sub cfg.is64 cfg.distinct_ops dst s1 s2).all
            Instr.encodable) }) := by
  by_cases h1 : dst = s1
  · subst h1
    by_cases h2 : dst = s2
    · subst h2
      cases hd : cfg.distinct_ops <;> cases h64 : cfg.is64 <;>
      simp [SubP_Register_Register, SubP_RRR, LoadRR, SubP_Register, SubRR, LoadComplementRR, threeRegisterCode, alu2, alu3, copyRR,
        complementRR, *, Bool.or_assoc, Bool.not_and]
    · cases hd : cfg.distinct_ops <;> cases h64 : cfg.is64 <;>
      simp [SubP_Register_Register, SubP_RRR, LoadRR, SubP_Register, SubRR, LoadComplementRR, threeRegisterCode, alu2, alu3, copyRR,
        complementRR, *, Bool.or_assoc, Bool.not_and]
  · by_cases h2 : dst = s2
    · subst h2
      cases hd : cfg.distinct_ops <;> cases h64 : cfg.is64 <;>
      simp [SubP_Register_Register, SubP_RRR, LoadRR, SubP_Register, SubRR, LoadComplementRR, threeRegisterCode, alu2, alu3, copyRR,
        complementRR, *, Bool.or_assoc, Bool.not_and]
    · cases hd : cfg.distinct_ops <;> cases h64 : cfg.is64 <;>
      simp [SubP_Register_Register, SubP_RRR, LoadRR, SubP_Register, SubRR, LoadComplementRR, threeRegisterCode, alu2, alu3, copyRR,
        complementRR, *, Bool.or_assoc, Bool.not_and]

theorem And_Register_Register_code (cfg : Config) (dst s1 s2 : Register) (st : Asm) :
    (And_Register_Register cfg dst s1 s2).run st =
      ((), { st with
        code := st.code ++ threeRegisterCode AluKind.and false cfg.distinct_ops dst s1 s2,
        failed := st.failed ||
          !((threeRegisterCode AluKind.and false cfg.distinct_ops dst s1 s2).all
            Instr.encodable) }) := by
  by_cases h1 : dst = s1
  · subst h1
    by_cases h2 : dst = s2
    · subst h2
      cases hd : cfg.distinct_ops <;>
      simp [And_Register_Register, And_Register, threeRegisterCode, alu2, alu3, copyRR,
        complementRR, *, Bool.or_assoc, Bool.not_and]
    · cases hd : cfg.distinct_ops <;>
      simp [And_Register_Register, And_Register, threeRegisterCode, alu2, alu3, copyRR,
        complementRR, *, Bool.or_assoc, Bool.not_and]
  · by_cases h2 : dst = s2
    · subst h2
      cases hd : cfg.distinct_ops <;>
      simp [And_Register_Register, And_Register, threeRegisterCode, alu2, alu3, copyRR,
        complementRR, *, Bool.or_assoc, Bool.not_and]
    · cases hd : cfg.distinct_ops <;>
      simp [And_Register_Register, And_Register, threeRegisterCode, alu2, alu3, copyRR,
        complementRR, *, Bool.or_assoc, Bool.not_and]

theorem AndP_Register_Register_code (cfg : Config) (dst s1 s2 : Register) (st : Asm) :
    (AndP_Register_Register cfg dst s1 s2).run st =
      ((), { st with
        code := st.code ++ threeRegisterCode AluKind.and cfg.is64 cfg.distinct_ops dst s1 s2,
        failed := st.failed ||
          !((threeRegisterCode AluKind.and cfg.is64 cfg.distinct_ops dst s1 s2).all
            Instr.encodable) }) := by
  by_cases h1 : dst = s1
  · subst h1
    by_cases h2 : dst = s2
    · subst h2
      cases hd : cfg.distinct_ops <;> cases h64 : cfg.is64 <;>
      simp [AndP_Register_Register, AndP_RRR, LoadRR, AndP_Register, AndRR, threeRegisterCode, alu2, alu3, copyRR,
        complementRR, *, Bool.or_assoc, Bool.not_and]
    · cases hd : cfg.distinct_ops <;> cases h64 : cfg.is64 <;>
      simp [AndP_Register_Register, AndP_RRR, LoadRR, AndP_Register, AndRR, threeRegisterCode, alu2, alu3, copyRR,
        complementRR, *, Bool.or_assoc, Bool.not_and]
  · by_cases h2 : dst = s2
    · subst h2
      cases hd : cfg.distinct_ops <;> cases h64 : cfg.is64 <;>
      simp [AndP_Register_Register, AndP_RRR, LoadRR, AndP_Register, AndRR, threeRegisterCode, alu2, alu3, copyRR,
        complementRR, *, Bool.or_assoc, Bool.not_and]
    · cases hd : cfg.distinct_ops <;> cases h64 : cfg.is64 <;>
      simp [AndP_Register_Register, AndP_RRR, LoadRR, AndP_Register, AndRR, threeRegisterCode, alu2, alu3, copyRR,
        complementRR, *, Bool.or_assoc, Bool.not_and]

theorem Or_Register_Register_code (cfg : Config) (dst s1 s2 : Register) (st : Asm) :
    (Or_Register_Register cfg dst s1 s2).run st =
      ((), { st with
        code := st.code ++ threeRegisterCode AluKind.or false cfg.distinct_ops dst s1 s2,
        failed := st.failed ||
          !((threeRegisterCode AluKind.or false cfg.distinct_ops dst s1 s2).all
            Instr.encodable) }) := by
  by_cases h1 : dst = s1
  · subst h1
    by_cases h2 : dst = s2
    · subst h2
      cases hd : cfg.distinct_ops <;>
      simp [Or_Register_Register, Or_Register, threeRegisterCode, alu2, alu3, copyRR,
        complementRR, *, Bool.or_assoc, Bool.not_and]
    · cases hd : cfg.distinct_ops <;>
      simp [Or_Register_Register, Or_Register, threeRegisterCode, alu2, alu3, copyRR,
        complementRR, *, Bool.or_assoc, Bool.not_and]
  · by_cases h2 : dst = s2
    · subst h2
      cases hd : cfg.distinct_ops <;>
      simp [Or_Register_Register, Or_Register, threeRegisterCode, alu2, alu3, copyRR,
        complementRR, *, Bool.or_assoc, Bool.not_and]
    · cases hd : cfg.distinct_ops <;>
      simp [Or_Register_Register, Or_Register, threeRegisterCode, alu2, alu3, copyRR,
        complementRR, *, Bool.or_assoc, Bool.not_and]

theorem OrP_Register_Register_code (cfg : Config) (dst s1 s2 : Register) (st : Asm) :
    (OrP_Register_Register cfg dst s1 s2).run st =
      ((), { st with
        code := st.code ++ threeRegisterCode AluKind.or cfg.is64 cfg.distinct_ops dst s1 s2,
        failed := st.failed ||
          !((threeRegisterCode AluKind.or cfg.is64 cfg.distinct_ops dst s1 s2).all
            Instr.encodable) }) := by
  by_cases h1 : dst = s1
  · subst h1
    by_cases h2 : dst = s2
    · subst h2
      cases hd : cfg.distinct_ops <;> cases h64 : cfg.is64 <;>
      simp [OrP_Register_Register, OrP_RRR, LoadRR, OrP_Register, OrRR, threeRegisterCode, alu2, alu3, copyRR,
        complementRR, *, Bool.or_assoc, Bool.not_and]
    · cases hd : cfg.distinct_ops <;> cases h64 : cfg.is64 <;>
      simp [OrP_Register_Register, OrP_RRR, LoadRR, OrP_Register, OrRR, threeRegisterCode, alu2, alu3, copyRR,
        complementRR, *, Bool.or_assoc, Bool.not_and]
  · by_cases h2 : dst = s2
    · subst h2
      cases hd : cfg.distinct_ops <;> cases h64 : cfg.is64 <;>
      simp [OrP_Register_Register, OrP_RRR, LoadRR, OrP_Register, OrRR, threeRegisterCode, alu2, alu3, copyRR,
        complementRR, *, Bool.or_assoc, Bool.not_and]
    · cases hd : cfg.distinct_ops <;> cases h64 : cfg.is64 <;>
      simp [OrP_Register_Register, OrP_RRR, LoadRR, OrP_Register, OrRR, threeRegisterCode, alu2, alu3, copyRR,
        complementRR, *, Bool.or_assoc, Bool.not_and]

theorem Xor_Register_Register_code (cfg : Config) (dst s1 s2 : Register) (st : Asm) :
    (Xor_Register_Register cfg dst s1 s2).run st =
      ((), { st with
        code := st.code ++ threeRegisterCode AluKind.xor false cfg.distinct_ops dst s1 s2,
        failed := st.failed ||
          !((threeRegisterCode AluKind.xor false cfg.distinct_ops dst s1 s2).all
            Instr.encodable) }) := by
  by_cases h1 : dst = s1
  · subst h1
    by_cases h2 : dst = s2
    · subst h2
      cases hd : cfg.distinct_ops <;>
      simp [Xor_Register_Register, Xor_Register, threeRegisterCode, alu2, alu3, copyRR,
        complementRR, *, Bool.or_assoc, Bool.not_and]
    · cases hd : cfg.distinct_ops <;>
      simp [Xor_Register_Register, Xor_Register, threeRegisterCode, alu2, alu3, copyRR,
        complementRR, *, Bool.or_assoc, Bool.not_and]
  · by_cases h2 : dst = s2
    · subst h2
      cases hd : cfg.distinct_ops <;>
      simp [Xor_Register_Register, Xor_Register, threeRegisterCode, alu2, alu3, copyRR,
        complementRR, *, Bool.or_assoc, Bool.not_and]
    · cases hd : cfg.distinct_ops <;>
      simp [Xor_Register_Register, Xor_Register, threeRegisterCode, alu2, alu3, copyRR,
        complementRR, *, Bool.or_assoc, Bool.not_and]

theorem XorP_Register_Register_code (cfg : Config) (dst s1 s2 : Register) (st : Asm) :
    (XorP_Register_Register cfg dst s1 s2).run st =
      ((), { st with
        code := st.code ++ threeRegisterCode AluKind.xor cfg.is64 cfg.distinct_ops dst s1 s2,
        failed := st.failed ||
          !((threeRegisterCode AluKind.xor cfg.is64 cfg.distinct_ops dst s1 s2).all
            Instr.encodable) }) := by
  by_cases h1 : dst = s1
  · subst h1
    by_cases h2 : dst = s2
    · subst h2
      cases hd : cfg.distinct_ops <;> cases h64 : cfg.is64 <;>
      simp [XorP_Register_Register, XorP_RRR, LoadRR, XorP_Register, XorRR, threeRegisterCode, alu2, alu3, copyRR,
        complementRR, *, Bool.or_assoc, Bool.not_and]
    · cases hd : cfg.distinct_ops <;> cases h64 : cfg.is64 <;>
      simp [XorP_Register_Register, XorP_RRR, LoadRR, XorP_Register, XorRR, threeRegisterCode, alu2, alu3, copyRR,
        complementRR, *, Bool.or_assoc, Bool.not_and]
  · by_cases h2 : dst = s2
    · subst h2
      cases hd : cfg.distinct_ops <;> cases h64 : cfg.is64 <;>
      simp [XorP_Register_Register, XorP_RRR, LoadRR, XorP_Register, XorRR, threeRegisterCode, alu2, alu3, copyRR,
        complementRR, *, Bool.or_assoc, Bool.not_and]
    · cases hd : cfg.distinct_ops <;> cases h64 : cfg.is64 <;>
      simp [XorP_Register_Register, XorP_RRR, LoadRR, XorP_Register, XorRR, threeRegisterCode, alu2, alu3, copyRR,
        complementRR, *, Bool.or_assoc, Bool.not_and]

theorem threeRegisterCode_facts (k : AluKind) (w distinct : Bool) (dst s1 s2 : Register) :
    (∀ i ∈ threeRegisterCode k w distinct dst s1 s2, i.isStraight = true) ∧
    ((dst = s1 ∨ dst = s2) → ¬ (k = AluKind.sub ∧ distinct = true ∧ dst ≠ s1) →
      ∀ i ∈ threeRegisterCode k w distinct dst s1 s2, i.isThreeOperand = false) ∧
    (k = AluKind.sub → dst = s2 → dst ≠ s1 →
      threeRegisterCode k w distinct dst s1 s2 =
        if distinct = true then [alu3 AluKind.sub w dst s1 s2]
        else [alu2 AluKind.sub w dst s1, complementRR w dst dst]) := by
  unfold threeRegisterCode
  by_cases hk : k = AluKind.sub
  · subst hk
    have hk : AluKind.sub = AluKind.sub := rfl
    have a2 : ∀ d s, (alu2 AluKind.sub w d s).isStraight = true ∧
        (alu2 AluKind.sub w d s).isThreeOperand = false :=
      fun d s => by cases w <;> exact ⟨rfl, rfl⟩
    have a3 : ∀ d s t, (alu3 AluKind.sub w d s t).isStraight = true :=
      fun d s t => by cases w <;> rfl
    have c2 : ∀ d s, (copyRR w d s).isStraight = true ∧ (copyRR w d s).isThreeOperand = false :=
      fun d s => by cases w <;> exact ⟨rfl, rfl⟩
    have n2 : ∀ d s, (complementRR w d s).isStraight = true ∧
        (complementRR w d s).isThreeOperand = false :=
      fun d s => by cases w <;> exact ⟨rfl, rfl⟩
    by_cases h1 : dst = s1 <;> by_cases h2 : dst = s2 <;> cases distinct
    all_goals
      simp only [hk, h1, h2, if_true, if_false, ne_eq, not_true_eq_false, not_false_eq_true,
        and_true, true_and, and_false, false_and, and_self, Bool.false_eq_true, List.mem_cons,
        List.mem_singleton, List.not_mem_nil, or_false, forall_eq_or_imp, forall_eq, a2, a3,
        c2, n2, or_true, true_or, or_self, false_implies, implies_true, true_implies,
        imp_false, not_not, reduceCtorEq]
    all_goals first
      | trivial
      | (subst h2; trivial)
      | simp_all
  ·
    have a2 : ∀ d s, (alu2 k w d s).isStraight = true ∧
        (alu2 k w d s).isThreeOperand = false :=
      fun d s => by cases k <;> cases w <;> exact ⟨rfl, rfl⟩
    have a3 : ∀ d s t, (alu3 k w d s t).isStraight = true :=
      fun d s t => by cases k <;> cases w <;> rfl
    have c2 : ∀ d s, (copyRR w d s).isStraight = true ∧ (copyRR w d s).isThreeOperand = false :=
      fun d s => by cases w <;> exact ⟨rfl, rfl⟩
    have n2 : ∀ d s, (complementRR w d s).isStraight = true ∧
        (complementRR w d s).isThreeOperand = false :=
      fun d s => by cases w <;> exact ⟨rfl, rfl⟩
    by_cases h1 : dst = s1 <;> by_cases h2 : dst = s2 <;> cases distinct
    all_goals
      simp only [hk, h1, h2, if_true, if_false, ne_eq, not_true_eq_false, not_false_eq_true,
        and_true, true_and, and_false, false_and, and_self, Bool.false_eq_true, List.mem_cons,
        List.mem_singleton, List.not_mem_nil, or_false, forall_eq_or_imp, forall_eq, a2, a3,
        c2, n2, or_true, true_or, or_self, false_implies, implies_true, true_implies,
        imp_false, not_not, reduceCtorEq]
    all_goals first
      | trivial
      | (subst h2; trivial)
      | simp_all

/-- C23 (amended): for each three-register primitive `op` of `Add32`, `AddP`,
`Sub32`, `SubP`, `And`, `AndP`, `Or`, `OrP`, `Xor`, `XorP`, every choice of `dst`,
`src1`, `src2` (aliased in any way) and with or without the distinct-operands
facility, the emitted code is straight-line code that leaves
`dst = src1 op src2` modulo `2^width` and changes no general register other
than `dst`.  When `dst` equals an input no three-operand instruction is
emitted, except by a subtraction with `dst = src2 ≠ src1` under the
distinct-operands facility, which emits the three-operand subtraction; without
the facility that subtraction emits the swapped subtraction followed by the
complement. -/
theorem three_register_primitives (cfg : Config) (op : ThreeRegisterOp)
    (dst src1 src2 : Register) (frame : Bool) (code : List Instr)
    (hcode : codeOf (op.emitter cfg dst src1 src2) frame = some code) :
    (∀ i ∈ code, i.isStraight = true) ∧
    (∀ m : Machine,
      (runStraight cfg code m).regs dst % op.modulus cfg =
        op.kind.apply (op.modulus cfg) (m.regs src1 % op.modulus cfg)
          (m.regs src2 % op.modulus cfg) ∧
      ∀ x, x ≠ dst → (runStraight cfg code m).regs x = m.regs x) ∧
    ((dst = src1 ∨ dst = src2) →
      ¬ (op.kind = AluKind.sub ∧ cfg.distinct_ops = true ∧ dst ≠ src1) →
      ∀ i ∈ code, i.isThreeOperand = false) ∧
    (op.kind = AluKind.sub → dst = src2 → dst ≠ src1 →
      code = if cfg.distinct_ops = true then [alu3 AluKind.sub (op.wide cfg) dst src1 src2]
        else [alu2 AluKind.sub (op.wide cfg) dst src1, complementRR (op.wide cfg) dst dst]) := by
  have key : code = threeRegisterCode op.kind (op.wide cfg) cfg.distinct_ops dst src1 src2 := by
    cases op
    · exact codeOf_of_run _ _ frame code (Add32_Register_Register_code cfg dst src1 src2) hcode
    · exact codeOf_of_run _ _ frame code (AddP_Register_Register_code cfg dst src1 src2) hcode
    · exact codeOf_of_run _ _ frame code (Sub32_Register_Register_code cfg dst src1 src2) hcode
    · exact codeOf_of_run _ _ frame code (SubP_Register_Register_code cfg dst src1 src2) hcode
    · exact codeOf_of_run _ _ frame code (And_Register_Register_code cfg dst src1 src2) hcode
    · exact codeOf_of_run _ _ frame code (AndP_Register_Register_code cfg dst src1 src2) hcode
    · exact codeOf_of_run _ _ frame code (Or_Register_Register_code cfg dst src1 src2) hcode
    · exact codeOf_of_run _ _ frame code (OrP_Register_Register_code cfg dst src1 src2) hcode
    · exact codeOf_of_run _ _ frame code (Xor_Register_Register_code cfg dst src1 src2) hcode
    · exact codeOf_of_run _ _ frame code (XorP_Register_Register_code cfg dst src1 src2) hcode
  subst key
  obtain ⟨f1, f2, f3⟩ := threeRegisterCode_facts op.kind (op.wide cfg) cfg.distinct_ops dst
    src1 src2
  exact ⟨f1, fun m => run_threeRegisterCode cfg m op.kind (op.wide cfg) cfg.distinct_ops dst
    src1 src2, f2, f3⟩

/-- With the distinct-operands facility a subtraction whose destination is
its second source emits the three-operand instruction, not a two-operand
form. -/
theorem Sub32_aliased_emits_three_operand_form :
    codeOf (Sub32_Register_Register cfgDistinct r2 r3 r2) false = some [Instr.srk r2 r3 r2] ∧
      (Instr.srk r2 r3 r2).isThreeOperand = true ∧ r2 = r2 ∧ r2 ≠ r3 :=
  ⟨rfl, rfl, rfl, by decide⟩

theorem three_register_primitives_witness :
    (runStraight cfg64 [Instr.sr r2 r3, Instr.lcr r2 r2] (stackMachine 65536 7 9)).regs r2 %
        ThreeRegisterOp.Sub32.modulus cfg64 =
      AluKind.sub.apply (ThreeRegisterOp.Sub32.modulus cfg64)
        ((stackMachine 65536 7 9).regs r3 % ThreeRegisterOp.Sub32.modulus cfg64)
        ((stackMachine 65536 7 9).regs r2 % ThreeRegisterOp.Sub32.modulus cfg64) :=
  ((three_register_primitives cfg64 ThreeRegisterOp.Sub32 r2 r3 r2 false _ rfl).2.1
    (stackMachine 65536 7 9)).1

/-! ## Overflow-checked addition and subtraction -/

theorem setLow_apply (ρ : Register → Nat) (d : Register) (v : Nat) (x : Register) :
    setLow ρ d v x = if x = d then v else ρ x := rfl

theorem low_lt (m : Machine) (w : Bool) (x : Register) :
    m.low (widthModulus w) x < widthModulus w := Nat.mod_lt _ (widthModulus_pos w)

theorem low_alu2 (cfg : Config) (m : Machine) (k : AluKind) (w : Bool) (d s : Register) :
    ((alu2 k w d s).effect cfg m).low (widthModulus w) =
      setLow (m.low (widthModulus w)) d
        (k.apply (widthModulus w) (m.low (widthModulus w) d) (m.low (widthModulus w) s)) := by
  funext x
  show ((alu2 k w d s).effect cfg m).regs x % widthModulus w = _
  rw [regs_alu2, setLow_apply]
  dsimp only
  by_cases hx : x = d
  · rw [if_pos hx, if_pos hx, writeWidth_mod, AluKind.apply_mod]; rfl
  · rw [if_neg hx, if_neg hx]; rfl

theorem low_copyRR (cfg : Config) (m : Machine) (w : Bool) (d s : Register) :
    ((copyRR w d s).effect cfg m).low (widthModulus w) =
      setLow (m.low (widthModulus w)) d (m.low (widthModulus w) s) := by
  funext x
  show ((copyRR w d s).effect cfg m).regs x % widthModulus w = _
  rw [regs_copyRR, setLow_apply]
  dsimp only
  by_cases hx : x = d
  · rw [if_pos hx, if_pos hx, writeWidth_mod, Nat.mod_mod]; rfl
  · rw [if_neg hx, if_neg hx]; rfl

theorem low_threeRegisterCode (cfg : Config) (m : Machine) (k : AluKind) (w distinct : Bool)
    (d s1 s2 : Register) :
    (runStraight cfg (threeRegisterCode k w distinct d s1 s2) m).low (widthModulus w) =
      setLow (m.low (widthModulus w)) d
        (k.apply (widthModulus w) (m.low (widthModulus w) s1) (m.low (widthModulus w) s2)) := by
  obtain ⟨h1, h2⟩ := run_threeRegisterCode cfg m k w distinct d s1 s2
  funext x
  rw [setLow_apply]
  by_cases hx : x = d
  · rw [if_pos hx, hx]; exact h1
  · rw [if_neg hx]
    show (runStraight cfg (threeRegisterCode k w distinct d s1 s2) m).regs x % _ = _
    rw [h2 x hx]; rfl

theorem low_testRR (cfg : Config) (m : Machine) (w : Bool) (d : Register) :
    ((testRR w d d).effect cfg m).low (widthModulus w) = m.low (widthModulus w) ∧
    ((testRR w d d).effect cfg m).cc = signCC (widthModulus w) (m.regs d) := by
  cases w
  · refine ⟨?_, rfl⟩
    funext x
    show (if x = d then setLo32 (m.regs d) (m.regs d) else m.regs x) % M32 = m.regs x % M32
    by_cases hx : x = d
    · rw [if_pos hx, hx, setLo32_mod]
    · rw [if_neg hx]
  · refine ⟨?_, rfl⟩
    funext x
    show (if x = d then m.regs d % M64 else m.regs x) % M64 = m.regs x % M64
    by_cases hx : x = d
    · rw [if_pos hx, hx, Nat.mod_mod]
    · rw [if_neg hx]

theorem runStraight_single (cfg : Config) (i : Instr) (m : Machine) :
    runStraight cfg [i] m = i.effect cfg m := rfl

theorem signedOf_neg_iff (w : Bool) (v : Nat) :
    signedOf (widthModulus w) v < 0 ↔ widthModulus w / 2 ≤ v % widthModulus w := by
  have hlt := Nat.mod_lt v (widthModulus_pos w)
  unfold signedOf
  by_cases h : v % widthModulus w < widthModulus w / 2
  · rw [if_pos h]
    constructor
    · intro h2; omega
    · intro h2; omega
  · rw [if_neg h]
    constructor
    · intro _; omega
    · intro _; omega

theorem signCC_one_iff (w : Bool) (v : Nat) :
    signCC (widthModulus w) v = 1 ↔ widthModulus w / 2 ≤ v % widthModulus w := by
  have hpos : 0 < widthModulus w / 2 := by cases w <;> decide
  unfold signCC
  by_cases h0 : v % widthModulus w = 0
  · rw [if_pos h0]
    constructor
    · intro h; exact absurd h (by decide)
    · intro h; omega
  · rw [if_neg h0, ← signedOf_neg_iff]
    by_cases h1 : signedOf (widthModulus w) v < 0
    · rw [if_pos h1]; exact ⟨fun _ => h1, fun _ => rfl⟩
    · rw [if_neg h1]; exact ⟨fun h => absurd h (by decide), fun h => absurd h h1⟩

theorem testBit_top (n x : Nat) (hx : x < 2 ^ (n + 1)) : x.testBit n = decide (2 ^ n ≤ x) := by
  rw [Nat.testBit_to_div_mod]
  have h2 : x / 2 ^ n < 2 := by
    rw [Nat.div_lt_iff_lt_mul (Nat.two_pow_pos n)]
    rw [Nat.pow_succ] at hx; omega
  by_cases h : 2 ^ n ≤ x
  · have h1 : 1 ≤ x / 2 ^ n := (Nat.le_div_iff_mul_le (Nat.two_pow_pos n)).mpr (by omega)
    have e : x / 2 ^ n % 2 = 1 := by omega
    simp [e, h]
  · have h1 : x / 2 ^ n = 0 := Nat.div_eq_of_lt (by omega)
    simp [h1, h]

theorem top_land (n a b : Nat) (ha : a < 2 ^ (n + 1)) (hb : b < 2 ^ (n + 1)) :
    2 ^ n ≤ Nat.land a b ↔ 2 ^ n ≤ a ∧ 2 ^ n ≤ b := by
  have hab : a &&& b < 2 ^ (n + 1) := Nat.and_lt_two_pow a hb
  have h := testBit_top n _ hab
  rw [Nat.testBit_and, testBit_top n a ha, testBit_top n b hb] at h
  show 2 ^ n ≤ a &&& b ↔ _
  rw [← decide_eq_true_iff (p := 2 ^ n ≤ a &&& b), ← h, Bool.and_eq_true, decide_eq_true_iff,
    decide_eq_true_iff]

theorem top_xor (n a b : Nat) (ha : a < 2 ^ (n + 1)) (hb : b < 2 ^ (n + 1)) :
    2 ^ n ≤ Nat.xor a b ↔ (2 ^ n ≤ a ↔ ¬ 2 ^ n ≤ b) := by
  have hab : a ^^^ b < 2 ^ (n + 1) := Nat.xor_lt_two_pow ha hb
  have h := testBit_top n _ hab
  rw [Nat.testBit_xor, testBit_top n a ha, testBit_top n b hb] at h
  show 2 ^ n ≤ a ^^^ b ↔ _
  rw [← decide_eq_true_iff (p := 2 ^ n ≤ a ^^^ b), ← h]
  by_cases h1 : 2 ^ n ≤ a <;> by_cases h2 : 2 ^ n ≤ b <;> simp [h1, h2]

theorem widthModulus_eq (w : Bool) :
    widthModulus w = 2 ^ ((if w then 63 else 31) + 1) ∧
      widthModulus w / 2 = 2 ^ (if w then 63 else 31) := by
  cases w <;> exact ⟨by decide, by decide⟩

/-- The sign of a conjunction of two exclusive disjunctions. -/
theorem sign_and_xor (w : Bool) (p q r s : Nat) (hp : p < widthModulus w)
    (hq : q < widthModulus w) (hr : r < widthModulus w) (hs : s < widthModulus w) :
    widthModulus w / 2 ≤ AluKind.and.apply (widthModulus w)
        (AluKind.xor.apply (widthModulus w) p q) (AluKind.xor.apply (widthModulus w) r s) ↔
      (widthModulus w / 2 ≤ p ↔ ¬ widthModulus w / 2 ≤ q) ∧
        (widthModulus w / 2 ≤ r ↔ ¬ widthModulus w / 2 ≤ s) := by
  obtain ⟨e1, e2⟩ := widthModulus_eq w
  rw [e2]
  rw [e1] at hp hq hr hs
  show 2 ^ _ ≤ Nat.land (Nat.xor p q) (Nat.xor r s) ↔ _
  exact (top_land _ _ _ (Nat.xor_lt_two_pow hp hq) (Nat.xor_lt_two_pow hr hs)).trans
    (and_congr (top_xor _ _ _ hp hq) (top_xor _ _ _ hr hs))

theorem signedOf_of_lt (w : Bool) (a : Nat) (ha : a < widthModulus w) :
    signedOf (widthModulus w) a =
      if a < widthModulus w / 2 then (a : Int) else (a : Int) - (widthModulus w : Nat) := by
  unfold signedOf
  rw [Nat.mod_eq_of_lt ha]

/-- The overflow test of the addition: the sum differs in sign from both
operands. -/
theorem add_overflow_sign (w : Bool) (a b : Nat) (ha : a < widthModulus w)
    (hb : b < widthModulus w) :
    ((widthModulus w / 2 ≤ (a + b) % widthModulus w ↔ ¬ widthModulus w / 2 ≤ a) ∧
      (widthModulus w / 2 ≤ (a + b) % widthModulus w ↔ ¬ widthModulus w / 2 ≤ b)) ↔
      CheckedOp.add.overflows (widthModulus w) a b = true := by
  unfold CheckedOp.overflows
  rw [decide_eq_true_iff, signedOf_of_lt w a ha, signedOf_of_lt w b hb]
  cases w
  · simp only [widthModulus, Bool.false_eq_true, if_false, M32] at ha hb ⊢
    split_ifs <;> omega
  · simp only [widthModulus, if_true, M64] at ha hb ⊢
    split_ifs <;> omega

/-- The overflow test of the subtraction: the operands differ in sign and
the difference differs in sign from the minuend. -/
theorem sub_overflow_sign (w : Bool) (a b : Nat) (ha : a < widthModulus w)
    (hb : b < widthModulus w) :
    ((widthModulus w / 2 ≤ (a + (widthModulus w - b)) % widthModulus w ↔
        ¬ widthModulus w / 2 ≤ a) ∧
      (widthModulus w / 2 ≤ a ↔ ¬ widthModulus w / 2 ≤ b)) ↔
      CheckedOp.sub.overflows (widthModulus w) a b = true := by
  unfold CheckedOp.overflows
  rw [decide_eq_true_iff, signedOf_of_lt w a ha, signedOf_of_lt w b hb]
  cases w
  · simp only [widthModulus, Bool.false_eq_true, if_false, M32] at ha hb ⊢
    split_ifs <;> omega
  · simp only [widthModulus, if_true, M64] at ha hb ⊢
    split_ifs <;> omega
theorem LoadRR_emits (cfg : Config) (d s : Register) (st : Asm) :
    (LoadRR cfg d s).run st =
      ((), { st with code := st.code ++ [copyRR cfg.is64 d s],
                     failed := st.failed || !(copyRR cfg.is64 d s).encodable }) := rfl

theorem XorP_Register_emits (cfg : Config) (d s : Register) (st : Asm) :
    (XorP_Register cfg d s).run st =
      ((), { st with code := st.code ++ [alu2 AluKind.xor cfg.is64 d s],
                     failed := st.failed || !(alu2 AluKind.xor cfg.is64 d s).encodable }) := by
  show (emit _).run st = _
  cases cfg.is64 <;> rfl

theorem AndP_Register_emits (cfg : Config) (d s : Register) (st : Asm) :
    (AndP_Register cfg d s).run st =
      ((), { st with code := st.code ++ [alu2 AluKind.and cfg.is64 d s],
                     failed := st.failed || !(alu2 AluKind.and cfg.is64 d s).encodable }) := by
  show (emit _).run st = _
  cases cfg.is64 <;> rfl

theorem LoadAndTestRR_emits (cfg : Config) (d s : Register) (st : Asm) :
    (LoadAndTestRR cfg d s).run st =
      ((), { st with code := st.code ++ [testRR cfg.is64 d s],
                     failed := st.failed || !(testRR cfg.is64 d s).encodable }) := rfl

theorem isStraight_alu2 (k : AluKind) (w : Bool) (d s : Register) :
    (alu2 k w d s).isStraight = true := by cases k <;> cases w <;> rfl

theorem isStraight_copyRR (w : Bool) (d s : Register) : (copyRR w d s).isStraight = true := by
  cases w <;> rfl

theorem isStraight_testRR (w : Bool) (d s : Register) : (testRR w d s).isStraight = true := by
  cases w <;> rfl

/-- After the final load-and-test, the facts about the destination and about
the sign of the overflow register carry over, and the condition code reports
that sign. -/
theorem overflow_finish (cfg : Config) (m5 : Machine) (w : Bool) (ov dst : Register)
    (op : CheckedOp) (a b : Nat)
    (hd : m5.low (widthModulus w) dst = op.result (widthModulus w) a b)
    (hov : widthModulus w / 2 ≤ m5.low (widthModulus w) ov ↔
      op.overflows (widthModulus w) a b = true) :
    (runStraight cfg [testRR w ov ov] m5).low (widthModulus w) dst =
      op.result (widthModulus w) a b ∧
    (signedOf (widthModulus w) ((runStraight cfg [testRR w ov ov] m5).regs ov) < 0 ↔
      op.overflows (widthModulus w) a b = true) ∧
    ((runStraight cfg [testRR w ov ov] m5).cc = 1 ↔ op.overflows (widthModulus w) a b = true) := by
  obtain ⟨t1, t2⟩ := low_testRR cfg m5 w ov
  rw [runStraight_single, t1, t2, signCC_one_iff, signedOf_neg_iff]
  refine ⟨hd, ?_, hov⟩
  have e : ((testRR w ov ov).effect cfg m5).regs ov % widthModulus w =
      m5.low (widthModulus w) ov := congrFun t1 ov
  rw [e]
  exact hov

theorem AddAndCheckForOverflow_code (cfg : Config) (dst left right overflow_dst scratch : Register)
    (st : Asm) :
    (AddAndCheckForOverflow cfg dst left right overflow_dst scratch).run st =
      ((), { st with
        code := st.code ++
          addOverflowCode cfg.is64 cfg.distinct_ops dst left right overflow_dst scratch,
        failed := st.failed ||
          !((dst != overflow_dst) && (dst != scratch) && (overflow_dst != scratch) &&
            (overflow_dst != left) && (overflow_dst != right) &&
            (addOverflowCode cfg.is64 cfg.distinct_ops dst left right overflow_dst scratch).all
              Instr.encodable) }) := by
  unfold AddAndCheckForOverflow addOverflowCode
  by_cases h1 : dst = left
  · subst h1
    simp only [↓reduceIte, eq_self_iff_true, if_true, if_false, Emit.run_bind_eq, run_ASSERT,
      LoadRR_emits, AddP_Register_Register_code, XorP_Register_emits,
      XorP_Register_Register_code, AndP_Register_emits, LoadAndTestRR_emits, List.append_assoc,
      List.all_append, List.all_cons, List.all_nil, Bool.and_true, Bool.not_and, Bool.or_assoc,
      Bool.and_assoc]
  · by_cases h2 : dst = right
    · subst h2
      simp only [↓reduceIte, eq_self_iff_true, if_true, if_false, Emit.run_bind_eq, run_ASSERT,
      LoadRR_emits, AddP_Register_Register_code, XorP_Register_emits,
      XorP_Register_Register_code, AndP_Register_emits, LoadAndTestRR_emits, List.append_assoc,
      List.all_append, List.all_cons, List.all_nil, Bool.and_true, Bool.not_and, Bool.or_assoc,
      Bool.and_assoc, h1]
    · simp only [↓reduceIte, eq_self_iff_true, if_true, if_false, Emit.run_bind_eq, run_ASSERT,
      LoadRR_emits, AddP_Register_Register_code, XorP_Register_emits,
      XorP_Register_Register_code, AndP_Register_emits, LoadAndTestRR_emits, List.append_assoc,
      List.all_append, List.all_cons, List.all_nil, Bool.and_true, Bool.not_and, Bool.or_assoc,
      Bool.and_assoc, h1, h2]

theorem isStraight_addOverflowCode (w distinct : Bool)
    (dst left right overflow_dst scratch : Register) :
    ∀ i ∈ addOverflowCode w distinct dst left right overflow_dst scratch, i.isStraight = true := by
  unfold addOverflowCode
  exact straight_ite (straight_append (straight_append (straight_append (straight_append (straight_append (straight_cons (isStraight_copyRR _ _ _) straight_nil)
      (threeRegisterCode_facts _ _ _ _ _ _).1)
      (straight_cons (isStraight_alu2 _ _ _ _) straight_nil))
      (threeRegisterCode_facts _ _ _ _ _ _).1)
      (straight_cons (isStraight_alu2 _ _ _ _) straight_nil))
      (straight_cons (isStraight_testRR _ _ _) straight_nil))
    (straight_ite (straight_append (straight_append (straight_append (straight_append (straight_append (straight_cons (isStraight_copyRR _ _ _) straight_nil)
      (threeRegisterCode_facts _ _ _ _ _ _).1)
      (straight_cons (isStraight_alu2 _ _ _ _) straight_nil))
      (threeRegisterCode_facts _ _ _ _ _ _).1)
      (straight_cons (isStraight_alu2 _ _ _ _) straight_nil))
      (straight_cons (isStraight_testRR _ _ _) straight_nil))
    (straight_append (straight_append (straight_append (straight_append (threeRegisterCode_facts _ _ _ _ _ _).1
      (threeRegisterCode_facts _ _ _ _ _ _).1)
      (threeRegisterCode_facts _ _ _ _ _ _).1)
      (straight_cons (isStraight_alu2 _ _ _ _) straight_nil))
      (straight_cons (isStraight_testRR _ _ _) straight_nil)))

theorem SubAndCheckForOverflow_code (cfg : Config) (dst left right overflow_dst scratch : Register)
    (st : Asm) :
    (SubAndCheckForOverflow cfg dst left right overflow_dst scratch).run st =
      ((), { st with
        code := st.code ++
          subOverflowCode cfg.is64 cfg.distinct_ops dst left right overflow_dst scratch,
        failed := st.failed ||
          !((dst != overflow_dst) && (dst != scratch) && (overflow_dst != scratch) &&
            (overflow_dst != left) && (overflow_dst != right) &&
            (subOverflowCode cfg.is64 cfg.distinct_ops dst left right overflow_dst scratch).all
              Instr.encodable) }) := by
  unfold SubAndCheckForOverflow subOverflowCode
  by_cases h1 : dst = left
  · subst h1
    simp only [↓reduceIte, eq_self_iff_true, if_true, if_false, Emit.run_bind_eq, run_ASSERT,
      LoadRR_emits, SubP_Register_Register_code, XorP_Register_emits,
      XorP_Register_Register_code, AndP_Register_emits, LoadAndTestRR_emits, List.append_assoc,
      List.all_append, List.all_cons, List.all_nil, Bool.and_true, Bool.not_and, Bool.or_assoc,
      Bool.and_assoc]
  · by_cases h2 : dst = right
    · subst h2
      simp only [↓reduceIte, eq_self_iff_true, if_true, if_false, Emit.run_bind_eq, run_ASSERT,
      LoadRR_emits, SubP_Register_Register_code, XorP_Register_emits,
      XorP_Register_Register_code, AndP_Register_emits, LoadAndTestRR_emits, List.append_assoc,
      List.all_append, List.all_cons, List.all_nil, Bool.and_true, Bool.not_and, Bool.or_assoc,
      Bool.and_assoc, h1]
    · simp only [↓reduceIte, eq_self_iff_true, if_true, if_false, Emit.run_bind_eq, run_ASSERT,
      LoadRR_emits, SubP_Register_Register_code, XorP_Register_emits,
      XorP_Register_Register_code, AndP_Register_emits, LoadAndTestRR_emits, List.append_assoc,
      List.all_append, List.all_cons, List.all_nil, Bool.and_true, Bool.not_and, Bool.or_assoc,
      Bool.and_assoc, h1, h2]

theorem isStraight_subOverflowCode (w distinct : Bool)
    (dst left right overflow_dst scratch : Register) :
    ∀ i ∈ subOverflowCode w distinct dst left right overflow_dst scratch, i.isStraight = true := by
  unfold subOverflowCode
  exact straight_ite (straight_append (straight_append (straight_append (straight_append (straight_append (straight_cons (isStraight_copyRR _ _ _) straight_nil)
      (threeRegisterCode_facts _ _ _ _ _ _).1)
      (threeRegisterCode_facts _ _ _ _ _ _).1)
      (straight_cons (isStraight_alu2 _ _ _ _) straight_nil))
      (straight_cons (isStraight_alu2 _ _ _ _) straight_nil))
      (straight_cons (isStraight_testRR _ _ _) straight_nil))
    (straight_ite (straight_append (straight_append (straight_append (straight_append (straight_append (straight_cons (isStraight_copyRR _ _ _) straight_nil)
      (threeRegisterCode_facts _ _ _ _ _ _).1)
      (threeRegisterCode_facts _ _ _ _ _ _).1)
      (straight_cons (isStraight_alu2 _ _ _ _) straight_nil))
      (straight_cons (isStraight_alu2 _ _ _ _) straight_nil))
      (straight_cons (isStraight_testRR _ _ _) straight_nil))
    (straight_append (straight_append (straight_append (straight_append (threeRegisterCode_facts _ _ _ _ _ _).1
      (threeRegisterCode_facts _ _ _ _ _ _).1)
      (threeRegisterCode_facts _ _ _ _ _ _).1)
      (straight_cons (isStraight_alu2 _ _ _ _) straight_nil))
      (straight_cons (isStraight_testRR _ _ _) straight_nil)))

theorem run_addOverflowCode (cfg : Config) (m : Machine) (w distinct : Bool)
    (dst left right overflow_dst scratch : Register)
    (a1 : dst ≠ overflow_dst) (a2 : dst ≠ scratch) (a3 : overflow_dst ≠ scratch)
    (a4 : overflow_dst ≠ left) (a5 : overflow_dst ≠ right)
    (hl : dst = left → dst ≠ right ∧ scratch ≠ right) (hr : dst = right → scratch ≠ left) :
    (runStraight cfg (addOverflowCode w distinct dst left right overflow_dst scratch) m).low
        (widthModulus w) dst =
      CheckedOp.add.result (widthModulus w) (m.low (widthModulus w) left)
        (m.low (widthModulus w) right) ∧
    (signedOf (widthModulus w)
        ((runStraight cfg (addOverflowCode w distinct dst left right overflow_dst scratch) m).regs
          overflow_dst) < 0 ↔
      CheckedOp.add.overflows (widthModulus w) (m.low (widthModulus w) left)
        (m.low (widthModulus w) right) = true) ∧
    ((runStraight cfg (addOverflowCode w distinct dst left right overflow_dst scratch) m).cc = 1 ↔
      CheckedOp.add.overflows (widthModulus w) (m.low (widthModulus w) left)
        (m.low (widthModulus w) right) = true) := by
  unfold addOverflowCode
  by_cases h1 : dst = left
  · obtain ⟨b1, b2⟩ := hl h1
    subst h1
    rw [if_pos rfl, runStraight_append]
    refine overflow_finish cfg _ w overflow_dst dst CheckedOp.add _ _ ?_ ?_
    · simp only [runStraight_append, runStraight_single, low_alu2, low_threeRegisterCode,
        low_copyRR, setLow_apply, if_true, if_false, eq_self_iff_true, a1, a2, a3, a5, b1, b2, Ne.symm a1, Ne.symm a2, Ne.symm a3, Ne.symm a5, Ne.symm b1, Ne.symm b2]
      rfl
    · simp only [runStraight_append, runStraight_single, low_alu2, low_threeRegisterCode,
        low_copyRR, setLow_apply, if_true, if_false, eq_self_iff_true, a1, a2, a3, a5, b1, b2, Ne.symm a1, Ne.symm a2, Ne.symm a3, Ne.symm a5, Ne.symm b1, Ne.symm b2]
      rw [sign_and_xor w _ _ _ _ (by first | exact low_lt _ _ _ | exact AluKind.apply_lt _ _ _ _ (low_lt _ _ _) (low_lt _ _ _))
        (by first | exact low_lt _ _ _ | exact AluKind.apply_lt _ _ _ _ (low_lt _ _ _) (low_lt _ _ _))
        (by first | exact low_lt _ _ _ | exact AluKind.apply_lt _ _ _ _ (low_lt _ _ _) (low_lt _ _ _))
        (by first | exact low_lt _ _ _ | exact AluKind.apply_lt _ _ _ _ (low_lt _ _ _) (low_lt _ _ _)),
        ← add_overflow_sign w _ _ (low_lt m w dst) (low_lt m w right)]
      simp only [AluKind.apply]
      all_goals tauto
  · rw [if_neg h1]
    by_cases h2 : dst = right
    · have b2 := hr h2
      subst h2
      rw [if_pos rfl, runStraight_append]
      refine overflow_finish cfg _ w overflow_dst dst CheckedOp.add _ _ ?_ ?_
      · simp only [runStraight_append, runStraight_single, low_alu2, low_threeRegisterCode,
          low_copyRR, setLow_apply, if_true, if_false, eq_self_iff_true, a1, a2, a3, a4, h1, b2, Ne.symm a1, Ne.symm a2, Ne.symm a3, Ne.symm a4, Ne.symm h1, Ne.symm b2]
        rfl
      · simp only [runStraight_append, runStraight_single, low_alu2, low_threeRegisterCode,
          low_copyRR, setLow_apply, if_true, if_false, eq_self_iff_true, a1, a2, a3, a4, h1, b2, Ne.symm a1, Ne.symm a2, Ne.symm a3, Ne.symm a4, Ne.symm h1, Ne.symm b2]
        rw [sign_and_xor w _ _ _ _ (by first | exact low_lt _ _ _ | exact AluKind.apply_lt _ _ _ _ (low_lt _ _ _) (low_lt _ _ _))
          (by first | exact low_lt _ _ _ | exact AluKind.apply_lt _ _ _ _ (low_lt _ _ _) (low_lt _ _ _))
          (by first | exact low_lt _ _ _ | exact AluKind.apply_lt _ _ _ _ (low_lt _ _ _) (low_lt _ _ _))
          (by first | exact low_lt _ _ _ | exact AluKind.apply_lt _ _ _ _ (low_lt _ _ _) (low_lt _ _ _)),
          ← add_overflow_sign w _ _ (low_lt m w left) (low_lt m w dst)]
        simp only [AluKind.apply]
        all_goals tauto
    · rw [if_neg h2, runStraight_append]
      refine overflow_finish cfg _ w overflow_dst dst CheckedOp.add _ _ ?_ ?_
      · simp only [runStraight_append, runStraight_single, low_alu2, low_threeRegisterCode,
          low_copyRR, setLow_apply, if_true, if_false, eq_self_iff_true, a1, a2, a3, a4, a5, h1, h2, Ne.symm a1, Ne.symm a2, Ne.symm a3, Ne.symm a4, Ne.symm a5, Ne.symm h1, Ne.symm h2]
        rfl
      · simp only [runStraight_append, runStraight_single, low_alu2, low_threeRegisterCode,
          low_copyRR, setLow_apply, if_true, if_false, eq_self_iff_true, a1, a2, a3, a4, a5, h1, h2, Ne.symm a1, Ne.symm a2, Ne.symm a3, Ne.symm a4, Ne.symm a5, Ne.symm h1, Ne.symm h2]
        rw [sign_and_xor w _ _ _ _ (by first | exact low_lt _ _ _ | exact AluKind.apply_lt _ _ _ _ (low_lt _ _ _) (low_lt _ _ _))
          (by first | exact low_lt _ _ _ | exact AluKind.apply_lt _ _ _ _ (low_lt _ _ _) (low_lt _ _ _))
          (by first | exact low_lt _ _ _ | exact AluKind.apply_lt _ _ _ _ (low_lt _ _ _) (low_lt _ _ _))
          (by first | exact low_lt _ _ _ | exact AluKind.apply_lt _ _ _ _ (low_lt _ _ _) (low_lt _ _ _)),
          ← add_overflow_sign w _ _ (low_lt m w left) (low_lt m w right)]
        simp only [AluKind.apply]

theorem run_subOverflowCode (cfg : Config) (m : Machine) (w distinct : Bool)
    (dst left right overflow_dst scratch : Register)
    (a1 : dst ≠ overflow_dst) (a2 : dst ≠ scratch) (a3 : overflow_dst ≠ scratch)
    (a4 : overflow_dst ≠ left) (a5 : overflow_dst ≠ right)
    (hl : dst = left → dst ≠ right ∧ scratch ≠ right) (hr : dst = right → scratch ≠ left) :
    (runStraight cfg (subOverflowCode w distinct dst left right overflow_dst scratch) m).low
        (widthModulus w) dst =
      CheckedOp.sub.result (widthModulus w) (m.low (widthModulus w) left)
        (m.low (widthModulus w) right) ∧
    (signedOf (widthModulus w)
        ((runStraight cfg (subOverflowCode w distinct dst left right overflow_dst scratch) m).regs
          overflow_dst) < 0 ↔
      CheckedOp.sub.overflows (widthModulus w) (m.low (widthModulus w) left)
        (m.low (widthModulus w) right) = true) ∧
    ((runStraight cfg (subOverflowCode w distinct dst left right overflow_dst scratch) m).cc = 1 ↔
      CheckedOp.sub.overflows (widthModulus w) (m.low (widthModulus w) left)
        (m.low (widthModulus w) right) = true) := by
  unfold subOverflowCode
  by_cases h1 : dst = left
  · obtain ⟨b1, b2⟩ := hl h1
    subst h1
    rw [if_pos rfl, runStraight_append]
    refine overflow_finish cfg _ w overflow_dst dst CheckedOp.sub _ _ ?_ ?_
    · simp only [runStraight_append, runStraight_single, low_alu2, low_threeRegisterCode,
        low_copyRR, setLow_apply, if_true, if_false, eq_self_iff_true, a1, a2, a3, a5, b1, b2, Ne.symm a1, Ne.symm a2, Ne.symm a3, Ne.symm a5, Ne.symm b1, Ne.symm b2]
      rfl
    · simp only [runStraight_append, runStraight_single, low_alu2, low_threeRegisterCode,
        low_copyRR, setLow_apply, if_true, if_false, eq_self_iff_true, a1, a2, a3, a5, b1, b2, Ne.symm a1, Ne.symm a2, Ne.symm a3, Ne.symm a5, Ne.symm b1, Ne.symm b2]
      rw [sign_and_xor w _ _ _ _ (by first | exact low_lt _ _ _ | exact AluKind.apply_lt _ _ _ _ (low_lt _ _ _) (low_lt _ _ _))
        (by first | exact low_lt _ _ _ | exact AluKind.apply_lt _ _ _ _ (low_lt _ _ _) (low_lt _ _ _))
        (by first | exact low_lt _ _ _ | exact AluKind.apply_lt _ _ _ _ (low_lt _ _ _) (low_lt _ _ _))
        (by first | exact low_lt _ _ _ | exact AluKind.apply_lt _ _ _ _ (low_lt _ _ _) (low_lt _ _ _)),
        ← sub_overflow_sign w _ _ (low_lt m w dst) (low_lt m w right)]
      simp only [AluKind.apply]
      all_goals tauto
  · rw [if_neg h1]
    by_cases h2 : dst = right
    · have b2 := hr h2
      subst h2
      rw [if_pos rfl, runStraight_append]
      refine overflow_finish cfg _ w overflow_dst dst CheckedOp.sub _ _ ?_ ?_
      · simp only [runStraight_append, runStraight_single, low_alu2, low_threeRegisterCode,
          low_copyRR, setLow_apply, if_true, if_false, eq_self_iff_true, a1, a2, a3, a4, h1, b2, Ne.symm a1, Ne.symm a2, Ne.symm a3, Ne.symm a4, Ne.symm h1, Ne.symm b2]
        rfl
      · simp only [runStraight_append, runStraight_single, low_alu2, low_threeRegisterCode,
          low_copyRR, setLow_apply, if_true, if_false, eq_self_iff_true, a1, a2, a3, a4, h1, b2, Ne.symm a1, Ne.symm a2, Ne.symm a3, Ne.symm a4, Ne.symm h1, Ne.symm b2]
        rw [sign_and_xor w _ _ _ _ (by first | exact low_lt _ _ _ | exact AluKind.apply_lt _ _ _ _ (low_lt _ _ _) (low_lt _ _ _))
          (by first | exact low_lt _ _ _ | exact AluKind.apply_lt _ _ _ _ (low_lt _ _ _) (low_lt _ _ _))
          (by first | exact low_lt _ _ _ | exact AluKind.apply_lt _ _ _ _ (low_lt _ _ _) (low_lt _ _ _))
          (by first | exact low_lt _ _ _ | exact AluKind.apply_lt _ _ _ _ (low_lt _ _ _) (low_lt _ _ _)),
          ← sub_overflow_sign w _ _ (low_lt m w left) (low_lt m w dst)]
        simp only [AluKind.apply]
        all_goals tauto
    · rw [if_neg h2, runStraight_append]
      refine overflow_finish cfg _ w overflow_dst dst CheckedOp.sub _ _ ?_ ?_
      · simp only [runStraight_append, runStraight_single, low_alu2, low_threeRegisterCode,
          low_copyRR, setLow_apply, if_true, if_false, eq_self_iff_true, a1, a2, a3, a4, a5, h1, h2, Ne.symm a1, Ne.symm a2, Ne.symm a3, Ne.symm a4, Ne.symm a5, Ne.symm h1, Ne.symm h2]
        rfl
      · simp only [runStraight_append, runStraight_single, low_alu2, low_threeRegisterCode,
          low_copyRR, setLow_apply, if_true, if_false, eq_self_iff_true, a1, a2, a3, a4, a5, h1, h2, Ne.symm a1, Ne.symm a2, Ne.symm a3, Ne.symm a4, Ne.symm a5, Ne.symm h1, Ne.symm h2]
        rw [sign_and_xor w _ _ _ _ (by first | exact low_lt _ _ _ | exact AluKind.apply_lt _ _ _ _ (low_lt _ _ _) (low_lt _ _ _))
          (by first | exact low_lt _ _ _ | exact AluKind.apply_lt _ _ _ _ (low_lt _ _ _) (low_lt _ _ _))
          (by first | exact low_lt _ _ _ | exact AluKind.apply_lt _ _ _ _ (low_lt _ _ _) (low_lt _ _ _))
          (by first | exact low_lt _ _ _ | exact AluKind.apply_lt _ _ _ _ (low_lt _ _ _) (low_lt _ _ _)),
          ← sub_overflow_sign w _ _ (low_lt m w left) (low_lt m w right)]
        simp only [AluKind.apply]

/-- C30 (on the register assignments on which the code is right): for
`AddAndCheckForOverflow` and `SubAndCheckForOverflow`, for every assignment of
`dst`, `left`, `right`, `overflow_dst`, `scratch` that passes the assertions
and in which, when `dst` is `left`, `right` is neither `dst` nor `scratch`,
and, when `dst` is `right`, `scratch` is not `left`, and for every pair of
operand values: the emitted code is straight-line code after which
`dst = left ± right` modulo `2^width` of the operand values on entry, and
`overflow_dst` is negative, and the condition code is 1 (negative), exactly
when the signed operation overflows the pointer width. -/
theorem checked_arithmetic (cfg : Config) (op : CheckedOp)
    (dst left right overflow_dst scratch : Register) (frame : Bool) (code : List Instr)
    (hcode : codeOf (op.emitter cfg dst left right overflow_dst scratch) frame = some code)
    (hl : dst = left → dst ≠ right ∧ scratch ≠ right) (hr : dst = right → scratch ≠ left)
    (m : Machine) :
    (∀ i ∈ code, i.isStraight = true) ∧
    (runStraight cfg code m).regs dst % ptrMod cfg =
      op.result (ptrMod cfg) (m.regs left % ptrMod cfg) (m.regs right % ptrMod cfg) ∧
    (signedOf (ptrMod cfg) ((runStraight cfg code m).regs overflow_dst) < 0 ↔
      op.overflows (ptrMod cfg) (m.regs left % ptrMod cfg) (m.regs right % ptrMod cfg) = true) ∧
    ((runStraight cfg code m).cc = 1 ↔
      op.overflows (ptrMod cfg) (m.regs left % ptrMod cfg) (m.regs right % ptrMod cfg) = true) := by
  cases op
  · unfold CheckedOp.emitter codeOf at hcode
    rw [AddAndCheckForOverflow_code] at hcode
    simp only [List.nil_append] at hcode
    obtain ⟨rfl, hok⟩ := code_of_ite hcode
    simp only [Bool.false_or, Bool.not_eq_true, Bool.not_eq_false_eq_eq_true, Bool.and_eq_true,
      bne_iff_ne, ne_eq] at hok
    obtain ⟨⟨⟨⟨⟨a1, a2⟩, a3⟩, a4⟩, a5⟩, _⟩ := hok
    exact ⟨isStraight_addOverflowCode _ _ _ _ _ _ _,
      run_addOverflowCode cfg m cfg.is64 cfg.distinct_ops dst left right overflow_dst scratch
        a1 a2 a3 a4 a5 hl hr⟩
  · unfold CheckedOp.emitter codeOf at hcode
    rw [SubAndCheckForOverflow_code] at hcode
    simp only [List.nil_append] at hcode
    obtain ⟨rfl, hok⟩ := code_of_ite hcode
    simp only [Bool.false_or, Bool.not_eq_true, Bool.not_eq_false_eq_eq_true, Bool.and_eq_true,
      bne_iff_ne, ne_eq] at hok
    obtain ⟨⟨⟨⟨⟨a1, a2⟩, a3⟩, a4⟩, a5⟩, _⟩ := hok
    exact ⟨isStraight_subOverflowCode _ _ _ _ _ _ _,
      run_subOverflowCode cfg m cfg.is64 cfg.distinct_ops dst left right overflow_dst scratch
        a1 a2 a3 a4 a5 hl hr⟩

/-- With `dst`, `left` and `right` all the same register the assertions pass,
but the addition of `2^62` to itself, which overflows, leaves `overflow_dst`
and the condition code zero, and the subtraction of `-2^63` from itself, which
does not overflow, leaves `overflow_dst` negative and the condition code 1. -/
theorem overflow_check_wrong_when_operands_alias :
    (codeOf (AddAndCheckForOverflow cfg64 r2 r2 r2 r3 r4) false =
        some [Instr.lgr r4 r2, Instr.agr r2 r2, Instr.xgr r4 r2, Instr.lgr r3 r2,
          Instr.xgr r3 r2, Instr.ngr r3 r4, Instr.ltgr r3 r3] ∧
      (runStraight cfg64 [Instr.lgr r4 r2, Instr.agr r2 r2, Instr.xgr r4 r2, Instr.lgr r3 r2,
          Instr.xgr r3 r2, Instr.ngr r3 r4, Instr.ltgr r3 r3]
        (uniformMachine 4611686018427387904)).regs r3 = 0 ∧
      (runStraight cfg64 [Instr.lgr r4 r2, Instr.agr r2 r2, Instr.xgr r4 r2, Instr.lgr r3 r2,
          Instr.xgr r3 r2, Instr.ngr r3 r4, Instr.ltgr r3 r3]
        (uniformMachine 4611686018427387904)).cc = 0 ∧
      CheckedOp.add.overflows M64 4611686018427387904 4611686018427387904 = true) ∧
    (codeOf (SubAndCheckForOverflow cfg64 r2 r2 r2 r3 r4) false =
        some [Instr.lgr r4 r2, Instr.sgr r2 r2, Instr.lgr r3 r2, Instr.xgr r3 r4,
          Instr.xgr r4 r2, Instr.ngr r3 r4, Instr.ltgr r3 r3] ∧
      (runStraight cfg64 [Instr.lgr r4 r2, Instr.sgr r2 r2, Instr.lgr r3 r2, Instr.xgr r3 r4,
          Instr.xgr r4 r2, Instr.ngr r3 r4, Instr.ltgr r3 r3]
        (uniformMachine 9223372036854775808)).regs r3 = 9223372036854775808 ∧
      (runStraight cfg64 [Instr.lgr r4 r2, Instr.sgr r2 r2, Instr.lgr r3 r2, Instr.xgr r3 r4,
          Instr.xgr r4 r2, Instr.ngr r3 r4, Instr.ltgr r3 r3]
        (uniformMachine 9223372036854775808)).cc = 1 ∧
      CheckedOp.sub.overflows M64 9223372036854775808 9223372036854775808 = false) :=
  ⟨⟨rfl, rfl, rfl, by decide⟩, ⟨rfl, rfl, rfl, by decide⟩⟩

theorem checked_arithmetic_witness :
    (runStraight cfg64 [Instr.lgr r5 r2, Instr.agr r2 r3, Instr.xgr r5 r2, Instr.lgr r4 r2,
        Instr.xgr r4 r3, Instr.ngr r4 r5, Instr.ltgr r4 r4]
      (uniformMachine 4611686018427387904)).cc = 1 ↔
      CheckedOp.add.overflows (ptrMod cfg64)
        ((uniformMachine 4611686018427387904).regs r2 % ptrMod cfg64)
        ((uniformMachine 4611686018427387904).regs r3 % ptrMod cfg64) = true :=
  (checked_arithmetic cfg64 CheckedOp.add r2 r2 r3 r4 r5 false _ rfl (by decide) (by decide)
    (uniformMachine 4611686018427387904)).2.2.2

/-! ## Undoing an allocation -/

theorem UndoAllocationInNewSpace_code (cfg : Config) (iso : Isolate) (DEBUG : Bool)
    (object scratch : Register) (frame : Bool) (code : List Instr)
    (hcode : codeOf (UndoAllocationInNewSpace cfg iso DEBUG object scratch) frame = some code) :
    code = undoCode cfg iso DEBUG object scratch := by
  have e : ((UndoAllocationInNewSpace cfg iso DEBUG object scratch).run
      ⟨[], 0, frame, false⟩).2.code = undoCode cfg iso DEBUG object scratch := by
    have hl := fun st => LoadP_run_fits cfg scratch scratch r0 0 no_reg st (by decide)
    have hs := fun st => StoreP_run_fits cfg object scratch r0 0 no_reg st (by decide)
    cases DEBUG <;>
      simp [UndoAllocationInNewSpace, mov_run, AndP_Register, AndRR, MemOperand.mk1, hl, hs,
        CmpP_Register, Cmp32_Register, Check, b, Abort, bind, undoCode, undoHead, undoCheck,
        undoTail, andP, cmpP, Operand.ofInt] <;>
      cases cfg.is64 <;> simp
  unfold codeOf at hcode
  rw [← e]
  exact (code_of_ite hcode).1

theorem effect_cmpP (cfg : Config) (m : Machine) (a b : Register) :
    (cmpP cfg a b).effect cfg m =
      m.setCC (cmpCC (signedOf (ptrMod cfg) (m.regP cfg a)) (signedOf (ptrMod cfg) (m.regP cfg b))) := by
  unfold cmpP Machine.regP
  rw [signedOf_mod, signedOf_mod]
  unfold ptrMod
  cases cfg.is64 <;> rfl

theorem condHolds_lt_cmpCC (a b : Int) : condHolds lt (cmpCC a b) = true ↔ a < b := by
  unfold cmpCC
  split_ifs with h1 h2 <;> simp [condHolds, lt] <;> omega

theorem land_split (k p q a b : Nat) (hq : q < 2 ^ k) (hb : b < 2 ^ k) :
    Nat.land (p * 2 ^ k + q) (a * 2 ^ k + b) = Nat.land p a * 2 ^ k + Nat.land q b := by
  show (p * 2 ^ k + q) &&& (a * 2 ^ k + b) = (p &&& a) * 2 ^ k + (q &&& b)
  apply Nat.eq_of_testBit_eq
  intro j
  rw [Nat.testBit_and, Nat.mul_comm p, Nat.mul_comm a, Nat.mul_comm (p &&& a),
    Nat.testBit_mul_pow_two_add p hq j, Nat.testBit_mul_pow_two_add a hb j,
    Nat.testBit_mul_pow_two_add _ (Nat.and_lt_two_pow q hb) j]
  by_cases hj : j < k
  · simp only [hj, if_true, Nat.testBit_and]
  · simp only [hj, if_false, Nat.testBit_and]

/-- Stripping the tag bits of a tagged pointer gives the untagged pointer. -/
theorem strip_tag (cfg : Config) (T : Nat) (hT : T < ptrMod cfg) (h4 : T % 4 = 0) :
    Nat.land ((T + 1) % ptrMod cfg) (unsignedOf (ptrMod cfg) (-kHeapObjectTagMask - 1)) = T := by
  have key : ∀ n : Nat, T < 2 ^ (n + 2) →
      Nat.land (T / 4 * 2 ^ 2 + 1) ((2 ^ n - 1) * 2 ^ 2 + 0) = T := by
    intro n hn
    rw [land_split 2 _ _ _ _ (by decide) (by decide)]
    show (T / 4 &&& 2 ^ n - 1) * 2 ^ 2 + (1 &&& 0) = T
    rw [Nat.and_pow_two_sub_one_eq_mod]
    have : T / 4 < 2 ^ n := by
      rw [Nat.div_lt_iff_lt_mul (by decide)]
      rw [Nat.pow_add] at hn; simpa using hn
    rw [Nat.mod_eq_of_lt this]
    show T / 4 * 4 + 0 = T
    omega
  unfold ptrMod at hT ⊢
  cases h : cfg.is64
  · simp only [h, Bool.false_eq_true, if_false, M32] at hT ⊢
    have e1 : (T + 1) % 4294967296 = T / 4 * 2 ^ 2 + 1 := by omega
    have e2 : unsignedOf 4294967296 (-kHeapObjectTagMask - 1) = (2 ^ 30 - 1) * 2 ^ 2 + 0 := by
      decide
    rw [e1, e2]
    exact key 30 hT
  · simp only [h, if_true, M64] at hT ⊢
    have e1 : (T + 1) % 18446744073709551616 = T / 4 * 2 ^ 2 + 1 := by omega
    have e2 : unsignedOf 18446744073709551616 (-kHeapObjectTagMask - 1) =
        (2 ^ 62 - 1) * 2 ^ 2 + 0 := by decide
    rw [e1, e2]
    exact key 62 hT

theorem allocationTop_lt (cfg : Config) (iso : Isolate) (m : Machine) :
    allocationTop cfg iso m < ptrMod cfg := by
  unfold allocationTop loadPtr
  rw [ptrMod_eq_256_pow]
  exact readBytes_lt _ _ _ _

theorem startTop_lt (cfg : Config) (iso : Isolate) (flags : AllocationFlags) (r : Register)
    (m : Machine) : startTop cfg iso flags r m < ptrMod cfg := by
  unfold startTop
  split
  · exact regP_lt cfg m r
  · exact allocationTop_lt cfg iso m

/-- The head of the code leaves the object without its tag bits. -/
theorem undoHead_facts (cfg : Config) (m : Machine) (object : Register) (h0 : object ≠ r0) :
    (runStraight cfg (undoHead cfg object) m).regP cfg object =
      Nat.land (m.regP cfg object) (unsignedOf (ptrMod cfg) (-kHeapObjectTagMask - 1)) %
        ptrMod cfg ∧
    (runStraight cfg (undoHead cfg object) m).mem = m.mem := by
  unfold undoHead
  rw [runStraight_movCode, runStraight_single, effect_andP]
  refine ⟨?_, ?_⟩
  · rw [regP_setCC, regP_setRegP_self, regP_setRegP_ne _ _ _ _ _ h0, regP_setRegP_self,
      unsignedOf_mod_self]
  · show (Machine.setRegP cfg _ object _).mem = m.mem
    rw [setRegP_mem, setRegP_mem]

/-- The comparison of the debug check: the object against the word in the
top slot. -/
theorem undoCheck_facts (cfg : Config) (iso : Isolate) (m : Machine) (object scratch : Register)
    (hs0 : scratch ≠ r0) (hso : scratch ≠ object) :
    (runStraight cfg (undoCheck cfg iso object scratch) m).regP cfg object = m.regP cfg object ∧
    (runStraight cfg (undoCheck cfg iso object scratch) m).mem = m.mem ∧
    (runStraight cfg (undoCheck cfg iso object scratch) m).cc =
      cmpCC (signedOf (ptrMod cfg) (m.regP cfg object))
        (signedOf (ptrMod cfg) (allocationTop cfg iso m)) := by
  unfold undoCheck
  rw [runStraight_movCode, runStraight_cons, runStraight_single, effect_ldP, effect_cmpP,
    effAddr_setRegP_self _ _ _ _ hs0, setRegP_mem]
  refine ⟨?_, ?_, ?_⟩
  · rw [regP_setCC, regP_setRegP_ne _ _ _ _ _ (Ne.symm hso),
      regP_setRegP_ne _ _ _ _ _ (Ne.symm hso)]
  · show (Machine.setRegP cfg _ scratch _).mem = m.mem
    rw [setRegP_mem, setRegP_mem]
  · show cmpCC _ _ = _
    rw [regP_setRegP_ne _ _ _ _ _ (Ne.symm hso), regP_setRegP_ne _ _ _ _ _ (Ne.symm hso),
      regP_setRegP_self, signedOf_mod]
    rfl

/-- The tail of the code writes the object to the top slot. -/
theorem undoTail_facts (cfg : Config) (iso : Isolate) (m : Machine) (object scratch : Register)
    (hs0 : scratch ≠ r0) (hso : scratch ≠ object) :
    allocationTop cfg iso (runStraight cfg (undoTail cfg iso object scratch) m) =
      m.regP cfg object := by
  unfold undoTail allocationTop
  rw [runStraight_movCode, runStraight_single, effect_stP, effAddr_setRegP_self _ _ _ _ hs0]
  show loadPtr cfg (writeBytes cfg _ _ _ _) _ = _
  rw [loadPtr_write_same, regP_setRegP_ne _ _ _ _ _ (Ne.symm hso),
    Nat.mod_eq_of_lt (regP_lt cfg m object)]
theorem isStraight_cmpP (cfg : Config) (a b : Register) : (cmpP cfg a b).isStraight = true := by
  unfold cmpP; split <;> rfl

theorem boundLabel_cmpP (cfg : Config) (a b : Register) : (cmpP cfg a b).boundLabel = none := by
  unfold cmpP; split <;> rfl

theorem boundLabel_movCode_none (cfg : Config) (d : Register) (i : Int) :
    ∀ x ∈ movCode cfg d i, x.boundLabel = none := by
  unfold movCode; split <;> simp [Instr.boundLabel]

theorem isStraight_undoHead (cfg : Config) (object : Register) :
    ∀ i ∈ undoHead cfg object, i.isStraight = true :=
  straight_append (isStraight_movCode _ _ _) (straight_cons (isStraight_andP _ _ _) straight_nil)

theorem isStraight_undoCheck (cfg : Config) (iso : Isolate) (object scratch : Register) :
    ∀ i ∈ undoCheck cfg iso object scratch, i.isStraight = true :=
  straight_append (isStraight_movCode _ _ _)
    (straight_cons (isStraight_ldP _ _ _) (straight_cons (isStraight_cmpP _ _ _) straight_nil))

theorem isStraight_undoTail (cfg : Config) (iso : Isolate) (object scratch : Register) :
    ∀ i ∈ undoTail cfg iso object scratch, i.isStraight = true :=
  straight_append (isStraight_movCode _ _ _) (straight_cons (isStraight_stP _ _ _) straight_nil)

theorem boundLabel_undoPrefix (cfg : Config) (iso : Isolate) (object scratch : Register) :
    ∀ i ∈ undoHead cfg object ++ undoCheck cfg iso object scratch, i.boundLabel = none := by
  intro i hi
  simp only [undoHead, undoCheck, List.mem_append, List.mem_cons, List.mem_singleton,
    List.not_mem_nil, or_false] at hi
  rcases hi with (h | h) | h | h | h
  · exact boundLabel_movCode_none _ _ _ i h
  · rw [h]; exact boundLabel_andP _ _ _
  · exact boundLabel_movCode_none _ _ _ i h
  · rw [h]; exact boundLabel_ldP _ _ _
  · rw [h]; exact boundLabel_cmpP _ _ _

/-- The run of the code of a build without `DEBUG`. -/
theorem exec_undo_release (cfg : Config) (env : Env) (iso : Isolate) (m : Machine)
    (object scratch : Register) :
    exec cfg env (undoCode cfg iso false object scratch)
        ((undoCode cfg iso false object scratch).length + 1) m =
      some ⟨.fallthrough, runStraight cfg (undoTail cfg iso object scratch)
        (runStraight cfg (undoHead cfg object) m), []⟩ := by
  have e : undoCode cfg iso false object scratch =
      undoHead cfg object ++ undoTail cfg iso object scratch := rfl
  rw [e, exec_of_straight cfg env _
    (straight_append (isStraight_undoHead _ _) (isStraight_undoTail _ _ _ _)), runStraight_append]

/-- The run of the code of a build with `DEBUG`: the write-back happens when
the comparison gives "less", and the code aborts otherwise. -/
theorem exec_undo_debug (cfg : Config) (env : Env) (iso : Isolate) (m : Machine)
    (object scratch : Register) :
    exec cfg env (undoCode cfg iso true object scratch)
        ((undoCode cfg iso true object scratch).length + 1) m =
      if condHolds lt (runStraight cfg (undoCheck cfg iso object scratch)
          (runStraight cfg (undoHead cfg object) m)).cc = true then
        some ⟨.fallthrough, runStraight cfg (undoTail cfg iso object scratch)
          (runStraight cfg (undoCheck cfg iso object scratch)
            (runStraight cfg (undoHead cfg object) m)), []⟩
      else
        some ⟨.abort, runStraight cfg (undoCheck cfg iso object scratch)
          (runStraight cfg (undoHead cfg object) m), []⟩ := by
  have e : undoCode cfg iso true object scratch =
      (undoHead cfg object ++ undoCheck cfg iso object scratch) ++
        (.brc lt 0 :: .abort :: .bind 0 :: undoTail cfg iso object scratch) := rfl
  have hlen : (undoCode cfg iso true object scratch).length + 1 =
      ((undoTail cfg iso object scratch).length + 3 + 1) +
        (undoHead cfg object ++ undoCheck cfg iso object scratch).length := by
    rw [e]; simp only [List.length_append, List.length_cons]; omega
  have hsuf : suffixAt 0 (undoCode cfg iso true object scratch) =
      some (.bind 0 :: undoTail cfg iso object scratch) := by
    rw [e, suffixAt_skip 0 _ _ (boundLabel_undoPrefix cfg iso object scratch), suffixAt_cons,
      if_neg (by simp [Instr.boundLabel]), suffixAt_cons, if_neg (by simp [Instr.boundLabel]),
      suffixAt_cons]
    rfl
  unfold exec
  rw [hlen]
  nth_rewrite 2 [e]
  rw [run_straight cfg env _ _ _
    (straight_append (isStraight_undoHead _ _) (isStraight_undoCheck _ _ _ _)), run_brc, hsuf,
    runStraight_append]
  split
  · show run cfg env _ ((undoTail cfg iso object scratch).length + 2 + 1) _ _ _ = _
    rw [run_bind]
    have h2 := run_straight cfg env (undoCode cfg iso true object scratch)
      (undoTail cfg iso object scratch) [] (isStraight_undoTail _ _ _ _) 2
      (runStraight cfg (undoCheck cfg iso object scratch)
        (runStraight cfg (undoHead cfg object) m)) []
    rw [List.append_nil, Nat.add_comm 2] at h2
    rw [h2]
    rfl
  · rfl
/-- C21 (amended): for every allocation start `T` with clear tag bits and
every size, when the code of `AllocateInNewSpace` with `TAG_OBJECT` falls
through, the code of `UndoAllocationInNewSpace` applied to the result register
(with a scratch register other than it and `r0`) runs to its end and leaves
`T` in the allocation-top slot; in a build with `DEBUG` this is for a size
that is positive as a signed pointer-width word. -/
theorem UndoAllocation_restores_top (cfg : Config) (iso : Isolate) (env : Env) (m : Machine)
    (size : SizeArg) (result scratch1 scratch2 : Register) (gc : Label)
    (flags : AllocationFlags) (DEBUG : Bool) (scratch : Register) (codeA codeU : List Instr)
    (hinl : cfg.FLAG_inline_new = true) (hdbg : cfg.emit_debug_code = false)
    (hregs : AllocRegs result scratch1 scratch2) (hs1 : scratch1 ≠ r0)
    (hlim : iso.new_space_allocation_limit =
      iso.new_space_allocation_top + (kPointerSize cfg : Int))
    (hsize : size.clearOf result scratch1)
    (htag : flags.TAG_OBJECT = true)
    (hA : codeOf (AllocateInNewSpace cfg iso size result scratch1 scratch2 gc flags) false
      = some codeA)
    (hU : codeOf (UndoAllocationInNewSpace cfg iso DEBUG result scratch) false = some codeU)
    (hr0 : result ≠ r0) (hsr : scratch ≠ result) (hs0 : scratch ≠ r0)
    (hT : startTop cfg iso flags result m % 4 = 0)
    (hpos : DEBUG = true → 0 < signedOf (ptrMod cfg) (requestedBytes cfg flags m size)) :
    ∃ f, exec cfg env codeA 16 m = some f ∧
      (f.outcome = .fallthrough →
        ∃ g, exec cfg env codeU (codeU.length + 1) f.machine = some g ∧
          g.outcome = .fallthrough ∧
          allocationTop cfg iso g.machine = startTop cfg iso flags result m) := by
  obtain ⟨f, hf, -, hyes, hno⟩ := AllocateInNewSpace_spec cfg iso env m size result scratch1
    scratch2 gc flags codeA hinl hdbg hregs hs1 hlim hsize hA
  refine ⟨f, hf, fun ho => ?_⟩
  have hcU := UndoAllocationInNewSpace_code cfg iso DEBUG result scratch false codeU hU
  subst hcU
  by_cases hc : signedAddOverflows cfg (startTop cfg iso flags result m)
      (requestedBytes cfg flags m size) ∨
    allocationLimit cfg iso m <
      (startTop cfg iso flags result m + requestedBytes cfg flags m size) % ptrMod cfg
  · rw [(hyes hc).1] at ho
    exact Outcome.noConfusion ho
  · obtain ⟨-, hmem, hres⟩ := hno hc
    rw [htag, if_pos rfl] at hres
    have hlt := startTop_lt cfg iso flags result m
    obtain ⟨h1, h2⟩ := undoHead_facts cfg f.machine result hr0
    rw [hres, strip_tag cfg _ hlt hT, Nat.mod_eq_of_lt hlt] at h1
    cases DEBUG
    · refine ⟨_, exec_undo_release cfg env iso f.machine result scratch, rfl, ?_⟩
      show allocationTop cfg iso _ = _
      rw [undoTail_facts cfg iso _ result scratch hs0 hsr, h1]
    · obtain ⟨k1, k2, k3⟩ := undoCheck_facts cfg iso
        (runStraight cfg (undoHead cfg result) f.machine) result scratch hs0 hsr
      have htop : allocationTop cfg iso (runStraight cfg (undoHead cfg result) f.machine) =
          (startTop cfg iso flags result m + requestedBytes cfg flags m size) % ptrMod cfg := by
        rw [allocationTop, h2, hmem, loadPtr_write_same, Nat.mod_mod]
      have hcond : condHolds lt (runStraight cfg (undoCheck cfg iso result scratch)
          (runStraight cfg (undoHead cfg result) f.machine)).cc = true := by
        rw [k3, condHolds_lt_cmpCC, h1, htop,
          signedOf_add_of_not_overflow cfg _ _ (fun h => hc (Or.inl h))]
        have := hpos rfl
        omega
      refine ⟨_, (exec_undo_debug cfg env iso f.machine result scratch).trans (if_pos hcond),
        rfl, ?_⟩
      show allocationTop cfg iso _ = _
      rw [undoTail_facts cfg iso _ result scratch hs0 hsr, k1, h1]

/-- In a build with `DEBUG`, after the allocation of the size `-8` from the
top 65536, which falls through with the top slot at 65528 and the tagged
result 65537, the code of `UndoAllocationInNewSpace` ends in the abort
sequence of its check and leaves 65528, not 65536, in the top slot. -/
theorem UndoAllocation_debug_check_aborts :
    (codeOf (AllocateInNewSpace cfg64 (sampleIsolate cfg64) (.imm (-8)) r2 r3 r4 7
        ⟨true, false, false⟩) false).bind (fun codeA =>
      (exec cfg64 sampleEnv codeA 16 (allocMachine64 65536 131072)).bind (fun f =>
        (codeOf (UndoAllocationInNewSpace cfg64 (sampleIsolate cfg64) true r2 r5) false).bind
          (fun codeU =>
            (exec cfg64 sampleEnv codeU (codeU.length + 1) f.machine).map (fun g =>
              (f.outcome, f.machine.regs r2, g.outcome,
                allocationTop cfg64 (sampleIsolate cfg64) g.machine))))) =
      some (.fallthrough, 65537, .abort, 65528) ∧
    startTop cfg64 (sampleIsolate cfg64) ⟨true, false, false⟩ r2
      (allocMachine64 65536 131072) = 65536 := by
  decide!

theorem UndoAllocation_restores_top_witness :
    ∃ f, exec cfg64 sampleEnv
        [.iihf r3 0, .iilf r3 4096, .lghi r4 32, .lg r2 ⟨r3, r0, 0⟩, .lg ip ⟨r3, r0, 8⟩,
          .agr r4 r2, .brc CC_OF 7, .clgr r4 ip, .brc gt 7, .stg r4 ⟨r3, r0, 0⟩, .aghi r2 1]
        16 (allocMachine64 65536 131072) = some f ∧
      (f.outcome = .fallthrough →
        ∃ g, exec cfg64 sampleEnv (undoCode cfg64 (sampleIsolate cfg64) true r2 r5)
            ((undoCode cfg64 (sampleIsolate cfg64) true r2 r5).length + 1) f.machine = some g ∧
          g.outcome = .fallthrough ∧
          allocationTop cfg64 (sampleIsolate cfg64) g.machine =
            startTop cfg64 (sampleIsolate cfg64) ⟨true, false, false⟩ r2
              (allocMachine64 65536 131072)) :=
  UndoAllocation_restores_top cfg64 (sampleIsolate cfg64) sampleEnv
    (allocMachine64 65536 131072) (.imm 32) r2 r3 r4 7 ⟨true, false, false⟩ true r5 _ _
    (by decide) (by decide) ⟨by decide, by decide, by decide, by decide, by decide, by decide⟩
    (by decide) (by decide) trivial rfl (by rfl) (by rfl) (by decide) (by decide) (by decide)
    (by decide) (fun _ => by decide)

/-! ## The remembered set -/

theorem shift_two_pow (k : Nat) (hk : k ≤ 30) :
    shiftOutTrailingZeros 64 0 ((2 : Int) ^ k) = ((k : Int), 1) := by
  interval_cases k <;> rfl

theorem unsignedOf_M32_two_pow (k : Nat) (hk : k ≤ 30) : unsignedOf M32 ((2 : Int) ^ k) = 2 ^ k := by
  interval_cases k <;> rfl

theorem AndP_bit_run (cfg : Config) (src : Register) (k : Nat) (hk : k ≤ 30) (hs : src ≠ r0)
    (st : Asm) :
    (AndP_Register_Operand cfg r0 src (Operand.ofInt ((2 : Int) ^ k))).run st =
      ((), { st with code := st.code ++ andBitCode cfg src k,
                     failed := st.failed || !((andBitCode cfg src k).all Instr.encodable) }) := by
  have h1 : IsPowerOf2 (ptrMod cfg) 2 = true := by
    unfold ptrMod; cases cfg.is64 <;> rfl
  have h0 : Nat.log2 1 = 0 := by
    first
      | exact Nat.log2_one
      | (rw [Nat.log2]; rfl)
      | simp [Nat.log2]
  have h2 : CountLeadingZeros (unsignedOf M32 1) = 31 := by
    have e : unsignedOf M32 1 % M32 = 1 := rfl
    unfold CountLeadingZeros
    rw [e, h0]
    rfl
  have h3 : (2 : Int) ^ k / 4294967296 = 0 := by interval_cases k <;> rfl
  have h4 : (2 : Int) ^ k % 4294967296 = 2 ^ k := by interval_cases k <;> rfl
  have h5 : (2 : Int) ^ k ≠ 0 := by positivity
  have h6 : (32 : Int) + 31 - k = 63 - k := by omega
  have hs2 : r0 ≠ src := Ne.symm hs
  unfold AndP_Register_Operand andBitCode
  cases hg : cfg.general_instr_ext <;> cases h64 : cfg.is64 <;>
    simp [Operand.ofInt, shift_two_pow k hk, h1, h2, h3, h4, h5, h6, hs2, LoadRR, lrP,
      AndP_Operand, And_Operand, h64, Bool.or_assoc, Bool.not_and, Ne.symm h5]
theorem condHolds_eq_logicCC (x : Nat) : condHolds eq (logicCC x) = decide (x = 0) := by
  unfold logicCC
  by_cases h : x = 0
  · rw [if_pos h]; simp [h]; rfl
  · rw [if_neg h]; simp [h]; rfl

theorem testBit_mod_M32 (x k : Nat) (hk : k ≤ 30) : (x % M32).testBit k = x.testBit k := by
  show (x % 2 ^ 32).testBit k = _
  rw [Nat.testBit_mod_two_pow]
  simp [show k < 32 by omega]

theorem testBit_mod_M64 (x k : Nat) (hk : k ≤ 30) : (x % M64).testBit k = x.testBit k := by
  show (x % 2 ^ 64).testBit k = _
  rw [Nat.testBit_mod_two_pow]
  simp [show k < 64 by omega]

theorem testBit_regP (cfg : Config) (m : Machine) (r : Register) (k : Nat) (hk : k ≤ 30) :
    (m.regP cfg r).testBit k = (m.regs r).testBit k := by
  unfold Machine.regP ptrMod
  split
  · exact testBit_mod_M64 _ _ hk
  · exact testBit_mod_M32 _ _ hk

theorem condHolds_eq_land_bit (x k : Nat) :
    condHolds eq (logicCC (Nat.land x (2 ^ k))) = !x.testBit k := by
  rw [condHolds_eq_logicCC, land_two_pow]
  have hpos : 2 ^ k ≠ 0 := by positivity
  cases x.testBit k <;> simp [hpos]

theorem signCC_two_pow (k : Nat) (hk : k ≤ 30) : signCC M64 (2 ^ k) = 2 := by
  interval_cases k <;> rfl

theorem risbg_single_bit (k : Nat) (hk : k ≤ 30) :
    risbgMask (unsignedOf 64 (63 - (k : Int))) (unsignedOf 64 (63 - (k : Int))) = 2 ^ k := by
  interval_cases k <;> rfl

theorem rotl64_zero (x : Nat) : rotl64 x (unsignedOf 64 0) = x % M64 := by
  have e : unsignedOf 64 0 = 0 := rfl
  have h := Nat.mod_lt x (show 0 < M64 by decide)
  unfold rotl64
  rw [e]
  simp only [Nat.zero_mod, pow_zero, Nat.mul_one, Nat.mod_mod, Nat.sub_zero]
  rw [Nat.div_eq_of_lt (by simpa [M64] using h), Nat.add_zero]

/-- The code of the conjunction with the bit `2^k` leaves a condition code
under which `eq` holds exactly when bit `k` of the source is clear, and changes
no register other than `r0`. -/
theorem andBitCode_facts (cfg : Config) (m : Machine) (src : Register) (k : Nat) (hk : k ≤ 30)
    (hs : src ≠ r0) :
    condHolds eq (runStraight cfg (andBitCode cfg src k) m).cc = !(m.regs src).testBit k ∧
    (∀ x, x ≠ r0 → (runStraight cfg (andBitCode cfg src k) m).regs x = m.regs x) ∧
    (runStraight cfg (andBitCode cfg src k) m).mem = m.mem := by
  unfold andBitCode
  cases hg : cfg.general_instr_ext
  · cases h64 : cfg.is64
    · simp only [Bool.false_eq_true, if_false, lrP, h64]
      have e : runStraight cfg [Instr.lr r0 src, Instr.nilf r0 ((2 : Int) ^ k)] m =
          and32 (m.setReg r0 (setLo32 (m.regs r0) (m.regs src))) r0
            ((m.setReg r0 (setLo32 (m.regs r0) (m.regs src))).regs r0)
            (unsignedOf M32 ((2 : Int) ^ k)) := rfl
      rw [e, unsignedOf_M32_two_pow k hk]
      refine ⟨?_, fun x hx => ?_, rfl⟩
      · show condHolds eq (logicCC (Nat.land _ (2 ^ k % M32))) = _
        rw [setReg_regs_self, setLo32_mod,
          Nat.mod_eq_of_lt (show 2 ^ k < M32 by
            exact lt_of_le_of_lt (Nat.pow_le_pow_right (by decide) hk) (by decide)),
          condHolds_eq_land_bit, testBit_mod_M32 _ _ hk]
      · show (Machine.setReg _ r0 _).regs x = _
        rw [setReg_regs_ne _ _ _ _ hx, setReg_regs_ne _ _ _ _ hx]
    · simp only [Bool.false_eq_true, if_false, if_true, lrP, h64]
      have e : runStraight cfg [Instr.lgr r0 src, Instr.nihf r0 0, Instr.nilf r0 ((2 : Int) ^ k)] m =
          and32 (((m.setReg r0 (m.regs src % M64)).setReg r0
              (setHi32 ((m.setReg r0 (m.regs src % M64)).regs r0)
                (Nat.land (hi32 ((m.setReg r0 (m.regs src % M64)).regs r0))
                  (unsignedOf M32 0)))).setCC
              (logicCC (Nat.land (hi32 ((m.setReg r0 (m.regs src % M64)).regs r0))
                (unsignedOf M32 0)))) r0
            ((((m.setReg r0 (m.regs src % M64)).setReg r0
              (setHi32 ((m.setReg r0 (m.regs src % M64)).regs r0)
                (Nat.land (hi32 ((m.setReg r0 (m.regs src % M64)).regs r0))
                  (unsignedOf M32 0)))).setCC
              (logicCC (Nat.land (hi32 ((m.setReg r0 (m.regs src % M64)).regs r0))
                (unsignedOf M32 0)))).regs r0)
            (unsignedOf M32 ((2 : Int) ^ k)) := rfl
      rw [e, unsignedOf_M32_two_pow k hk]
      refine ⟨?_, fun x hx => ?_, rfl⟩
      · show condHolds eq (logicCC (Nat.land (_ % M32) (2 ^ k % M32))) = _
        simp only [setCC_regs, setReg_regs_self]
        rw [Nat.mod_eq_of_lt (show 2 ^ k < M32 by
            exact lt_of_le_of_lt (Nat.pow_le_pow_right (by decide) hk) (by decide)),
          condHolds_eq_land_bit]
        have h2 : setHi32 (m.regs src % M64) (Nat.land (hi32 (m.regs src % M64))
            (unsignedOf M32 0)) % M32 = m.regs src % M32 := by
          simp only [setHi32, lo32, M32, M64]; omega
        rw [h2, testBit_mod_M32 _ _ hk]
      · simp only [and32, setCC_regs, setReg_regs_ne _ _ x _ hx]
  · simp only [if_true]
    have e : runStraight cfg [Instr.risbg r0 src (63 - (k : Int)) (63 - (k : Int)) 0 true] m =
        (m.setReg r0 (Nat.land (rotl64 (m.regs src) (unsignedOf 64 0))
          (risbgMask (unsignedOf 64 (63 - (k : Int))) (unsignedOf 64 (63 - (k : Int)))))).setCC
          (signCC M64 (Nat.land (rotl64 (m.regs src) (unsignedOf 64 0))
            (risbgMask (unsignedOf 64 (63 - (k : Int))) (unsignedOf 64 (63 - (k : Int)))))) :=
      rfl
    rw [e, risbg_single_bit k hk, rotl64_zero, land_two_pow, testBit_mod_M64 _ _ hk]
    refine ⟨?_, fun x hx => ?_, rfl⟩
    · show condHolds eq (signCC M64 _) = _
      cases (m.regs src).testBit k
      · simp only [Bool.false_eq_true, if_false]; rfl
      · simp only [if_true, signCC_two_pow k hk]; rfl
    · show (Machine.setReg _ r0 _).regs x = _
      rw [setReg_regs_ne _ _ _ _ hx]
theorem is_int32_kPointerSize (cfg : Config) : is_int32 (kPointerSize cfg : Int) = true := by
  unfold kPointerSize; split <;> rfl

theorem unsignedOf_kPointerSize (cfg : Config) :
    unsignedOf (ptrMod cfg) (kPointerSize cfg : Int) = kPointerSize cfg := by
  rcases kPointerSize_cases cfg with ⟨h1, _, h3, _⟩ | ⟨h1, _, h3, _⟩ <;> rw [h1, h3] <;> rfl

theorem storeBufferTop_lt (cfg : Config) (iso : Isolate) (m : Machine) :
    storeBufferTop cfg iso m < ptrMod cfg := by
  unfold storeBufferTop loadPtr
  rw [ptrMod_eq_256_pow]
  exact readBytes_lt _ _ _ _

theorem effAddr_zero_disp (cfg : Config) (m : Machine) (r : Register) (h : r ≠ r0) :
    effAddr cfg m ⟨r, r0, 0⟩ = m.addr cfg r := by
  rw [effAddr_disp _ _ _ _ h, slot_fold_zero, slot_of_lt cfg _ (addr_lt cfg m r)]

/-- The code of `RememberedSetHelper` before the branch: it stores the
address at the store-buffer top `B`, stores `B` plus one word in the top slot,
and leaves a condition code under which `eq` holds exactly when bit `k` of the
new top is clear; only `ip`, `scratch` and `r0` change. -/
theorem rsPrefix_facts (cfg : Config) (iso : Isolate) (m : Machine) (address scratch : Register)
    (k : Nat) (hk : k ≤ 30) (hs0 : scratch ≠ r0) (hsi : scratch ≠ ip) (hai : address ≠ ip)
    (has : address ≠ scratch) :
    (runStraight cfg (rsPrefix cfg iso address scratch k) m).mem =
      writeBytes cfg
        (writeBytes cfg m.mem (storeBufferTop cfg iso m % addrMod cfg) (kPointerSize cfg)
          (m.regP cfg address))
        (storeBufferSlot cfg iso) (kPointerSize cfg)
        ((storeBufferTop cfg iso m + kPointerSize cfg) % ptrMod cfg) ∧
    condHolds eq (runStraight cfg (rsPrefix cfg iso address scratch k) m).cc =
      !((storeBufferTop cfg iso m + kPointerSize cfg) % ptrMod cfg).testBit k ∧
    (∀ x, x ≠ ip → x ≠ scratch → x ≠ r0 →
      (runStraight cfg (rsPrefix cfg iso address scratch k) m).regs x = m.regs x) := by
  have hB := storeBufferTop_lt cfg iso m
  unfold rsPrefix
  rw [runStraight_movCode, runStraight_cons, runStraight_cons, runStraight_cons,
    runStraight_cons, effect_ldP, effAddr_setRegP_self _ _ _ _ ip_ne_r0, setRegP_mem,
    effect_stP, effect_addPI _ _ _ _ (is_int32_kPointerSize cfg), effect_stP,
    unsignedOf_kPointerSize]
  have e0 : loadPtr cfg m.mem (unsignedOf (addrMod cfg) iso.store_buffer_top) =
      storeBufferTop cfg iso m := rfl
  rw [e0]
  generalize storeBufferTop cfg iso m = B at hB ⊢
  generalize hs1 : (m.setRegP cfg ip (unsignedOf (ptrMod cfg) iso.store_buffer_top)).setRegP cfg
    scratch B = s1
  have a1 : s1.mem = m.mem := by rw [← hs1, setRegP_mem, setRegP_mem]
  have a2 : s1.regP cfg scratch = B := by
    rw [← hs1, regP_setRegP_self, Nat.mod_eq_of_lt hB]
  have a3 : s1.regP cfg address = m.regP cfg address := by
    rw [← hs1, regP_setRegP_ne _ _ _ _ _ has, regP_setRegP_ne _ _ _ _ _ hai]
  have a4 : s1.addr cfg ip = storeBufferSlot cfg iso := by
    rw [← hs1, addr_setRegP_ne _ _ _ _ _ (Ne.symm hsi), addr_setRegP_self,
      unsignedOf_ptr_mod_addr]
    rfl
  have a5 : s1.addr cfg scratch = B % addrMod cfg := by rw [← hs1, addr_setRegP_self]
  have a6 : ∀ x, x ≠ ip → x ≠ scratch → s1.regs x = m.regs x := by
    intro x h1 h2
    rw [← hs1, setRegP_regs_ne _ _ _ _ _ h2, setRegP_regs_ne _ _ _ _ _ h1]
  rw [effAddr_zero_disp cfg s1 scratch hs0, a5, a3, regP_store, a2]
  generalize hs3 : ((s1.store cfg (B % addrMod cfg) (kPointerSize cfg)
    (m.regP cfg address)).setRegP cfg scratch (B + kPointerSize cfg)).setCC _ = s3
  have b1 : s3.mem = writeBytes cfg m.mem (B % addrMod cfg) (kPointerSize cfg)
      (m.regP cfg address) := by
    rw [← hs3]
    show (Machine.setRegP cfg _ scratch _).mem = _
    rw [setRegP_mem]
    show writeBytes cfg s1.mem _ _ _ = _
    rw [a1]
  have b2 : s3.regP cfg scratch = (B + kPointerSize cfg) % ptrMod cfg := by
    rw [← hs3, regP_setCC, regP_setRegP_self]
  have b3 : s3.addr cfg ip = storeBufferSlot cfg iso := by
    rw [← hs3, addr_setCC, addr_setRegP_ne _ _ _ _ _ (Ne.symm hsi), addr_store, a4]
  have b4 : ∀ x, x ≠ ip → x ≠ scratch → s3.regs x = m.regs x := by
    intro x h1 h2
    rw [← hs3]
    show (Machine.setRegP cfg _ scratch _).regs x = _
    rw [setRegP_regs_ne _ _ _ _ _ h2]
    exact a6 x h1 h2
  rw [effAddr_zero_disp cfg s3 ip ip_ne_r0, b3, b2]
  obtain ⟨c1, c2, c3⟩ := andBitCode_facts cfg
    (s3.store cfg (storeBufferSlot cfg iso) (kPointerSize cfg)
      ((B + kPointerSize cfg) % ptrMod cfg)) scratch k hk hs0
  refine ⟨?_, ?_, ?_⟩
  · rw [c3]
    show writeBytes cfg s3.mem _ _ _ = _
    rw [b1]
  · rw [c1, ← b2, ← testBit_regP cfg _ scratch k hk, regP_store]
  · intro x h1 h2 h3
    rw [c2 x h3]
    exact b4 x h1 h2
theorem nolabel_append {a b : List Instr} (h1 : ∀ i ∈ a, i.boundLabel = none)
    (h2 : ∀ i ∈ b, i.boundLabel = none) : ∀ i ∈ a ++ b, i.boundLabel = none := by
  intro i hi
  rcases List.mem_append.mp hi with h | h
  · exact h1 i h
  · exact h2 i h

theorem nolabel_cons {x : Instr} {b : List Instr} (h1 : x.boundLabel = none)
    (h2 : ∀ i ∈ b, i.boundLabel = none) : ∀ i ∈ x :: b, i.boundLabel = none := by
  intro i hi
  rcases List.mem_cons.mp hi with h | h
  · rw [h]; exact h1
  · exact h2 i h

theorem nolabel_nil : ∀ i ∈ ([] : List Instr), i.boundLabel = none := by
  intro i hi; cases hi

theorem isStraight_andBitCode (cfg : Config) (src : Register) (k : Nat) :
    ∀ i ∈ andBitCode cfg src k, i.isStraight = true := by
  unfold andBitCode
  exact straight_ite (straight_cons rfl straight_nil)
    (straight_cons (isStraight_lrP _ _ _)
      (straight_ite (straight_cons rfl (straight_cons rfl straight_nil))
        (straight_cons rfl straight_nil)))

theorem boundLabel_andBitCode (cfg : Config) (src : Register) (k : Nat) :
    ∀ i ∈ andBitCode cfg src k, i.boundLabel = none := by
  unfold andBitCode
  split
  · exact nolabel_cons rfl nolabel_nil
  · refine nolabel_cons (boundLabel_lrP _ _ _) ?_
    split
    · exact nolabel_cons rfl (nolabel_cons rfl nolabel_nil)
    · exact nolabel_cons rfl nolabel_nil

theorem isStraight_rsPrefix (cfg : Config) (iso : Isolate) (address scratch : Register)
    (k : Nat) : ∀ i ∈ rsPrefix cfg iso address scratch k, i.isStraight = true :=
  straight_append (isStraight_movCode _ _ _)
    (straight_cons (isStraight_ldP _ _ _) (straight_cons (isStraight_stP _ _ _)
      (straight_cons (isStraight_addPI _ _ _) (straight_cons (isStraight_stP _ _ _)
        (isStraight_andBitCode _ _ _)))))

theorem boundLabel_rsPrefix (cfg : Config) (iso : Isolate) (address scratch : Register)
    (k : Nat) : ∀ i ∈ rsPrefix cfg iso address scratch k, i.boundLabel = none :=
  nolabel_append (boundLabel_movCode _ _ _)
    (nolabel_cons (boundLabel_ldP _ _ _) (nolabel_cons (boundLabel_stP _ _ _)
      (nolabel_cons (boundLabel_addPI _ _ _) (nolabel_cons (boundLabel_stP _ _ _)
        (boundLabel_andBitCode _ _ _)))))

theorem isStraight_rsSave (cfg : Config) (iso : Isolate) (fp_mode : Bool) :
    ∀ i ∈ rsSave cfg iso fp_mode, i.isStraight = true :=
  straight_cons rfl (straight_cons (isStraight_stP _ _ _) (isStraight_movCode _ _ _))

theorem boundLabel_rsSave (cfg : Config) (iso : Isolate) (fp_mode : Bool) :
    ∀ i ∈ rsSave cfg iso fp_mode, i.boundLabel = none :=
  nolabel_cons rfl (nolabel_cons (boundLabel_stP _ _ _) (boundLabel_movCode _ _ _))

theorem isStraight_popCode (cfg : Config) (r : Register) :
    ∀ i ∈ popCode cfg r, i.isStraight = true :=
  straight_cons (isStraight_ldP _ _ _) (straight_cons rfl straight_nil)

theorem boundLabel_popCode_none (cfg : Config) (r : Register) :
    ∀ i ∈ popCode cfg r, i.boundLabel = none :=
  nolabel_cons (boundLabel_ldP _ _ _) (nolabel_cons rfl nolabel_nil)

theorem RememberedSetHelper_code (cfg : Config) (iso : Isolate)
    (object address scratch : Register) (fp_mode : Bool) (and_then : RememberedSetFinalAction)
    (frame : Bool) (code : List Instr) (k : Nat)
    (hdbg : cfg.emit_debug_code = false) (hbit : iso.kStoreBufferOverflowBit = (2 : Int) ^ k)
    (hk : k ≤ 30) (hs0 : scratch ≠ r0)
    (hcode : codeOf (RememberedSetHelper cfg iso object address scratch fp_mode and_then) frame
      = some code) :
    code = rsCode cfg iso address scratch fp_mode and_then k := by
  have e : ((RememberedSetHelper cfg iso object address scratch fp_mode and_then).run
      ⟨[], 0, frame, false⟩).2.code = rsCode cfg iso address scratch fp_mode and_then k := by
    have hl := fun d rb st => LoadP_run_fits cfg d rb r0 0 no_reg st (by decide)
    have hs := fun d rb st => StoreP_run_fits cfg d rb r0 0 no_reg st (by decide)
    have ha : ∀ st, (AndP_Register_Operand cfg r0 scratch ⟨(2 : Int) ^ k, RelocMode.NONE⟩).run st =
        ((), { st with code := st.code ++ andBitCode cfg scratch k,
                       failed := st.failed || !((andBitCode cfg scratch k).all Instr.encodable) }) :=
      AndP_bit_run cfg scratch k hk hs0
    cases and_then <;>
      simp [RememberedSetHelper, hdbg, hbit, mov_run, MemOperand.mk1, hl, hs, ha,
        AddP_Operand_run, beq, b, push, pop, CallStub, AllowThisStubCall, Call_Code,
        Call_Address, bind, Ret, b_Register, has_frame, rsCode, rsPrefix, rsSave, rsRet,
        popCode, Operand.ofInt] <;>
      split <;> simp
  unfold codeOf at hcode
  rw [← e]
  exact (code_of_ite hcode).1

theorem run_rsRet (cfg : Config) (env : Env) (code : List Instr) (fuel : Nat)
    (and_then : RememberedSetFinalAction) (m : Machine) (tr : List Event) :
    run cfg env code (fuel + 1) (rsRet and_then) m tr =
      some ⟨if and_then = RememberedSetFinalAction.kReturnAtEnd then
        .jump (m.regs r14 % addrMod cfg) else .fallthrough, m, tr⟩ := by
  unfold rsRet
  cases and_then
  · rw [if_pos rfl, if_pos rfl, run_bcr, if_pos (by rw [condHolds_al]; rfl)]
  · rw [if_neg (by decide), if_neg (by decide)]
    rfl

/-- The run of the code of `RememberedSetHelper`: past the prefix, either the
branch to the end is taken, or `r14` is pushed, the stub is called and `r14` is
popped; a return follows under `kReturnAtEnd`. -/
theorem exec_rsCode (cfg : Config) (env : Env) (iso : Isolate) (m : Machine)
    (address scratch : Register) (fp_mode : Bool) (and_then : RememberedSetFinalAction)
    (k : Nat) :
    ∃ n : Nat,
    exec cfg env (rsCode cfg iso address scratch fp_mode and_then k)
        ((rsCode cfg iso address scratch fp_mode and_then k).length + 1) m =
      if condHolds eq (runStraight cfg (rsPrefix cfg iso address scratch k) m).cc = true then
        some ⟨if and_then = RememberedSetFinalAction.kReturnAtEnd then
            .jump ((runStraight cfg (rsPrefix cfg iso address scratch k) m).regs r14 %
              addrMod cfg)
          else .fallthrough,
          runStraight cfg (rsPrefix cfg iso address scratch k) m, []⟩
      else
        some ⟨if and_then = RememberedSetFinalAction.kReturnAtEnd then
            .jump ((runStraight cfg (popCode cfg r14)
              (env.callee
                ((runStraight cfg (rsSave cfg iso fp_mode)
                  (runStraight cfg (rsPrefix cfg iso address scratch k) m)).regs ip %
                  addrMod cfg)
                ((runStraight cfg (rsSave cfg iso fp_mode)
                  (runStraight cfg (rsPrefix cfg iso address scratch k) m)).setRegP cfg r14
                    (env.link n)))).regs r14 % addrMod cfg)
          else .fallthrough,
          runStraight cfg (popCode cfg r14)
            (env.callee
              ((runStraight cfg (rsSave cfg iso fp_mode)
                (runStraight cfg (rsPrefix cfg iso address scratch k) m)).regs ip % addrMod cfg)
              ((runStraight cfg (rsSave cfg iso fp_mode)
                (runStraight cfg (rsPrefix cfg iso address scratch k) m)).setRegP cfg r14
                  (env.link n))),
          [.call ((runStraight cfg (rsSave cfg iso fp_mode)
            (runStraight cfg (rsPrefix cfg iso address scratch k) m)).regs ip % addrMod cfg)]⟩ := by
  generalize hP : rsPrefix cfg iso address scratch k = P
  generalize hS : rsSave cfg iso fp_mode = S
  generalize hQ : popCode cfg r14 = Q
  have hc : rsCode cfg iso address scratch fp_mode and_then k =
      P ++ (.brc eq 0 :: (S ++ (.basr r14 ip :: (Q ++ (.bind 0 :: rsRet and_then))))) := by
    rw [← hP, ← hS, ← hQ]; rfl
  have sP : ∀ i ∈ P, i.isStraight = true := hP ▸ isStraight_rsPrefix _ _ _ _ _
  have sS : ∀ i ∈ S, i.isStraight = true := hS ▸ isStraight_rsSave _ _ _
  have sQ : ∀ i ∈ Q, i.isStraight = true := hQ ▸ isStraight_popCode _ _
  have lP : ∀ i ∈ P, i.boundLabel = none := hP ▸ boundLabel_rsPrefix _ _ _ _ _
  have lS : ∀ i ∈ S, i.boundLabel = none := hS ▸ boundLabel_rsSave _ _ _
  have lQ : ∀ i ∈ Q, i.boundLabel = none := hQ ▸ boundLabel_popCode_none _ _
  generalize hcode : rsCode cfg iso address scratch fp_mode and_then k = code at hc ⊢
  have hsuf : suffixAt 0 code = some (.bind 0 :: rsRet and_then) := by
    rw [hc, suffixAt_skip 0 _ _ lP, suffixAt_cons, if_neg (by simp [Instr.boundLabel]),
      suffixAt_skip 0 _ _ lS, suffixAt_cons, if_neg (by simp [Instr.boundLabel]),
      suffixAt_skip 0 _ _ lQ, suffixAt_cons]
    rfl
  refine ⟨code.length - (Q ++ (.bind 0 :: rsRet and_then)).length, ?_⟩
  unfold exec
  have key : run cfg env code (S.length + Q.length + 4 + P.length) code m [] = _ :=
    (congrArg (fun c => run cfg env code (S.length + Q.length + 4 + P.length) c m []) hc).trans
      (run_straight cfg env code P _ sP (S.length + Q.length + 4) m [])
  rw [show S.length + Q.length + 4 = (S.length + Q.length + 3) + 1 from rfl, run_brc,
    hsuf] at key
  by_cases hcond : condHolds eq (runStraight cfg P m).cc = true
  · rw [if_pos hcond] at key ⊢
    simp only [] at key
    rw [show S.length + Q.length + 3 = (S.length + Q.length + 2) + 1 from rfl, run_bind,
      show S.length + Q.length + 2 = (S.length + Q.length + 1) + 1 from rfl, run_rsRet] at key
    refine run_mono_le cfg env code _ _ ?_ _ _ _ _ key
    rw [hc]; simp only [List.length_append, List.length_cons]; omega
  · rw [if_neg hcond] at key ⊢
    rw [show S.length + Q.length + 3 = (Q.length + 3) + S.length by omega,
      run_straight cfg env code S _ sS (Q.length + 3) _ [],
      show Q.length + 3 = (Q.length + 2) + 1 from rfl, run_basr, if_neg ip_ne_r0,
      show Q.length + 2 = 2 + Q.length by omega,
      run_straight cfg env code Q _ sQ 2 _ _, run_bind, run_rsRet] at key
    refine run_mono_le cfg env code _ _ ?_ _ _ _ _ key
    rw [hc]; simp only [List.length_append, List.length_cons]; omega
theorem slot_neg_one (cfg : Config) (a : Nat) :
    unsignedOf (addrMod cfg) ((a : Int) + -(kPointerSize cfg : Int)) = slot cfg a (-1) := by
  unfold slot; rw [neg_one_mul]

/-- The instructions that push `r14` and load the stub address: `r14` is
stored one word below the stack pointer, which then points there, and `ip`
holds the stub address. -/
theorem rsSave_facts (cfg : Config) (iso : Isolate) (fp_mode : Bool) (m : Machine) :
    (runStraight cfg (rsSave cfg iso fp_mode) m).mem =
      writeBytes cfg m.mem (slot cfg (m.addr cfg sp) (-1)) (kPointerSize cfg) (m.regP cfg r14) ∧
    (runStraight cfg (rsSave cfg iso fp_mode) m).addr cfg sp = slot cfg (m.addr cfg sp) (-1) ∧
    (runStraight cfg (rsSave cfg iso fp_mode) m).regs ip % addrMod cfg =
      unsignedOf (addrMod cfg) (iso.StoreBufferOverflowStub fp_mode).GetCode := by
  have hsp : sp ≠ r0 := by decide
  have h1 : sp ≠ ip := by decide
  have h2 : r14 ≠ sp := by decide
  unfold rsSave
  rw [runStraight_cons, runStraight_cons, effect_lay, effect_stP,
    effAddr_disp _ _ _ _ hsp, slot_neg_one, effAddr_zero_disp _ _ _ hsp, addr_setRegP_self,
    Nat.mod_eq_of_lt (slot_lt cfg _ _), regP_setRegP_ne _ _ _ _ _ h2,
    ← List.append_nil (movCode cfg ip _), runStraight_movCode, runStraight_nil]
  refine ⟨?_, ?_, ?_⟩
  · rw [setRegP_mem]
    show writeBytes cfg (Machine.setRegP cfg m sp _).mem _ _ _ = _
    rw [setRegP_mem]
  · rw [addr_setRegP_ne _ _ _ _ _ h1, addr_store, addr_setRegP_self,
      Nat.mod_eq_of_lt (slot_lt cfg _ _)]
  · show Machine.addr cfg _ ip = _
    rw [addr_setRegP_self, unsignedOf_ptr_mod_addr]

/-- Popping `r14` loads it from the word at the stack pointer. -/
theorem popCode_r14 (cfg : Config) (m : Machine) :
    (runStraight cfg (popCode cfg r14) m).regP cfg r14 = loadPtr cfg m.mem (m.addr cfg sp) := by
  have hsp : sp ≠ r0 := by decide
  have h2 : r14 ≠ sp := by decide
  have hlt : loadPtr cfg m.mem (m.addr cfg sp) < ptrMod cfg := by
    unfold loadPtr; rw [ptrMod_eq_256_pow]; exact readBytes_lt _ _ _ _
  unfold popCode
  rw [runStraight_cons, runStraight_single, effect_ldP, effect_la,
    regP_setRegP_ne _ _ _ _ _ h2, regP_setRegP_self, effAddr_zero_disp _ _ _ hsp,
    Nat.mod_eq_of_lt hlt]

theorem getLast_rsCode (cfg : Config) (iso : Isolate) (address scratch : Register)
    (fp_mode : Bool) (and_then : RememberedSetFinalAction) (k : Nat) :
    (rsCode cfg iso address scratch fp_mode and_then k).getLast? = some (.bcr al r14) ↔
      and_then = RememberedSetFinalAction.kReturnAtEnd := by
  cases and_then
  · have e : rsCode cfg iso address scratch fp_mode RememberedSetFinalAction.kReturnAtEnd k =
        (rsPrefix cfg iso address scratch k ++ (.brc eq 0 :: (rsSave cfg iso fp_mode ++
          (.basr r14 ip :: (popCode cfg r14 ++ [.bind 0]))))) ++ [.bcr al r14] := by
      simp [rsCode, rsRet]
    rw [e, List.getLast?_concat]
    simp
  · have e : rsCode cfg iso address scratch fp_mode RememberedSetFinalAction.kFallThroughAtEnd k =
        (rsPrefix cfg iso address scratch k ++ (.brc eq 0 :: (rsSave cfg iso fp_mode ++
          (.basr r14 ip :: popCode cfg r14)))) ++ [.bind 0] := by
      simp [rsCode, rsRet]
    rw [e, List.getLast?_concat]
    simp

/-- C22: without debug code and with the overflow bit `2^k`, the code of
`RememberedSetHelper`, run from a store-buffer top `B` and an address `a`
(registers `scratch` and `address` as the function needs them, the word at `B`,
the top slot and the word below the stack pointer pairwise apart, a stub that
keeps the stack) writes `a` at `B` and `B` plus one word into the top slot,
calls the overflow stub exactly when bit `k` of `B` plus one word is set, with
`r14` the same afterwards as before; the code ends in a return exactly under
`kReturnAtEnd`, and the run then ends in the return to `r14` on both paths, and
falls through otherwise. -/
theorem RememberedSetHelper_appends (cfg : Config) (iso : Isolate) (env : Env) (m : Machine)
    (object address scratch : Register) (fp_mode : Bool) (and_then : RememberedSetFinalAction)
    (frame : Bool) (code : List Instr) (k : Nat)
    (hdbg : cfg.emit_debug_code = false) (hbit : iso.kStoreBufferOverflowBit = (2 : Int) ^ k)
    (hk : k ≤ 30)
    (hs0 : scratch ≠ r0) (hsi : scratch ≠ ip) (hs14 : scratch ≠ r14) (hssp : scratch ≠ sp)
    (hai : address ≠ ip) (has : address ≠ scratch)
    (hd : Disjoint cfg (storeBufferTop cfg iso m % addrMod cfg) (kPointerSize cfg)
      (storeBufferSlot cfg iso) (kPointerSize cfg))
    (hst1 : Disjoint cfg (storeBufferTop cfg iso m % addrMod cfg) (kPointerSize cfg)
      (slot cfg (m.addr cfg sp) (-1)) (kPointerSize cfg))
    (hst2 : Disjoint cfg (storeBufferSlot cfg iso) (kPointerSize cfg)
      (slot cfg (m.addr cfg sp) (-1)) (kPointerSize cfg))
    (hcal : env.keepsStackTop cfg
      (unsignedOf (addrMod cfg) (iso.StoreBufferOverflowStub fp_mode).GetCode))
    (hcode : codeOf (RememberedSetHelper cfg iso object address scratch fp_mode and_then) frame
      = some code) :
    ∃ f, exec cfg env code (code.length + 1) m = some f ∧
      f.outcome = (if and_then = RememberedSetFinalAction.kReturnAtEnd then
        .jump (m.addr cfg r14) else .fallthrough) ∧
      f.machine.regP cfg r14 = m.regP cfg r14 ∧
      f.trace = (if ((storeBufferTop cfg iso m + kPointerSize cfg) % ptrMod cfg).testBit k = true
        then [.call (unsignedOf (addrMod cfg) (iso.StoreBufferOverflowStub fp_mode).GetCode)]
        else []) ∧
      (((storeBufferTop cfg iso m + kPointerSize cfg) % ptrMod cfg).testBit k = false →
        loadPtr cfg f.machine.mem (storeBufferTop cfg iso m % addrMod cfg) = m.regP cfg address ∧
        storeBufferTop cfg iso f.machine =
          (storeBufferTop cfg iso m + kPointerSize cfg) % ptrMod cfg) ∧
      (((storeBufferTop cfg iso m + kPointerSize cfg) % ptrMod cfg).testBit k = true →
        ∃ mc, f.machine = runStraight cfg (popCode cfg r14)
            (env.callee (unsignedOf (addrMod cfg) (iso.StoreBufferOverflowStub fp_mode).GetCode)
              mc) ∧
          loadPtr cfg mc.mem (storeBufferTop cfg iso m % addrMod cfg) = m.regP cfg address ∧
          storeBufferTop cfg iso mc =
            (storeBufferTop cfg iso m + kPointerSize cfg) % ptrMod cfg) ∧
      (code.getLast? = some (.bcr al r14) ↔
        and_then = RememberedSetFinalAction.kReturnAtEnd) := by
  have hc := RememberedSetHelper_code cfg iso object address scratch fp_mode and_then frame code k
    hdbg hbit hk hs0 hcode
  subst hc
  obtain ⟨n, hexec⟩ := exec_rsCode cfg env iso m address scratch fp_mode and_then k
  obtain ⟨p1, p2, p3⟩ := rsPrefix_facts cfg iso m address scratch k hk hs0 hsi hai has
  have q14 : (runStraight cfg (rsPrefix cfg iso address scratch k) m).regs r14 = m.regs r14 :=
    p3 r14 (by decide) (Ne.symm hs14) (by decide)
  have qsp : (runStraight cfg (rsPrefix cfg iso address scratch k) m).regs sp = m.regs sp :=
    p3 sp (by decide) (Ne.symm hssp) (by decide)
  have hA : ∀ mem' : Nat → Nat,
      loadPtr cfg (writeBytes cfg (writeBytes cfg mem' (storeBufferTop cfg iso m % addrMod cfg)
        (kPointerSize cfg) (m.regP cfg address)) (storeBufferSlot cfg iso) (kPointerSize cfg)
        ((storeBufferTop cfg iso m + kPointerSize cfg) % ptrMod cfg))
        (storeBufferTop cfg iso m % addrMod cfg) = m.regP cfg address := by
    intro mem'
    rw [loadPtr_write_of_disjoint _ _ _ _ _ _ hd, loadPtr_write_same,
      Nat.mod_eq_of_lt (regP_lt cfg m address)]
  rw [p2] at hexec
  cases hb : ((storeBufferTop cfg iso m + kPointerSize cfg) % ptrMod cfg).testBit k
  · rw [hb] at hexec
    rw [if_pos (show (!false) = true from rfl)] at hexec
    refine ⟨_, hexec, ?_, regP_congr cfg _ _ _ q14, ?_, ?_, ?_, getLast_rsCode _ _ _ _ _ _ _⟩
    · show (if _ then Outcome.jump _ else _) = _
      rw [q14]; rfl
    · rfl
    · intro _
      refine ⟨?_, ?_⟩
      · show loadPtr cfg (runStraight cfg _ m).mem _ = _
        rw [p1, hA]
      · show loadPtr cfg (runStraight cfg _ m).mem _ = _
        rw [p1, loadPtr_write_same, Nat.mod_mod]
    · intro h; exact absurd h (by decide)
  · rw [hb] at hexec
    rw [if_neg (show ¬ ((!true) = true) by decide)] at hexec
    obtain ⟨s1, s2, s3⟩ := rsSave_facts cfg iso fp_mode
      (runStraight cfg (rsPrefix cfg iso address scratch k) m)
    rw [s3] at hexec
    have esp : (runStraight cfg (rsPrefix cfg iso address scratch k) m).addr cfg sp =
        m.addr cfg sp := addr_congr cfg _ _ _ qsp
    have e14 : (runStraight cfg (rsPrefix cfg iso address scratch k) m).regP cfg r14 =
        m.regP cfg r14 := regP_congr cfg _ _ _ q14
    rw [esp] at s2
    rw [esp, e14, p1] at s1
    generalize hmc : (runStraight cfg (rsSave cfg iso fp_mode)
      (runStraight cfg (rsPrefix cfg iso address scratch k) m)).setRegP cfg r14 (env.link n) = mc
      at hexec
    have c1 : mc.mem = writeBytes cfg
        (writeBytes cfg
          (writeBytes cfg m.mem (storeBufferTop cfg iso m % addrMod cfg) (kPointerSize cfg)
            (m.regP cfg address))
          (storeBufferSlot cfg iso) (kPointerSize cfg)
          ((storeBufferTop cfg iso m + kPointerSize cfg) % ptrMod cfg))
        (slot cfg (m.addr cfg sp) (-1)) (kPointerSize cfg) (m.regP cfg r14) := by
      rw [← hmc, setRegP_mem]; exact s1
    have c2 : mc.addr cfg sp = slot cfg (m.addr cfg sp) (-1) := by
      rw [← hmc, addr_setRegP_ne _ _ _ _ _ (by decide)]; exact s2
    obtain ⟨k1, k2⟩ := hcal mc
    have r14v : (runStraight cfg (popCode cfg r14)
        (env.callee (unsignedOf (addrMod cfg) (iso.StoreBufferOverflowStub fp_mode).GetCode)
          mc)).regP cfg r14 = m.regP cfg r14 := by
      rw [popCode_r14, k1, k2, c2, c1, loadPtr_write_same,
        Nat.mod_eq_of_lt (regP_lt cfg m r14)]
    refine ⟨_, hexec, ?_, r14v, ?_, ?_, ?_, getLast_rsCode _ _ _ _ _ _ _⟩
    · show (if _ then Outcome.jump _ else _) = _
      have : (runStraight cfg (popCode cfg r14)
          (env.callee (unsignedOf (addrMod cfg) (iso.StoreBufferOverflowStub fp_mode).GetCode)
            mc)).regs r14 % addrMod cfg = m.addr cfg r14 := by
        show Machine.addr cfg _ r14 = _
        rw [addr_eq_regP_mod, r14v, ← addr_eq_regP_mod]
      rw [this]
    · rfl
    · intro h; exact absurd h (by decide)
    · intro _
      refine ⟨mc, rfl, ?_, ?_⟩
      · rw [c1, loadPtr_write_of_disjoint _ _ _ _ _ _ hst1, hA]
      · show loadPtr cfg mc.mem _ = _
        rw [c1, loadPtr_write_of_disjoint _ _ _ _ _ _ hst2, loadPtr_write_same, Nat.mod_mod]
theorem RememberedSetHelper_appends_witness :
    ∃ f, exec cfg64 sampleEnv
        (rsCode cfg64 (sampleIsolate cfg64) r2 r3 false RememberedSetFinalAction.kReturnAtEnd 20)
        ((rsCode cfg64 (sampleIsolate cfg64) r2 r3 false
          RememberedSetFinalAction.kReturnAtEnd 20).length + 1) (bufferMachine 1048568) = some f ∧
      f.outcome = (if RememberedSetFinalAction.kReturnAtEnd =
          RememberedSetFinalAction.kReturnAtEnd then
        .jump ((bufferMachine 1048568).addr cfg64 r14) else .fallthrough) ∧
      f.machine.regP cfg64 r14 = (bufferMachine 1048568).regP cfg64 r14 ∧
      f.trace = (if ((storeBufferTop cfg64 (sampleIsolate cfg64) (bufferMachine 1048568) +
          kPointerSize cfg64) % ptrMod cfg64).testBit 20 = true
        then [.call (unsignedOf (addrMod cfg64)
          ((sampleIsolate cfg64).StoreBufferOverflowStub false).GetCode)]
        else []) ∧
      (((storeBufferTop cfg64 (sampleIsolate cfg64) (bufferMachine 1048568) +
          kPointerSize cfg64) % ptrMod cfg64).testBit 20 = false →
        loadPtr cfg64 f.machine.mem
            (storeBufferTop cfg64 (sampleIsolate cfg64) (bufferMachine 1048568) % addrMod cfg64) =
          (bufferMachine 1048568).regP cfg64 r2 ∧
        storeBufferTop cfg64 (sampleIsolate cfg64) f.machine =
          (storeBufferTop cfg64 (sampleIsolate cfg64) (bufferMachine 1048568) +
            kPointerSize cfg64) % ptrMod cfg64) ∧
      (((storeBufferTop cfg64 (sampleIsolate cfg64) (bufferMachine 1048568) +
          kPointerSize cfg64) % ptrMod cfg64).testBit 20 = true →
        ∃ mc, f.machine = runStraight cfg64 (popCode cfg64 r14)
            (sampleEnv.callee (unsignedOf (addrMod cfg64)
              ((sampleIsolate cfg64).StoreBufferOverflowStub false).GetCode) mc) ∧
          loadPtr cfg64 mc.mem
              (storeBufferTop cfg64 (sampleIsolate cfg64) (bufferMachine 1048568) %
                addrMod cfg64) =
            (bufferMachine 1048568).regP cfg64 r2 ∧
          storeBufferTop cfg64 (sampleIsolate cfg64) mc =
            (storeBufferTop cfg64 (sampleIsolate cfg64) (bufferMachine 1048568) +
              kPointerSize cfg64) % ptrMod cfg64) ∧
      ((rsCode cfg64 (sampleIsolate cfg64) r2 r3 false
          RememberedSetFinalAction.kReturnAtEnd 20).getLast? = some (.bcr al r14) ↔
        RememberedSetFinalAction.kReturnAtEnd = RememberedSetFinalAction.kReturnAtEnd) :=
  RememberedSetHelper_appends cfg64 (sampleIsolate cfg64) sampleEnv (bufferMachine 1048568)
    r4 r2 r3 false RememberedSetFinalAction.kReturnAtEnd false _ 20
    rfl rfl (by decide) (by decide) (by decide) (by decide) (by decide) (by decide) (by decide)
    (by decide) (by decide) (by decide) (fun _ => ⟨rfl, rfl⟩) (by rfl)

/-! ## The page-flag test -/

theorem CheckPageFlag_bit_run (cfg : Config) (iso : Isolate) (object scratch : Register)
    (k : Nat) (cc : Condition) (L : Label) (st : Asm)
    (hle : cfg.little_endian_host = false) (hk : k ≤ 30) (hk15 : k ≠ 15) (hk23 : k ≠ 23) :
    (CheckPageFlag cfg iso object scratch ((2 : Int) ^ k) cc L).run st =
      (do
        ASSERT (cc == ne || cc == eq)
        ClearRightImm cfg scratch object ⟨iso.kPageSizeBits, RelocMode.NONE⟩
        emit (.tm ⟨scratch, r0, iso.MemoryChunk_kFlagsOffset + flagByteOffset cfg k⟩
          ((2 : Int) ^ (k % 8)))
        if cc == ne then bne L
        if cc == eq then beq L).run st := by
  obtain ⟨c, l, h, f⟩ := st
  interval_cases k <;>
    first
    | exact absurd rfl hk15
    | exact absurd rfl hk23
    | simp +decide [CheckPageFlag, IsPowerOf2, hle, MemOperand.mk1, Operand.ofInt,
        unsignedOf, M32, flagByteOffset]

theorem CheckPageFlag_code (cfg : Config) (iso : Isolate) (object scratch : Register)
    (n k : Nat) (cc : Condition) (L : Label) (frame : Bool) (code : List Instr)
    (hle : cfg.little_endian_host = false) (hk : k ≤ 30) (hk15 : k ≠ 15) (hk23 : k ≠ 23)
    (hn : iso.kPageSizeBits = (n : Int)) (hn1 : 16 < n) (hn2 : n < 32)
    (hcode : codeOf (CheckPageFlag cfg iso object scratch ((2 : Int) ^ k) cc L) frame
      = some code) :
    code = flagCode cfg iso object scratch n k cc L ∧ (cc = ne ∨ cc = eq) := by
  unfold codeOf at hcode
  rw [CheckPageFlag_bit_run cfg iso object scratch k cc L _ hle hk hk15 hk23] at hcode
  have e3 := fun d s st => ClearRightImm_run cfg d s _ n st hn hn1 hn2
  by_cases h1 : cc = ne
  · subst h1
    cases hg : cfg.general_instr_ext <;> by_cases hds : scratch = object <;>
      simp [e3, hg, hds, bne, beq, b, flagCode, clearCode, LoadRR, lrP,
        show (ne == eq) = false from rfl] at hcode ⊢ <;>
      exact hcode.2.symm
  · by_cases h2 : cc = eq
    · subst h2
      cases hg : cfg.general_instr_ext <;> by_cases hds : scratch = object <;>
        simp [e3, hg, hds, bne, beq, b, flagCode, clearCode, LoadRR, lrP,
          show (eq == ne) = false from rfl] at hcode ⊢ <;>
        exact hcode.2.symm
    · exfalso
      cases hg : cfg.general_instr_ext <;> by_cases hds : scratch = object <;>
        simp [e3, hg, hds, h1, h2, LoadRR] at hcode
/-- The code of `ClearRightImm` leaves the start of the page of the source
in the destination and does not touch the memory. -/
theorem clearCode_facts (cfg : Config) (m : Machine) (d s : Register) (n : Nat)
    (hn1 : 16 < n) (hn2 : n < 32) :
    (runStraight cfg (clearCode cfg d s n) m).regs d % addrMod cfg = pageOf cfg n (m.regs s) ∧
    (runStraight cfg (clearCode cfg d s n) m).mem = m.mem := by
  unfold clearCode
  cases hg : cfg.general_instr_ext
  · simp only [Bool.false_eq_true, if_false]
    by_cases hds : d = s
    · subst hds
      rw [if_pos rfl]
      have e : runStraight cfg [Instr.nilf d ((M32 - 2 ^ n : Nat) : Int)] m =
          and32 m d (m.regs d) (unsignedOf M32 ((M32 - 2 ^ n : Nat) : Int)) := rfl
      rw [e]
      refine ⟨?_, rfl⟩
      rw [and32_regs, if_pos rfl]
      cases h64 : cfg.is64
      · simp only [addrMod, pageOf, h64, Bool.false_eq_true, if_false]
        exact page_nilf31 n _ _ hn1 hn2 rfl
      · simp only [addrMod, pageOf, h64, if_true]
        exact page_nilf64 n _ _ hn1 hn2 rfl
    · rw [if_neg hds]
      cases h64 : cfg.is64
      · have e : runStraight cfg [lrP cfg d s, Instr.nilf d ((M32 - 2 ^ n : Nat) : Int)] m =
            and32 (m.setReg d (setLo32 (m.regs d) (m.regs s))) d
              ((m.setReg d (setLo32 (m.regs d) (m.regs s))).regs d)
              (unsignedOf M32 ((M32 - 2 ^ n : Nat) : Int)) := by
          unfold lrP; rw [h64]; rfl
        rw [e]
        refine ⟨?_, rfl⟩
        rw [and32_regs, if_pos rfl, setReg_regs_self]
        simp only [addrMod, pageOf, h64, Bool.false_eq_true, if_false]
        exact page_nilf31 n _ _ hn1 hn2 (setLo32_mod _ _)
      · have e : runStraight cfg [lrP cfg d s, Instr.nilf d ((M32 - 2 ^ n : Nat) : Int)] m =
            and32 (m.setReg d (m.regs s % M64)) d ((m.setReg d (m.regs s % M64)).regs d)
              (unsignedOf M32 ((M32 - 2 ^ n : Nat) : Int)) := by
          unfold lrP; rw [h64]; rfl
        rw [e]
        refine ⟨?_, rfl⟩
        rw [and32_regs, if_pos rfl, setReg_regs_self]
        simp only [addrMod, pageOf, h64, if_true]
        exact page_nilf64 n _ _ hn1 hn2 (Nat.mod_mod _ _)
  · simp only [if_true]
    have e : runStraight cfg [Instr.risbg d s 0 (63 - (n : Int)) 0 true] m =
        (m.setReg d (Nat.land (rotl64 (m.regs s) (unsignedOf 64 0))
          (risbgMask (unsignedOf 64 0) (unsignedOf 64 (63 - (n : Int)))))).setCC
          (signCC M64 (Nat.land (rotl64 (m.regs s) (unsignedOf 64 0))
            (risbgMask (unsignedOf 64 0) (unsignedOf 64 (63 - (n : Int)))))) := rfl
    rw [e]
    refine ⟨?_, rfl⟩
    rw [setCC_regs, setReg_regs_self, page_risbg n _ hn1 hn2]
    cases h64 : cfg.is64
    · simp only [addrMod, pageOf, h64, Bool.false_eq_true, if_false, M64]
      interval_cases n <;> omega
    · simp only [addrMod, pageOf, h64, if_true, M64]
      interval_cases n <;> omega

theorem testBit_byte (x j i : Nat) : x.testBit (8 * j + i) = (x / 2 ^ (8 * j)).testBit i := by
  rw [← Nat.shiftRight_eq_div_pow, Nat.testBit_shiftRight]

theorem testBit_mod_256 (y i : Nat) (hi : i ≤ 7) : y.testBit i = (y % 256).testBit i := by
  show _ = (y % 2 ^ 8).testBit i
  rw [Nat.testBit_mod_two_pow]
  simp [show i < 8 by omega]

/-- Bit `8 j + i` of a word in memory is bit `i` of its byte `j`, counted from
the low end, which the big-endian layout puts at the higher address. -/
theorem testBit_loadPtr_byte (cfg : Config) (mem : Nat → Nat) (a j i : Nat) (hj : j ≤ 3)
    (hi : i ≤ 7) :
    (loadPtr cfg mem a).testBit (8 * j + i) =
      (mem ((a + (kPointerSize cfg - 1 - j)) % addrMod cfg) % 256).testBit i := by
  rw [testBit_byte, testBit_mod_256 _ i hi]
  congr 1
  cases h64 : cfg.is64 <;>
    simp only [loadPtr, kPointerSize, h64, Bool.false_eq_true, if_false, if_true, readBytes] <;>
    interval_cases j <;>
    simp only [Nat.reduceMul, Nat.reducePow, Nat.reduceSub, Nat.zero_mul, pow_zero,
      Nat.div_one, Nat.sub_zero, Nat.zero_add, Nat.add_zero] <;>
    omega

theorem flagByteOffset_eq (cfg : Config) (k : Nat) (hk : k ≤ 30) (hk15 : k ≠ 15)
    (hk23 : k ≠ 23) :
    flagByteOffset cfg k = ((kPointerSize cfg - 1 - k / 8 : Nat) : Int) := by
  have hw : 4 ≤ kPointerSize cfg := by unfold kPointerSize; split <;> decide
  unfold flagByteOffset
  split_ifs <;> omega

/-- The byte that the single-byte test addresses holds bit `k` of the flags
word at its bit `k % 8`. -/
theorem flag_bit_of_page (cfg : Config) (iso : Isolate) (mem : Nat → Nat) (E x n k : Nat)
    (hn : iso.kPageSizeBits = (n : Int))
    (hE : E % addrMod cfg = pageOf cfg n x) (hk : k ≤ 30) (hk15 : k ≠ 15) (hk23 : k ≠ 23) :
    (mem (unsignedOf (addrMod cfg)
        ((E : Int) + (iso.MemoryChunk_kFlagsOffset + flagByteOffset cfg k))) % 256).testBit
        (k % 8) =
      (pageFlags cfg iso mem x).testBit k := by
  have hw : 4 ≤ kPointerSize cfg := by unfold kPointerSize; split <;> decide
  have h1 := testBit_loadPtr_byte cfg mem
    (unsignedOf (addrMod cfg) ((pageOf cfg n x : Int) + iso.MemoryChunk_kFlagsOffset))
    (k / 8) (k % 8) (by omega) (by omega)
  rw [show 8 * (k / 8) + k % 8 = k by omega] at h1
  rw [pageFlags, hn, Int.toNat_ofNat, h1, flagByteOffset_eq cfg k hk hk15 hk23, ← hE]
  congr 3
  generalize kPointerSize cfg - 1 - k / 8 = j
  cases h64 : cfg.is64 <;>
    simp only [unsignedOf, addrMod, h64, Bool.false_eq_true, if_false, if_true, M64,
      Nat.cast_ofNat] <;>
    omega

theorem condHolds_ne_flag_test (b k : Nat) (hk : k ≤ 7) :
    condHolds ne (tmCC 8 b (unsignedOf 256 ((2 : Int) ^ k))) = (b % 256).testBit k := by
  have h1 : unsignedOf 256 ((2 : Int) ^ k) % 256 = 2 ^ k := by
    interval_cases k <;> decide
  have hpos : 2 ^ k ≠ 0 := by positivity
  simp only [tmCC, show (2 : Nat) ^ 8 = 256 from rfl, h1, land_two_pow]
  cases hb : (b % 256).testBit k <;> simp +decide [condHolds, ne, hpos]
theorem isStraight_clearCode (cfg : Config) (d s : Register) (n : Nat) :
    ∀ i ∈ clearCode cfg d s n, i.isStraight = true := by
  unfold clearCode
  exact straight_ite (straight_cons rfl straight_nil)
    (straight_ite (straight_cons rfl straight_nil)
      (straight_cons (isStraight_lrP _ _ _) (straight_cons rfl straight_nil)))

theorem boundLabel_clearCode (cfg : Config) (d s : Register) (n : Nat) :
    ∀ i ∈ clearCode cfg d s n, i.boundLabel = none := by
  unfold clearCode
  split
  · exact nolabel_cons rfl nolabel_nil
  · split
    · exact nolabel_cons rfl nolabel_nil
    · exact nolabel_cons (boundLabel_lrP _ _ _) (nolabel_cons rfl nolabel_nil)

/-- The run of the code of the single-byte test: the branch is taken exactly
when the condition holds for the code that the test of the byte leaves. -/
theorem exec_flagCode (cfg : Config) (env : Env) (iso : Isolate) (m : Machine)
    (object scratch : Register) (n k : Nat) (cc : Condition) (L : Label) :
    exec cfg env (flagCode cfg iso object scratch n k cc L)
        ((flagCode cfg iso object scratch n k cc L).length + 1) m =
      some ⟨if condHolds cc (tmCC 8
          ((runStraight cfg (clearCode cfg scratch object n) m).mem
            (effAddr cfg (runStraight cfg (clearCode cfg scratch object n) m)
              ⟨scratch, r0, iso.MemoryChunk_kFlagsOffset + flagByteOffset cfg k⟩))
          (unsignedOf 256 ((2 : Int) ^ (k % 8)))) = true then .label L else .fallthrough,
        (runStraight cfg (clearCode cfg scratch object n) m).setCC (tmCC 8
          ((runStraight cfg (clearCode cfg scratch object n) m).mem
            (effAddr cfg (runStraight cfg (clearCode cfg scratch object n) m)
              ⟨scratch, r0, iso.MemoryChunk_kFlagsOffset + flagByteOffset cfg k⟩))
          (unsignedOf 256 ((2 : Int) ^ (k % 8)))), []⟩ := by
  generalize hP : clearCode cfg scratch object n = P
  have sP : ∀ i ∈ P, i.isStraight = true := hP ▸ isStraight_clearCode _ _ _ _
  have lP : ∀ i ∈ P, i.boundLabel = none := hP ▸ boundLabel_clearCode _ _ _ _
  have hc : flagCode cfg iso object scratch n k cc L =
      (P ++ [.tm ⟨scratch, r0, iso.MemoryChunk_kFlagsOffset + flagByteOffset cfg k⟩
        ((2 : Int) ^ (k % 8))]) ++ [.brc cc L] := by
    rw [← hP]; unfold flagCode; simp
  generalize flagCode cfg iso object scratch n k cc L = code at hc ⊢
  have sT : ∀ i ∈ P ++ [Instr.tm ⟨scratch, r0, iso.MemoryChunk_kFlagsOffset +
      flagByteOffset cfg k⟩ ((2 : Int) ^ (k % 8))], i.isStraight = true :=
    straight_append sP (straight_cons rfl straight_nil)
  have hsuf : suffixAt L code = none := by
    rw [hc, suffixAt_skip L _ _ (nolabel_append lP
        (nolabel_cons (show (Instr.tm _ _).boundLabel = none from rfl) nolabel_nil)),
      suffixAt_cons, if_neg (by simp [Instr.boundLabel])]
    rfl
  have hlen : code.length + 1 = 2 + (P ++ [Instr.tm ⟨scratch, r0,
      iso.MemoryChunk_kFlagsOffset + flagByteOffset cfg k⟩ ((2 : Int) ^ (k % 8))]).length := by
    rw [hc]; simp only [List.length_append, List.length_cons, List.length_nil]; omega
  unfold exec
  rw [hlen]
  nth_rewrite 2 [hc]
  rw [run_straight cfg env code _ _ sT 2 m [], run_brc, hsuf, runStraight_append]
  have e : runStraight cfg [Instr.tm ⟨scratch, r0, iso.MemoryChunk_kFlagsOffset +
      flagByteOffset cfg k⟩ ((2 : Int) ^ (k % 8))] (runStraight cfg P m) =
      (runStraight cfg P m).setCC (tmCC 8 ((runStraight cfg P m).mem
        (effAddr cfg (runStraight cfg P m)
          ⟨scratch, r0, iso.MemoryChunk_kFlagsOffset + flagByteOffset cfg k⟩))
        (unsignedOf 256 ((2 : Int) ^ (k % 8)))) := rfl
  rw [e, setCC_cc]
  split <;> rfl

/-- C29 (for the bits on which the code is right): for the single-bit mask
`2^k` with `k ≤ 30` other than 15 and 23, on a big-endian host, the code of
`CheckPageFlag` runs to the branch and takes it to `condition_met` exactly when
the conjunction of the flags word of the page of `object` with the mask is not
zero under `ne`, or is zero under `eq`; that conjunction is not zero exactly
when bit `k` of the flags word is set. -/
theorem CheckPageFlag_single_bit (cfg : Config) (iso : Isolate) (env : Env) (m : Machine)
    (object scratch : Register) (n k : Nat) (cc : Condition) (L : Label) (frame : Bool)
    (code : List Instr)
    (hle : cfg.little_endian_host = false)
    (hn : iso.kPageSizeBits = (n : Int)) (hn1 : 16 < n) (hn2 : n < 32)
    (hk : k ≤ 30) (hk15 : k ≠ 15) (hk23 : k ≠ 23) (hs0 : scratch ≠ r0)
    (hcode : codeOf (CheckPageFlag cfg iso object scratch ((2 : Int) ^ k) cc L) frame
      = some code) :
    ∃ f, exec cfg env code (code.length + 1) m = some f ∧ f.trace = [] ∧
      f.outcome =
        (if (cc = ne ∧ Nat.land (pageFlags cfg iso m.mem (m.regs object)) (2 ^ k) ≠ 0) ∨
            (cc = eq ∧ Nat.land (pageFlags cfg iso m.mem (m.regs object)) (2 ^ k) = 0)
          then .label L else .fallthrough) ∧
      (Nat.land (pageFlags cfg iso m.mem (m.regs object)) (2 ^ k) ≠ 0 ↔
        (pageFlags cfg iso m.mem (m.regs object)).testBit k = true) := by
  obtain ⟨hc, hcc⟩ := CheckPageFlag_code cfg iso object scratch n k cc L frame code hle hk hk15
    hk23 hn hn1 hn2 hcode
  subst hc
  obtain ⟨a1, a2⟩ := clearCode_facts cfg m scratch object n hn1 hn2
  have hbit := flag_bit_of_page cfg iso m.mem _ (m.regs object) n k hn a1 hk hk15 hk23
  have hland : Nat.land (pageFlags cfg iso m.mem (m.regs object)) (2 ^ k) ≠ 0 ↔
      (pageFlags cfg iso m.mem (m.regs object)).testBit k = true := by
    rw [land_two_pow]
    have hpos : 2 ^ k ≠ 0 := by positivity
    cases (pageFlags cfg iso m.mem (m.regs object)).testBit k <;> simp [hpos]
  refine ⟨_, exec_flagCode cfg env iso m object scratch n k cc L, rfl, ?_, hland⟩
  show (if _ then Outcome.label L else Outcome.fallthrough) = _
  rw [effAddr_base _ _ _ _ hs0, a2]
  have hk8 : k % 8 ≤ 7 := by omega
  rcases hcc with h | h
  · subst h
    rw [condHolds_ne_flag_test _ _ hk8, hbit]
    have hne : ne ≠ eq := by decide
    by_cases hb : (pageFlags cfg iso m.mem (m.regs object)).testBit k = true
    · rw [if_pos hb, if_pos (Or.inl ⟨rfl, hland.mpr hb⟩)]
    · rw [if_neg hb, if_neg]
      rintro (⟨_, h2⟩ | ⟨h1, _⟩)
      · exact hb (hland.mp h2)
      · exact hne h1
  · subst h
    rw [condHolds_eq_flag_test _ _ hk8, hbit]
    have hne : eq ≠ ne := by decide
    by_cases hb : (pageFlags cfg iso m.mem (m.regs object)).testBit k = true
    · rw [hb, if_neg (show ¬ ((!true) = true) by decide), if_neg]
      rintro (⟨h1, _⟩ | ⟨_, h2⟩)
      · exact hne h1
      · exact (hland.mpr hb) h2
    · have hb2 : (pageFlags cfg iso m.mem (m.regs object)).testBit k = false := by
        simpa using hb
      have h0 : Nat.land (pageFlags cfg iso m.mem (m.regs object)) (2 ^ k) = 0 :=
        not_not.mp (fun h3 => hb (hland.mp h3))
      rw [hb2, if_pos (show (!false) = true from rfl), if_pos (Or.inr ⟨rfl, h0⟩)]

/-- For the mask `0x8000` (bit 15) the byte selection takes the
`mask < 0x800000` branch and shifts the mask to zero: the code tests no bit,
and with bit 15 of the flags word set the branch under `ne` is not taken and
the branch under `eq` is taken. -/
theorem CheckPageFlag_bit_15_tests_nothing :
    codeOf (CheckPageFlag cfg64 (sampleIsolate cfg64) r3 r4 32768 ne 7) false =
      some [Instr.lgr r4 r3, Instr.nilf r4 4293918720, Instr.tm ⟨r4, r0, 21⟩ 0,
        Instr.brc ne 7] ∧
    outcomeOf cfg64 sampleEnv (CheckPageFlag cfg64 (sampleIsolate cfg64) r3 r4 32768 ne 7)
      false 16 (byteMachine 5242945 5242902 128) = some .fallthrough ∧
    outcomeOf cfg64 sampleEnv (CheckPageFlag cfg64 (sampleIsolate cfg64) r3 r4 32768 eq 7)
      false 16 (byteMachine 5242945 5242902 128) = some (.label 7) ∧
    pageFlags cfg64 (sampleIsolate cfg64) (byteMachine 5242945 5242902 128).mem
      ((byteMachine 5242945 5242902 128).regs r3) = 32768 ∧
    Nat.land 32768 (2 ^ 15) ≠ 0 :=
  ⟨rfl, by decide!⟩

theorem CheckPageFlag_single_bit_witness :
    ∃ f, exec cfg64 sampleEnv
        [Instr.lgr r4 r3, Instr.nilf r4 4293918720, Instr.tm ⟨r4, r0, 22⟩ 64, Instr.brc ne 7]
        ([Instr.lgr r4 r3, Instr.nilf r4 4293918720, Instr.tm ⟨r4, r0, 22⟩ 64,
          Instr.brc ne 7].length + 1) (byteMachine 5242945 5242902 64) = some f ∧
      f.trace = [] ∧
      f.outcome =
        (if (ne = ne ∧ Nat.land (pageFlags cfg64 (sampleIsolate cfg64)
              (byteMachine 5242945 5242902 64).mem
              ((byteMachine 5242945 5242902 64).regs r3)) (2 ^ 14) ≠ 0) ∨
            (ne = eq ∧ Nat.land (pageFlags cfg64 (sampleIsolate cfg64)
              (byteMachine 5242945 5242902 64).mem
              ((byteMachine 5242945 5242902 64).regs r3)) (2 ^ 14) = 0)
          then .label 7 else .fallthrough) ∧
      (Nat.land (pageFlags cfg64 (sampleIsolate cfg64) (byteMachine 5242945 5242902 64).mem
          ((byteMachine 5242945 5242902 64).regs r3)) (2 ^ 14) ≠ 0 ↔
        (pageFlags cfg64 (sampleIsolate cfg64) (byteMachine 5242945 5242902 64).mem
          ((byteMachine 5242945 5242902 64).regs r3)).testBit 14 = true) :=
  CheckPageFlag_single_bit cfg64 (sampleIsolate cfg64) sampleEnv (byteMachine 5242945 5242902 64)
    r3 r4 20 14 ne 7 false _ (by decide) (by decide) (by decide) (by decide) (by decide)
    (by decide) (by decide) (by decide) (by rfl)

set_option maxHeartbeats 4000000 in
set_option maxRecDepth 4000 in
/-- C6: with the expected count in a register `er` and the actual count an
immediate or in a register, the code of `InvokeCode` holds one compare, and run
from any machine state it makes exactly one transfer: to the callee code at the
address in `code` when the two run-time counts are equal, to the
arguments-adaptor trampoline when they differ.  Under `CALL_FUNCTION` the
transfer is the only call of the run, which then falls through (after the
adaptor call the direct call is skipped); under `JUMP_FUNCTION` it is the jump
that ends the run. -/
theorem InvokeCode_register_expected_dispatch (cfg : Config) (iso : Isolate) (env : Env) (m : Machine)
    (code er : Register) (actual : ParameterCount) (flag : InvokeFlag) (call_kind : CallKind)
    (frame : Bool) (c : List Instr)
    (her : er ≠ no_reg) (hc0 : code ≠ r0) (hc7 : code ≠ r7)
    (hcode : codeOf (InvokeCode_Register cfg iso code (.ofRegister er) actual flag
      NullCallWrapper call_kind) frame = some c) :
    c.countP Instr.isCompare = 1 ∧
    ∃ f, exec cfg env c 16 m = some f ∧
      (f.outcome, f.trace) = transferOf flag
        (if (ParameterCount.ofRegister er).valueAt cfg m = actual.valueAt cfg m then
          m.regs code % addrMod cfg
         else unsignedOf (addrMod cfg) iso.ArgumentsAdaptorTrampoline) := by
  have hflag : (InvokeFlag.CALL_FUNCTION == InvokeFlag.JUMP_FUNCTION) = false := rfl
  obtain ⟨ar, a⟩ := actual
  have her2 : (er == no_reg) = false := by simpa using her
  by_cases har : ar = no_reg
  · subst har
    cases flag <;> cases call_kind <;> cases h64 : cfg.is64 <;> cases frame
    all_goals simp [hflag, codeOf, InvokeCode_Register, InvokePrologue, ParameterCount.ofRegister,
      ParameterCount.is_immediate, ParameterCount.is_reg, ParameterCount.immediate,
      ParameterCount.reg, NullCallWrapper, CmpPH, CmpP_Register, Cmp32_Register, beq,
      SetCallKind, LoadSmiLiteral, Smi.FromInt, kSmiShift, Call_Register, Jump_Register, Call_Code,
      Call_Address, Jump_Code, Jump_intptr, b_Register, bind, mov, b,
      Operand.ofInt, Operand.immediate, h64, her, her2, RelocMode.IsCodeTarget] at hcode
    all_goals obtain ⟨hok, hC⟩ := hcode
    all_goals rw [exec_eq_run cfg env c _ 16 m hC]
    all_goals subst hC
    all_goals refine ⟨by simp [Instr.isCompare], ?_⟩
    all_goals have ha : toInt16 a = a := toInt16_of_is_int16 a (by
      simp [Instr.encodable] at hok; tauto)
    all_goals clear hok
    all_goals first
      | simp [run_brc, run_basr, run_bcr, suffixAt_cons, condHolds_eq_cmpCC, condHolds_al,
          ha, h64, transferOf, hc0, hc7, her, ip_ne_r0, setReg_regs_ne _ _ _ _ hc7,
          ParameterCount.valueAt, ParameterCount.ofRegister, ParameterCount.is_reg, ptrMod,
          setReg_regs_self, setReg_regs_ne _ _ _ _ ip_ne_r7, setReg_regs_ne _ _ _ _ ip_ne_r2,
          mov_value, call_target64m cfg h64]
      | simp [run_brc, run_basr, run_bcr, suffixAt_cons, condHolds_eq_cmpCC, condHolds_al,
          ha, h64, transferOf, hc0, hc7, her, ip_ne_r0, setReg_regs_ne _ _ _ _ hc7,
          ParameterCount.valueAt, ParameterCount.ofRegister, ParameterCount.is_reg, ptrMod,
          setReg_regs_self, setReg_regs_ne _ _ _ _ ip_ne_r7, setReg_regs_ne _ _ _ _ ip_ne_r2,
          call_target31 cfg h64]
    all_goals split_ifs with heq
    all_goals exact ⟨_, rfl, rfl, rfl⟩
  · have har2 : (ar == no_reg) = false := by simpa using har
    cases flag <;> cases call_kind <;> cases h64 : cfg.is64 <;> cases frame
    all_goals simp [hflag, codeOf, InvokeCode_Register, InvokePrologue, ParameterCount.ofRegister,
      ParameterCount.is_immediate, ParameterCount.is_reg, ParameterCount.immediate,
      ParameterCount.reg, NullCallWrapper, CmpPH, CmpP_Register, Cmp32_Register, beq,
      SetCallKind, LoadSmiLiteral, Smi.FromInt, kSmiShift, Call_Register, Jump_Register, Call_Code,
      Call_Address, Jump_Code, Jump_intptr, b_Register, bind, mov, b,
      Operand.ofInt, Operand.immediate, h64, her, her2, har, har2, RelocMode.IsCodeTarget] at hcode
    all_goals obtain ⟨hok, hC⟩ := hcode
    all_goals rw [exec_eq_run cfg env c _ 16 m hC]
    all_goals subst hC
    all_goals refine ⟨by simp [Instr.isCompare], ?_⟩
    all_goals clear hok
    all_goals first
      | simp [run_brc, run_basr, run_bcr, suffixAt_cons, condHolds_eq_cmpCC, condHolds_al,
          h64, transferOf, hc0, hc7, her, har, ip_ne_r0, setReg_regs_ne _ _ _ _ hc7,
          ParameterCount.valueAt, ParameterCount.ofRegister, ParameterCount.is_reg, ptrMod,
          setReg_regs_self, setReg_regs_ne _ _ _ _ ip_ne_r7, setReg_regs_ne _ _ _ _ ip_ne_r2,
          mov_value, call_target64m cfg h64]
      | simp [run_brc, run_basr, run_bcr, suffixAt_cons, condHolds_eq_cmpCC, condHolds_al,
          h64, transferOf, hc0, hc7, her, har, ip_ne_r0, setReg_regs_ne _ _ _ _ hc7,
          ParameterCount.valueAt, ParameterCount.ofRegister, ParameterCount.is_reg, ptrMod,
          setReg_regs_self, setReg_regs_ne _ _ _ _ ip_ne_r7, setReg_regs_ne _ _ _ _ ip_ne_r2,
          call_target31 cfg h64]
    all_goals split_ifs with heq
    all_goals exact ⟨_, rfl, rfl, rfl⟩

/-- C6 (witness): expected count in `r4` holding 3, actual count the immediate
2, on the 64-bit target: the counts differ and the adaptor at 20480 is called
once. -/
theorem InvokeCode_register_expected_dispatch_witness :
    r4 ≠ no_reg ∧ r5 ≠ r0 ∧ r5 ≠ r7 ∧
    ∃ c, codeOf (InvokeCode_Register cfg64 (sampleIsolate cfg64) r5 (.ofRegister r4)
        (.ofImmediate 2) .CALL_FUNCTION NullCallWrapper .CALL_AS_FUNCTION) true = some c ∧
      c.countP Instr.isCompare = 1 ∧
      ∃ f, exec cfg64 sampleEnv c 16 (uniformMachine 3) = some f ∧
        (f.outcome, f.trace) = (Outcome.fallthrough, [Event.call 20480]) :=
  ⟨by decide, by decide, by decide, _, rfl,
    (InvokeCode_register_expected_dispatch cfg64 (sampleIsolate cfg64) sampleEnv (uniformMachine 3)
      r5 r4 (.ofImmediate 2) .CALL_FUNCTION .CALL_AS_FUNCTION true _ (by decide) (by decide)
      (by decide) rfl).1,
    (InvokeCode_register_expected_dispatch cfg64 (sampleIsolate cfg64) sampleEnv (uniformMachine 3)
      r5 r4 (.ofImmediate 2) .CALL_FUNCTION .CALL_AS_FUNCTION true _ (by decide) (by decide)
      (by decide) rfl).2.imp (fun _ h => ⟨h.1, h.2.trans (by decide)⟩)⟩
set_option maxHeartbeats 4000000 in
/-- C7: with the expected count an immediate and the actual count in a
register, the assertion `ASSERT(actual.is_immediate())` of `InvokePrologue`
fails from every assembler state, so the emission is rejected and no run-time
comparison results. -/
theorem InvokePrologue_rejects_register_actual (cfg : Config) (iso : Isolate) (e : Int)
    (actual : ParameterCount) (code_constant : Option Int) (code_reg : Register) (done : Label)
    (flag : InvokeFlag) (call_kind : CallKind) (st : Asm)
    (hreg : actual.is_immediate = false) :
    ((InvokePrologue cfg iso (.ofImmediate e) actual code_constant code_reg done flag
      NullCallWrapper call_kind).run st).2.failed = true := by
  have himm : (ParameterCount.ofImmediate e).is_immediate = true := rfl
  have hT : ∀ {α : Type} (x : Emit α), x.KeepsFailure → ∀ s, s.failed = true →
      (x.run s).2.failed = true := fun x h s hs => h.keeps s hs
  unfold InvokePrologue
  simp only [Emit.run_bind_eq, run_newLabel, himm, if_true, run_ASSERT, hreg, Bool.not_false,
    Bool.or_true]
  apply hT
  · repeat' first
      | exact keeps_pure _
      | exact keeps_emit _
      | exact keeps_ASSERT _
      | exact keeps_newLabel
      | exact keeps_has_frame
      | apply keeps_bind
      | apply keeps_ite
      | intro _
      | split
  · rfl

/-- C7 (counterexample): expected count the immediate 2, actual count in `r2`:
`InvokeCode` yields no code, on the 64-bit target, for a call from code with a
frame. -/
theorem InvokeCode_immediate_expected_register_actual_emits_nothing :
    codeOf (InvokeCode_Register cfg64 (sampleIsolate cfg64) r5 (.ofImmediate 2) (.ofRegister r2)
      .CALL_FUNCTION NullCallWrapper .CALL_AS_FUNCTION) true = none := by
  rfl

/-- C7 (witness): expected count 2, actual count in `r2`, from the empty
assembler state. -/
theorem InvokePrologue_rejects_register_actual_witness :
    (ParameterCount.ofRegister r2).is_immediate = false ∧
    ((InvokePrologue cfg64 (sampleIsolate cfg64) (.ofImmediate 2) (.ofRegister r2) none r5 0
      .CALL_FUNCTION NullCallWrapper .CALL_AS_FUNCTION).run ⟨[], 1, true, false⟩).2.failed = true :=
  ⟨rfl, InvokePrologue_rejects_register_actual cfg64 (sampleIsolate cfg64) 2 (.ofRegister r2) none
    r5 0 .CALL_FUNCTION .CALL_AS_FUNCTION ⟨[], 1, true, false⟩ rfl⟩

theorem tagScan_snoc (cfg : Config) (k : CallKind) (c : List Instr) (i : Instr) :
    tagScan cfg k (c ++ [i]) = tagStep cfg k (tagScan cfg k c) i := by
  simp [tagScan, List.foldl_append]

theorem tagStep_some (cfg : Config) (k : CallKind) (fresh : Bool) (i : Instr) :
    tagStep cfg k (some fresh) i =
      if i.isTransfer then (if fresh then some false else none)
      else if i.loadsCallKind cfg k then some true
      else some (fresh && i.loadsImmediateInto ip) := rfl

theorem tags_pure {α : Type} (cfg : Config) (k : CallKind) (a : Bool) (x : α) :
    (pure x : Emit α).Tags cfg k a a := ⟨fun _ h => h⟩

theorem tags_bind {α β : Type} (cfg : Config) (k : CallKind) (a b c : Bool) (x : Emit α)
    (f : α → Emit β) (hx : x.Tags cfg k a b) (hf : ∀ v, (f v).Tags cfg k b c) :
    (x >>= f).Tags cfg k a c := by
  refine ⟨fun st h => ?_⟩
  rw [Emit.run_bind_eq]
  exact (hf _).tags _ (hx.tags st h)

theorem tags_ASSERT (cfg : Config) (k : CallKind) (a : Bool) (c : Bool) :
    (ASSERT c).Tags cfg k a a := by
  refine ⟨fun st h => ?_⟩
  rw [run_ASSERT]
  rcases h with h | h
  · left; show (st.failed || _) = true; rw [h]; rfl
  · right; exact h

theorem tags_newLabel (cfg : Config) (k : CallKind) (a : Bool) : newLabel.Tags cfg k a a :=
  ⟨fun _ h => h⟩

theorem tags_has_frame (cfg : Config) (k : CallKind) (a : Bool) : has_frame.Tags cfg k a a :=
  ⟨fun _ h => h⟩

/-- An instruction that is not a transfer keeps every transfer tagged. -/
theorem tags_emit (cfg : Config) (k : CallKind) (a : Bool) (i : Instr)
    (hi : i.isTransfer = false) : (emit i).Tags cfg k a false := by
  refine ⟨fun st h => ?_⟩
  rw [run_emit]
  rcases h with h | ⟨f, h, _⟩
  · left; show (st.failed || _) = true; rw [h]; rfl
  · right
    show ∃ g, tagScan cfg k (st.code ++ [i]) = some g ∧ _
    rw [tagScan_snoc, h]
    rw [tagStep_some]
    rw [hi]
    by_cases hl : i.loadsCallKind cfg k = true
    · exact ⟨true, by simp [hl], fun h => absurd h (by decide)⟩
    · exact ⟨f && i.loadsImmediateInto ip, by simp [hl], fun h => absurd h (by decide)⟩

/-- The load of a target address into `ip` keeps the tag fresh. -/
theorem tags_emit_ip (cfg : Config) (k : CallKind) (a : Bool) (i : Instr)
    (hi : i.isTransfer = false) (hp : i.loadsImmediateInto ip = true) :
    (emit i).Tags cfg k a a := by
  refine ⟨fun st h => ?_⟩
  rw [run_emit]
  rcases h with h | ⟨f, h, hf⟩
  · left; show (st.failed || _) = true; rw [h]; rfl
  · right
    show ∃ g, tagScan cfg k (st.code ++ [i]) = some g ∧ _
    rw [tagScan_snoc, h]
    rw [tagStep_some]
    rw [hi, hp]
    by_cases hl : i.loadsCallKind cfg k = true
    · exact ⟨true, by simp [hl], fun _ => rfl⟩
    · exact ⟨f, by simp [hl], hf⟩

/-- A transfer right after the tag load is a tagged transfer. -/
theorem tags_emit_transfer (cfg : Config) (k : CallKind) (i : Instr)
    (hi : i.isTransfer = true) : (emit i).Tags cfg k true false := by
  refine ⟨fun st h => ?_⟩
  rw [run_emit]
  rcases h with h | ⟨f, h, hf⟩
  · left; show (st.failed || _) = true; rw [h]; rfl
  · right
    show ∃ g, tagScan cfg k (st.code ++ [i]) = some g ∧ _
    rw [tagScan_snoc, h, hf rfl]
    rw [tagStep_some]
    rw [hi]
    exact ⟨false, rfl, fun h => absurd h (by decide)⟩

theorem loadsCallKind_smiInstr (cfg : Config) (k : CallKind) :
    (smiInstr cfg r7 (Smi.FromInt cfg (if k = CallKind.CALL_AS_FUNCTION then 1 else 0))).loadsCallKind
      cfg k = true := by
  unfold smiInstr
  cases h : cfg.is64 <;> simp [Instr.loadsCallKind, h]

theorem isTransfer_smiInstr (cfg : Config) (d : Register) (v : Int) :
    (smiInstr cfg d v).isTransfer = false := by
  unfold smiInstr; split <;> rfl

/-- The tag load makes the tag fresh; with a destination other than `r7` the
assertion of `SetCallKind` fails. -/
theorem tags_SetCallKind (cfg : Config) (k kind : CallKind) (a : Bool) (dst : Register)
    (hk : dst = r7 → kind = k) : (SetCallKind cfg dst kind).Tags cfg k a true := by
  refine ⟨fun st h => ?_⟩
  by_cases hd : dst = r7
  · subst hd
    have hk2 := hk rfl
    subst hk2
    have e : (SetCallKind cfg r7 kind).run st =
        (emit (smiInstr cfg r7 (Smi.FromInt cfg
          (if kind = CallKind.CALL_AS_FUNCTION then 1 else 0)))).run st := by
      unfold SetCallKind
      cases kind <;> cases h64 : cfg.is64 <;>
        simp [LoadSmiLiteral, smiInstr, h64, Smi.FromInt, kSmiShift]
    rw [e, run_emit]
    rcases h with h | ⟨f, h, _⟩
    · left; show (st.failed || _) = true; rw [h]; rfl
    · right
      show ∃ g, tagScan cfg kind (st.code ++ [_]) = some g ∧ _
      rw [tagScan_snoc, h]
      rw [tagStep_some]
      rw [isTransfer_smiInstr, loadsCallKind_smiInstr]
      exact ⟨true, rfl, fun _ => rfl⟩
  · left
    have hb : (dst == r7) = false := by simpa using hd
    unfold SetCallKind
    cases kind <;> cases h64 : cfg.is64 <;> simp [LoadSmiLiteral, h64, hb]

theorem tags_weaken {α : Type} (cfg : Config) (k : CallKind) (a : Bool) (e : Emit α)
    (h : e.Tags cfg k false false) : e.Tags cfg k a false := by
  refine ⟨fun st hs => h.tags st ?_⟩
  rcases hs with hs | ⟨f, hf, _⟩
  · exact Or.inl hs
  · exact Or.inr ⟨f, hf, fun h => absurd h (by decide)⟩

theorem tags_ite {α : Type} (cfg : Config) (k : CallKind) (a b : Bool) (c : Prop) [Decidable c]
    (x y : Emit α) (hx : x.Tags cfg k a b) (hy : y.Tags cfg k a b) :
    (if c then x else y).Tags cfg k a b := by
  split
  · exact hx
  · exact hy
theorem tags_Call_Register (cfg : Config) (k : CallKind) (target : Register)
    (cond : Condition) : (Call_Register target cond).Tags cfg k true false := by
  unfold Call_Register
  exact tags_bind cfg k _ _ _ _ _ (tags_ASSERT cfg k true _)
    (fun _ => tags_emit_transfer cfg k _ rfl)

theorem tags_Jump_Register (cfg : Config) (k : CallKind) (target : Register)
    (cond : Condition) : (Jump_Register target cond).Tags cfg k true false := by
  unfold Jump_Register b_Register
  exact tags_bind cfg k _ _ _ _ _ (tags_ASSERT cfg k true _)
    (fun _ => tags_emit_transfer cfg k _ rfl)

theorem tags_mov_ip (cfg : Config) (k : CallKind) (a : Bool) (src : Operand) :
    (mov cfg ip src).Tags cfg k a a := by
  unfold mov
  split
  · exact tags_bind cfg k _ _ _ _ _ (tags_emit_ip cfg k a _ rfl rfl)
      (fun _ => tags_emit_ip cfg k a _ rfl rfl)
  · exact tags_emit_ip cfg k a _ rfl rfl

theorem tags_mov (cfg : Config) (k : CallKind) (a : Bool) (d : Register) (src : Operand) :
    (mov cfg d src).Tags cfg k a false := by
  unfold mov
  split
  · exact tags_bind cfg k _ _ _ _ _ (tags_emit cfg k a _ rfl)
      (fun _ => tags_emit cfg k false _ rfl)
  · exact tags_emit cfg k a _ rfl

theorem tags_Call_Address (cfg : Config) (k : CallKind) (target : Int) (rmode : RelocMode)
    (cond : Condition) : (Call_Address cfg target rmode cond).Tags cfg k true false := by
  unfold Call_Address
  exact tags_bind cfg k _ _ _ _ _ (tags_ASSERT cfg k true _)
    (fun _ => tags_bind cfg k _ _ _ _ _ (tags_mov_ip cfg k true _)
      (fun _ => tags_emit_transfer cfg k _ rfl))

theorem tags_Call_Code (cfg : Config) (k : CallKind) (code : Int) (rmode : RelocMode)
    ( ast_id_none : Bool) (cond : Condition) :
    (Call_Code cfg code rmode ast_id_none cond).Tags cfg k true false := by
  unfold Call_Code
  exact tags_bind cfg k _ _ _ _ _ (tags_ASSERT cfg k true _)
    (fun _ => tags_Call_Address cfg k _ _ _)

theorem tags_Jump_Code (cfg : Config) (k : CallKind) (code : Int) (rmode : RelocMode) :
    (Jump_Code cfg code rmode al).Tags cfg k true false := by
  unfold Jump_Code Jump_intptr
  refine tags_bind cfg k _ _ _ _ _ (tags_ASSERT cfg k true _) (fun _ => ?_)
  refine tags_bind cfg k _ _ _ _ _ (tags_newLabel cfg k true) (fun _ => ?_)
  rw [if_neg (by simp)]
  refine tags_bind cfg k _ _ _ _ _ (tags_pure cfg k true _) (fun _ => ?_)
  refine tags_bind cfg k _ _ _ _ _ (tags_ASSERT cfg k true _) (fun _ => ?_)
  refine tags_bind cfg k _ _ _ _ _ (tags_mov_ip cfg k true _) (fun _ => ?_)
  refine tags_bind cfg k _ _ _ _ _ (tags_emit_transfer cfg k _ rfl) (fun _ => ?_)
  exact tags_emit cfg k false _ rfl
theorem tags_InvokePrologue (cfg : Config) (iso : Isolate) (expected actual : ParameterCount)
    (code_constant : Option Int) (code_reg : Register) (done : Label) (flag : InvokeFlag)
    (call_kind : CallKind) :
    (InvokePrologue cfg iso expected actual code_constant code_reg done flag NullCallWrapper
      call_kind).Tags cfg call_kind false false := by
  unfold InvokePrologue
  repeat' first
    | with_reducible exact tags_pure cfg _ _ _
    | with_reducible exact tags_ASSERT cfg _ _ _
    | with_reducible exact tags_newLabel cfg _ _
    | with_reducible exact tags_SetCallKind cfg _ _ _ _ (fun _ => rfl)
    | with_reducible exact tags_Call_Code cfg _ _ _ _ _
    | with_reducible exact tags_Jump_Code cfg _ _ _
    | with_reducible exact tags_mov cfg _ _ _ _
    | with_reducible refine tags_emit cfg _ _ _ ?_
    | rfl
    | with_reducible apply tags_bind
    | with_reducible apply tags_ite
    | intro _
    | split
    | unfold CmpPH
    | unfold CmpP_Register
    | unfold Cmp32_Register
    | unfold AddP_Operand
    | unfold Add32_Operand
    | unfold beq
    | unfold b
    | unfold S390.bind
    | unfold ParameterCount.reg
    | unfold ParameterCount.immediate
    | unfold NullCallWrapper

theorem tags_InvokeCode_Register (cfg : Config) (iso : Isolate) (code : Register)
    (expected actual : ParameterCount) (flag : InvokeFlag) (call_kind : CallKind) :
    (InvokeCode_Register cfg iso code expected actual flag NullCallWrapper call_kind).Tags cfg
      call_kind false false := by
  unfold InvokeCode_Register
  repeat' first
    | with_reducible exact tags_pure cfg _ _ _
    | with_reducible exact tags_ASSERT cfg _ _ _
    | with_reducible exact tags_newLabel cfg _ _
    | with_reducible exact tags_has_frame cfg _ _
    | with_reducible exact tags_InvokePrologue cfg _ _ _ _ _ _ _ _
    | with_reducible exact tags_SetCallKind cfg _ _ _ _ (fun _ => rfl)
    | with_reducible exact tags_Call_Code cfg _ _ _ _ _
    | with_reducible exact tags_Jump_Code cfg _ _ _
    | with_reducible exact tags_Call_Register cfg _ _ _
    | with_reducible exact tags_Jump_Register cfg _ _ _
    | with_reducible exact tags_mov cfg _ _ _ _
    | with_reducible refine tags_emit cfg _ _ _ ?_
    | rfl
    | with_reducible apply tags_bind
    | with_reducible apply tags_ite
    | intro _
    | split
    | unfold S390.bind
    | unfold NullCallWrapper

theorem tags_InvokeCode_Code (cfg : Config) (iso : Isolate) (code : Int)
    (expected actual : ParameterCount) (rmode : RelocMode) (flag : InvokeFlag)
    (call_kind : CallKind) :
    (InvokeCode_Code cfg iso code expected actual rmode flag call_kind).Tags cfg call_kind false
      false := by
  unfold InvokeCode_Code
  repeat' first
    | with_reducible exact tags_pure cfg _ _ _
    | with_reducible exact tags_ASSERT cfg _ _ _
    | with_reducible exact tags_newLabel cfg _ _
    | with_reducible exact tags_has_frame cfg _ _
    | with_reducible exact tags_InvokePrologue cfg _ _ _ _ _ _ _ _
    | with_reducible exact tags_SetCallKind cfg _ _ _ _ (fun _ => rfl)
    | with_reducible exact tags_Call_Code cfg _ _ _ _ _
    | with_reducible exact tags_Jump_Code cfg _ _ _
    | with_reducible exact tags_Call_Register cfg _ _ _
    | with_reducible exact tags_Jump_Register cfg _ _ _
    | with_reducible exact tags_mov cfg _ _ _ _
    | with_reducible refine tags_emit cfg _ _ _ ?_
    | rfl
    | with_reducible apply tags_bind
    | with_reducible apply tags_ite
    | intro _
    | split
    | unfold S390.bind

theorem tags_InvokeBuiltin (cfg : Config) (iso : Isolate) (id : Int) (flag : InvokeFlag) :
    (InvokeBuiltin cfg iso id flag NullCallWrapper).Tags cfg CallKind.CALL_AS_METHOD false
      false := by
  unfold InvokeBuiltin
  repeat' first
    | with_reducible exact tags_pure cfg _ _ _
    | with_reducible exact tags_ASSERT cfg _ _ _
    | with_reducible exact tags_has_frame cfg _ _
    | with_reducible exact tags_SetCallKind cfg _ _ _ _ (fun _ => rfl)
    | with_reducible exact tags_Call_Register cfg _ _ _
    | with_reducible exact tags_Jump_Register cfg _ _ _
    | with_reducible refine tags_emit cfg _ _ _ ?_
    | rfl
    | with_reducible apply tags_bind
    | with_reducible apply tags_ite
    | intro _
    | unfold GetBuiltinEntry
    | unfold GetBuiltinFunction
    | unfold LoadP
    | unfold LoadIntLiteral
    | unfold Load_Operand
    | unfold NullCallWrapper

/-- From the empty assembler state, an emitter that keeps the invariant leaves
code in which every transfer is tagged, unless an assertion failed. -/
theorem callsTagged_of_tags {α : Type} (cfg : Config) (k : CallKind) (e : Emit α)
    (h : e.Tags cfg k false false) (frame : Bool)
    (hok : (e.run ⟨[], 0, frame, false⟩).2.failed = false) :
    callsTagged cfg k (e.run ⟨[], 0, frame, false⟩).2.code = true := by
  have h0 : Asm.tagInv cfg k false ⟨[], 0, frame, false⟩ :=
    Or.inr ⟨false, rfl, fun h => h⟩
  rcases h.tags _ h0 with h1 | ⟨f, hf, _⟩
  · rw [hok] at h1; exact absurd h1 (by decide)
  · unfold callsTagged; rw [hf]; rfl

theorem callsTagged_of_codeOf (cfg : Config) (k : CallKind) (e : Emit Unit)
    (h : e.Tags cfg k false false) (frame : Bool) (c : List Instr)
    (hcode : codeOf e frame = some c) : callsTagged cfg k c = true := by
  unfold codeOf at hcode
  by_cases hf : (e.run ⟨[], 0, frame, false⟩).2.failed = true
  · simp [hf] at hcode
  · have hf2 : (e.run ⟨[], 0, frame, false⟩).2.failed = false := by simpa using hf
    simp only [hf2, Bool.false_eq_true, if_false, Option.some.injEq] at hcode
    rw [← hcode]
    exact callsTagged_of_tags cfg k e h frame hf2

/-- The scan tells tagged transfers from untagged ones: a call through `ip`
after the tag load and the load of `ip` passes, a call without the tag load,
or with the tag of the other call kind, does not. -/
theorem callsTagged_examples :
    callsTagged cfg64 .CALL_AS_FUNCTION
      [.llihf r7 1, .iihf ip 0, .iilf ip 20480, .basr r14 ip] = true ∧
    callsTagged cfg64 .CALL_AS_FUNCTION [.iihf ip 0, .iilf ip 20480, .basr r14 ip] = false ∧
    callsTagged cfg64 .CALL_AS_METHOD [.llihf r7 1, .basr r14 r5] = false ∧
    callsTagged cfg64 .CALL_AS_FUNCTION [.llihf r7 1, .lgr r7 r5, .basr r14 r5] = false := by
  decide

/-- C8: in the code of both overloads of `InvokeCode`, of `InvokePrologue` and
of `InvokeBuiltin`, every call (`basr`) and jump (`bcr`) through a register
comes right after the load of the call-kind tag into `r7`, with nothing in
between but the load of the target address into `ip`; the tag is the small
integer 1 for `CALL_AS_FUNCTION` and 0 otherwise, `InvokeBuiltin` passing
`CALL_AS_METHOD`; the load leaves that small integer in `r7`; and `SetCallKind`
with a destination other than `r7` fails its assertion. -/
theorem call_kind_tag_precedes_every_transfer (cfg : Config) (iso : Isolate) :
    (∀ code expected actual flag call_kind frame c,
      codeOf (InvokeCode_Register cfg iso code expected actual flag NullCallWrapper call_kind)
        frame = some c → callsTagged cfg call_kind c = true) ∧
    (∀ code expected actual rmode flag call_kind frame c,
      codeOf (InvokeCode_Code cfg iso code expected actual rmode flag call_kind) frame = some c →
        callsTagged cfg call_kind c = true) ∧
    (∀ expected actual code_constant code_reg done flag call_kind frame,
      ((InvokePrologue cfg iso expected actual code_constant code_reg done flag NullCallWrapper
        call_kind).run ⟨[], 0, frame, false⟩).2.failed = false →
      callsTagged cfg call_kind
        ((InvokePrologue cfg iso expected actual code_constant code_reg done flag NullCallWrapper
          call_kind).run ⟨[], 0, frame, false⟩).2.code = true) ∧
    (∀ id flag frame c,
      codeOf (InvokeBuiltin cfg iso id flag NullCallWrapper) frame = some c →
        callsTagged cfg CallKind.CALL_AS_METHOD c = true) ∧
    (∀ call_kind frame,
      codeOf (SetCallKind cfg r7 call_kind) frame =
        some [smiInstr cfg r7
          (Smi.FromInt cfg (if call_kind = CallKind.CALL_AS_FUNCTION then 1 else 0))]) ∧
    (∀ call_kind (m : Machine),
      (smiInstr cfg r7 (Smi.FromInt cfg
        (if call_kind = CallKind.CALL_AS_FUNCTION then 1 else 0))).loadsCallKind cfg call_kind
          = true ∧
      ((smiInstr cfg r7 (Smi.FromInt cfg
        (if call_kind = CallKind.CALL_AS_FUNCTION then 1 else 0))).effect cfg m).regP cfg r7 =
        unsignedOf (ptrMod cfg)
          (Smi.FromInt cfg (if call_kind = CallKind.CALL_AS_FUNCTION then 1 else 0))) ∧
    (∀ dst call_kind frame, dst ≠ r7 → codeOf (SetCallKind cfg dst call_kind) frame = none) := by
  refine ⟨?_, ?_, ?_, ?_, ?_, ?_, ?_⟩
  · intro code expected actual flag call_kind frame c hcode
    exact callsTagged_of_codeOf cfg call_kind _
      (tags_InvokeCode_Register cfg iso code expected actual flag call_kind) frame c hcode
  · intro code expected actual rmode flag call_kind frame c hcode
    exact callsTagged_of_codeOf cfg call_kind _
      (tags_InvokeCode_Code cfg iso code expected actual rmode flag call_kind) frame c hcode
  · intro expected actual code_constant code_reg done flag call_kind frame hok
    exact callsTagged_of_tags cfg call_kind _
      (tags_InvokePrologue cfg iso expected actual code_constant code_reg done flag call_kind)
      frame hok
  · intro id flag frame c hcode
    exact callsTagged_of_codeOf cfg _ _ (tags_InvokeBuiltin cfg iso id flag) frame c hcode
  · intro call_kind frame
    cases call_kind <;> cases h64 : cfg.is64 <;>
      simp [codeOf, SetCallKind, LoadSmiLiteral, smiInstr, h64, Smi.FromInt, kSmiShift,
        Instr.encodable] <;> decide
  · intro call_kind m
    refine ⟨loadsCallKind_smiInstr cfg call_kind, ?_⟩
    rw [effect_smiInstr]
    unfold Machine.regP
    rw [setReg_regs_self]
    apply smi_value
    intro h64
    cases call_kind <;> simp [Smi.FromInt, kSmiShift, h64]
  · intro dst call_kind frame hd
    have hb : (dst == r7) = false := by simpa using hd
    cases call_kind <;> cases h64 : cfg.is64 <;>
      simp [codeOf, SetCallKind, LoadSmiLiteral, h64, hb]

/-- C31: on the 31-bit target for every immediate, and on the 64-bit target for
an immediate within the 16-bit range or not negative, the instruction that
`Load(dst, Operand(v))` emits leaves in `dst` the pointer-size value of `v`,
the same value that the sequence of `mov(dst, Operand(v))` leaves;
`LoadIntLiteral(dst, v)` is `Load(dst, Operand(v))` for the C `int` `v`. -/
theorem Load_Operand_matches_mov (cfg : Config) (env : Env) (m : Machine) (dst : Register)
    (v : Int) (frame : Bool) (c : List Instr)
    (hsafe : cfg.is64 = true → is_int16 v = true ∨ 0 ≤ v)
    (hcode : codeOf (Load_Operand cfg dst (Operand.ofInt v)) frame = some c) :
    exec cfg env c (c.length + 1) m = some ⟨.fallthrough, runStraight cfg c m, []⟩ ∧
    (runStraight cfg c m).regP cfg dst = unsignedOf (ptrMod cfg) v ∧
    codeOf (mov cfg dst (Operand.ofInt v)) frame = some (movCode cfg dst v) ∧
    exec cfg env (movCode cfg dst v) ((movCode cfg dst v).length + 1) m =
      some ⟨.fallthrough, runStraight cfg (movCode cfg dst v) m, []⟩ ∧
    (runStraight cfg (movCode cfg dst v) m).regP cfg dst = unsignedOf (ptrMod cfg) v ∧
    LoadIntLiteral cfg dst v = Load_Operand cfg dst (Operand.ofInt (toInt32 v)) := by
  have hmov : (runStraight cfg (movCode cfg dst v) m).regP cfg dst = unsignedOf (ptrMod cfg) v := by
    have := runStraight_movCode cfg dst v [] m
    rw [List.append_nil, runStraight_nil] at this
    rw [this, regP_setRegP_self]
    exact unsignedOf_mod_self _ _
  have hval : dst.is_valid = true ∧ (∀ i ∈ c, i.isStraight = true) ∧
      (runStraight cfg c m).regP cfg dst = unsignedOf (ptrMod cfg) v := by
    cases h64 : cfg.is64
    · by_cases hi : is_int16 (toInt32 v) = true
      · simp [codeOf, Load_Operand, Operand.ofInt, Operand.immediate, toIntPtr, h64, hi,
          Instr.encodable] at hcode
        obtain ⟨⟨hv, h16⟩, hC⟩ := hcode
        subst hC
        refine ⟨hv, by simp [Instr.isStraight], ?_⟩
        show (m.setReg dst (setLo32 (m.regs dst) (unsignedOf M32 (toInt16 v)))).regs dst %
          ptrMod cfg = _
        rw [setReg_regs_self, toInt16_of_is_int16 v h16]
        simp only [ptrMod, h64, Bool.false_eq_true, if_false, setLo32, hi32, unsignedOf, M32]
        omega
      · simp [codeOf, Load_Operand, Operand.ofInt, Operand.immediate, toIntPtr, h64, hi,
          Instr.encodable] at hcode
        obtain ⟨⟨hv, h32⟩, hC⟩ := hcode
        subst hC
        refine ⟨hv, by simp [Instr.isStraight], ?_⟩
        show (m.setReg dst (setLo32 (m.regs dst) (unsignedOf M32 v))).regs dst % ptrMod cfg = _
        rw [setReg_regs_self]
        simp only [ptrMod, h64, Bool.false_eq_true, if_false, setLo32, hi32, unsignedOf, M32]
        omega
    · by_cases hi : is_int16 (toInt64 v) = true
      · simp [codeOf, Load_Operand, Operand.ofInt, Operand.immediate, toIntPtr, h64, hi,
          Instr.encodable] at hcode
        obtain ⟨⟨hv, h16⟩, hC⟩ := hcode
        subst hC
        refine ⟨hv, by simp [Instr.isStraight], ?_⟩
        show (m.setReg dst (unsignedOf M64 (toInt16 v))).regs dst % ptrMod cfg = _
        rw [setReg_regs_self, toInt16_of_is_int16 v h16]
        simp only [ptrMod, h64, if_true]
        exact unsignedOf_mod_self _ _
      · simp [codeOf, Load_Operand, Operand.ofInt, Operand.immediate, toIntPtr, h64, hi,
          Instr.encodable] at hcode
        obtain ⟨⟨hv, h32⟩, hC⟩ := hcode
        subst hC
        refine ⟨hv, by simp [Instr.isStraight], ?_⟩
        show (m.setReg dst (unsignedOf M32 v)).regs dst % ptrMod cfg = _
        rw [setReg_regs_self]
        have h16 : ¬ is_int16 v = true := by
          intro h
          apply hi
          simp only [is_int16, decide_eq_true_eq, toInt64] at h ⊢
          omega
        have hpos : 0 ≤ v := (hsafe h64).resolve_left h16
        simp only [is_imm32, is_int32, is_uint32, Bool.or_eq_true, decide_eq_true_eq] at h32
        simp only [ptrMod, h64, if_true, unsignedOf, M32, M64]
        omega
  obtain ⟨hv, hs, hr⟩ := hval
  refine ⟨exec_of_straight cfg env c hs m, hr, ?_,
    exec_of_straight cfg env _ (isStraight_movCode cfg dst v) m, hmov, rfl⟩
  cases h64 : cfg.is64 <;>
    simp [codeOf, mov, movCode, Operand.ofInt, Operand.immediate, h64, Instr.encodable, hv,
      is_imm32, is_int32, is_uint32, toInt32, toInt64] <;> omega

/-- C31 (failing input): on the 64-bit target `Load(r3, Operand(-100000))`
emits `llilf`, which clears the upper word: `r3` ends with `2^32 - 100000`,
where `mov` leaves the sign-extended value `2^64 - 100000`. -/
theorem Load_Operand_negative_zero_extends :
    codeOf (Load_Operand cfg64 r3 (Operand.ofInt (-100000))) true =
      some [.llilf r3 (-100000)] ∧
    (runStraight cfg64 [.llilf r3 (-100000)] (uniformMachine 0)).regP cfg64 r3 = 4294867296 ∧
    (runStraight cfg64 (movCode cfg64 r3 (-100000)) (uniformMachine 0)).regP cfg64 r3 =
      18446744073709451616 ∧
    unsignedOf (ptrMod cfg64) (-100000) = 18446744073709451616 := by
  refine ⟨rfl, by decide, by decide, by decide⟩

/-- C31 (witness): the immediate 100000 on the 64-bit target. -/
theorem Load_Operand_matches_mov_witness :
    (cfg64.is64 = true → is_int16 100000 = true ∨ (0 : Int) ≤ 100000) ∧
    ∃ c, codeOf (Load_Operand cfg64 r3 (Operand.ofInt 100000)) true = some c ∧
      (runStraight cfg64 c (uniformMachine 7)).regP cfg64 r3 = 100000 ∧
      (runStraight cfg64 (movCode cfg64 r3 100000) (uniformMachine 7)).regP cfg64 r3 = 100000 :=
  ⟨fun _ => Or.inr (by decide), _, rfl,
    (Load_Operand_matches_mov cfg64 sampleEnv (uniformMachine 7) r3 100000 true _
      (fun _ => Or.inr (by decide)) rfl).2.1.trans (by decide),
    (Load_Operand_matches_mov cfg64 sampleEnv (uniformMachine 7) r3 100000 true _
      (fun _ => Or.inr (by decide)) rfl).2.2.2.2.1.trans (by decide)⟩

/-- C40: in a release build, whenever the code of `AllocateInNewSpace`, either
overload, ends at `gc_required` (always so when inline allocation is disabled,
otherwise exactly on signed overflow of the addition or when the sum exceeds
the limit), memory is as it was before the code ran; in particular the
allocation-top slot and the allocation-limit slot hold the words they held. -/
theorem AllocateInNewSpace_gc_required_keeps_slots (cfg : Config) (iso : Isolate) (env : Env)
    (m : Machine) (size : SizeArg) (result scratch1 scratch2 : Register) (gc : Label)
    (flags : AllocationFlags) (code : List Instr)
    (hdbg : cfg.emit_debug_code = false)
    (hregs : AllocRegs result scratch1 scratch2) (hs1 : scratch1 ≠ r0)
    (hlim : iso.new_space_allocation_limit = iso.new_space_allocation_top + (kPointerSize cfg : Int))
    (hsize : size.clearOf result scratch1)
    (hcode : codeOf (AllocateInNewSpace cfg iso size result scratch1 scratch2 gc flags) false
      = some code) :
    ∃ f, exec cfg env code 16 m = some f ∧
      (cfg.FLAG_inline_new = false → f.outcome = .label gc) ∧
      (cfg.FLAG_inline_new = true →
        (f.outcome = .label gc ↔
          (signedAddOverflows cfg (startTop cfg iso flags result m)
              (requestedBytes cfg flags m size) ∨
            allocationLimit cfg iso m <
              (startTop cfg iso flags result m + requestedBytes cfg flags m size) % ptrMod cfg))) ∧
      (f.outcome = .label gc →
        f.machine.mem = m.mem ∧
        allocationTop cfg iso f.machine = allocationTop cfg iso m ∧
        allocationLimit cfg iso f.machine = allocationLimit cfg iso m) := by
  cases hinl : cfg.FLAG_inline_new
  · have hc : code = [.brc al gc] := by
      cases size <;>
        simp [codeOf, AllocateInNewSpace, AllocateInNewSpace_int, AllocateInNewSpace_Register,
          hinl, hdbg, b] at hcode <;> exact hcode.2.symm
    subst hc
    refine ⟨⟨.label gc, m, []⟩, ?_, fun _ => rfl, fun h => absurd h (by decide),
      fun _ => ⟨rfl, rfl, rfl⟩⟩
    simp [exec, run_brc, condHolds_al, suffixAt_cons, suffixAt_nil]
  · obtain ⟨f, hf, -, hyes, hno⟩ := AllocateInNewSpace_spec cfg iso env m size result scratch1
      scratch2 gc flags code hinl hdbg hregs hs1 hlim hsize hcode
    have key : f.outcome = .label gc →
        (signedAddOverflows cfg (startTop cfg iso flags result m)
            (requestedBytes cfg flags m size) ∨
          allocationLimit cfg iso m <
            (startTop cfg iso flags result m + requestedBytes cfg flags m size) % ptrMod cfg) := by
      intro ho
      by_contra hc
      rw [(hno hc).1] at ho
      exact Outcome.noConfusion ho
    refine ⟨f, hf, fun h => absurd h (by decide), fun _ => ⟨key, fun hc => (hyes hc).1⟩,
      fun ho => ?_⟩
    have hmem := (hyes (key ho)).2
    exact ⟨hmem, by rw [allocationTop, allocationTop, hmem],
      by rw [allocationLimit, allocationLimit, hmem]⟩

/-- C40 (witness): on the 64-bit target with top 65536 and limit 65560, the
request for 32 bytes exceeds the limit: the code ends at `gc_required` and both
slots hold what they held. -/
theorem AllocateInNewSpace_gc_required_keeps_slots_witness :
    ∃ f, exec cfg64 sampleEnv
        [.iihf r3 0, .iilf r3 4096, .lghi r4 32, .lg r2 ⟨r3, r0, 0⟩, .lg ip ⟨r3, r0, 8⟩,
          .agr r4 r2, .brc CC_OF 7, .clgr r4 ip, .brc gt 7, .stg r4 ⟨r3, r0, 0⟩]
        16 (allocMachine64 65536 65560) = some f ∧
      f.outcome = .label 7 ∧
      allocationTop cfg64 (sampleIsolate cfg64) f.machine = 65536 ∧
      allocationLimit cfg64 (sampleIsolate cfg64) f.machine = 65560 := by
  obtain ⟨f, hf, -, hiff, hkeep⟩ := AllocateInNewSpace_gc_required_keeps_slots cfg64
    (sampleIsolate cfg64) sampleEnv (allocMachine64 65536 65560) (.imm 32) r2 r3 r4 7
    ⟨false, false, false⟩ _ (by decide)
    ⟨by decide, by decide, by decide, by decide, by decide, by decide⟩
    (by decide) (by decide) trivial (by rfl)
  have ho : f.outcome = .label 7 := (hiff (by decide)).2 (by decide)
  exact ⟨f, hf, ho, (hkeep ho).2.1.trans (by decide), (hkeep ho).2.2.trans (by decide)⟩

/-- C32: wherever `CmpP(reg, Operand(v))` emits code (`v` within the range of
the immediate field) for an operand without relocation information, and on the
31-bit target with or without it, the condition code is that of the signed
comparison of the full pointer-size register with `v`; wherever
`CmpLogicalP(reg, Operand(v))` emits code, the condition code is that of the
unsigned comparison of the pointer-size register with `v`.  Both leave
registers and memory alone. -/
theorem CmpP_CmpLogicalP_immediate (cfg : Config) (m : Machine) (dst : Register)
    (opnd : Operand) (frame : Bool)
    (hr : cfg.is64 = true → opnd.rmode_ = RelocMode.NONE) :
    (∀ c, codeOf (CmpP_Operand cfg dst opnd) frame = some c →
      (∀ i ∈ c, i.isStraight = true) ∧
      (runStraight cfg c m).cc = cmpCC (signedOf (ptrMod cfg) (m.regs dst)) opnd.imm_ ∧
      (runStraight cfg c m).regs = m.regs ∧ (runStraight cfg c m).mem = m.mem) ∧
    (∀ c, codeOf (CmpLogicalP_Operand cfg dst opnd) frame = some c →
      (∀ i ∈ c, i.isStraight = true) ∧
      (runStraight cfg c m).cc =
        cmpLogicalCC (m.regP cfg dst) (unsignedOf (ptrMod cfg) opnd.imm_) ∧
      (runStraight cfg c m).regs = m.regs ∧ (runStraight cfg c m).mem = m.mem) := by
  obtain ⟨v, rm⟩ := opnd
  constructor
  · intro c hcode
    cases h64 : cfg.is64
    · by_cases hn : rm = RelocMode.NONE
      · by_cases hi : is_int16 v = true
        · simp [codeOf, CmpP_Operand, Cmp32_Operand, Operand.immediate, h64, hn, hi,
            Instr.encodable] at hcode
          obtain ⟨-, hC⟩ := hcode
          subst hC
          refine ⟨by simp [Instr.isStraight], ?_, rfl, rfl⟩
          show cmpCC (signedOf M32 (m.regs dst)) (toInt16 v) = _
          rw [toInt16_of_is_int16 v hi]
          simp only [ptrMod, h64, Bool.false_eq_true, if_false]
        · simp [codeOf, CmpP_Operand, Cmp32_Operand, Operand.immediate, h64, hn, hi,
            Instr.encodable] at hcode
          obtain ⟨⟨-, h32⟩, hC⟩ := hcode
          subst hC
          refine ⟨by simp [Instr.isStraight], ?_, rfl, rfl⟩
          show cmpCC (signedOf M32 (m.regs dst)) (toInt32 v) = _
          rw [toInt32_of_is_int32 v h32]
          simp only [ptrMod, h64, Bool.false_eq_true, if_false]
      · simp [codeOf, CmpP_Operand, Cmp32_Operand, Operand.immediate, h64, hn,
          Instr.encodable] at hcode
        obtain ⟨⟨-, h32⟩, hC⟩ := hcode
        subst hC
        refine ⟨by simp [Instr.isStraight], ?_, rfl, rfl⟩
        show cmpCC (signedOf M32 (m.regs dst)) (toInt32 v) = _
        rw [toInt32_of_is_int32 v h32]
        simp only [ptrMod, h64, Bool.false_eq_true, if_false]
    · have hn : rm = RelocMode.NONE := hr h64
      simp [codeOf, CmpP_Operand, h64, hn, Instr.encodable] at hcode
      obtain ⟨⟨-, h32⟩, hC⟩ := hcode
      subst hC
      refine ⟨by simp [Instr.isStraight], ?_, rfl, rfl⟩
      show cmpCC (signedOf M64 (m.regs dst)) (toInt32 v) = _
      rw [toInt32_of_is_int32 v h32]
      simp only [ptrMod, h64, if_true]
  · intro c hcode
    cases h64 : cfg.is64
    · simp [codeOf, CmpLogicalP_Operand, CmpLogical32_Operand, h64, Instr.encodable] at hcode
      obtain ⟨⟨-, h32⟩, hC⟩ := hcode
      subst hC
      refine ⟨by simp [Instr.isStraight], ?_, rfl, rfl⟩
      show cmpLogicalCC (lo32 (m.regs dst)) (unsignedOf M32 v) = _
      simp only [Machine.regP, ptrMod, h64, Bool.false_eq_true, if_false, lo32]
    · simp [codeOf, CmpLogicalP_Operand, Operand.immediate, h64, Instr.encodable] at hcode
      obtain ⟨⟨hhi, -, h32⟩, hC⟩ := hcode
      subst hC
      refine ⟨by simp [Instr.isStraight], ?_, rfl, rfl⟩
      show cmpLogicalCC (m.regs dst % M64) (unsignedOf M32 v) = _
      simp only [Machine.regP, ptrMod, h64, if_true]
      congr 1
      simp only [is_imm32, is_int32, is_uint32, Bool.or_eq_true, decide_eq_true_eq] at h32
      simp only [unsignedOf, M32, M64] at hhi ⊢
      omega

/-- C32 (failing input): on the 64-bit target `CmpP(r3, Operand(5))` with
relocation information loads 5 into `r0` and compares the low words only: with
`r3 = 2^32 + 5` the condition code says equal, where the comparison of all 64
bits gives high. -/
theorem CmpP_relocated_compares_low_words :
    codeOf (CmpP_Operand cfg64 r3 ⟨5, RelocMode.EMBEDDED_OBJECT⟩) true =
      some [.iihf r0 0, .iilf r0 5, .cr_z r3 r0] ∧
    (runStraight cfg64 [.iihf r0 0, .iilf r0 5, .cr_z r3 r0] (uniformMachine 4294967301)).cc = 0 ∧
    cmpCC (signedOf (ptrMod cfg64) ((uniformMachine 4294967301).regs r3)) 5 = 2 := by
  refine ⟨rfl, by decide, by decide⟩

/-- C32 (witness): the comparison of `r3 = 2^32 + 5` with the immediate 5
without relocation information on the 64-bit target gives high. -/
theorem CmpP_CmpLogicalP_immediate_witness :
    (cfg64.is64 = true → (Operand.ofInt 5).rmode_ = RelocMode.NONE) ∧
    codeOf (CmpP_Operand cfg64 r3 (Operand.ofInt 5)) true = some [.cgfi r3 5] ∧
    (runStraight cfg64 [.cgfi r3 5] (uniformMachine 4294967301)).cc = 2 ∧
    codeOf (CmpLogicalP_Operand cfg64 r3 (Operand.ofInt 5)) true = some [.clgfi r3 5] ∧
    (runStraight cfg64 [.clgfi r3 5] (uniformMachine 4294967301)).cc = 2 :=
  ⟨fun _ => rfl, rfl,
    ((CmpP_CmpLogicalP_immediate cfg64 (uniformMachine 4294967301) r3 (Operand.ofInt 5) true
      (fun _ => rfl)).1 _ rfl).2.1.trans (by decide), rfl,
    ((CmpP_CmpLogicalP_immediate cfg64 (uniformMachine 4294967301) r3 (Operand.ofInt 5) true
      (fun _ => rfl)).2 _ rfl).2.1.trans (by decide)⟩

theorem land_pred_eq_zero_iff (x : Nat) (hx : 0 < x) :
    Nat.land x (x - 1) = 0 ↔ ∃ k, x = 2 ^ k := by
  constructor
  · intro h
    have h1 : 2 ^ x.log2 ≤ x := Nat.log2_self_le (by omega)
    have h2 : x < 2 ^ (x.log2 + 1) := Nat.lt_log2_self
    refine ⟨x.log2, ?_⟩
    by_contra hne
    have h3 : 2 ^ x.log2 ≤ x - 1 := by omega
    have b1 : x.testBit x.log2 = true := by
      rw [testBit_top _ _ h2]; simpa using h1
    have b2 : (x - 1).testBit x.log2 = true := by
      rw [testBit_top _ _ (by omega)]; simpa using h3
    have b3 : (Nat.land x (x - 1)).testBit x.log2 = true := by
      show (x &&& (x - 1)).testBit _ = true
      rw [Nat.testBit_and, b1, b2]; rfl
    rw [h] at b3
    simp at b3
  · rintro ⟨k, rfl⟩
    show 2 ^ k &&& (2 ^ k - 1) = 0
    apply Nat.eq_of_testBit_eq
    intro i
    rw [Nat.testBit_and, Nat.testBit_two_pow, Nat.testBit_two_pow_sub_one, Nat.zero_testBit]
    by_cases hik : k = i
    · subst hik; simp
    · simp [hik]

theorem pow2_branches (cfg : Config) (x : Nat) (hx : x < ptrMod cfg) :
    (signedOf (ptrMod cfg) ((x + ptrMod cfg - 1) % ptrMod cfg) < 0 ↔
      x = 0 ∨ ptrMod cfg / 2 < x) ∧
    (¬ signedOf (ptrMod cfg) ((x + ptrMod cfg - 1) % ptrMod cfg) < 0 →
      (Nat.land x ((x + ptrMod cfg - 1) % ptrMod cfg) = 0 ↔ ∃ k, x = 2 ^ k)) := by
  have key : (signedOf (ptrMod cfg) ((x + ptrMod cfg - 1) % ptrMod cfg) < 0 ↔
      x = 0 ∨ ptrMod cfg / 2 < x) := by
    cases h64 : cfg.is64 <;>
      simp only [signedOf, ptrMod, h64, Bool.false_eq_true, if_false, if_true, M32, M64] at hx ⊢ <;>
      split <;> omega
  refine ⟨key, fun hn => ?_⟩
  have hx0 : 0 < x := by
    by_contra h0
    exact hn (key.2 (Or.inl (by omega)))
  have e : (x + ptrMod cfg - 1) % ptrMod cfg = x - 1 := by
    have : x + ptrMod cfg - 1 = (x - 1) + ptrMod cfg := by omega
    rw [this, Nat.add_mod_right, Nat.mod_eq_of_lt (by omega)]
  rw [e]
  exact land_pred_eq_zero_iff x hx0
theorem powerOfTwo_code (cfg : Config) (reg scratch : Register) (l1 l2 : Label) (st : Asm)
    (hrs : scratch ≠ reg) :
    (do
      SubP_Register_Operand cfg scratch reg (Operand.ofInt 1)
      CmpP_Operand cfg scratch Operand.Zero
      blt l1
      AndP_Register_Register cfg r0 reg scratch
      bne l2 : Emit Unit).run st =
      ((), { st with code := st.code ++ powerOfTwoCode cfg reg scratch l1 l2,
                     failed := st.failed ||
                       !((powerOfTwoCode cfg reg scratch l1 l2).all Instr.encodable) }) := by
  have h16 : is_int16 (-1) = true := by decide
  have hA := AndP_Register_Register_code cfg r0 reg scratch
  have hC := CmpP_Operand_Zero_run cfg scratch
  cases hd : cfg.distinct_ops <;>
    simp [SubP_Register_Operand, AddP_Register_Operand, AddPImm_RRI, Operand.ofInt,
      Operand.immediate, hd, h16, hrs, LoadRR_run, AddP_Operand_run, hC, hA, blt, bne, b,
      powerOfTwoCode, subOneCode, Bool.or_assoc, Bool.and_assoc]
theorem isStraight_subOneCode (cfg : Config) (scratch reg : Register) :
    ∀ i ∈ subOneCode cfg scratch reg, i.isStraight = true := by
  intro i hi
  unfold subOneCode lrP addPI at hi
  cases hd : cfg.distinct_ops <;> cases h64 : cfg.is64 <;> simp [hd, h64] at hi <;>
    first
      | (rcases hi with rfl | rfl <;> rfl)
      | (subst hi; rfl)

theorem boundLabel_subOneCode (cfg : Config) (scratch reg : Register) :
    ∀ i ∈ subOneCode cfg scratch reg, i.boundLabel = none := by
  intro i hi
  unfold subOneCode lrP addPI at hi
  cases hd : cfg.distinct_ops <;> cases h64 : cfg.is64 <;> simp [hd, h64] at hi <;>
    first
      | (rcases hi with rfl | rfl <;> rfl)
      | (subst hi; rfl)

/-- After `SubP(scratch, reg, Operand(1))` the scratch register holds the
pointer-size value of `reg` less one; nothing else changes but the condition
code. -/
theorem subOneCode_facts (cfg : Config) (m : Machine) (scratch reg : Register)
    (hrs : scratch ≠ reg) :
    (runStraight cfg (subOneCode cfg scratch reg) m).regP cfg scratch =
      (m.regP cfg reg + ptrMod cfg - 1) % ptrMod cfg ∧
    (∀ x, x ≠ scratch → (runStraight cfg (subOneCode cfg scratch reg) m).regs x = m.regs x) ∧
    (runStraight cfg (subOneCode cfg scratch reg) m).mem = m.mem := by
  have hne : reg ≠ scratch := fun h => hrs h.symm
  unfold subOneCode
  cases hd : cfg.distinct_ops
  · simp only [Bool.false_eq_true, if_false, runStraight_cons, runStraight_nil, effect_lrP,
      effect_addPI cfg _ _ _ (show is_int32 (-1) = true by decide)]
    refine ⟨?_, fun x hx => ?_, ?_⟩
    · rw [regP_setCC, regP_setRegP_self, regP_setRegP_self, regP_mod_ptr]
      have := regP_lt cfg m reg
      cases h64 : cfg.is64 <;>
        simp only [ptrMod, h64, unsignedOf, M32, M64, Bool.false_eq_true, if_false, if_true]
          at this ⊢ <;> omega
    · show ((m.setRegP cfg scratch _).setRegP cfg scratch _).regs x = _
      rw [setRegP_regs_ne _ _ _ _ _ hx, setRegP_regs_ne _ _ _ _ _ hx]
    · show ((m.setRegP cfg scratch _).setRegP cfg scratch _).mem = _
      rw [setRegP_mem, setRegP_mem]
  · simp only [if_true, runStraight_cons, runStraight_nil]
    cases h64 : cfg.is64
    · simp only [Bool.false_eq_true, if_false]
      refine ⟨?_, fun x hx => ?_, rfl⟩
      · show (add32 m scratch (m.regs reg) (unsignedOf M32 (toInt16 (-1)))).regs scratch %
          ptrMod cfg = _
        rw [add32, setCC_regs, setReg_regs_self]
        simp only [Machine.regP, ptrMod, h64, Bool.false_eq_true, if_false, setLo32, hi32,
          unsignedOf, toInt16, M32]
        omega
      · show (if x = scratch then _ else m.regs x) = _
        rw [if_neg hx]
    · simp only [if_true]
      refine ⟨?_, fun x hx => ?_, rfl⟩
      · show (add64 m scratch (m.regs reg) (unsignedOf M64 (toInt16 (-1)))).regs scratch %
          ptrMod cfg = _
        rw [add64, setCC_regs, setReg_regs_self]
        simp only [Machine.regP, ptrMod, h64, if_true, unsignedOf, toInt16, M64]
        omega
      · show (if x = scratch then _ else m.regs x) = _
        rw [if_neg hx]

/-- The condition code after the conjunction of two registers into a third
register tells whether the conjunction is zero. -/
theorem and_threeRegisterCode_cc (cfg : Config) (m : Machine) (d s1 s2 : Register)
    (h1 : d ≠ s1) (h2 : d ≠ s2) :
    (runStraight cfg (threeRegisterCode AluKind.and cfg.is64 cfg.distinct_ops d s1 s2) m).cc =
      logicCC (Nat.land (m.regP cfg s1) (m.regP cfg s2)) := by
  have h2s : s2 ≠ d := fun h => h2 h.symm
  unfold threeRegisterCode
  rw [if_neg (by decide), if_pos ⟨h1, h2⟩]
  cases hd : cfg.distinct_ops <;> cases h64 : cfg.is64 <;>
    simp only [Bool.false_eq_true, if_false, if_true, runStraight_cons, runStraight_nil, alu2,
      alu3, copyRR, Machine.regP, ptrMod, h64]
  · show logicCC (Nat.land ((if d = d then _ else _) % M32) ((if s2 = d then _ else _) % M32)) = _
    rw [if_pos rfl, if_neg h2s, setLo32_mod]
  · show logicCC (Nat.land ((if d = d then _ else _) % M64) ((if s2 = d then _ else _) % M64)) = _
    rw [if_pos rfl, if_neg h2s, Nat.mod_mod]
  · rfl
  · rfl
theorem boundLabel_threeRegisterCode (k : AluKind) (w distinct : Bool) (d s1 s2 : Register) :
    ∀ i ∈ threeRegisterCode k w distinct d s1 s2, i.boundLabel = none := by
  have a2 : ∀ d s, (alu2 k w d s).boundLabel = none := fun d s => by
    cases k <;> cases w <;> rfl
  have a3 : ∀ d s t, (alu3 k w d s t).boundLabel = none := fun d s t => by
    cases k <;> cases w <;> rfl
  have c1 : ∀ d s, (copyRR w d s).boundLabel = none := fun d s => by cases w <;> rfl
  have c2 : ∀ d s, (complementRR w d s).boundLabel = none := fun d s => by cases w <;> rfl
  intro i hi
  unfold threeRegisterCode at hi
  split_ifs at hi <;> simp only [List.mem_cons, List.mem_singleton, List.mem_nil_iff, or_false]
    at hi <;> first
      | (rcases hi with rfl | rfl <;> first | exact a2 _ _ | exact a3 _ _ _ | exact c1 _ _ | exact c2 _ _)
      | (subst hi; first | exact a2 _ _ | exact a3 _ _ _ | exact c1 _ _ | exact c2 _ _)

/-- The run of the code of the power-of-two test: past the subtraction, the
first branch is taken when the difference is negative, the second when the
conjunction of the value with the difference is not zero. -/
theorem exec_powerOfTwoCode (cfg : Config) (env : Env) (m : Machine) (reg scratch : Register)
    (l1 l2 : Label) (hrs : scratch ≠ reg) (hr0 : reg ≠ r0) (hs0 : scratch ≠ r0) :
    ∃ f, exec cfg env (powerOfTwoCode cfg reg scratch l1 l2) 8 m = some f ∧ f.trace = [] ∧
      f.machine.regP cfg scratch = (m.regP cfg reg + ptrMod cfg - 1) % ptrMod cfg ∧
      f.machine.regP cfg reg = m.regP cfg reg ∧ f.machine.mem = m.mem ∧
      f.outcome =
        (if signedOf (ptrMod cfg) ((m.regP cfg reg + ptrMod cfg - 1) % ptrMod cfg) < 0 then
          .label l1
         else if Nat.land (m.regP cfg reg) ((m.regP cfg reg + ptrMod cfg - 1) % ptrMod cfg) ≠ 0
          then .label l2 else .fallthrough) := by
  generalize hA : subOneCode cfg scratch reg = A
  generalize hT : threeRegisterCode AluKind.and cfg.is64 cfg.distinct_ops r0 reg scratch = T
  have sA : ∀ i ∈ A, i.isStraight = true := hA ▸ isStraight_subOneCode _ _ _
  have lA : ∀ i ∈ A, i.boundLabel = none := hA ▸ boundLabel_subOneCode _ _ _
  have sT : ∀ i ∈ T, i.isStraight = true := hT ▸ (threeRegisterCode_facts _ _ _ _ _ _).1
  have lT : ∀ i ∈ T, i.boundLabel = none := hT ▸ boundLabel_threeRegisterCode _ _ _ _ _ _
  have lenA : A.length ≤ 2 := by
    rw [← hA]; unfold subOneCode; split <;> simp
  have lenT : T.length ≤ 2 := by
    rw [← hT]; unfold threeRegisterCode; split_ifs <;> simp
  obtain ⟨a1, a2, a3⟩ := subOneCode_facts cfg m scratch reg hrs
  rw [hA] at a1 a2 a3
  have hcc := and_threeRegisterCode_cc cfg
    ((runStraight cfg A m).setCC (cmpCC (signedOf (ptrMod cfg) ((runStraight cfg A m).regs scratch)) 0))
    r0 reg scratch (fun h => hr0 h.symm) (fun h => hs0 h.symm)
  obtain ⟨t1, t2⟩ := run_threeRegisterCode cfg
    ((runStraight cfg A m).setCC (cmpCC (signedOf (ptrMod cfg) ((runStraight cfg A m).regs scratch)) 0))
    AluKind.and cfg.is64 cfg.distinct_ops r0 reg scratch
  have tmem : (runStraight cfg (threeRegisterCode AluKind.and cfg.is64 cfg.distinct_ops r0 reg scratch)
      ((runStraight cfg A m).setCC
        (cmpCC (signedOf (ptrMod cfg) ((runStraight cfg A m).regs scratch)) 0))).mem =
      (runStraight cfg A m).mem := by
    unfold threeRegisterCode
    rw [if_neg (by decide), if_pos ⟨fun h => hr0 h.symm, fun h => hs0 h.symm⟩]
    cases cfg.distinct_ops <;> cases cfg.is64 <;> rfl
  rw [hT] at hcc t2 tmem
  have hc : powerOfTwoCode cfg reg scratch l1 l2 =
      (A ++ [cmpZero cfg scratch]) ++ (.brc lt l1 :: (T ++ [.brc ne l2])) := by
    rw [← hA, ← hT]; unfold powerOfTwoCode; simp
  generalize powerOfTwoCode cfg reg scratch l1 l2 = code at hc ⊢
  have sAC : ∀ i ∈ A ++ [cmpZero cfg scratch], i.isStraight = true :=
    straight_append sA (straight_cons (isStraight_cmpZero _ _) straight_nil)
  have hsuf : ∀ l, suffixAt l code = none := by
    intro l
    rw [hc, suffixAt_skip l _ _ (nolabel_append lA
        (nolabel_cons (boundLabel_cmpZero _ _) nolabel_nil)),
      suffixAt_cons, if_neg (by simp [Instr.boundLabel]), suffixAt_skip l _ _ lT,
      suffixAt_cons, if_neg (by simp [Instr.boundLabel])]
    rfl
  have e1 : runStraight cfg (A ++ [cmpZero cfg scratch]) m =
      (runStraight cfg A m).setCC
        (cmpCC (signedOf (ptrMod cfg) ((runStraight cfg A m).regs scratch)) 0) := by
    rw [runStraight_append, runStraight_cons, runStraight_nil, effect_cmpZero]
  have hsgn : signedOf (ptrMod cfg) ((runStraight cfg A m).regs scratch) =
      signedOf (ptrMod cfg) ((m.regP cfg reg + ptrMod cfg - 1) % ptrMod cfg) := by
    rw [← a1]; exact (signedOf_mod _ _).symm
  have key : ∃ f, run cfg env code
      (((((0 + 1) + 1) + T.length) + 1) + (A ++ [cmpZero cfg scratch]).length) code m [] = some f ∧
      f.trace = [] ∧
      f.machine.regP cfg scratch = (m.regP cfg reg + ptrMod cfg - 1) % ptrMod cfg ∧
      f.machine.regP cfg reg = m.regP cfg reg ∧ f.machine.mem = m.mem ∧
      f.outcome =
        (if signedOf (ptrMod cfg) ((m.regP cfg reg + ptrMod cfg - 1) % ptrMod cfg) < 0 then
          .label l1
         else if Nat.land (m.regP cfg reg) ((m.regP cfg reg + ptrMod cfg - 1) % ptrMod cfg) ≠ 0
          then .label l2 else .fallthrough) := by
    nth_rewrite 2 [hc]
    rw [run_straight cfg env code _ _ sAC _ m [], run_brc, hsuf, e1, setCC_cc]
    by_cases hlt : signedOf (ptrMod cfg) ((m.regP cfg reg + ptrMod cfg - 1) % ptrMod cfg) < 0
    · rw [if_pos ((condHolds_lt_cmpCC _ _).2 (hsgn ▸ hlt)), if_pos hlt]
      refine ⟨_, rfl, rfl, ?_, ?_, a3, rfl⟩
      · exact a1
      · show (runStraight cfg A m).regs reg % _ = _
        rw [a2 reg (fun h => hrs h.symm)]; rfl
    · rw [if_neg (fun h => hlt (hsgn ▸ (condHolds_lt_cmpCC _ _).1 h)), if_neg hlt,
        run_straight cfg env code _ _ sT _ _ [], run_brc, hsuf, hcc]
      have hx : ((runStraight cfg A m).setCC
          (cmpCC (signedOf (ptrMod cfg) ((runStraight cfg A m).regs scratch)) 0)).regP cfg reg =
          m.regP cfg reg := by
        show (runStraight cfg A m).regs reg % _ = _
        rw [a2 reg (fun h => hrs h.symm)]; rfl
      have hs : ((runStraight cfg A m).setCC
          (cmpCC (signedOf (ptrMod cfg) ((runStraight cfg A m).regs scratch)) 0)).regP cfg scratch =
          (m.regP cfg reg + ptrMod cfg - 1) % ptrMod cfg := a1
      rw [hx, hs]
      have r1 : (runStraight cfg T ((runStraight cfg A m).setCC
          (cmpCC (signedOf (ptrMod cfg) ((runStraight cfg A m).regs scratch)) 0))).regP cfg scratch =
          (m.regP cfg reg + ptrMod cfg - 1) % ptrMod cfg := by
        show (runStraight cfg T _).regs scratch % _ = _
        rw [t2 scratch hs0]; exact a1
      have r2 : (runStraight cfg T ((runStraight cfg A m).setCC
          (cmpCC (signedOf (ptrMod cfg) ((runStraight cfg A m).regs scratch)) 0))).regP cfg reg =
          m.regP cfg reg := by
        show (runStraight cfg T _).regs reg % _ = _
        rw [t2 reg hr0]; exact hx
      by_cases hz : Nat.land (m.regP cfg reg) ((m.regP cfg reg + ptrMod cfg - 1) % ptrMod cfg) = 0
      · rw [if_neg (fun h => (condHolds_ne_logicCC _).1 h hz), if_neg (not_not.2 hz)]
        exact ⟨_, rfl, rfl, r1, r2, tmem.trans a3, rfl⟩
      · rw [if_pos ((condHolds_ne_logicCC _).2 hz), if_pos hz]
        exact ⟨_, rfl, rfl, r1, r2, tmem.trans a3, rfl⟩
  obtain ⟨f, hf, rest⟩ := key
  refine ⟨f, ?_, rest⟩
  unfold exec
  refine run_mono_le cfg env code _ _ ?_ _ _ _ _ hf
  simp only [List.length_append, List.length_cons, List.length_nil]
  omega
theorem JumpIfNotPowerOfTwoOrZero_code (cfg : Config) (reg scratch : Register) (L : Label)
    (frame : Bool) (c : List Instr) (hrs : scratch ≠ reg)
    (hcode : codeOf (JumpIfNotPowerOfTwoOrZero cfg reg scratch L) frame = some c) :
    c = powerOfTwoCode cfg reg scratch L L :=
  codeOf_of_run _ _ frame c (fun st => powerOfTwo_code cfg reg scratch L L st hrs) hcode

/-- C37: for every pointer-size value `x` of `reg`, the code of
`JumpIfNotPowerOfTwoOrZero` either falls through or branches to the label; it
falls through exactly when `x`, read as an unsigned word, is a power of two,
which for every `x` other than the most negative value is to say that the
signed `x` is a (positive) power of two; it branches for zero, for every
negative `x` other than the most negative value and for every `x` with more
than one bit set.  The scratch register then holds `x - 1`. -/
theorem JumpIfNotPowerOfTwoOrZero_spec (cfg : Config) (env : Env) (m : Machine)
    (reg scratch : Register) (L : Label) (frame : Bool) (c : List Instr)
    (hrs : scratch ≠ reg) (hr0 : reg ≠ r0) (hs0 : scratch ≠ r0)
    (hcode : codeOf (JumpIfNotPowerOfTwoOrZero cfg reg scratch L) frame = some c) :
    ∃ f, exec cfg env c 8 m = some f ∧ f.trace = [] ∧
      (f.outcome = .fallthrough ∨ f.outcome = .label L) ∧
      (f.outcome = .fallthrough ↔ ∃ k, m.regP cfg reg = 2 ^ k) ∧
      (m.regP cfg reg ≠ ptrMod cfg / 2 →
        (f.outcome = .fallthrough ↔
          ∃ k : Nat, signedOf (ptrMod cfg) (m.regs reg) = (2 : Int) ^ k)) ∧
      (m.regP cfg reg = 0 → f.outcome = .label L) ∧
      (signedOf (ptrMod cfg) (m.regs reg) < 0 → m.regP cfg reg ≠ ptrMod cfg / 2 →
        f.outcome = .label L) ∧
      f.machine.regP cfg scratch = (m.regP cfg reg + ptrMod cfg - 1) % ptrMod cfg ∧
      f.machine.regP cfg reg = m.regP cfg reg ∧ f.machine.mem = m.mem := by
  have hc := JumpIfNotPowerOfTwoOrZero_code cfg reg scratch L frame c hrs hcode
  subst hc
  obtain ⟨f, hf, htr, hs, hr, hmem, ho⟩ := exec_powerOfTwoCode cfg env m reg scratch L L hrs hr0 hs0
  obtain ⟨b1, b2⟩ := pow2_branches cfg (m.regP cfg reg) (regP_lt cfg m reg)
  have hW : ptrMod cfg = 2 ^ kBitsPerPointer cfg := by
    cases h64 : cfg.is64 <;> simp [ptrMod, kBitsPerPointer, h64, M32, M64]
  have hx := regP_lt cfg m reg
  have hft : f.outcome = .fallthrough ↔ ∃ k, m.regP cfg reg = 2 ^ k := by
    rw [ho]
    by_cases hlt : signedOf (ptrMod cfg) ((m.regP cfg reg + ptrMod cfg - 1) % ptrMod cfg) < 0
    · rw [if_pos hlt]
      constructor
      · intro h; exact Outcome.noConfusion h
      · rintro ⟨k, hk⟩
        exfalso
        rcases b1.1 hlt with h0 | hbig
        · rw [h0] at hk
          exact absurd hk.symm (by positivity)
        · rw [hW] at hx hbig
          rw [hk] at hx hbig
          have h1 : k < kBitsPerPointer cfg := (Nat.pow_lt_pow_iff_right (by decide)).1 hx
          have h2 : 2 ^ kBitsPerPointer cfg / 2 = 2 ^ (kBitsPerPointer cfg - 1) := by
            cases h64 : cfg.is64 <;> simp [kBitsPerPointer, h64]
          rw [h2] at hbig
          have h3 : kBitsPerPointer cfg - 1 < k := (Nat.pow_lt_pow_iff_right (by decide)).1 hbig
          omega
    · rw [if_neg hlt]
      by_cases hz : Nat.land (m.regP cfg reg) ((m.regP cfg reg + ptrMod cfg - 1) % ptrMod cfg) = 0
      · rw [if_neg (not_not.2 hz)]
        exact ⟨fun _ => (b2 hlt).1 hz, fun _ => rfl⟩
      · rw [if_pos hz]
        exact ⟨fun h => Outcome.noConfusion h, fun h => absurd ((b2 hlt).2 h) hz⟩
  have hsig : signedOf (ptrMod cfg) (m.regs reg) = signedOf (ptrMod cfg) (m.regP cfg reg) :=
    (signedOf_mod _ _).symm
  have hor : f.outcome = .fallthrough ∨ f.outcome = .label L := by
    rw [ho]; split_ifs <;> simp
  have hneg : signedOf (ptrMod cfg) (m.regs reg) < 0 → m.regP cfg reg ≠ ptrMod cfg / 2 →
      ptrMod cfg / 2 < m.regP cfg reg := by
    intro h1 h2
    rw [hsig] at h1
    have h3 : m.regP cfg reg % ptrMod cfg = m.regP cfg reg := Nat.mod_eq_of_lt hx
    simp only [signedOf, h3] at h1
    split at h1 <;> omega
  refine ⟨f, hf, htr, hor, hft, fun hmin => ?_, fun h0 => ?_, fun h1 h2 => ?_, hs, hr, hmem⟩
  · rw [hft, hsig]
    have h3 : m.regP cfg reg % ptrMod cfg = m.regP cfg reg := Nat.mod_eq_of_lt hx
    constructor
    · rintro ⟨k, hk⟩
      refine ⟨k, ?_⟩
      have hlt2 : m.regP cfg reg < ptrMod cfg / 2 := by
        rw [hW] at hx hmin ⊢
        rw [hk] at hx hmin ⊢
        have h1 : k < kBitsPerPointer cfg := (Nat.pow_lt_pow_iff_right (by decide)).1 hx
        have h2 : 2 ^ kBitsPerPointer cfg / 2 = 2 ^ (kBitsPerPointer cfg - 1) := by
          cases h64 : cfg.is64 <;> simp [kBitsPerPointer, h64]
        rw [h2] at hmin ⊢
        have h4 : k ≠ kBitsPerPointer cfg - 1 := fun h => hmin (by rw [h])
        exact (Nat.pow_lt_pow_iff_right (by decide)).2 (by omega)
      simp only [signedOf, h3, if_pos hlt2]
      rw [hk]; push_cast; rfl
    · rintro ⟨k, hk⟩
      refine ⟨k, ?_⟩
      simp only [signedOf, h3] at hk
      have hp : (0 : Int) < 2 ^ k := by positivity
      split at hk
      · exact_mod_cast hk
      · omega
  · rcases hor with h | h
    · obtain ⟨k, hk⟩ := hft.1 h
      rw [h0] at hk
      exact absurd hk.symm (by positivity)
    · exact h
  · rw [ho, if_pos (b1.2 (Or.inr (hneg h1 h2)))]

/-- C37 (failing input): on the 64-bit target with `r3 = 2^63`, the most
negative value, the code falls through: the subtraction wraps to `2^63 - 1`,
which is not negative, and the conjunction with it is zero. -/
theorem JumpIfNotPowerOfTwoOrZero_most_negative_falls_through :
    codeOf (JumpIfNotPowerOfTwoOrZero cfg64 r3 r4 7) true =
      some [.lgr r4 r3, .aghi r4 (-1), .cgfi r4 0, .brc lt 7, .lgr r0 r3, .ngr r0 r4,
        .brc ne 7] ∧
    (exec cfg64 sampleEnv [.lgr r4 r3, .aghi r4 (-1), .cgfi r4 0, .brc lt 7, .lgr r0 r3,
        .ngr r0 r4, .brc ne 7] 8 topBitMachine).map (fun f => f.outcome) =
      some Outcome.fallthrough ∧
    signedOf (ptrMod cfg64) (topBitMachine.regs r3) = -9223372036854775808 := by
  refine ⟨rfl, by decide, by decide⟩

/-- C37 (witness): on the 64-bit target with every register holding 12, the
code branches to the label and leaves 11 in the scratch register. -/
theorem JumpIfNotPowerOfTwoOrZero_spec_witness :
    r4 ≠ r3 ∧ r3 ≠ r0 ∧ r4 ≠ r0 ∧
    ∃ c, codeOf (JumpIfNotPowerOfTwoOrZero cfg64 r3 r4 7) true = some c ∧
      ∃ f, exec cfg64 sampleEnv c 8 (uniformMachine 12) = some f ∧
        f.outcome = .label 7 ∧ f.machine.regP cfg64 r4 = 11 := by
  obtain ⟨f, hf, -, hor, hft, -, -, -, hs, -⟩ := JumpIfNotPowerOfTwoOrZero_spec cfg64 sampleEnv
    (uniformMachine 12) r3 r4 7 true _ (by decide) (by decide) (by decide) rfl
  refine ⟨by decide, by decide, by decide, _, rfl, f, hf, ?_, hs.trans (by decide)⟩
  rcases hor with h | h
  · obtain ⟨k, hk⟩ := hft.1 h
    exfalso
    have h12 : (uniformMachine 12).regP cfg64 r3 = 12 := by decide
    rw [h12] at hk
    have hk4 : k < 4 :=
      (Nat.pow_lt_pow_iff_right (show 1 < 2 by decide)).1
        (show 2 ^ k < 2 ^ 4 by rw [← hk]; decide)
    interval_cases k <;> omega
  · exact h

theorem CallRuntime_code (cfg : Config) (heap : Heap) (CEntryStub : Int → CodeStub)
    (f : RuntimeFunction) (n : Int) (frame : Bool) (c : List Instr)
    (hfit : is_int20 (heap.kUndefinedValueRootIndex * 2 ^ kPointerSizeLog2 cfg) = true)
    (hcode : codeOf (CallRuntime cfg heap CEntryStub f n) frame = some c) :
    c = if f.nargs ≥ 0 ∧ f.nargs ≠ n then illegalCode cfg heap n
        else runtimeArgs cfg f n (runtimeStub cfg CEntryStub f) ++ [.basr r14 ip] := by
  have e : ((CallRuntime cfg heap CEntryStub f n).run ⟨[], 0, frame, false⟩).2.code =
      (if f.nargs ≥ 0 ∧ f.nargs ≠ n then illegalCode cfg heap n
        else runtimeArgs cfg f n (runtimeStub cfg CEntryStub f) ++ [.basr r14 ip]) := by
    have hl := fun st => LoadP_run_fits cfg r0 kRootRegister r0
      (heap.kUndefinedValueRootIndex * 2 ^ kPointerSizeLog2 cfg) r0 st hfit
    by_cases hmis : f.nargs ≥ 0 ∧ f.nargs ≠ n
    · rw [if_pos hmis]
      by_cases hn : n > 0 <;>
        simp [CallRuntime, hmis, IllegalOperation, LoadRoot, MemOperand.mk1, hl, hn, illegalCode]
    · rw [if_neg hmis]
      simp [CallRuntime, hmis, mov_run, CallStub, AllowThisStubCall_run, Call_Code, Call_Address,
        has_frame, runtimeArgs, runtimeStub, Operand.ofInt]

  unfold codeOf at hcode
  rw [← e]
  exact (code_of_ite hcode).1
theorem isStraight_illegalCode (cfg : Config) (heap : Heap) (n : Int) :
    ∀ i ∈ illegalCode cfg heap n, i.isStraight = true := by
  intro i hi
  unfold illegalCode at hi
  split at hi
  · simp only [List.singleton_append, List.mem_cons, List.mem_singleton, List.not_mem_nil,
      or_false] at hi
    rcases hi with rfl | rfl
    · rfl
    · exact isStraight_ldP cfg _ _
  · simp only [List.nil_append, List.mem_singleton] at hi
    subst hi
    exact isStraight_ldP cfg _ _

theorem isStraight_runtimeArgs (cfg : Config) (f : RuntimeFunction) (n : Int) (stub : CodeStub) :
    ∀ i ∈ runtimeArgs cfg f n stub, i.isStraight = true := by
  intro i hi
  unfold runtimeArgs at hi
  simp only [List.mem_append] at hi
  rcases hi with h | h | h <;> exact isStraight_movCode cfg _ _ i h

theorem runStraight_runtimeArgs (cfg : Config) (f : RuntimeFunction) (n : Int) (stub : CodeStub)
    (m : Machine) :
    runStraight cfg (runtimeArgs cfg f n stub) m =
      ((m.setRegP cfg r2 (unsignedOf (ptrMod cfg) n)).setRegP cfg r3
        (unsignedOf (ptrMod cfg) f.entry)).setRegP cfg ip (unsignedOf (ptrMod cfg) stub.GetCode) := by
  unfold runtimeArgs
  rw [runStraight_movCode, runStraight_movCode,
    ← List.append_nil (movCode cfg ip stub.GetCode), runStraight_movCode, runStraight_nil]

theorem runStraight_illegalCode (cfg : Config) (heap : Heap) (n : Int) (m : Machine) :
    runStraight cfg (illegalCode cfg heap n) m =
      (if n > 0 then
        (m.setRegP cfg sp (slot cfg (m.addr cfg sp) n)).setRegP cfg r0
          (loadPtr cfg m.mem (rootSlot cfg m heap.kUndefinedValueRootIndex))
       else m.setRegP cfg r0 (loadPtr cfg m.mem (rootSlot cfg m heap.kUndefinedValueRootIndex))) := by
  unfold illegalCode rootSlot
  split
  · simp only [List.singleton_append, runStraight_cons, runStraight_nil, effect_la, effect_ldP,
      setRegP_mem]
    rw [effAddr_disp cfg m sp _ (by decide), effAddr_disp cfg _ kRootRegister _ (by decide),
      addr_setRegP_ne cfg m sp kRootRegister _ (by decide), slot_fold]
  · simp only [List.nil_append, runStraight_cons, runStraight_nil, effect_ldP]
    rw [effAddr_disp cfg _ kRootRegister _ (by decide)]

/-- C36: the code of `CallRuntime(f, n)`, run from any machine state, falls
through its end.  When `f.nargs < 0` or `f.nargs = n` it makes exactly one
call, to the C-entry stub, with `r2 = n` and `r3` the entry of the runtime
function.  Otherwise it makes no call, advances the stack pointer by `n` slots
when `n > 0` and leaves it alone when `n ≤ 0`, and loads the undefined value
from the root list into `r0`; memory and `r2` are as before. -/
theorem CallRuntime_spec (cfg : Config) (heap : Heap) (CEntryStub : Int → CodeStub)
    (env : Env) (m : Machine) (f : RuntimeFunction) (n : Int) (frame : Bool) (c : List Instr)
    (hfit : is_int20 (heap.kUndefinedValueRootIndex * 2 ^ kPointerSizeLog2 cfg) = true)
    (hcode : codeOf (CallRuntime cfg heap CEntryStub f n) frame = some c) :
    ∃ r, exec cfg env c (c.length + 1) m = some r ∧ r.outcome = .fallthrough ∧
      ((f.nargs < 0 ∨ f.nargs = n) →
        r.trace = [.call (unsignedOf (addrMod cfg) (runtimeStub cfg CEntryStub f).GetCode)] ∧
        ∃ m1, r.machine =
            env.callee (unsignedOf (addrMod cfg) (runtimeStub cfg CEntryStub f).GetCode) m1 ∧
          m1.regP cfg r2 = unsignedOf (ptrMod cfg) n ∧
          m1.regP cfg r3 = unsignedOf (ptrMod cfg) f.entry ∧
          m1.regP cfg sp = m.regP cfg sp ∧ m1.mem = m.mem) ∧
      (¬ (f.nargs < 0 ∨ f.nargs = n) →
        r.trace = [] ∧
        r.machine.addr cfg sp = (if n > 0 then slot cfg (m.addr cfg sp) n else m.addr cfg sp) ∧
        r.machine.regP cfg r0 = loadPtr cfg m.mem (rootSlot cfg m heap.kUndefinedValueRootIndex) ∧
        r.machine.regP cfg r2 = m.regP cfg r2 ∧
        r.machine.mem = m.mem) := by
  have hc := CallRuntime_code cfg heap CEntryStub f n frame c hfit hcode
  by_cases hmis : f.nargs ≥ 0 ∧ f.nargs ≠ n
  · rw [if_pos hmis] at hc
    subst hc
    have hno : ¬ (f.nargs < 0 ∨ f.nargs = n) := by omega
    refine ⟨_, exec_of_straight cfg env _ (isStraight_illegalCode cfg heap n) m, rfl,
      fun h => absurd h hno, fun _ => ⟨rfl, ?_⟩⟩
    show (runStraight cfg (illegalCode cfg heap n) m).addr cfg sp = _ ∧
      (runStraight cfg (illegalCode cfg heap n) m).regP cfg r0 = _ ∧
      (runStraight cfg (illegalCode cfg heap n) m).regP cfg r2 = _ ∧
      (runStraight cfg (illegalCode cfg heap n) m).mem = _
    rw [runStraight_illegalCode]
    have hl : loadPtr cfg m.mem (rootSlot cfg m heap.kUndefinedValueRootIndex) % ptrMod cfg =
        loadPtr cfg m.mem (rootSlot cfg m heap.kUndefinedValueRootIndex) :=
      loadPtr_mod_ptr cfg _ _
    split
    · refine ⟨?_, ?_, ?_, ?_⟩
      · rw [addr_setRegP_ne cfg _ r0 sp _ (by decide), addr_setRegP_self,
          Nat.mod_eq_of_lt (slot_lt cfg _ _)]
      · rw [regP_setRegP_self, hl]
      · rw [regP_setRegP_ne cfg _ r0 r2 _ (by decide), regP_setRegP_ne cfg _ sp r2 _ (by decide)]
      · rw [setRegP_mem, setRegP_mem]
    · refine ⟨?_, ?_, ?_, ?_⟩
      · rw [addr_setRegP_ne cfg _ r0 sp _ (by decide)]
      · rw [regP_setRegP_self, hl]
      · rw [regP_setRegP_ne cfg _ r0 r2 _ (by decide)]
      · rw [setRegP_mem]
  · rw [if_neg hmis] at hc
    have hyes : f.nargs < 0 ∨ f.nargs = n := by omega
    have hrun : ∃ lnk, exec cfg env c (c.length + 1) m =
        some ⟨.fallthrough,
          env.callee (unsignedOf (addrMod cfg) (runtimeStub cfg CEntryStub f).GetCode)
            ((runStraight cfg (runtimeArgs cfg f n (runtimeStub cfg CEntryStub f)) m).setRegP cfg r14
              lnk),
          [.call (unsignedOf (addrMod cfg) (runtimeStub cfg CEntryStub f).GetCode)]⟩ := by
      refine ⟨env.link (c.length - ([] : List Instr).length), ?_⟩
      rw [exec_eq_run cfg env c _ _ m hc.symm,
        show c.length + 1 = ((0 + 1) + 1) +
          (runtimeArgs cfg f n (runtimeStub cfg CEntryStub f)).length by
            rw [hc, List.length_append, List.length_singleton]; omega,
        run_straight cfg env c _ _ (isStraight_runtimeArgs cfg f n _), run_basr,
        if_neg ip_ne_r0]
      have ht : (runStraight cfg (runtimeArgs cfg f n (runtimeStub cfg CEntryStub f)) m).regs ip %
          addrMod cfg = unsignedOf (addrMod cfg) (runtimeStub cfg CEntryStub f).GetCode := by
        rw [runStraight_runtimeArgs]
        exact (addr_setRegP_self cfg _ ip _).trans (unsignedOf_ptr_mod_addr cfg _)
      rw [ht]
      rfl
    obtain ⟨lnk, hrun⟩ := hrun
    refine ⟨_, hrun, rfl, fun _ => ⟨rfl, _, rfl, ?_⟩, fun h => absurd hyes h⟩
    rw [runStraight_runtimeArgs]
    refine ⟨?_, ?_, ?_, ?_⟩
    · rw [regP_setRegP_ne cfg _ r14 r2 _ (by decide), regP_setRegP_ne cfg _ ip r2 _ (by decide),
        regP_setRegP_ne cfg _ r3 r2 _ (by decide), regP_setRegP_self, unsignedOf_mod_self]
    · rw [regP_setRegP_ne cfg _ r14 r3 _ (by decide), regP_setRegP_ne cfg _ ip r3 _ (by decide),
        regP_setRegP_self, unsignedOf_mod_self]
    · rw [regP_setRegP_ne cfg _ r14 sp _ (by decide), regP_setRegP_ne cfg _ ip sp _ (by decide),
        regP_setRegP_ne cfg _ r3 sp _ (by decide), regP_setRegP_ne cfg _ r2 sp _ (by decide)]
    · rw [setRegP_mem, setRegP_mem, setRegP_mem, setRegP_mem]

/-- C36: a concrete run of the code of `CallRuntime` for a function that takes
two arguments, called with three, on the 64-bit target with the undefined value
(77 here) in root slot 1: three slots are dropped and no call is made, but the
undefined value arrives in `r0`, while the return-value register `r2` still
holds what it held before (5). -/
theorem CallRuntime_mismatch_leaves_r2 :
    (codeOf (CallRuntime cfg64 ⟨1, 0⟩ (fun _ => ⟨4096, false, true⟩) ⟨2, 1, 8192⟩ 3) true).bind
        (fun c => (exec cfg64 ⟨fun _ m => m, fun _ => 0⟩ c 3 rootsMachine).map
          (fun r => (r.trace, r.machine.regs r0, r.machine.regs r2, r.machine.regs sp))) =
      some ([], 77, 5, 65560) := by
  decide

/-- C36 on concrete input: a function declared with two arguments, called with
three on the 64-bit target from the machine `rootsMachine`. -/
theorem CallRuntime_spec_witness :
    ∃ c, codeOf (CallRuntime cfg64 ⟨1, 0⟩ (fun _ => ⟨4096, false, true⟩) ⟨2, 1, 8192⟩ 3) true = some c ∧
      ∃ r, exec cfg64 ⟨fun _ m => m, fun _ => 0⟩ c (c.length + 1) rootsMachine = some r ∧
        r.outcome = .fallthrough :=
  ⟨_, rfl, (CallRuntime_spec cfg64 ⟨1, 0⟩ (fun _ => ⟨4096, false, true⟩) ⟨fun _ m => m, fun _ => 0⟩
    rootsMachine ⟨2, 1, 8192⟩ 3 true _ (by decide) rfl).imp (fun _ h => ⟨h.1, h.2.1⟩)⟩

theorem codeOf_of_run_ok (e : Emit Unit) (L : List Instr) (frame : Bool) (code : List Instr)
    (h : ∀ st, e.run st =
      ((), { st with code := st.code ++ L, failed := st.failed || !(L.all Instr.encodable) }))
    (hcode : codeOf e frame = some code) : code = L ∧ L.all Instr.encodable = true := by
  unfold codeOf at hcode
  rw [h] at hcode
  simp only [List.nil_append, Bool.false_or] at hcode
  have h2 := code_of_ite hcode
  refine ⟨h2.1, ?_⟩
  have := h2.2
  simpa using this

theorem AndP_Operand_run (cfg : Config) (dst : Register) (v : Int) (rmode : RelocMode)
    (st : Asm) :
    (AndP_Operand cfg dst ⟨v, rmode⟩).run st =
      ((), { st with code := st.code ++ andImmCode cfg dst v,
                     failed := st.failed || !((andImmCode cfg dst v).all Instr.encodable) }) := by
  unfold AndP_Operand andImmCode
  cases h64 : cfg.is64
  · simp [And_Operand]
  · by_cases hh : v / 4294967296 = -1 <;> simp [hh, Bool.or_assoc, Bool.not_and]

theorem AndP_Register_Operand_run (cfg : Config) (dst src : Register) (v : Int)
    (rmode : RelocMode) (st : Asm) :
    (AndP_Register_Operand cfg dst src ⟨v, rmode⟩).run st =
      ((), { st with code := st.code ++ andPCode cfg dst src v,
                     failed := st.failed || !((andPCode cfg dst src v).all Instr.encodable) }) := by
  have hf : (do
      if (dst ≠ src && 0 ≠ v) = true then LoadRR cfg dst src
      AndP_Operand cfg dst ⟨v, rmode⟩ : Emit Unit).run st =
      ((), { st with code := st.code ++ andFallbackCode cfg dst src v,
                     failed := st.failed ||
                       !((andFallbackCode cfg dst src v).all Instr.encodable) }) := by
    unfold andFallbackCode
    by_cases h1 : dst ≠ src ∧ 0 ≠ v
    · have h1b : (dst ≠ src && 0 ≠ v) = true := by simpa using h1
      simp [h1, h1b, AndP_Operand_run, LoadRR, lrP, Bool.or_assoc, Bool.not_and]
    · have h1b : ¬ ((dst ≠ src && 0 ≠ v) = true) := by simpa using h1
      simp [h1, h1b, AndP_Operand_run]
  unfold AndP_Register_Operand andPCode
  cases hg : cfg.general_instr_ext
  · simpa using hf
  · by_cases hA : 0 ≠ (shiftOutTrailingZeros 64 0 v).2 ∧
        IsPowerOf2 (ptrMod cfg) ((shiftOutTrailingZeros 64 0 v).2 + 1) = true
    · have hAb : (0 ≠ (shiftOutTrailingZeros 64 0 v).2 &&
          IsPowerOf2 (ptrMod cfg) ((shiftOutTrailingZeros 64 0 v).2 + 1)) = true := by
        simpa using hA
      simp [hA, hAb]
    · have hAb : ¬ ((0 ≠ (shiftOutTrailingZeros 64 0 v).2 &&
          IsPowerOf2 (ptrMod cfg) ((shiftOutTrailingZeros 64 0 v).2 + 1)) = true) := by
        simpa using hA
      by_cases hB : -1 = (shiftOutTrailingZeros 64 0 v).2
      · simp [hA, hAb, hB]
      · simpa [hA, hAb, hB] using hf
theorem andImmCode_regP (cfg : Config) (dst : Register) (v : Int) (m : Machine)
    (hv : -((ptrMod cfg / 2 : Nat) : Int) ≤ v ∧ v < ((ptrMod cfg / 2 : Nat) : Int)) :
    (runStraight cfg (andImmCode cfg dst v) m).regP cfg dst =
      Nat.land (m.regP cfg dst) (unsignedOf (ptrMod cfg) v) := by
  unfold andImmCode Machine.regP
  cases h64 : cfg.is64
  · simp only [ptrMod, h64, Bool.false_eq_true, if_false]
    show (and32 m dst (m.regs dst) (unsignedOf M32 v)).regs dst % M32 = _
    simp only [and32, setCC_regs, setReg_regs, if_true, setLo32_mod]
    rw [unsignedOf_mod_self]
    exact Nat.mod_eq_of_lt (land_lt_M32 _ _ (unsignedOf_lt _ _ (by decide)))
  · simp only [ptrMod, h64, if_true] at hv ⊢
    have hV : unsignedOf M64 v < M64 := unsignedOf_lt _ _ (by decide)
    have hA : (v / 4294967296 = -1 ↔ unsignedOf M64 v / M32 = M32 - 1) := by
      simp only [unsignedOf, M32, M64] at hv ⊢; omega
    have hlt : Nat.land (m.regs dst % M64) (unsignedOf M64 v) < M64 := by
      have hV2 : unsignedOf M64 v < 2 ^ 64 := hV
      show m.regs dst % M64 &&& unsignedOf M64 v < 2 ^ 64
      exact Nat.and_lt_two_pow _ hV2
    by_cases hh : v / 4294967296 = -1
    · rw [if_neg (not_not.mpr hh)]
      show (and32 m dst (m.regs dst) (unsignedOf M32 (v % 4294967296))).regs dst % M64 = _
      simp only [and32, setCC_regs, setReg_regs, if_true, unsignedOf_lo]
      rw [and_halves_low _ _ hV (hA.mp hh)]
      exact Nat.mod_eq_of_lt hlt
    · rw [if_pos hh]
      have e1 : Instr.effect cfg m (Instr.nihf dst (v / 4294967296)) =
          (m.setReg dst (setHi32 (m.regs dst) (Nat.land (hi32 (m.regs dst))
            (unsignedOf M32 (v / 4294967296))))).setCC
            (logicCC (Nat.land (hi32 (m.regs dst)) (unsignedOf M32 (v / 4294967296)))) := rfl
      simp only [List.singleton_append, runStraight_cons, runStraight_nil, e1]
      show (and32 _ dst _ (unsignedOf M32 (v % 4294967296))).regs dst % M64 = _
      simp only [and32, setCC_regs, setReg_regs, if_true, unsignedOf_lo, unsignedOf_hi]
      rw [and_halves _ _ hV]
      exact Nat.mod_eq_of_lt hlt

theorem isStraight_andImmCode (cfg : Config) (dst : Register) (v : Int) :
    ∀ i ∈ andImmCode cfg dst v, i.isStraight = true := by
  intro i hi
  unfold andImmCode at hi
  split at hi
  · split at hi
    · simp only [List.singleton_append, List.mem_cons, List.mem_singleton, List.not_mem_nil,
        or_false] at hi
      rcases hi with rfl | rfl <;> rfl
    · simp only [List.nil_append, List.mem_singleton] at hi
      subst hi; rfl
  · simp only [List.mem_singleton] at hi
    subst hi; rfl

theorem isStraight_andFallbackCode (cfg : Config) (dst src : Register) (v : Int) :
    ∀ i ∈ andFallbackCode cfg dst src v, i.isStraight = true := by
  intro i hi
  unfold andFallbackCode at hi
  rw [List.mem_append] at hi
  rcases hi with h | h
  · split at h
    · simp only [List.mem_singleton] at h
      subst h; exact isStraight_lrP cfg _ _
    · simp at h
  · exact isStraight_andImmCode cfg dst v i h

theorem isStraight_andPCode (cfg : Config) (dst src : Register) (v : Int) :
    ∀ i ∈ andPCode cfg dst src v, i.isStraight = true := by
  intro i hi
  unfold andPCode at hi
  split at hi
  · split at hi
    · simp only [List.mem_singleton] at hi
      subst hi; rfl
    · split at hi
      · simp only [List.mem_singleton] at hi
        subst hi; rfl
      · exact isStraight_andFallbackCode cfg dst src v i hi
  · exact isStraight_andFallbackCode cfg dst src v i hi

/-- The copy-then-AND path leaves `src & v` in `dst`. -/
theorem andFallbackCode_regP (cfg : Config) (dst src : Register) (v : Int) (m : Machine)
    (hv : -((ptrMod cfg / 2 : Nat) : Int) ≤ v ∧ v < ((ptrMod cfg / 2 : Nat) : Int)) :
    (runStraight cfg (andFallbackCode cfg dst src v) m).regP cfg dst =
      Nat.land (m.regP cfg src) (unsignedOf (ptrMod cfg) v) := by
  unfold andFallbackCode
  by_cases h1 : dst ≠ src ∧ 0 ≠ v
  · rw [if_pos h1, List.singleton_append, runStraight_cons, andImmCode_regP cfg dst v _ hv,
      effect_lrP, regP_setRegP_self, regP_mod_ptr]
  · rw [if_neg h1, List.nil_append, andImmCode_regP cfg dst v _ hv]
    by_cases h2 : dst = src
    · rw [h2]
    · have h3 : v = 0 := by
        by_contra h3
        exact h1 ⟨h2, fun h => h3 h.symm⟩
      subst h3
      have : unsignedOf (ptrMod cfg) 0 = 0 := by simp [unsignedOf]
      rw [this]
      show m.regP cfg dst &&& 0 = m.regP cfg src &&& 0
      rw [Nat.and_zero, Nat.and_zero]
/-- The loop that shifts out the trailing zeros of a non-zero value ends with
an odd value `s` and a count `j` such that `v = s * 2 ^ j`. -/
theorem shiftOut_spec (fuel : Nat) (tz0 v : Int) (hv0 : v ≠ 0) (hb : v.natAbs < 2 ^ fuel) :
    ∃ j : Nat, (shiftOutTrailingZeros fuel tz0 v).1 = tz0 + (j : Int) ∧
      v = (shiftOutTrailingZeros fuel tz0 v).2 * 2 ^ j ∧
      (shiftOutTrailingZeros fuel tz0 v).2 % 2 = 1 := by
  induction fuel generalizing tz0 v with
  | zero =>
    exfalso
    have : v.natAbs = 0 := by simpa using hb
    exact hv0 (Int.natAbs_eq_zero.mp this)
  | succ n ih =>
    unfold shiftOutTrailingZeros
    by_cases hc : 0 ≠ v ∧ v % 2 = 0
    · rw [if_pos hc]
      have h2 : v / 2 ≠ 0 := by omega
      have h3 : (v / 2).natAbs < 2 ^ n := by
        have : v.natAbs < 2 * 2 ^ n := by rw [← pow_succ']; exact hb
        omega
      obtain ⟨j, e1, e2, e3⟩ := ih (tz0 + 1) (v / 2) h2 h3
      refine ⟨j + 1, ?_, ?_, e3⟩
      · rw [e1]; push_cast; ring
      · rw [pow_succ, ← mul_assoc, ← e2]; omega
    · rw [if_neg hc]
      refine ⟨0, by simp, by simp, ?_⟩
      show v % 2 = 1
      have : ¬ v % 2 = 0 := fun h => hc ⟨fun h0 => hv0 h0.symm, h⟩
      omega

theorem shiftOut_zero : shiftOutTrailingZeros 64 0 0 = (0, 0) := rfl

theorem two_pow_between (k n : Nat) (h1 : 2 ^ n < 2 ^ k) (h2 : 2 ^ k < 2 ^ (n + 1)) : False := by
  have a := (Nat.pow_lt_pow_iff_right (show 1 < 2 by decide)).1 h1
  have b := (Nat.pow_lt_pow_iff_right (show 1 < 2 by decide)).1 h2
  omega

theorem isPowerOf2_aux (d : Nat) (n : Nat) (hd : d = 2 ^ n) (s : Int) (hodd : s % 2 = 1)
    (hs : -(d : Int) ≤ s ∧ s < (d : Int))
    (hp2 : Nat.land (unsignedOf (2 * d) (s + 1)) (unsignedOf (2 * d) (s + 1 - 1)) = 0) :
    s = -1 ∨ ∃ k : Nat, 1 ≤ k ∧ s = 2 ^ k - 1 := by
  by_cases hm : s = -1
  · exact Or.inl hm
  right
  have hpos : 0 < d := by rw [hd]; exact Nat.two_pow_pos n
  by_cases hge : 0 ≤ s
  · have e1 : unsignedOf (2 * d) (s + 1) = (s + 1).toNat := by
      unfold unsignedOf; push_cast; rw [Int.emod_eq_of_lt (by omega) (by omega)]
    have e2 : unsignedOf (2 * d) (s + 1 - 1) = (s + 1).toNat - 1 := by
      unfold unsignedOf; push_cast; rw [Int.emod_eq_of_lt (by omega) (by omega)]
      omega
    rw [e1, e2] at hp2
    obtain ⟨k, hk⟩ := (land_pred_eq_zero_iff _ (by omega)).1 hp2
    refine ⟨k, ?_, ?_⟩
    · rcases k with _ | k
      · simp at hk; omega
      · omega
    · have : ((s + 1).toNat : Int) = ((2 ^ k : Nat) : Int) := by rw [hk]
      push_cast at this
      omega
  · exfalso
    have e0 : ∀ x : Int, -(2 * (d : Int)) ≤ x → x < 0 →
        unsignedOf (2 * d) x = (x + 2 * (d : Int)).toNat := by
      intro x h1 h2
      unfold unsignedOf; push_cast
      congr 1
      have : x % (2 * (d : Int)) = (x + 2 * (d : Int)) % (2 * (d : Int)) := by
        rw [Int.add_emod_self]
      rw [this, Int.emod_eq_of_lt (by omega) (by omega)]
    have e1 := e0 (s + 1) (by omega) (by omega)
    have e2 := e0 (s + 1 - 1) (by omega) (by omega)
    have e3 : (s + 1 - 1 + 2 * (d : Int)).toNat = (s + 1 + 2 * (d : Int)).toNat - 1 := by omega
    rw [e1, e2, e3] at hp2
    obtain ⟨k, hk⟩ := (land_pred_eq_zero_iff _ (by omega)).1 hp2
    have a1 : 2 ^ n < 2 ^ k := by rw [← hd, ← hk]; omega
    have a2 : 2 ^ k < 2 ^ (n + 1) := by rw [pow_succ, ← hd, ← hk]; omega
    exact two_pow_between k n a1 a2

/-- An odd value `s` of pointer width with `IsPowerOf2(s + 1)` is `-1` or one
less than a power of two. -/
theorem isPowerOf2_succ_odd (cfg : Config) (s : Int) (hodd : s % 2 = 1)
    (hs : -((ptrMod cfg / 2 : Nat) : Int) ≤ s ∧ s < ((ptrMod cfg / 2 : Nat) : Int))
    (hp : IsPowerOf2 (ptrMod cfg) (s + 1) = true) :
    s = -1 ∨ ∃ k : Nat, 1 ≤ k ∧ s = 2 ^ k - 1 := by
  unfold IsPowerOf2 at hp
  have hp2 : Nat.land (unsignedOf (ptrMod cfg) (s + 1)) (unsignedOf (ptrMod cfg) (s + 1 - 1)) = 0 := by
    simpa using hp
  cases h64 : cfg.is64
  · have e : ptrMod cfg = 2 * 2147483648 := by simp [ptrMod, h64, M32]
    rw [e] at hs hp2
    exact isPowerOf2_aux 2147483648 31 (by norm_num) s hodd (by simpa using hs) hp2
  · have e : ptrMod cfg = 2 * 9223372036854775808 := by simp [ptrMod, h64, M64]
    rw [e] at hs hp2
    exact isPowerOf2_aux 9223372036854775808 63 (by norm_num) s hodd (by simpa using hs) hp2
theorem land_mod_two_pow (a b n : Nat) :
    Nat.land a b % 2 ^ n = Nat.land (a % 2 ^ n) (b % 2 ^ n) := by
  show (a &&& b) % 2 ^ n = (a % 2 ^ n) &&& (b % 2 ^ n)
  apply Nat.eq_of_testBit_eq
  intro i
  simp only [Nat.testBit_mod_two_pow, Nat.testBit_and]
  by_cases h : i < n <;> simp [h]

theorem log2_ones (k : Nat) (hk : 1 ≤ k) : Nat.log2 (2 ^ k - 1) = k - 1 := by
  have h1 : 2 ≤ 2 ^ k := by
    calc 2 = 2 ^ 1 := rfl
      _ ≤ 2 ^ k := Nat.pow_le_pow_right (by decide) hk
  have hne : 2 ^ k - 1 ≠ 0 := by omega
  have a : Nat.log2 (2 ^ k - 1) < k := (Nat.log2_lt hne).2 (by omega)
  have b : k - 1 ≤ Nat.log2 (2 ^ k - 1) := by
    rw [Nat.le_log2 hne]
    have : 2 ^ k = 2 * 2 ^ (k - 1) := by
      rw [← pow_succ']; congr 1; omega
    have : 0 < 2 ^ (k - 1) := Nat.two_pow_pos _
    omega
  omega

theorem clz_ones (k : Nat) (hk : 1 ≤ k) (hk2 : k ≤ 32) :
    CountLeadingZeros (2 ^ k - 1) = 32 - (k : Int) := by
  have h1 : 2 ≤ 2 ^ k := by
    calc 2 = 2 ^ 1 := rfl
      _ ≤ 2 ^ k := Nat.pow_le_pow_right (by decide) hk
  have h2 : 2 ^ k ≤ 2 ^ 32 := Nat.pow_le_pow_right (by decide) hk2
  have e : (2 ^ k - 1) % M32 = 2 ^ k - 1 := Nat.mod_eq_of_lt (by simp only [M32]; omega)
  unfold CountLeadingZeros
  rw [e, if_neg (by omega), log2_ones k hk]
  omega

theorem risbgMask_run (k j : Nat) (hk : 1 ≤ k) (hkj : k + j ≤ 64) :
    risbgMask (unsignedOf 64 (32 + (32 - (k : Int)) - (j : Int))) (unsignedOf 64 (63 - (j : Int))) =
      2 ^ (k + j) - 2 ^ j := by
  have e1 : unsignedOf 64 (32 + (32 - (k : Int)) - (j : Int)) = 64 - k - j := by
    unfold unsignedOf; omega
  have e2 : unsignedOf 64 (63 - (j : Int)) = 63 - j := by
    unfold unsignedOf; omega
  rw [e1, e2]
  unfold risbgMask
  rw [if_pos (by omega), show 64 - (64 - k - j) = k + j by omega, show 63 - (63 - j) = j by omega]
/-- The mask that the rotate-and-insert path of `AndP` selects is the
immediate, unless the immediate is a run of more than 32 ones on the 64-bit
target. -/
theorem andP_risbg_mask (cfg : Config) (v : Int)
    (hv : -((ptrMod cfg / 2 : Nat) : Int) ≤ v ∧ v < ((ptrMod cfg / 2 : Nat) : Int))
    (hrun : cfg.is64 = true → ∀ k tz : Nat, 32 < k → unsignedOf M64 v ≠ (2 ^ k - 1) * 2 ^ tz)
    (h0 : 0 ≠ (shiftOutTrailingZeros 64 0 v).2)
    (hp : IsPowerOf2 (ptrMod cfg) ((shiftOutTrailingZeros 64 0 v).2 + 1) = true)
    (henc : is_uint8 (32 + CountLeadingZeros (unsignedOf M32 (shiftOutTrailingZeros 64 0 v).2) -
        (shiftOutTrailingZeros 64 0 v).1) = true) :
    risbgMask
        (unsignedOf 64 (32 + CountLeadingZeros (unsignedOf M32 (shiftOutTrailingZeros 64 0 v).2) -
          (shiftOutTrailingZeros 64 0 v).1))
        (unsignedOf 64 (63 - (shiftOutTrailingZeros 64 0 v).1)) % ptrMod cfg =
      unsignedOf (ptrMod cfg) v := by
  have hv0 : v ≠ 0 := by
    intro h; rw [h, shiftOut_zero] at h0; exact h0 rfl
  have hP : ptrMod cfg ≤ 2 ^ 64 := by unfold ptrMod M64 M32; split <;> decide
  have hb : v.natAbs < 2 ^ 64 := by omega
  obtain ⟨j, e1, e2, e3⟩ := shiftOut_spec 64 0 v hv0 hb
  generalize (shiftOutTrailingZeros 64 0 v).2 = s at *
  generalize (shiftOutTrailingZeros 64 0 v).1 = tz at *
  rw [zero_add] at e1
  subst e1
  have hj1 : (1 : Int) ≤ 2 ^ j := one_le_pow₀ (by decide)
  have hs : -((ptrMod cfg / 2 : Nat) : Int) ≤ s ∧ s < ((ptrMod cfg / 2 : Nat) : Int) := by
    constructor
    · by_cases hs0 : 0 ≤ s
      · omega
      · have := mul_nonneg (show (0 : Int) ≤ -s by omega) (sub_nonneg.mpr hj1)
        nlinarith
    · by_cases hs0 : 0 ≤ s
      · have := mul_nonneg hs0 (sub_nonneg.mpr hj1)
        nlinarith
      · omega
  rcases isPowerOf2_succ_odd cfg s e3 hs hp with hm | ⟨k, hk, hsk⟩
  · subst hm
    have hc : CountLeadingZeros (unsignedOf M32 (-1)) = 0 := by
      have e : unsignedOf M32 (-1) = 2 ^ 32 - 1 := by decide
      rw [e, clz_ones 32 (by decide) (by decide)]; rfl
    rw [hc] at henc ⊢
    have hj32 : j ≤ 32 := by
      have := henc
      simp only [is_uint8, decide_eq_true_eq] at this
      omega
    have hmask := risbgMask_run 32 j (by decide) (by omega)
    have e32 : ((32 : Int) + (32 - ((32 : Nat) : Int)) - (j : Int)) = 32 + 0 - (j : Int) := by
      norm_num
    rw [e32] at hmask
    rw [hmask, pow_add]
    obtain ⟨a, ha⟩ : ∃ a : Nat, a = 2 ^ j := ⟨_, rfl⟩
    have ha1 : 1 ≤ a := by rw [ha]; exact Nat.one_le_two_pow
    have hva : v = -(a : Int) := by rw [e2, ha]; push_cast; ring
    rw [← ha, hva]
    cases h64 : cfg.is64
    · simp only [ptrMod, h64, Bool.false_eq_true, if_false, M32, unsignedOf] at hv ⊢
      omega
    · have hj : j = 32 := by
        by_contra hne
        refine hrun h64 (64 - j) j (by omega) ?_
        have e64 : 2 ^ (64 - j) * 2 ^ j = 2 ^ 64 := by
          rw [← pow_add]; congr 1; omega
        rw [Nat.sub_mul, e64, one_mul, ← ha, hva]
        have ha2 : a ≤ 2 ^ 32 := by rw [ha]; exact Nat.pow_le_pow_right (by decide) hj32
        simp only [unsignedOf, M64]
        omega
      subst hj
      subst ha
      simp only [ptrMod, h64, if_true, M64, unsignedOf]
      decide
  · subst hsk
    have h2k : 1 ≤ 2 ^ k := Nat.one_le_two_pow
    have hsN : ((2 : Int) ^ k - 1) = ((2 ^ k - 1 : Nat) : Int) := by
      rw [Nat.cast_sub h2k]; push_cast; rfl
    have hvN : v = (((2 ^ k - 1) * 2 ^ j : Nat) : Int) := by
      rw [e2, hsN]; push_cast; rfl
    have hk32 : k ≤ 32 := by
      cases h64 : cfg.is64
      · have h3 := hs.2
        simp only [ptrMod, h64, Bool.false_eq_true, if_false, M32] at h3
        have h4 : (2 : Int) ^ k < 2 ^ 32 := by norm_num at h3 ⊢; omega
        have h5 : 2 ^ k < 2 ^ 32 := by exact_mod_cast h4
        have := (Nat.pow_lt_pow_iff_right (show 1 < 2 by decide)).1 h5
        omega
      · by_contra hgt
        refine hrun h64 k j (by omega) ?_
        rw [hvN]
        have h3 := hv.2
        simp only [ptrMod, h64, if_true, M64] at h3
        rw [hvN] at h3
        unfold unsignedOf
        rw [← Int.natCast_mod, Int.toNat_natCast]
        apply Nat.mod_eq_of_lt
        have : (((2 ^ k - 1) * 2 ^ j : Nat) : Int) < 18446744073709551616 := by
          norm_num at h3 ⊢; omega
        simp only [M64]
        exact_mod_cast this
    have hu : unsignedOf M32 ((2 : Int) ^ k - 1) = 2 ^ k - 1 := by
      rw [hsN]
      unfold unsignedOf
      rw [← Int.natCast_mod, Int.toNat_natCast]
      apply Nat.mod_eq_of_lt
      have : 2 ^ k ≤ 2 ^ 32 := Nat.pow_le_pow_right (by decide) hk32
      simp only [M32]; omega
    rw [hu, clz_ones k hk hk32] at henc ⊢
    have hkj : k + j ≤ 64 := by
      have := henc
      simp only [is_uint8, decide_eq_true_eq] at this
      omega
    rw [risbgMask_run k j hk hkj, pow_add, hvN]
    unfold unsignedOf
    rw [← Int.natCast_mod, Int.toNat_natCast, Nat.sub_mul, one_mul]
theorem risbg_regP (cfg : Config) (dst src : Register) (i3 i4 : Int) (m : Machine) :
    (runStraight cfg [Instr.risbg dst src i3 i4 0 true] m).regP cfg dst =
      Nat.land (m.regP cfg src) (risbgMask (unsignedOf 64 i3) (unsignedOf 64 i4) % ptrMod cfg) := by
  have e : runStraight cfg [Instr.risbg dst src i3 i4 0 true] m =
      (m.setReg dst (Nat.land (rotl64 (m.regs src) (unsignedOf 64 0))
        (risbgMask (unsignedOf 64 i3) (unsignedOf 64 i4)))).setCC
        (signCC M64 (Nat.land (rotl64 (m.regs src) (unsignedOf 64 0))
          (risbgMask (unsignedOf 64 i3) (unsignedOf 64 i4)))) := rfl
  rw [e]
  unfold Machine.regP
  rw [setCC_regs, setReg_regs, if_pos rfl, rotl64_zero]
  unfold ptrMod
  cases cfg.is64
  · simp only [Bool.false_eq_true, if_false]
    show _ % 2 ^ 32 = _
    rw [land_mod_two_pow]
    congr 1
    simp only [M64, M32]; omega
  · simp only [if_true]
    show _ % 2 ^ 64 = _
    rw [land_mod_two_pow]
    congr 1
    simp only [M64]; omega

theorem isPowerOf2_zero (cfg : Config) : IsPowerOf2 (ptrMod cfg) (-1 + 1) = true := by
  unfold ptrMod; cases cfg.is64 <;> rfl

/-- C33: the code of `AndP(dst, src, Operand(v))`, for a pointer-width `v`, any
registers `dst` and `src` (equal or not), and any machine state, falls through
and leaves `src & v` in `dst` over the pointer width, on the copy-then-AND
path and on the rotate-and-insert path alike, provided that, when the
rotate-and-insert path is available on the 64-bit target, `v` is not a run of
more than 32 contiguous ones. -/
theorem AndP_Register_Operand_spec (cfg : Config) (env : Env) (dst src : Register) (v : Int)
    (rmode : RelocMode) (m : Machine) (frame : Bool) (c : List Instr)
    (hv : -((ptrMod cfg / 2 : Nat) : Int) ≤ v ∧ v < ((ptrMod cfg / 2 : Nat) : Int))
    (hrun : cfg.general_instr_ext = true → cfg.is64 = true →
      ∀ k tz : Nat, 32 < k → unsignedOf M64 v ≠ (2 ^ k - 1) * 2 ^ tz)
    (hcode : codeOf (AndP_Register_Operand cfg dst src ⟨v, rmode⟩) frame = some c) :
    ∃ f, exec cfg env c (c.length + 1) m = some f ∧ f.outcome = .fallthrough ∧ f.trace = [] ∧
      f.machine.regP cfg dst = Nat.land (m.regP cfg src) (unsignedOf (ptrMod cfg) v) := by
  obtain ⟨hc, henc⟩ :=
    codeOf_of_run_ok _ _ frame c (AndP_Register_Operand_run cfg dst src v rmode) hcode
  subst hc
  refine ⟨_, exec_of_straight cfg env _ (isStraight_andPCode cfg dst src v) m, rfl, rfl, ?_⟩
  show (runStraight cfg (andPCode cfg dst src v) m).regP cfg dst = _
  unfold andPCode at henc ⊢
  cases hg : cfg.general_instr_ext
  · simp only [Bool.false_eq_true, if_false]
    exact andFallbackCode_regP cfg dst src v m hv
  · simp only [hg, if_true] at henc ⊢
    by_cases hA : 0 ≠ (shiftOutTrailingZeros 64 0 v).2 ∧
        IsPowerOf2 (ptrMod cfg) ((shiftOutTrailingZeros 64 0 v).2 + 1) = true
    · rw [if_pos hA] at henc ⊢
      have h3 : is_uint8 (32 + CountLeadingZeros (unsignedOf M32 (shiftOutTrailingZeros 64 0 v).2) -
          (shiftOutTrailingZeros 64 0 v).1) = true := by
        simp only [List.all_cons, List.all_nil, Bool.and_true, Instr.encodable,
          Bool.and_eq_true] at henc
        exact henc.1.1.2
      rw [risbg_regP, andP_risbg_mask cfg v hv (hrun hg) hA.1 hA.2 h3]
    · rw [if_neg hA] at henc ⊢
      by_cases hB : -1 = (shiftOutTrailingZeros 64 0 v).2
      · exfalso
        apply hA
        rw [← hB]
        exact ⟨by decide, isPowerOf2_zero cfg⟩
      · rw [if_neg hB]
        exact andFallbackCode_regP cfg dst src v m hv

theorem codeOf_eq_of_run (e : Emit Unit) (L : List Instr) (frame : Bool)
    (h : ∀ st, e.run st =
      ((), { st with code := st.code ++ L, failed := st.failed || !(L.all Instr.encodable) }))
    (hL : L.all Instr.encodable = true) : codeOf e frame = some L := by
  unfold codeOf
  rw [h]
  simp [hL]

theorem andPCode_wide (v : Int) (hv : v = 8589934591 ∨ v = -1) :
    andPCode ⟨true, false, true, false, true, false, true⟩ r2 r3 v =
      [Instr.risbg r2 r3 32 63 0 true] := by
  have hc : CountLeadingZeros 4294967295 = 0 := clz_ones 32 (by decide) (by decide)
  rcases hv with rfl | rfl
  · have e1 : shiftOutTrailingZeros 64 0 8589934591 = (0, 8589934591) := by decide
    have e2 : unsignedOf M32 8589934591 = 4294967295 := by decide
    have e3 : IsPowerOf2 (ptrMod ⟨true, false, true, false, true, false, true⟩)
        (8589934591 + 1) = true := by decide
    unfold andPCode
    simp only [e1, e2, e3, hc, if_true]
    rw [if_pos ⟨by decide, trivial⟩]
    rfl
  · have e1 : shiftOutTrailingZeros 64 0 (-1) = (0, -1) := by decide
    have e2 : unsignedOf M32 (-1) = 4294967295 := by decide
    have e3 : IsPowerOf2 (ptrMod ⟨true, false, true, false, true, false, true⟩)
        (-1 + 1) = true := by decide
    unfold andPCode
    simp only [e1, e2, e3, hc, if_true]
    rw [if_pos ⟨by decide, trivial⟩]
    rfl

/-- C33: concrete runs on the 64-bit target with `r3 = 2 ^ 64 - 1`.  With the
general-instructions extension, the code of `AndP(r2, r3, 2 ^ 33 - 1)` and of
`AndP(r2, r3, -1)` is one rotate-and-insert of bits 32..63, which leaves
`2 ^ 32 - 1` in `r2`; without the extension the same calls leave `2 ^ 33 - 1`
and `2 ^ 64 - 1`, the conjunctions. -/
theorem AndP_wide_mask_paths_differ :
    codeOf (AndP_Register_Operand ⟨true, false, true, false, true, false, true⟩ r2 r3
        (Operand.ofInt 8589934591)) false = some [Instr.risbg r2 r3 32 63 0 true] ∧
    codeOf (AndP_Register_Operand ⟨true, false, true, false, true, false, true⟩ r2 r3
        (Operand.ofInt (-1))) false = some [Instr.risbg r2 r3 32 63 0 true] ∧
    (exec cfg64 ⟨fun _ m => m, fun _ => 0⟩ [Instr.risbg r2 r3 32 63 0 true] 2
        ⟨fun r => if r = r3 then 18446744073709551615 else 0, 0, fun _ => 0, fun _ => 0⟩).map
      (fun f => f.machine.regs r2) = some 4294967295 ∧
    (codeOf (AndP_Register_Operand cfg64 r2 r3 (Operand.ofInt 8589934591)) false).bind
        (fun c => (exec cfg64 ⟨fun _ m => m, fun _ => 0⟩ c 4
            ⟨fun r => if r = r3 then 18446744073709551615 else 0, 0, fun _ => 0, fun _ => 0⟩).map
          (fun f => f.machine.regs r2)) = some 8589934591 ∧
    (codeOf (AndP_Register_Operand cfg64 r2 r3 (Operand.ofInt (-1))) false).bind
        (fun c => (exec cfg64 ⟨fun _ m => m, fun _ => 0⟩ c 4
            ⟨fun r => if r = r3 then 18446744073709551615 else 0, 0, fun _ => 0, fun _ => 0⟩).map
          (fun f => f.machine.regs r2)) = some 18446744073709551615 := by
  have hw : ∀ v : Int, v = 8589934591 ∨ v = -1 →
      codeOf (AndP_Register_Operand ⟨true, false, true, false, true, false, true⟩ r2 r3
          (Operand.ofInt v)) false = some [Instr.risbg r2 r3 32 63 0 true] := by
    intro v hv
    have h := codeOf_eq_of_run _ _ false
      (AndP_Register_Operand_run ⟨true, false, true, false, true, false, true⟩ r2 r3 v
        RelocMode.NONE)
    rw [andPCode_wide v hv] at h
    exact h (by decide)
  refine ⟨hw _ (Or.inl rfl), hw _ (Or.inr rfl), ?_, ?_, ?_⟩
  · decide
  · decide
  · decide

/-- C33 on concrete input: the 31-bit target with the general-instructions
extension and the mask `0xFF0`. -/
theorem AndP_Register_Operand_spec_witness :
    ∃ c, codeOf (AndP_Register_Operand ⟨false, false, true, false, true, false, true⟩ r2 r3
        (Operand.ofInt 4080)) false = some c ∧
      ∃ f, exec ⟨false, false, true, false, true, false, true⟩ ⟨fun _ m => m, fun _ => 0⟩ c
          (c.length + 1)
          ⟨fun r => if r = r3 then 65535 else 0, 0, fun _ => 0, fun _ => 0⟩ = some f ∧
        f.outcome = .fallthrough ∧ f.trace = [] ∧
        f.machine.regP ⟨false, false, true, false, true, false, true⟩ r2 =
          Nat.land
            (Machine.regP ⟨false, false, true, false, true, false, true⟩
              ⟨fun r => if r = r3 then 65535 else 0, 0, fun _ => 0, fun _ => 0⟩ r3)
            (unsignedOf (ptrMod ⟨false, false, true, false, true, false, true⟩) 4080) :=
  have hc : codeOf (AndP_Register_Operand ⟨false, false, true, false, true, false, true⟩ r2 r3
      (Operand.ofInt 4080)) false =
      some (andPCode ⟨false, false, true, false, true, false, true⟩ r2 r3 4080) := by
    refine codeOf_eq_of_run _ _ false
      (AndP_Register_Operand_run ⟨false, false, true, false, true, false, true⟩ r2 r3 4080
        RelocMode.NONE) ?_
    have hclz : CountLeadingZeros 255 = 24 := clz_ones 8 (by decide) (by decide)
    have e1 : shiftOutTrailingZeros 64 0 4080 = (4, 255) := by decide
    have e2 : unsignedOf M32 255 = 255 := by decide
    have e3 : IsPowerOf2 (ptrMod ⟨false, false, true, false, true, false, true⟩)
        (255 + 1) = true := by decide
    unfold andPCode
    simp only [e1, e2, e3, hclz, if_true]
    decide
  ⟨_, hc, AndP_Register_Operand_spec ⟨false, false, true, false, true, false, true⟩
    ⟨fun _ m => m, fun _ => 0⟩ r2 r3 4080 RelocMode.NONE
    ⟨fun r => if r = r3 then 65535 else 0, 0, fun _ => 0, fun _ => 0⟩ false _
    (by decide) (fun _ h => absurd h (by decide)) hc⟩

/-- Forgetting the tally gives `run`. -/
theorem runTally_fst (cfg : Config) (env : Env) (code : List Instr) (p : Instr → Bool) :
    ∀ (fuel : Nat) (pos : List Instr) (m : Machine) (tr : List Event) (n : Nat),
      (runTally cfg env code p fuel pos m tr n).map Prod.fst = run cfg env code fuel pos m tr := by
  intro fuel
  induction fuel with
  | zero => intro pos m tr n; rfl
  | succ f ih =>
    intro pos m tr n
    cases pos with
    | nil => rfl
    | cons i rest =>
      show (Next.resumeTally env code (runTally cfg env code p f) rest tr
          (if p i then n + 1 else n) (step cfg (env.link (code.length - rest.length)) m i)).map
            Prod.fst =
        Next.resume env code (run cfg env code f) rest tr
          (step cfg (env.link (code.length - rest.length)) m i)
      cases step cfg (env.link (code.length - rest.length)) m i with
      | «continue» m1 => exact ih _ _ _ _
      | goto l m1 =>
        show (match suffixAt l code with
          | some r => runTally cfg env code p f r m1 tr (if p i then n + 1 else n)
          | none => some (⟨.label l, m1, tr⟩, (if p i then n + 1 else n))).map Prod.fst =
          (match suffixAt l code with
          | some r => run cfg env code f r m1 tr
          | none => some ⟨.label l, m1, tr⟩)
        cases suffixAt l code with
        | none => rfl
        | some r => exact ih _ _ _ _
      | jump a m1 => rfl
      | call t m1 => exact ih _ _ _ _
      | abort m1 => rfl

theorem runTally_straight (cfg : Config) (env : Env) (code : List Instr) (p : Instr → Bool)
    (a rest : List Instr) (h : ∀ i ∈ a, i.isStraight = true) (hp : ∀ i ∈ a, p i = false)
    (fuel : Nat) (m : Machine) (tr : List Event) (n : Nat) :
    runTally cfg env code p (fuel + a.length) (a ++ rest) m tr n =
      runTally cfg env code p fuel rest (runStraight cfg a m) tr n := by
  induction a generalizing m with
  | nil => rfl
  | cons i a ih =>
    have hi : i.isStraight = true := h i (List.mem_cons_self _ _)
    have hpi : p i = false := hp i (List.mem_cons_self _ _)
    have e : fuel + (i :: a).length = (fuel + a.length) + 1 := by simp [Nat.add_assoc]
    rw [e]
    show Next.resumeTally env code (runTally cfg env code p (fuel + a.length)) (a ++ rest) tr
      (if p i then n + 1 else n) (step cfg _ m i) = _
    rw [step_of_isStraight cfg _ m i hi, hpi, if_neg (by decide)]
    exact ih (fun j hj => h j (List.mem_cons_of_mem _ hj))
      (fun j hj => hp j (List.mem_cons_of_mem _ hj)) _

theorem runTally_counted (cfg : Config) (env : Env) (code : List Instr) (p : Instr → Bool)
    (i : Instr) (rest : List Instr) (h : i.isStraight = true) (hp : p i = true)
    (fuel : Nat) (m : Machine) (tr : List Event) (n : Nat) :
    runTally cfg env code p (fuel + 1) (i :: rest) m tr n =
      runTally cfg env code p fuel rest (i.effect cfg m) tr (n + 1) := by
  show Next.resumeTally env code (runTally cfg env code p fuel) rest tr
    (if p i then n + 1 else n) (step cfg _ m i) = _
  rw [step_of_isStraight cfg _ m i h, hp, if_pos rfl]
  rfl

theorem runTally_brc (cfg : Config) (env : Env) (code rest : List Instr) (p : Instr → Bool)
    (fuel : Nat) (m : Machine) (tr : List Event) (n : Nat) (mask : Condition) (l : Label)
    (hp : p (Instr.brc mask l) = false) :
    runTally cfg env code p (fuel + 1) (Instr.brc mask l :: rest) m tr n =
      if condHolds mask m.cc = true then
        (match suffixAt l code with
         | some r => runTally cfg env code p fuel r m tr n
         | none => some (⟨.label l, m, tr⟩, n))
      else runTally cfg env code p fuel rest m tr n := by
  show Next.resumeTally env code (runTally cfg env code p fuel) rest tr
      (if p (Instr.brc mask l) then n + 1 else n)
      (if condHolds mask m.cc = true then Next.goto l m else Next.continue m) = _
  simp only [hp, Bool.false_eq_true, if_false]
  split <;> rfl

theorem runTally_bcr (cfg : Config) (env : Env) (code rest : List Instr) (p : Instr → Bool)
    (fuel : Nat) (m : Machine) (tr : List Event) (n : Nat) (mask : Condition) (r : Register)
    (hp : p (Instr.bcr mask r) = false) :
    runTally cfg env code p (fuel + 1) (Instr.bcr mask r :: rest) m tr n =
      if (condHolds mask m.cc && r != r0) = true then
        some (⟨.jump (m.regs r % addrMod cfg), m, tr⟩, n)
      else runTally cfg env code p fuel rest m tr n := by
  show Next.resumeTally env code (runTally cfg env code p fuel) rest tr
      (if p (Instr.bcr mask r) then n + 1 else n)
      (if (condHolds mask m.cc && r != r0) = true then Next.jump (m.regs r % addrMod cfg) m
       else Next.continue m) = _
  simp only [hp, Bool.false_eq_true, if_false]
  split <;> rfl

theorem runTally_mono (cfg : Config) (env : Env) (code : List Instr) (p : Instr → Bool) :
    ∀ (fuel : Nat) (pos : List Instr) (m : Machine) (tr : List Event) (n : Nat)
      (f : Final × Nat),
      runTally cfg env code p fuel pos m tr n = some f →
        runTally cfg env code p (fuel + 1) pos m tr n = some f := by
  intro fuel
  induction fuel with
  | zero => intro pos m tr n f h; exact absurd h (by simp [runTally])
  | succ k ih =>
    intro pos m tr n f h
    cases pos with
    | nil => exact h
    | cons i rest =>
      have h2 : Next.resumeTally env code (runTally cfg env code p k) rest tr
          (if p i then n + 1 else n) (step cfg (env.link (code.length - rest.length)) m i) =
          some f := h
      show Next.resumeTally env code (runTally cfg env code p (k + 1)) rest tr
          (if p i then n + 1 else n) (step cfg (env.link (code.length - rest.length)) m i) =
          some f
      cases hs : step cfg (env.link (code.length - rest.length)) m i with
      | «continue» m1 => rw [hs] at h2; exact ih _ _ _ _ _ h2
      | goto l m1 =>
        rw [hs] at h2
        have h3 : (match suffixAt l code with
          | some r => runTally cfg env code p k r m1 tr (if p i then n + 1 else n)
          | none => some (⟨.label l, m1, tr⟩, (if p i then n + 1 else n))) = some f := h2
        show (match suffixAt l code with
          | some r => runTally cfg env code p (k + 1) r m1 tr (if p i then n + 1 else n)
          | none => some (⟨.label l, m1, tr⟩, (if p i then n + 1 else n))) = some f
        cases hsx : suffixAt l code with
        | none => rw [hsx] at h3; exact h3
        | some r => rw [hsx] at h3; exact ih _ _ _ _ _ h3
      | jump a m1 => rw [hs] at h2; exact h2
      | call t m1 => rw [hs] at h2; exact ih _ _ _ _ _ h2
      | abort m1 => rw [hs] at h2; exact h2

theorem runTally_mono_le (cfg : Config) (env : Env) (code : List Instr) (p : Instr → Bool)
    (a b : Nat) (hab : a ≤ b) (pos : List Instr) (m : Machine) (tr : List Event) (n : Nat)
    (f : Final × Nat) (h : runTally cfg env code p a pos m tr n = some f) :
    runTally cfg env code p b pos m tr n = some f := by
  obtain ⟨k, rfl⟩ := Nat.exists_eq_add_of_le hab
  induction k with
  | zero => exact h
  | succ j ih => exact runTally_mono cfg env code p _ _ _ _ _ _ (ih (Nat.le_add_right _ _))
theorem isLoad_ldP (cfg : Config) (d b x : Register) (rb : Register) (off : Int) :
    (ldP cfg x ⟨rb, r0, off⟩).isLoad d b = (x == d && rb == b) := by
  unfold ldP; split
  · rfl
  · split <;> rfl

theorem isLoad_movCode (cfg : Config) (d b x : Register) (v : Int) :
    ∀ i ∈ movCode cfg x v, i.isLoad d b = false := by
  intro i hi
  unfold movCode at hi
  split at hi
  · simp only [List.mem_cons, List.mem_singleton, List.not_mem_nil, or_false] at hi
    rcases hi with rfl | rfl <;> rfl
  · simp only [List.mem_singleton] at hi
    subst hi; rfl

theorem isLoad_lrP (cfg : Config) (d b x y : Register) : (lrP cfg x y).isLoad d b = false := by
  unfold lrP; split <;> rfl

theorem isLoad_stP (cfg : Config) (d b x : Register) (op : MemOperand) :
    (stP cfg x op).isLoad d b = false := by
  unfold stP; split
  · rfl
  · split <;> rfl

theorem isLoad_andP (cfg : Config) (d b x y : Register) : (andP cfg x y).isLoad d b = false := by
  unfold andP; split <;> rfl

theorem isLoad_addP (cfg : Config) (d b x y : Register) : (addP cfg x y).isLoad d b = false := by
  unfold addP; split <;> rfl

theorem isLoad_addPI (cfg : Config) (d b x : Register) (v : Int) :
    (addPI cfg x v).isLoad d b = false := by
  unfold addPI; split <;> split <;> rfl

theorem isLoad_untagCode (cfg : Config) (d b x y : Register) :
    ∀ i ∈ untagCode cfg x y, i.isLoad d b = false := by
  intro i hi
  unfold untagCode at hi
  repeat' split at hi
  all_goals
    simp only [List.mem_cons, List.mem_singleton, List.not_mem_nil, or_false] at hi
  · subst hi; rfl
  · subst hi; rfl
  · subst hi; rfl
  · rcases hi with rfl | rfl <;> rfl

theorem isLoad_addRRR (cfg : Config) (d b x y z : Register) :
    ∀ i ∈ addRRR cfg x y z, i.isLoad d b = false := by
  intro i hi
  unfold addRRR at hi
  split at hi
  · simp only [List.mem_singleton] at hi
    subst hi
    split <;> rfl
  · simp only [List.mem_cons, List.mem_singleton, List.not_mem_nil, or_false] at hi
    rcases hi with rfl | rfl
    · exact isLoad_lrP _ _ _ _ _
    · exact isLoad_addP _ _ _ _ _

theorem isLoad_checkStraight (cfg : Config) (iso : Isolate) :
    ∀ i ∈ checkStraight cfg iso, i.isLoad sp sp = false := by
  intro i hi
  simp only [checkStraight, List.mem_append, List.mem_cons, List.mem_singleton,
    List.not_mem_nil, or_false] at hi
  rcases hi with rfl | rfl | hi | rfl
  · rfl
  · rw [isLoad_ldP]; rfl
  · exact isLoad_movCode _ _ _ _ _ _ hi
  · exact isLoad_andP _ _ _ _ _

theorem isLoad_uncPrefix (cfg : Config) (iso : Isolate) (value : Register) :
    ∀ i ∈ uncPrefix cfg iso value, i.isLoad sp sp = false := by
  intro i hi
  simp only [uncPrefix, List.mem_append, List.mem_cons, List.mem_singleton,
    List.not_mem_nil, or_false] at hi
  rcases hi with hi | hi | rfl
  · split at hi
    · exact absurd hi (List.not_mem_nil _)
    · rw [List.mem_singleton] at hi; subst hi; exact isLoad_lrP _ _ _ _ _
  · exact isLoad_movCode _ _ _ _ _ _ hi
  · rw [isLoad_ldP]; rfl

theorem isLoad_unlinkCode (cfg : Config) : ∀ i ∈ unlinkCode cfg, i.isLoad sp sp = false := by
  intro i hi
  simp only [unlinkCode, popCode, List.mem_append, List.mem_cons, List.mem_singleton,
    List.not_mem_nil, or_false, List.cons_append, List.nil_append] at hi
  rcases hi with rfl | rfl | rfl | rfl | rfl | rfl | rfl | rfl | rfl | rfl | rfl
  all_goals first
    | (rw [isLoad_ldP]; rfl)
    | exact isLoad_stP _ _ _ _ _
    | rfl

theorem isLoad_jumpBody (cfg : Config) (iso : Isolate) :
    ∀ i ∈ jumpBody cfg iso, i.isLoad sp sp = false := by
  intro i hi
  simp only [jumpBody, List.mem_append, List.mem_cons, List.mem_singleton, List.not_mem_nil,
    or_false] at hi
  rcases hi with (rfl | rfl | rfl | rfl | rfl | rfl | rfl | rfl) | hi | hi | rfl
  all_goals first
    | exact isLoad_untagCode _ _ _ _ _ _ hi
    | exact isLoad_addRRR _ _ _ _ _ _ _ hi
    | (rw [isLoad_ldP]; rfl)
    | exact isLoad_lrP _ _ _ _ _
    | exact isLoad_addP _ _ _ _ _
    | exact isLoad_addPI _ _ _ _ _
    | rfl

theorem runTally_jumpCode (cfg : Config) (iso : Isolate) (env : Env) (full : List Instr)
    (k : Nat) (m : Machine) (tr : List Event) (n : Nat) :
    runTally cfg env full (Instr.isLoad sp sp) (k + 1 + (jumpBody cfg iso).length)
        (jumpCode cfg iso) m tr n =
      some (⟨.jump ((runStraight cfg (jumpBody cfg iso) m).addr cfg r14),
        runStraight cfg (jumpBody cfg iso) m, tr⟩, n) := by
  unfold jumpCode
  rw [runTally_straight cfg env full _ _ _ (isStraight_jumpBody cfg iso)
      (isLoad_jumpBody cfg iso), runTally_bcr _ _ _ _ _ _ _ _ _ _ _ rfl, condHolds_al]
  rfl

/-- The loop of `ThrowUncatchable` with the loads of a next link counted: from
`check_kind` with `sp` at the first record of a chain, the code arrives at the
unlinking code after one such load for each skipped record. -/
theorem unc_loop_tally (cfg : Config) (iso : Isolate) (env : Env) (full : List Instr)
    (hkw : iso.kKindWidth < 32) (hs0 : suffixAt 0 full = some (uncFetch cfg iso))
    (tr : List Event) :
    ∀ (skipped : List Nat) (e : Nat) (μ : Machine) (t : Nat),
      linked cfg iso μ.mem (μ.regP cfg sp) skipped e → handlerKindBits cfg iso μ.mem e = 0 →
      ∃ n μ1, n ≤ (skipped.length + 1) * ((checkStraight cfg iso).length + 3) ∧
        (∀ k, runTally cfg env full (Instr.isLoad sp sp) (n + k) (uncCheck cfg iso) μ tr t =
          runTally cfg env full (Instr.isLoad sp sp) k (unlinkCode cfg ++ jumpCode cfg iso) μ1 tr
            (t + skipped.length)) := by
  intro skipped
  induction skipped with
  | nil =>
    intro e μ t hl hk
    obtain ⟨c1, c2, c3, c4, c5⟩ := checkStraight_facts cfg iso μ hkw
    have hl0 : μ.regP cfg sp = e := hl
    refine ⟨(checkStraight cfg iso).length + 1, runStraight cfg (checkStraight cfg iso) μ,
      by simp, fun k => ?_⟩
    rw [show (checkStraight cfg iso).length + 1 + k = (k + 1) + (checkStraight cfg iso).length
        by omega, uncCheck,
      runTally_straight cfg env full _ _ _ (isStraight_checkStraight cfg iso)
        (isLoad_checkStraight cfg iso),
      runTally_brc _ _ _ _ _ _ _ _ _ _ _ rfl,
      if_neg (fun h => c5.1 h (by rw [hl0]; exact hk))]
    rfl
  | cons s rest ih =>
    intro e μ t hl hk
    obtain ⟨hs, hks, hrest⟩ := hl
    obtain ⟨c1, c2, c3, c4, c5⟩ := checkStraight_facts cfg iso μ hkw
    have hmem2 : ((runStraight cfg (checkStraight cfg iso) μ).setRegP cfg sp
        (handlerField cfg μ.mem s 0)).mem = μ.mem := by
      rw [setRegP_mem, c1]
    have hsp2 : ((runStraight cfg (checkStraight cfg iso) μ).setRegP cfg sp
        (handlerField cfg μ.mem s 0)).regP cfg sp = handlerField cfg μ.mem s 0 := by
      rw [regP_setRegP_self]; exact loadPtr_mod_ptr _ _ _
    obtain ⟨n, μ1, hn, hrun⟩ := ih e
      ((runStraight cfg (checkStraight cfg iso) μ).setRegP cfg sp (handlerField cfg μ.mem s 0))
      (t + 1)
      (by rw [hmem2, hsp2]; exact hrest) (by rw [hmem2]; exact hk)
    refine ⟨(checkStraight cfg iso).length + 3 + n, μ1, ?_, fun k => ?_⟩
    · rw [List.length_cons]
      have : (rest.length + 1 + 1) * ((checkStraight cfg iso).length + 3) =
          (rest.length + 1) * ((checkStraight cfg iso).length + 3) +
            ((checkStraight cfg iso).length + 3) := by ring
      omega
    · rw [show (checkStraight cfg iso).length + 3 + n + k =
          ((n + k) + 1 + 1 + 1) + (checkStraight cfg iso).length by omega, uncCheck,
        runTally_straight cfg env full _ _ _ (isStraight_checkStraight cfg iso)
          (isLoad_checkStraight cfg iso),
        runTally_brc _ _ _ _ _ _ _ _ _ _ _ rfl,
        if_pos (c5.2 (by rw [hs]; exact hks)), hs0]
      show runTally cfg env full _ (n + k + 1 + 1) (uncFetch cfg iso) _ tr t = _
      rw [uncFetch]
      have hb := runTally_straight cfg env full (Instr.isLoad sp sp) [Instr.bind 0]
        (ldP cfg sp ⟨sp, r0, StackHandlerConstants.kNextOffset cfg⟩ :: uncCheck cfg iso)
        (by intro i hi; rw [List.mem_singleton] at hi; subst hi; rfl)
        (by intro i hi; rw [List.mem_singleton] at hi; subst hi; rfl)
        (n + k + 1) (runStraight cfg (checkStraight cfg iso) μ) tr t
      rw [List.length_singleton] at hb
      rw [show Instr.bind 0 :: ldP cfg sp ⟨sp, r0, StackHandlerConstants.kNextOffset cfg⟩ ::
          uncCheck cfg iso = [Instr.bind 0] ++
            (ldP cfg sp ⟨sp, r0, StackHandlerConstants.kNextOffset cfg⟩ :: uncCheck cfg iso)
          from rfl, hb,
        runTally_counted cfg env full _ _ _ (isStraight_ldP _ _ _)
          (by rw [isLoad_ldP]; rfl)]
      have hbind : runStraight cfg [Instr.bind 0] (runStraight cfg (checkStraight cfg iso) μ) =
          runStraight cfg (checkStraight cfg iso) μ := rfl
      rw [hbind, effect_ldP,
        effAddr_disp _ _ _ _ sp_ne_r0, StackHandlerConstants.kNextOffset, slot_fold,
        addr_eq_regP_mod, c2, c1, hs]
      have e0 : loadPtr cfg μ.mem (slot cfg (s % addrMod cfg) 0) = handlerField cfg μ.mem s 0 := by
        rw [slot_mod]; rfl
      rw [e0, hrun k, List.length_cons]
      congr 1
      omega
/-- C39: for a handler chain from the current-handler slot in which the
records `skipped`, none of the entry kind, lead to a record `e` of the entry
kind, the code of `ThrowUncatchable` terminates (it leaves through the jump of
`JumpToHandlerEntry` within `(|skipped| + 2) * |code|` instructions), and the
number of loads of a next link (loads of `sp` from the record at `sp`) executed
on the way is exactly `|skipped|`: none when the top record is the entry
record. -/
theorem ThrowUncatchable_loads_k_links (cfg : Config) (iso : Isolate) (env : Env) (m : Machine)
    (value : Register) (frame : Bool) (code : List Instr) (skipped : List Nat) (e : Nat)
    (hcode : codeOf (ThrowUncatchable cfg iso value) frame = some code)
    (hkw : iso.kKindWidth < 32)
    (hchain : linked cfg iso m.mem (loadPtr cfg m.mem (handlerSlot cfg iso)) skipped e)
    (hentry : handlerKindBits cfg iso m.mem e = 0) :
    ∃ f, runTally cfg env code (Instr.isLoad sp sp) ((skipped.length + 2) * code.length) code m
          [] 0 = some (f, skipped.length) ∧
      exec cfg env code ((skipped.length + 2) * code.length) m = some f ∧
      ∃ t, f.outcome = .jump t := by
  have hcode2 := ThrowUncatchable_code cfg iso value frame code hcode
  subst hcode2
  obtain ⟨p1, p2, p3, p4⟩ := uncPrefix_facts cfg iso value m
  obtain ⟨n, μ1, hn, hrun⟩ := unc_loop_tally cfg iso env
    (uncPrefix cfg iso value ++ (.brc al 1 :: uncFetch cfg iso)) hkw
    (suffixAt_fetch cfg iso value) [] skipped e (runStraight cfg (uncPrefix cfg iso value) m) 0
    (by rw [p1, p2]; exact hchain) (by rw [p1]; exact hentry)
  have hreach : ∀ k, runTally cfg env (uncPrefix cfg iso value ++ (.brc al 1 :: uncFetch cfg iso))
      (Instr.isLoad sp sp)
      ((uncPrefix cfg iso value).length + 1 + n + (unlinkCode cfg).length + k)
      (uncPrefix cfg iso value ++ (.brc al 1 :: uncFetch cfg iso)) m [] 0 =
      runTally cfg env (uncPrefix cfg iso value ++ (.brc al 1 :: uncFetch cfg iso))
        (Instr.isLoad sp sp) k (jumpCode cfg iso) (runStraight cfg (unlinkCode cfg) μ1) []
        (0 + skipped.length) := by
    intro k
    rw [show (uncPrefix cfg iso value).length + 1 + n + (unlinkCode cfg).length + k =
        ((n + (k + (unlinkCode cfg).length)) + 1) + (uncPrefix cfg iso value).length by omega,
      runTally_straight cfg env _ _ _ _ (isStraight_uncPrefix cfg iso value)
        (isLoad_uncPrefix cfg iso value),
      runTally_brc _ _ _ _ _ _ _ _ _ _ _ rfl,
      if_pos (condHolds_al _), suffixAt_check]
    show runTally cfg env _ _ (n + (k + (unlinkCode cfg).length)) (uncCheck cfg iso) _ [] 0 = _
    rw [hrun, runTally_straight cfg env _ _ _ _ (isStraight_unlinkCode cfg)
      (isLoad_unlinkCode cfg)]
  have hr := runTally_jumpCode cfg iso env
    (uncPrefix cfg iso value ++ (.brc al 1 :: uncFetch cfg iso))
    0 (runStraight cfg (unlinkCode cfg) μ1) [] (0 + skipped.length)
  rw [← hreach, Nat.zero_add] at hr
  have hfuel : (uncPrefix cfg iso value).length + 1 + n + (unlinkCode cfg).length +
      (0 + 1 + (jumpBody cfg iso).length) ≤
      (skipped.length + 2) *
        (uncPrefix cfg iso value ++ (Instr.brc al 1 :: uncFetch cfg iso)).length := by
    rw [List.length_append, List.length_cons, length_uncFetch]
    have h3 : (skipped.length + 1) * ((checkStraight cfg iso).length + 3) ≤
        (skipped.length + 1) * ((uncPrefix cfg iso value).length +
          ((checkStraight cfg iso).length + 3 + (unlinkCode cfg).length +
            (jumpBody cfg iso).length + 1 + 1)) :=
      Nat.mul_le_mul_left _ (by omega)
    have h4 : (skipped.length + 2) * ((uncPrefix cfg iso value).length +
          ((checkStraight cfg iso).length + 3 + (unlinkCode cfg).length +
            (jumpBody cfg iso).length + 1 + 1)) =
        (skipped.length + 1) * ((uncPrefix cfg iso value).length +
          ((checkStraight cfg iso).length + 3 + (unlinkCode cfg).length +
            (jumpBody cfg iso).length + 1 + 1)) + ((uncPrefix cfg iso value).length +
          ((checkStraight cfg iso).length + 3 + (unlinkCode cfg).length +
            (jumpBody cfg iso).length + 1 + 1)) := by ring
    rw [h4]
    omega
  have hfin := runTally_mono_le cfg env _ _ _ _ hfuel _ _ _ _ _ hr
  rw [Nat.zero_add] at hfin
  refine ⟨⟨.jump ((runStraight cfg (jumpBody cfg iso)
      (runStraight cfg (unlinkCode cfg) μ1)).addr cfg r14),
    runStraight cfg (jumpBody cfg iso) (runStraight cfg (unlinkCode cfg) μ1), []⟩,
    hfin, ?_, _, rfl⟩
  have := runTally_fst cfg env
    (uncPrefix cfg iso value ++ (.brc al 1 :: uncFetch cfg iso)) (Instr.isLoad sp sp)
    ((skipped.length + 2) *
      (uncPrefix cfg iso value ++ (Instr.brc al 1 :: uncFetch cfg iso)).length)
    (uncPrefix cfg iso value ++ (.brc al 1 :: uncFetch cfg iso)) m [] 0
  rw [hfin] at this
  exact this.symm

/-- C39 on concrete input: on the chain `[catch, catch, entry, catch]` at 1000,
2000, 3000 and 4000 two next links are loaded. -/
theorem ThrowUncatchable_loads_k_links_witness :
    ∃ code, codeOf (ThrowUncatchable cfg64 (sampleIsolate cfg64) r3) false = some code ∧
      ∃ f, runTally cfg64 sampleEnv code (Instr.isLoad sp sp) (4 * code.length) code
          chainMachine [] 0 = some (f, 2) ∧
        exec cfg64 sampleEnv code (4 * code.length) chainMachine = some f ∧
        ∃ t, f.outcome = .jump t :=
  ⟨_, rfl, ThrowUncatchable_loads_k_links cfg64 (sampleIsolate cfg64) sampleEnv chainMachine r3
    false _ [1000, 2000] 3000 rfl (by decide) chain_linked (by decide)⟩

theorem PatchRelocatedValue_run (cfg : Config) (p s nv : Register)
    (hle : cfg.little_endian_host = false) (frame : Bool) (c : List Instr)
    (hcode : codeOf (PatchRelocatedValue cfg p s nv) frame = some c) :
    c = patchCode cfg p s nv := by
  have e : ((PatchRelocatedValue cfg p s nv).run ⟨[], 0, frame, false⟩).2.code =
      patchCode cfg p s nv := by
    unfold PatchRelocatedValue patchCode opcodeCheck
    cases h64 : cfg.is64 <;> cases hd : cfg.emit_debug_code <;>
      simp [hle, h64, hd, Check, b, Abort, bind, MemOperand.mk1]
  unfold codeOf at hcode
  rw [← e]
  exact (code_of_ite hcode).1

theorem GetRelocatedValueLocation_run (cfg : Config) (p r s : Register)
    (hle : cfg.little_endian_host = false) (frame : Bool) (c : List Instr)
    (hcode : codeOf (GetRelocatedValueLocation cfg p r s) frame = some c) :
    c = getCode cfg p r s := by
  have e : ((GetRelocatedValueLocation cfg p r s).run ⟨[], 0, frame, false⟩).2.code =
      getCode cfg p r s := by
    unfold GetRelocatedValueLocation getCode opcodeCheck
    cases h64 : cfg.is64 <;> cases hd : cfg.emit_debug_code <;>
      simp [hle, h64, hd, Check, b, Abort, bind, MemOperand.mk1]
  unfold codeOf at hcode
  rw [← e]
  exact (code_of_ite hcode).1
theorem opcode_masked (rb x : Nat) (opc : Int) (hopc : 0 ≤ opc ∧ opc < 65536)
    (hok : Nat.land rb 0xFF0F = opc.toNat) (hrb : rb < 65536) :
    signedOf M32 (setLo32 (setLo32 x rb)
      (Nat.land (setLo32 x rb % M32) (unsignedOf M32 0xFF0F % M32))) = toInt32 opc := by
  have e1 : setLo32 x rb % M32 = rb := by
    rw [setLo32_mod]; exact Nat.mod_eq_of_lt (by simp only [M32]; omega)
  have e2 : unsignedOf M32 0xFF0F % M32 = 0xFF0F := by decide
  rw [e1, e2, hok]
  rw [signedOf_congr M32 _ opc.toNat (setLo32_mod _ _)]
  simp only [signedOf, toInt32, M32]
  omega

/-- The debug-code check of an opcode passes when the two bytes at the checked
location, masked with `0xFF0F`, are the opcode: control arrives behind the
check with memory and every register but `scratch` as before. -/
theorem run_opcodeCheck (cfg : Config) (env : Env) (code rest : List Instr)
    (m : Machine) (tr : List Event) (p s : Register) (off opc : Int) (L : Label)
    (hsuf : suffixAt L code = some (.bind L :: rest))
    (hopc : 0 ≤ opc ∧ opc < 65536)
    (hok : Nat.land (readBytes cfg m.mem (effAddr cfg m ⟨p, r0, off⟩) 2) 0xFF0F = opc.toNat) :
    ∃ m1, (∀ fuel, run cfg env code (fuel + 5) (opcodeCheck p s off opc L ++ rest) m tr =
        run cfg env code fuel rest m1 tr) ∧
      m1.mem = m.mem ∧ (∀ x, x ≠ s → m1.regs x = m.regs x) ∧
      ∀ x, hi32 (m1.regs x) = hi32 (m.regs x) := by
  have hrb : readBytes cfg m.mem (effAddr cfg m ⟨p, r0, off⟩) 2 < 65536 :=
    readBytes_lt cfg m.mem _ 2
  have hst : ∀ i ∈ [Instr.llh s ⟨p, r0, off⟩, Instr.nilf s 0xFF0F, Instr.cfi s opc],
      i.isStraight = true := by
    intro i hi
    simp only [List.mem_cons, List.mem_singleton, List.not_mem_nil, or_false] at hi
    rcases hi with rfl | rfl | rfl <;> rfl
  have e : runStraight cfg [Instr.llh s ⟨p, r0, off⟩, Instr.nilf s 0xFF0F, Instr.cfi s opc] m =
      (and32 (m.setReg s (setLo32 (m.regs s) (readBytes cfg m.mem (effAddr cfg m ⟨p, r0, off⟩) 2)))
        s ((m.setReg s (setLo32 (m.regs s)
          (readBytes cfg m.mem (effAddr cfg m ⟨p, r0, off⟩) 2))).regs s)
        (unsignedOf M32 0xFF0F)).setCC
        (cmpCC (signedOf M32 ((and32 (m.setReg s (setLo32 (m.regs s)
            (readBytes cfg m.mem (effAddr cfg m ⟨p, r0, off⟩) 2)))
          s ((m.setReg s (setLo32 (m.regs s)
            (readBytes cfg m.mem (effAddr cfg m ⟨p, r0, off⟩) 2))).regs s)
          (unsignedOf M32 0xFF0F)).regs s)) (toInt32 opc)) := rfl
  refine ⟨runStraight cfg [Instr.llh s ⟨p, r0, off⟩, Instr.nilf s 0xFF0F, Instr.cfi s opc] m,
    ?_, ?_, ?_, ?_⟩
  · intro fuel
    have h1 := run_straight cfg env code
      [Instr.llh s ⟨p, r0, off⟩, Instr.nilf s 0xFF0F, Instr.cfi s opc]
      (Instr.brc eq L :: Instr.abort :: Instr.bind L :: rest) hst (fuel + 2) m tr
    have hcc : condHolds eq
        (runStraight cfg [Instr.llh s ⟨p, r0, off⟩, Instr.nilf s 0xFF0F, Instr.cfi s opc] m).cc =
        true := by
      rw [e, setCC_cc, condHolds_eq_cmpCC]
      simp only [and32, setCC_regs, setReg_regs, if_true]
      exact opcode_masked _ _ opc hopc hok hrb
    refine h1.trans ?_
    rw [run_brc, if_pos hcc, hsuf]
    exact run_bind cfg env code rest fuel _ tr L
  · rw [e]; rfl
  · intro x hx
    rw [e]
    simp only [and32, setCC_regs, setReg_regs, if_neg hx]
  · intro x
    rw [e]
    simp only [and32, setCC_regs, setReg_regs]
    by_cases hx : x = s
    · subst hx
      simp only [if_true]
      simp only [setLo32, hi32, M32]
      omega
    · simp only [if_neg hx]

/-- The opcode check of debug code, present or not. -/
theorem run_optCheck (dbg : Bool) (cfg : Config) (env : Env) (code rest : List Instr)
    (m : Machine) (tr : List Event) (p s : Register) (off opc : Int) (L : Label)
    (hsuf : dbg = true → suffixAt L code = some (.bind L :: rest))
    (hopc : 0 ≤ opc ∧ opc < 65536)
    (hok : dbg = true →
      Nat.land (readBytes cfg m.mem (effAddr cfg m ⟨p, r0, off⟩) 2) 0xFF0F = opc.toNat) :
    ∃ n m1, n ≤ ((if dbg = true then opcodeCheck p s off opc L else []) : List Instr).length ∧
      (∀ fuel, run cfg env code (fuel + n)
          ((if dbg = true then opcodeCheck p s off opc L else []) ++ rest) m tr =
        run cfg env code fuel rest m1 tr) ∧
      m1.mem = m.mem ∧ (∀ x, x ≠ s → m1.regs x = m.regs x) ∧
      ∀ x, hi32 (m1.regs x) = hi32 (m.regs x) := by
  cases dbg with
  | false => exact ⟨0, m, Nat.zero_le _, fun _ => rfl, rfl, fun _ _ => rfl, fun _ => rfl⟩
  | true =>
    obtain ⟨m1, h1, h2, h3, h4⟩ := run_opcodeCheck cfg env code rest m tr p s off opc L
      (hsuf rfl) hopc (hok rfl)
    refine ⟨5, m1, by simp [opcodeCheck], fun fuel => ?_, h2, h3, h4⟩
    rw [if_pos rfl]
    exact h1 fuel
theorem addrMod_ge (cfg : Config) : 2147483648 ≤ addrMod cfg := by
  unfold addrMod M64; split <;> decide

theorem mod_add_off (cfg : Config) (a o i : Nat) :
    ((a + o) % addrMod cfg + i) % addrMod cfg = (a + (o + i)) % addrMod cfg := by
  rw [Nat.mod_add_mod, Nat.add_assoc]

theorem wb4_at (cfg : Config) (mem : Nat → Nat) (a o v j : Nat) (hj : j < 4) :
    writeBytes cfg mem ((a + o) % addrMod cfg) 4 v ((a + (o + j)) % addrMod cfg) =
      v / 256 ^ (3 - j) % 256 := by
  have h := writeBytes_at cfg mem ((a + o) % addrMod cfg) 4 v j
    (le_trans (by decide) (addrMod_ge cfg)) hj
  rw [mod_add_off] at h
  exact h

theorem wb4_ne (cfg : Config) (mem : Nat → Nat) (a o v k : Nat) (hk : k < o ∨ o + 4 ≤ k)
    (hk2 : k < 2147483648) (ho : o + 4 ≤ 2147483648) :
    writeBytes cfg mem ((a + o) % addrMod cfg) 4 v ((a + k) % addrMod cfg) =
      mem ((a + k) % addrMod cfg) := by
  apply writeBytes_of_ne
  intro i hi
  rw [mod_add_off]
  have hM := addrMod_ge cfg
  rcases hk with h | h
  · exact add_mod_ne_of_lt _ a k (o + i) (by omega) (by omega)
  · exact (add_mod_ne_of_lt _ a (o + i) k (by omega) (by omega)).symm

theorem holds_read2 (cfg : Config) (mem : Nat → Nat) (a : Nat) (bs : List Nat)
    (h : holdsBytes cfg mem a bs) (o : Nat) (ho : o + 2 ≤ bs.length) :
    readBytes cfg mem ((a + o) % addrMod cfg) 2 = bs.getD o 0 * 256 + bs.getD (o + 1) 0 := by
  have h0 := h o (by omega)
  have h1 := h (o + 1) (by omega)
  simp only [readBytes, mod_add_off, Nat.add_zero, Nat.zero_mul, Nat.zero_add, Nat.mod_mod, h0, h1]

theorem holds_read4 (cfg : Config) (mem : Nat → Nat) (a : Nat) (bs : List Nat)
    (h : holdsBytes cfg mem a bs) (o : Nat) (ho : o + 4 ≤ bs.length) :
    readBytes cfg mem ((a + o) % addrMod cfg) 4 =
      ((bs.getD o 0 * 256 + bs.getD (o + 1) 0) * 256 + bs.getD (o + 2) 0) * 256 +
        bs.getD (o + 3) 0 := by
  have h0 := h o (by omega)
  have h1 := h (o + 1) (by omega)
  have h2 := h (o + 2) (by omega)
  have h3 := h (o + 3) (by omega)
  simp only [readBytes, mod_add_off, Nat.add_zero, Nat.zero_mul, Nat.zero_add, Nat.mod_mod, h0, h1, h2, h3]

theorem opcode_bits (r x : Nat) (hx : x = 8 ∨ x = 9) :
    Nat.land (192 * 256 + (r % 16 * 16 + x)) 0xFF0F = 0xC000 + x := by
  have hr : r % 16 < 16 := Nat.mod_lt _ (by decide)
  generalize r % 16 = q at hr
  rcases hx with rfl | rfl <;> interval_cases q <;> decide

theorem imm_bytes (X : Nat) (hX : X < 4294967296) :
    ((X / 16777216 % 256 * 256 + X / 65536 % 256) * 256 + X / 256 % 256) * 256 + X % 256 = X := by
  omega

/-- The machine address of a displacement off a base register. -/
theorem effAddr_off (cfg : Config) (m : Machine) (p : Register) (o : Nat) (hp : p ≠ r0) :
    effAddr cfg m ⟨p, r0, (o : Int)⟩ = (m.addr cfg p + o) % addrMod cfg := by
  rw [effAddr_disp cfg m p _ hp]
  unfold unsignedOf
  rw [← Nat.cast_add, ← Int.natCast_mod, Int.toNat_natCast]
theorem holds_opcode31 (cfg : Config) (m : Machine) (p dst : Register) (v : Int)
    (h64 : cfg.is64 = false) (hp0 : p ≠ r0)
    (hseq : holdsBytes cfg m.mem (m.addr cfg p) (movBytes cfg dst v)) :
    Nat.land (readBytes cfg m.mem (effAddr cfg m ⟨p, r0, 0⟩) 2) 0xFF0F = (0xC009 : Int).toNat := by
  have ha := effAddr_off cfg m p 0 hp0
  simp only [Nat.cast_ofNat, Nat.cast_zero] at ha
  rw [ha, holds_read2 cfg m.mem _ _ hseq 0 (by simp [movBytes, encodeRIL, h64])]
  simp only [movBytes, encodeRIL, h64, Bool.false_eq_true, if_false, List.getD_cons_zero,
    List.getD_cons_succ, Nat.zero_add]
  exact opcode_bits _ 9 (Or.inr rfl)

theorem holds_imm31 (cfg : Config) (mem : Nat → Nat) (a : Nat) (dst : Register) (v : Int)
    (h64 : cfg.is64 = false)
    (hseq : holdsBytes cfg mem a (movBytes cfg dst v)) :
    readBytes cfg mem ((a + 2) % addrMod cfg) 4 = unsignedOf M32 v := by
  rw [holds_read4 cfg mem _ _ hseq 2 (by simp [movBytes, encodeRIL, h64])]
  simp only [movBytes, encodeRIL, h64, Bool.false_eq_true, if_false, List.getD_cons_zero,
    List.getD_cons_succ, Nat.zero_add]
  rw [imm_bytes (unsignedOf M32 (toInt32 v)) (unsignedOf_lt _ _ (by decide))]
  simp only [unsignedOf, toInt32, M32]
  omega

theorem holds_opcode64 (cfg : Config) (m : Machine) (p dst : Register) (v : Int)
    (h64 : cfg.is64 = true) (hp0 : p ≠ r0)
    (hseq : holdsBytes cfg m.mem (m.addr cfg p) (movBytes cfg dst v)) :
    Nat.land (readBytes cfg m.mem (effAddr cfg m ⟨p, r0, 0⟩) 2) 0xFF0F = (0xC008 : Int).toNat ∧
    Nat.land (readBytes cfg m.mem (effAddr cfg m ⟨p, r0, 6⟩) 2) 0xFF0F =
      (0xC009 : Int).toNat := by
  have ha := effAddr_off cfg m p 0 hp0
  have hb := effAddr_off cfg m p 6 hp0
  simp only [Nat.cast_ofNat, Nat.cast_zero] at ha hb
  rw [ha, hb, holds_read2 cfg m.mem _ _ hseq 0 (by simp [movBytes, encodeRIL, h64]),
    holds_read2 cfg m.mem _ _ hseq 6 (by simp [movBytes, encodeRIL, h64])]
  simp only [movBytes, encodeRIL, h64, if_true, List.getD_cons_zero,
    List.getD_cons_succ, Nat.zero_add, List.cons_append, List.nil_append]
  exact ⟨opcode_bits _ 8 (Or.inl rfl), opcode_bits _ 9 (Or.inr rfl)⟩

theorem holds_imm64 (cfg : Config) (mem : Nat → Nat) (a : Nat) (dst : Register) (v : Int)
    (h64 : cfg.is64 = true)
    (hseq : holdsBytes cfg mem a (movBytes cfg dst v)) :
    readBytes cfg mem ((a + 2) % addrMod cfg) 4 = unsignedOf M64 v / M32 ∧
    readBytes cfg mem ((a + 8) % addrMod cfg) 4 = unsignedOf M64 v % M32 := by
  rw [holds_read4 cfg mem _ _ hseq 2 (by simp [movBytes, encodeRIL, h64]),
    holds_read4 cfg mem _ _ hseq 8 (by simp [movBytes, encodeRIL, h64])]
  simp only [movBytes, encodeRIL, h64, if_true, List.getD_cons_zero,
    List.getD_cons_succ, Nat.zero_add, List.cons_append, List.nil_append]
  rw [imm_bytes (unsignedOf M32 (toInt32 (toInt64 v / 4294967296)))
      (unsignedOf_lt _ _ (by decide)),
    imm_bytes (unsignedOf M32 (toInt32 (toInt64 v))) (unsignedOf_lt _ _ (by decide))]
  simp only [unsignedOf, toInt32, toInt64, M32, M64]
  omega
theorem addr_of_regs (cfg : Config) (m1 m : Machine) (p : Register) (h : m1.regs p = m.regs p) :
    m1.addr cfg p = m.addr cfg p := by
  unfold Machine.addr; rw [h]

/-- The code of `GetRelocatedValueLocation` reads the immediate fields of the
fixed sequence. -/
theorem getCode_reads (cfg : Config) (env : Env) (p r s dst : Register) (v : Int) (m : Machine)
    (hp0 : p ≠ r0) (hrp : r ≠ p) (hsp : s ≠ p)
    (hseq : holdsBytes cfg m.mem (m.addr cfg p) (movBytes cfg dst v)) :
    ∃ g, exec cfg env (getCode cfg p r s) ((getCode cfg p r s).length + 1) m = some g ∧
      g.outcome = .fallthrough ∧ g.trace = [] ∧
      g.machine.regP cfg r = unsignedOf (ptrMod cfg) v ∧ g.machine.mem = m.mem := by
  cases h64 : cfg.is64
  · have hc : getCode cfg p r s =
        (if cfg.emit_debug_code = true then opcodeCheck p s 0 0xC009 0 else []) ++
          [Instr.l r ⟨p, r0, 2⟩] := by
      unfold getCode; rw [h64]; rfl
    obtain ⟨n, m1, hn, hrun, hmem, hreg, -⟩ := run_optCheck cfg.emit_debug_code cfg env
      (getCode cfg p r s) [Instr.l r ⟨p, r0, 2⟩] m [] p s 0 0xC009 0
      (fun hd => by rw [hc, hd]; rfl) (by decide)
      (fun _ => holds_opcode31 cfg m p dst v h64 hp0 hseq)
    have hp1 : m1.addr cfg p = m.addr cfg p := addr_of_regs cfg m1 m p (hreg p (Ne.symm hsp))
    have ha := effAddr_off cfg m1 p 2 hp0
    simp only [Nat.cast_ofNat] at ha
    have hfin : run cfg env (getCode cfg p r s) (2 + n) (getCode cfg p r s) m [] =
        some ⟨.fallthrough, m1.setReg r (setLo32 (m1.regs r) (unsignedOf M32 v)), []⟩ := by
      nth_rewrite 2 [hc]
      rw [hrun 2, run_l, run_nil, ha, hp1, hmem, holds_imm31 cfg m.mem _ dst v h64 hseq]
    refine ⟨_, run_mono_le cfg env _ _ _ ?_ _ _ _ _ hfin, rfl, rfl, ?_, hmem⟩
    · rw [hc, List.length_append, List.length_singleton]; omega
    · show (m1.setReg r (setLo32 (m1.regs r) (unsignedOf M32 v))).regs r % ptrMod cfg = _
      rw [setReg_regs_self]
      simp only [ptrMod, h64, Bool.false_eq_true, if_false]
      rw [setLo32_mod, unsignedOf_mod_self]
  · have hc : getCode cfg p r s =
        (if cfg.emit_debug_code = true then opcodeCheck p s 0 0xC008 0 else []) ++
          ([Instr.l r ⟨p, r0, 2⟩, Instr.sllg r r 32] ++
            ((if cfg.emit_debug_code = true then opcodeCheck p s 6 0xC009 1 else []) ++
              [Instr.l r ⟨p, r0, 8⟩])) := by
      unfold getCode; rw [h64]; rfl
    obtain ⟨o1, o2⟩ := holds_opcode64 cfg m p dst v h64 hp0 hseq
    obtain ⟨i1, i2⟩ := holds_imm64 cfg m.mem _ dst v h64 hseq
    obtain ⟨n, m1, hn, hrun, hmem, hreg, -⟩ := run_optCheck cfg.emit_debug_code cfg env
      (getCode cfg p r s) ([Instr.l r ⟨p, r0, 2⟩, Instr.sllg r r 32] ++
            ((if cfg.emit_debug_code = true then opcodeCheck p s 6 0xC009 1 else []) ++
              [Instr.l r ⟨p, r0, 8⟩])) m [] p s 0 0xC008 0
      (fun hd => by rw [hc, hd]; rfl) (by decide) (fun _ => o1)
    have hp1 : m1.regs p = m.regs p := hreg p (Ne.symm hsp)
    have ha := effAddr_off cfg m1 p 2 hp0
    simp only [Nat.cast_ofNat] at ha
    rw [addr_of_regs cfg m1 m p hp1] at ha
    obtain ⟨m2, hm2⟩ : ∃ m2 : Machine, m2 = (m1.setReg r (setLo32 (m1.regs r)
        (readBytes cfg m1.mem (effAddr cfg m1 ⟨p, r0, 2⟩) 4))).setReg r
        (((m1.setReg r (setLo32 (m1.regs r)
          (readBytes cfg m1.mem (effAddr cfg m1 ⟨p, r0, 2⟩) 4))).regs r % M64) *
            2 ^ (unsignedOf 64 32) % M64) := ⟨_, rfl⟩
    have hm2mem : m2.mem = m.mem := by rw [hm2]; exact hmem
    have hm2p : m2.regs p = m.regs p := by
      rw [hm2, setReg_regs_ne _ _ _ _ (Ne.symm hrp), setReg_regs_ne _ _ _ _ (Ne.symm hrp), hp1]
    have hm2r : hi32 (m2.regs r) = unsignedOf M64 v / M32 := by
      rw [hm2, setReg_regs_self, setReg_regs_self, ha, hmem, i1]
      have hV : unsignedOf M64 v < M64 := unsignedOf_lt _ _ (by decide)
      have e32 : unsignedOf 64 32 = 32 := by decide
      rw [e32]
      generalize unsignedOf M64 v = V at hV
      simp only [setLo32, hi32, M32, M64] at *
      omega
    have o2b : Nat.land (readBytes cfg m2.mem (effAddr cfg m2 ⟨p, r0, 6⟩) 2) 0xFF0F =
        (0xC009 : Int).toNat := by
      have hb := effAddr_off cfg m2 p 6 hp0
      have hb0 := effAddr_off cfg m p 6 hp0
      simp only [Nat.cast_ofNat] at hb hb0
      rw [hb, hm2mem, addr_of_regs cfg m2 m p hm2p, ← hb0]
      exact o2
    obtain ⟨n3, m3, hn3, hrun3, hmem3, hreg3, hhi3⟩ := run_optCheck cfg.emit_debug_code cfg env
      (getCode cfg p r s) [Instr.l r ⟨p, r0, 8⟩] m2 [] p s 6 0xC009 1
      (fun hd => by rw [hc, hd]; rfl) (by decide) (fun _ => o2b)
    have hp3 : m3.regs p = m.regs p := by rw [hreg3 p (Ne.symm hsp), hm2p]
    have hc3 := effAddr_off cfg m3 p 8 hp0
    simp only [Nat.cast_ofNat] at hc3
    rw [addr_of_regs cfg m3 m p hp3] at hc3
    have hfin : run cfg env (getCode cfg p r s) (2 + n3 + 2 + n) (getCode cfg p r s) m [] =
        some ⟨.fallthrough, m3.setReg r (setLo32 (m3.regs r) (unsignedOf M64 v % M32)), []⟩ := by
      nth_rewrite 2 [hc]
      rw [hrun (2 + n3 + 2)]
      show run cfg env (getCode cfg p r s) (2 + n3 + 1 + 1)
        (Instr.l r ⟨p, r0, 2⟩ :: Instr.sllg r r 32 ::
          ((if cfg.emit_debug_code = true then opcodeCheck p s 6 0xC009 1 else []) ++
              [Instr.l r ⟨p, r0, 8⟩])) m1 [] = _
      rw [run_l, run_sllg, ← hm2, hrun3 2, run_l, run_nil, hc3, hmem3, hm2mem, i2]
    refine ⟨_, run_mono_le cfg env _ _ _ ?_ _ _ _ _ hfin, rfl, rfl, ?_, ?_⟩
    · rw [hc]
      simp only [List.length_append, List.length_cons, List.length_nil]
      omega
    · show (m3.setReg r (setLo32 (m3.regs r) (unsignedOf M64 v % M32))).regs r % ptrMod cfg = _
      rw [setReg_regs_self]
      simp only [ptrMod, h64, if_true]
      unfold setLo32
      rw [hhi3 r, hm2r]
      have hV : unsignedOf M64 v < M64 := unsignedOf_lt _ _ (by decide)
      generalize unsignedOf M64 v = V at hV
      simp only [M32, M64] at *
      omega
    · show (m3.setReg r _).mem = _
      rw [setReg_mem, hmem3, hm2mem]
theorem unsignedOf_toInt32_nat (W : Nat) :
    unsignedOf M32 (toInt32 ((W % M32 : Nat) : Int)) = W % M32 := by
  simp only [unsignedOf, toInt32, M32]
  omega

theorem holds_after_write31 (cfg : Config) (mem : Nat → Nat) (a : Nat) (dst : Register)
    (v0 : Int) (W : Nat) (h64 : cfg.is64 = false)
    (hseq : holdsBytes cfg mem a (movBytes cfg dst v0)) :
    holdsBytes cfg (writeBytes cfg mem ((a + 2) % addrMod cfg) 4 W) a
      (movBytes cfg dst ((W % M32 : Nat) : Int)) := by
  intro k hk
  have hk6 : k < 6 := by simpa [movBytes, encodeRIL, h64] using hk
  have hold := hseq k (by simpa [movBytes, encodeRIL, h64] using hk6)
  have w0 := wb4_at cfg mem a 2 W 0 (by decide)
  have w1 := wb4_at cfg mem a 2 W 1 (by decide)
  have w2 := wb4_at cfg mem a 2 W 2 (by decide)
  have w3 := wb4_at cfg mem a 2 W 3 (by decide)
  have n0 := wb4_ne cfg mem a 2 W 0 (by decide) (by decide) (by decide)
  have n1 := wb4_ne cfg mem a 2 W 1 (by decide) (by decide) (by decide)
  simp only [Nat.reduceAdd, Nat.reduceSub, Nat.reducePow, Nat.add_zero] at w0 w1 w2 w3 n0 n1
  simp only [movBytes, encodeRIL, h64, Bool.false_eq_true, if_false,
    unsignedOf_toInt32_nat] at hold ⊢
  have hW : W % M32 = W % 4294967296 := rfl
  rw [hW]
  interval_cases k
  all_goals simp only [List.getD_cons_zero, List.getD_cons_succ, Nat.add_zero] at hold ⊢
  · rw [n0]; exact hold
  · rw [n1]; exact hold
  · rw [w0]; omega
  · rw [w1]; omega
  · rw [w2]; omega
  · rw [w3]; omega
theorem unsignedOf_hi_nat (W : Nat) :
    unsignedOf M32 (toInt32 (toInt64 ((W % M64 : Nat) : Int) / 4294967296)) =
      W % 18446744073709551616 / 4294967296 := by
  simp only [unsignedOf, toInt32, toInt64, M32, M64]
  omega

theorem unsignedOf_lo_nat (W : Nat) :
    unsignedOf M32 (toInt32 (toInt64 ((W % M64 : Nat) : Int))) = W % 4294967296 := by
  simp only [unsignedOf, toInt32, toInt64, M32, M64]
  omega

theorem holds_after_write64 (cfg : Config) (mem : Nat → Nat) (a : Nat) (dst : Register)
    (v0 : Int) (W : Nat) (h64 : cfg.is64 = true)
    (hseq : holdsBytes cfg mem a (movBytes cfg dst v0)) :
    holdsBytes cfg
      (writeBytes cfg (writeBytes cfg mem ((a + 2) % addrMod cfg) 4
        (W % 18446744073709551616 / 4294967296)) ((a + 8) % addrMod cfg) 4 W) a
      (movBytes cfg dst ((W % M64 : Nat) : Int)) := by
  intro k hk
  have hk12 : k < 12 := by simpa [movBytes, encodeRIL, h64] using hk
  have hold := hseq k (by simpa [movBytes, encodeRIL, h64] using hk12)
  generalize hH : W % 18446744073709551616 / 4294967296 = H
  have hHlt : H < 4294967296 := by omega
  have w0 := wb4_at cfg mem a 2 H 0 (by decide)
  have w1 := wb4_at cfg mem a 2 H 1 (by decide)
  have w2 := wb4_at cfg mem a 2 H 2 (by decide)
  have w3 := wb4_at cfg mem a 2 H 3 (by decide)
  have n0 := wb4_ne cfg mem a 2 H 0 (by decide) (by decide) (by decide)
  have n1 := wb4_ne cfg mem a 2 H 1 (by decide) (by decide) (by decide)
  have n6 := wb4_ne cfg mem a 2 H 6 (by decide) (by decide) (by decide)
  have n7 := wb4_ne cfg mem a 2 H 7 (by decide) (by decide) (by decide)
  generalize writeBytes cfg mem ((a + 2) % addrMod cfg) 4 H = mem2 at *
  have x0 := wb4_at cfg mem2 a 8 W 0 (by decide)
  have x1 := wb4_at cfg mem2 a 8 W 1 (by decide)
  have x2 := wb4_at cfg mem2 a 8 W 2 (by decide)
  have x3 := wb4_at cfg mem2 a 8 W 3 (by decide)
  have y0 := wb4_ne cfg mem2 a 8 W 0 (by decide) (by decide) (by decide)
  have y1 := wb4_ne cfg mem2 a 8 W 1 (by decide) (by decide) (by decide)
  have y2 := wb4_ne cfg mem2 a 8 W 2 (by decide) (by decide) (by decide)
  have y3 := wb4_ne cfg mem2 a 8 W 3 (by decide) (by decide) (by decide)
  have y4 := wb4_ne cfg mem2 a 8 W 4 (by decide) (by decide) (by decide)
  have y5 := wb4_ne cfg mem2 a 8 W 5 (by decide) (by decide) (by decide)
  have y6 := wb4_ne cfg mem2 a 8 W 6 (by decide) (by decide) (by decide)
  have y7 := wb4_ne cfg mem2 a 8 W 7 (by decide) (by decide) (by decide)
  simp only [Nat.reduceAdd, Nat.reduceSub, Nat.reducePow, Nat.add_zero] at w0 w1 w2 w3 n0 n1 n6 n7
  simp only [Nat.reduceAdd, Nat.reduceSub, Nat.reducePow, Nat.add_zero] at x0 x1 x2 x3 y0 y1 y2 y3
  simp only [Nat.reduceAdd, Nat.reduceSub, Nat.reducePow, Nat.add_zero] at y4 y5 y6 y7
  simp only [movBytes, encodeRIL, h64, if_true, unsignedOf_hi_nat, unsignedOf_lo_nat, hH,
    List.cons_append, List.nil_append] at hold ⊢
  interval_cases k
  all_goals simp only [List.getD_cons_zero, List.getD_cons_succ, Nat.add_zero] at hold ⊢
  · rw [y0, n0]; exact hold
  · rw [y1, n1]; exact hold
  · rw [y2, w0]; omega
  · rw [y3, w1]; omega
  · rw [y4, w2]; omega
  · rw [y5, w3]; omega
  · rw [y6, n6]; exact hold
  · rw [y7, n7]; exact hold
  · rw [x0]; omega
  · rw [x1]; omega
  · rw [x2]; omega
  · rw [x3]; omega
/-- The code of `PatchRelocatedValue` rewrites the immediate fields of the
fixed sequence and nothing else. -/
theorem patchCode_patches (cfg : Config) (env : Env) (p s nv dst : Register) (v0 : Int)
    (m : Machine) (hp0 : p ≠ r0) (hsp : s ≠ p) (hsn : s ≠ nv)
    (hseq : holdsBytes cfg m.mem (m.addr cfg p) (movBytes cfg dst v0)) :
    ∃ f, exec cfg env (patchCode cfg p s nv) ((patchCode cfg p s nv).length + 1) m = some f ∧
      f.outcome = .fallthrough ∧ f.trace = [] ∧
      holdsBytes cfg f.machine.mem (m.addr cfg p) (movBytes cfg dst (m.regP cfg nv)) ∧
      (∀ x, (∀ k, k < (movBytes cfg dst v0).length → 2 ≤ k % 6 →
          x ≠ (m.addr cfg p + k) % addrMod cfg) → f.machine.mem x = m.mem x) ∧
      f.machine.regs p = m.regs p := by
  cases h64 : cfg.is64
  · have hc : patchCode cfg p s nv =
        (if cfg.emit_debug_code = true then opcodeCheck p s 0 0xC009 0 else []) ++
          [Instr.st nv ⟨p, r0, 2⟩] := by
      unfold patchCode; rw [h64]; rfl
    obtain ⟨n, m1, hn, hrun, hmem, hreg, -⟩ := run_optCheck cfg.emit_debug_code cfg env
      (patchCode cfg p s nv) [Instr.st nv ⟨p, r0, 2⟩] m [] p s 0 0xC009 0
      (fun hd => by rw [hc, hd]; rfl) (by decide)
      (fun _ => holds_opcode31 cfg m p dst v0 h64 hp0 hseq)
    have hp1 : m1.regs p = m.regs p := hreg p (Ne.symm hsp)
    have hn1 : m1.regs nv = m.regs nv := hreg nv (Ne.symm hsn)
    have ha := effAddr_off cfg m1 p 2 hp0
    simp only [Nat.cast_ofNat] at ha
    rw [addr_of_regs cfg m1 m p hp1] at ha
    have hfin : run cfg env (patchCode cfg p s nv) (2 + n) (patchCode cfg p s nv) m [] =
        some ⟨.fallthrough,
          m1.store cfg ((m.addr cfg p + 2) % addrMod cfg) 4 (m.regs nv), []⟩ := by
      nth_rewrite 2 [hc]
      rw [hrun 2, run_st, run_nil, ha, hn1]
    refine ⟨_, run_mono_le cfg env _ _ _ ?_ _ _ _ _ hfin, rfl, rfl, ?_, ?_, hp1⟩
    · rw [hc, List.length_append, List.length_singleton]; omega
    · show holdsBytes cfg (writeBytes cfg m1.mem _ 4 _) _ _
      rw [hmem]
      have := holds_after_write31 cfg m.mem (m.addr cfg p) dst v0 (m.regs nv) h64 hseq
      have e : m.regP cfg nv = m.regs nv % M32 := by
        simp only [Machine.regP, ptrMod, h64, Bool.false_eq_true, if_false]
      rw [e]
      exact this
    · intro x hx
      show writeBytes cfg m1.mem _ 4 _ x = _
      rw [hmem]
      apply writeBytes_of_ne
      intro i hi
      rw [mod_add_off]
      exact hx (2 + i) (by simp [movBytes, encodeRIL, h64]; omega) (by omega)
  · have hc : patchCode cfg p s nv =
        (if cfg.emit_debug_code = true then opcodeCheck p s 0 0xC008 0 else []) ++
          ([Instr.srlg s nv 32, Instr.st s ⟨p, r0, 2⟩] ++
            ((if cfg.emit_debug_code = true then opcodeCheck p s 6 0xC009 1 else []) ++
              [Instr.st nv ⟨p, r0, 8⟩])) := by
      unfold patchCode; rw [h64]; rfl
    obtain ⟨o1, o2⟩ := holds_opcode64 cfg m p dst v0 h64 hp0 hseq
    obtain ⟨n, m1, hn, hrun, hmem, hreg, -⟩ := run_optCheck cfg.emit_debug_code cfg env
      (patchCode cfg p s nv) ([Instr.srlg s nv 32, Instr.st s ⟨p, r0, 2⟩] ++
            ((if cfg.emit_debug_code = true then opcodeCheck p s 6 0xC009 1 else []) ++
              [Instr.st nv ⟨p, r0, 8⟩])) m [] p s 0 0xC008 0
      (fun hd => by rw [hc, hd]; rfl) (by decide) (fun _ => o1)
    have hp1 : m1.regs p = m.regs p := hreg p (Ne.symm hsp)
    have hn1 : m1.regs nv = m.regs nv := hreg nv (Ne.symm hsn)
    obtain ⟨m2, hm2⟩ : ∃ m2 : Machine, m2 =
        (m1.setReg s (m.regs nv % 18446744073709551616 / 4294967296)).store cfg
          ((m.addr cfg p + 2) % addrMod cfg) 4
          (m.regs nv % 18446744073709551616 / 4294967296) := ⟨_, rfl⟩
    have hstep : ∀ fuel rest, run cfg env (patchCode cfg p s nv) (fuel + 1 + 1)
        (Instr.srlg s nv 32 :: Instr.st s ⟨p, r0, 2⟩ :: rest) m1 [] =
        run cfg env (patchCode cfg p s nv) fuel rest m2 [] := by
      intro fuel rest
      have e1 : run cfg env (patchCode cfg p s nv) (fuel + 1 + 1)
          (Instr.srlg s nv 32 :: Instr.st s ⟨p, r0, 2⟩ :: rest) m1 [] =
          run cfg env (patchCode cfg p s nv) (fuel + 1) (Instr.st s ⟨p, r0, 2⟩ :: rest)
            (m1.setReg s ((m1.regs nv % M64) / 2 ^ (unsignedOf 64 32))) [] := rfl
      have ha := effAddr_off cfg (m1.setReg s ((m1.regs nv % M64) / 2 ^ (unsignedOf 64 32))) p 2 hp0
      simp only [Nat.cast_ofNat] at ha
      rw [addr_of_regs cfg _ m p
        ((setReg_regs_ne _ _ _ _ (Ne.symm hsp)).trans hp1)] at ha
      rw [e1, run_st, ha, setReg_regs_self, hn1, hm2]
      rfl
    have hm2mem : m2.mem = writeBytes cfg m.mem ((m.addr cfg p + 2) % addrMod cfg) 4
        (m.regs nv % 18446744073709551616 / 4294967296) := by
      rw [hm2, store_mem, setReg_mem, hmem]
    have hm2p : m2.regs p = m.regs p := by
      rw [hm2, store_regs, setReg_regs_ne _ _ _ _ (Ne.symm hsp), hp1]
    have hm2n : m2.regs nv = m.regs nv := by
      rw [hm2, store_regs, setReg_regs_ne _ _ _ _ (Ne.symm hsn), hn1]
    have o2b : Nat.land (readBytes cfg m2.mem (effAddr cfg m2 ⟨p, r0, 6⟩) 2) 0xFF0F =
        (0xC009 : Int).toNat := by
      have hb := effAddr_off cfg m2 p 6 hp0
      have hb0 := effAddr_off cfg m p 6 hp0
      simp only [Nat.cast_ofNat] at hb hb0
      rw [hb, hm2mem, addr_of_regs cfg m2 m p hm2p,
        readBytes_writeBytes_disjoint cfg m.mem _ _ 4 2 _ (fun i hi j hj => by
          rw [mod_add_off, mod_add_off]
          have hM := addrMod_ge cfg
          exact (add_mod_ne_of_lt _ _ (2 + j) (6 + i) (by omega) (by omega)).symm),
        ← hb0]
      exact o2
    obtain ⟨n3, m3, hn3, hrun3, hmem3, hreg3, -⟩ := run_optCheck cfg.emit_debug_code cfg env
      (patchCode cfg p s nv) [Instr.st nv ⟨p, r0, 8⟩] m2 [] p s 6 0xC009 1
      (fun hd => by rw [hc, hd]; rfl) (by decide) (fun _ => o2b)
    have hp3 : m3.regs p = m.regs p := by rw [hreg3 p (Ne.symm hsp), hm2p]
    have hn3b : m3.regs nv = m.regs nv := by rw [hreg3 nv (Ne.symm hsn), hm2n]
    have hc3 := effAddr_off cfg m3 p 8 hp0
    simp only [Nat.cast_ofNat] at hc3
    rw [addr_of_regs cfg m3 m p hp3] at hc3
    have hfin : run cfg env (patchCode cfg p s nv) (2 + n3 + 2 + n) (patchCode cfg p s nv) m [] =
        some ⟨.fallthrough,
          m3.store cfg ((m.addr cfg p + 8) % addrMod cfg) 4 (m.regs nv), []⟩ := by
      nth_rewrite 2 [hc]
      rw [hrun (2 + n3 + 2)]
      show run cfg env (patchCode cfg p s nv) (2 + n3 + 1 + 1)
        (Instr.srlg s nv 32 :: Instr.st s ⟨p, r0, 2⟩ ::
          ((if cfg.emit_debug_code = true then opcodeCheck p s 6 0xC009 1 else []) ++
              [Instr.st nv ⟨p, r0, 8⟩])) m1 [] = _
      rw [hstep, hrun3 2, run_st, run_nil, hc3, hn3b]
    refine ⟨_, run_mono_le cfg env _ _ _ ?_ _ _ _ _ hfin, rfl, rfl, ?_, ?_, hp3⟩
    · rw [hc]
      simp only [List.length_append, List.length_cons, List.length_nil]
      omega
    · show holdsBytes cfg (writeBytes cfg m3.mem _ 4 _) _ _
      rw [hmem3, hm2mem]
      have := holds_after_write64 cfg m.mem (m.addr cfg p) dst v0 (m.regs nv) h64 hseq
      have e : m.regP cfg nv = m.regs nv % M64 := by
        simp only [Machine.regP, ptrMod, h64, if_true]
      rw [e]
      exact this
    · intro x hx
      show writeBytes cfg m3.mem _ 4 _ x = _
      rw [hmem3, hm2mem]
      rw [writeBytes_of_ne cfg _ _ x 4 _ (fun i hi => by
          rw [mod_add_off]
          exact hx (8 + i) (by simp [movBytes, encodeRIL, h64]; omega) (by omega)),
        writeBytes_of_ne cfg _ _ x 4 _ (fun i hi => by
          rw [mod_add_off]
          exact hx (2 + i) (by simp [movBytes, encodeRIL, h64]; omega) (by omega))]
/-- C38: on a big-endian host, for a patch location `p` that holds the fixed
sequence of `mov` (`IIHF` and `IILF` on the 64-bit target, `IILF` on the 31-bit
target, for any register and immediate), the code of `PatchRelocatedValue`
falls through and leaves at `p` the sequence of `mov` of the same register
with the immediate `new_value`; every byte other than bytes 2..5 of each
six-byte instruction, the opcode bytes among them, is as before; the code of
`GetRelocatedValueLocation` run next leaves `new_value` in the result
register; and run on the unpatched location it leaves the immediate that `mov`
wrote there. -/
theorem PatchRelocatedValue_GetRelocatedValueLocation (cfg : Config) (env : Env) (m : Machine)
    (p s nv r gs dst : Register) (v0 : Int) (frame : Bool) (cP cG : List Instr)
    (hle : cfg.little_endian_host = false)
    (hp0 : p ≠ r0) (hsp : s ≠ p) (hsn : s ≠ nv) (hrp : r ≠ p) (hgp : gs ≠ p)
    (hseq : holdsBytes cfg m.mem (m.addr cfg p) (movBytes cfg dst v0))
    (hcP : codeOf (PatchRelocatedValue cfg p s nv) frame = some cP)
    (hcG : codeOf (GetRelocatedValueLocation cfg p r gs) frame = some cG) :
    (∃ f, exec cfg env cP (cP.length + 1) m = some f ∧ f.outcome = .fallthrough ∧
      holdsBytes cfg f.machine.mem (m.addr cfg p) (movBytes cfg dst (m.regP cfg nv)) ∧
      (∀ x, (∀ k, k < (movBytes cfg dst v0).length → 2 ≤ k % 6 →
          x ≠ (m.addr cfg p + k) % addrMod cfg) → f.machine.mem x = m.mem x) ∧
      ∃ g, exec cfg env cG (cG.length + 1) f.machine = some g ∧ g.outcome = .fallthrough ∧
        g.machine.regP cfg r = m.regP cfg nv) ∧
    (∃ g, exec cfg env cG (cG.length + 1) m = some g ∧ g.outcome = .fallthrough ∧
      g.machine.regP cfg r = unsignedOf (ptrMod cfg) v0) := by
  have hP := PatchRelocatedValue_run cfg p s nv hle frame cP hcP
  have hG := GetRelocatedValueLocation_run cfg p r gs hle frame cG hcG
  subst hP
  subst hG
  constructor
  · obtain ⟨f, h1, h2, -, h4, h5, h6⟩ := patchCode_patches cfg env p s nv dst v0 m hp0 hsp hsn hseq
    have h4b : holdsBytes cfg f.machine.mem (f.machine.addr cfg p)
        (movBytes cfg dst (m.regP cfg nv)) := by
      rw [addr_of_regs cfg f.machine m p h6]; exact h4
    obtain ⟨g, g1, g2, -, g4, -⟩ := getCode_reads cfg env p r gs dst _ f.machine hp0 hrp hgp h4b
    refine ⟨f, h1, h2, h4, h5, g, g1, g2, ?_⟩
    rw [g4]
    unfold unsignedOf
    rw [← Int.natCast_mod, Int.toNat_natCast]
    exact regP_mod_ptr cfg m nv
  · obtain ⟨g, g1, g2, -, g4, -⟩ := getCode_reads cfg env p r gs dst v0 m hp0 hrp hgp hseq
    exact ⟨g, g1, g2, g4⟩

/-- C38 on concrete input: the 64-bit target with debug code, the location 4096
holding `mov(r5, 0x1122334455667788)`, patched with `r4`. -/
theorem PatchRelocatedValue_GetRelocatedValueLocation_witness :
    (∃ f, exec ⟨true, false, false, true, true, false, true⟩ sampleEnv
        (patchCode ⟨true, false, false, true, true, false, true⟩ r3 r6 r4)
        ((patchCode ⟨true, false, false, true, true, false, true⟩ r3 r6 r4).length + 1)
        patchMachine = some f ∧ f.outcome = .fallthrough ∧
      holdsBytes ⟨true, false, false, true, true, false, true⟩ f.machine.mem
        (patchMachine.addr ⟨true, false, false, true, true, false, true⟩ r3)
        (movBytes ⟨true, false, false, true, true, false, true⟩ r5
          (patchMachine.regP ⟨true, false, false, true, true, false, true⟩ r4)) ∧
      (∀ x, (∀ k, k < (movBytes ⟨true, false, false, true, true, false, true⟩ r5
            1234605616436508552).length → 2 ≤ k % 6 →
          x ≠ (patchMachine.addr ⟨true, false, false, true, true, false, true⟩ r3 + k) %
            addrMod ⟨true, false, false, true, true, false, true⟩) →
        f.machine.mem x = patchMachine.mem x) ∧
      ∃ g, exec ⟨true, false, false, true, true, false, true⟩ sampleEnv
          (getCode ⟨true, false, false, true, true, false, true⟩ r3 r2 r7)
          ((getCode ⟨true, false, false, true, true, false, true⟩ r3 r2 r7).length + 1)
          f.machine = some g ∧ g.outcome = .fallthrough ∧
        g.machine.regP ⟨true, false, false, true, true, false, true⟩ r2 =
          patchMachine.regP ⟨true, false, false, true, true, false, true⟩ r4) ∧
    (∃ g, exec ⟨true, false, false, true, true, false, true⟩ sampleEnv
        (getCode ⟨true, false, false, true, true, false, true⟩ r3 r2 r7)
        ((getCode ⟨true, false, false, true, true, false, true⟩ r3 r2 r7).length + 1)
        patchMachine = some g ∧ g.outcome = .fallthrough ∧
      g.machine.regP ⟨true, false, false, true, true, false, true⟩ r2 =
        unsignedOf (ptrMod ⟨true, false, false, true, true, false, true⟩) 1234605616436508552) :=
  PatchRelocatedValue_GetRelocatedValueLocation ⟨true, false, false, true, true, false, true⟩
    sampleEnv patchMachine r3 r6 r4 r2 r7 r5 1234605616436508552 false _ _
    (by decide) (by decide) (by decide) (by decide) (by decide) (by decide) (by decide) rfl rfl

theorem ShiftRight_run (cfg : Config) (dst src : Register) (n : Int) (st : Asm) :
    (ShiftRight cfg dst src (Operand.ofInt n)).run st =
      ((), { st with code := st.code ++ shift32Code false cfg.distinct_ops dst src n,
                     failed := st.failed ||
                       !((shift32Code false cfg.distinct_ops dst src n).all Instr.encodable) }) := by
  unfold ShiftRight shift32Code
  by_cases h : dst = src <;> cases hd : cfg.distinct_ops <;>
    simp [h, hd, Operand.ofInt, Bool.or_assoc, Bool.not_and]

theorem ShiftLeft_run (cfg : Config) (dst src : Register) (n : Int) (st : Asm) :
    (ShiftLeft cfg dst src (Operand.ofInt n)).run st =
      ((), { st with code := st.code ++ shift32Code true cfg.distinct_ops dst src n,
                     failed := st.failed ||
                       !((shift32Code true cfg.distinct_ops dst src n).all Instr.encodable) }) := by
  unfold ShiftLeft shift32Code
  by_cases h : dst = src <;> cases hd : cfg.distinct_ops <;>
    simp [h, hd, Operand.ofInt, Bool.or_assoc, Bool.not_and]

theorem NotP_run (cfg : Config) (dst : Register) (st : Asm) :
    (NotP cfg dst).run st =
      ((), { st with code := st.code ++ notCode cfg dst,
                     failed := st.failed || !((notCode cfg dst).all Instr.encodable) }) := by
  unfold NotP notCode Not32 XorP_Operand Xor_Operand
  cases h64 : cfg.is64 <;> simp [h64, Operand.ofInt, Bool.or_assoc, Bool.not_and]
theorem GetNumberHash_code (cfg : Config) (heap : Heap) (t0 scratch : Register) (frame : Bool)
    (c : List Instr)
    (hfit : is_int20 (heap.kHashSeedRootIndex * 2 ^ kPointerSizeLog2 cfg) = true)
    (hcode : codeOf (GetNumberHash cfg heap t0 scratch) frame = some c) :
    c = hashCode cfg heap t0 scratch := by
  have e : ((GetNumberHash cfg heap t0 scratch).run ⟨[], 0, frame, false⟩).2.code =
      hashCode cfg heap t0 scratch := by
    have hl := fun st => LoadP_run_fits cfg scratch kRootRegister r0
      (heap.kHashSeedRootIndex * 2 ^ kPointerSizeLog2 cfg) r0 st hfit
    simp only [GetNumberHash, LoadRoot, MemOperand.mk1, hl, SmiUntag_run, XorP_Register_emits,
      LoadRR_emits, NotP_run, AddP_Register_Register_code, ShiftRight_run, ShiftLeft_run,
      hashCode, Emit.run_bind_eq, Emit.run_pure, run_emit, List.append_assoc, List.nil_append,
      List.singleton_append, List.cons_append]
    simp [ASSERT]
  unfold codeOf at hcode
  rw [← e]
  exact (code_of_ite hcode).1
theorem xor_mod_two_pow (a b n : Nat) :
    Nat.xor a b % 2 ^ n = Nat.xor (a % 2 ^ n) (b % 2 ^ n) := by
  show (a ^^^ b) % 2 ^ n = (a % 2 ^ n) ^^^ (b % 2 ^ n)
  apply Nat.eq_of_testBit_eq
  intro i
  simp only [Nat.testBit_mod_two_pow, Nat.testBit_xor]
  by_cases h : i < n <;> simp [h]

theorem xor_low (a b : Nat) : Nat.xor (a % M64) (b % M64) % M32 = Nat.xor (a % M32) (b % M32) := by
  have h := xor_mod_two_pow (a % M64) (b % M64) 32
  have e : ∀ x : Nat, x % M64 % 2 ^ 32 = x % M32 := by
    intro x; simp only [M64, M32]; omega
  rw [e, e] at h
  exact h

theorem xor_mod_M32 (a b : Nat) : Nat.xor (a % M32) (b % M32) % M32 = Nat.xor (a % M32) (b % M32) := by
  have h := xor_mod_two_pow (a % M32) (b % M32) 32
  have e : ∀ x : Nat, x % M32 % 2 ^ 32 = x % M32 := by
    intro x; simp only [M32]; omega
  rw [e, e] at h
  exact h

/-- The low words after an exclusive OR of two registers. -/
theorem lo_xor (cfg : Config) (m : Machine) (w : Bool) (d s : Register) :
    (runStraight cfg [alu2 AluKind.xor w d s] m).low M32 =
      setLow (m.low M32) d (Nat.xor (m.low M32 d) (m.low M32 s)) := by
  funext x
  show ((alu2 AluKind.xor w d s).effect cfg m).regs x % M32 = _
  rw [regs_alu2, setLow_apply]
  dsimp only
  by_cases hx : x = d
  · rw [if_pos hx, if_pos hx]
    cases w
    · show setLo32 _ (Nat.xor (m.regs d % M32) (m.regs s % M32)) % M32 = _
      rw [setLo32_mod]; exact xor_mod_M32 _ _
    · exact xor_low _ _
  · rw [if_neg hx, if_neg hx]; rfl

/-- The low words after a register copy. -/
theorem lo_copy (cfg : Config) (m : Machine) (w : Bool) (d s : Register) :
    (runStraight cfg [copyRR w d s] m).low M32 = setLow (m.low M32) d (m.low M32 s) := by
  funext x
  show ((copyRR w d s).effect cfg m).regs x % M32 = _
  rw [regs_copyRR, setLow_apply]
  dsimp only
  by_cases hx : x = d
  · rw [if_pos hx, if_pos hx]
    cases w
    · show setLo32 _ (m.regs s % M32) % M32 = _
      rw [setLo32_mod, Nat.mod_mod]; rfl
    · show m.regs s % M64 % M32 = m.regs s % M32
      simp only [M64, M32]; omega
  · rw [if_neg hx, if_neg hx]; rfl

/-- The low words after an addition of two registers. -/
theorem lo_add (cfg : Config) (m : Machine) (w distinct : Bool) (d s1 s2 : Register) :
    (runStraight cfg (threeRegisterCode AluKind.add w distinct d s1 s2) m).low M32 =
      setLow (m.low M32) d ((m.low M32 s1 + m.low M32 s2) % M32) := by
  obtain ⟨h1, h2⟩ := run_threeRegisterCode cfg m AluKind.add w distinct d s1 s2
  funext x
  rw [setLow_apply]
  by_cases hx : x = d
  · rw [if_pos hx, hx]
    show (runStraight cfg (threeRegisterCode AluKind.add w distinct d s1 s2) m).regs d % M32 =
      (m.regs s1 % M32 + m.regs s2 % M32) % M32
    generalize (runStraight cfg (threeRegisterCode AluKind.add w distinct d s1 s2) m).regs d = R
      at h1
    cases w
    · simp only [widthModulus, Bool.false_eq_true, if_false, AluKind.apply, M32] at h1 ⊢
      omega
    · simp only [widthModulus, if_true, AluKind.apply, M32, M64] at h1 ⊢
      omega
  · rw [if_neg hx]
    show (runStraight cfg (threeRegisterCode AluKind.add w distinct d s1 s2) m).regs x % M32 = _
    rw [h2 x hx]; rfl

/-- The low words after the complement. -/
theorem lo_not (cfg : Config) (m : Machine) (d : Register) :
    (runStraight cfg (notCode cfg d) m).low M32 =
      setLow (m.low M32) d (Nat.xor (m.low M32 d) 0xFFFFFFFF) := by
  funext x
  rw [setLow_apply]
  unfold notCode
  cases cfg.is64
  · simp only [Bool.false_eq_true, if_false]
    show (xor32 m d (m.regs d) (unsignedOf M32 0xFFFFFFFF)).regs x % M32 = _
    simp only [xor32, setCC_regs, setReg_regs]
    by_cases hx : x = d
    · rw [if_pos hx, if_pos hx, setLo32_mod, xor_mod_M32]; rfl
    · rw [if_neg hx, if_neg hx]; rfl
  · simp only [if_true]
    have e : (runStraight cfg [Instr.xihf d 0xFFFFFFFF, Instr.xilf d 0xFFFFFFFF] m).regs =
        (xor32 ((m.setReg d (setHi32 (m.regs d)
            (Nat.xor (hi32 (m.regs d)) (unsignedOf M32 0xFFFFFFFF)))).setCC
              (logicCC (Nat.xor (hi32 (m.regs d)) (unsignedOf M32 0xFFFFFFFF)))) d
          (((m.setReg d (setHi32 (m.regs d)
            (Nat.xor (hi32 (m.regs d)) (unsignedOf M32 0xFFFFFFFF)))).setCC
              (logicCC (Nat.xor (hi32 (m.regs d)) (unsignedOf M32 0xFFFFFFFF)))).regs d)
          (unsignedOf M32 0xFFFFFFFF)).regs := rfl
    show (runStraight cfg [Instr.xihf d 0xFFFFFFFF, Instr.xilf d 0xFFFFFFFF] m).regs x % M32 = _
    rw [e]
    simp only [xor32, setCC_regs, setReg_regs]
    by_cases hx : x = d
    · simp only [if_pos hx, if_true]
      rw [setLo32_mod, xor_mod_M32]
      have h2 : ∀ y, setHi32 (m.regs d) y % M32 = m.regs d % M32 := by
        intro y; simp only [setHi32, lo32, M32]; omega
      rw [h2]
      rfl
    · simp only [if_neg hx]; rfl

/-- The low words after a 32-bit shift by `n < 32`. -/
theorem lo_shift (cfg : Config) (m : Machine) (left distinct : Bool) (d s : Register) (n : Nat)
    (hn : n < 64) :
    (runStraight cfg (shift32Code left distinct d s (n : Int)) m).low M32 =
      setLow (m.low M32) d
        (if left then m.low M32 s * 2 ^ n % M32 else m.low M32 s / 2 ^ n) := by
  have hk := unsignedOf_64_nat n hn
  have hdiv : ∀ a : Nat, a % M32 / 2 ^ n % M32 = a % M32 / 2 ^ n := by
    intro a
    apply Nat.mod_eq_of_lt
    exact lt_of_le_of_lt (Nat.div_le_self _ _) (Nat.mod_lt _ (by decide))
  funext x
  rw [setLow_apply]
  unfold shift32Code
  by_cases hds : d = s
  · subst hds
    rw [if_pos rfl]
    cases left
    · show (m.setReg d (setLo32 (m.regs d) (lo32 (m.regs d) / 2 ^ (unsignedOf 64 (n : Int))))).regs x %
        M32 = _
      rw [hk, setReg_regs]
      by_cases hx : x = d
      · rw [if_pos hx, if_pos hx, setLo32_mod]; exact hdiv _
      · rw [if_neg hx, if_neg hx]; rfl
    · show (m.setReg d (setLo32 (m.regs d) (lo32 (m.regs d) * 2 ^ (unsignedOf 64 (n : Int))))).regs x %
        M32 = _
      rw [hk, setReg_regs]
      by_cases hx : x = d
      · rw [if_pos hx, if_pos hx, setLo32_mod]; rfl
      · rw [if_neg hx, if_neg hx]; rfl
  · rw [if_neg hds]
    cases distinct
    · simp only [Bool.false_eq_true, if_false]
      cases left
      · show ((m.setReg d (setLo32 (m.regs d) (m.regs s))).setReg d
          (setLo32 ((m.setReg d (setLo32 (m.regs d) (m.regs s))).regs d)
            (lo32 ((m.setReg d (setLo32 (m.regs d) (m.regs s))).regs d) /
              2 ^ (unsignedOf 64 (n : Int))))).regs x % M32 = _
        rw [hk, setReg_regs, setReg_regs_self]
        by_cases hx : x = d
        · rw [if_pos hx, if_pos hx, setLo32_mod]
          unfold lo32
          rw [setLo32_mod]
          exact hdiv _
        · rw [if_neg hx, if_neg hx, setReg_regs_ne _ _ _ _ hx]; rfl
      · show ((m.setReg d (setLo32 (m.regs d) (m.regs s))).setReg d
          (setLo32 ((m.setReg d (setLo32 (m.regs d) (m.regs s))).regs d)
            (lo32 ((m.setReg d (setLo32 (m.regs d) (m.regs s))).regs d) *
              2 ^ (unsignedOf 64 (n : Int))))).regs x % M32 = _
        rw [hk, setReg_regs, setReg_regs_self]
        by_cases hx : x = d
        · rw [if_pos hx, if_pos hx, setLo32_mod]
          unfold lo32
          rw [setLo32_mod]
          rfl
        · rw [if_neg hx, if_neg hx, setReg_regs_ne _ _ _ _ hx]; rfl
    · simp only [if_true]
      cases left
      · show (m.setReg d (setLo32 (m.regs d) (lo32 (m.regs s) / 2 ^ (unsignedOf 64 (n : Int))))).regs x %
          M32 = _
        rw [hk, setReg_regs]
        by_cases hx : x = d
        · rw [if_pos hx, if_pos hx, setLo32_mod]; exact hdiv _
        · rw [if_neg hx, if_neg hx]; rfl
      · show (m.setReg d (setLo32 (m.regs d) (lo32 (m.regs s) * 2 ^ (unsignedOf 64 (n : Int))))).regs x %
          M32 = _
        rw [hk, setReg_regs]
        by_cases hx : x = d
        · rw [if_pos hx, if_pos hx, setLo32_mod]; rfl
        · rw [if_neg hx, if_neg hx]; rfl
theorem lo_sll (cfg : Config) (m : Machine) (d : Register) (n : Nat) (hn : n < 64) :
    (runStraight cfg [Instr.sll d (n : Int)] m).low M32 =
      setLow (m.low M32) d (m.low M32 d * 2 ^ n % M32) := by
  have h := lo_shift cfg m true false d d n hn
  simpa [shift32Code] using h

/-- The low words after the load and untagging of the hash seed. -/
theorem lo_seed (cfg : Config) (heap : Heap) (m : Machine) (s : Register) :
    (runStraight cfg (untagCode cfg s s)
      (runStraight cfg
        [ldP cfg s ⟨kRootRegister, r0, heap.kHashSeedRootIndex * 2 ^ kPointerSizeLog2 cfg⟩]
        m)).low M32 =
      setLow (m.low M32) s (hashSeed cfg heap m) := by
  have h := runStraight_untag cfg s s [] (runStraight cfg
    [ldP cfg s ⟨kRootRegister, r0, heap.kHashSeedRootIndex * 2 ^ kPointerSizeLog2 cfg⟩] m)
  rw [List.append_nil, runStraight_nil] at h
  rw [h, runStraight_cons, runStraight_nil, effect_ldP,
    effAddr_disp cfg m kRootRegister _ (by decide), regP_setRegP_self, loadPtr_mod_ptr]
  funext x
  show ((_ : Machine).setCC _).regs x % M32 = _
  rw [setCC_regs, setRegP_regs, setLow_apply]
  dsimp only
  by_cases hx : x = s
  · rw [if_pos hx, if_pos hx]
    unfold hashSeed rootSlot
    generalize unsignedOf (ptrMod cfg) _ = V
    cases cfg.is64
    · simp only [Bool.false_eq_true, if_false]; exact setLo32_mod _ _
    · simp only [if_true, M64, M32]; omega
  · rw [if_neg hx, if_neg hx, setRegP_regs_ne cfg _ _ _ _ hx]; rfl

theorem isStraight_shift32Code (left distinct : Bool) (d s : Register) (n : Int) :
    ∀ i ∈ shift32Code left distinct d s n, i.isStraight = true := by
  intro i hi
  unfold shift32Code at hi
  split at hi
  · rw [List.mem_singleton] at hi; subst hi; cases left <;> rfl
  · split at hi
    · rw [List.mem_singleton] at hi; subst hi; cases left <;> rfl
    · simp only [List.mem_cons, List.mem_singleton, List.not_mem_nil, or_false] at hi
      rcases hi with rfl | rfl
      · rfl
      · cases left <;> rfl

theorem isStraight_notCode (cfg : Config) (d : Register) :
    ∀ i ∈ notCode cfg d, i.isStraight = true := by
  intro i hi
  unfold notCode at hi
  split at hi
  · simp only [List.mem_cons, List.mem_singleton, List.not_mem_nil, or_false] at hi
    rcases hi with rfl | rfl <;> rfl
  · rw [List.mem_singleton] at hi; subst hi; rfl

theorem isStraight_single (i : Instr) (h : i.isStraight = true) :
    ∀ j ∈ [i], j.isStraight = true := by
  intro j hj; rw [List.mem_singleton] at hj; subst hj; exact h

theorem isStraight_hashCode (cfg : Config) (heap : Heap) (t0 scratch : Register) :
    ∀ i ∈ hashCode cfg heap t0 scratch, i.isStraight = true := by
  unfold hashCode
  repeat' first
    | apply straight_append
    | exact isStraight_single _ (isStraight_ldP _ _ _)
    | exact isStraight_single _ (isStraight_alu2 _ _ _ _)
    | exact isStraight_single _ (isStraight_copyRR _ _ _)
    | exact isStraight_single _ rfl
    | exact isStraight_untagCode _ _ _
    | exact isStraight_notCode _ _
    | exact isStraight_shift32Code _ _ _ _ _
    | exact (threeRegisterCode_facts _ _ _ _ _ _).1

theorem hash_2057 (h : Nat) : h + h * 2 ^ 3 + h * 2 ^ 11 = h * 2057 := by ring

/-- The low word of `t0` after the code of `GetNumberHash`. -/
theorem hashCode_low (cfg : Config) (heap : Heap) (m : Machine) (t0 scratch : Register)
    (hts : t0 ≠ scratch) (ht0 : t0 ≠ r0) (hs0 : scratch ≠ r0) :
    (runStraight cfg (hashCode cfg heap t0 scratch) m).low M32 t0 =
      ComputeIntegerHash (m.low M32 t0) (hashSeed cfg heap m) := by
  have h15 := fun mm => lo_sll cfg mm t0 15 (by decide)
  have hr12 := fun mm => lo_shift cfg mm false cfg.distinct_ops scratch t0 12 (by decide)
  have hr4 := fun mm => lo_shift cfg mm false cfg.distinct_ops scratch t0 4 (by decide)
  have hr16 := fun mm => lo_shift cfg mm false cfg.distinct_ops scratch t0 16 (by decide)
  have hl2 := fun mm => lo_shift cfg mm true cfg.distinct_ops scratch t0 2 (by decide)
  have hl3 := fun mm => lo_shift cfg mm true cfg.distinct_ops scratch t0 3 (by decide)
  have hl11 := fun mm => lo_shift cfg mm true cfg.distinct_ops scratch r0 11 (by decide)
  simp only [Nat.cast_ofNat] at h15 hr12 hr4 hr16 hl2 hl3 hl11
  unfold hashCode
  simp only [runStraight_append]
  simp only [lo_xor, lo_copy, lo_add, lo_not, lo_seed, h15, hr12, hr4, hr16, hl2, hl3, hl11]
  simp only [setLow_apply, hts, ht0, hs0, Ne.symm hts, Ne.symm ht0, Ne.symm hs0, if_true,
    if_false, Bool.false_eq_true]
  have e1 : m.low M32 t0 % M32 = m.low M32 t0 := Nat.mod_mod _ _
  have e2 : hashSeed cfg heap m % M32 = hashSeed cfg heap m := Nat.mod_mod _ _
  unfold ComputeIntegerHash
  rw [e1, e2]
  generalize Nat.xor (m.low M32 t0) (hashSeed cfg heap m) = h0
  simp only [Nat.add_mod_mod, Nat.mod_add_mod, hash_2057]
/-- C35: on both targets, for every machine state, the code of
`GetNumberHash(t0, scratch)` (registers `t0`, `scratch` and `r0` distinct) falls
through with the low 32 bits of `t0` equal to `ComputeIntegerHash(k, s)`, where
`k` is the low word of `t0` before and `s` the low word of the untagged hash
seed of the root list. -/
theorem GetNumberHash_spec (cfg : Config) (heap : Heap) (env : Env) (m : Machine)
    (t0 scratch : Register) (frame : Bool) (c : List Instr)
    (hts : t0 ≠ scratch) (ht0 : t0 ≠ r0) (hs0 : scratch ≠ r0)
    (hfit : is_int20 (heap.kHashSeedRootIndex * 2 ^ kPointerSizeLog2 cfg) = true)
    (hcode : codeOf (GetNumberHash cfg heap t0 scratch) frame = some c) :
    ∃ f, exec cfg env c (c.length + 1) m = some f ∧ f.outcome = .fallthrough ∧
      f.machine.regs t0 % M32 =
        ComputeIntegerHash (m.regs t0 % M32) (hashSeed cfg heap m) := by
  have hc := GetNumberHash_code cfg heap t0 scratch frame c hfit hcode
  subst hc
  exact ⟨_, exec_of_straight cfg env _ (isStraight_hashCode cfg heap t0 scratch) m, rfl,
    hashCode_low cfg heap m t0 scratch hts ht0 hs0⟩

/-- C35 on concrete input: the 64-bit target, key 12345 in `r2`, seed 7. -/
theorem GetNumberHash_spec_witness :
    ∃ c, codeOf (GetNumberHash cfg64 ⟨1, 2⟩ r2 r3) false = some c ∧
      ∃ f, exec cfg64 sampleEnv c (c.length + 1) hashMachine = some f ∧
        f.outcome = .fallthrough ∧
        f.machine.regs r2 % M32 =
          ComputeIntegerHash (hashMachine.regs r2 % M32) (hashSeed cfg64 ⟨1, 2⟩ hashMachine) :=
  ⟨_, rfl, GetNumberHash_spec cfg64 ⟨1, 2⟩ sampleEnv hashMachine r2 r3 false _
    (by decide) (by decide) (by decide) (by decide) rfl⟩

theorem LoadlW_run_fits (cfg : Config) (dst rb : Register) (off : Int) (st : Asm)
    (h : is_int20 off = true) :
    (LoadlW cfg dst ⟨rb, r0, off⟩ no_reg).run st = (emit (loadlW cfg dst ⟨rb, r0, off⟩)).run st := by
  unfold LoadlW loadlW
  cases cfg.is64 <;> by_cases h12 : is_uint12 off = true <;> simp [h, h12]

theorem ShiftRightP_run (cfg : Config) (dst src : Register) (n : Int) (st : Asm) :
    (ShiftRightP cfg dst src ⟨n, RelocMode.NONE⟩).run st =
      ((), { st with code := st.code ++ shiftPCode cfg false dst src n,
                     failed := st.failed ||
                       !((shiftPCode cfg false dst src n).all Instr.encodable) }) := by
  unfold ShiftRightP shiftPCode
  cases h64 : cfg.is64
  · simp only [Bool.false_eq_true, if_false]; exact ShiftRight_run cfg dst src n st
  · simp [Operand.ofInt]

theorem ShiftLeftP_run (cfg : Config) (dst src : Register) (n : Int) (st : Asm) :
    (ShiftLeftP cfg dst src ⟨n, RelocMode.NONE⟩).run st =
      ((), { st with code := st.code ++ shiftPCode cfg true dst src n,
                     failed := st.failed ||
                       !((shiftPCode cfg true dst src n).all Instr.encodable) }) := by
  unfold ShiftLeftP shiftPCode
  cases h64 : cfg.is64
  · simp only [Bool.false_eq_true, if_false]; exact ShiftLeft_run cfg dst src n st
  · simp [Operand.ofInt]

theorem ExtractBitRange_code (cfg : Config) (dst src : Register) (hi lo : Int) (st : Asm) :
    ((ExtractBitRange cfg dst src hi lo).run st).2.code = st.code ++ extractCode cfg dst src hi lo := by
  unfold ExtractBitRange extractCode
  cases hg : cfg.general_instr_ext
  · by_cases h1 : lo > 0
    · simp [ASSERT, h1, ShiftRightP_run, AndP_Operand_run, Operand.ofInt]
    · by_cases h2 : dst = src
      · simp [ASSERT, h1, h2, AndP_Operand_run, Operand.ofInt]
      · simp [ASSERT, h1, h2, AndP_Operand_run, Operand.ofInt, LoadRR, lrP]
  · simp [ASSERT]

theorem ExtractBitRange_labels (cfg : Config) (dst src : Register) (hi lo : Int) (st : Asm) :
    ((ExtractBitRange cfg dst src hi lo).run st).2.labels = st.labels := by
  unfold ExtractBitRange
  cases hg : cfg.general_instr_ext
  · by_cases h1 : lo > 0
    · simp [ASSERT, h1, ShiftRightP_run, AndP_Operand_run, Operand.ofInt]
    · by_cases h2 : dst = src
      · simp [ASSERT, h1, h2, AndP_Operand_run, Operand.ofInt]
      · simp [ASSERT, h1, h2, AndP_Operand_run, Operand.ofInt, LoadRR, lrP]
  · simp [ASSERT]
theorem GetMarkBits_code (cfg : Config) (iso : Isolate) (a bm mk : Register) (st : Asm)
    (hmi : mk ≠ ip) :
    ((GetMarkBits cfg iso a bm mk).run st).2.code = st.code ++ markBitsCode cfg iso a bm mk ∧
    ((GetMarkBits cfg iso a bm mk).run st).2.labels = st.labels := by
  unfold GetMarkBits markBitsCode
  constructor
  · simp only [Emit.run_bind_eq, ExtractBitRange_code, ShiftLeftP_run, Operand.ofInt]
    cases h64 : cfg.is64 <;>
      simp [ASSERT, LoadRR, lrP, addP, liP, h64, AddP_Register, AddRR, LoadImmP, ShiftLeftP_Register,
        ShiftLeft_Register, hmi, Operand.ofInt]
  · simp only [Emit.run_bind_eq, ExtractBitRange_labels, ShiftLeftP_run, Operand.ofInt]
    cases h64 : cfg.is64 <;>
      simp [ASSERT, LoadRR, lrP, addP, liP, h64, AddP_Register, AddRR, LoadImmP, ShiftLeftP_Register,
        ShiftLeft_Register, hmi, Operand.ofInt, ExtractBitRange_labels]

theorem HasColor_code (cfg : Config) (iso : Isolate) (kHeaderSize : Int)
    (object bm mk : Register) (has_color : Label) (first_bit second_bit : Int) (frame : Bool)
    (c : List Instr) (hmi : mk ≠ ip)
    (hfit : is_int20 kHeaderSize = true) (hfit2 : is_int20 (kHeaderSize + kIntSize) = true)
    (hcode : codeOf (HasColor cfg iso kHeaderSize object bm mk has_color first_bit second_bit)
      frame = some c) :
    c = markBitsCode cfg iso object bm mk ++
      colorTail cfg kHeaderSize bm mk has_color first_bit second_bit := by
  have e : ((HasColor cfg iso kHeaderSize object bm mk has_color first_bit second_bit).run
      ⟨[], 0, frame, false⟩).2.code = markBitsCode cfg iso object bm mk ++
      colorTail cfg kHeaderSize bm mk has_color first_bit second_bit := by
    have hl1 := fun st => LoadlW_run_fits cfg ip bm kHeaderSize st hfit
    have hl2 := fun st => LoadlW_run_fits cfg ip bm (kHeaderSize + kIntSize) st hfit2
    have hb := fun st => AndP_bit_run cfg ip 0 (by decide) (by decide) st
    simp only [pow_zero] at hb
    unfold HasColor colorTail
    simp only [Emit.run_bind_eq, ASSERT, run_newLabel, MemOperand.mk1, hl1, hl2, hb,
      AndP_Register_Register_code, b, beq, bind, run_emit, Emit.run_pure]
    rw [(GetMarkBits_code cfg iso object bm mk _ hmi).1, (GetMarkBits_code cfg iso object bm mk _ hmi).2]
    simp only [List.nil_append, List.append_assoc, List.singleton_append, List.cons_append,
      Nat.zero_add]
  unfold codeOf at hcode
  rw [← e]
  exact (code_of_ite hcode).1
theorem land_low (c x : Nat) (hc : c < 2 ^ 32) : Nat.land c x = Nat.land c (x % 2 ^ 32) := by
  show c &&& x = c &&& (x % 2 ^ 32)
  apply Nat.eq_of_testBit_eq
  intro i
  rw [Nat.testBit_and, Nat.testBit_and, Nat.testBit_mod_two_pow]
  by_cases h : i < 32
  · simp [h]
  · have : c.testBit i = false :=
      Nat.testBit_lt_two_pow (lt_of_lt_of_le hc (Nat.pow_le_pow_right (by decide) (by omega)))
    simp [this]

/-- The conjunction of a 32-bit word with a register of pointer width sees the
low word of the register only. -/
theorem land_cell_regP (cfg : Config) (μ : Machine) (r : Register) (c : Nat) (hc : c < M32) :
    Nat.land c (μ.regP cfg r) = Nat.land c (μ.regs r % M32) := by
  unfold Machine.regP ptrMod
  cases cfg.is64
  · rfl
  · simp only [if_true]
    rw [land_low c _ hc]
    congr 1
    simp only [M64, M32]; omega

theorem effect_loadlW (cfg : Config) (μ : Machine) (d : Register) (op : MemOperand) :
    ((loadlW cfg d op).effect cfg μ).regP cfg d = readBytes cfg μ.mem (effAddr cfg μ op) 4 ∧
    (∀ x, x ≠ d → ((loadlW cfg d op).effect cfg μ).regs x = μ.regs x) ∧
    ((loadlW cfg d op).effect cfg μ).mem = μ.mem ∧
    ((loadlW cfg d op).effect cfg μ).cc = μ.cc ∧
    ((loadlW cfg d op).effect cfg μ).regs d % M32 = readBytes cfg μ.mem (effAddr cfg μ op) 4 := by
  have hlt : readBytes cfg μ.mem (effAddr cfg μ op) 4 < 4294967296 := readBytes_lt cfg μ.mem _ 4
  have hmod : readBytes cfg μ.mem (effAddr cfg μ op) 4 % M32 =
      readBytes cfg μ.mem (effAddr cfg μ op) 4 := Nat.mod_eq_of_lt hlt
  unfold loadlW Machine.regP ptrMod
  cases cfg.is64
  · simp only [Bool.false_eq_true, if_false]
    split
    all_goals
      refine ⟨?_, fun x hx => ?_, rfl, rfl, ?_⟩
      · show (μ.setReg d (setLo32 (μ.regs d) _)).regs d % M32 = _
        rw [setReg_regs_self, setLo32_mod, hmod]
      · show (μ.setReg d _).regs x = _
        exact setReg_regs_ne _ _ _ _ hx
      · show (μ.setReg d (setLo32 (μ.regs d) _)).regs d % M32 = _
        rw [setReg_regs_self, setLo32_mod, hmod]
  · simp only [if_true]
    refine ⟨?_, fun x hx => ?_, rfl, rfl, ?_⟩
    · show (μ.setReg d _).regs d % M64 = _
      rw [setReg_regs_self]
      exact Nat.mod_eq_of_lt (lt_trans hlt (by decide))
    · show (μ.setReg d _).regs x = _
      exact setReg_regs_ne _ _ _ _ hx
    · show (μ.setReg d _).regs d % M32 = _
      rw [setReg_regs_self, hmod]

theorem isStraight_loadlW (cfg : Config) (d : Register) (op : MemOperand) :
    (loadlW cfg d op).isStraight = true := by
  unfold loadlW; split
  · rfl
  · split <;> rfl

theorem boundLabel_loadlW (cfg : Config) (d : Register) (op : MemOperand) :
    (loadlW cfg d op).boundLabel = none := by
  unfold loadlW; split
  · rfl
  · split <;> rfl

/-- The machine after `AndP(r0, ip, mask)`. -/
theorem andTest_facts (cfg : Config) (μ : Machine) (mk : Register) (hm0 : mk ≠ r0) :
    (runStraight cfg (threeRegisterCode AluKind.and cfg.is64 cfg.distinct_ops r0 ip mk) μ).cc =
      logicCC (Nat.land (μ.regP cfg ip) (μ.regP cfg mk)) ∧
    (∀ x, x ≠ r0 →
      (runStraight cfg (threeRegisterCode AluKind.and cfg.is64 cfg.distinct_ops r0 ip mk) μ).regs x =
        μ.regs x) ∧
    (runStraight cfg (threeRegisterCode AluKind.and cfg.is64 cfg.distinct_ops r0 ip mk) μ).mem =
      μ.mem := by
  refine ⟨and_threeRegisterCode_cc cfg μ r0 ip mk (by decide) (Ne.symm hm0),
    (run_threeRegisterCode cfg μ AluKind.and cfg.is64 cfg.distinct_ops r0 ip mk).2, ?_⟩
  unfold threeRegisterCode
  rw [if_neg (by decide), if_pos ⟨by decide, Ne.symm hm0⟩]
  cases cfg.distinct_ops <;> cases cfg.is64 <;> rfl
theorem markBitsCode_all (cfg : Config) (iso : Isolate) (a bm mk : Register) :
    (markBitsCode cfg iso a bm mk).all (fun i => i.isStraight && i.boundLabel.isNone) = true := by
  unfold markBitsCode extractCode shiftPCode shift32Code andImmCode lrP addP liP
  cases cfg.is64 <;> cases cfg.general_instr_ext <;> cases cfg.distinct_ops <;>
    simp only [Bool.false_eq_true, if_false, if_true] <;> (try split_ifs) <;> rfl

theorem markBitsCode_plain (cfg : Config) (iso : Isolate) (a bm mk : Register) :
    (∀ i ∈ markBitsCode cfg iso a bm mk, i.isStraight = true) ∧
    (∀ i ∈ markBitsCode cfg iso a bm mk, i.boundLabel = none) := by
  have h := markBitsCode_all cfg iso a bm mk
  rw [List.all_eq_true] at h
  constructor
  · intro i hi
    have := h i hi
    rw [Bool.and_eq_true] at this
    exact this.1
  · intro i hi
    have := h i hi
    rw [Bool.and_eq_true, Option.isNone_iff_eq_none] at this
    exact this.2

theorem condHolds_ne_not (cc : Nat) : condHolds ne cc = !condHolds eq cc := by
  have h : 3 - cc ≤ 3 := by omega
  unfold condHolds ne eq
  interval_cases (3 - cc) <;> decide

theorem run_straight_le (cfg : Config) (env : Env) (code a rest : List Instr)
    (h : ∀ i ∈ a, i.isStraight = true) (fuel : Nat) (hf : a.length ≤ fuel) (m : Machine)
    (tr : List Event) :
    run cfg env code fuel (a ++ rest) m tr =
      run cfg env code (fuel - a.length) rest (runStraight cfg a m) tr := by
  obtain ⟨k, rfl⟩ := Nat.exists_eq_add_of_le hf
  rw [Nat.add_comm, Nat.add_sub_cancel]
  exact run_straight cfg env code a rest h k m tr

theorem run_one_le (cfg : Config) (env : Env) (code rest : List Instr) (i : Instr)
    (h : i.isStraight = true) (fuel : Nat) (hf : 1 ≤ fuel) (m : Machine) (tr : List Event) :
    run cfg env code fuel (i :: rest) m tr = run cfg env code (fuel - 1) rest (i.effect cfg m) tr :=
  run_straight_le cfg env code [i] rest (straight_cons h straight_nil) fuel hf m tr

theorem run_nil_le (cfg : Config) (env : Env) (code : List Instr) (fuel : Nat) (hf : 1 ≤ fuel)
    (m : Machine) (tr : List Event) :
    run cfg env code fuel [] m tr = some ⟨.fallthrough, m, tr⟩ := by
  obtain ⟨k, rfl⟩ := Nat.exists_eq_add_of_le hf
  rw [Nat.add_comm]; rfl

theorem run_brc_skip (cfg : Config) (env : Env) (code rest : List Instr) (mask : Condition)
    (l : Label) (fuel : Nat) (hf : 1 ≤ fuel) (m : Machine) (tr : List Event)
    (hc : condHolds mask m.cc = false) :
    run cfg env code fuel (Instr.brc mask l :: rest) m tr = run cfg env code (fuel - 1) rest m tr := by
  obtain ⟨k, rfl⟩ := Nat.exists_eq_add_of_le hf
  rw [Nat.add_comm, run_brc, hc, Nat.add_sub_cancel]
  rfl

theorem run_brc_bound (cfg : Config) (env : Env) (code rest r : List Instr) (mask : Condition)
    (l : Label) (fuel : Nat) (hf : 1 ≤ fuel) (m : Machine) (tr : List Event)
    (hc : condHolds mask m.cc = true) (hs : suffixAt l code = some r) :
    run cfg env code fuel (Instr.brc mask l :: rest) m tr = run cfg env code (fuel - 1) r m tr := by
  obtain ⟨k, rfl⟩ := Nat.exists_eq_add_of_le hf
  rw [Nat.add_comm, run_brc, if_pos hc, hs, Nat.add_sub_cancel]

theorem run_brc_leave (cfg : Config) (env : Env) (code rest : List Instr) (mask : Condition)
    (l : Label) (fuel : Nat) (hf : 1 ≤ fuel) (m : Machine) (tr : List Event)
    (hc : condHolds mask m.cc = true) (hs : suffixAt l code = none) :
    run cfg env code fuel (Instr.brc mask l :: rest) m tr = some ⟨.label l, m, tr⟩ := by
  obtain ⟨k, rfl⟩ := Nat.exists_eq_add_of_le hf
  rw [Nat.add_comm, run_brc, if_pos hc, hs]
theorem testBit_zero_of_low (x c : Nat) (h : x % M32 = c) : x.testBit 0 = c.testBit 0 := by
  rw [← h]
  show _ = (x % 2 ^ 32).testBit 0
  rw [Nat.testBit_mod_two_pow]
  simp

theorem base_eq_of_regs (μ ν : Machine) (r : Register) (h : r ≠ r0 → ν.regs r = μ.regs r) :
    ν.base r = μ.base r := by
  unfold Machine.base
  split
  · rfl
  · exact h ‹_›

theorem effAddr_eq_of_regs (cfg : Config) (μ ν : Machine) (r : Register) (off : Int)
    (h : r ≠ r0 → ν.regs r = μ.regs r) :
    effAddr cfg ν ⟨r, r0, off⟩ = effAddr cfg μ ⟨r, r0, off⟩ := by
  unfold effAddr
  rw [base_eq_of_regs μ ν r h]
  rfl

/-- The word-boundary part of `HasColor`: the next cell is loaded and its bit 0
decides. -/
theorem hasColor_boundary (cfg : Config) (env : Env) (code : List Instr) (bm : Register)
    (has : Label) (second_bit off : Int) (μ : Machine)
    (hsuf0 : suffixAt 0 code = some [.bind 0]) (hsufh : suffixAt has code = none)
    (fuel : Nat) (hf : (andBitCode cfg ip 0).length + 5 ≤ fuel) :
    ∃ μ1, run cfg env code fuel
        (.bind 1 :: loadlW cfg ip ⟨bm, r0, off⟩ ::
          (andBitCode cfg ip 0 ++ [.brc (if second_bit = 1 then ne else eq) has, .bind 0])) μ [] =
      some ⟨if ((readBytes cfg μ.mem (effAddr cfg μ ⟨bm, r0, off⟩) 4).testBit 0 = true ↔
          second_bit = 1) then .label has else .fallthrough, μ1, []⟩ := by
  obtain ⟨-, -, -, -, l5⟩ := effect_loadlW cfg μ ip ⟨bm, r0, off⟩
  obtain ⟨b1, -, -⟩ := andBitCode_facts cfg ((loadlW cfg ip ⟨bm, r0, off⟩).effect cfg μ) ip 0
    (by decide) (by decide)
  rw [testBit_zero_of_low _ _ l5] at b1
  rw [run_one_le cfg env code _ (.bind 1) rfl fuel (by omega),
    run_one_le cfg env code _ _ (isStraight_loadlW _ _ _) _ (by omega),
    run_straight_le cfg env code _ _ (isStraight_andBitCode cfg ip 0) _ (by omega)]
  have hid : (Instr.bind 1).effect cfg μ = μ := rfl
  rw [hid]
  generalize runStraight cfg (andBitCode cfg ip 0) ((loadlW cfg ip ⟨bm, r0, off⟩).effect cfg μ) = ν
    at b1 ⊢
  generalize (readBytes cfg μ.mem (effAddr cfg μ ⟨bm, r0, off⟩) 4).testBit 0 = bit at b1 ⊢
  by_cases h2 : second_bit = 1
  · rw [if_pos h2]
    cases bit
    · have hc : condHolds ne ν.cc = false := by rw [condHolds_ne_not, b1]; rfl
      rw [run_brc_skip cfg env code _ _ _ _ (by omega) _ _ hc,
        run_one_le cfg env code _ (.bind 0) rfl _ (by omega), run_nil_le cfg env code _ (by omega)]
      exact ⟨ν, by simp [h2]; rfl⟩
    · have hc : condHolds ne ν.cc = true := by rw [condHolds_ne_not, b1]; rfl
      rw [run_brc_leave cfg env code _ _ _ _ (by omega) _ _ hc hsufh]
      exact ⟨ν, by simp [h2]⟩
  · rw [if_neg h2]
    cases bit
    · have hc : condHolds eq ν.cc = true := by rw [b1]; rfl
      rw [run_brc_leave cfg env code _ _ _ _ (by omega) _ _ hc hsufh]
      exact ⟨ν, by simp [h2]⟩
    · have hc : condHolds eq ν.cc = false := by rw [b1]; rfl
      rw [run_brc_skip cfg env code _ _ _ _ (by omega) _ _ hc,
        run_one_le cfg env code _ (.bind 0) rfl _ (by omega), run_nil_le cfg env code _ (by omega)]
      exact ⟨ν, by simp [h2]; rfl⟩
theorem colorTail_eq (cfg : Config) (kH : Int) (bm mk : Register) (has : Label)
    (first_bit second_bit : Int) :
    colorTail cfg kH bm mk has first_bit second_bit =
      loadlW cfg ip ⟨bm, r0, kH⟩ ::
        (threeRegisterCode AluKind.and cfg.is64 cfg.distinct_ops r0 ip mk ++
          (.brc (if first_bit = 1 then eq else ne) 0 :: .sll mk 1 :: .brc eq 1 ::
            (threeRegisterCode AluKind.and cfg.is64 cfg.distinct_ops r0 ip mk ++
              (.brc (if second_bit = 1 then ne else eq) has :: .brc al 0 ::
                (.bind 1 :: loadlW cfg ip ⟨bm, r0, kH + kIntSize⟩ ::
                  (andBitCode cfg ip 0 ++
                    [.brc (if second_bit = 1 then ne else eq) has, .bind 0])))))) := rfl

theorem suffixAt_colorTail (cfg : Config) (kH : Int) (bm mk : Register) (has : Label)
    (first_bit second_bit : Int) (P : List Instr) (hP : ∀ i ∈ P, i.boundLabel = none) (l : Label) :
    suffixAt l (P ++ colorTail cfg kH bm mk has first_bit second_bit) =
      if l = 1 then
        some (.bind 1 :: loadlW cfg ip ⟨bm, r0, kH + kIntSize⟩ ::
          (andBitCode cfg ip 0 ++ [.brc (if second_bit = 1 then ne else eq) has, .bind 0]))
      else if l = 0 then some [.bind 0] else none := by
  have hA := boundLabel_threeRegisterCode AluKind.and cfg.is64 cfg.distinct_ops r0 ip mk
  rw [suffixAt_skip l _ _ hP, colorTail_eq, suffixAt_cons, boundLabel_loadlW,
    if_neg (by simp), suffixAt_skip l _ _ hA, suffixAt_cons, if_neg (by simp [Instr.boundLabel]),
    suffixAt_cons, if_neg (by simp [Instr.boundLabel]),
    suffixAt_cons, if_neg (by simp [Instr.boundLabel]), suffixAt_skip l _ _ hA,
    suffixAt_cons, if_neg (by simp [Instr.boundLabel]),
    suffixAt_cons, if_neg (by simp [Instr.boundLabel]), suffixAt_cons]
  by_cases h1 : l = 1
  · subst h1
    rw [if_pos rfl]; exact if_pos rfl
  · rw [if_neg (by simp [Instr.boundLabel]; exact fun h => h1 h.symm), if_neg h1, suffixAt_cons,
      boundLabel_loadlW, if_neg (by simp),
      suffixAt_skip l _ _ (boundLabel_andBitCode cfg ip 0), suffixAt_cons,
      if_neg (by simp [Instr.boundLabel]), suffixAt_cons]
    by_cases h0 : l = 0
    · subst h0
      rw [if_pos rfl]; exact if_pos rfl
    · rw [if_neg (by simp [Instr.boundLabel]; exact fun h => h0 h.symm), if_neg h0]
      rfl

theorem sll_one_low (cfg : Config) (μ : Machine) (mk : Register) :
    ((Instr.sll mk 1).effect cfg μ).regs mk % M32 = μ.regs mk % M32 * 2 % M32 ∧
    (∀ x, x ≠ mk → ((Instr.sll mk 1).effect cfg μ).regs x = μ.regs x) ∧
    ((Instr.sll mk 1).effect cfg μ).mem = μ.mem ∧ ((Instr.sll mk 1).effect cfg μ).cc = μ.cc := by
  have e : (Instr.sll mk 1).effect cfg μ =
      μ.setReg mk (setLo32 (μ.regs mk) (lo32 (μ.regs mk) * 2 ^ 1)) := rfl
  rw [e]
  refine ⟨?_, fun x hx => setReg_regs_ne _ _ _ _ hx, rfl, rfl⟩
  rw [setReg_regs_self, setLo32_mod, pow_one]
  rfl
/-- The tests of `HasColor` after `GetMarkBits`: with `first_bit = 1` the second
test uses the mask shifted within its 32-bit word and the cell already loaded;
otherwise the second test reads bit 0 of the next cell. -/
theorem hasColor_tail (cfg : Config) (env : Env) (code P : List Instr) (kH : Int)
    (bm mk : Register) (has : Label) (first_bit second_bit : Int) (μ : Machine)
    (hbi : bm ≠ ip) (hmi : mk ≠ ip) (hm0 : mk ≠ r0) (hbm : bm ≠ mk) (hl : 2 ≤ has)
    (hP : ∀ i ∈ P, i.boundLabel = none)
    (hc : code = P ++ colorTail cfg kH bm mk has first_bit second_bit)
    (fuel : Nat)
    (hf : 2 * (threeRegisterCode AluKind.and cfg.is64 cfg.distinct_ops r0 ip mk).length +
      (andBitCode cfg ip 0).length + 10 ≤ fuel) :
    ∃ μ1, run cfg env code fuel (colorTail cfg kH bm mk has first_bit second_bit) μ [] =
      some ⟨if (if first_bit = 1 then
            (Nat.land (readBytes cfg μ.mem (effAddr cfg μ ⟨bm, r0, kH⟩) 4) (μ.regs mk % M32) ≠ 0 ∧
              (Nat.land (readBytes cfg μ.mem (effAddr cfg μ ⟨bm, r0, kH⟩) 4)
                (μ.regs mk % M32 * 2 % M32) ≠ 0 ↔ second_bit = 1))
          else
            (Nat.land (readBytes cfg μ.mem (effAddr cfg μ ⟨bm, r0, kH⟩) 4) (μ.regs mk % M32) = 0 ∧
              ((readBytes cfg μ.mem (effAddr cfg μ ⟨bm, r0, kH + kIntSize⟩) 4).testBit 0 = true ↔
                second_bit = 1)))
        then .label has else .fallthrough, μ1, []⟩ := by
  have hsuf := suffixAt_colorTail cfg kH bm mk has first_bit second_bit P hP
  rw [← hc] at hsuf
  have hsuf0 : suffixAt 0 code = some [.bind 0] := by rw [hsuf 0]; rfl
  have hsuf1 := hsuf 1
  rw [if_pos rfl] at hsuf1
  have hsufh : suffixAt has code = none := by
    have n1 : has ≠ 1 := fun h => by rw [h] at hl; exact absurd hl (by decide)
    have n0 : has ≠ 0 := fun h => by rw [h] at hl; exact absurd hl (by decide)
    rw [hsuf has, if_neg n1, if_neg n0]
  have sA := (threeRegisterCode_facts AluKind.and cfg.is64 cfg.distinct_ops r0 ip mk).1
  -- the first cell
  obtain ⟨l1, l2, l3, -, -⟩ := effect_loadlW cfg μ ip ⟨bm, r0, kH⟩
  have hcell : readBytes cfg μ.mem (effAddr cfg μ ⟨bm, r0, kH⟩) 4 < M32 := readBytes_lt cfg μ.mem _ 4
  generalize readBytes cfg μ.mem (effAddr cfg μ ⟨bm, r0, kH⟩) 4 = cell at l1 hcell ⊢
  -- the first test
  obtain ⟨a1, a2, a3⟩ := andTest_facts cfg ((loadlW cfg ip ⟨bm, r0, kH⟩).effect cfg μ) mk hm0
  rw [l1, land_cell_regP cfg _ mk cell hcell, l2 mk hmi] at a1
  rw [colorTail_eq, run_one_le cfg env code _ _ (isStraight_loadlW _ _ _) fuel (by omega),
    run_straight_le cfg env code _ _ sA _ (by omega)]
  have r_ip : (runStraight cfg (threeRegisterCode AluKind.and cfg.is64 cfg.distinct_ops r0 ip mk)
      ((loadlW cfg ip ⟨bm, r0, kH⟩).effect cfg μ)).regP cfg ip = cell := by
    rw [← l1]
    show _ % _ = _ % _
    rw [a2 ip (by decide)]
  have r_mk := (a2 mk hm0).trans (l2 mk hmi)
  have r_bm : bm ≠ r0 → (runStraight cfg
      (threeRegisterCode AluKind.and cfg.is64 cfg.distinct_ops r0 ip mk)
      ((loadlW cfg ip ⟨bm, r0, kH⟩).effect cfg μ)).regs bm = μ.regs bm :=
    fun h => (a2 bm h).trans (l2 bm hbi)
  have r_mem := a3.trans l3
  generalize runStraight cfg (threeRegisterCode AluKind.and cfg.is64 cfg.distinct_ops r0 ip mk)
    ((loadlW cfg ip ⟨bm, r0, kH⟩).effect cfg μ) = μ2 at a1 r_ip r_mk r_bm r_mem ⊢
  obtain ⟨s1, s2, s3, s4⟩ := sll_one_low cfg μ2 mk
  by_cases h1 : first_bit = 1
  · simp only [h1, if_true]
    by_cases hz : Nat.land cell (μ.regs mk % M32) = 0
    · -- the first bit is clear: other_color
      have hcc : condHolds eq μ2.cc = true := by rw [a1, condHolds_eq_logicCC]; exact decide_eq_true hz
      rw [run_brc_bound cfg env code _ _ _ _ _ (by omega) _ _ hcc hsuf0,
        run_one_le cfg env code _ (.bind 0) rfl _ (by omega), run_nil_le cfg env code _ (by omega)]
      refine ⟨μ2, ?_⟩
      rw [if_neg (fun h => h.1 hz)]
      rfl
    · have hcc : condHolds eq μ2.cc = false := by
        rw [a1, condHolds_eq_logicCC]; exact decide_eq_false hz
      have hcc2 : condHolds eq ((Instr.sll mk 1).effect cfg μ2).cc = false := by rw [s4]; exact hcc
      rw [run_brc_skip cfg env code _ _ _ _ (by omega) _ _ hcc,
        run_one_le cfg env code _ (.sll mk 1) rfl _ (by omega),
        run_brc_skip cfg env code _ _ _ _ (by omega) _ _ hcc2,
        run_straight_le cfg env code _ _ sA _ (by omega)]
      obtain ⟨b1, -, -⟩ := andTest_facts cfg ((Instr.sll mk 1).effect cfg μ2) mk hm0
      have e_ip : ((Instr.sll mk 1).effect cfg μ2).regP cfg ip = cell := by
        rw [← r_ip]
        show _ % _ = _ % _
        rw [s2 ip (Ne.symm hmi)]
      rw [e_ip, land_cell_regP cfg _ mk cell hcell, s1, r_mk] at b1
      generalize runStraight cfg (threeRegisterCode AluKind.and cfg.is64 cfg.distinct_ops r0 ip mk)
        ((Instr.sll mk 1).effect cfg μ2) = μ4 at b1 ⊢
      by_cases h2 : second_bit = 1
      · simp only [h2, if_true, iff_true]
        by_cases hz2 : Nat.land cell (μ.regs mk % M32 * 2 % M32) = 0
        · have hc4 : condHolds ne μ4.cc = false := by
            rw [b1]
            exact Bool.eq_false_iff.2 (fun h => (condHolds_ne_logicCC _).1 h hz2)
          rw [run_brc_skip cfg env code _ _ _ _ (by omega) _ _ hc4,
            run_brc_bound cfg env code _ _ _ _ _ (by omega) _ _ (condHolds_al _) hsuf0,
            run_one_le cfg env code _ (.bind 0) rfl _ (by omega),
            run_nil_le cfg env code _ (by omega)]
          refine ⟨μ4, ?_⟩
          rw [if_neg (fun h => h.2 hz2)]
          rfl
        · have hc4 : condHolds ne μ4.cc = true := by
            rw [b1]; exact (condHolds_ne_logicCC _).2 hz2
          rw [run_brc_leave cfg env code _ _ _ _ (by omega) _ _ hc4 hsufh]
          exact ⟨μ4, by rw [if_pos ⟨hz, hz2⟩]⟩
      · simp only [h2, if_false, iff_false, not_not]
        by_cases hz2 : Nat.land cell (μ.regs mk % M32 * 2 % M32) = 0
        · have hc4 : condHolds eq μ4.cc = true := by
            rw [b1, condHolds_eq_logicCC]; exact decide_eq_true hz2
          rw [run_brc_leave cfg env code _ _ _ _ (by omega) _ _ hc4 hsufh]
          exact ⟨μ4, by rw [if_pos ⟨hz, hz2⟩]⟩
        · have hc4 : condHolds eq μ4.cc = false := by
            rw [b1, condHolds_eq_logicCC]; exact decide_eq_false hz2
          rw [run_brc_skip cfg env code _ _ _ _ (by omega) _ _ hc4,
            run_brc_bound cfg env code _ _ _ _ _ (by omega) _ _ (condHolds_al _) hsuf0,
            run_one_le cfg env code _ (.bind 0) rfl _ (by omega),
            run_nil_le cfg env code _ (by omega)]
          refine ⟨μ4, ?_⟩
          rw [if_neg (fun h => hz2 h.2)]
          rfl
  · simp only [h1, if_false]
    by_cases hz : Nat.land cell (μ.regs mk % M32) = 0
    · -- the first bit is clear: the branch to word_boundary is taken
      have hcc : condHolds ne μ2.cc = false := by
        rw [a1]
        exact Bool.eq_false_iff.2 (fun h => (condHolds_ne_logicCC _).1 h hz)
      have hcc2 : condHolds eq ((Instr.sll mk 1).effect cfg μ2).cc = true := by
        rw [s4, a1, condHolds_eq_logicCC]; exact decide_eq_true hz
      rw [run_brc_skip cfg env code _ _ _ _ (by omega) _ _ hcc,
        run_one_le cfg env code _ (.sll mk 1) rfl _ (by omega),
        run_brc_bound cfg env code _ _ _ _ _ (by omega) _ _ hcc2 hsuf1]
      obtain ⟨μ1, hb⟩ := hasColor_boundary cfg env code bm has second_bit (kH + kIntSize)
        ((Instr.sll mk 1).effect cfg μ2) hsuf0 hsufh (fuel - 1 -
          (threeRegisterCode AluKind.and cfg.is64 cfg.distinct_ops r0 ip mk).length - 1 - 1 - 1)
        (by omega)
      have ea : effAddr cfg ((Instr.sll mk 1).effect cfg μ2) ⟨bm, r0, kH + kIntSize⟩ =
          effAddr cfg μ ⟨bm, r0, kH + kIntSize⟩ :=
        effAddr_eq_of_regs cfg μ _ bm _ (fun h => (s2 bm hbm).trans (r_bm h))
      rw [ea, s3, r_mem] at hb
      refine ⟨μ1, ?_⟩
      rw [hb]
      simp only [hz, true_and]
    · have hcc : condHolds ne μ2.cc = true := by
        rw [a1]; exact (condHolds_ne_logicCC _).2 hz
      rw [run_brc_bound cfg env code _ _ _ _ _ (by omega) _ _ hcc hsuf0,
        run_one_le cfg env code _ (.bind 0) rfl _ (by omega), run_nil_le cfg env code _ (by omega)]
      refine ⟨μ2, ?_⟩
      rw [if_neg (fun h => hz h.1)]
      rfl
theorem outcome_ite (D : Prop) [Decidable D] (l : Label) (μ : Machine) :
    ∃ f : Final, some (⟨if D then .label l else .fallthrough, μ, []⟩ : Final) = some f ∧
      f.trace = [] ∧ (f.outcome = .label l ∨ f.outcome = .fallthrough) ∧
      (f.outcome = .label l ↔ D) := by
  refine ⟨_, rfl, rfl, ?_, ?_⟩
  · dsimp only
    split
    · exact Or.inl rfl
    · exact Or.inr rfl
  · dsimp only
    split
    · rename_i hd
      exact ⟨fun _ => hd, fun _ => rfl⟩
    · rename_i hd
      exact ⟨fun h => Outcome.noConfusion h, fun h => absurd h hd⟩

/-- C34: the code of `HasColor` always ends, in a branch to `has_color` or by
falling through, and branches exactly as follows, where the cell and the mask
are those that `GetMarkBits` has selected.  With `first_bit = 1`: the first mark
bit is set, and the conjunction of the same cell with the mask shifted left
within its 32-bit word is non-zero exactly when `second_bit = 1`; the next cell
is never read.  Otherwise: the first mark bit is clear and bit 0 of the next
cell equals `second_bit`, whether or not the first mark bit is the last bit of
its cell. -/
theorem HasColor_spec (cfg : Config) (iso : Isolate) (env : Env) (m : Machine) (kHeaderSize : Int)
    (object bitmap_scratch mask_scratch : Register) (has_color : Label)
    (first_bit second_bit : Int) (frame : Bool) (c : List Instr)
    (hbi : bitmap_scratch ≠ ip) (hmi : mask_scratch ≠ ip) (hm0 : mask_scratch ≠ r0)
    (hbm : bitmap_scratch ≠ mask_scratch) (hl : 2 ≤ has_color)
    (hfit : is_int20 kHeaderSize = true) (hfit2 : is_int20 (kHeaderSize + kIntSize) = true)
    (hcode : codeOf (HasColor cfg iso kHeaderSize object bitmap_scratch mask_scratch has_color
      first_bit second_bit) frame = some c) :
    ∃ f, exec cfg env c (c.length + 1) m = some f ∧ f.trace = [] ∧
      (f.outcome = .label has_color ∨ f.outcome = .fallthrough) ∧
      (f.outcome = .label has_color ↔
        if first_bit = 1 then
          Nat.land
              (markCell cfg (runStraight cfg (markBitsCode cfg iso object bitmap_scratch
                mask_scratch) m) bitmap_scratch kHeaderSize)
              ((runStraight cfg (markBitsCode cfg iso object bitmap_scratch mask_scratch) m).regs
                mask_scratch % M32) ≠ 0 ∧
            (Nat.land
              (markCell cfg (runStraight cfg (markBitsCode cfg iso object bitmap_scratch
                mask_scratch) m) bitmap_scratch kHeaderSize)
              ((runStraight cfg (markBitsCode cfg iso object bitmap_scratch mask_scratch) m).regs
                mask_scratch % M32 * 2 % M32) ≠ 0 ↔ second_bit = 1)
        else
          Nat.land
              (markCell cfg (runStraight cfg (markBitsCode cfg iso object bitmap_scratch
                mask_scratch) m) bitmap_scratch kHeaderSize)
              ((runStraight cfg (markBitsCode cfg iso object bitmap_scratch mask_scratch) m).regs
                mask_scratch % M32) = 0 ∧
            ((markCell cfg (runStraight cfg (markBitsCode cfg iso object bitmap_scratch
                mask_scratch) m) bitmap_scratch (kHeaderSize + kIntSize)).testBit 0 = true ↔
              second_bit = 1)) := by
  have hc := HasColor_code cfg iso kHeaderSize object bitmap_scratch mask_scratch has_color
    first_bit second_bit frame c hmi hfit hfit2 hcode
  obtain ⟨sP, lP⟩ := markBitsCode_plain cfg iso object bitmap_scratch mask_scratch
  have hlen : c.length = (markBitsCode cfg iso object bitmap_scratch mask_scratch).length +
      (2 * (threeRegisterCode AluKind.and cfg.is64 cfg.distinct_ops r0 ip mask_scratch).length +
        (andBitCode cfg ip 0).length + 10) := by
    rw [hc, colorTail_eq]
    simp only [List.length_append, List.length_cons, List.length_nil]
    omega
  obtain ⟨μ1, h⟩ := hasColor_tail cfg env c _ kHeaderSize bitmap_scratch mask_scratch has_color
    first_bit second_bit (runStraight cfg (markBitsCode cfg iso object bitmap_scratch mask_scratch) m)
    hbi hmi hm0 hbm hl lP hc
    (c.length + 1 - (markBitsCode cfg iso object bitmap_scratch mask_scratch).length) (by omega)
  have hrun : exec cfg env c (c.length + 1) m =
      run cfg env c (c.length + 1 - (markBitsCode cfg iso object bitmap_scratch mask_scratch).length)
        (colorTail cfg kHeaderSize bitmap_scratch mask_scratch has_color first_bit second_bit)
        (runStraight cfg (markBitsCode cfg iso object bitmap_scratch mask_scratch) m) [] := by
    unfold exec
    nth_rewrite 3 [hc]
    exact run_straight_le cfg env c _ _ sP _ (by omega) m []
  rw [hrun, h]
  unfold markCell
  exact outcome_ite _ has_color μ1

/-- C34: `JumpIfBlack` on the 64-bit target for the object at `0x1000F8`, whose
first mark bit is bit 31 of the cell at `0x100100` and whose second mark bit is
bit 0 of the cell at `0x100104`.  Both bits are set (the cells hold
`0x80000000` and 1), so the object is not black, and the code branches to
`on_black`; the mask register ends with a zero low word. -/
theorem JumpIfBlack_cell_boundary_reports_black :
    (readBytes cfg64 greyMachine.mem 0x100100 4, readBytes cfg64 greyMachine.mem 0x100104 4) =
      (0x80000000, 1) ∧
    (codeOf (JumpIfBlack cfg64 (sampleIsolate cfg64) 256 r2 r3 r4 2) false).bind
        (fun c => (exec cfg64 sampleEnv c (c.length + 1) greyMachine).map
          (fun f => (f.outcome, f.machine.regs r3, f.machine.regs r4, f.machine.regs ip))) =
      some (.label 2, 0x100000, 0, 0x80000000) := by
  decide

/-- C34 on concrete input: `JumpIfBlack` on the 64-bit target from
`greyMachine`. -/
theorem HasColor_spec_witness :
    ∃ c, codeOf (HasColor cfg64 (sampleIsolate cfg64) 256 r2 r3 r4 2 1 0) false = some c ∧
      ∃ f, exec cfg64 sampleEnv c (c.length + 1) greyMachine = some f ∧ f.trace = [] ∧
        (f.outcome = .label 2 ∨ f.outcome = .fallthrough) :=
  ⟨_, rfl, (HasColor_spec cfg64 (sampleIsolate cfg64) sampleEnv greyMachine 256 r2 r3 r4 2 1 0 false _
    (by decide) (by decide) (by decide) (by decide) (by decide) (by decide) (by decide) rfl).imp
    (fun _ h => ⟨h.1, h.2.1, h.2.2.1⟩)⟩

end S390
